import Mathlib

/-!
ArchSimulator-Modified: a verification development.

Shallow embedding of the simulator's C++ sources and theorems about it.

* `MultilevelCache` embeds `src/Multilevel_cache_CLDEMOTE` (`cache.h`, `cache.cc`,
  `memory.cc`, `byte_addressable.h`, `memory_manager.cc`).
* `TrapHandling` embeds the decoder and the executor of `src/Trap_Handling/riscv.cc`
  (`DecodeInst`, `ExecuteInst`, `HandleSystemCall`).

Conventions.  Machine integers are natural numbers, reduced modulo `2^32` / `2^64`
where the C++ arithmetic can wrap.  A C++ exception is an `Except.error`.  The mutually
recursive cache routines take a `fuel` argument that bounds the depth of the call
stack; running out of it is reported as `Fault.out_of_fuel`, which is not a behaviour
of the C++ code.  Pointers into the cache (`CacheLine*`) are `LinePtr` coordinates
(level, set index, way); a `std::span` over a cache line is kept as a reference and
read at the moment the C++ code reads it.  Trace logging (`Log`) writes to a file
only and is left out.
-/

namespace MultilevelCache

/-! ## Machine words -/

/-- Reduction of a natural number to an unsigned 32-bit word. -/
def u32 (n : Nat) : Nat := n % 2 ^ 32

/-- Reduction of a natural number to an unsigned 64-bit word. -/
def u64 (n : Nat) : Nat := n % 2 ^ 64

/-- Ways in which a call can end without returning normally. -/
inductive Fault where
  /-- `Memory::CheckAddr` threw "Invalid memory access". -/
  | invalid_memory_access
  /-- `HandleWrite` threw "Cache logic error: Line not found after Write-Allocate". -/
  | cache_logic_error
  /-- `std_log2` threw "Cache size/line size/associativity is not a power of 2". -/
  | not_power_of_two
  /-- The constructor threw "Cache associativity or line size cannot be zero." -/
  | zero_assoc_or_line
  /-- The constructor threw "Cache size is too small for given parameters." -/
  | size_too_small
  /-- Integer division by zero (no C++ exception: the process is killed). -/
  | division_by_zero
  /-- The loop of `std_log2` never exits (its `power` wrapped around to zero). -/
  | hangs
  /-- A vector was indexed outside its bounds (undefined behaviour in C++). -/
  | out_of_bounds
  /-- The model's recursion budget was used up (not a behaviour of the code). -/
  | out_of_fuel
  deriving DecidableEq, Repr

deriving instance DecidableEq for Except

/-- The effect of `std::memcpy(dst + off, src, src.size())` on the bytes of `dst`. -/
def memcpy (dst : List Nat) (off : Nat) (src : List Nat) : List Nat :=
  dst.take off ++ src ++ dst.drop (off + src.length)

/-! ## `options.h` -/

inductive WritePolicy where
  | WBWA
  deriving DecidableEq, Repr

inductive InclusionPolicy where
  | Inclusive
  | Exclusive
  deriving DecidableEq, Repr

inductive ReplacementPolicy where
  | LRU
  | Random
  deriving DecidableEq, Repr

/-- Configuration for a single cache level (`struct CacheLevelConfig`). -/
structure CacheLevelConfig where
  size : Nat := 32 * 1024
  associativity : Nat := 4
  line_size : Nat := 64
  latency : Nat := 4
  replacement_policy : ReplacementPolicy := ReplacementPolicy.LRU
  deriving DecidableEq, Repr

/-- The fields of `struct Options` that the memory system reads. -/
structure Options where
  memory_size : Nat := 100 * 1024 * 1024
  enable_cache : Bool := false
  write_policy : WritePolicy := WritePolicy.WBWA
  inclusion_policy : InclusionPolicy := InclusionPolicy.Inclusive
  cache_levels : List CacheLevelConfig := []
  enable_latency : Bool := false
  memory_latency : Nat := 100
  deriving DecidableEq, Repr

/-! ## `memory.cc`: the backing store -/

/-- The class `Memory`: a byte arena. -/
structure Memory where
  arena_ : List Nat
  deriving DecidableEq, Repr

/-- The constructor `Memory(size)`: `size` zero bytes. -/
def Memory.new (size : Nat) : Memory := ⟨List.replicate size 0⟩

/-- The method `Memory::CheckAddr`: throws when `addr + len >= arena_.size()`. -/
def Memory.CheckAddr (m : Memory) (addr len : Nat) : Except Fault Unit :=
  if addr + len ≥ m.arena_.length then .error Fault.invalid_memory_access else .ok ()

/-- The method `Memory::ReadSpan`; `addr` is a `uint32_t`, `len` is `out.size()`. -/
def Memory.ReadSpan (m : Memory) (addr len : Nat) : Except Fault (List Nat) :=
  match m.CheckAddr addr len with
  | .error e => .error e
  | .ok _ => .ok ((m.arena_.drop addr).take len)

/-- The method `Memory::WriteSpan`; `addr` is a `uint32_t`. -/
def Memory.WriteSpan (m : Memory) (addr : Nat) (inp : List Nat) : Except Fault Memory :=
  match m.CheckAddr addr inp.length with
  | .error e => .error e
  | .ok _ => .ok ⟨memcpy m.arena_ addr inp⟩

/-! ## `cache.h` -/

/-- The loop of `std_log2`: `while (power < val) { power *= 2; log++; }` on a `uint64_t`
`power` and a `uint32_t` `log`.  `none` when the budget of iterations is used up. -/
def std_log2_loop (val : Nat) : Nat → Nat → Nat → Option (Nat × Nat)
  | 0, _, _ => none
  | n + 1, power, log =>
    if power < val then std_log2_loop val n (u64 (power * 2)) (u32 (log + 1))
    else some (power, log)

/-- The function `std_log2`.  The loop is run for at most 65 tests: after 64 doublings
`power` has wrapped to `0`, stays `0`, and the loop can no longer exit. -/
def std_log2 (val : Nat) : Except Fault Nat :=
  if val = 0 then .ok 0
  else if val = 1 then .ok 0
  else
    match std_log2_loop val 65 1 0 with
    | none => .error Fault.hangs
    | some (power, log) =>
      if power ≠ val then .error Fault.not_power_of_two else .ok log

structure CacheStats where
  accesses : Nat := 0
  hits : Nat := 0
  misses : Nat := 0
  evictions : Nat := 0
  writebacks : Nat := 0
  deriving DecidableEq, Repr

structure CacheLine where
  valid : Bool := false
  dirty : Bool := false
  tag : Nat := 0
  data : List Nat
  lru_timestamp : Nat := 0
  deriving DecidableEq, Repr

/-- The constructor `CacheLine(line_size)`. -/
def CacheLine.new (line_size : Nat) : CacheLine := { data := List.replicate line_size 0 }

/-- Position of the first element satisfying `p`: the C++ range-for loops that return
a pointer to the first matching line. -/
def firstIdx (p : CacheLine → Bool) : List CacheLine → Option Nat
  | [] => none
  | l :: ls => if p l then some 0 else (firstIdx p ls).map (· + 1)

/-- The element `lines_[i]` (a default line outside the bounds, where C++ is undefined). -/
def lineAt (lines : List CacheLine) (i : Nat) : CacheLine :=
  lines.getD i (CacheLine.new 0)

structure CacheSet where
  assoc_ : Nat
  line_size_ : Nat
  replacement_policy_ : ReplacementPolicy
  lines_ : List CacheLine
  deriving DecidableEq, Repr

/-- The constructor `CacheSet(associativity, line_size, policy)`. -/
def CacheSet.new (associativity line_size : Nat) (policy : ReplacementPolicy) : CacheSet :=
  { assoc_ := associativity, line_size_ := line_size, replacement_policy_ := policy,
    lines_ := List.replicate associativity (CacheLine.new line_size) }

/-- The method `CacheSet::Find`: the way of the first valid line with this tag. -/
def CacheSet.Find (s : CacheSet) (tag : Nat) : Option Nat :=
  firstIdx (fun line => line.valid && line.tag == tag) s.lines_

/-- The LRU scan of `CacheSet::FindVictim`:
`for (i = 1; i < assoc_; ++i) if (lines_[i].lru_timestamp < victim->lru_timestamp) victim = &lines_[i];`
started with `victim = &lines_[0]`. -/
def CacheSet.lruVictim (s : CacheSet) : Nat :=
  (List.range' 1 (s.assoc_ - 1)).foldl
    (fun victim i =>
      if (lineAt s.lines_ i).lru_timestamp < (lineAt s.lines_ victim).lru_timestamp
      then i else victim) 0

/-- The method `CacheSet::FindVictim`, returning the way of the chosen line.  `rnd` is the
value `std::rand()` returns if it is called. -/
def CacheSet.FindVictim (s : CacheSet) (_current_cycle : Nat) (rnd : Nat) : Nat :=
  match firstIdx (fun line => !line.valid) s.lines_ with
  | some i => i
  | none =>
    match s.replacement_policy_ with
    | ReplacementPolicy.Random => rnd % s.assoc_
    | ReplacementPolicy.LRU => s.lruVictim

/-- Whether `CacheSet::FindVictim` calls `std::rand()`. -/
def CacheSet.drawsRandom (s : CacheSet) : Bool :=
  (firstIdx (fun line => !line.valid) s.lines_).isNone &&
    decide (s.replacement_policy_ = ReplacementPolicy.Random)

/-- The class `CacheLevel` (its `current_cycle_` pointer is never read and is left out). -/
structure CacheLevel where
  stats_ : CacheStats := {}
  config_ : CacheLevelConfig
  num_sets_ : Nat := 0
  index_bits_ : Nat := 0
  offset_bits_ : Nat := 0
  tag_bits_ : Nat := 0
  sets_ : List CacheSet := []
  deriving DecidableEq, Repr

/-- The constructor `CacheLevel(config, cycle_ptr)`, for a configuration whose fields are
`size_t` values. -/
def CacheLevel.new (config : CacheLevelConfig) : Except Fault CacheLevel :=
  match std_log2 config.line_size with
  | .error e => .error e
  | .ok offset_bits =>
    if config.associativity = 0 ∨ config.line_size = 0 then .error Fault.zero_assoc_or_line
    else if u64 (config.associativity * config.line_size) = 0 then
      .error Fault.division_by_zero
    else
      let num_sets := config.size / u64 (config.associativity * config.line_size)
      if num_sets = 0 then .error Fault.size_too_small
      else
        match std_log2 num_sets with
        | .error e => .error e
        | .ok index_bits =>
          .ok { stats_ := {}, config_ := config, num_sets_ := num_sets,
                index_bits_ := index_bits, offset_bits_ := offset_bits,
                tag_bits_ := u32 (2 ^ 32 + 2 ^ 32 + 32 - index_bits - offset_bits),
                sets_ := List.replicate num_sets
                  (CacheSet.new config.associativity config.line_size
                    config.replacement_policy) }

def CacheLevel.GetTag (lv : CacheLevel) (addr : Nat) : Nat :=
  addr >>> u32 (lv.index_bits_ + lv.offset_bits_)

def CacheLevel.GetIndex (lv : CacheLevel) (addr : Nat) : Nat :=
  (addr >>> lv.offset_bits_) &&& u64 (lv.num_sets_ + 2 ^ 64 - 1)

def CacheLevel.GetOffset (lv : CacheLevel) (addr : Nat) : Nat :=
  addr &&& u64 (lv.config_.line_size + 2 ^ 64 - 1)

def CacheLevel.GetAddr (lv : CacheLevel) (tag index : Nat) : Nat :=
  u64 (tag <<< u32 (lv.index_bits_ + lv.offset_bits_)) ||| u64 (index <<< lv.offset_bits_)

/-- The set `sets_[index]` (an empty set outside the bounds, where C++ is undefined). -/
def CacheLevel.setAt (lv : CacheLevel) (index : Nat) : CacheSet :=
  lv.sets_.getD index (CacheSet.new 0 0 ReplacementPolicy.LRU)

/-- The line `sets_[index].lines_[way]`. -/
def CacheLevel.lineAt (lv : CacheLevel) (index way : Nat) : CacheLine :=
  MultilevelCache.lineAt (lv.setAt index).lines_ way

/-- An assignment through a `CacheLine*` that points at `sets_[index].lines_[way]`. -/
def CacheLevel.modifyLine (lv : CacheLevel) (index way : Nat) (f : CacheLine → CacheLine) :
    CacheLevel :=
  { lv with sets_ := lv.sets_.modify (fun s => { s with lines_ := s.lines_.modify f way }) index }

/-- The method `CacheLevel::Find`: the way of the line holding `addr`, if any (the tag and
index it also reports are `GetTag addr` and `GetIndex addr`). -/
def CacheLevel.Find (lv : CacheLevel) (addr : Nat) : Option Nat :=
  (lv.setAt (lv.GetIndex addr)).Find (lv.GetTag addr)

/-- The method `CacheLevel::UpdateLRU` on the line at `(index, way)`. -/
def CacheLevel.UpdateLRU (lv : CacheLevel) (index way : Nat) (current_cycle : Nat) : CacheLevel :=
  if lv.config_.replacement_policy = ReplacementPolicy.LRU then
    lv.modifyLine index way (fun l => { l with lru_timestamp := current_cycle })
  else lv

/-- The method `CacheLevel::Allocate`.  Returns the level, the heap copy of the victim
(`none` for `nullptr`) and the way of the line that was handed out. -/
def CacheLevel.Allocate (lv : CacheLevel) (addr : Nat) (current_cycle : Nat) (rnd : Nat) :
    CacheLevel × Option CacheLine × Nat :=
  let index := lv.GetIndex addr
  let tag := lv.GetTag addr
  let way := (lv.setAt index).FindVictim current_cycle rnd
  let victim := lv.lineAt index way
  let victim_line_out := if victim.valid then some victim else none
  let lv1 := lv.modifyLine index way (fun l => { l with valid := true, dirty := false, tag := tag })
  (lv1.UpdateLRU index way current_cycle, victim_line_out, way)

/-! ## `cache.h` / `cache.cc`: the tiered cache -/

/-- A `CacheLine*` into the hierarchy: `levels_[level]->sets_[index].lines_[way]`. -/
structure LinePtr where
  level : Nat
  index : Nat
  way : Nat
  deriving DecidableEq, Repr

/-- The `victim_line` argument of `Evict`: a heap copy made by `Allocate`, or a pointer to
a line that is still in the cache (`BackInvalidate`, `Demote`). -/
inductive LineRef where
  | copy (line : CacheLine)
  | slot (p : LinePtr)
  deriving DecidableEq, Repr

/-- A `std::span<const uint8_t>` handed to `HandleWrite`: a caller's buffer, or `len` bytes
at offset `off` of the data of a line that is still in the cache. -/
inductive Span where
  | buf (bytes : List Nat)
  | line (p : LinePtr) (off len : Nat)
  deriving DecidableEq, Repr

/-- The class `TieredCache`.  `rand_` lists the values the next calls of `std::rand()`
return. -/
structure TieredCache where
  opts_ : Options
  levels_ : List CacheLevel
  main_memory_ : Memory
  current_cycle_ : Nat := 0
  last_access_latency_ : Nat := 0
  rand_ : List Nat := []
  deriving DecidableEq, Repr

/-- The constructor `TieredCache(opts, main_memory)`. -/
def TieredCache.new (opts : Options) (main_memory : Memory) (rand : List Nat) :
    Except Fault TieredCache :=
  match opts.cache_levels.mapM CacheLevel.new with
  | .error e => .error e
  | .ok levels =>
    .ok { opts_ := opts, levels_ := levels, main_memory_ := main_memory,
          current_cycle_ := 0, last_access_latency_ := 0, rand_ := rand }

def TieredCache.modifyLevel (c : TieredCache) (i : Nat) (f : CacheLevel → CacheLevel) :
    TieredCache :=
  { c with levels_ := c.levels_.modify f i }

/-- An update of `levels_[i]->stats_`. -/
def TieredCache.modifyStats (c : TieredCache) (i : Nat) (f : CacheStats → CacheStats) :
    TieredCache :=
  c.modifyLevel i (fun lv => { lv with stats_ := f lv.stats_ })

/-- The line a `CacheLine*` points at. -/
def TieredCache.lineAt (c : TieredCache) (p : LinePtr) : CacheLine :=
  match c.levels_[p.level]? with
  | some lv => lv.lineAt p.index p.way
  | none => CacheLine.new 0

/-- An assignment through a `CacheLine*`. -/
def TieredCache.modifyLine (c : TieredCache) (p : LinePtr) (f : CacheLine → CacheLine) :
    TieredCache :=
  c.modifyLevel p.level (fun lv => lv.modifyLine p.index p.way f)

/-- The call `level->UpdateLRU(line, current_cycle_)`. -/
def TieredCache.UpdateLRU (c : TieredCache) (p : LinePtr) : TieredCache :=
  c.modifyLevel p.level (fun lv => lv.UpdateLRU p.index p.way c.current_cycle_)

/-- The line behind a `victim_line` argument. -/
def LineRef.get (c : TieredCache) : LineRef → CacheLine
  | LineRef.copy line => line
  | LineRef.slot p => c.lineAt p

/-- The span `(victim_line->data.data(), victim_line->data.size())`. -/
def LineRef.dataSpan (c : TieredCache) : LineRef → Span
  | LineRef.copy line => Span.buf line.data
  | LineRef.slot p => Span.line p 0 (c.lineAt p).data.length

def Span.size : Span → Nat
  | Span.buf bytes => bytes.length
  | Span.line _ _ len => len

/-- The span `subspan(off, count)`. -/
def Span.subspan (s : Span) (off count : Nat) : Span :=
  match s with
  | Span.buf bytes => Span.buf ((bytes.drop off).take count)
  | Span.line p o _ => Span.line p (o + off) count

/-- The bytes a span covers at this moment. -/
def Span.read (c : TieredCache) : Span → List Nat
  | Span.buf bytes => bytes
  | Span.line p off len => ((c.lineAt p).data.drop off).take len

/-- The method `TieredCache::ReadFromMemory`: the bytes read and the new latency. -/
def ReadFromMemory (c : TieredCache) (addr len latency : Nat) : Except Fault (List Nat × Nat) :=
  let latency := if c.opts_.enable_latency then u32 (latency + c.opts_.memory_latency) else latency
  match c.main_memory_.ReadSpan (u32 addr) len with
  | .error e => .error e
  | .ok out => .ok (out, latency)

/-- The method `TieredCache::WriteToMemory`. -/
def WriteToMemory (c : TieredCache) (addr : Nat) (inp : List Nat) (latency : Nat) :
    Except Fault (TieredCache × Nat) :=
  let latency := if c.opts_.enable_latency then u32 (latency + c.opts_.memory_latency) else latency
  match c.main_memory_.WriteSpan (u32 addr) inp with
  | .error e => .error e
  | .ok m => .ok ({ c with main_memory_ := m }, latency)

/-- The statement `level->stats_.accesses++`. -/
def TieredCache.countAccess (c : TieredCache) (level_idx : Nat) : TieredCache :=
  c.modifyStats level_idx (fun s => { s with accesses := u64 (s.accesses + 1) })

/-- The statement `level->stats_.hits++`. -/
def TieredCache.countHit (c : TieredCache) (level_idx : Nat) : TieredCache :=
  c.modifyStats level_idx (fun s => { s with hits := u64 (s.hits + 1) })

/-- The statement `level->stats_.misses++`. -/
def TieredCache.countMiss (c : TieredCache) (level_idx : Nat) : TieredCache :=
  c.modifyStats level_idx (fun s => { s with misses := u64 (s.misses + 1) })

/-- The statement `level->stats_.evictions++`. -/
def TieredCache.countEviction (c : TieredCache) (level_idx : Nat) : TieredCache :=
  c.modifyStats level_idx (fun s => { s with evictions := u64 (s.evictions + 1) })

/-- The statement `level->stats_.writebacks++`. -/
def TieredCache.countWriteback (c : TieredCache) (level_idx : Nat) : TieredCache :=
  c.modifyStats level_idx (fun s => { s with writebacks := u64 (s.writebacks + 1) })

/-- The call `level->Allocate(addr, &victim_line, current_cycle_)` in `HandleRead`, where
`level` is what `levels_[level_idx]` held on entry (only its statistics have changed
since).  Returns the cache, the heap copy of the victim and the pointer `new_line`. -/
def TieredCache.Allocate (c : TieredCache) (level : CacheLevel) (level_idx addr : Nat) :
    TieredCache × Option CacheLine × LinePtr :=
  let rnd := c.rand_.headD 0
  let r := level.Allocate addr c.current_cycle_ rnd
  ({ c.modifyLevel level_idx (fun lv => (lv.Allocate addr c.current_cycle_ rnd).1) with
     rand_ := if (level.setAt (level.GetIndex addr)).drawsRandom then c.rand_.tail else c.rand_ },
   r.2.1, ⟨level_idx, level.GetIndex addr, r.2.2⟩)

/-- The end of a read miss: `memcpy(new_line->data.data(), line_buffer.data(), line_size);
new_line->valid = true; new_line->dirty = false; new_line->tag = tag;
level->UpdateLRU(new_line, current_cycle_)`. -/
def TieredCache.install (c : TieredCache) (new_line : LinePtr) (tag : Nat)
    (line_buffer : List Nat) : TieredCache :=
  (c.modifyLine new_line (fun l =>
    { l with data := memcpy l.data 0 line_buffer, valid := true, dirty := false,
             tag := tag })).UpdateLRU new_line

/-- The write into a resident line: `level->UpdateLRU(line, current_cycle_);
memcpy(line->data.data() + offset, in.data(), in.size()); line->dirty = true`. -/
def TieredCache.store (c : TieredCache) (line : LinePtr) (offset : Nat) (inp : Span) :
    TieredCache :=
  let c := c.UpdateLRU line
  c.modifyLine line (fun l => { l with data := memcpy l.data offset (inp.read c), dirty := true })

/-- The statement `line->valid = false`. -/
def TieredCache.invalidate (c : TieredCache) (line : LinePtr) : TieredCache :=
  c.modifyLine line (fun l => { l with valid := false })

/-- The bytes `memcpy(out.data(), line->data.data() + offset, out.size())` stores into `out`. -/
def TieredCache.load (c : TieredCache) (line : LinePtr) (offset len : Nat) : List Nat :=
  ((c.lineAt line).data.drop offset).take len

/-- The recursion of `InvalidateInLowerLevels`, over the `n` levels from `level_idx` on. -/
def InvalidateInLowerLevelsAux : Nat → TieredCache → Nat → Nat → TieredCache
  | 0, c, _, _ => c
  | n + 1, c, level_idx, addr =>
    match c.levels_[level_idx]? with
    | none => c
    | some level =>
      let c1 := match level.Find addr with
        | some way =>
          c.modifyLine ⟨level_idx, level.GetIndex addr, way⟩
            (fun l => { l with valid := false, dirty := false })
        | none => c
      InvalidateInLowerLevelsAux n c1 (level_idx + 1) addr

/-- The method `TieredCache::InvalidateInLowerLevels`. -/
def InvalidateInLowerLevels (c : TieredCache) (level_idx addr : Nat) : TieredCache :=
  InvalidateInLowerLevelsAux (c.levels_.length - level_idx) c level_idx addr

/-- The tail of `HandleRead` on a miss under the exclusive policy:
`if (exclusive && !is_write_alloc) InvalidateInLowerLevels(level_idx + 1, line_addr)`. -/
def TieredCache.exclusiveAfterRead (c : TieredCache) (level_idx line_addr : Nat)
    (is_write_alloc : Bool) : TieredCache :=
  if c.opts_.inclusion_policy = InclusionPolicy.Exclusive ∧ is_write_alloc = false then
    InvalidateInLowerLevels c (level_idx + 1) line_addr
  else c

/-- The tail of `HandleWrite` under the exclusive policy:
`if (exclusive) InvalidateInLowerLevels(level_idx + 1, level->GetAddr(tag, index))`. -/
def TieredCache.exclusiveAfterWrite (c : TieredCache) (level_idx line_addr : Nat) :
    TieredCache :=
  if c.opts_.inclusion_policy = InclusionPolicy.Exclusive then
    InvalidateInLowerLevels c (level_idx + 1) line_addr
  else c

mutual

/-- The method `TieredCache::HandleRead`; `len` is `out.size()`.  Returns the cache, the
bytes stored into `out`, and the latency. -/
def HandleRead : Nat → TieredCache → Nat → Nat → Nat → Nat → Bool →
    Except Fault (TieredCache × List Nat × Nat)
  | 0, _, _, _, _, _, _ => .error Fault.out_of_fuel
  | fuel + 1, c, level_idx, addr, len, latency, is_write_alloc =>
    match c.levels_[level_idx]? with
    | none => .error Fault.out_of_bounds
    | some level =>
      if len > level.config_.line_size - level.GetOffset addr then
        -- the span crosses the end of the line: one call per part
        match HandleRead fuel c level_idx addr (level.config_.line_size - level.GetOffset addr)
            latency is_write_alloc with
        | .error e => .error e
        | .ok (c1, out1, latency1) =>
          match HandleRead fuel c1 level_idx
              (u64 (addr + (level.config_.line_size - level.GetOffset addr)))
              (len - (level.config_.line_size - level.GetOffset addr)) latency1
              is_write_alloc with
          | .error e => .error e
          | .ok (c2, out2, latency2) => .ok (c2, out1 ++ out2, latency2)
      else
        match level.Find addr with
        | some way =>
          -- Read Hit
          .ok (((c.countAccess level_idx).countHit level_idx).UpdateLRU
                 ⟨level_idx, level.GetIndex addr, way⟩,
               (((c.countAccess level_idx).countHit level_idx).UpdateLRU
                 ⟨level_idx, level.GetIndex addr, way⟩).load
                 ⟨level_idx, level.GetIndex addr, way⟩ (level.GetOffset addr) len,
               u32 (latency + level.config_.latency))
        | none =>
          -- Read Miss
          match ((c.countAccess level_idx).countMiss level_idx).Allocate level level_idx addr with
          | (c1, victim_line, new_line) =>
            -- `BackInvalidate(level_idx - 1, victim_addr)` under the inclusive policy
            match (match victim_line with
                   | some v =>
                     if c1.opts_.inclusion_policy = InclusionPolicy.Inclusive then
                       BackInvalidate fuel c1 ((level_idx : Int) - 1)
                         (level.GetAddr v.tag (level.GetIndex addr))
                     else .ok c1
                   | none => .ok c1) with
            | .error e => .error e
            | .ok c2 =>
              -- `Evict(level_idx, victim_line, victim_addr, latency)`
              match (match victim_line with
                     | some v =>
                       Evict fuel c2 level_idx (LineRef.copy v)
                         (level.GetAddr v.tag (level.GetIndex addr))
                         (u32 (latency + level.config_.latency))
                     | none => .ok (c2, u32 (latency + level.config_.latency))) with
              | .error e => .error e
              | .ok (c3, latency3) =>
                -- fetch the line from the next level, or from memory
                match (if level_idx + 1 < c3.levels_.length then
                         HandleRead fuel c3 (level_idx + 1)
                           (level.GetAddr (level.GetTag addr) (level.GetIndex addr))
                           level.config_.line_size latency3 is_write_alloc
                       else
                         match ReadFromMemory c3
                             (level.GetAddr (level.GetTag addr) (level.GetIndex addr))
                             level.config_.line_size latency3 with
                         | .error e => .error e
                         | .ok (out, latency4) => .ok (c3, out, latency4)) with
                | .error e => .error e
                | .ok (c4, line_buffer, latency4) =>
                  .ok (((c4.install new_line (level.GetTag addr) line_buffer).exclusiveAfterRead
                          level_idx (level.GetAddr (level.GetTag addr) (level.GetIndex addr))
                          is_write_alloc),
                       ((c4.install new_line (level.GetTag addr) line_buffer).exclusiveAfterRead
                          level_idx (level.GetAddr (level.GetTag addr) (level.GetIndex addr))
                          is_write_alloc).load new_line (level.GetOffset addr) len,
                       latency4)

/-- The method `TieredCache::HandleWrite`. -/
def HandleWrite : Nat → TieredCache → Nat → Nat → Span → Nat →
    Except Fault (TieredCache × Nat)
  | 0, _, _, _, _, _ => .error Fault.out_of_fuel
  | fuel + 1, c, level_idx, addr, inp, latency =>
    match c.levels_[level_idx]? with
    | none => .error Fault.out_of_bounds
    | some level =>
      if inp.size > level.config_.line_size - level.GetOffset addr then
        match HandleWrite fuel c level_idx addr
            (inp.subspan 0 (level.config_.line_size - level.GetOffset addr)) latency with
        | .error e => .error e
        | .ok (c1, latency1) =>
          HandleWrite fuel c1 level_idx
            (u64 (addr + (level.config_.line_size - level.GetOffset addr)))
            (inp.subspan (level.config_.line_size - level.GetOffset addr)
              (inp.size - (level.config_.line_size - level.GetOffset addr))) latency1
      else
        match level.Find addr with
        | some way =>
          -- Write Hit [WBWA]
          .ok ((((c.countAccess level_idx).countHit level_idx).store
                  ⟨level_idx, level.GetIndex addr, way⟩ (level.GetOffset addr) inp).exclusiveAfterWrite
                  level_idx (level.GetAddr (level.GetTag addr) (level.GetIndex addr)),
               u32 (latency + level.config_.latency))
        | none =>
          -- Write Miss: write-allocate through `HandleRead`, then look the line up again
          match HandleRead fuel ((c.countAccess level_idx).countMiss level_idx) level_idx addr
              inp.size (u32 (latency + level.config_.latency)) true with
          | .error e => .error e
          | .ok (c1, _, latency1) =>
            match c1.levels_[level_idx]? with
            | none => .error Fault.out_of_bounds
            | some level1 =>
              match level1.Find addr with
              | none => .error Fault.cache_logic_error
              | some way =>
                .ok ((c1.store ⟨level_idx, level1.GetIndex addr, way⟩ (level.GetOffset addr)
                        inp).exclusiveAfterWrite level_idx
                        (level1.GetAddr (level1.GetTag addr) (level1.GetIndex addr)),
                     latency1)

/-- The method `TieredCache::Evict`. -/
def Evict : Nat → TieredCache → Nat → LineRef → Nat → Nat →
    Except Fault (TieredCache × Nat)
  | 0, _, _, _, _, _ => .error Fault.out_of_fuel
  | fuel + 1, c, level_idx, victim_line, victim_addr, latency =>
    match c.levels_[level_idx]? with
    | none => .error Fault.out_of_bounds
    | some _ =>
      if (victim_line.get c).dirty then
        if level_idx + 1 < c.levels_.length then
          HandleWrite fuel ((c.countEviction level_idx).countWriteback level_idx) (level_idx + 1)
            victim_addr (victim_line.dataSpan c) latency
        else
          WriteToMemory ((c.countEviction level_idx).countWriteback level_idx) victim_addr
            ((victim_line.dataSpan c).read c) latency
      else if c.opts_.inclusion_policy = InclusionPolicy.Exclusive then
        if level_idx + 1 < c.levels_.length then
          HandleWrite fuel (c.countEviction level_idx) (level_idx + 1) victim_addr
            (victim_line.dataSpan c) latency
        else .ok (c.countEviction level_idx, latency)
      else .ok (c.countEviction level_idx, latency)

/-- The method `TieredCache::BackInvalidate`; `level_idx` is an `int`. -/
def BackInvalidate : Nat → TieredCache → Int → Nat → Except Fault TieredCache
  | 0, _, _, _ => .error Fault.out_of_fuel
  | fuel + 1, c, level_idx, addr =>
    if level_idx < 0 then .ok c
    else
      match c.levels_[level_idx.toNat]? with
      | none => .error Fault.out_of_bounds
      | some level =>
        match level.Find addr with
        | some way =>
          if (c.lineAt ⟨level_idx.toNat, level.GetIndex addr, way⟩).dirty then
            match Evict fuel c level_idx.toNat
                (LineRef.slot ⟨level_idx.toNat, level.GetIndex addr, way⟩)
                (level.GetAddr (level.GetTag addr) (level.GetIndex addr)) 0 with
            | .error e => .error e
            | .ok (c1, _) =>
              BackInvalidate fuel
                (c1.invalidate ⟨level_idx.toNat, level.GetIndex addr, way⟩) (level_idx - 1) addr
          else
            BackInvalidate fuel
              (c.invalidate ⟨level_idx.toNat, level.GetIndex addr, way⟩) (level_idx - 1) addr
        | none => BackInvalidate fuel c (level_idx - 1) addr

end

/-- The method `TieredCache::ReadSpan`; `addr` is a `uint32_t`, `len` is `out.size()`.
Returns the cache and the bytes stored into `out`. -/
def TieredCache.ReadSpan (fuel : Nat) (c : TieredCache) (addr len : Nat) :
    Except Fault (TieredCache × List Nat) :=
  if c.levels_.isEmpty then
    match ReadFromMemory
        { c with current_cycle_ := u64 (c.current_cycle_ + 1), last_access_latency_ := 0 }
        addr len 0 with
    | .error e => .error e
    | .ok (out, latency) =>
      .ok ({ c with current_cycle_ := u64 (c.current_cycle_ + 1),
                    last_access_latency_ := latency }, out)
  else
    match HandleRead fuel
        { c with current_cycle_ := u64 (c.current_cycle_ + 1), last_access_latency_ := 0 }
        0 addr len 0 false with
    | .error e => .error e
    | .ok (c1, out, latency) => .ok ({ c1 with last_access_latency_ := latency }, out)

/-- The method `TieredCache::WriteSpan`; `addr` is a `uint32_t`. -/
def TieredCache.WriteSpan (fuel : Nat) (c : TieredCache) (addr : Nat) (inp : List Nat) :
    Except Fault TieredCache :=
  match (if c.levels_.isEmpty then
           WriteToMemory
             { c with current_cycle_ := u64 (c.current_cycle_ + 1), last_access_latency_ := 0 }
             addr inp 0
         else
           HandleWrite fuel
             { c with current_cycle_ := u64 (c.current_cycle_ + 1), last_access_latency_ := 0 }
             0 addr (Span.buf inp) 0) with
  | .error e => .error e
  | .ok (c1, latency) => .ok { c1 with last_access_latency_ := latency }

/-- The method `TieredCache::Demote`; `addr` is a `uint32_t`.  Both branches on the
inclusion policy run the same two statements. -/
def TieredCache.Demote (fuel : Nat) (c : TieredCache) (addr : Nat) : Except Fault TieredCache :=
  match c.levels_[0]? with
  | none => .ok c
  | some l1 =>
    match l1.Find addr with
    | none => .ok { c with current_cycle_ := u64 (c.current_cycle_ + 1) }
    | some way =>
      match Evict fuel { c with current_cycle_ := u64 (c.current_cycle_ + 1) } 0
          (LineRef.slot ⟨0, l1.GetIndex addr, way⟩)
          (l1.GetAddr (l1.GetTag addr) (l1.GetIndex addr)) 0 with
      | .error e => .error e
      | .ok (c1, _) => .ok (c1.invalidate ⟨0, l1.GetIndex addr, way⟩)

/-! ## Sequences of calls made by the client of the cache -/

/-- One call of the public interface of `TieredCache`. -/
inductive Call where
  /-- `ReadSpan(addr, out)` with `out.size() = len`. -/
  | read (addr len : Nat)
  /-- `WriteSpan(addr, in)`. -/
  | write (addr : Nat) (inp : List Nat)
  /-- `Demote(addr)`. -/
  | demote (addr : Nat)
  deriving DecidableEq, Repr

/-- The address argument of a call. -/
def Call.addr : Call → Nat
  | Call.read addr _ => addr
  | Call.write addr _ => addr
  | Call.demote addr => addr

/-- The cache after one call (the bytes a read returns are dropped). -/
def TieredCache.call (fuel : Nat) (c : TieredCache) : Call → Except Fault TieredCache
  | Call.read addr len =>
    match c.ReadSpan fuel addr len with
    | .error e => .error e
    | .ok (c1, _) => .ok c1
  | Call.write addr inp => c.WriteSpan fuel addr inp
  | Call.demote addr => c.Demote fuel addr

/-- The cache after a sequence of calls, each of which returns. -/
def TieredCache.run (fuel : Nat) : TieredCache → List Call → Except Fault TieredCache
  | c, [] => .ok c
  | c, call :: calls =>
    match c.call fuel call with
    | .error e => .error e
    | .ok c1 => TieredCache.run fuel c1 calls

/-- The cache built from `opts` over `main_memory` and then driven through `calls`. -/
def TieredCache.runFresh (fuel : Nat) (opts : Options) (main_memory : Memory)
    (rand : List Nat) (calls : List Call) : Except Fault TieredCache :=
  match TieredCache.new opts main_memory rand with
  | .error e => .error e
  | .ok c => c.run fuel calls

/-! ## Predicates used in the statements -/

/-- A number is a power of two. -/
def IsPowerOfTwo (n : Nat) : Prop := ∃ k, n = 2 ^ k

/-- The C++ expression `hits + misses == accesses` on the `uint64_t` counters of a level. -/
def CacheStats.Balanced (s : CacheStats) : Prop := u64 (s.hits + s.misses) = s.accesses

/-- Every cache level satisfies `hits + misses == accesses`. -/
def StatsBalanced (c : TieredCache) : Prop := ∀ lv ∈ c.levels_, lv.stats_.Balanced

/-- A relation between cache states that every elementary update made by calls of
`HandleRead` / `HandleWrite` / `Evict` at levels `≥ k` respects and, under the inclusive
policy, also every update made by `BackInvalidate` and by the `Evict` it runs. -/
structure Frame (pol : InclusionPolicy) (k : Nat) (R : TieredCache → TieredCache → Prop) :
    Prop where
  refl : ∀ c, R c c
  trans : ∀ {a b c}, R a b → R b c → R a c
  hit : ∀ c i, k ≤ i → R c ((c.countAccess i).countHit i)
  miss : ∀ c i, k ≤ i → R c ((c.countAccess i).countMiss i)
  lru : ∀ c p, k ≤ p.level → R c (c.UpdateLRU p)
  alloc : ∀ c level i addr, k ≤ i → R c (c.Allocate level i addr).1
  line : ∀ c p f, k ≤ p.level → R c (c.modifyLine p f)
  inval : ∀ c p, pol = InclusionPolicy.Inclusive → R c (c.invalidate p)
  evict : ∀ c i, k ≤ i ∨ pol = InclusionPolicy.Inclusive → R c (c.countEviction i)
  wb : ∀ c i, k ≤ i ∨ pol = InclusionPolicy.Inclusive → R c (c.countWriteback i)
  mem : ∀ c m, R c { c with main_memory_ := m }

/-- What the frame principle says about one routine call from `c` to `c'`. -/
def Framed (R : TieredCache → TieredCache → Prop) (c c' : TieredCache) : Prop :=
  R c c' ∧ c'.opts_ = c.opts_

/-- The geometry a level has after its constructor returned: `line_size = 2^offset_bits_`,
`num_sets_ = 2^index_bits_`, `sets_` has `num_sets_` sets, and every set has
`assoc_ = lines_.size() > 0` lines under the level's replacement policy. -/
structure CacheLevel.GeoOK (lv : CacheLevel) : Prop where
  line_size_eq : lv.config_.line_size = 2 ^ lv.offset_bits_
  num_sets_eq : lv.num_sets_ = 2 ^ lv.index_bits_
  bits_le : lv.index_bits_ + lv.offset_bits_ ≤ 63
  sets_length : lv.sets_.length = lv.num_sets_
  assoc_eq : ∀ s ∈ lv.sets_, s.assoc_ = s.lines_.length
  assoc_pos : ∀ s ∈ lv.sets_, 0 < s.assoc_

/-- The number of the line an address lies in, for lines of `2^ob` bytes. -/
def lineNo (ob addr : Nat) : Nat := addr >>> ob

/-- The static fields of a level (everything except counters and lines) agree. -/
def CacheLevel.SameGeom (lv lv' : CacheLevel) : Prop :=
  lv'.config_ = lv.config_ ∧ lv'.num_sets_ = lv.num_sets_ ∧
    lv'.index_bits_ = lv.index_bits_ ∧ lv'.offset_bits_ = lv.offset_bits_

/-- Two levels differ in their counters at most. -/
def CacheLevel.SameLines (lv lv' : CacheLevel) : Prop :=
  ∃ st, lv' = { lv with stats_ := st }

/-- No set of the level has two valid lines with the same tag. -/
def CacheLevel.NoDup (lv : CacheLevel) : Prop :=
  ∀ s w1 w2, (lv.lineAt s w1).valid = true → (lv.lineAt s w2).valid = true →
    (lv.lineAt s w1).tag = (lv.lineAt s w2).tag → w1 = w2

/-- From `lv` to `lv'` no line changed its tag and no line became valid. -/
def CacheLevel.Shrinks (lv lv' : CacheLevel) : Prop :=
  lv.SameGeom lv' ∧
    ∀ s w, (lv'.lineAt s w).tag = (lv.lineAt s w).tag ∧
      ((lv'.lineAt s w).valid = true → (lv.lineAt s w).valid = true)

/-- From `c` to `c'` the first level (L1) kept its geometry and tags and no L1 line became
valid. -/
def L1Shrinks (c c' : TieredCache) : Prop :=
  (∀ lv, c.levels_[0]? = some lv → ∃ lv', c'.levels_[0]? = some lv' ∧ lv.Shrinks lv') ∧
    (c.levels_[0]? = none → c'.levels_[0]? = none)

/-- No set of L1 has two valid lines with the same tag. -/
def L1NoDup (c : TieredCache) : Prop := ∀ lv, c.levels_[0]? = some lv → lv.NoDup

/-- No way of set `s` of L1 other than `w` holds a valid line with tag `t`. -/
def L1Free (c : TieredCache) (s w t : Nat) : Prop :=
  ∀ lv, c.levels_[0]? = some lv → ∀ w2, w2 ≠ w →
    ¬ ((lv.lineAt s w2).valid = true ∧ (lv.lineAt s w2).tag = t)

/-- The line of `addr` is valid in the level: `Find` returns a line. -/
def CacheLevel.Has (lv : CacheLevel) (addr : Nat) : Prop := (lv.Find addr).isSome = true

/-- The line of `addr` is valid in level `i` of the hierarchy. -/
def TieredCache.resident (c : TieredCache) (i addr : Nat) : Prop :=
  ∃ lv, c.levels_[i]? = some lv ∧ lv.Has addr

/-- The line of `x` is valid in no level from `i` on. -/
def AbsentFrom (i : Nat) (c : TieredCache) (x : Nat) : Prop :=
  ∀ j, i ≤ j → ¬ c.resident j x

/-- The line of `x` is valid in at most one of the levels from `i` on. -/
def ExclFrom (i : Nat) (c : TieredCache) (x : Nat) : Prop :=
  ∀ j k, i ≤ j → i ≤ k → c.resident j x → c.resident k x → j = k

/-- From `c` to `c'` the line of `x` neither appears in the levels from `i` on nor gets a
second copy there. -/
def Keeps (i : Nat) (c c' : TieredCache) (x : Nat) : Prop :=
  (AbsentFrom i c x → AbsentFrom i c' x) ∧ (ExclFrom i c x → ExclFrom i c' x)

/-- What holds of a level between calls when lines have `2^ob` bytes: the constructor's
geometry, no duplicate tags, tags that fit into the bits above index and offset, and
`line_size` bytes of data in every line. -/
structure CacheLevel.WF (ob : Nat) (lv : CacheLevel) : Prop where
  geo : lv.GeoOK
  ob_eq : lv.offset_bits_ = ob
  nodup : lv.NoDup
  tag_lt : ∀ s w, (lv.lineAt s w).tag < 2 ^ (64 - (lv.index_bits_ + lv.offset_bits_))
  data_len : ∀ s w, w < (lv.setAt s).lines_.length →
    (lv.lineAt s w).data.length = lv.config_.line_size

/-- The policy is exclusive and every level is well formed with lines of `2^ob` bytes. -/
def AllWF (ob : Nat) (c : TieredCache) : Prop :=
  c.opts_.inclusion_policy = InclusionPolicy.Exclusive ∧
    ∀ (i : Nat) (lv : CacheLevel), c.levels_[i]? = some lv → lv.WF ob

/-- What a `HandleRead` call with budget `fuel` that stays within one line does under the
exclusive policy: the levels stay well formed, every other line keeps its place from level
`i` on, and unless the read is a write-allocate the requested line does not get a second
copy from level `i` on. -/
def ExclusiveRead (ob fuel : Nat) : Prop :=
  ∀ c i a len lat wa r, AllWF ob c → a < 2 ^ 64 →
    (∀ lv, c.levels_[i]? = some lv → len ≤ lv.config_.line_size - lv.GetOffset a) →
    HandleRead fuel c i a len lat wa = .ok r →
    AllWF ob r.1 ∧ (∀ x, lineNo ob x ≠ lineNo ob a → Keeps i c r.1 x) ∧
      (wa = false → ExclFrom i c a → ExclFrom i r.1 a)

/-- What a `HandleWrite` call with budget `fuel` that stays within one line does under the
exclusive policy: afterwards the written line is valid at level `i` and in no level below. -/
def ExclusiveWrite (ob fuel : Nat) : Prop :=
  ∀ c i a inp lat r, AllWF ob c → a < 2 ^ 64 →
    (∀ lv, c.levels_[i]? = some lv → inp.size ≤ lv.config_.line_size - lv.GetOffset a) →
    HandleWrite fuel c i a inp lat = .ok r →
    AllWF ob r.1 ∧ (∀ x, lineNo ob x ≠ lineNo ob a → Keeps i c r.1 x) ∧
      r.1.resident i a ∧ AbsentFrom (i + 1) r.1 a

/-- What an `Evict` call with budget `fuel` of a whole line at a line address does under the
exclusive policy: level `i` changes in its counters only, and the victim ends up in level
`i + 1` (if there is one) and in no level below. -/
def ExclusiveEvict (ob fuel : Nat) : Prop :=
  ∀ c i v a lat r, AllWF ob c → a < 2 ^ 64 → (LineRef.dataSpan c v).size ≤ 2 ^ ob →
    (∀ lv : CacheLevel, lv.WF ob → lv.GetOffset a = 0) →
    Evict fuel c i v a lat = .ok r →
    AllWF ob r.1 ∧
      (∀ lv, c.levels_[i]? = some lv → ∃ lv2, r.1.levels_[i]? = some lv2 ∧ lv.SameLines lv2) ∧
      (∀ x, lineNo ob x ≠ lineNo ob a → Keeps (i + 1) c r.1 x) ∧
      AbsentFrom (i + 2) r.1 a ∧
      (i + 1 < c.levels_.length → r.1.resident (i + 1) a)

/-- The counters `levels_[i]->stats_` (all zero when there is no level `i`). -/
def TieredCache.statsAt (c : TieredCache) (i : Nat) : CacheStats :=
  match c.levels_[i]? with
  | some lv => lv.stats_
  | none => {}

/-- The levels below `k` are the same in `c` and `c'`. -/
def SameBelow (k : Nat) (c c' : TieredCache) : Prop :=
  ∀ j, j < k → c'.levels_[j]? = c.levels_[j]?

/-- The state in which `BackInvalidate(0, 0)` runs `Evict` on the dirty L1 line of address 0
during `ReadSpan(8, 1)`, in an inclusive hierarchy with L1 = 16 bytes 4-way and L2 = 8 bytes
2-way (4-byte lines) that has served 1-byte stores at 0 and at 4: both levels have counted
their miss and `Allocate` has retagged a line for address 8 in each. -/
def exampleBeforeNestedEvict : Except Fault TieredCache :=
  match TieredCache.runFresh 32
      { enable_cache := true, inclusion_policy := InclusionPolicy.Inclusive,
        cache_levels := [{ size := 16, associativity := 4, line_size := 4 },
                         { size := 8, associativity := 2, line_size := 4 }] }
      (Memory.new 128) [] [Call.write 0 [1], Call.write 4 [2]] with
  | .error e => .error e
  | .ok c0 =>
    match c0.levels_ with
    | [l1, l2] =>
      .ok ((((((({ c0 with current_cycle_ := u64 (c0.current_cycle_ + 1),
                           last_access_latency_ := 0 }).countAccess 0).countMiss 0).Allocate
                l1 0 8).1.countAccess 1).countMiss 1).Allocate l2 1 8).1
    | _ => .error Fault.out_of_bounds

/-! ## Concrete states used to instantiate the theorems -/

/-- One 2-byte direct-mapped level over 8 bytes of memory, after a 1-byte store of 7 at 0,
1-byte loads at 1 and 2 and a demote of 0. -/
def exampleAfterFourCalls : TieredCache :=
  { opts_ := { enable_cache := true,
               cache_levels := [{ size := 2, associativity := 1, line_size := 2 }] },
    levels_ := [{ stats_ := { accesses := 4, hits := 1, misses := 3, evictions := 1,
                              writebacks := 1 },
                  config_ := { size := 2, associativity := 1, line_size := 2 },
                  num_sets_ := 1, index_bits_ := 0, offset_bits_ := 1, tag_bits_ := 31,
                  sets_ := [{ assoc_ := 1, line_size_ := 2,
                              replacement_policy_ := ReplacementPolicy.LRU,
                              lines_ := [{ valid := true, dirty := false, tag := 1,
                                           data := [0, 0], lru_timestamp := 3 }] }] }],
    main_memory_ := { arena_ := [7, 0, 0, 0, 0, 0, 0, 0] },
    current_cycle_ := 4, last_access_latency_ := 4, rand_ := [] }

/-- The state `exampleAfterFourCalls` after `Demote(2)`: the clean line of address 2 has been
evicted and invalidated. -/
def exampleAfterDemote : TieredCache :=
  { opts_ := { enable_cache := true,
               cache_levels := [{ size := 2, associativity := 1, line_size := 2 }] },
    levels_ := [{ stats_ := { accesses := 4, hits := 1, misses := 3, evictions := 2,
                              writebacks := 1 },
                  config_ := { size := 2, associativity := 1, line_size := 2 },
                  num_sets_ := 1, index_bits_ := 0, offset_bits_ := 1, tag_bits_ := 31,
                  sets_ := [{ assoc_ := 1, line_size_ := 2,
                              replacement_policy_ := ReplacementPolicy.LRU,
                              lines_ := [{ valid := false, dirty := false, tag := 1,
                                           data := [0, 0], lru_timestamp := 3 }] }] }],
    main_memory_ := { arena_ := [7, 0, 0, 0, 0, 0, 0, 0] },
    current_cycle_ := 5, last_access_latency_ := 4, rand_ := [] }

/-- An exclusive hierarchy with 4-byte lines: L1 is one direct-mapped line, L2 one 2-way
set. -/
def exampleExclOpts : Options :=
  { enable_cache := true, inclusion_policy := InclusionPolicy.Exclusive,
    cache_levels := [{ size := 4, associativity := 1, line_size := 4 },
                     { size := 8, associativity := 2, line_size := 4 }] }

/-- The level L1 of `exampleExclOpts` holding the line of address 0, dirty, with first
byte 1. -/
def exampleExclL1 : CacheLevel :=
  { stats_ := { accesses := 2, hits := 0, misses := 2 },
    config_ := { size := 4, associativity := 1, line_size := 4 },
    num_sets_ := 1, index_bits_ := 0, offset_bits_ := 2, tag_bits_ := 30,
    sets_ := [{ assoc_ := 1, line_size_ := 4, replacement_policy_ := ReplacementPolicy.LRU,
                lines_ := [{ valid := true, dirty := true, tag := 0,
                             data := [1, 0, 0, 0], lru_timestamp := 1 }] }] }

/-- The hierarchy `exampleExclOpts` over 16 bytes of memory after a 1-byte store of 1 at
address 0: the line is dirty in L1, and L2 has been invalidated again. -/
def exampleExclAfterWrite : TieredCache :=
  { opts_ := exampleExclOpts,
    levels_ := [exampleExclL1,
                { stats_ := { accesses := 1, hits := 0, misses := 1 },
                  config_ := { size := 8, associativity := 2, line_size := 4 },
                  num_sets_ := 1, index_bits_ := 0, offset_bits_ := 2, tag_bits_ := 30,
                  sets_ := [{ assoc_ := 2, line_size_ := 4,
                              replacement_policy_ := ReplacementPolicy.LRU,
                              lines_ := [{ valid := false, dirty := false, tag := 0,
                                           data := [0, 0, 0, 0], lru_timestamp := 1 },
                                         { valid := false, dirty := false, tag := 0,
                                           data := [0, 0, 0, 0], lru_timestamp := 0 }] }] }],
    main_memory_ := { arena_ := List.replicate 16 0 },
    current_cycle_ := 1, last_access_latency_ := 12, rand_ := [] }

/-- The state `exampleExclAfterWrite` after `Demote(0)`: the line has moved to L2. -/
def exampleExclAfterDemote : TieredCache :=
  { opts_ := exampleExclOpts,
    levels_ := [{ stats_ := { accesses := 2, hits := 0, misses := 2, evictions := 1,
                              writebacks := 1 },
                  config_ := { size := 4, associativity := 1, line_size := 4 },
                  num_sets_ := 1, index_bits_ := 0, offset_bits_ := 2, tag_bits_ := 30,
                  sets_ := [{ assoc_ := 1, line_size_ := 4,
                              replacement_policy_ := ReplacementPolicy.LRU,
                              lines_ := [{ valid := false, dirty := true, tag := 0,
                                           data := [1, 0, 0, 0], lru_timestamp := 1 }] }] },
                { stats_ := { accesses := 3, hits := 0, misses := 3 },
                  config_ := { size := 8, associativity := 2, line_size := 4 },
                  num_sets_ := 1, index_bits_ := 0, offset_bits_ := 2, tag_bits_ := 30,
                  sets_ := [{ assoc_ := 2, line_size_ := 4,
                              replacement_policy_ := ReplacementPolicy.LRU,
                              lines_ := [{ valid := true, dirty := true, tag := 0,
                                           data := [1, 0, 0, 0], lru_timestamp := 2 },
                                         { valid := false, dirty := false, tag := 0,
                                           data := [0, 0, 0, 0], lru_timestamp := 0 }] }] }],
    main_memory_ := { arena_ := List.replicate 16 0 },
    current_cycle_ := 2, last_access_latency_ := 12, rand_ := [] }

/-- A three-way LRU set whose lines are all valid, with timestamps 7, 3, 3. -/
def exampleSet : CacheSet :=
  { assoc_ := 3, line_size_ := 1, replacement_policy_ := ReplacementPolicy.LRU,
    lines_ := [{ valid := true, tag := 0, data := [0], lru_timestamp := 7 },
               { valid := true, tag := 1, data := [0], lru_timestamp := 3 },
               { valid := true, tag := 2, data := [0], lru_timestamp := 3 }] }

end MultilevelCache

namespace TrapHandling

/-! ## `riscv.h` / `riscv.cc`: the decoder

`int32_t` / `int64_t` values are integers in the signed range, `uint32_t` / `uint64_t`
values are natural numbers.  The disassembly text `inst_str` is display only and is
left out. -/

/-- Conversion of a bit pattern to `int32_t`. -/
def toInt32 (n : Nat) : Int :=
  if n % 2 ^ 32 < 2 ^ 31 then (n % 2 ^ 32 : Nat) else ((n % 2 ^ 32 : Nat) : Int) - 2 ^ 32

/-- Conversion of a bit pattern to `int64_t`. -/
def toInt64 (n : Nat) : Int :=
  if n % 2 ^ 64 < 2 ^ 63 then (n % 2 ^ 64 : Nat) else ((n % 2 ^ 64 : Nat) : Int) - 2 ^ 64

/-- The bit pattern of a signed value as a `uint32_t`. -/
def toUInt32 (i : Int) : Nat := (i % 2 ^ 32).toNat

/-- The bit pattern of a signed value as a `uint64_t`. -/
def toUInt64 (i : Int) : Nat := (i % 2 ^ 64).toNat

/-- The 32-bit expression `int32_t(x) << k >> j` (left shift modulo `2^32`, arithmetic right
shift). -/
def shl_sar32 (x k j : Nat) : Int := toInt32 (x <<< k) >>> j

def REGNUM : Nat := 32

/-- The type `Regs`: `regs i` is the 64-bit value of register `i`. -/
abbrev Regs := Nat → Nat

def REG_A0 : Nat := 10
def REG_A7 : Nat := 17

inductive InstType where
  | UNKNOWN
  | LUI | AUIPC | JAL | JALR
  | BEQ | BNE | BLT | BGE | BLTU | BGEU
  | LB | LH | LW | LD | LBU | LHU
  | SB | SH | SW | SD
  | ADDI | SLTI | SLTIU | XORI | ORI | ANDI | SLLI | SRLI | SRAI
  | ADD | SUB | SLL | SLT | SLTU | XOR | SRL | SRA | OR | AND
  | ECALL | SRET | ADDIW | MUL | DIV | REM | LWU
  | SLLIW | SRLIW | SRAIW | ADDW | SUBW | SLLW | SRLW | SRAW
  deriving DecidableEq, Repr

def OP_REG : Nat := 0x33
def OP_IMM : Nat := 0x13
def OP_LUI : Nat := 0x37
def OP_BRANCH : Nat := 0x63
def OP_STORE : Nat := 0x23
def OP_LOAD : Nat := 0x03
def OP_SYSTEM : Nat := 0x73
def OP_AUIPC : Nat := 0x17
def OP_JAL : Nat := 0x6F
def OP_JALR : Nat := 0x67
def OP_IMM32 : Nat := 0x1B
def OP_32 : Nat := 0x3B

/-- The struct `PipeOp`; a `RegId` of `-1` means none. -/
structure PipeOp where
  pc : Nat := 0
  pc_len : Nat := 4
  inst : Nat := 0
  inst_type : InstType := InstType.UNKNOWN
  rs1 : Int := -1
  rs2 : Int := -1
  op1 : Int := 0
  op2 : Int := 0
  dest_reg : Int := -1
  offset : Int := 0
  out : Int := 0
  write_mem : Bool := false
  read_mem : Bool := false
  read_sign_ext : Bool := false
  mem_len : Nat := 0
  branch : Bool := false
  jump_pc : Nat := 0
  deriving DecidableEq, Repr

/-- The `std::runtime_error`s of `DecodeInst`, with the fields their messages carry. -/
inductive DecodeError where
  /-- "Unknown funct7 {} for funct3 {}" (OP_REG). -/
  | unknown_funct7 (funct7 funct3 : Nat)
  /-- "Unknown Funct3 field {}" (OP_REG, OP_IMM). -/
  | unknown_funct3 (funct3 : Nat)
  /-- "Unknown funct7 {} for OP_IMM". -/
  | unknown_funct7_op_imm (funct6 : Nat)
  /-- "Unknown funct3 {} at OP_BRANCH". -/
  | unknown_funct3_branch (funct3 : Nat)
  /-- "Unknown funct3 {} for OP_STORE". -/
  | unknown_funct3_store (funct3 : Nat)
  /-- "Unknown funct3 {} for OP_LOAD". -/
  | unknown_funct3_load (funct3 : Nat)
  /-- "Unknown OP_SYSTEM inst with funct3 {} and funct7 {}". -/
  | unknown_system (funct3 funct7 : Nat)
  /-- "Unknown shift inst type {}" (OP_IMM32). -/
  | unknown_shift (funct7 : Nat)
  /-- "Unknown funct3 {} for OP_ADDIW". -/
  | unknown_funct3_addiw (funct3 : Nat)
  /-- "Unknown 32bit funct7 {}". -/
  | unknown_funct7_32 (funct7 : Nat)
  /-- "Unknown 32bit funct3 {}". -/
  | unknown_funct3_32 (funct3 : Nat)
  /-- "Unsupported opcode {} for inst {}". -/
  | unsupported_opcode (opcode inst : Nat)
  deriving DecidableEq, Repr

/-- The function `DecodeInst`: the decoded `PipeOp`, or the exception it throws.  `op.inst`
is a `uint32_t`. -/
def DecodeInst (op : PipeOp) (regs : Regs) : Except DecodeError PipeOp :=
  let inst := op.inst
  let opcode := inst &&& 0x7F
  let funct3 := (inst >>> 12) &&& 0x7
  let funct7 := (inst >>> 25) &&& 0x7F
  let rd := (inst >>> 7) &&& 0x1F
  let rs1 := (inst >>> 15) &&& 0x1F
  let rs2 := (inst >>> 20) &&& 0x1F
  let imm_i : Int := toInt32 inst >>> 20
  let imm_s : Int := shl_sar32 (((inst >>> 7) &&& 0x1F) ||| ((inst >>> 20) &&& 0xFE0)) 20 20
  let imm_sb : Int :=
    shl_sar32 (((inst >>> 7) &&& 0x1E) ||| ((inst >>> 20) &&& 0x7E0) |||
      ((inst <<< 4) &&& 0x800) ||| ((inst >>> 19) &&& 0x1000)) 19 19
  let imm_u : Int := toInt32 inst >>> 12
  let imm_uj : Int :=
    shl_sar32 (((inst >>> 21) &&& 0x3FF) ||| ((inst >>> 10) &&& 0x400) |||
      ((inst >>> 1) &&& 0x7F800) ||| ((inst >>> 12) &&& 0x80000)) 12 11
  if opcode = OP_REG then
    let op := { op with op1 := toInt64 (regs rs1), op2 := toInt64 (regs rs2), rs1 := rs1,
                        rs2 := rs2, dest_reg := rd }
    match funct3 with
    | 0x0 =>
      if funct7 = 0x00 then .ok { op with inst_type := InstType.ADD }
      else if funct7 = 0x01 then .ok { op with inst_type := InstType.MUL }
      else if funct7 = 0x20 then .ok { op with inst_type := InstType.SUB }
      else .error (DecodeError.unknown_funct7 funct7 funct3)
    | 0x1 =>
      if funct7 = 0x00 then .ok { op with inst_type := InstType.SLL }
      else .error (DecodeError.unknown_funct7 funct7 funct3)
    | 0x2 =>
      if funct7 = 0x00 then .ok { op with inst_type := InstType.SLT }
      else .error (DecodeError.unknown_funct7 funct7 funct3)
    | 0x3 =>
      if funct7 = 0x00 then .ok { op with inst_type := InstType.SLTU }
      else .error (DecodeError.unknown_funct7 funct7 funct3)
    | 0x4 =>
      if funct7 = 0x00 then .ok { op with inst_type := InstType.XOR }
      else if funct7 = 0x01 then .ok { op with inst_type := InstType.DIV }
      else .error (DecodeError.unknown_funct7 funct7 funct3)
    | 0x5 =>
      if funct7 = 0x00 then .ok { op with inst_type := InstType.SRL }
      else if funct7 = 0x20 then .ok { op with inst_type := InstType.SRA }
      else .error (DecodeError.unknown_funct7 funct7 funct3)
    | 0x6 =>
      if funct7 = 0x00 then .ok { op with inst_type := InstType.OR }
      else if funct7 = 0x01 then .ok { op with inst_type := InstType.REM }
      else .error (DecodeError.unknown_funct7 funct7 funct3)
    | 0x7 =>
      if funct7 = 0x00 then .ok { op with inst_type := InstType.AND }
      else .error (DecodeError.unknown_funct7 funct7 funct3)
    | _ => .error (DecodeError.unknown_funct3 funct3)
  else if opcode = OP_IMM then
    let op := { op with op1 := toInt64 (regs rs1), rs1 := rs1, op2 := imm_i, dest_reg := rd }
    match funct3 with
    | 0x0 => .ok { op with inst_type := InstType.ADDI }
    | 0x2 => .ok { op with inst_type := InstType.SLTI }
    | 0x3 => .ok { op with inst_type := InstType.SLTIU }
    | 0x4 => .ok { op with inst_type := InstType.XORI }
    | 0x6 => .ok { op with inst_type := InstType.ORI }
    | 0x7 => .ok { op with inst_type := InstType.ANDI }
    | 0x1 => .ok { op with inst_type := InstType.SLLI, op2 := toInt64 (toUInt64 imm_i &&& 0x3F) }
    | 0x5 =>
      if (inst >>> 26) &&& 0x3F = 0x0 then
        .ok { op with inst_type := InstType.SRLI, op2 := toInt64 (toUInt64 imm_i &&& 0x3F) }
      else if (inst >>> 26) &&& 0x3F = 0x10 then
        .ok { op with inst_type := InstType.SRAI, op2 := toInt64 (toUInt64 imm_i &&& 0x3F) }
      else .error (DecodeError.unknown_funct7_op_imm ((inst >>> 26) &&& 0x3F))
    | _ => .error (DecodeError.unknown_funct3 funct3)
  else if opcode = OP_LUI then
    .ok { op with op1 := imm_u, op2 := 0, offset := imm_u, dest_reg := rd,
                  inst_type := InstType.LUI }
  else if opcode = OP_AUIPC then
    .ok { op with op1 := imm_u, op2 := 0, offset := imm_u, dest_reg := rd,
                  inst_type := InstType.AUIPC }
  else if opcode = OP_JAL then
    .ok { op with op1 := imm_uj, op2 := 0, offset := imm_uj, dest_reg := rd,
                  inst_type := InstType.JAL }
  else if opcode = OP_JALR then
    .ok { op with op1 := toInt64 (regs rs1), rs1 := rs1, op2 := imm_i, dest_reg := rd,
                  inst_type := InstType.JALR }
  else if opcode = OP_BRANCH then
    let op := { op with op1 := toInt64 (regs rs1), op2 := toInt64 (regs rs2), rs1 := rs1,
                        rs2 := rs2, offset := imm_sb }
    match funct3 with
    | 0x0 => .ok { op with inst_type := InstType.BEQ }
    | 0x1 => .ok { op with inst_type := InstType.BNE }
    | 0x4 => .ok { op with inst_type := InstType.BLT }
    | 0x5 => .ok { op with inst_type := InstType.BGE }
    | 0x6 => .ok { op with inst_type := InstType.BLTU }
    | 0x7 => .ok { op with inst_type := InstType.BGEU }
    | _ => .error (DecodeError.unknown_funct3_branch funct3)
  else if opcode = OP_STORE then
    let op := { op with op1 := toInt64 (regs rs1), op2 := toInt64 (regs rs2), rs1 := rs1,
                        rs2 := rs2, offset := imm_s }
    match funct3 with
    | 0x0 => .ok { op with inst_type := InstType.SB }
    | 0x1 => .ok { op with inst_type := InstType.SH }
    | 0x2 => .ok { op with inst_type := InstType.SW }
    | 0x3 => .ok { op with inst_type := InstType.SD }
    | _ => .error (DecodeError.unknown_funct3_store funct3)
  else if opcode = OP_LOAD then
    let op := { op with op1 := toInt64 (regs rs1), rs1 := rs1, op2 := imm_i, offset := imm_i,
                        dest_reg := rd }
    match funct3 with
    | 0x0 => .ok { op with inst_type := InstType.LB }
    | 0x1 => .ok { op with inst_type := InstType.LH }
    | 0x2 => .ok { op with inst_type := InstType.LW }
    | 0x3 => .ok { op with inst_type := InstType.LD }
    | 0x4 => .ok { op with inst_type := InstType.LBU }
    | 0x5 => .ok { op with inst_type := InstType.LHU }
    | 0x6 => .ok { op with inst_type := InstType.LWU }
    | _ => .error (DecodeError.unknown_funct3_load funct3)
  else if opcode = OP_SYSTEM then
    if funct3 = 0x0 then
      if funct7 = 0x000 then
        .ok { op with op1 := toInt64 (regs REG_A0), op2 := toInt64 (regs REG_A7),
                      rs1 := REG_A0, rs2 := REG_A7, dest_reg := REG_A0,
                      inst_type := InstType.ECALL }
      else if funct7 = 0x08 ∧ (inst >>> 20) &&& 0x1F = 0x02 then
        .ok { op with inst_type := InstType.SRET }
      else .error (DecodeError.unknown_system funct3 funct7)
    else .error (DecodeError.unknown_system funct3 funct7)
  else if opcode = OP_IMM32 then
    let op := { op with op1 := toInt64 (regs rs1), rs1 := rs1, op2 := imm_i, dest_reg := rd }
    match funct3 with
    | 0x0 => .ok { op with inst_type := InstType.ADDIW }
    | 0x1 => .ok { op with inst_type := InstType.SLLIW }
    | 0x5 =>
      if (inst >>> 25) &&& 0x7F = 0x0 then .ok { op with inst_type := InstType.SRLIW }
      else if (inst >>> 25) &&& 0x7F = 0x20 then .ok { op with inst_type := InstType.SRAIW }
      else .error (DecodeError.unknown_shift ((inst >>> 25) &&& 0x7F))
    | _ => .error (DecodeError.unknown_funct3_addiw funct3)
  else if opcode = OP_32 then
    let op := { op with op1 := toInt64 (regs rs1), op2 := toInt64 (regs rs2), rs1 := rs1,
                        rs2 := rs2, dest_reg := rd }
    let temp := (inst >>> 25) &&& 0x7F
    match funct3 with
    | 0x0 =>
      if temp = 0x0 then .ok { op with inst_type := InstType.ADDW }
      else if temp = 0x20 then .ok { op with inst_type := InstType.SUBW }
      else .error (DecodeError.unknown_funct7_32 temp)
    | 0x1 =>
      if temp = 0x0 then .ok { op with inst_type := InstType.SLLW }
      else .error (DecodeError.unknown_funct7_32 temp)
    | 0x5 =>
      if temp = 0x0 then .ok { op with inst_type := InstType.SRLW }
      else if temp = 0x20 then .ok { op with inst_type := InstType.SRAW }
      else .error (DecodeError.unknown_funct7_32 temp)
    | _ => .error (DecodeError.unknown_funct3_32 funct3)
  else .error (DecodeError.unsupported_opcode opcode inst)

end TrapHandling

namespace TrapHandling

/-! ## `riscv.cc`: the executor

`ExecuteInst` works on `int64_t` values.  Signed overflow of `+`, `-`, `*` and of the
conversions wraps (two's complement), `<<` on a signed value is multiplication modulo the
width and `>>` on a signed value is the arithmetic shift.  A shift whose count is negative or
not smaller than the width of the shifted type, and a division with no representable
quotient, have no defined result: the model reports them as an `ExecError` of their own.
The text written to `stdout` is display only and is left out. -/

/-- The value of an arithmetic result as an `int64_t`. -/
def wrap64 (i : Int) : Int := toInt64 (toUInt64 i)

/-- The conversion `(int32_t)x` of an `int64_t`. -/
def int32_of (i : Int) : Int := toInt32 (toUInt32 i)

/-- The exceptions of `ExecuteInst` and `HandleSystemCall`, and the operations without a
defined result. -/
inductive ExecError where
  /-- "Unknown instruction type: {}". -/
  | unknown_instruction (inst_type : InstType)
  /-- "Unknown syscall type {}". -/
  | unknown_syscall (type : Int)
  /-- A shift by a negative count or by at least the width of the shifted type. -/
  | undefined_shift (count : Int)
  /-- The division or remainder `op1 / op2`, `op1 % op2` with `op2 = 0`, or of `INT64_MIN`
  by `-1`. -/
  | undefined_division (op1 op2 : Int)
  /-- The recursion budget of the model is used up (the print loop has not met a NUL). -/
  | out_of_fuel
  deriving DecidableEq, Repr

/-- The class `Memory` of `memory.h` as far as `HandleSystemCall` uses it: the member
`uint8_t GetByte(uint32_t addr) const`.  Its implementation is not among the sources of this
simulator variant, so the function is a parameter. -/
structure Memory where
  GetByte : Nat → Nat

/-- What the two `scanf` calls of `HandleSystemCall` store: the character delivered by
`" %c"` and the number delivered by `" %ld"`, or `none` when the conversion fails and the
argument stays as it is. -/
structure Stdin where
  scan_char : Option Nat := none
  scan_long : Option Int := none

/-- The loop of syscall 0 (print string): `addr` is a `uint32_t`; the loop ends at the first
NUL byte. -/
def printString (mem : Memory) : Nat → Nat → Except ExecError Unit
  | 0, _ => .error ExecError.out_of_fuel
  | fuel + 1, addr =>
    if mem.GetByte addr % 256 = 0 then .ok ()
    else printString mem fuel ((addr + 1) % 2 ^ 32)

/-- The function `HandleSystemCall`: the returned `arg1` and the value left in `*exit_ctrl`,
or the exception it throws.  `" %c"` stores into the first byte of `arg1`, its lowest byte on
a little-endian host. -/
def HandleSystemCall (fuel : Nat) (type arg1 : Int) (mem : Memory) (inp : Stdin) :
    Except ExecError (Int × Bool) :=
  if type = 0 then
    match printString mem fuel (toUInt32 arg1) with
    | .error e => .error e
    | .ok _ => .ok (arg1, false)
  else if type = 1 then .ok (arg1, false)
  else if type = 2 then .ok (arg1, false)
  else if type = 3 ∨ type = 93 then .ok (arg1, true)
  else if type = 4 then
    match inp.scan_char with
    | some ch => .ok (toInt64 (toUInt64 arg1 / 256 * 256 + ch % 256), false)
    | none => .ok (arg1, false)
  else if type = 5 then
    match inp.scan_long with
    | some v => .ok (wrap64 v, false)
    | none => .ok (arg1, false)
  else if type = 6 then .ok (arg1, false)
  else .error (ExecError.unknown_syscall type)

/-- The function `ExecuteInst`: the `PipeOp` and the value of `*exit_ctrl` afterwards, or the
exception thrown. -/
def ExecuteInst (fuel : Nat) (op : PipeOp) (exit_ctrl : Bool) (mem : Memory) (inp : Stdin) :
    Except ExecError (PipeOp × Bool) :=
  let inst_type := op.inst_type
  let offset := op.offset
  let pc : Int := toInt64 op.pc
  let op1 := op.op1
  let op2 := op.op2
  let op := { op with jump_pc := toUInt32 (wrap64 (pc + 4)) }
  match inst_type with
  | .LUI => .ok ({ op with out := wrap64 (offset * 2 ^ 12) }, exit_ctrl)
  | .AUIPC => .ok ({ op with out := wrap64 (pc + wrap64 (offset * 2 ^ 12)) }, exit_ctrl)
  | .JAL =>
    .ok ({ op with out := wrap64 (pc + 4), jump_pc := toUInt32 (wrap64 (pc + op1)),
                   branch := true }, exit_ctrl)
  | .JALR =>
    .ok ({ op with out := wrap64 (pc + 4),
                   jump_pc := (toUInt64 (wrap64 (op1 + op2)) &&& (2 ^ 64 - 2)) % 2 ^ 32,
                   branch := true }, exit_ctrl)
  | .BEQ =>
    if op1 = op2 then
      .ok ({ op with branch := true, jump_pc := toUInt32 (wrap64 (pc + offset)) }, exit_ctrl)
    else .ok (op, exit_ctrl)
  | .BNE =>
    if op1 ≠ op2 then
      .ok ({ op with branch := true, jump_pc := toUInt32 (wrap64 (pc + offset)) }, exit_ctrl)
    else .ok (op, exit_ctrl)
  | .BLT =>
    if op1 < op2 then
      .ok ({ op with branch := true, jump_pc := toUInt32 (wrap64 (pc + offset)) }, exit_ctrl)
    else .ok (op, exit_ctrl)
  | .BGE =>
    if op1 ≥ op2 then
      .ok ({ op with branch := true, jump_pc := toUInt32 (wrap64 (pc + offset)) }, exit_ctrl)
    else .ok (op, exit_ctrl)
  | .BLTU =>
    if toUInt64 op1 < toUInt64 op2 then
      .ok ({ op with branch := true, jump_pc := toUInt32 (wrap64 (pc + offset)) }, exit_ctrl)
    else .ok (op, exit_ctrl)
  | .BGEU =>
    if toUInt64 op1 ≥ toUInt64 op2 then
      .ok ({ op with branch := true, jump_pc := toUInt32 (wrap64 (pc + offset)) }, exit_ctrl)
    else .ok (op, exit_ctrl)
  | .LB =>
    .ok ({ op with read_mem := true, mem_len := 1, out := wrap64 (op1 + offset),
                   read_sign_ext := true }, exit_ctrl)
  | .LH =>
    .ok ({ op with read_mem := true, mem_len := 2, out := wrap64 (op1 + offset),
                   read_sign_ext := true }, exit_ctrl)
  | .LW =>
    .ok ({ op with read_mem := true, mem_len := 4, out := wrap64 (op1 + offset),
                   read_sign_ext := true }, exit_ctrl)
  | .LD =>
    .ok ({ op with read_mem := true, mem_len := 8, out := wrap64 (op1 + offset),
                   read_sign_ext := true }, exit_ctrl)
  | .LBU => .ok ({ op with read_mem := true, mem_len := 1, out := wrap64 (op1 + offset) }, exit_ctrl)
  | .LHU => .ok ({ op with read_mem := true, mem_len := 2, out := wrap64 (op1 + offset) }, exit_ctrl)
  | .LWU => .ok ({ op with read_mem := true, mem_len := 4, out := wrap64 (op1 + offset) }, exit_ctrl)
  | .SB =>
    .ok ({ op with write_mem := true, mem_len := 1, out := wrap64 (op1 + offset),
                   op2 := toInt64 (toUInt64 op2 &&& 0xFF) }, exit_ctrl)
  | .SH =>
    .ok ({ op with write_mem := true, mem_len := 2, out := wrap64 (op1 + offset),
                   op2 := toInt64 (toUInt64 op2 &&& 0xFFFF) }, exit_ctrl)
  | .SW =>
    .ok ({ op with write_mem := true, mem_len := 4, out := wrap64 (op1 + offset),
                   op2 := toInt64 (toUInt64 op2 &&& 0xFFFFFFFF) }, exit_ctrl)
  | .SD => .ok ({ op with write_mem := true, mem_len := 8, out := wrap64 (op1 + offset) }, exit_ctrl)
  | .ADDI | .ADD => .ok ({ op with out := wrap64 (op1 + op2) }, exit_ctrl)
  | .ADDIW | .ADDW =>
    .ok ({ op with out := toInt32 (toUInt32 (int32_of op1 + int32_of op2)) }, exit_ctrl)
  | .SUB => .ok ({ op with out := wrap64 (op1 - op2) }, exit_ctrl)
  | .SUBW =>
    .ok ({ op with out := toInt32 (toUInt32 (int32_of op1 - int32_of op2)) }, exit_ctrl)
  | .MUL => .ok ({ op with out := wrap64 (op1 * op2) }, exit_ctrl)
  | .DIV =>
    if op2 = 0 ∨ (op1 = -2 ^ 63 ∧ op2 = -1) then .error (ExecError.undefined_division op1 op2)
    else .ok ({ op with out := Int.tdiv op1 op2 }, exit_ctrl)
  | .REM =>
    if op2 = 0 ∨ (op1 = -2 ^ 63 ∧ op2 = -1) then .error (ExecError.undefined_division op1 op2)
    else .ok ({ op with out := Int.tmod op1 op2 }, exit_ctrl)
  | .SLTI | .SLT => .ok ({ op with out := if op1 < op2 then 1 else 0 }, exit_ctrl)
  | .SLTIU | .SLTU =>
    .ok ({ op with out := if toUInt64 op1 < toUInt64 op2 then 1 else 0 }, exit_ctrl)
  | .XORI | .XOR =>
    .ok ({ op with out := toInt64 (toUInt64 op1 ^^^ toUInt64 op2) }, exit_ctrl)
  | .ORI | .OR =>
    .ok ({ op with out := toInt64 (toUInt64 op1 ||| toUInt64 op2) }, exit_ctrl)
  | .ANDI | .AND =>
    .ok ({ op with out := toInt64 (toUInt64 op1 &&& toUInt64 op2) }, exit_ctrl)
  | .SLLI | .SLL =>
    if 0 ≤ op2 ∧ op2 < 64 then .ok ({ op with out := wrap64 (op1 * 2 ^ op2.toNat) }, exit_ctrl)
    else .error (ExecError.undefined_shift op2)
  | .SLLIW | .SLLW =>
    if 0 ≤ op2 ∧ op2 < 64 then
      .ok ({ op with out := int32_of (wrap64 (op1 * 2 ^ op2.toNat)) }, exit_ctrl)
    else .error (ExecError.undefined_shift op2)
  | .SRLI | .SRL =>
    if toUInt64 op2 < 64 then
      .ok ({ op with out := toInt64 (toUInt64 op1 >>> toUInt64 op2) }, exit_ctrl)
    else .error (ExecError.undefined_shift (toUInt64 op2))
  | .SRLIW | .SRLW =>
    if toUInt32 op2 < 32 then
      .ok ({ op with out := toInt64 ((toUInt32 op1 >>> toUInt32 op2) % 2 ^ 32) }, exit_ctrl)
    else .error (ExecError.undefined_shift (toUInt32 op2))
  | .SRAI | .SRA =>
    if 0 ≤ op2 ∧ op2 < 64 then .ok ({ op with out := op1 >>> op2.toNat }, exit_ctrl)
    else .error (ExecError.undefined_shift op2)
  | .SRAW | .SRAIW =>
    if 0 ≤ int32_of op2 ∧ int32_of op2 < 32 then
      .ok ({ op with out := int32_of (int32_of op1 >>> (int32_of op2).toNat) }, exit_ctrl)
    else .error (ExecError.undefined_shift (int32_of op2))
  | .ECALL =>
    if op2 = 10 then .ok ({ op with dest_reg := 0 }, exit_ctrl)
    else
      match HandleSystemCall fuel op2 op1 mem inp with
      | .error e => .error e
      | .ok (r, ex) => .ok ({ op with out := r }, ex)
  | .SRET => .ok (op, exit_ctrl)
  | .UNKNOWN => .error (ExecError.unknown_instruction inst_type)

/-! ### The immediates of `DecodeInst` and the RISC-V instruction formats -/

/-- The local `imm_i` of `DecodeInst`. -/
def imm_i (inst : Nat) : Int := toInt32 inst >>> 20

/-- The local `imm_s` of `DecodeInst`. -/
def imm_s (inst : Nat) : Int :=
  shl_sar32 (((inst >>> 7) &&& 0x1F) ||| ((inst >>> 20) &&& 0xFE0)) 20 20

/-- The local `imm_sb` of `DecodeInst`. -/
def imm_sb (inst : Nat) : Int :=
  shl_sar32 (((inst >>> 7) &&& 0x1E) ||| ((inst >>> 20) &&& 0x7E0) |||
    ((inst <<< 4) &&& 0x800) ||| ((inst >>> 19) &&& 0x1000)) 19 19

/-- The local `imm_uj` of `DecodeInst`. -/
def imm_uj (inst : Nat) : Int :=
  shl_sar32 (((inst >>> 21) &&& 0x3FF) ||| ((inst >>> 10) &&& 0x400) |||
    ((inst >>> 1) &&& 0x7F800) ||| ((inst >>> 12) &&& 0x80000)) 12 11

/-- The bit field `inst[hi:lo]` of an instruction word. -/
def bitField (inst hi lo : Nat) : Nat := (inst / 2 ^ lo) % 2 ^ (hi + 1 - lo)

/-- The value of the `n`-bit pattern `x` read as a two's complement number (sign extension
from bit `n - 1`). -/
def signExtend (n x : Nat) : Int :=
  if x % 2 ^ n < 2 ^ (n - 1) then ((x % 2 ^ n : Nat) : Int) else ((x % 2 ^ n : Nat) : Int) - 2 ^ n

/-- The I-type immediate of the RISC-V encoding: the sign-extended `inst[31:20]`. -/
def encoded_imm_I (inst : Nat) : Int := signExtend 12 (bitField inst 31 20)

/-- The S-type immediate of the RISC-V encoding: the sign-extended 12 bits
`inst[31:25]`, `inst[11:7]`. -/
def encoded_imm_S (inst : Nat) : Int :=
  signExtend 12 (bitField inst 31 25 * 2 ^ 5 + bitField inst 11 7)

/-- The B-type immediate of the RISC-V encoding: the sign-extended 13 bits `inst[31]`,
`inst[7]`, `inst[30:25]`, `inst[11:8]`, with bit 0 zero. -/
def encoded_imm_B (inst : Nat) : Int :=
  signExtend 13 (bitField inst 31 31 * 2 ^ 12 + bitField inst 7 7 * 2 ^ 11 +
    bitField inst 30 25 * 2 ^ 5 + bitField inst 11 8 * 2 ^ 1)

/-- The J-type immediate of the RISC-V encoding: the sign-extended 21 bits `inst[31]`,
`inst[19:12]`, `inst[20]`, `inst[30:21]`, with bit 0 zero. -/
def encoded_imm_J (inst : Nat) : Int :=
  signExtend 21 (bitField inst 31 31 * 2 ^ 20 + bitField inst 19 12 * 2 ^ 12 +
    bitField inst 20 20 * 2 ^ 11 + bitField inst 30 21 * 2 ^ 1)

/-! ### Branches, jumps and stores -/

/-- The function `IsBranch` of `riscv.h`. -/
def IsBranch (instType : InstType) : Bool :=
  instType == InstType.BEQ || instType == InstType.BNE || instType == InstType.BLT ||
    instType == InstType.BGE || instType == InstType.BLTU || instType == InstType.BGEU

/-- The function `IsJump` of `riscv.h`. -/
def IsJump (instType : InstType) : Bool :=
  instType == InstType.JAL || instType == InstType.JALR

/-- The condition of a conditional branch on its operands: equality for BEQ and BNE, the
signed comparison for BLT and BGE, the unsigned comparison of the 64-bit patterns for BLTU
and BGEU. -/
def branchCondition (instType : InstType) (op1 op2 : Int) : Bool :=
  match instType with
  | .BEQ => decide (op1 = op2)
  | .BNE => decide (op1 ≠ op2)
  | .BLT => decide (op1 < op2)
  | .BGE => decide (op1 ≥ op2)
  | .BLTU => decide (toUInt64 op1 < toUInt64 op2)
  | .BGEU => decide (toUInt64 op1 ≥ toUInt64 op2)
  | _ => false

/-- Whether `instType` is one of the stores SB, SH, SW, SD. -/
def IsStore (instType : InstType) : Bool :=
  instType == InstType.SB || instType == InstType.SH || instType == InstType.SW ||
    instType == InstType.SD

/-- The number of bytes a store writes: 1, 2, 4, 8 for SB, SH, SW, SD. -/
def storeWidth (instType : InstType) : Nat :=
  match instType with
  | .SB => 1
  | .SH => 2
  | .SW => 4
  | .SD => 8
  | _ => 0

/-! ### Example inputs -/

/-- A register file with `regs[6] = 3`, `regs[7] = 4` and zero elsewhere. -/
def exampleAddRegs : Regs := fun i => if i = 6 then 3 else if i = 7 then 4 else 0

/-- A register file with `regs[A0] = 42`, `regs[A7] = 93` and zero elsewhere. -/
def exampleEcallRegs : Regs := fun i => if i = 10 then 42 else if i = 17 then 93 else 0

/-- The decoded ECALL word `0x00000073` over `exampleEcallRegs`. -/
def exampleEcallOp : PipeOp :=
  { inst := 0x00000073, inst_type := InstType.ECALL, op1 := 42, op2 := 93, rs1 := 10,
    rs2 := 17, dest_reg := 10 }

/-- The decoded word `0x008000EF` (`jal x1, 8`) fetched at `pc = 100`. -/
def exampleJalOp : PipeOp :=
  { pc := 100, inst := 0x008000EF, inst_type := InstType.JAL, op1 := 8, op2 := 0, offset := 8,
    dest_reg := 1 }

/-- A register file with `regs[6] = 0x80000000` and zero elsewhere. -/
def exampleSrlwRegs : Regs := fun i => if i = 6 then 0x80000000 else 0

/-- A register file with `regs[6] = 1`, `regs[7] = 32` and zero elsewhere. -/
def exampleSllwRegs : Regs := fun i => if i = 6 then 1 else if i = 7 then 32 else 0

/-- A memory whose bytes are all zero. -/
def exampleZeroMem : Memory := { GetByte := fun _ => 0 }

end TrapHandling

namespace BranchPrediction

/-! ## `branch_predictor.h`

`pc` and `target_pc` are `uint64_t`. -/

/-- The class `OneBitPredictor`. -/
structure OneBitPredictor where
  global_state_ : Bool := false
  deriving DecidableEq, Repr

/-- The method `OneBitPredictor::Predict`. -/
def OneBitPredictor.Predict (p : OneBitPredictor) (_pc : Nat) : Bool := p.global_state_

/-- The method `OneBitPredictor::Update`. -/
def OneBitPredictor.Update (p : OneBitPredictor) (_pc : Nat) (taken : Bool) (_target_pc : Nat) :
    OneBitPredictor :=
  { p with global_state_ := taken }

/-- The class `TwoBitPredictor`: `bht_` holds `uint8_t` counters, `k_` is a `size_t`. -/
structure TwoBitPredictor where
  bht_ : List Nat
  k_ : Nat
  deriving DecidableEq, Repr

/-- The constructor `TwoBitPredictor(k)`. -/
def TwoBitPredictor.new (k : Nat) : TwoBitPredictor :=
  let k_ := if k = 0 then 16 else k
  { bht_ := List.replicate k_ 2, k_ := k_ }

/-- The method `TwoBitPredictor::Predict`; `idx` is a `uint32_t`. -/
def TwoBitPredictor.Predict (p : TwoBitPredictor) (pc : Nat) : Bool :=
  let idx := pc % p.k_ % 2 ^ 32
  let state := p.bht_.getD idx 0
  decide (state ≥ 2)

/-- The method `TwoBitPredictor::Update`; `idx` is a `uint32_t`, `state` a `uint8_t`. -/
def TwoBitPredictor.Update (p : TwoBitPredictor) (pc : Nat) (taken : Bool) (_target_pc : Nat) :
    TwoBitPredictor :=
  let idx := pc % p.k_ % 2 ^ 32
  let state := p.bht_.getD idx 0
  let state :=
    if taken then (if state < 3 then (state + 1) % 256 else state)
    else (if state > 0 then state - 1 else state)
  { p with bht_ := p.bht_.set idx state }

/-- The predictors behind the interface `BranchPredictor`. -/
inductive BranchPredictor where
  | AlwaysNotTaken
  | AlwaysTaken
  | OneBit (p : OneBitPredictor)
  | TwoBit (p : TwoBitPredictor)
  | Perceptron
  deriving DecidableEq, Repr

/-- The virtual method `BranchPredictor::Predict`. -/
def BranchPredictor.Predict (b : BranchPredictor) (pc : Nat) : Bool :=
  match b with
  | .AlwaysNotTaken => false
  | .AlwaysTaken => true
  | .OneBit p => p.Predict pc
  | .TwoBit p => p.Predict pc
  | .Perceptron => false

/-- The virtual method `BranchPredictor::Update`. -/
def BranchPredictor.Update (b : BranchPredictor) (pc : Nat) (taken : Bool) (target_pc : Nat) :
    BranchPredictor :=
  match b with
  | .AlwaysNotTaken => .AlwaysNotTaken
  | .AlwaysTaken => .AlwaysTaken
  | .OneBit p => .OneBit (p.Update pc taken target_pc)
  | .TwoBit p => .TwoBit (p.Update pc taken target_pc)
  | .Perceptron => .Perceptron

/-- A sequence of `Update(pc, taken, target_pc)` calls on a two-bit predictor. -/
def TwoBitPredictor.updates (p : TwoBitPredictor) (calls : List (Nat × Bool × Nat)) :
    TwoBitPredictor :=
  calls.foldl (fun q c => q.Update c.1 c.2.1 c.2.2) p

/-- The invariant of a two-bit predictor: `k_` counters, each at most 3. -/
def TwoBitPredictor.Inv (p : TwoBitPredictor) : Prop :=
  0 < p.k_ ∧ p.bht_.length = p.k_ ∧ ∀ s ∈ p.bht_, s ≤ 3

end BranchPrediction

namespace Forwarding

open TrapHandling (PipeOp Regs toInt64 toUInt32 toUInt64)

/-! ## `memory.cc` of the forwarding variant

The class `Memory` is declared in `memory.h` (the copy of the trap-handling variant is among
the sources): an arena `std::vector<uint8_t> arena_`.  Addresses are `uint32_t`; a method
that returns `bool` returns the new arena together with the flag. -/

/-- The class `Memory`: the byte arena. -/
structure Memory where
  arena_ : List Nat
  deriving DecidableEq, Repr

/-- The method `Memory::AddrExist`. -/
def Memory.AddrExist (m : Memory) (addr : Nat) : Bool :=
  if addr ≥ m.arena_.length then false else true

/-- The method `Memory::SetByte`; `val` is converted to `uint8_t`. -/
def Memory.SetByte (m : Memory) (addr val : Nat) : Memory × Bool :=
  if !m.AddrExist addr then (m, false)
  else ({ arena_ := m.arena_.set addr (val % 256) }, true)

/-- The method `Memory::GetByte`; `return false` in a function of type `uint8_t` returns 0. -/
def Memory.GetByte (m : Memory) (addr : Nat) : Nat :=
  if !m.AddrExist addr then 0 else m.arena_.getD addr 0

/-- The method `Memory::CopyFrom`: `src` holds the `len` bytes to copy. -/
def Memory.CopyFrom (m : Memory) (src : List Nat) (dest : Nat) : Nat → Nat → Memory × Bool
  | 0, _ => (m, true)
  | n + 1, i =>
    if !m.AddrExist ((dest + i) % 2 ^ 32) then (m, false)
    else Memory.CopyFrom (m.SetByte ((dest + i) % 2 ^ 32) (src.getD i 0)).1 src dest n (i + 1)

/-- The method `Memory::SetShort`; `val` is a `uint16_t`. -/
def Memory.SetShort (m : Memory) (addr val : Nat) : Memory × Bool :=
  if !m.AddrExist addr then (m, false)
  else
    let m := (m.SetByte addr (val &&& 0xFF)).1
    let m := (m.SetByte ((addr + 1) % 2 ^ 32) ((val >>> 8) &&& 0xFF)).1
    (m, true)

/-- The method `Memory::GetShort`. -/
def Memory.GetShort (m : Memory) (addr : Nat) : Nat :=
  let b1 := m.GetByte addr
  let b2 := m.GetByte ((addr + 1) % 2 ^ 32)
  (b1 + (b2 <<< 8) % 2 ^ 32) % 2 ^ 32 % 2 ^ 16

/-- The method `Memory::SetInt`; `val` is a `uint32_t`. -/
def Memory.SetInt (m : Memory) (addr val : Nat) : Memory × Bool :=
  if !m.AddrExist addr then (m, false)
  else
    let m := (m.SetByte addr (val &&& 0xFF)).1
    let m := (m.SetByte ((addr + 1) % 2 ^ 32) ((val >>> 8) &&& 0xFF)).1
    let m := (m.SetByte ((addr + 2) % 2 ^ 32) ((val >>> 16) &&& 0xFF)).1
    let m := (m.SetByte ((addr + 3) % 2 ^ 32) ((val >>> 24) &&& 0xFF)).1
    (m, true)

/-- The method `Memory::GetInt`. -/
def Memory.GetInt (m : Memory) (addr : Nat) : Nat :=
  let b1 := m.GetByte addr
  let b2 := m.GetByte ((addr + 1) % 2 ^ 32)
  let b3 := m.GetByte ((addr + 2) % 2 ^ 32)
  let b4 := m.GetByte ((addr + 3) % 2 ^ 32)
  (b1 + (b2 <<< 8) % 2 ^ 32 + (b3 <<< 16) % 2 ^ 32 + (b4 <<< 24) % 2 ^ 32) % 2 ^ 32

/-- The method `Memory::SetLong`; `val` is a `uint64_t`. -/
def Memory.SetLong (m : Memory) (addr val : Nat) : Memory × Bool :=
  if !m.AddrExist addr then (m, false)
  else
    let m := (m.SetByte addr (val &&& 0xFF)).1
    let m := (m.SetByte ((addr + 1) % 2 ^ 32) ((val >>> 8) &&& 0xFF)).1
    let m := (m.SetByte ((addr + 2) % 2 ^ 32) ((val >>> 16) &&& 0xFF)).1
    let m := (m.SetByte ((addr + 3) % 2 ^ 32) ((val >>> 24) &&& 0xFF)).1
    let m := (m.SetByte ((addr + 4) % 2 ^ 32) ((val >>> 32) &&& 0xFF)).1
    let m := (m.SetByte ((addr + 5) % 2 ^ 32) ((val >>> 40) &&& 0xFF)).1
    let m := (m.SetByte ((addr + 6) % 2 ^ 32) ((val >>> 48) &&& 0xFF)).1
    let m := (m.SetByte ((addr + 7) % 2 ^ 32) ((val >>> 56) &&& 0xFF)).1
    (m, true)

/-- The method `Memory::GetLong`. -/
def Memory.GetLong (m : Memory) (addr : Nat) : Nat :=
  let b1 := m.GetByte addr
  let b2 := m.GetByte ((addr + 1) % 2 ^ 32)
  let b3 := m.GetByte ((addr + 2) % 2 ^ 32)
  let b4 := m.GetByte ((addr + 3) % 2 ^ 32)
  let b5 := m.GetByte ((addr + 4) % 2 ^ 32)
  let b6 := m.GetByte ((addr + 5) % 2 ^ 32)
  let b7 := m.GetByte ((addr + 6) % 2 ^ 32)
  let b8 := m.GetByte ((addr + 7) % 2 ^ 32)
  (b1 + (b2 <<< 8) + (b3 <<< 16) + (b4 <<< 24) + (b5 <<< 32) + (b6 <<< 40) + (b7 <<< 48) +
    (b8 <<< 56)) % 2 ^ 64

/-- An arena of ten zero bytes. -/
def exampleArena : Memory := { arena_ := List.replicate 10 0 }

/-! ## `five_stage_simulator.h` / `five_stage_simulator.cc` of the forwarding variant

`PipeOp` and `Regs` are the types of `riscv.h`.  `Panic` prints and calls `exit(1)`: the
stage ends with a `Stop`.  The history strings and the verbose output are display only and
are left out. -/

/-- The ways a stage ends the process. -/
inductive Stop where
  /-- `Panic("Unknown memLen %d")`. -/
  | unknown_mem_len (mem_len : Nat)
  /-- `Panic("Invalid Mem Access!")`. -/
  | invalid_mem_access
  deriving DecidableEq, Repr

/-- The struct `History` (the counters). -/
structure History where
  inst_count : Nat := 0
  cycle_count : Nat := 0
  data_hazard_count : Nat := 0
  control_hazard_count : Nat := 0
  memory_hazard_count : Nat := 0
  deriving DecidableEq, Repr

/-- The class `FiveStageSimulator` with the members of its base class `Simulator`. -/
structure FiveStageSimulator where
  pc_ : Nat := 0
  regs_ : Regs := fun _ => 0
  stack_base_ : Nat := 0
  stack_size_ : Nat := 0
  memory_ : Memory
  wait_for_branch_ : Bool := false
  should_recover_branch_ : Bool := false
  branch_next_pc_ : Int := 0
  wait_for_data_ : Bool := false
  data_hazard_execute_op_dest_ : Int := -1
  data_hazard_mem_op_dest_ : Int := -1
  data_hazard_wb_op_dest_ : Int := -1
  decode_op_ : Option PipeOp := none
  execute_op_ : Option PipeOp := none
  mem_op_ : Option PipeOp := none
  wb_op_ : Option PipeOp := none
  history_ : History := {}

/-- The store of `MemoryAccess`: the `switch (mem_len)` under `if (write_mem)`; the address
`out` is converted to `uint32_t`, the value `op2` to the type of the parameter. -/
def storeStep (memory : Memory) (op : PipeOp) : Except Stop (Memory × Bool) :=
  if op.write_mem then
    if op.mem_len = 1 then .ok (memory.SetByte (toUInt32 op.out) (toUInt64 op.op2 % 2 ^ 8))
    else if op.mem_len = 2 then
      .ok (memory.SetShort (toUInt32 op.out) (toUInt64 op.op2 % 2 ^ 16))
    else if op.mem_len = 4 then .ok (memory.SetInt (toUInt32 op.out) (toUInt64 op.op2 % 2 ^ 32))
    else if op.mem_len = 8 then .ok (memory.SetLong (toUInt32 op.out) (toUInt64 op.op2))
    else .error (Stop.unknown_mem_len op.mem_len)
  else .ok (memory, true)

/-- The load of `MemoryAccess`: the `switch (mem_len)` under `if (read_mem)`, giving the new
`out`.  Both branches on `read_sign_ext` convert the unsigned value read to 64 bits. -/
def loadStep (memory : Memory) (op : PipeOp) : Except Stop Int :=
  if op.read_mem then
    if op.mem_len = 1 then
      if op.read_sign_ext then .ok (toInt64 (memory.GetByte (toUInt32 op.out)))
      else .ok (toInt64 (memory.GetByte (toUInt32 op.out)))
    else if op.mem_len = 2 then
      if op.read_sign_ext then .ok (toInt64 (memory.GetShort (toUInt32 op.out)))
      else .ok (toInt64 (memory.GetShort (toUInt32 op.out)))
    else if op.mem_len = 4 then
      if op.read_sign_ext then .ok (toInt64 (memory.GetInt (toUInt32 op.out)))
      else .ok (toInt64 (memory.GetInt (toUInt32 op.out)))
    else if op.mem_len = 8 then
      if op.read_sign_ext then .ok (toInt64 (memory.GetLong (toUInt32 op.out)))
      else .ok (toInt64 (memory.GetLong (toUInt32 op.out)))
    else .error (Stop.unknown_mem_len op.mem_len)
  else .ok op.out

/-- The method `FiveStageSimulator::MemoryAccess`. -/
def FiveStageSimulator.MemoryAccess (s : FiveStageSimulator) : Except Stop FiveStageSimulator :=
  match s.mem_op_ with
  | none => .ok s
  | some op =>
    match storeStep s.memory_ op with
    | .error e => .error e
    | .ok (memory, good) =>
      if !good then .error Stop.invalid_mem_access
      else
        match loadStep memory op with
        | .error e => .error e
        | .ok out =>
          .ok { s with data_hazard_mem_op_dest_ := op.dest_reg, memory_ := memory,
                       wb_op_ := some { op with out := out }, mem_op_ := none }

/-- A simulator whose memory stage holds an LB of address 0 (`read_mem`, `read_sign_ext`,
`mem_len = 1`, as `ExecuteInst` leaves it), over an arena whose byte 0 is `0x80`. -/
def exampleLoadByte : FiveStageSimulator :=
  { memory_ := { arena_ := [0x80, 0, 0, 0] },
    mem_op_ := some { inst_type := TrapHandling.InstType.LB, dest_reg := 5, out := 0,
                      read_mem := true, read_sign_ext := true, mem_len := 1 } }

/-- As `exampleLoadByte`, an LW of the word `0x80000000` at address 0. -/
def exampleLoadWord : FiveStageSimulator :=
  { memory_ := { arena_ := [0, 0, 0, 0x80] },
    mem_op_ := some { inst_type := TrapHandling.InstType.LW, dest_reg := 5, out := 0,
                      read_mem := true, read_sign_ext := true, mem_len := 4 } }

end Forwarding

namespace BranchPrediction

open TrapHandling (Regs toInt64 toUInt32 toUInt64 InstType IsBranch IsJump)
open MultilevelCache (Memory Fault)

/-! ## `memory_manager.cc` of the branch-prediction variant

`MemoryManager` forwards to its `backend_` through the templates `Read` and `Write` of
`byte_addressable.h`, which copy the bytes of the value in the order of the host
(little-endian).  The class `Memory` behind `backend_` (`memory.h`, `memory.cc`) is not
among the sources of this variant; the backing store of the cache variant, which implements
the same interface `ByteAddressable`, stands in for it. -/

/-- The class `MemoryManager`. -/
structure MemoryManager where
  backend_ : Memory
  deriving DecidableEq, Repr

/-- The bytes of a value of `n` bytes, lowest first (`std::memcpy` from the value). -/
def toBytes : Nat → Nat → List Nat
  | 0, _ => []
  | n + 1, v => v % 256 :: toBytes n (v / 256)

/-- The value of a list of bytes, lowest first (`std::memcpy` into the value). -/
def ofBytes : List Nat → Nat
  | [] => 0
  | b :: bs => b % 256 + 256 * ofBytes bs

/-- The template `ByteAddressable::Read<T>` for a `T` of `n` bytes. -/
def MemoryManager.Read (mm : MemoryManager) (addr n : Nat) : Except Fault Nat :=
  match mm.backend_.ReadSpan addr n with
  | .error e => .error e
  | .ok bytes => .ok (ofBytes bytes)

/-- The template `ByteAddressable::Write<T>` for a `T` of `n` bytes. -/
def MemoryManager.Write (mm : MemoryManager) (addr n val : Nat) : Except Fault MemoryManager :=
  match mm.backend_.WriteSpan addr (toBytes n val) with
  | .error e => .error e
  | .ok m => .ok { mm with backend_ := m }

def MemoryManager.SetByte (mm : MemoryManager) (addr val : Nat) : Except Fault MemoryManager :=
  mm.Write addr 1 val

def MemoryManager.SetShort (mm : MemoryManager) (addr val : Nat) : Except Fault MemoryManager :=
  mm.Write addr 2 val

def MemoryManager.SetInt (mm : MemoryManager) (addr val : Nat) : Except Fault MemoryManager :=
  mm.Write addr 4 val

def MemoryManager.SetLong (mm : MemoryManager) (addr val : Nat) : Except Fault MemoryManager :=
  mm.Write addr 8 val

def MemoryManager.GetByte (mm : MemoryManager) (addr : Nat) : Except Fault Nat := mm.Read addr 1

def MemoryManager.GetShort (mm : MemoryManager) (addr : Nat) : Except Fault Nat := mm.Read addr 2

def MemoryManager.GetInt (mm : MemoryManager) (addr : Nat) : Except Fault Nat := mm.Read addr 4

def MemoryManager.GetLong (mm : MemoryManager) (addr : Nat) : Except Fault Nat := mm.Read addr 8

/-! ## `five_stage_simulator.cc` of the branch-prediction variant

`Panic` prints and calls `exit(1)`, the exit syscall ends in `exit(0)`, and an exception of
the memory that nothing catches ends the process: a stage that does not return ends with a
`Stop`.  The history strings and the verbose output are display only and are left out. -/

/-- Modelled from the spec: the struct `PipeOp` of this variant (`riscv.h` is not among its
sources) is the decoded operation of the spec, the record of the trap-handling variant with
a `predicted_taken` bit. -/
structure PipeOp extends TrapHandling.PipeOp where
  predicted_taken : Bool := false
  deriving DecidableEq, Repr

/-- The functions `DecodeInst` and `ExecuteInst` of `riscv.h`, whose definitions (`riscv.cc`)
are not among the sources of this variant: they are parameters of the pipeline.  `none` is
a thrown exception; `ExecuteInst` is called with `exit_ctrl = false` and a pointer to the
memory, and gives the operation, the flag and the memory it leaves. -/
structure Isa where
  DecodeInst : PipeOp → Regs → Option PipeOp
  ExecuteInst : PipeOp → MemoryManager → Option (PipeOp × Bool × MemoryManager)

/-- Modelled from the spec: the template `SEXT<N>` (not among the sources) is the sign
extension of the low `N` bits of a value. -/
def SEXT (n x : Nat) : Int := TrapHandling.signExtend n x

/-- The ways the simulator ends the process. -/
inductive Stop where
  /-- `Panic("Register 0's value is not zero!")`. -/
  | reg0_not_zero
  /-- `Panic("Stack Overflow!")`. -/
  | stack_overflow
  /-- `Panic("Illegal PC 0x%x!")`. -/
  | illegal_pc
  /-- `Panic("Current implementation does not support 16bit RV64C instructions!")`. -/
  | no_rv64c
  /-- `Panic(e.what())` after `DecodeInst` threw. -/
  | decode_failed
  /-- `Panic(e.what())` after `ExecuteInst` threw. -/
  | execute_failed
  /-- `exit(0)` after an exit syscall. -/
  | exit_syscall
  /-- `Panic("Unknown memLen %d")`. -/
  | unknown_mem_len (mem_len : Nat)
  /-- An exception of the memory that is not caught. -/
  | memory_fault (f : Fault)
  /-- A write to `regs_[dest_reg]` with `dest_reg` beyond the 32 registers (undefined). -/
  | undefined_register_write (dest_reg : Int)
  deriving DecidableEq, Repr

/-- The struct `History` (the `uint32_t` counters). -/
structure History where
  inst_count : Nat := 0
  cycle_count : Nat := 0
  data_hazard_count : Nat := 0
  control_hazard_count : Nat := 0
  deriving DecidableEq, Repr

/-- The class `FiveStageSimulator` with the members of its base class `Simulator`; the
headers of this variant are not among its sources, and the members have the types of the
headers of the other variants (`pc_` and the registers are `uint64_t`, `stack_base_` and
`stack_size_` are `uint32_t`; `branch_next_pc_` only ever holds a `uint32_t`).
Modelled from the spec: `branch_count_` and `mispredict_count_`, which no other variant
has, are counters without a bound. -/
structure FiveStageSimulator where
  pc_ : Nat := 0
  regs_ : Regs := fun _ => 0
  stack_base_ : Nat := 0
  stack_size_ : Nat := 0
  memory_ : MemoryManager
  predictor_ : BranchPredictor := BranchPredictor.AlwaysNotTaken
  wait_for_branch_ : Bool := false
  should_recover_branch_ : Bool := false
  branch_next_pc_ : Nat := 0
  wait_for_data_ : Bool := false
  data_hazard_execute_op_dest_ : Int := -1
  data_hazard_mem_op_dest_ : Int := -1
  data_hazard_wb_op_dest_ : Int := -1
  decode_op_ : Option PipeOp := none
  execute_op_ : Option PipeOp := none
  mem_op_ : Option PipeOp := none
  wb_op_ : Option PipeOp := none
  history_ : History := {}
  branch_count_ : Nat := 0
  mispredict_count_ : Nat := 0

/-- The method `FiveStageSimulator::PipeRecover`; `dest_pc` is a `uint32_t`. -/
def FiveStageSimulator.PipeRecover (s : FiveStageSimulator) (dest_pc : Nat) :
    FiveStageSimulator :=
  { s with should_recover_branch_ := true, branch_next_pc_ := dest_pc % 2 ^ 32 }

/-- The method `FiveStageSimulator::Fetch`. -/
def FiveStageSimulator.Fetch (s : FiveStageSimulator) : Except Stop FiveStageSimulator :=
  if s.wait_for_branch_ then .ok s
  else if s.decode_op_.isSome then .ok s
  else if s.pc_ % 2 ≠ 0 then .error Stop.illegal_pc
  else
    match s.memory_.GetInt (s.pc_ % 2 ^ 32) with
    | .error f => .error (Stop.memory_fault f)
    | .ok inst =>
      .ok { s with decode_op_ := some { inst := inst, pc := s.pc_ },
                   pc_ := (s.pc_ + 4) % 2 ^ 64 }

/-- The lambda `wait_for_data` of `Decode`. -/
def FiveStageSimulator.wait_for_data (s : FiveStageSimulator) (rs : Int) : Bool :=
  decide (rs > 0) &&
    (decide (rs = s.data_hazard_execute_op_dest_) || decide (rs = s.data_hazard_mem_op_dest_) ||
      decide (rs = s.data_hazard_wb_op_dest_))

/-- The method `FiveStageSimulator::Decode`. -/
def FiveStageSimulator.Decode (isa : Isa) (s : FiveStageSimulator) :
    Except Stop FiveStageSimulator :=
  match s.decode_op_ with
  | none => .ok s
  | some op =>
    if op.pc_len ≠ 4 then .error Stop.no_rv64c
    else
      match isa.DecodeInst op s.regs_ with
      | none => .error Stop.decode_failed
      | some op =>
        let s := { s with decode_op_ := some op }
        if s.execute_op_.isSome then .ok s
        else if s.wait_for_data op.rs1 || s.wait_for_data op.rs2 then
          .ok { s with history_ :=
                  { s.history_ with
                    data_hazard_count := (s.history_.data_hazard_count + 1) % 2 ^ 32 } }
        else if IsBranch op.inst_type then
          let op := { op with predicted_taken := s.predictor_.Predict op.pc }
          let s :=
            if op.predicted_taken then
              ({ s with wait_for_branch_ := true }).PipeRecover
                (toUInt64 ((op.pc : Int) + op.offset))
            else s
          .ok { s with execute_op_ := some op, decode_op_ := none }
        else if IsJump op.inst_type then
          .ok { s with wait_for_branch_ := true, execute_op_ := some op, decode_op_ := none }
        else .ok { s with execute_op_ := some op, decode_op_ := none }

/-- The method `FiveStageSimulator::Execute`. -/
def FiveStageSimulator.Execute (isa : Isa) (s : FiveStageSimulator) :
    Except Stop FiveStageSimulator :=
  match s.execute_op_ with
  | none => .ok s
  | some op =>
    if s.mem_op_.isSome then .ok s
    else
      let s := { s with history_ :=
                   { s.history_ with inst_count := (s.history_.inst_count + 1) % 2 ^ 32 } }
      match isa.ExecuteInst op s.memory_ with
      | none => .error Stop.execute_failed
      | some (op, exit_ctrl, memory) =>
        if exit_ctrl then .error Stop.exit_syscall
        else
          let s := { s with memory_ := memory }
          let actual_taken := op.branch
          let actual_target_pc := op.jump_pc
          let sequential_pc := (op.pc + 4) % 2 ^ 64
          let s :=
            if IsBranch op.inst_type then
              let s := { s with branch_count_ := s.branch_count_ + 1,
                                predictor_ :=
                                  s.predictor_.Update op.pc actual_taken actual_target_pc }
              if op.predicted_taken ≠ actual_taken then
                let s := { s with mispredict_count_ := s.mispredict_count_ + 1,
                                  history_ :=
                                    { s.history_ with
                                      control_hazard_count :=
                                        (s.history_.control_hazard_count + 2) % 2 ^ 32 } }
                let s := s.PipeRecover (if actual_taken then actual_target_pc else sequential_pc)
                { s with decode_op_ := none, wait_for_branch_ := true }
              else s
            else if IsJump op.inst_type then
              { s.PipeRecover actual_target_pc with decode_op_ := none }
            else s
          .ok { s with data_hazard_execute_op_dest_ := op.dest_reg, mem_op_ := some op,
                       execute_op_ := none }

/-- The store of `MemoryAccess`: the `switch (mem_len)` under `if (write_mem)`. -/
def storeStep (memory : MemoryManager) (op : PipeOp) : Except Stop MemoryManager :=
  if op.write_mem then
    if op.mem_len = 1 then
      match memory.SetByte (toUInt32 op.out) (toUInt64 op.op2 % 2 ^ 8) with
      | .error f => .error (Stop.memory_fault f)
      | .ok m => .ok m
    else if op.mem_len = 2 then
      match memory.SetShort (toUInt32 op.out) (toUInt64 op.op2 % 2 ^ 16) with
      | .error f => .error (Stop.memory_fault f)
      | .ok m => .ok m
    else if op.mem_len = 4 then
      match memory.SetInt (toUInt32 op.out) (toUInt64 op.op2 % 2 ^ 32) with
      | .error f => .error (Stop.memory_fault f)
      | .ok m => .ok m
    else if op.mem_len = 8 then
      match memory.SetLong (toUInt32 op.out) (toUInt64 op.op2) with
      | .error f => .error (Stop.memory_fault f)
      | .ok m => .ok m
    else .error (Stop.unknown_mem_len op.mem_len)
  else .ok memory

/-- The load of `MemoryAccess`: the `switch (mem_len)` under `if (read_mem)`, giving the new
`out`. -/
def loadStep (memory : MemoryManager) (op : PipeOp) : Except Stop Int :=
  if op.read_mem then
    if op.mem_len = 1 then
      match memory.GetByte (toUInt32 op.out) with
      | .error f => .error (Stop.memory_fault f)
      | .ok v => if op.read_sign_ext then .ok (SEXT 8 v) else .ok (toInt64 v)
    else if op.mem_len = 2 then
      match memory.GetShort (toUInt32 op.out) with
      | .error f => .error (Stop.memory_fault f)
      | .ok v => if op.read_sign_ext then .ok (SEXT 16 v) else .ok (toInt64 v)
    else if op.mem_len = 4 then
      match memory.GetInt (toUInt32 op.out) with
      | .error f => .error (Stop.memory_fault f)
      | .ok v => if op.read_sign_ext then .ok (SEXT 32 v) else .ok (toInt64 v)
    else if op.mem_len = 8 then
      match memory.GetLong (toUInt32 op.out) with
      | .error f => .error (Stop.memory_fault f)
      | .ok v => .ok (toInt64 v)
    else .error (Stop.unknown_mem_len op.mem_len)
  else .ok op.out

/-- The method `FiveStageSimulator::MemoryAccess`. -/
def FiveStageSimulator.MemoryAccess (s : FiveStageSimulator) : Except Stop FiveStageSimulator :=
  match s.mem_op_ with
  | none => .ok s
  | some op =>
    match storeStep s.memory_ op with
    | .error e => .error e
    | .ok memory =>
      match loadStep memory op with
      | .error e => .error e
      | .ok out =>
        .ok { s with data_hazard_mem_op_dest_ := op.dest_reg, memory_ := memory,
                     wb_op_ := some { op with out := out }, mem_op_ := none }

/-- The method `FiveStageSimulator::WriteBack`; `regs_` has 32 entries. -/
def FiveStageSimulator.WriteBack (s : FiveStageSimulator) : Except Stop FiveStageSimulator :=
  match s.wb_op_ with
  | none => .ok s
  | some op =>
    if op.dest_reg > 0 then
      if op.dest_reg < 32 then
        .ok { s with regs_ := fun i => if i = op.dest_reg.toNat then toUInt64 op.out
                                       else s.regs_ i,
                     data_hazard_wb_op_dest_ := op.dest_reg, wb_op_ := none }
      else .error (Stop.undefined_register_write op.dest_reg)
    else .ok { s with data_hazard_wb_op_dest_ := op.dest_reg, wb_op_ := none }

/-- The start of a pass of the loop of `FiveStageSimulator::Run`: the branch recovery and
the reset of the hazard registers. -/
def FiveStageSimulator.Prologue (s : FiveStageSimulator) : FiveStageSimulator :=
  let s :=
    if s.should_recover_branch_ then
      { s with pc_ := s.branch_next_pc_, should_recover_branch_ := false,
               branch_next_pc_ := 0, wait_for_branch_ := false }
    else s
  { s with wait_for_data_ := false, data_hazard_execute_op_dest_ := -1,
           data_hazard_mem_op_dest_ := -1, data_hazard_wb_op_dest_ := -1 }

/-- The five stages in the order of the loop of `Run`: `WriteBack`, `MemoryAccess`,
`Execute`, `Decode`, `Fetch`. -/
def FiveStageSimulator.Stages (isa : Isa) (s : FiveStageSimulator) :
    Except Stop FiveStageSimulator :=
  match s.WriteBack with
  | .error e => .error e
  | .ok s =>
    match s.MemoryAccess with
    | .error e => .error e
    | .ok s =>
      match s.Execute isa with
      | .error e => .error e
      | .ok s =>
        match s.Decode isa with
        | .error e => .error e
        | .ok s => s.Fetch

/-- One pass of the loop of `FiveStageSimulator::Run`: the checks, the branch recovery, the
reset of the hazard registers, the five stages and the cycle counter. -/
def FiveStageSimulator.Cycle (isa : Isa) (s : FiveStageSimulator) :
    Except Stop FiveStageSimulator :=
  if s.regs_ 0 ≠ 0 then .error Stop.reg0_not_zero
  else if s.regs_ 2 < (s.stack_base_ + 2 ^ 32 - s.stack_size_) % 2 ^ 32 then
    .error Stop.stack_overflow
  else
    match s.Prologue.Stages isa with
    | .error e => .error e
    | .ok s =>
      .ok { s with history_ :=
              { s.history_ with cycle_count := (s.history_.cycle_count + 1) % 2 ^ 32 } }

/-- The state after `n` passes of the loop of `Run`. -/
def FiveStageSimulator.Cycles (isa : Isa) : Nat → FiveStageSimulator →
    Except Stop FiveStageSimulator
  | 0, s => .ok s
  | n + 1, s =>
    match s.Cycle isa with
    | .error e => .error e
    | .ok s => FiveStageSimulator.Cycles isa n s

/-! ## Example machines

The decoder and the executor of the trap-handling variant (`riscv.cc`) stand in for the
missing ones of this variant in the examples. -/

/-- The pipeline with `DecodeInst` and `ExecuteInst` of the trap-handling variant; the system
calls of the executor read the memory through `GetByte` (an address that cannot be read is
read as `0` here) and the standard input through `inp`. -/
def trapIsa (fuel : Nat) (inp : TrapHandling.Stdin) : Isa where
  DecodeInst := fun op regs =>
    match TrapHandling.DecodeInst op.toPipeOp regs with
    | .ok o => some { op with toPipeOp := o }
    | .error _ => none
  ExecuteInst := fun op mm =>
    match TrapHandling.ExecuteInst fuel op.toPipeOp false
        { GetByte := fun a => match mm.GetByte a with
                              | .ok v => v
                              | .error _ => 0 } inp with
    | .ok (o, exit_ctrl) => some ({ op with toPipeOp := o }, exit_ctrl, mm)
    | .error _ => none

/-- The pipeline of the examples: no system call is run in them. -/
def exampleIsa : Isa := trapIsa 0 {}

/-- The word of `lw x5, 0(x6)`. -/
def LW_X5_0_X6 : Nat := 0x00032283

/-- The word of `add x7, x5, x0`. -/
def ADD_X7_X5_X0 : Nat := 0x000283B3

/-- The word of `beq x0, x5, 16`. -/
def BEQ_X0_X5_16 : Nat := 0x00500863

/-- A memory of 64 bytes with `lw x5, 0(x6)` at address 0, `add x7, x5, x0` at address 4
and the word `0x2A` at address 32. -/
def exampleLwAddMemory : MemoryManager :=
  { backend_ := ⟨toBytes 4 LW_X5_0_X6 ++ toBytes 4 ADD_X7_X5_X0 ++ List.replicate 24 0 ++
      toBytes 4 0x2A ++ List.replicate 28 0⟩ }

/-- An empty pipeline at `pc_ = 0` on `exampleLwAddMemory`, with `x6 = 32`. -/
def exampleLwAdd : FiveStageSimulator :=
  { memory_ := exampleLwAddMemory, regs_ := fun i => if i = 6 then 32 else 0 }

/-- The pipeline `exampleLwAdd` with `x6 = 36` and ten data hazards counted so far. -/
def exampleLwAddLater : FiveStageSimulator :=
  { exampleLwAdd with regs_ := fun i => if i = 6 then 36 else 0,
                      history_ := { data_hazard_count := 10 } }

/-- A pipeline whose only operation, in the write-back slot, writes 42 to `x5`; the fetch
waits for a branch (`x6 = 32`, as in `exampleLwAdd`). -/
def exampleWriteBack : FiveStageSimulator :=
  { exampleLwAdd with wait_for_branch_ := true,
                      wb_op_ := some { dest_reg := 5, out := 42 } }

/-- The state `exampleWriteBack` after one pass of the loop of `Run`. -/
def exampleWriteBackAfter : FiveStageSimulator :=
  { exampleWriteBack with
      regs_ := fun i => if i = 5 then 42 else if i = 6 then 32 else 0,
      data_hazard_wb_op_dest_ := 5, wb_op_ := none, history_ := { cycle_count := 1 } }

/-- A memory of 64 bytes with `beq x0, x5, 16` at address 0. -/
def exampleBranchMemory : MemoryManager :=
  { backend_ := ⟨toBytes 4 BEQ_X0_X5_16 ++ List.replicate 60 0⟩ }

/-- The word `beq x0, x5, 16` at `pc = 0`, decoded with `x5 = 7` and predicted taken. -/
def exampleBranchOp : PipeOp :=
  { inst := BEQ_X0_X5_16, pc := 0, inst_type := InstType.BEQ, rs1 := 0, rs2 := 5, op1 := 0,
    op2 := 7, offset := 16, predicted_taken := true }

/-- A pipeline with the always-taken predictor and `exampleBranchOp` in the execute slot, as
`Decode` leaves it: the fetch waits for the branch and the recovery to `pc + offset = 16` has
been done (`pc_ = 16`). -/
def exampleBranch : FiveStageSimulator :=
  { memory_ := exampleBranchMemory, regs_ := fun i => if i = 5 then 7 else 0,
    predictor_ := BranchPredictor.AlwaysTaken, pc_ := 16, execute_op_ := some exampleBranchOp }

/-- What the examples show of a state: the instruction words in the decode, execute, memory
and write-back slots, and the count of data hazards. -/
def FiveStageSimulator.slots (s : FiveStageSimulator) :
    Option Nat × Option Nat × Option Nat × Option Nat × Nat :=
  (s.decode_op_.map (fun op => op.inst), s.execute_op_.map (fun op => op.inst),
   s.mem_op_.map (fun op => op.inst), s.wb_op_.map (fun op => op.inst),
   s.history_.data_hazard_count)

/-- The slots after `n` cycles. -/
def slotsAfter (isa : Isa) (n : Nat) (s : FiveStageSimulator) :
    Except Stop (Option Nat × Option Nat × Option Nat × Option Nat × Nat) :=
  match FiveStageSimulator.Cycles isa n s with
  | .ok s => .ok s.slots
  | .error e => .error e

end BranchPrediction

namespace MultilevelCache

/-! ## Example levels -/

/-- The configuration of a level of 32 bytes with 2 ways and 4-byte lines. -/
def exampleLevelConfig : CacheLevelConfig :=
  { size := 32, associativity := 2, line_size := 4, latency := 1 }

/-- The level that `CacheLevel::CacheLevel` builds from `exampleLevelConfig`: 4 sets of 2
lines. -/
def exampleLevel : CacheLevel :=
  { stats_ := {}, config_ := exampleLevelConfig, num_sets_ := 4, index_bits_ := 2,
    offset_bits_ := 2, tag_bits_ := 28,
    sets_ := List.replicate 4 (CacheSet.new 2 4 ReplacementPolicy.LRU) }

/-! ## The flat memory that the cache is compared with -/

/-- The bytes a flat memory `mem` returns for a read of `len` bytes at `addr`: for every
byte the value most recently written to its address. -/
def flatRead (mem : List Nat) (addr len : Nat) : List Nat := (mem.drop addr).take len

/-- The flat memory after the bytes `inp` are written at `addr`. -/
def flatWrite (mem : List Nat) (addr : Nat) (inp : List Nat) : List Nat := memcpy mem addr inp

/-- The bytes that the reads of a sequence of calls return on a flat memory, in the order of
the calls; a demote changes nothing. -/
def flatReads : List Nat → List Call → List (List Nat)
  | _, [] => []
  | mem, Call.read addr len :: calls => flatRead mem addr len :: flatReads mem calls
  | mem, Call.write addr inp :: calls => flatReads (flatWrite mem addr inp) calls
  | mem, Call.demote _ :: calls => flatReads mem calls

/-- The bytes that the `ReadSpan` calls of a sequence of calls of the interface of
`TieredCache` store into `out`, in the order of the calls. -/
def TieredCache.reads (fuel : Nat) : TieredCache → List Call → Except Fault (List (List Nat))
  | _, [] => .ok []
  | c, Call.read addr len :: calls =>
    match c.ReadSpan fuel addr len with
    | .error e => .error e
    | .ok (c1, out) =>
      match TieredCache.reads fuel c1 calls with
      | .error e => .error e
      | .ok outs => .ok (out :: outs)
  | c, Call.write addr inp :: calls =>
    match c.WriteSpan fuel addr inp with
    | .error e => .error e
    | .ok c1 => TieredCache.reads fuel c1 calls
  | c, Call.demote addr :: calls =>
    match c.Demote fuel addr with
    | .error e => .error e
    | .ok c1 => TieredCache.reads fuel c1 calls

/-- The reads of a sequence of calls on the cache built from `opts` over `main_memory`. -/
def TieredCache.readsFresh (fuel : Nat) (opts : Options) (main_memory : Memory)
    (calls : List Call) : Except Fault (List (List Nat)) :=
  match TieredCache.new opts main_memory [] with
  | .error e => .error e
  | .ok c => c.reads fuel calls

/-- An inclusive hierarchy of two levels of 8 bytes each, 2-way, with 4-byte lines (LRU). -/
def exampleTwoLevelOpts : Options :=
  { enable_cache := true, inclusion_policy := InclusionPolicy.Inclusive,
    cache_levels := [{ size := 8, associativity := 2, line_size := 4 },
                     { size := 8, associativity := 2, line_size := 4 }] }

/-- Two stores to the line of address 4 around a store to the line of address 8, then loads
from the lines of the addresses 0 and 4. -/
def exampleLostStoreCalls : List Call :=
  [Call.write 4 [1], Call.write 8 [2], Call.write 4 [3], Call.read 0 1, Call.read 4 1]

/-- An inclusive hierarchy with 4-byte lines: L1 and L2 are 16 bytes 4-way, L3 is 8 bytes
2-way (LRU). -/
def exampleThreeLevelOpts : Options :=
  { enable_cache := true, inclusion_policy := InclusionPolicy.Inclusive,
    cache_levels := [{ size := 16, associativity := 4, line_size := 4 },
                     { size := 16, associativity := 4, line_size := 4 },
                     { size := 8, associativity := 2, line_size := 4 }] }

/-- The state in which `HandleRead` at L3 calls `BackInvalidate(1, 0)` during `ReadSpan(8, 1)`
in the hierarchy `exampleThreeLevelOpts` that has served 1-byte stores at 0 and at 4: the
three levels have counted their miss and `Allocate` has retagged a line for address 8 in
each; in L3 that is the line of address 0, the victim.  L1 holds the line of address 0 dirty,
L2 holds it clean. -/
def exampleBeforeBackInvalidate : Except Fault TieredCache :=
  match TieredCache.runFresh 32 exampleThreeLevelOpts (Memory.new 128) []
      [Call.write 0 [1], Call.write 4 [2]] with
  | .error e => .error e
  | .ok c0 =>
    match c0.levels_ with
    | [l1, l2, l3] =>
      let c : TieredCache :=
        { c0 with current_cycle_ := u64 (c0.current_cycle_ + 1), last_access_latency_ := 0 }
      let c := (((c.countAccess 0).countMiss 0).Allocate l1 0 8).1
      let c := (((c.countAccess 1).countMiss 1).Allocate l2 1 8).1
      .ok (((c.countAccess 2).countMiss 2).Allocate l3 2 8).1
    | _ => .error Fault.out_of_bounds

/-- For each level, whether the line of address `addr` is valid in it and, if so, whether it
is dirty. -/
def TieredCache.linesOf (c : TieredCache) (addr : Nat) : List (Option Bool) :=
  c.levels_.map (fun lv => (lv.Find addr).map (fun way => (lv.lineAt (lv.GetIndex addr) way).dirty))

/-! ## Latency and counters of the accesses at L1 -/

/-- The result of `HandleRead` entered with latency `lat`, from its result when it is entered
with latency 0: the latency it adds comes on top of `lat` (a `uint32_t`). -/
def shiftRead (lat : Nat) :
    Except Fault (TieredCache × List Nat × Nat) → Except Fault (TieredCache × List Nat × Nat)
  | .error e => .error e
  | .ok (c, out, d) => .ok (c, out, u32 (lat + d))

/-- The result of `HandleWrite` or `Evict` entered with latency `lat`, from the result when
entered with latency 0. -/
def shiftWrite (lat : Nat) :
    Except Fault (TieredCache × Nat) → Except Fault (TieredCache × Nat)
  | .error e => .error e
  | .ok (c, d) => .ok (c, u32 (lat + d))

/-- From `c` to `c'` the counters `accesses`, `hits` and `misses` of L1 keep their values. -/
def SameL1Counts (c c' : TieredCache) : Prop :=
  (c'.statsAt 0).accesses = (c.statsAt 0).accesses ∧ (c'.statsAt 0).hits = (c.statsAt 0).hits ∧
    (c'.statsAt 0).misses = (c.statsAt 0).misses

/-- From `c` to `c'` the level L1 keeps its geometry. -/
def SameL1Geom (c c' : TieredCache) : Prop :=
  ∀ lv, c.levels_[0]? = some lv → ∃ lv', c'.levels_[0]? = some lv' ∧ lv.SameGeom lv'

/-- The call `Evict(0, victim_line, victim_addr, latency)` of a read miss at `addr` in L1
(`level`), entered with latency 0; without a victim nothing is run. -/
def fillEvict (fuel : Nat) (c : TieredCache) (level : CacheLevel) (addr : Nat)
    (victim_line : Option CacheLine) : Except Fault (TieredCache × Nat) :=
  match victim_line with
  | some v => Evict fuel c 0 (LineRef.copy v) (level.GetAddr v.tag (level.GetIndex addr)) 0
  | none => .ok (c, 0)

/-- The fetch of the line of `addr` by a read miss in L1 (`level`), entered with latency 0:
from L2, or from memory if L1 is the only level. -/
def fillFetch (fuel : Nat) (c : TieredCache) (level : CacheLevel) (addr : Nat)
    (is_write_alloc : Bool) : Except Fault (TieredCache × List Nat × Nat) :=
  if 0 + 1 < c.levels_.length then
    HandleRead fuel c (0 + 1) (level.GetAddr (level.GetTag addr) (level.GetIndex addr))
      level.config_.line_size 0 is_write_alloc
  else
    match ReadFromMemory c (level.GetAddr (level.GetTag addr) (level.GetIndex addr))
        level.config_.line_size 0 with
    | .error e => .error e
    | .ok (out, latency4) => .ok (c, out, latency4)

/-- The latency that the miss path of `HandleRead` at L1 adds after L1 has charged its own
latency, for the miss at `addr` in the state `c` in which `HandleRead` is entered: the
latency of the `Evict` of the victim, if `Allocate` returns one, and of the fetch of the
line from L2, or from memory if L1 is the only level, each entered with latency 0
(`BackInvalidate(-1, victim_addr)` returns at once). -/
def fillLatency (fuel : Nat) (c : TieredCache) (addr : Nat) (is_write_alloc : Bool) :
    Except Fault Nat :=
  match c.levels_[0]? with
  | none => .error Fault.out_of_bounds
  | some level =>
    match fillEvict fuel (((c.countAccess 0).countMiss 0).Allocate level 0 addr).1 level addr
        (((c.countAccess 0).countMiss 0).Allocate level 0 addr).2.1 with
    | .error e => .error e
    | .ok (c3, latency3) =>
      match fillFetch fuel c3 level addr is_write_alloc with
      | .error e => .error e
      | .ok (_, _, latency4) => .ok (u32 (latency3 + latency4))

/-- The accounting of one read within a line of L1 that takes the cache from `c` to `c'`
and adds the latency `charge`, where `latency` is the latency of L1: one access is counted
at L1; if the line of `addr` is in L1 it is one hit and the charge is `latency`; if not it is
one miss and the charge is `latency` and the latency of the fill. -/
def ReadAccounted (fuel : Nat) (c c' : TieredCache) (latency addr : Nat) (is_write_alloc : Bool)
    (charge : Nat) : Prop :=
  (c'.statsAt 0).accesses = u64 ((c.statsAt 0).accesses + 1) ∧
  (c.resident 0 addr →
    (c'.statsAt 0).hits = u64 ((c.statsAt 0).hits + 1) ∧
    (c'.statsAt 0).misses = (c.statsAt 0).misses ∧ charge = u32 latency) ∧
  (¬ c.resident 0 addr →
    (c'.statsAt 0).hits = (c.statsAt 0).hits ∧
    (c'.statsAt 0).misses = u64 ((c.statsAt 0).misses + 1) ∧
    ∃ fill, fillLatency fuel c addr is_write_alloc = .ok fill ∧ charge = u32 (latency + fill))

/-- The accounting of one write within a line of L1 that takes the cache from `c` to `c'`
and adds the latency `charge`, where `latency` is the latency of L1: if the line of `addr`
is in L1, one access and one hit are counted and the charge is `latency`; if not, the write
and the read that allocates the line are two accesses and two misses, and the charge is
`latency` twice and the latency of the fill. -/
def WriteAccounted (fuel : Nat) (c c' : TieredCache) (latency addr : Nat) (charge : Nat) :
    Prop :=
  (c.resident 0 addr →
    (c'.statsAt 0).accesses = u64 ((c.statsAt 0).accesses + 1) ∧
    (c'.statsAt 0).hits = u64 ((c.statsAt 0).hits + 1) ∧
    (c'.statsAt 0).misses = (c.statsAt 0).misses ∧ charge = u32 latency) ∧
  (¬ c.resident 0 addr →
    (c'.statsAt 0).accesses = u64 ((c.statsAt 0).accesses + 2) ∧
    (c'.statsAt 0).hits = (c.statsAt 0).hits ∧
    (c'.statsAt 0).misses = u64 ((c.statsAt 0).misses + 2) ∧
    ∃ fill, fillLatency fuel ((c.countAccess 0).countMiss 0) addr true = .ok fill ∧
      charge = u32 (latency + latency + fill))

/-- The level that `CacheLevel::CacheLevel` builds for each level of `exampleTwoLevelOpts`:
one set of two 4-byte lines. -/
def exampleSmallLevel : CacheLevel :=
  { stats_ := {}, config_ := { size := 8, associativity := 2, line_size := 4 },
    num_sets_ := 1, index_bits_ := 0, offset_bits_ := 2, tag_bits_ := 30,
    sets_ := List.replicate 1 (CacheSet.new 2 4 ReplacementPolicy.LRU) }

/-- The cache that the constructor builds from `exampleTwoLevelOpts` over 64 zero bytes. -/
def exampleTwoLevelCache : TieredCache :=
  { opts_ := exampleTwoLevelOpts, levels_ := [exampleSmallLevel, exampleSmallLevel],
    main_memory_ := Memory.new 64, current_cycle_ := 0, last_access_latency_ := 0,
    rand_ := [] }

/-- The cache `exampleTwoLevelCache` as `ReadSpan` and `WriteSpan` hand it to `HandleRead`
and `HandleWrite`: the cycle is counted. -/
def exampleTwoLevelCounted : TieredCache :=
  { exampleTwoLevelCache with current_cycle_ := u64 (exampleTwoLevelCache.current_cycle_ + 1),
                              last_access_latency_ := 0 }

/-- What the examples show of the result of a call: the counters `accesses`, `hits` and
`misses` of L1 and the reported latency. -/
def TieredCache.l1Summary (c : TieredCache) : Nat × Nat × Nat × Nat :=
  ((c.statsAt 0).accesses, (c.statsAt 0).hits, (c.statsAt 0).misses, c.last_access_latency_)

/-! ## A call that does not return -/

/-- An inclusive hierarchy with 4-byte lines: L1 is 16 bytes 4-way, L2 is 8 bytes 2-way
(LRU). -/
def exampleStuckOpts : Options :=
  { enable_cache := true, inclusion_policy := InclusionPolicy.Inclusive,
    cache_levels := [{ size := 16, associativity := 4, line_size := 4 },
                     { size := 8, associativity := 2, line_size := 4 }] }

/-- A 1-byte load from address 0 and a 1-byte store to address 4. -/
def exampleStuckCalls : List Call := [Call.read 0 1, Call.write 4 [7]]

/-- The cache built from `exampleStuckOpts` over 128 zero bytes after `exampleStuckCalls`:
both levels hold the lines of the addresses 0 and 4, the latter dirty in L1. -/
def exampleStuckStart : TieredCache :=
  { opts_ := exampleStuckOpts,
    levels_ :=
      [{ stats_ := { accesses := 3, misses := 3 },
         config_ := { size := 16, associativity := 4, line_size := 4 },
         num_sets_ := 1, index_bits_ := 0, offset_bits_ := 2, tag_bits_ := 30,
         sets_ := [{ assoc_ := 4, line_size_ := 4, replacement_policy_ := ReplacementPolicy.LRU,
                     lines_ := [{ valid := true, tag := 0, data := [0, 0, 0, 0],
                                  lru_timestamp := 1 },
                                { valid := true, dirty := true, tag := 1, data := [7, 0, 0, 0],
                                  lru_timestamp := 2 },
                                { data := [0, 0, 0, 0] }, { data := [0, 0, 0, 0] }] }] },
       { stats_ := { accesses := 2, misses := 2 },
         config_ := { size := 8, associativity := 2, line_size := 4 },
         num_sets_ := 1, index_bits_ := 0, offset_bits_ := 2, tag_bits_ := 30,
         sets_ := [{ assoc_ := 2, line_size_ := 4, replacement_policy_ := ReplacementPolicy.LRU,
                     lines_ := [{ valid := true, tag := 0, data := [0, 0, 0, 0],
                                  lru_timestamp := 1 },
                                { valid := true, tag := 1, data := [0, 0, 0, 0],
                                  lru_timestamp := 2 }] }] }],
    main_memory_ := Memory.new 128, current_cycle_ := 2, last_access_latency_ := 12 }

/-- The state `exampleStuckStart` at the start of the next call of `WriteSpan`:
`current_cycle_++` and `last_access_latency_ = 0`. -/
def exampleStuckEntered : TieredCache :=
  { exampleStuckStart with current_cycle_ := 3, last_access_latency_ := 0 }

/-- The state in which `HandleWrite(0, 15, 1 byte)`, the first part of `WriteSpan(15, 4 bytes)`
on `exampleStuckStart`, returns: L2 has replaced the line of address 0 by the line of address
12, L1 has lost the line of address 0 and holds the line of address 12 dirty. -/
def exampleStuckMid : TieredCache :=
  { opts_ := exampleStuckOpts,
    levels_ :=
      [{ stats_ := { accesses := 5, misses := 5 },
         config_ := { size := 16, associativity := 4, line_size := 4 },
         num_sets_ := 1, index_bits_ := 0, offset_bits_ := 2, tag_bits_ := 30,
         sets_ := [{ assoc_ := 4, line_size_ := 4, replacement_policy_ := ReplacementPolicy.LRU,
                     lines_ := [{ tag := 0, data := [0, 0, 0, 0], lru_timestamp := 1 },
                                { valid := true, dirty := true, tag := 1, data := [7, 0, 0, 0],
                                  lru_timestamp := 2 },
                                { valid := true, dirty := true, tag := 3, data := [0, 0, 0, 1],
                                  lru_timestamp := 3 },
                                { data := [0, 0, 0, 0] }] }] },
       { stats_ := { accesses := 3, misses := 3, evictions := 1 },
         config_ := { size := 8, associativity := 2, line_size := 4 },
         num_sets_ := 1, index_bits_ := 0, offset_bits_ := 2, tag_bits_ := 30,
         sets_ := [{ assoc_ := 2, line_size_ := 4, replacement_policy_ := ReplacementPolicy.LRU,
                     lines_ := [{ valid := true, tag := 3, data := [0, 0, 0, 0],
                                  lru_timestamp := 3 },
                                { valid := true, tag := 1, data := [0, 0, 0, 0],
                                  lru_timestamp := 2 }] }] }],
    main_memory_ := Memory.new 128, current_cycle_ := 3 }

/-- A level without its counters. -/
def CacheLevel.eraseStats (lv : CacheLevel) : CacheLevel := { lv with stats_ := {} }

/-- L1 during the second part of that `WriteSpan`, without its counters: the line of address
16 has been allocated, the lines of the addresses 4 and 12 are dirty. -/
def exampleStuckL1 : CacheLevel :=
  { config_ := { size := 16, associativity := 4, line_size := 4 },
    num_sets_ := 1, index_bits_ := 0, offset_bits_ := 2, tag_bits_ := 30,
    sets_ := [{ assoc_ := 4, line_size_ := 4, replacement_policy_ := ReplacementPolicy.LRU,
                lines_ := [{ valid := true, tag := 4, data := [0, 0, 0, 0], lru_timestamp := 3 },
                           { valid := true, dirty := true, tag := 1, data := [7, 0, 0, 0],
                             lru_timestamp := 2 },
                           { valid := true, dirty := true, tag := 3, data := [0, 0, 0, 1],
                             lru_timestamp := 3 },
                           { data := [0, 0, 0, 0] }] }] }

/-- L2 during the second part of that `WriteSpan`, without its counters: way 1 has been
allocated for the line of address 16, way 0 has the tag `tag`; both carry the time stamp of
the current call. -/
def exampleStuckL2 (tag : Nat) : CacheLevel :=
  { config_ := { size := 8, associativity := 2, line_size := 4 },
    num_sets_ := 1, index_bits_ := 0, offset_bits_ := 2, tag_bits_ := 30,
    sets_ := [{ assoc_ := 2, line_size_ := 4, replacement_policy_ := ReplacementPolicy.LRU,
                lines_ := [{ valid := true, tag := tag, data := [0, 0, 0, 0],
                             lru_timestamp := 3 },
                           { valid := true, tag := 4, data := [0, 0, 0, 0],
                             lru_timestamp := 3 }] }] }

/-- The states, whatever their counters and their memory, of the inclusive two-level cache
in cycle 3 whose levels are `exampleStuckL1` and `exampleStuckL2 tag`. -/
def StuckAt (tag : Nat) (c : TieredCache) : Prop :=
  c.opts_.inclusion_policy = InclusionPolicy.Inclusive ∧ c.current_cycle_ = 3 ∧ c.rand_ = [] ∧
  ∃ l1 l2, c.levels_ = [l1, l2] ∧ l1.eraseStats = exampleStuckL1 ∧
    l2.eraseStats = exampleStuckL2 tag

end MultilevelCache

namespace Forwarding

open TrapHandling (PipeOp Regs toInt64 toUInt32 toUInt64)

/-! ## `options.h`, `elf_reader.h` and `simulator.cc` of the forwarding variant

The ELF file is read by the library ELFIO, which is not among the sources: what
`LoadElfToMemory` and the constructor read of the loaded file (the segments and the entry
point) is a parameter of the model.  `exit(1)` is `none`. -/

/-- The field of `struct Options` that the constructor of `Simulator` reads for the memory
and the stack (`uint32_t memory_size`). -/
structure Options where
  memory_size : Nat := 100 * 1024 * 1024
  deriving DecidableEq, Repr

/-- What `LoadElfToMemory` reads of an `ELFIO::segment`: `get_virtual_address()`,
`get_memory_size()` and `get_file_size()` (64-bit values) and the bytes `get_data()`. -/
structure Segment where
  virtual_address : Nat
  memory_size : Nat
  file_size : Nat
  data : List Nat
  deriving DecidableEq, Repr

/-- What the simulator reads of the class `ElfReader` after the file is loaded: the
segments `reader_.segments` and `GetEntry()`. -/
structure ElfReader where
  segments : List Segment := []
  entry : Nat := 0
  deriving DecidableEq, Repr

/-- The constructor `Memory(memory_size)`: `memory_size` zero bytes. -/
def Memory.new (memory_size : Nat) : Memory := ⟨List.replicate memory_size 0⟩

/-- The inner loop of `LoadElfToMemory`,
`for (uint32_t p = addr; p < addr + memsz; ++p)`, with `bound = addr + memsz` and
`file_end = addr + filesz` as `uint32_t`; the first argument bounds the number of rounds
(`bound - addr` rounds are run at most). -/
def loadLoop (seg : Segment) (addr file_end bound : Nat) : Nat → Nat → Memory → Memory
  | 0, _, m => m
  | fuel + 1, p, m =>
    if p < bound then
      loadLoop seg addr file_end bound fuel (p + 1)
        (m.SetByte p (if p < file_end then seg.data.getD (p - addr) 0 else 0)).1
    else m

/-- The body of the loop over the segments in `LoadElfToMemory`. -/
def loadSegment (seg : Segment) (m : Memory) : Option Memory :=
  let fullmemsz := seg.memory_size
  let fulladdr := seg.virtual_address
  if (fulladdr + fullmemsz) % 2 ^ 64 > 2 ^ 32 - 1 then none
  else
    let filesz := seg.file_size % 2 ^ 32
    let memsz := seg.memory_size % 2 ^ 32
    let addr := seg.virtual_address % 2 ^ 32
    let bound := (addr + memsz) % 2 ^ 32
    some (loadLoop seg addr ((addr + filesz) % 2 ^ 32) bound (bound - addr) addr m)

/-- The loop over the segments in `LoadElfToMemory`. -/
def loadSegments : List Segment → Memory → Option Memory
  | [], m => some m
  | seg :: segs, m =>
    match loadSegment seg m with
    | none => none
    | some m => loadSegments segs m

/-- The method `ElfReader::LoadElfToMemory`; `seg_num` is an `Elf_Half` (16 bits). -/
def ElfReader.LoadElfToMemory (r : ElfReader) (memory : Memory) : Option Memory :=
  loadSegments (r.segments.take (r.segments.length % 2 ^ 16)) memory

/-- The loop of `InitStack`,
`for (uint32_t addr = stack_base; addr > stack_base - stack_size; addr--)`, with
`bound = stack_base - stack_size` as a `uint32_t`; the loop ends at `addr = 0` at the
latest, where `addr > bound` is false. -/
def InitStackLoop (bound : Nat) : Nat → Memory → Memory
  | 0, m => m
  | addr + 1, m =>
    if addr + 1 > bound then InitStackLoop bound addr (m.SetByte (addr + 1) 0).1 else m

/-- The method `Simulator::InitStack`; `REG_SP = 2`. -/
def FiveStageSimulator.InitStack (s : FiveStageSimulator) (stack_base stack_size : Nat) :
    FiveStageSimulator :=
  { s with regs_ := fun i => if i = 2 then stack_base else s.regs_ i,
           stack_base_ := stack_base, stack_size_ := stack_size,
           memory_ := InitStackLoop ((stack_base + 2 ^ 32 - stack_size) % 2 ^ 32) stack_base
             s.memory_ }

/-- The constructor `Simulator::Simulator`, which is all the constructor of
`FiveStageSimulator` runs, on the loaded ELF file `elf_reader`; the `assert` is compiled
under `DEBUG` only. -/
def FiveStageSimulator.new (opts : Options) (elf_reader : ElfReader) :
    Option FiveStageSimulator :=
  match elf_reader.LoadElfToMemory (Memory.new opts.memory_size) with
  | none => none
  | some memory =>
    let s : FiveStageSimulator := { memory_ := memory, pc_ := elf_reader.entry,
                                    regs_ := fun _ => 0 }
    let stack_size := opts.memory_size / 100
    let stack_base := opts.memory_size - stack_size
    some (s.InitStack stack_base stack_size)

/-- The stack-overflow test of `FiveStageSimulator::Run`:
`regs_[REG_SP] < stack_base_ - stack_size_`. -/
def FiveStageSimulator.stackOverflow (s : FiveStageSimulator) : Bool :=
  decide (s.regs_ 2 < (s.stack_base_ + 2 ^ 32 - s.stack_size_) % 2 ^ 32)

/-- A memory size of 200 bytes. -/
def exampleOptions : Options := { memory_size := 200 }

/-- A loaded file with one segment: the ten bytes `0xFF` at the addresses 190..199. -/
def exampleElf : ElfReader :=
  { segments := [{ virtual_address := 190, memory_size := 10, file_size := 10,
                   data := List.replicate 10 0xFF }],
    entry := 0 }

/-- The simulator that the constructor builds from `exampleOptions` and `exampleElf`. -/
def exampleConstructed : FiveStageSimulator :=
  { memory_ := ⟨List.replicate 190 0 ++ List.replicate 7 0xFF ++ [0, 0, 0xFF]⟩,
    pc_ := 0, regs_ := fun i => if i = 2 then 198 else 0, stack_base_ := 198,
    stack_size_ := 2 }

end Forwarding

namespace BranchPrediction

open TrapHandling (Regs toInt64 toUInt32 toUInt64 InstType IsBranch IsJump)

/-! ## More example machines -/

/-- The state after the pass of the loop of `Run` on `exampleBranch`: the executor found the
branch not taken, against the prediction, and `Execute` asked for the recovery to
`pc + 4 = 4`. -/
def exampleBranchAfter : FiveStageSimulator :=
  { exampleBranch with
      history_ := { inst_count := 1, control_hazard_count := 2, cycle_count := 1 },
      branch_count_ := 1, mispredict_count_ := 1, should_recover_branch_ := true,
      branch_next_pc_ := 4, wait_for_branch_ := true,
      mem_op_ := some { exampleBranchOp with jump_pc := 4 }, execute_op_ := none }

/-- The word `add x7, x5, x0` as `Fetch` leaves it in the decode slot, fetched at `pc = 4`. -/
def exampleFetchedAdd : PipeOp := { inst := ADD_X7_X5_X0, pc := 4 }

/-- The word `add x7, x5, x0` at `pc = 4`, decoded with `x5 = 0`. -/
def exampleDecodedAdd : PipeOp :=
  { inst := ADD_X7_X5_X0, pc := 4, inst_type := InstType.ADD, rs1 := 5, rs2 := 0, op1 := 0,
    op2 := 0, dest_reg := 7 }

/-- A pipeline in the middle of a pass, at the call of `Decode`: `add x7, x5, x0` is in the
decode slot, the execute slot is empty, and `Execute` has just run an operation that writes
`x5` (`data_hazard_execute_op_dest_ = 5`). -/
def exampleHazard : FiveStageSimulator :=
  { exampleLwAdd with pc_ := 8, decode_op_ := some exampleFetchedAdd,
                      data_hazard_execute_op_dest_ := 5,
                      mem_op_ := some { inst := LW_X5_0_X6, inst_type := InstType.LW,
                                        dest_reg := 5 } }

/-- The pipeline `exampleHazard` without the hazard: the operation that `Execute` has run
writes `x6`. -/
def exampleNoHazard : FiveStageSimulator :=
  { exampleHazard with data_hazard_execute_op_dest_ := 6,
                       mem_op_ := some { inst_type := InstType.ADDI, dest_reg := 6 } }

/-- The word `lw x5, 0(x6)` fetched at `pc = 0`, decoded with `x6 = 32`. -/
def exampleDecodedLw : PipeOp :=
  { inst := LW_X5_0_X6, pc := 0, inst_type := InstType.LW, rs1 := 6, op1 := 32, op2 := 0,
    dest_reg := 5 }

/-- A pipeline at the start of a pass whose only operation is the word `lw x5, 0(x6)` in
the decode slot; the fetch waits for a branch (`x6 = 32`, as in `exampleLwAdd`). -/
def exampleLwFetched : FiveStageSimulator :=
  { exampleLwAdd with pc_ := 4, wait_for_branch_ := true,
                      decode_op_ := some { inst := LW_X5_0_X6, pc := 0 } }

/-- The state `exampleLwFetched` after one pass of the loop of `Run`: the decoded `lw` is in
the execute slot. -/
def exampleLwInExecute : FiveStageSimulator :=
  { exampleLwFetched with decode_op_ := none, execute_op_ := some exampleDecodedLw,
                          history_ := { cycle_count := 1 } }

/-- Modelled from the spec: the decoder (`riscv.cc` is not among the sources of this variant)
takes the operand values of the decoded operation from the registers `rs1` and `rs2` it names
and reads nothing else of the register file: given a register file that agrees on these two
registers it decodes the word to the same operation. -/
def Isa.ReadsSources (isa : Isa) : Prop :=
  ∀ (raw d : PipeOp) (regs regs' : Regs), isa.DecodeInst raw regs = some d →
    (∀ r : Nat, ((r : Int) = d.rs1 ∨ (r : Int) = d.rs2) → regs' r = regs r) →
    isa.DecodeInst raw regs' = some d

/-- The register file `regs'` differs from `regs_` at most in registers that an operation in
the memory slot or in the write-back slot will write (its `dest_reg`, when `> 0`). -/
def FiveStageSimulator.PendingWrites (s : FiveStageSimulator) (regs' : Regs) : Prop :=
  ∀ r : Nat, regs' r ≠ s.regs_ r →
    (∃ m, s.mem_op_ = some m ∧ 0 < m.dest_reg ∧ m.dest_reg = (r : Int)) ∨
    (∃ w, s.wb_op_ = some w ∧ 0 < w.dest_reg ∧ w.dest_reg = (r : Int))

/-- The word of `lw x7, 0(x6)`. -/
def LW_X7_0_X6 : Nat := 0x00032383

/-- The word of `addi x8, x0, 5`. -/
def ADDI_X8_X0_5 : Nat := 0x00500413

/-- The word `addi x8, x0, 5` fetched at `pc = 0`, decoded and executed: it will write 5 to
`x8`. -/
def exampleExecutedAddi : PipeOp :=
  { inst := ADDI_X8_X0_5, pc := 0, inst_type := InstType.ADDI, rs1 := 0, op1 := 0, op2 := 5,
    dest_reg := 8, out := 5 }

/-- The word `lw x7, 0(x6)` fetched at `pc = 4`, decoded with `x6 = 32`. -/
def exampleDecodedLw7 : PipeOp :=
  { inst := LW_X7_0_X6, pc := 4, inst_type := InstType.LW, rs1 := 6, op1 := 32, op2 := 0,
    dest_reg := 7 }

/-- The operation `exampleDecodedLw7` after `ExecuteInst`: a sign-extending 4-byte load from
address 32. -/
def exampleExecutedLw7 : PipeOp :=
  { exampleDecodedLw7 with out := 32, read_mem := true, read_sign_ext := true, mem_len := 4,
                           jump_pc := 8 }

/-- The word `lw x5, 0(x6)` as `Fetch` leaves it in the decode slot, fetched at `pc = 8`. -/
def exampleFetchedLw5 : PipeOp := { inst := LW_X5_0_X6, pc := 8 }

/-- The word `lw x5, 0(x6)` fetched at `pc = 8`, decoded with `x6 = 32`. -/
def exampleDecodedLw5 : PipeOp :=
  { inst := LW_X5_0_X6, pc := 8, inst_type := InstType.LW, rs1 := 6, op1 := 32, op2 := 0,
    dest_reg := 5 }

/-- A pipeline at the start of a pass with three operations in flight (`x6 = 32`, memory as
in `exampleLwAdd`): the executed `addi x8, x0, 5` in the memory slot, the decoded
`lw x7, 0(x6)` in the execute slot and the word `lw x5, 0(x6)` in the decode slot. -/
def exampleBusy : FiveStageSimulator :=
  { exampleLwAdd with pc_ := 12, decode_op_ := some exampleFetchedLw5,
                      execute_op_ := some exampleDecodedLw7,
                      mem_op_ := some exampleExecutedAddi }

/-- The state `exampleBusy` after one pass of the loop of `Run`: every operation has moved
one slot on, and the word at address 12 has been fetched. -/
def exampleBusyAfter : FiveStageSimulator :=
  { exampleBusy with pc_ := 16, decode_op_ := some { inst := 0, pc := 12 },
                     execute_op_ := some exampleDecodedLw5,
                     mem_op_ := some exampleExecutedLw7,
                     wb_op_ := some exampleExecutedAddi,
                     data_hazard_execute_op_dest_ := 7, data_hazard_mem_op_dest_ := 8,
                     history_ := { inst_count := 1, cycle_count := 1 } }

/-- The register file of `exampleBusy` after the two pending writes: `x8 = 5` and
`x7 = 42`. -/
def exampleRegsAfterWrites : Regs :=
  fun i => if i = 8 then 5 else if i = 7 then 42 else if i = 6 then 32 else 0

end BranchPrediction

namespace MultilevelCache

/-! ## Predicates for hierarchies whose levels have different line sizes -/

/-- The line at the line address `la` of the first level of the list `L` can be fetched
through the levels after it from a backing store of `msize` bytes: every line of the next
level that shares a byte with it can be fetched, and the last level reads its whole line from
the store (`Memory::CheckAddr` passes). -/
def LineF (msize : Nat) : List CacheLevel → Nat → Prop
  | [], _ => True
  | [l], la => u32 la + l.config_.line_size < msize
  | l :: l' :: rest, la =>
    ∀ j, j < l.config_.line_size →
      LineF msize (l' :: rest)
        (l'.GetAddr (l'.GetTag (u64 (la + j))) (l'.GetIndex (u64 (la + j))))

/-- What holds of a level between calls, whatever the line sizes of the other levels: it is
well formed for its own line size, every set has `associativity` lines under the
level's replacement policy, no time stamp is above `T`, and every valid line can be fetched
again through the levels `L` (the level itself and the levels after it). -/
structure CacheLevel.Inv (T msize : Nat) (L : List CacheLevel) (lv : CacheLevel) : Prop where
  wf : lv.WF lv.offset_bits_
  skel : ∀ s ∈ lv.sets_, s.lines_.length = lv.config_.associativity ∧
    s.replacement_policy_ = lv.config_.replacement_policy
  ts_le : ∀ s w, (lv.lineAt s w).lru_timestamp ≤ T
  fetch : ∀ s w, (lv.lineAt s w).valid = true → LineF msize L (lv.GetAddr (lv.lineAt s w).tag s)

/-- The policy is exclusive, the cycle counter is `T`, the backing store has `msize` bytes,
and every level from `k` on has the geometry of its counterpart in `G` and satisfies
`CacheLevel.Inv`. -/
def InvFrom (T msize : Nat) (G : List CacheLevel) (k : Nat) (c : TieredCache) : Prop :=
  c.opts_.inclusion_policy = InclusionPolicy.Exclusive ∧ c.current_cycle_ = T ∧
  c.main_memory_.arena_.length = msize ∧ c.levels_.length = G.length ∧
  ∀ (i : Nat) (lv : CacheLevel), k ≤ i → c.levels_[i]? = some lv →
    ∃ g, G[i]? = some g ∧ g.SameGeom lv ∧ lv.Inv T msize (G.drop i)

/-- Every line of level `i` that shares a byte with the `len` bytes at `a` (or holds `a`, if
`len` is 0) can be fetched. -/
def FetchRange (msize : Nat) (G : List CacheLevel) (i a len : Nat) : Prop :=
  ∀ g, G[i]? = some g → ∀ j, (j < len ∨ j = 0) →
    LineF msize (G.drop i) (g.GetAddr (g.GetTag (u64 (a + j))) (g.GetIndex (u64 (a + j))))

/-- What a `HandleRead` call with budget `fuel` that returns does under the exclusive policy:
the invariant of the levels from `i` on is kept, every line of level `i` that the read
touches can be fetched, and a read within one line leaves the line valid at level `i`. -/
def InvRead (fuel : Nat) : Prop :=
  ∀ (T msize : Nat) (G : List CacheLevel) (c : TieredCache) (i a len lat : Nat) (wa : Bool)
    (r : TieredCache × List Nat × Nat),
    InvFrom T msize G i c → a < 2 ^ 64 → HandleRead fuel c i a len lat wa = .ok r →
    InvFrom T msize G i r.1 ∧
    (∀ g, G[i]? = some g → ∀ j, (j < len ∨ j = 0) →
      LineF msize (G.drop i) (g.GetAddr (g.GetTag (u64 (a + j))) (g.GetIndex (u64 (a + j))))) ∧
    (∀ lv, c.levels_[i]? = some lv → len ≤ lv.config_.line_size - lv.GetOffset a →
      r.1.resident i a)

/-- What a `HandleWrite` call with budget `fuel` that returns does under the exclusive
policy: the invariant of the levels from `i` on is kept. -/
def InvWrite (fuel : Nat) : Prop :=
  ∀ (T msize : Nat) (G : List CacheLevel) (c : TieredCache) (i a : Nat) (inp : Span) (lat : Nat)
    (r : TieredCache × Nat),
    InvFrom T msize G i c → a < 2 ^ 64 → HandleWrite fuel c i a inp lat = .ok r →
    InvFrom T msize G i r.1

/-- What an `Evict` call at level `i` with budget `fuel` that returns does under the
exclusive policy: the invariant of the levels after `i` is kept, and level `i` changes in
its counters only. -/
def InvEvict (fuel : Nat) : Prop :=
  ∀ (T msize : Nat) (G : List CacheLevel) (c : TieredCache) (i : Nat) (v : LineRef)
    (a lat : Nat) (r : TieredCache × Nat),
    InvFrom T msize G (i + 1) c → a < 2 ^ 64 → Evict fuel c i v a lat = .ok r →
    InvFrom T msize G (i + 1) r.1 ∧
    ∀ lv, c.levels_[i]? = some lv → ∃ lv', r.1.levels_[i]? = some lv' ∧ lv.SameLines lv'

/-- From `lv` to `lv'` only the line in way `w` of set `s` (and the counters) may have
changed. -/
def CacheLevel.SlotUpd (lv lv' : CacheLevel) (s w : Nat) : Prop :=
  lv.SameGeom lv' ∧ (∀ s', (lv'.setAt s').lines_.length = (lv.setAt s').lines_.length) ∧
  ∀ s' w', ¬ (s' = s ∧ w' = w) → lv'.lineAt s' w' = lv.lineAt s' w'

/-- The state of the level `lX` (with the geometry of `l2`) after the first `k` parts of the
line at `la` with the bytes `D` have been written to it in the cycle `T1`: every part has its
line, valid and with the bytes of the part, and under LRU replacement every such line carries
the time stamp `T1` and no set has more lines with this time stamp than parts fall into it. -/
def PartsDone (l2 lX : CacheLevel) (la : Nat) (D : List Nat) (T1 k : Nat) : Prop :=
  l2.SameGeom lX ∧
  (∀ j, j < k → ∃ w,
    (lX.lineAt (l2.GetIndex (la + j * l2.config_.line_size)) w).valid = true ∧
    (lX.lineAt (l2.GetIndex (la + j * l2.config_.line_size)) w).tag =
      l2.GetTag (la + j * l2.config_.line_size) ∧
    (∀ t, t < l2.config_.line_size →
      (lX.lineAt (l2.GetIndex (la + j * l2.config_.line_size)) w).data[t]? =
        D[j * l2.config_.line_size + t]?) ∧
    (l2.config_.replacement_policy = ReplacementPolicy.LRU →
      (lX.lineAt (l2.GetIndex (la + j * l2.config_.line_size)) w).lru_timestamp = T1)) ∧
  (l2.config_.replacement_policy = ReplacementPolicy.LRU →
    ∀ s, (lX.setAt s).lines_.countP (fun l => l.lru_timestamp == T1) ≤
      Nat.count (fun j => l2.GetIndex (la + j * l2.config_.line_size) = s) k)

/-- The number of parts in which `HandleWrite` and `HandleRead` at the level `l2` handle a
whole line of the level `l1` above it: one if the line of `l1` is not longer than the line of
`l2`, else the quotient of the line sizes. -/
def CacheLevel.partsIn (l1 l2 : CacheLevel) : Nat :=
  if l1.config_.line_size ≤ l2.config_.line_size then 1
  else l1.config_.line_size / l2.config_.line_size

/-- The level `l2` has room for a whole line of the level `l1` above it: the parts of the
line fall into different sets of `l2`, or `l2` replaces the least recently used line and has
as many lines as the line has parts. -/
def CacheLevel.Room (l1 l2 : CacheLevel) : Prop :=
  l1.partsIn l2 ≤ l2.num_sets_ ∨
  (l2.config_.replacement_policy = ReplacementPolicy.LRU ∧
    l1.partsIn l2 ≤ l2.num_sets_ * l2.config_.associativity)

end MultilevelCache

namespace MultilevelCache

/-- An exclusive hierarchy of two LRU levels with unequal lines: L1 is one 8-byte line, L2 one
2-way set of 4-byte lines, so that a line of L1 has two parts in L2 and both fall into the one
set. -/
def exampleRoomOpts : Options :=
  { enable_cache := true, inclusion_policy := InclusionPolicy.Exclusive,
    cache_levels := [{ size := 8, associativity := 1, line_size := 8 },
                     { size := 8, associativity := 2, line_size := 4 }] }

/-- The level L1 of `exampleRoomOpts` holding the line of address 16, dirty, with first
byte 3. -/
def exampleRoomL1 : CacheLevel :=
  { stats_ := { accesses := 6, hits := 0, misses := 6, evictions := 2, writebacks := 2 },
    config_ := { size := 8, associativity := 1, line_size := 8 },
    num_sets_ := 1, index_bits_ := 0, offset_bits_ := 3, tag_bits_ := 29,
    sets_ := [{ assoc_ := 1, line_size_ := 8, replacement_policy_ := ReplacementPolicy.LRU,
                lines_ := [{ valid := true, dirty := true, tag := 2,
                             data := [3, 0, 0, 0, 0, 0, 0, 0], lru_timestamp := 3 }] }] }

/-- The level L2 of `exampleRoomOpts` with both lines of its set valid: they hold the bytes
20..23 and 12..15. -/
def exampleRoomL2 : CacheLevel :=
  { stats_ := { accesses := 13, hits := 1, misses := 12, evictions := 6, writebacks := 3 },
    config_ := { size := 8, associativity := 2, line_size := 4 },
    num_sets_ := 1, index_bits_ := 0, offset_bits_ := 2, tag_bits_ := 30,
    sets_ := [{ assoc_ := 2, line_size_ := 4, replacement_policy_ := ReplacementPolicy.LRU,
                lines_ := [{ valid := true, dirty := false, tag := 5,
                             data := [0, 0, 0, 0], lru_timestamp := 3 },
                           { valid := true, dirty := true, tag := 3,
                             data := [0, 0, 0, 0], lru_timestamp := 3 }] }] }

/-- The hierarchy `exampleRoomOpts` over 32 bytes of memory after 1-byte stores of 1 at 0, of
2 at 8 and of 3 at 16: L1 holds the line of address 16, L2 is full of other lines, and the
two lines stored first are in memory. -/
def exampleRoomState : TieredCache :=
  { opts_ := exampleRoomOpts,
    levels_ := [exampleRoomL1, exampleRoomL2],
    main_memory_ := { arena_ := [1, 0, 0, 0, 0, 0, 0, 0, 2, 0, 0, 0, 0, 0, 0, 0,
                                 0, 0, 0, 0, 0, 0, 0, 0, 0, 0, 0, 0, 0, 0, 0, 0] },
    current_cycle_ := 3, last_access_latency_ := 32, rand_ := [] }

end MultilevelCache

namespace MultilevelCache

/-! ## Basic facts about the state updates -/

theorem bind_eq_ok {ε α β : Type} {x : Except ε α} {f : α → Except ε β} {b : β} :
    (x >>= f) = .ok b ↔ ∃ a, x = .ok a ∧ f a = .ok b := by
  cases x with
  | error e => simp [bind, Except.bind]
  | ok a => simp [bind, Except.bind]

@[simp] theorem modifyLevel_opts (c : TieredCache) (i : Nat) (f : CacheLevel → CacheLevel) :
    (c.modifyLevel i f).opts_ = c.opts_ := rfl

@[simp] theorem modifyLevel_length (c : TieredCache) (i : Nat) (f : CacheLevel → CacheLevel) :
    (c.modifyLevel i f).levels_.length = c.levels_.length := by
  simp [TieredCache.modifyLevel]

@[simp] theorem modifyLevel_memory (c : TieredCache) (i : Nat) (f : CacheLevel → CacheLevel) :
    (c.modifyLevel i f).main_memory_ = c.main_memory_ := rfl

@[simp] theorem modifyLevel_cycle (c : TieredCache) (i : Nat) (f : CacheLevel → CacheLevel) :
    (c.modifyLevel i f).current_cycle_ = c.current_cycle_ := rfl

@[simp] theorem modifyStats_opts (c : TieredCache) (i : Nat) (f : CacheStats → CacheStats) :
    (c.modifyStats i f).opts_ = c.opts_ := rfl

@[simp] theorem modifyStats_length (c : TieredCache) (i : Nat) (f : CacheStats → CacheStats) :
    (c.modifyStats i f).levels_.length = c.levels_.length := by
  simp [TieredCache.modifyStats]

@[simp] theorem modifyLine_opts (c : TieredCache) (p : LinePtr) (f : CacheLine → CacheLine) :
    (c.modifyLine p f).opts_ = c.opts_ := rfl

@[simp] theorem modifyLine_length (c : TieredCache) (p : LinePtr) (f : CacheLine → CacheLine) :
    (c.modifyLine p f).levels_.length = c.levels_.length := by
  simp [TieredCache.modifyLine]

@[simp] theorem UpdateLRU_opts (c : TieredCache) (p : LinePtr) : (c.UpdateLRU p).opts_ = c.opts_ :=
  rfl

@[simp] theorem UpdateLRU_length (c : TieredCache) (p : LinePtr) :
    (c.UpdateLRU p).levels_.length = c.levels_.length := by
  simp [TieredCache.UpdateLRU]

@[simp] theorem countAccess_opts (c : TieredCache) (i : Nat) : (c.countAccess i).opts_ = c.opts_ :=
  rfl

@[simp] theorem countHit_opts (c : TieredCache) (i : Nat) : (c.countHit i).opts_ = c.opts_ := rfl

@[simp] theorem countMiss_opts (c : TieredCache) (i : Nat) : (c.countMiss i).opts_ = c.opts_ := rfl

@[simp] theorem countEviction_opts (c : TieredCache) (i : Nat) :
    (c.countEviction i).opts_ = c.opts_ := rfl

@[simp] theorem countWriteback_opts (c : TieredCache) (i : Nat) :
    (c.countWriteback i).opts_ = c.opts_ := rfl

@[simp] theorem countAccess_length (c : TieredCache) (i : Nat) :
    (c.countAccess i).levels_.length = c.levels_.length := by simp [TieredCache.countAccess]

@[simp] theorem countHit_length (c : TieredCache) (i : Nat) :
    (c.countHit i).levels_.length = c.levels_.length := by simp [TieredCache.countHit]

@[simp] theorem countMiss_length (c : TieredCache) (i : Nat) :
    (c.countMiss i).levels_.length = c.levels_.length := by simp [TieredCache.countMiss]

@[simp] theorem countEviction_length (c : TieredCache) (i : Nat) :
    (c.countEviction i).levels_.length = c.levels_.length := by simp [TieredCache.countEviction]

@[simp] theorem countWriteback_length (c : TieredCache) (i : Nat) :
    (c.countWriteback i).levels_.length = c.levels_.length := by simp [TieredCache.countWriteback]

@[simp] theorem Allocate_opts (c : TieredCache) (level : CacheLevel) (i addr : Nat) :
    (c.Allocate level i addr).1.opts_ = c.opts_ := rfl

@[simp] theorem Allocate_length (c : TieredCache) (level : CacheLevel) (i addr : Nat) :
    (c.Allocate level i addr).1.levels_.length = c.levels_.length := by
  simp [TieredCache.Allocate]

@[simp] theorem install_opts (c : TieredCache) (p : LinePtr) (tag : Nat) (buf : List Nat) :
    (c.install p tag buf).opts_ = c.opts_ := rfl

@[simp] theorem install_length (c : TieredCache) (p : LinePtr) (tag : Nat) (buf : List Nat) :
    (c.install p tag buf).levels_.length = c.levels_.length := by
  simp [TieredCache.install]

@[simp] theorem store_opts (c : TieredCache) (p : LinePtr) (off : Nat) (inp : Span) :
    (c.store p off inp).opts_ = c.opts_ := rfl

@[simp] theorem store_length (c : TieredCache) (p : LinePtr) (off : Nat) (inp : Span) :
    (c.store p off inp).levels_.length = c.levels_.length := by
  simp [TieredCache.store]

@[simp] theorem invalidate_opts (c : TieredCache) (p : LinePtr) : (c.invalidate p).opts_ = c.opts_ :=
  rfl

@[simp] theorem invalidate_length (c : TieredCache) (p : LinePtr) :
    (c.invalidate p).levels_.length = c.levels_.length := by
  simp [TieredCache.invalidate]

theorem InvalidateInLowerLevelsAux_opts (n : Nat) : ∀ (c : TieredCache) (i addr : Nat),
    (InvalidateInLowerLevelsAux n c i addr).opts_ = c.opts_ := by
  induction n with
  | zero => intro c i addr; rfl
  | succ n ih =>
    intro c i addr
    rw [InvalidateInLowerLevelsAux]
    split
    · rfl
    · split <;> simp [ih]

@[simp] theorem InvalidateInLowerLevels_opts (c : TieredCache) (i addr : Nat) :
    (InvalidateInLowerLevels c i addr).opts_ = c.opts_ :=
  InvalidateInLowerLevelsAux_opts _ c i addr

@[simp] theorem exclusiveAfterRead_opts (c : TieredCache) (i a : Nat) (wa : Bool) :
    (c.exclusiveAfterRead i a wa).opts_ = c.opts_ := by
  unfold TieredCache.exclusiveAfterRead
  split <;> simp

@[simp] theorem exclusiveAfterWrite_opts (c : TieredCache) (i a : Nat) :
    (c.exclusiveAfterWrite i a).opts_ = c.opts_ := by
  unfold TieredCache.exclusiveAfterWrite
  split <;> simp

theorem WriteToMemory_ok {c : TieredCache} {addr : Nat} {inp : List Nat} {lat : Nat}
    {r : TieredCache × Nat} (h : WriteToMemory c addr inp lat = .ok r) :
    ∃ m, c.main_memory_.WriteSpan (u32 addr) inp = .ok m ∧ r.1 = { c with main_memory_ := m } := by
  unfold WriteToMemory at h
  cases hm : c.main_memory_.WriteSpan (u32 addr) inp with
  | error e => simp [hm] at h
  | ok m =>
    simp only [hm, Except.ok.injEq] at h
    exact ⟨m, rfl, by rw [← h]⟩

/-! ## A frame principle for the four mutually recursive routines -/

variable {pol : InclusionPolicy} {k : Nat} {R : TieredCache → TieredCache → Prop}

theorem Frame.install (F : Frame pol k R) (c : TieredCache) (p : LinePtr) (tag : Nat)
    (buf : List Nat) (hp : k ≤ p.level) : R c (c.install p tag buf) :=
  F.trans (F.line c p _ hp) (F.lru _ p hp)

theorem Frame.store (F : Frame pol k R) (c : TieredCache) (p : LinePtr) (off : Nat)
    (inp : Span) (hp : k ≤ p.level) : R c (c.store p off inp) :=
  F.trans (F.lru c p hp) (F.line _ p _ hp)

theorem Frame.invalidateAux (F : Frame pol k R) (n : Nat) : ∀ (c : TieredCache) (i addr : Nat),
    k ≤ i → R c (InvalidateInLowerLevelsAux n c i addr) := by
  induction n with
  | zero => intro c i addr _; exact F.refl c
  | succ n ih =>
    intro c i addr hi
    rw [InvalidateInLowerLevelsAux]
    split
    · exact F.refl c
    · split
      · exact F.trans (F.line c _ _ hi) (ih _ _ _ (by omega))
      · exact ih _ _ _ (by omega)

theorem Frame.afterRead (F : Frame pol k R) (c : TieredCache) (i a : Nat) (wa : Bool)
    (hi : k ≤ i + 1) : R c (c.exclusiveAfterRead i a wa) := by
  unfold TieredCache.exclusiveAfterRead
  split
  · exact F.invalidateAux _ c (i + 1) a (by omega)
  · exact F.refl c

theorem Frame.afterWrite (F : Frame pol k R) (c : TieredCache) (i a : Nat)
    (hi : k ≤ i + 1) : R c (c.exclusiveAfterWrite i a) := by
  unfold TieredCache.exclusiveAfterWrite
  split
  · exact F.invalidateAux _ c (i + 1) a (by omega)
  · exact F.refl c

theorem Framed.comp (F : Frame pol k R) {a b c : TieredCache} (h1 : Framed R a b)
    (h2 : Framed R b c) : Framed R a c :=
  ⟨F.trans h1.1 h2.1, h2.2.trans h1.2⟩

/-- The frame principle.  If `k ≤ 1` or the policy is exclusive, then every call of
`HandleRead` / `HandleWrite` / `Evict` at a level `≥ k`, and under the inclusive policy
every call of `Evict` and of `BackInvalidate`, relates the state it starts from to the
state it returns. -/
theorem frame_all (F : Frame pol k R) (hk : k ≤ 1 ∨ pol = InclusionPolicy.Exclusive) :
    ∀ fuel : Nat,
      (∀ c i addr len lat wa r, c.opts_.inclusion_policy = pol → k ≤ i →
        HandleRead fuel c i addr len lat wa = .ok r → Framed R c r.1) ∧
      (∀ c i addr inp lat r, c.opts_.inclusion_policy = pol → k ≤ i →
        HandleWrite fuel c i addr inp lat = .ok r → Framed R c r.1) ∧
      (∀ c i v addr lat r, c.opts_.inclusion_policy = pol →
        k ≤ i ∨ pol = InclusionPolicy.Inclusive →
        Evict fuel c i v addr lat = .ok r → Framed R c r.1) ∧
      (∀ c j addr c', c.opts_.inclusion_policy = pol → pol = InclusionPolicy.Inclusive →
        BackInvalidate fuel c j addr = .ok c' → Framed R c c') := by
  intro fuel
  induction fuel with
  | zero =>
    refine ⟨?_, ?_, ?_, ?_⟩
    · intro c i addr len lat wa r _ _ h; simp [HandleRead] at h
    · intro c i addr inp lat r _ _ h; simp [HandleWrite] at h
    · intro c i v addr lat r _ _ h; simp [Evict] at h
    · intro c j addr c' _ _ h; simp [BackInvalidate] at h
  | succ fuel ih =>
    obtain ⟨ihR, ihW, ihE, ihB⟩ := ih
    refine ⟨?_, ?_, ?_, ?_⟩
    · -- HandleRead
      intro c i addr len lat wa r hpol hi h
      rw [HandleRead] at h
      split at h
      · cases h
      rename_i level hlevel
      split at h
      · -- split access
        split at h
        · cases h
        rename_i c1 out1 lat1 h1
        split at h
        · cases h
        rename_i c2 out2 lat2 h2
        cases h
        have f1 := ihR _ _ _ _ _ _ _ hpol hi h1
        have f2 := ihR _ _ _ _ _ _ _ (by rw [f1.2]; exact hpol) hi h2
        exact Framed.comp F f1 f2
      · split at h
        · -- hit
          cases h
          exact ⟨F.trans (F.hit c i hi) (F.lru _ _ hi), rfl⟩
        · -- miss
          split at h
          rename_i c1 victim_line new_line halloc
          have hc1 : c1 = (((c.countAccess i).countMiss i).Allocate level i addr).1 := by
            rw [halloc]
          have hnl : new_line = (((c.countAccess i).countMiss i).Allocate level i addr).2.2 := by
            rw [halloc]
          have hnl_level : new_line.level = i := by rw [hnl]; rfl
          have f1 : Framed R c c1 := by
            rw [hc1]
            exact ⟨F.trans (F.miss c i hi) (F.alloc _ _ _ _ hi), rfl⟩
          split at h
          · cases h
          rename_i c2 hback
          have f2 : Framed R c1 c2 := by
            split at hback
            · split at hback
              · rename_i hincl
                exact ihB _ _ _ _ (by rw [f1.2]; exact hpol)
                  (by rw [← hpol, ← f1.2]; exact hincl) hback
              · cases hback; exact ⟨F.refl _, rfl⟩
            · cases hback; exact ⟨F.refl _, rfl⟩
          have f12 := Framed.comp F f1 f2
          split at h
          · cases h
          rename_i c3 lat3 hev
          have f3 : Framed R c2 c3 := by
            split at hev
            · exact ihE _ _ _ _ _ _ (by rw [f12.2]; exact hpol) (Or.inl hi) hev
            · cases hev; exact ⟨F.refl _, rfl⟩
          have f123 := Framed.comp F f12 f3
          split at h
          · cases h
          rename_i c4 line_buffer lat4 hfetch
          have f4 : Framed R c3 c4 := by
            split at hfetch
            · exact ihR _ _ _ _ _ _ _ (by rw [f123.2]; exact hpol) (by omega) hfetch
            · split at hfetch
              · cases hfetch
              · cases hfetch; exact ⟨F.refl _, rfl⟩
          have f1234 := Framed.comp F f123 f4
          cases h
          refine Framed.comp F f1234 ⟨?_, by simp⟩
          exact F.trans (F.install _ _ _ _ (by omega)) (F.afterRead _ _ _ _ (by omega))
    · -- HandleWrite
      intro c i addr inp lat r hpol hi h
      rw [HandleWrite] at h
      split at h
      · cases h
      rename_i level hlevel
      split at h
      · split at h
        · cases h
        rename_i c1 lat1 h1
        have f1 := ihW _ _ _ _ _ _ hpol hi h1
        have f2 := ihW _ _ _ _ _ _ (by rw [f1.2]; exact hpol) hi h
        exact Framed.comp F f1 f2
      · split at h
        · cases h
          refine ⟨?_, by simp⟩
          exact F.trans (F.hit c i hi) (F.trans (F.store _ _ _ _ hi) (F.afterWrite _ _ _ (by omega)))
        · split at h
          · cases h
          rename_i c1 out1 lat1 h1
          have f0 : Framed R c ((c.countAccess i).countMiss i) := ⟨F.miss c i hi, rfl⟩
          have f1 := ihR _ _ _ _ _ _ _ (by simpa using hpol) hi h1
          have f01 := Framed.comp F f0 f1
          split at h
          · cases h
          split at h
          · cases h
          cases h
          refine Framed.comp F f01 ⟨?_, by simp⟩
          exact F.trans (F.store _ _ _ _ hi) (F.afterWrite _ _ _ (by omega))
    · -- Evict
      intro c i v addr lat r hpol hi' h
      have hi : k ≤ i + 1 := by
        rcases hi' with h1 | h1
        · omega
        · rcases hk with h2 | h2
          · omega
          · rw [h1] at h2; cases h2
      rw [Evict] at h
      split at h
      · cases h
      split at h
      · have f0 : Framed R c ((c.countEviction i).countWriteback i) :=
          ⟨F.trans (F.evict c i hi') (F.wb _ i hi'), rfl⟩
        split at h
        · exact Framed.comp F f0 (ihW _ _ _ _ _ _ (by simpa using hpol) hi h)
        · obtain ⟨m, _, hr⟩ := WriteToMemory_ok h
          rw [hr]
          exact Framed.comp F f0 ⟨F.mem _ m, rfl⟩
      · have f0 : Framed R c (c.countEviction i) := ⟨F.evict c i hi', rfl⟩
        split at h
        · split at h
          · exact Framed.comp F f0 (ihW _ _ _ _ _ _ (by simpa using hpol) hi h)
          · cases h; exact f0
        · cases h; exact f0
    · -- BackInvalidate
      intro c j addr c' hpol hincl h
      have hk1 : k ≤ 1 := by
        rcases hk with hk | hk
        · exact hk
        · rw [hincl] at hk; cases hk
      rw [BackInvalidate] at h
      split at h
      · cases h; exact ⟨F.refl _, rfl⟩
      split at h
      · cases h
      rename_i level hlevel
      split at h
      · rename_i way hway
        split at h
        · split at h
          · cases h
          rename_i c1 lat1 hev
          have f1 := ihE _ _ _ _ _ _ hpol (Or.inr hincl) hev
          have f2 : Framed R c1 (c1.invalidate ⟨j.toNat, level.GetIndex addr, way⟩) :=
            ⟨F.inval c1 _ hincl, rfl⟩
          have f12 := Framed.comp F f1 f2
          exact Framed.comp F f12 (ihB _ _ _ _ (by rw [f12.2]; exact hpol) hincl h)
        · have f2 : Framed R c (c.invalidate ⟨j.toNat, level.GetIndex addr, way⟩) :=
            ⟨F.inval c _ hincl, rfl⟩
          exact Framed.comp F f2 (ihB _ _ _ _ (by rw [f2.2]; exact hpol) hincl h)
      · exact ihB _ _ _ _ hpol hincl h

end MultilevelCache

namespace MultilevelCache

theorem forall_mem_modify {α : Type} {P : α → Prop} {f : α → α} (hf : ∀ x, P x → P (f x)) :
    ∀ (l : List α) (i : Nat), (∀ x ∈ l, P x) → ∀ x ∈ l.modify f i, P x := by
  intro l
  induction l with
  | nil => intro i h x hx; simp at hx
  | cons a l ih =>
    intro i h x hx
    cases i with
    | zero =>
      simp only [List.modify_zero_cons, List.mem_cons] at hx
      rcases hx with rfl | hx
      · exact hf a (h a (List.mem_cons_self _ _))
      · exact h x (List.mem_cons_of_mem _ hx)
    | succ i =>
      simp only [List.modify_succ_cons, List.mem_cons] at hx
      rcases hx with rfl | hx
      · exact h _ (List.mem_cons_self _ _)
      · exact ih i (fun y hy => h y (List.mem_cons_of_mem _ hy)) x hx

theorem StatsBalanced.modifyLevel_bal {c : TieredCache} (h : StatsBalanced c) (i : Nat)
    (f : CacheLevel → CacheLevel) (hf : ∀ lv, lv.stats_.Balanced → (f lv).stats_.Balanced) :
    StatsBalanced (c.modifyLevel i f) := by
  intro lv hlv
  exact forall_mem_modify (P := fun lv => lv.stats_.Balanced) hf c.levels_ i
    (fun x hx => h x hx) lv hlv

@[simp] theorem CacheLevel.modifyLine_stats (lv : CacheLevel) (index way : Nat)
    (f : CacheLine → CacheLine) : (lv.modifyLine index way f).stats_ = lv.stats_ := rfl

@[simp] theorem CacheLevel.UpdateLRU_stats (lv : CacheLevel) (index way cycle : Nat) :
    (lv.UpdateLRU index way cycle).stats_ = lv.stats_ := by
  unfold CacheLevel.UpdateLRU
  split <;> rfl

@[simp] theorem CacheLevel.Allocate_stats (lv : CacheLevel) (addr cycle rnd : Nat) :
    (lv.Allocate addr cycle rnd).1.stats_ = lv.stats_ := by
  simp [CacheLevel.Allocate]

theorem modify_modify_same {α : Type} (f g : α → α) :
    ∀ (l : List α) (i : Nat), (l.modify f i).modify g i = l.modify (g ∘ f) i := by
  intro l
  induction l with
  | nil => intro i; simp
  | cons a l ih =>
    intro i
    cases i with
    | zero => simp
    | succ i => simp [ih]

theorem u64_succ_add (h m : Nat) : u64 (u64 (h + 1) + m) = u64 (u64 (h + m) + 1) := by
  unfold u64
  omega

theorem u64_add_succ (h m : Nat) : u64 (h + u64 (m + 1)) = u64 (u64 (h + m) + 1) := by
  unfold u64
  omega

theorem modifyLevel_modifyLevel (c : TieredCache) (i : Nat) (f g : CacheLevel → CacheLevel) :
    (c.modifyLevel i f).modifyLevel i g = c.modifyLevel i (g ∘ f) := by
  simp [TieredCache.modifyLevel, modify_modify_same]

theorem StatsBalanced.of_stats_eq {c : TieredCache} (h : StatsBalanced c) (i : Nat)
    (f : CacheLevel → CacheLevel) (hf : ∀ lv, (f lv).stats_ = lv.stats_) :
    StatsBalanced (c.modifyLevel i f) :=
  h.modifyLevel_bal i f (fun lv hlv => by rw [hf]; exact hlv)

/-- The relation "balanced counters stay balanced" is respected by every elementary update. -/
theorem statsFrame (pol : InclusionPolicy) :
    Frame pol 0 (fun c c' => StatsBalanced c → StatsBalanced c') where
  refl := fun _ h => h
  trans := fun h1 h2 h => h2 (h1 h)
  hit := by
    intro c i _ h
    unfold TieredCache.countHit TieredCache.countAccess TieredCache.modifyStats
    rw [modifyLevel_modifyLevel]
    refine h.modifyLevel_bal i _ ?_
    intro lv hlv
    show u64 (u64 (lv.stats_.hits + 1) + lv.stats_.misses) = u64 (lv.stats_.accesses + 1)
    rw [u64_succ_add, hlv]
  miss := by
    intro c i _ h
    unfold TieredCache.countMiss TieredCache.countAccess TieredCache.modifyStats
    rw [modifyLevel_modifyLevel]
    refine h.modifyLevel_bal i _ ?_
    intro lv hlv
    show u64 (lv.stats_.hits + u64 (lv.stats_.misses + 1)) = u64 (lv.stats_.accesses + 1)
    rw [u64_add_succ, hlv]
  lru := fun c p _ h => h.of_stats_eq _ _ (fun lv => by simp)
  alloc := by
    intro c level i addr _ h
    exact h.of_stats_eq i _ (fun lv => by simp)
  line := fun c p f _ h => h.of_stats_eq _ _ (fun lv => by simp)
  inval := fun c p _ h => h.of_stats_eq _ _ (fun lv => by simp)
  evict := fun c i _ h => h.modifyLevel_bal i _ (fun lv hlv => hlv)
  wb := fun c i _ h => h.modifyLevel_bal i _ (fun lv hlv => hlv)
  mem := fun c m h => h

theorem CacheLevel.new_stats {cfg : CacheLevelConfig} {lv : CacheLevel}
    (h : CacheLevel.new cfg = .ok lv) : lv.stats_ = {} := by
  unfold CacheLevel.new at h
  split at h
  · cases h
  split at h
  · cases h
  split at h
  · cases h
  simp only at h
  split at h
  · cases h
  split at h
  · cases h
  cases h
  rfl

theorem mapM_new_stats : ∀ (cfgs : List CacheLevelConfig) (lvs : List CacheLevel),
    cfgs.mapM CacheLevel.new = .ok lvs → ∀ lv ∈ lvs, lv.stats_ = {} := by
  intro cfgs
  induction cfgs with
  | nil =>
    intro lvs h lv hlv
    simp only [List.mapM_nil, pure, Except.pure, Except.ok.injEq] at h
    subst h
    simp at hlv
  | cons cfg cfgs ih =>
    intro lvs h lv hlv
    rw [List.mapM_cons] at h
    simp only [bind_eq_ok, pure, Except.pure, Except.ok.injEq] at h
    obtain ⟨l0, hl0, ls, hls, rfl⟩ := h
    rcases List.mem_cons.mp hlv with rfl | hmem
    · exact CacheLevel.new_stats hl0
    · exact ih ls hls lv hmem

/-- A freshly constructed cache has balanced counters (all zero). -/
theorem StatsBalanced.fresh_bal {opts : Options} {m : Memory} {rand : List Nat} {c : TieredCache}
    (h : TieredCache.new opts m rand = .ok c) : StatsBalanced c := by
  unfold TieredCache.new at h
  split at h
  · cases h
  rename_i lvs hlvs
  cases h
  intro lv hlv
  have := mapM_new_stats _ _ hlvs lv hlv
  show u64 (lv.stats_.hits + lv.stats_.misses) = lv.stats_.accesses
  rw [this]
  rfl

theorem StatsBalanced.call_bal {fuel : Nat} {c c' : TieredCache} {call : Call}
    (h : StatsBalanced c) (hc : c.call fuel call = .ok c') : StatsBalanced c' := by
  cases call with
  | read addr len =>
    simp only [TieredCache.call] at hc
    split at hc
    · cases hc
    rename_i c1 out hr
    cases hc
    unfold TieredCache.ReadSpan at hr
    split at hr
    · split at hr
      · cases hr
      · cases hr; exact h
    · split at hr
      · cases hr
      rename_i c2 out2 lat2 hread
      cases hr
      exact ((frame_all (statsFrame c.opts_.inclusion_policy) (Or.inl (by omega)) fuel).1
        _ _ _ _ _ _ _ (by rfl) (Nat.zero_le _) hread).1 h
  | write addr inp =>
    simp only [TieredCache.call] at hc
    unfold TieredCache.WriteSpan at hc
    split at hc
    · cases hc
    rename_i c1 lat1 hw
    cases hc
    split at hw
    · obtain ⟨m, _, hr⟩ := WriteToMemory_ok hw
      simp only at hr
      rw [hr]
      exact h
    · exact ((frame_all (statsFrame c.opts_.inclusion_policy) (Or.inl (by omega)) fuel).2.1
        _ _ _ _ _ _ (by rfl) (Nat.zero_le _) hw).1 h
  | demote addr =>
    simp only [TieredCache.call] at hc
    unfold TieredCache.Demote at hc
    split at hc
    · cases hc; exact h
    split at hc
    · cases hc; exact h
    split at hc
    · cases hc
    rename_i c1 lat1 hev
    cases hc
    have h1 := ((frame_all (statsFrame c.opts_.inclusion_policy) (Or.inl (by omega)) fuel).2.2.1
        _ _ _ _ _ _ (by rfl) (Or.inl (Nat.zero_le _)) hev).1 h
    exact (statsFrame c.opts_.inclusion_policy).line c1 _ _ (Nat.zero_le _) h1

theorem StatsBalanced.run_bal {fuel : Nat} : ∀ (calls : List Call) {c c' : TieredCache},
    StatsBalanced c → c.run fuel calls = .ok c' → StatsBalanced c' := by
  intro calls
  induction calls with
  | nil =>
    intro c c' h hr
    simp only [TieredCache.run, Except.ok.injEq] at hr
    subst hr
    exact h
  | cons call calls ih =>
    intro c c' h hr
    simp only [TieredCache.run] at hr
    split at hr
    · cases hr
    rename_i c1 hc1
    exact ih (h.call_bal hc1) hr

/-- C2: a cache built by the constructor and then driven through any sequence of
`ReadSpan`, `WriteSpan` and `Demote` calls that return satisfies `hits + misses == accesses`
(as the C++ expression on the 64-bit counters) at every level. -/
theorem stats_balanced_after_calls (fuel : Nat) (opts : Options) (m : Memory)
    (rand : List Nat) (calls : List Call) (c : TieredCache)
    (h : TieredCache.runFresh fuel opts m rand calls = .ok c) :
    ∀ lv ∈ c.levels_, u64 (lv.stats_.hits + lv.stats_.misses) = lv.stats_.accesses := by
  unfold TieredCache.runFresh at h
  split at h
  · cases h
  rename_i c0 hc0
  exact StatsBalanced.run_bal calls (StatsBalanced.fresh_bal hc0) h

/-- C2 witness: one 2-byte direct-mapped level over 8 bytes of memory, driven through a
store, two loads and a demote. -/
theorem stats_balanced_after_calls_witness :
    TieredCache.runFresh 8
        { enable_cache := true,
          cache_levels := [{ size := 2, associativity := 1, line_size := 2 }] }
        (Memory.new 8) []
        [Call.write 0 [7], Call.read 1 1, Call.read 2 1, Call.demote 0] =
      .ok exampleAfterFourCalls ∧
    ∀ lv ∈ exampleAfterFourCalls.levels_,
      u64 (lv.stats_.hits + lv.stats_.misses) = lv.stats_.accesses :=
  ⟨by decide!,
   stats_balanced_after_calls 8
     { enable_cache := true,
       cache_levels := [{ size := 2, associativity := 1, line_size := 2 }] }
     (Memory.new 8) [] [Call.write 0 [7], Call.read 1 1, Call.read 2 1, Call.demote 0]
     exampleAfterFourCalls (by decide!)⟩

end MultilevelCache

namespace MultilevelCache

theorem modifyLevel_getElem?_ne (c : TieredCache) (i j : Nat) (f : CacheLevel → CacheLevel)
    (h : i ≠ j) : (c.modifyLevel i f).levels_[j]? = c.levels_[j]? := by
  simp [TieredCache.modifyLevel, List.getElem?_modify, h]

theorem SameBelow.modifyLevel_below (k : Nat) (c : TieredCache) (i : Nat)
    (f : CacheLevel → CacheLevel) (hi : k ≤ i) : SameBelow k c (c.modifyLevel i f) :=
  fun j hj => modifyLevel_getElem?_ne c i j f (by omega)

/-- Under the exclusive policy, calls at levels `≥ k` leave the levels below `k` alone. -/
theorem belowFrame (k : Nat) : Frame InclusionPolicy.Exclusive k (SameBelow k) where
  refl := fun _ _ _ => rfl
  trans := fun h1 h2 j hj => (h2 j hj).trans (h1 j hj)
  hit := fun c i hi j hj => by
    rw [TieredCache.countHit, TieredCache.countAccess, TieredCache.modifyStats,
      TieredCache.modifyStats, modifyLevel_getElem?_ne _ _ _ _ (by omega),
      modifyLevel_getElem?_ne _ _ _ _ (by omega)]
  miss := fun c i hi j hj => by
    rw [TieredCache.countMiss, TieredCache.countAccess, TieredCache.modifyStats,
      TieredCache.modifyStats, modifyLevel_getElem?_ne _ _ _ _ (by omega),
      modifyLevel_getElem?_ne _ _ _ _ (by omega)]
  lru := fun c p hp => SameBelow.modifyLevel_below k c p.level _ hp
  alloc := fun c level i addr hi j hj => by
    show (c.modifyLevel i _).levels_[j]? = c.levels_[j]?
    exact modifyLevel_getElem?_ne _ _ _ _ (by omega)
  line := fun c p f hp => SameBelow.modifyLevel_below k c p.level _ hp
  inval := fun c p h => by cases h
  evict := fun c i hi => by
    rcases hi with hi | hi
    · exact SameBelow.modifyLevel_below k c i _ hi
    · cases hi
  wb := fun c i hi => by
    rcases hi with hi | hi
    · exact SameBelow.modifyLevel_below k c i _ hi
    · cases hi
  mem := fun _ _ _ _ => rfl

theorem LineRef.dataSpan_read (c : TieredCache) (v : LineRef) :
    (v.dataSpan c).read c = (v.get c).data := by
  cases v with
  | copy line => rfl
  | slot p => simp [LineRef.dataSpan, Span.read, LineRef.get]

theorem statsAt_modifyStats (c : TieredCache) (i : Nat) (f : CacheStats → CacheStats)
    (hi : i < c.levels_.length) : (c.modifyStats i f).statsAt i = f (c.statsAt i) := by
  simp [TieredCache.statsAt, TieredCache.modifyStats, TieredCache.modifyLevel,
    List.getElem?_modify, List.getElem?_eq_getElem hi]

theorem statsAt_congr {c c' : TieredCache} {i : Nat} (h : c'.levels_[i]? = c.levels_[i]?) :
    c'.statsAt i = c.statsAt i := by
  simp [TieredCache.statsAt, h]

/-- C7: one `Evict` on a dirty line counts two write-backs.  The state
`exampleBeforeNestedEvict` is reached inside `ReadSpan(8, 1)` after 1-byte stores at 0 and 4:
L1 holds the line of address 0 valid and dirty, but L2 no longer holds it (`Find` gives
nothing), because `Allocate` has already retagged its L2 slot for address 8 before
`BackInvalidate` hands the line over.  `Evict` on that L1 line returns with L1's `writebacks`
counter raised from 0 to 2: its write to L2 misses, the L2 victim (address 4) is
back-invalidated, and the dirty L1 copy of that line is written back by a nested `Evict` at
the same level. -/
theorem Evict_adds_two_writebacks :
    (match exampleBeforeNestedEvict with
     | .error e => .error e
     | .ok c =>
       match Evict 32 c 0 (LineRef.slot ⟨0, 0, 0⟩) 0 0 with
       | .error e => .error e
       | .ok (c', _) =>
         .ok ((c.lineAt ⟨0, 0, 0⟩).valid, (c.lineAt ⟨0, 0, 0⟩).dirty, (c.lineAt ⟨0, 0, 0⟩).tag,
              c.levels_[1]?.bind (fun l2 => l2.Find 0),
              (c.statsAt 0).writebacks, (c'.statsAt 0).writebacks)) =
      Except.ok (true, true, 0, none, 0, 2) := by
  decide!

theorem statsAt_countEviction_countWriteback (c : TieredCache) (i : Nat)
    (hi : i < c.levels_.length) :
    (((c.countEviction i).countWriteback i).statsAt i).writebacks =
        u64 ((c.statsAt i).writebacks + 1) ∧
    (((c.countEviction i).countWriteback i).statsAt i).evictions =
        u64 ((c.statsAt i).evictions + 1) := by
  rw [TieredCache.countWriteback, statsAt_modifyStats _ _ _ (by simpa using hi),
    TieredCache.countEviction, statsAt_modifyStats _ _ _ hi]
  exact ⟨rfl, rfl⟩

/-- The steps of `Evict` at an existing level `i`.  On a dirty victim it counts one
eviction and one write-back and then issues exactly one write of the victim's whole line at
`victim_addr`: one `WriteToMemory` when `i` is the last level, one `HandleWrite` at level
`i + 1` otherwise.  When `i` is the last level, or under the exclusive policy, level `i`'s
`writebacks` (and `evictions`) counter is exactly one higher when `Evict` returns.  On a clean
victim under the inclusive policy only `evictions` is counted: no line and no memory byte is
written. -/
theorem Evict_spec (fuel : Nat) (c : TieredCache) (i : Nat) (v : LineRef) (addr lat : Nat)
    (hi : i < c.levels_.length) :
    ((v.get c).dirty = true →
      (¬ i + 1 < c.levels_.length →
        Evict (fuel + 1) c i v addr lat =
          WriteToMemory ((c.countEviction i).countWriteback i) addr (v.get c).data lat ∧
        ∀ r, Evict (fuel + 1) c i v addr lat = .ok r →
          r.1.levels_ = ((c.countEviction i).countWriteback i).levels_ ∧
          c.main_memory_.WriteSpan (u32 addr) (v.get c).data = .ok r.1.main_memory_ ∧
          (r.1.statsAt i).writebacks = u64 ((c.statsAt i).writebacks + 1) ∧
          (r.1.statsAt i).evictions = u64 ((c.statsAt i).evictions + 1)) ∧
      (i + 1 < c.levels_.length →
        Evict (fuel + 1) c i v addr lat =
          HandleWrite fuel ((c.countEviction i).countWriteback i) (i + 1) addr
            (v.dataSpan c) lat ∧
        (c.opts_.inclusion_policy = InclusionPolicy.Exclusive →
          ∀ r, Evict (fuel + 1) c i v addr lat = .ok r →
            (r.1.statsAt i).writebacks = u64 ((c.statsAt i).writebacks + 1) ∧
            (r.1.statsAt i).evictions = u64 ((c.statsAt i).evictions + 1)))) ∧
    ((v.get c).dirty = false → c.opts_.inclusion_policy = InclusionPolicy.Inclusive →
      Evict (fuel + 1) c i v addr lat = .ok (c.countEviction i, lat)) := by
  obtain ⟨lv, hlv⟩ : ∃ lv, c.levels_[i]? = some lv :=
    ⟨_, List.getElem?_eq_getElem hi⟩
  refine ⟨fun hd => ⟨fun hlast => ?_, fun hnext => ?_⟩, fun hd hincl => ?_⟩
  · have heq : Evict (fuel + 1) c i v addr lat =
        WriteToMemory ((c.countEviction i).countWriteback i) addr (v.get c).data lat := by
      rw [Evict]
      simp only [hlv, hd, if_true, hlast, if_false, LineRef.dataSpan_read]
    refine ⟨heq, fun r hr => ?_⟩
    rw [heq] at hr
    obtain ⟨m, hm, hr1⟩ := WriteToMemory_ok hr
    rw [hr1]
    refine ⟨rfl, hm, ?_⟩
    have := statsAt_countEviction_countWriteback c i hi
    exact this
  · have heq : Evict (fuel + 1) c i v addr lat =
        HandleWrite fuel ((c.countEviction i).countWriteback i) (i + 1) addr
          (v.dataSpan c) lat := by
      rw [Evict]
      simp only [hlv, hd, if_true, hnext]
    refine ⟨heq, fun hex r hr => ?_⟩
    rw [heq] at hr
    have hf := ((frame_all (belowFrame (i + 1)) (Or.inr rfl) fuel).2.1
      _ _ _ _ _ _ (by simpa using hex) (le_refl _) hr).1
    have hsame := hf i (Nat.lt_succ_self i)
    rw [statsAt_congr hsame]
    exact statsAt_countEviction_countWriteback c i hi
  · rw [Evict]
    have hne : ¬ c.opts_.inclusion_policy = InclusionPolicy.Exclusive := by
      rw [hincl]; intro h; cases h
    simp only [hlv, hd, Bool.false_eq_true, if_false, hne]

/-- Example of `Evict_spec`: in the one-level cache `exampleAfterFourCalls`, evicting a dirty copy of a
line is one `WriteToMemory`. -/
theorem Evict_spec_witness :
    0 < exampleAfterFourCalls.levels_.length ∧
    Evict 1 exampleAfterFourCalls 0
        (LineRef.copy { valid := true, dirty := true, tag := 0, data := [7, 0] }) 0 0 =
      WriteToMemory ((exampleAfterFourCalls.countEviction 0).countWriteback 0) 0 [7, 0] 0 :=
  ⟨by decide,
   ((Evict_spec 0 exampleAfterFourCalls 0
      (LineRef.copy { valid := true, dirty := true, tag := 0, data := [7, 0] }) 0 0
      (by decide)).1 rfl).1 (by decide) |>.1⟩

end MultilevelCache

namespace MultilevelCache

theorem u64_of_lt {n : Nat} (h : n < 2 ^ 64) : u64 n = n := Nat.mod_eq_of_lt h

theorem u32_of_lt {n : Nat} (h : n < 2 ^ 32) : u32 n = n := Nat.mod_eq_of_lt h

theorem two_pow_le_of_le_63 {n : Nat} (h : n ≤ 63) : 2 ^ n ≤ 2 ^ 63 :=
  Nat.pow_le_pow_right (by norm_num) h

namespace CacheLevel.GeoOK

variable {lv : CacheLevel}

theorem tag_shift (g : lv.GeoOK) : u32 (lv.index_bits_ + lv.offset_bits_) =
    lv.index_bits_ + lv.offset_bits_ :=
  u32_of_lt (by have := g.bits_le; omega)

theorem GetOffset_eq (g : lv.GeoOK) (a : Nat) : lv.GetOffset a = a % 2 ^ lv.offset_bits_ := by
  have hob : lv.offset_bits_ ≤ 63 := by have := g.bits_le; omega
  have h1 : (2 : Nat) ^ lv.offset_bits_ ≤ 2 ^ 63 := two_pow_le_of_le_63 hob
  have h0 : 0 < (2 : Nat) ^ lv.offset_bits_ := by positivity
  unfold CacheLevel.GetOffset
  rw [g.line_size_eq]
  have : u64 (2 ^ lv.offset_bits_ + 2 ^ 64 - 1) = 2 ^ lv.offset_bits_ - 1 := by
    unfold u64
    omega
  rw [this, Nat.and_pow_two_sub_one_eq_mod]

theorem GetIndex_eq (g : lv.GeoOK) (a : Nat) :
    lv.GetIndex a = lineNo lv.offset_bits_ a % 2 ^ lv.index_bits_ := by
  have hib : lv.index_bits_ ≤ 63 := by have := g.bits_le; omega
  have h1 : (2 : Nat) ^ lv.index_bits_ ≤ 2 ^ 63 := two_pow_le_of_le_63 hib
  have h0 : 0 < (2 : Nat) ^ lv.index_bits_ := by positivity
  unfold CacheLevel.GetIndex lineNo
  rw [g.num_sets_eq]
  have : u64 (2 ^ lv.index_bits_ + 2 ^ 64 - 1) = 2 ^ lv.index_bits_ - 1 := by
    unfold u64
    omega
  rw [this, Nat.and_pow_two_sub_one_eq_mod]

theorem GetTag_eq (g : lv.GeoOK) (a : Nat) :
    lv.GetTag a = lineNo lv.offset_bits_ a / 2 ^ lv.index_bits_ := by
  unfold CacheLevel.GetTag lineNo
  rw [g.tag_shift, Nat.add_comm, Nat.shiftRight_add, Nat.shiftRight_eq_div_pow (a >>> _)]

theorem GetIndex_lt (g : lv.GeoOK) (a : Nat) : lv.GetIndex a < lv.sets_.length := by
  rw [g.sets_length, g.num_sets_eq, g.GetIndex_eq]
  exact Nat.mod_lt _ (by positivity)

/-- Two addresses have the same tag and index exactly when they lie in the same line. -/
theorem key_eq_iff (g : lv.GeoOK) (a b : Nat) :
    (lv.GetTag a = lv.GetTag b ∧ lv.GetIndex a = lv.GetIndex b) ↔
      lineNo lv.offset_bits_ a = lineNo lv.offset_bits_ b := by
  rw [g.GetTag_eq, g.GetTag_eq, g.GetIndex_eq, g.GetIndex_eq]
  constructor
  · rintro ⟨h1, h2⟩
    rw [← Nat.div_add_mod (lineNo lv.offset_bits_ a) (2 ^ lv.index_bits_),
      ← Nat.div_add_mod (lineNo lv.offset_bits_ b) (2 ^ lv.index_bits_), h1, h2]
  · intro h
    rw [h]
    exact ⟨rfl, rfl⟩

/-- The line address rebuilt from the tag and index of a 64-bit address is the start of that
address's line. -/
theorem GetAddr_key (g : lv.GeoOK) (a : Nat) (ha : a < 2 ^ 64) :
    lv.GetAddr (lv.GetTag a) (lv.GetIndex a) =
      lineNo lv.offset_bits_ a * 2 ^ lv.offset_bits_ := by
  have hbits := g.bits_le
  set ob := lv.offset_bits_ with hob
  set ib := lv.index_bits_ with hib
  set L := lineNo ob a with hL
  have hLa : L * 2 ^ ob ≤ a := by
    rw [hL, lineNo, Nat.shiftRight_eq_div_pow]
    exact Nat.div_mul_le_self a (2 ^ ob)
  have hpow : (2 : Nat) ^ (ib + ob) = 2 ^ ib * 2 ^ ob := pow_add 2 ib ob
  have hpos_ib : 0 < (2 : Nat) ^ ib := by positivity
  have hpos_ob : 0 < (2 : Nat) ^ ob := by positivity
  have hmod_lt : L % 2 ^ ib < 2 ^ ib := Nat.mod_lt _ hpos_ib
  have hdm : 2 ^ ib * (L / 2 ^ ib) + L % 2 ^ ib = L := Nat.div_add_mod L (2 ^ ib)
  have hs_lt : L % 2 ^ ib * 2 ^ ob < 2 ^ (ib + ob) := by
    rw [hpow]
    exact Nat.mul_lt_mul_of_pos_right hmod_lt hpos_ob
  have hsum : 2 ^ (ib + ob) * (L / 2 ^ ib) + L % 2 ^ ib * 2 ^ ob = L * 2 ^ ob := by
    rw [hpow]
    calc 2 ^ ib * 2 ^ ob * (L / 2 ^ ib) + L % 2 ^ ib * 2 ^ ob
        = (2 ^ ib * (L / 2 ^ ib) + L % 2 ^ ib) * 2 ^ ob := by ring
      _ = L * 2 ^ ob := by rw [hdm]
  have ht_lt : L / 2 ^ ib * 2 ^ (ib + ob) < 2 ^ 64 := by
    have : L / 2 ^ ib * 2 ^ (ib + ob) ≤ L * 2 ^ ob := by
      rw [← hsum, Nat.mul_comm]
      exact Nat.le_add_right _ _
    omega
  have hs_lt64 : L % 2 ^ ib * 2 ^ ob < 2 ^ 64 := by
    have : (2 : Nat) ^ (ib + ob) ≤ 2 ^ 63 := two_pow_le_of_le_63 hbits
    omega
  unfold CacheLevel.GetAddr
  rw [g.tag_shift, g.GetTag_eq, g.GetIndex_eq, Nat.shiftLeft_eq, Nat.shiftLeft_eq,
    u64_of_lt ht_lt, u64_of_lt hs_lt64, Nat.mul_comm (L / 2 ^ ib),
    ← Nat.mul_add_lt_is_or hs_lt, hsum]

theorem GetAddr_key_lt (g : lv.GeoOK) (a : Nat) (ha : a < 2 ^ 64) :
    lv.GetAddr (lv.GetTag a) (lv.GetIndex a) < 2 ^ 64 := by
  rw [g.GetAddr_key a ha, lineNo, Nat.shiftRight_eq_div_pow]
  exact lt_of_le_of_lt (Nat.div_mul_le_self a _) ha

theorem lineNo_GetAddr_key (g : lv.GeoOK) (a : Nat) (ha : a < 2 ^ 64) :
    lineNo lv.offset_bits_ (lv.GetAddr (lv.GetTag a) (lv.GetIndex a)) =
      lineNo lv.offset_bits_ a := by
  rw [g.GetAddr_key a ha]
  unfold lineNo
  rw [Nat.shiftRight_eq_div_pow (_ * _), Nat.mul_div_cancel _ (by positivity)]

/-- A line address built by one level starts a line of every level with the same line size. -/
theorem GetOffset_GetAddr_key {lv' : CacheLevel} (g : lv.GeoOK) (g' : lv'.GeoOK)
    (hob : lv'.offset_bits_ = lv.offset_bits_) (a : Nat) (ha : a < 2 ^ 64) :
    lv'.GetOffset (lv.GetAddr (lv.GetTag a) (lv.GetIndex a)) = 0 := by
  rw [g'.GetOffset_eq, g.GetAddr_key a ha, hob]
  exact Nat.mul_mod_left _ _

end CacheLevel.GeoOK

end MultilevelCache

namespace MultilevelCache

/-! ## Lines of a level -/

theorem lineAt_nil (w : Nat) : lineAt [] w = CacheLine.new 0 := rfl

theorem lineAt_of_le {ls : List CacheLine} {w : Nat} (h : ls.length ≤ w) :
    lineAt ls w = CacheLine.new 0 := by
  unfold lineAt
  rw [List.getD_eq_getElem?_getD, List.getElem?_eq_none h]
  rfl

theorem lineAt_modify (f : CacheLine → CacheLine) (ls : List CacheLine) (w w' : Nat) :
    lineAt (ls.modify f w) w' =
      if w' = w ∧ w < ls.length then f (lineAt ls w) else lineAt ls w' := by
  unfold lineAt
  rw [List.getD_eq_getElem?_getD, List.getD_eq_getElem?_getD, List.getD_eq_getElem?_getD,
    List.getElem?_modify]
  by_cases hw : w' = w
  · subst hw
    by_cases hlt : w' < ls.length
    · simp [hlt, List.getElem?_eq_getElem hlt]
    · simp [hlt, List.getElem?_eq_none (Nat.le_of_not_lt hlt)]
  · have : ¬ w = w' := fun h => hw h.symm
    simp [hw, this]

theorem CacheLevel.setAt_modifyLine (lv : CacheLevel) (s w : Nat) (f : CacheLine → CacheLine)
    (s' : Nat) :
    (lv.modifyLine s w f).setAt s' =
      if s' = s then { lv.setAt s with lines_ := (lv.setAt s).lines_.modify f w }
      else lv.setAt s' := by
  unfold CacheLevel.setAt CacheLevel.modifyLine
  simp only
  rw [List.getD_eq_getElem?_getD, List.getD_eq_getElem?_getD, List.getElem?_modify]
  by_cases hs : s' = s
  · subst hs
    by_cases hlt : s' < lv.sets_.length
    · simp [List.getD_eq_getElem?_getD, List.getElem?_eq_getElem hlt]
    · simp [List.getD_eq_getElem?_getD, List.getElem?_eq_none (Nat.le_of_not_lt hlt),
        CacheSet.new]
  · have : ¬ s = s' := fun h => hs h.symm
    simp [hs, this]

theorem CacheLevel.lineAt_modifyLine (lv : CacheLevel) (s w : Nat) (f : CacheLine → CacheLine)
    (s' w' : Nat) :
    (lv.modifyLine s w f).lineAt s' w' =
      if s' = s ∧ w' = w ∧ w < (lv.setAt s).lines_.length then f (lv.lineAt s w)
      else lv.lineAt s' w' := by
  unfold CacheLevel.lineAt
  rw [CacheLevel.setAt_modifyLine]
  by_cases hs : s' = s
  · subst hs
    simp only [if_true, true_and]
    rw [lineAt_modify]
  · simp [hs]

@[simp] theorem CacheLevel.modifyLine_config (lv : CacheLevel) (s w : Nat)
    (f : CacheLine → CacheLine) : (lv.modifyLine s w f).config_ = lv.config_ := rfl

theorem CacheLevel.SameGeom.refl_geom (lv : CacheLevel) : lv.SameGeom lv := ⟨rfl, rfl, rfl, rfl⟩

theorem CacheLevel.SameGeom.trans_geom {a b c : CacheLevel} (h1 : a.SameGeom b) (h2 : b.SameGeom c) :
    a.SameGeom c :=
  ⟨h2.1.trans h1.1, h2.2.1.trans h1.2.1, h2.2.2.1.trans h1.2.2.1, h2.2.2.2.trans h1.2.2.2⟩

theorem CacheLevel.SameGeom.modifyLine (lv : CacheLevel) (s w : Nat) (f : CacheLine → CacheLine) :
    lv.SameGeom (lv.modifyLine s w f) := ⟨rfl, rfl, rfl, rfl⟩

theorem CacheLevel.SameGeom.UpdateLRU_geom (lv : CacheLevel) (s w cyc : Nat) :
    lv.SameGeom (lv.UpdateLRU s w cyc) := by
  unfold CacheLevel.UpdateLRU
  split
  · exact ⟨rfl, rfl, rfl, rfl⟩
  · exact CacheLevel.SameGeom.refl_geom lv

theorem CacheLevel.SameGeom.GetTag {lv lv' : CacheLevel} (h : lv.SameGeom lv') (a : Nat) :
    lv'.GetTag a = lv.GetTag a := by
  unfold CacheLevel.GetTag
  rw [h.2.2.1, h.2.2.2]

theorem CacheLevel.SameGeom.GetIndex {lv lv' : CacheLevel} (h : lv.SameGeom lv') (a : Nat) :
    lv'.GetIndex a = lv.GetIndex a := by
  unfold CacheLevel.GetIndex
  rw [h.2.1, h.2.2.2]

theorem CacheLevel.SameGeom.GetOffset {lv lv' : CacheLevel} (h : lv.SameGeom lv') (a : Nat) :
    lv'.GetOffset a = lv.GetOffset a := by
  unfold CacheLevel.GetOffset
  rw [h.1]

theorem CacheLevel.SameGeom.GetAddr {lv lv' : CacheLevel} (h : lv.SameGeom lv') (t s : Nat) :
    lv'.GetAddr t s = lv.GetAddr t s := by
  unfold CacheLevel.GetAddr
  rw [h.2.2.1, h.2.2.2]

/-! ## `Find` -/

theorem lineAt_eq_new_or_mem (ls : List CacheLine) (w : Nat) :
    lineAt ls w = CacheLine.new 0 ∨ lineAt ls w ∈ ls := by
  by_cases h : w < ls.length
  · right
    unfold lineAt
    rw [List.getD_eq_getElem?_getD, List.getElem?_eq_getElem h]
    exact List.getElem_mem h
  · left
    exact lineAt_of_le (Nat.le_of_not_lt h)

theorem firstIdx_some_lineAt {p : CacheLine → Bool} {ls : List CacheLine} {i : Nat}
    (h : firstIdx p ls = some i) :
    i < ls.length ∧ p (lineAt ls i) = true ∧ ∀ j, j < i → p (lineAt ls j) = false := by
  induction ls generalizing i with
  | nil => simp [firstIdx] at h
  | cons l ls ih =>
    unfold firstIdx at h
    by_cases hp : p l = true
    · simp only [hp, if_true, Option.some.injEq] at h
      subst h
      exact ⟨by simp, hp, fun j hj => absurd hj (Nat.not_lt_zero j)⟩
    · simp only [hp, Bool.false_eq_true, if_false, Option.map_eq_some'] at h
      obtain ⟨k, hk, rfl⟩ := h
      obtain ⟨h1, h2, h3⟩ := ih hk
      refine ⟨by simpa using h1, h2, ?_⟩
      intro j hj
      cases j with
      | zero => simpa using hp
      | succ j' => exact h3 j' (by omega)

theorem firstIdx_none_lineAt {p : CacheLine → Bool} {ls : List CacheLine}
    (hd : p (CacheLine.new 0) = false) (h : firstIdx p ls = none) (w : Nat) :
    p (lineAt ls w) = false := by
  have hall : ∀ l ∈ ls, p l = false := by
    induction ls with
    | nil => simp
    | cons l ls ih =>
      unfold firstIdx at h
      by_cases hp : p l = true
      · simp [hp] at h
      · simp only [hp, Bool.false_eq_true, if_false, Option.map_eq_none'] at h
        intro x hx
        rcases List.mem_cons.mp hx with rfl | hx
        · simpa using hp
        · exact ih h x hx
  rcases lineAt_eq_new_or_mem ls w with h1 | h1
  · rw [h1]; exact hd
  · exact hall _ h1

theorem firstIdx_eq_none_of {p : CacheLine → Bool} {ls : List CacheLine}
    (h : ∀ w, p (lineAt ls w) = false) : firstIdx p ls = none := by
  cases hf : firstIdx p ls with
  | none => rfl
  | some i =>
    have := (firstIdx_some_lineAt hf).2.1
    rw [h i] at this
    cases this

theorem CacheLevel.Find_some {lv : CacheLevel} {a w : Nat} (h : lv.Find a = some w) :
    w < (lv.setAt (lv.GetIndex a)).lines_.length ∧
    (lv.lineAt (lv.GetIndex a) w).valid = true ∧
    (lv.lineAt (lv.GetIndex a) w).tag = lv.GetTag a := by
  unfold CacheLevel.Find CacheSet.Find at h
  obtain ⟨h1, h2, _⟩ := firstIdx_some_lineAt h
  simp only [Bool.and_eq_true, beq_iff_eq] at h2
  exact ⟨h1, h2.1, h2.2⟩

theorem CacheLevel.Find_none {lv : CacheLevel} {a : Nat} (h : lv.Find a = none) (w : Nat) :
    ¬ ((lv.lineAt (lv.GetIndex a) w).valid = true ∧
       (lv.lineAt (lv.GetIndex a) w).tag = lv.GetTag a) := by
  unfold CacheLevel.Find CacheSet.Find at h
  have := firstIdx_none_lineAt (by simp [CacheLine.new]) h w
  simpa [CacheLevel.lineAt] using this

theorem CacheLevel.Find_eq_none_of {lv : CacheLevel} {a : Nat}
    (h : ∀ w, ¬ ((lv.lineAt (lv.GetIndex a) w).valid = true ∧
       (lv.lineAt (lv.GetIndex a) w).tag = lv.GetTag a)) : lv.Find a = none := by
  unfold CacheLevel.Find CacheSet.Find
  apply firstIdx_eq_none_of
  intro w
  have := h w
  simpa [CacheLevel.lineAt] using this

theorem CacheLevel.Find_isSome_of {lv : CacheLevel} {a w : Nat}
    (hv : (lv.lineAt (lv.GetIndex a) w).valid = true)
    (ht : (lv.lineAt (lv.GetIndex a) w).tag = lv.GetTag a) : ∃ w', lv.Find a = some w' := by
  cases h : lv.Find a with
  | some w' => exact ⟨w', rfl⟩
  | none => exact absurd ⟨hv, ht⟩ (CacheLevel.Find_none h w)

end MultilevelCache

namespace MultilevelCache

theorem CacheLevel.Shrinks.refl_shr (lv : CacheLevel) : lv.Shrinks lv :=
  ⟨CacheLevel.SameGeom.refl_geom lv, fun _ _ => ⟨rfl, fun h => h⟩⟩

theorem CacheLevel.Shrinks.trans_shr {a b c : CacheLevel} (h1 : a.Shrinks b) (h2 : b.Shrinks c) :
    a.Shrinks c :=
  ⟨h1.1.trans_geom h2.1, fun s w =>
    ⟨((h2.2 s w).1).trans (h1.2 s w).1, fun h => (h1.2 s w).2 ((h2.2 s w).2 h)⟩⟩

/-- A change of the counters only. -/
theorem CacheLevel.Shrinks.stats (lv : CacheLevel) (st : CacheStats) :
    lv.Shrinks { lv with stats_ := st } :=
  ⟨⟨rfl, rfl, rfl, rfl⟩, fun _ _ => ⟨rfl, fun h => h⟩⟩

theorem CacheLevel.Shrinks.invalidate_shr (lv : CacheLevel) (s w : Nat) :
    lv.Shrinks (lv.modifyLine s w (fun l => { l with valid := false })) := by
  refine ⟨CacheLevel.SameGeom.modifyLine lv s w _, fun s' w' => ?_⟩
  rw [CacheLevel.lineAt_modifyLine]
  split
  · rename_i h
    obtain ⟨rfl, rfl, _⟩ := h
    exact ⟨rfl, fun h => by cases h⟩
  · exact ⟨rfl, fun h => h⟩

theorem L1Shrinks.refl_l1 (c : TieredCache) : L1Shrinks c c :=
  ⟨fun lv h => ⟨lv, h, CacheLevel.Shrinks.refl_shr lv⟩, fun h => h⟩

theorem L1Shrinks.trans_l1 {a b c : TieredCache} (h1 : L1Shrinks a b) (h2 : L1Shrinks b c) :
    L1Shrinks a c := by
  refine ⟨fun lv hlv => ?_, fun h => h2.2 (h1.2 h)⟩
  obtain ⟨lv1, hlv1, s1⟩ := h1.1 lv hlv
  obtain ⟨lv2, hlv2, s2⟩ := h2.1 lv1 hlv1
  exact ⟨lv2, hlv2, s1.trans_shr s2⟩

theorem L1Shrinks.of_levels_eq {c c' : TieredCache} (h : c'.levels_[0]? = c.levels_[0]?) :
    L1Shrinks c c' :=
  ⟨fun lv hlv => ⟨lv, by rw [h, hlv], CacheLevel.Shrinks.refl_shr lv⟩, fun hn => by rw [h, hn]⟩

/-- An update of a level other than L1. -/
theorem L1Shrinks.modifyLevel_pos (c : TieredCache) (i : Nat) (f : CacheLevel → CacheLevel)
    (hi : 1 ≤ i) : L1Shrinks c (c.modifyLevel i f) :=
  L1Shrinks.of_levels_eq (modifyLevel_getElem?_ne c i 0 f (by omega))

/-- An update of any level by a function under which levels shrink. -/
theorem L1Shrinks.modifyLevel_l1 (c : TieredCache) (i : Nat) (f : CacheLevel → CacheLevel)
    (hf : ∀ lv : CacheLevel, lv.Shrinks (f lv)) : L1Shrinks c (c.modifyLevel i f) := by
  by_cases hi : i = 0
  · subst hi
    refine ⟨fun lv hlv => ⟨f lv, ?_, hf lv⟩, fun hn => ?_⟩
    · simp [TieredCache.modifyLevel, List.getElem?_modify, hlv]
    · simp [TieredCache.modifyLevel, List.getElem?_modify, hn]
  · exact L1Shrinks.of_levels_eq (modifyLevel_getElem?_ne c i 0 f hi)

/-- Calls at levels `≥ 1`, `BackInvalidate` and the `Evict` it runs only shrink L1. -/
theorem shrinkFrame (pol : InclusionPolicy) : Frame pol 1 L1Shrinks where
  refl := L1Shrinks.refl_l1
  trans := L1Shrinks.trans_l1
  hit := fun c i hi =>
    L1Shrinks.trans_l1 (L1Shrinks.modifyLevel_pos c i _ hi) (L1Shrinks.modifyLevel_pos _ i _ hi)
  miss := fun c i hi =>
    L1Shrinks.trans_l1 (L1Shrinks.modifyLevel_pos c i _ hi) (L1Shrinks.modifyLevel_pos _ i _ hi)
  lru := fun c p hp => L1Shrinks.modifyLevel_pos c p.level _ hp
  alloc := fun c level i addr hi =>
    L1Shrinks.of_levels_eq (by
      show (c.modifyLevel i _).levels_[0]? = c.levels_[0]?
      exact modifyLevel_getElem?_ne _ _ _ _ (by omega))
  line := fun c p f hp => L1Shrinks.modifyLevel_pos c p.level _ hp
  inval := fun c p _ =>
    L1Shrinks.modifyLevel_l1 c p.level _ (fun lv => CacheLevel.Shrinks.invalidate_shr lv _ _)
  evict := fun c i _ => L1Shrinks.modifyLevel_l1 c i _ (fun lv => CacheLevel.Shrinks.stats lv _)
  wb := fun c i _ => L1Shrinks.modifyLevel_l1 c i _ (fun lv => CacheLevel.Shrinks.stats lv _)
  mem := fun c m => L1Shrinks.of_levels_eq rfl

/-- `Evict` at any level, under either policy, only shrinks L1. -/
theorem Evict_L1Shrinks {fuel : Nat} {c : TieredCache} {i : Nat} {v : LineRef} {addr lat : Nat}
    {r : TieredCache × Nat} (h : Evict fuel c i v addr lat = .ok r) :
    L1Shrinks c r.1 ∧ r.1.opts_ = c.opts_ := by
  cases fuel with
  | zero => simp [Evict] at h
  | succ fuel =>
    have hW := (frame_all (shrinkFrame c.opts_.inclusion_policy) (Or.inl (le_refl 1)) fuel).2.1
    have hstat : ∀ (c : TieredCache) (j : Nat) (f : CacheStats → CacheStats),
        L1Shrinks c (c.modifyStats j f) :=
      fun c j f => L1Shrinks.modifyLevel_l1 c j _ (fun lv => CacheLevel.Shrinks.stats lv _)
    rw [Evict] at h
    split at h
    · cases h
    split at h
    · have f0 : L1Shrinks c ((c.countEviction i).countWriteback i) :=
        L1Shrinks.trans_l1 (hstat c i _) (hstat _ i _)
      split at h
      · have := hW _ _ _ _ _ _ (by rfl) (by omega) h
        exact ⟨f0.trans_l1 this.1, this.2⟩
      · obtain ⟨m, _, hr⟩ := WriteToMemory_ok h
        rw [hr]
        exact ⟨f0.trans_l1 (L1Shrinks.of_levels_eq rfl), rfl⟩
    · have f0 : L1Shrinks c (c.countEviction i) := hstat c i _
      split at h
      · split at h
        · have := hW _ _ _ _ _ _ (by rfl) (by omega) h
          exact ⟨f0.trans_l1 this.1, this.2⟩
        · cases h; exact ⟨f0, rfl⟩
      · cases h; exact ⟨f0, rfl⟩

theorem CacheLevel.NoDup.of_shrinks_lv {lv lv' : CacheLevel} (h : lv.NoDup) (hs : lv.Shrinks lv') :
    lv'.NoDup := by
  intro s w1 w2 h1 h2 ht
  apply h s w1 w2 ((hs.2 s w1).2 h1) ((hs.2 s w2).2 h2)
  rw [← (hs.2 s w1).1, ← (hs.2 s w2).1]
  exact ht

theorem L1NoDup.of_shrinks {c c' : TieredCache} (h : L1NoDup c) (hs : L1Shrinks c c') :
    L1NoDup c' := by
  intro lv' hlv'
  cases h0 : c.levels_[0]? with
  | none =>
    rw [hs.2 h0] at hlv'
    cases hlv'
  | some lv =>
    obtain ⟨lv1, hlv1, s1⟩ := hs.1 lv h0
    rw [hlv1] at hlv'
    cases hlv'
    exact (h lv h0).of_shrinks_lv s1

end MultilevelCache

namespace MultilevelCache

theorem level0_modifyLevel_zero (c : TieredCache) (f : CacheLevel → CacheLevel) :
    (c.modifyLevel 0 f).levels_[0]? = (c.levels_[0]?).map f := by
  simp [TieredCache.modifyLevel, List.getElem?_modify]

theorem CacheLevel.UpdateLRU_view (lv : CacheLevel) (s w cyc s' w' : Nat) :
    ((lv.UpdateLRU s w cyc).lineAt s' w').valid = (lv.lineAt s' w').valid ∧
    ((lv.UpdateLRU s w cyc).lineAt s' w').tag = (lv.lineAt s' w').tag := by
  unfold CacheLevel.UpdateLRU
  split
  · rw [CacheLevel.lineAt_modifyLine]
    split
    · rename_i h
      obtain ⟨rfl, rfl, _⟩ := h
      exact ⟨rfl, rfl⟩
    · exact ⟨rfl, rfl⟩
  · exact ⟨rfl, rfl⟩

theorem CacheLevel.NoDup.of_view_eq {lv lv' : CacheLevel} (h : lv.NoDup)
    (hv : ∀ s w, (lv'.lineAt s w).valid = (lv.lineAt s w).valid ∧
      (lv'.lineAt s w).tag = (lv.lineAt s w).tag) : lv'.NoDup := by
  intro s w1 w2 h1 h2 ht
  rw [(hv s w1).1] at h1
  rw [(hv s w2).1] at h2
  rw [(hv s w1).2, (hv s w2).2] at ht
  exact h s w1 w2 h1 h2 ht

/-- Retagging one line keeps a level free of duplicates if no other valid line of that set
carries the new tag. -/
theorem CacheLevel.NoDup.set {lv lv' : CacheLevel} (h : lv.NoDup) (s w t : Nat)
    (hv : ∀ s' w', ¬ (s' = s ∧ w' = w) →
      (lv'.lineAt s' w').valid = (lv.lineAt s' w').valid ∧
      (lv'.lineAt s' w').tag = (lv.lineAt s' w').tag)
    (hsw : ((lv'.lineAt s w).valid = (lv.lineAt s w).valid ∧
      (lv'.lineAt s w).tag = (lv.lineAt s w).tag) ∨ (lv'.lineAt s w).tag = t)
    (hother : ∀ w', w' ≠ w → ¬ ((lv.lineAt s w').valid = true ∧ (lv.lineAt s w').tag = t)) :
    lv'.NoDup := by
  rcases hsw with hsame | hnew
  · apply h.of_view_eq
    intro s' w'
    by_cases hc : s' = s ∧ w' = w
    · obtain ⟨rfl, rfl⟩ := hc
      exact hsame
    · exact hv s' w' hc
  · intro s' w1 w2 h1 h2 ht
    by_cases hs : s' = s
    · subst hs
      by_cases hw1 : w1 = w
      · by_cases hw2 : w2 = w
        · rw [hw1, hw2]
        · exfalso
          subst hw1
          have hv2 := hv s' w2 (fun hc => hw2 hc.2)
          rw [hv2.1] at h2
          rw [hv2.2, hnew] at ht
          exact hother w2 hw2 ⟨h2, ht.symm⟩
      · by_cases hw2 : w2 = w
        · exfalso
          subst hw2
          have hv1 := hv s' w1 (fun hc => hw1 hc.2)
          rw [hv1.1] at h1
          rw [hv1.2, hnew] at ht
          exact hother w1 hw1 ⟨h1, ht⟩
        · have hv1 := hv s' w1 (fun hc => hw1 hc.2)
          have hv2 := hv s' w2 (fun hc => hw2 hc.2)
          rw [hv1.1] at h1
          rw [hv2.1] at h2
          rw [hv1.2, hv2.2] at ht
          exact h s' w1 w2 h1 h2 ht
    · have hv1 := hv s' w1 (fun hc => hs hc.1)
      have hv2 := hv s' w2 (fun hc => hs hc.1)
      rw [hv1.1] at h1
      rw [hv2.1] at h2
      rw [hv1.2, hv2.2] at ht
      exact h s' w1 w2 h1 h2 ht

/-- What `Allocate` does to the valid bits and tags of a level. -/
theorem CacheLevel.Allocate_view (lv : CacheLevel) (a cyc rnd : Nat) :
    (∀ s' w', ¬ (s' = lv.GetIndex a ∧ w' = (lv.Allocate a cyc rnd).2.2) →
      ((lv.Allocate a cyc rnd).1.lineAt s' w').valid = (lv.lineAt s' w').valid ∧
      ((lv.Allocate a cyc rnd).1.lineAt s' w').tag = (lv.lineAt s' w').tag) ∧
    ((((lv.Allocate a cyc rnd).1.lineAt (lv.GetIndex a) (lv.Allocate a cyc rnd).2.2).valid =
        (lv.lineAt (lv.GetIndex a) (lv.Allocate a cyc rnd).2.2).valid ∧
      ((lv.Allocate a cyc rnd).1.lineAt (lv.GetIndex a) (lv.Allocate a cyc rnd).2.2).tag =
        (lv.lineAt (lv.GetIndex a) (lv.Allocate a cyc rnd).2.2).tag) ∨
     ((lv.Allocate a cyc rnd).1.lineAt (lv.GetIndex a) (lv.Allocate a cyc rnd).2.2).tag =
        lv.GetTag a) := by
  simp only [CacheLevel.Allocate]
  constructor
  · intro s' w' hne
    have h1 := CacheLevel.UpdateLRU_view
      (lv.modifyLine (lv.GetIndex a) ((lv.setAt (lv.GetIndex a)).FindVictim cyc rnd)
        (fun l => { l with valid := true, dirty := false, tag := lv.GetTag a }))
      (lv.GetIndex a) ((lv.setAt (lv.GetIndex a)).FindVictim cyc rnd) cyc s' w'
    rw [h1.1, h1.2, CacheLevel.lineAt_modifyLine]
    have : ¬ (s' = lv.GetIndex a ∧ w' = (lv.setAt (lv.GetIndex a)).FindVictim cyc rnd ∧
        (lv.setAt (lv.GetIndex a)).FindVictim cyc rnd <
          (lv.setAt (lv.GetIndex a)).lines_.length) := fun hc => hne ⟨hc.1, hc.2.1⟩
    simp only [this, if_false, and_self]
  · have h1 := CacheLevel.UpdateLRU_view
      (lv.modifyLine (lv.GetIndex a) ((lv.setAt (lv.GetIndex a)).FindVictim cyc rnd)
        (fun l => { l with valid := true, dirty := false, tag := lv.GetTag a }))
      (lv.GetIndex a) ((lv.setAt (lv.GetIndex a)).FindVictim cyc rnd) cyc (lv.GetIndex a)
      ((lv.setAt (lv.GetIndex a)).FindVictim cyc rnd)
    rw [h1.1, h1.2, CacheLevel.lineAt_modifyLine]
    by_cases hr : (lv.setAt (lv.GetIndex a)).FindVictim cyc rnd <
        (lv.setAt (lv.GetIndex a)).lines_.length
    · right
      simp [hr]
    · left
      simp [hr]

theorem CacheLevel.Allocate_SameGeom (lv : CacheLevel) (a cyc rnd : Nat) :
    lv.SameGeom (lv.Allocate a cyc rnd).1 := by
  simp only [CacheLevel.Allocate]
  exact (CacheLevel.SameGeom.modifyLine lv _ _ _).trans_geom (CacheLevel.SameGeom.UpdateLRU_geom _ _ _ _)

theorem CacheLevel.Allocate_NoDup {lv : CacheLevel} (h : lv.NoDup) (a cyc rnd : Nat)
    (hf : lv.Find a = none) : (lv.Allocate a cyc rnd).1.NoDup := by
  have hv := CacheLevel.Allocate_view lv a cyc rnd
  exact h.set (lv.GetIndex a) (lv.Allocate a cyc rnd).2.2 (lv.GetTag a) hv.1 hv.2
    (fun w' _ => CacheLevel.Find_none hf w')

end MultilevelCache

namespace MultilevelCache

theorem level0_modifyStats_zero (c : TieredCache) (f : CacheStats → CacheStats) :
    (c.modifyStats 0 f).levels_[0]? =
      (c.levels_[0]?).map (fun lv => { lv with stats_ := f lv.stats_ }) :=
  level0_modifyLevel_zero c _

theorem L1NoDup.modifyLevel_zero {c : TieredCache} (h : L1NoDup c) (f : CacheLevel → CacheLevel)
    (hf : ∀ lv : CacheLevel, c.levels_[0]? = some lv → lv.NoDup → (f lv).NoDup) :
    L1NoDup (c.modifyLevel 0 f) := by
  intro lv' hlv'
  rw [level0_modifyLevel_zero] at hlv'
  cases h0 : c.levels_[0]? with
  | none => rw [h0] at hlv'; cases hlv'
  | some lv =>
    rw [h0] at hlv'
    cases hlv'
    exact hf lv h0 (h lv h0)

theorem L1NoDup.of_view {c c' : TieredCache} (h : L1NoDup c)
    (hv : ∀ lv', c'.levels_[0]? = some lv' → ∃ lv, c.levels_[0]? = some lv ∧
      ∀ s w, (lv'.lineAt s w).valid = (lv.lineAt s w).valid ∧
        (lv'.lineAt s w).tag = (lv.lineAt s w).tag) : L1NoDup c' := by
  intro lv' hlv'
  obtain ⟨lv, hlv, hvw⟩ := hv lv' hlv'
  exact (h lv hlv).of_view_eq hvw

theorem L1NoDup.modifyStats {c : TieredCache} (h : L1NoDup c) (i : Nat)
    (f : CacheStats → CacheStats) : L1NoDup (c.modifyStats i f) :=
  h.of_shrinks (L1Shrinks.modifyLevel_l1 c i _ (fun lv => CacheLevel.Shrinks.stats lv _))

theorem L1NoDup.UpdateLRU_nd {c : TieredCache} (h : L1NoDup c) (p : LinePtr) :
    L1NoDup (c.UpdateLRU p) := by
  by_cases hp : p.level = 0
  · unfold TieredCache.UpdateLRU
    rw [hp]
    exact h.modifyLevel_zero _ (fun lv _ hn =>
      hn.of_view_eq (fun s w => CacheLevel.UpdateLRU_view lv _ _ _ s w))
  · exact h.of_shrinks (L1Shrinks.modifyLevel_pos c p.level _ (by omega))

/-- A write through a line pointer that leaves the valid bit and the tag alone. -/
theorem L1NoDup.modifyLine_keep {c : TieredCache} (h : L1NoDup c) (p : LinePtr)
    (f : CacheLine → CacheLine) (hf : ∀ l, (f l).valid = l.valid ∧ (f l).tag = l.tag) :
    L1NoDup (c.modifyLine p f) := by
  by_cases hp : p.level = 0
  · unfold TieredCache.modifyLine
    rw [hp]
    refine h.modifyLevel_zero _ (fun lv _ hn => hn.of_view_eq (fun s w => ?_))
    rw [CacheLevel.lineAt_modifyLine]
    split
    · rename_i hc
      obtain ⟨rfl, rfl, _⟩ := hc
      exact hf _
    · exact ⟨rfl, rfl⟩
  · exact h.of_shrinks (L1Shrinks.modifyLevel_pos c p.level _ (by omega))

theorem L1NoDup.store_nd {c : TieredCache} (h : L1NoDup c) (p : LinePtr) (off : Nat) (inp : Span) :
    L1NoDup (c.store p off inp) := by
  unfold TieredCache.store
  exact (h.UpdateLRU_nd p).modifyLine_keep p _ (fun l => ⟨rfl, rfl⟩)

theorem level0_afterWrite (c : TieredCache) (i a : Nat) :
    (c.exclusiveAfterWrite i a).levels_[0]? = c.levels_[0]? :=
  (belowFrame 1).afterWrite c i a (by omega) 0 (by omega)

theorem level0_afterRead (c : TieredCache) (i a : Nat) (wa : Bool) :
    (c.exclusiveAfterRead i a wa).levels_[0]? = c.levels_[0]? :=
  (belowFrame 1).afterRead c i a wa (by omega) 0 (by omega)

theorem L1NoDup.of_level0_eq {c c' : TieredCache} (h : L1NoDup c)
    (he : c'.levels_[0]? = c.levels_[0]?) : L1NoDup c' :=
  fun lv hlv => h lv (by rw [← he]; exact hlv)

theorem L1Free.of_shrinks_free {c c' : TieredCache} {s w t : Nat} (h : L1Free c s w t)
    (hs : L1Shrinks c c') : L1Free c' s w t := by
  intro lv' hlv' w2 hw2 hvt
  cases h0 : c.levels_[0]? with
  | none =>
    rw [hs.2 h0] at hlv'
    cases hlv'
  | some lv =>
    obtain ⟨lv1, hlv1, s1⟩ := hs.1 lv h0
    rw [hlv1] at hlv'
    cases hlv'
    exact h lv h0 w2 hw2 ⟨(s1.2 s w2).2 hvt.1, by rw [← (s1.2 s w2).1]; exact hvt.2⟩

theorem CacheLevel.Find_stats (lv : CacheLevel) (st : CacheStats) (a : Nat) :
    ({ lv with stats_ := st } : CacheLevel).Find a = lv.Find a := rfl

/-- After `Allocate` on a miss at L1, L1 has no duplicates and only the slot handed out can
hold the new tag. -/
theorem L1NoDup.Allocate {c : TieredCache} (h : L1NoDup c) {level : CacheLevel} {st : CacheStats}
    (hlv : c.levels_[0]? = some { level with stats_ := st }) (addr : Nat)
    (hf : level.Find addr = none) :
    L1NoDup (c.Allocate level 0 addr).1 ∧
    L1Free (c.Allocate level 0 addr).1 (c.Allocate level 0 addr).2.2.index
      (c.Allocate level 0 addr).2.2.way (level.GetTag addr) := by
  have hl0 : (c.Allocate level 0 addr).1.levels_[0]? =
      some (({ level with stats_ := st } : CacheLevel).Allocate addr c.current_cycle_
        (c.rand_.headD 0)).1 := by
    show (c.modifyLevel 0 _).levels_[0]? = _
    rw [level0_modifyLevel_zero, hlv]
    rfl
  have hnd : ({ level with stats_ := st } : CacheLevel).NoDup := h _ hlv
  constructor
  · intro lv1 hlv1
    rw [hl0] at hlv1
    cases hlv1
    exact CacheLevel.Allocate_NoDup hnd _ _ _ hf
  · intro lv1 hlv1 w2 hw2 hvt
    rw [hl0] at hlv1
    cases hlv1
    have hv := (CacheLevel.Allocate_view ({ level with stats_ := st } : CacheLevel) addr
      c.current_cycle_ (c.rand_.headD 0)).1 (level.GetIndex addr) w2
      (fun hc => hw2 hc.2)
    have hvt1 : ((({ level with stats_ := st } : CacheLevel).Allocate addr c.current_cycle_
        (c.rand_.headD 0)).1.lineAt (level.GetIndex addr) w2).valid = true ∧
        ((({ level with stats_ := st } : CacheLevel).Allocate addr c.current_cycle_
        (c.rand_.headD 0)).1.lineAt (level.GetIndex addr) w2).tag = level.GetTag addr := hvt
    rw [hv.1, hv.2] at hvt1
    have hf2 : ({ level with stats_ := st } : CacheLevel).Find addr = none := hf
    exact CacheLevel.Find_none hf2 w2 hvt1

/-- Filling the slot that `Allocate` handed out keeps L1 free of duplicates. -/
theorem L1NoDup.install_nd {c : TieredCache} (h : L1NoDup c) (p : LinePtr) (t : Nat)
    (buf : List Nat) (hfree : L1Free c p.index p.way t) : L1NoDup (c.install p t buf) := by
  unfold TieredCache.install
  apply L1NoDup.UpdateLRU_nd
  by_cases hp : p.level = 0
  · unfold TieredCache.modifyLine
    rw [hp]
    refine h.modifyLevel_zero _ (fun lv hlv hn => ?_)
    refine hn.set p.index p.way t (fun s2 w2 hne => ?_) ?_ (hfree lv hlv)
    · rw [CacheLevel.lineAt_modifyLine]
      split
      · rename_i hc
        exact absurd ⟨hc.1, hc.2.1⟩ hne
      · exact ⟨rfl, rfl⟩
    · rw [CacheLevel.lineAt_modifyLine]
      split
      · exact Or.inr rfl
      · exact Or.inl ⟨rfl, rfl⟩
  · exact h.of_shrinks (L1Shrinks.modifyLevel_pos c p.level _ (by omega))

theorem level0_countAccess_countMiss {c : TieredCache} {level : CacheLevel}
    (h : c.levels_[0]? = some level) :
    ∃ st, ((c.countAccess 0).countMiss 0).levels_[0]? = some { level with stats_ := st } := by
  unfold TieredCache.countMiss TieredCache.countAccess
  rw [level0_modifyStats_zero, level0_modifyStats_zero, h]
  exact ⟨_, rfl⟩

/-- `HandleRead` and `HandleWrite` at L1 keep L1 free of duplicate tags. -/
theorem L1NoDup.handle : ∀ fuel : Nat,
    (∀ c addr len lat wa r, HandleRead fuel c 0 addr len lat wa = .ok r →
      L1NoDup c → L1NoDup r.1) ∧
    (∀ c addr inp lat r, HandleWrite fuel c 0 addr inp lat = .ok r →
      L1NoDup c → L1NoDup r.1) := by
  intro fuel
  induction fuel with
  | zero =>
    exact ⟨fun c addr len lat wa r h => by simp [HandleRead] at h,
           fun c addr inp lat r h => by simp [HandleWrite] at h⟩
  | succ fuel ih =>
    obtain ⟨ihR, ihW⟩ := ih
    have hread : ∀ c addr len lat wa r, HandleRead (fuel + 1) c 0 addr len lat wa = .ok r →
        L1NoDup c → L1NoDup r.1 := by
      intro c addr len lat wa r h hn
      rw [HandleRead] at h
      split at h
      · cases h
      rename_i level hlevel
      split at h
      · split at h
        · cases h
        rename_i c1 out1 lat1 h1
        split at h
        · cases h
        rename_i c2 out2 lat2 h2
        cases h
        exact ihR _ _ _ _ _ (c2, out2, lat2) h2 (ihR _ _ _ _ _ _ h1 hn)
      · split at h
        · cases h
          exact ((hn.modifyStats 0 _).modifyStats 0 _).UpdateLRU_nd _
        · rename_i hfind
          split at h
          rename_i c1 victim_line new_line halloc
          have hn0 : L1NoDup ((c.countAccess 0).countMiss 0) :=
            (hn.modifyStats 0 _).modifyStats 0 _
          obtain ⟨st, hst⟩ := level0_countAccess_countMiss hlevel
          have hA := hn0.Allocate hst addr hfind
          rw [halloc] at hA
          obtain ⟨hn1, hfree1⟩ := hA
          have hopt1 : c1.opts_ = c.opts_ := by
            have := congrArg (fun x => x.1.opts_) halloc
            simpa using this.symm
          -- BackInvalidate
          split at h
          · cases h
          rename_i c2 h2
          have hs12 : L1Shrinks c1 c2 ∧ c2.opts_ = c1.opts_ := by
            split at h2
            · split at h2
              · rename_i hincl
                exact (frame_all (shrinkFrame _) (Or.inl (le_refl 1)) fuel).2.2.2 _ _ _ _
                  (by rfl) hincl h2
              · cases h2
                exact ⟨L1Shrinks.refl_l1 _, rfl⟩
            · cases h2
              exact ⟨L1Shrinks.refl_l1 _, rfl⟩
          -- Evict
          split at h
          · cases h
          rename_i c3 lat3 h3
          have hs23 : L1Shrinks c2 c3 ∧ c3.opts_ = c2.opts_ := by
            split at h3
            · exact Evict_L1Shrinks h3
            · cases h3
              exact ⟨L1Shrinks.refl_l1 _, rfl⟩
          -- the fetch
          split at h
          · cases h
          rename_i c4 line_buffer lat4 h4
          have hs34 : L1Shrinks c3 c4 := by
            split at h4
            · exact ((frame_all (shrinkFrame _) (Or.inl (le_refl 1)) fuel).1 _ _ _ _ _ _ _
                (by rfl) (le_refl 1) h4).1
            · split at h4
              · cases h4
              · cases h4
                exact L1Shrinks.refl_l1 _
          cases h
          have hs14 := (hs12.1.trans_l1 hs23.1).trans_l1 hs34
          exact (((hn1.of_shrinks hs14).install_nd new_line _ line_buffer
            (hfree1.of_shrinks_free hs14))).of_level0_eq (level0_afterRead _ _ _ _)
    refine ⟨hread, ?_⟩
    intro c addr inp lat r h hn
    rw [HandleWrite] at h
    split at h
    · cases h
    rename_i level hlevel
    split at h
    · split at h
      · cases h
      rename_i c1 lat1 h1
      exact ihW _ _ _ _ _ h (ihW _ _ _ _ _ h1 hn)
    · split at h
      · cases h
        exact (((hn.modifyStats 0 _).modifyStats 0 _).store_nd _ _ _).of_level0_eq
          (level0_afterWrite _ _ _)
      · split at h
        · cases h
        rename_i c1 out1 lat1 h1
        have hn1 : L1NoDup c1 :=
          ihR _ _ _ _ _ _ h1 ((hn.modifyStats 0 _).modifyStats 0 _)
        split at h
        · cases h
        split at h
        · cases h
        cases h
        exact (hn1.store_nd _ _ _).of_level0_eq (level0_afterWrite _ _ _)

end MultilevelCache

namespace MultilevelCache

/-- A property of every level the constructor builds holds of every level of a fresh
hierarchy. -/
theorem mapM_new_forall (P : CacheLevel → Prop)
    (hP : ∀ cfg lv, CacheLevel.new cfg = .ok lv → P lv) :
    ∀ (cfgs : List CacheLevelConfig) (lvs : List CacheLevel),
      cfgs.mapM CacheLevel.new = .ok lvs → ∀ lv ∈ lvs, P lv := by
  intro cfgs
  induction cfgs with
  | nil =>
    intro lvs h lv hlv
    simp only [List.mapM_nil, pure, Except.pure, Except.ok.injEq] at h
    subst h
    simp at hlv
  | cons cfg cfgs ih =>
    intro lvs h lv hlv
    rw [List.mapM_cons] at h
    simp only [bind_eq_ok, pure, Except.pure, Except.ok.injEq] at h
    obtain ⟨l0, hl0, ls, hls, rfl⟩ := h
    rcases List.mem_cons.mp hlv with rfl | hmem
    · exact hP _ _ hl0
    · exact ih ls hls lv hmem

theorem CacheLevel.new_sets {cfg : CacheLevelConfig} {lv : CacheLevel}
    (h : CacheLevel.new cfg = .ok lv) :
    lv.config_ = cfg ∧
    lv.sets_ = List.replicate lv.num_sets_
      (CacheSet.new cfg.associativity cfg.line_size cfg.replacement_policy) := by
  unfold CacheLevel.new at h
  split at h
  · cases h
  split at h
  · cases h
  split at h
  · cases h
  simp only at h
  split at h
  · cases h
  split at h
  · cases h
  cases h
  exact ⟨rfl, rfl⟩

/-- Every line of a freshly constructed level is invalid. -/
theorem CacheLevel.new_invalid {cfg : CacheLevelConfig} {lv : CacheLevel}
    (h : CacheLevel.new cfg = .ok lv) (s w : Nat) : (lv.lineAt s w).valid = false := by
  obtain ⟨_, hs⟩ := CacheLevel.new_sets h
  have hset : lv.setAt s = CacheSet.new cfg.associativity cfg.line_size
      cfg.replacement_policy ∨ lv.setAt s = CacheSet.new 0 0 ReplacementPolicy.LRU := by
    unfold CacheLevel.setAt
    rw [hs, List.getD_eq_getElem?_getD]
    by_cases hlt : s < lv.num_sets_
    · left
      simp [List.getElem?_replicate, hlt]
    · right
      simp [List.getElem?_replicate, hlt]
  unfold CacheLevel.lineAt
  rcases hset with hset | hset
  · rw [hset]
    rcases lineAt_eq_new_or_mem
        (CacheSet.new cfg.associativity cfg.line_size cfg.replacement_policy).lines_ w with
      hnew | hmem
    · rw [hnew]
      rfl
    · have hmem2 : MultilevelCache.lineAt (CacheSet.new cfg.associativity cfg.line_size
          cfg.replacement_policy).lines_ w ∈
          List.replicate cfg.associativity (CacheLine.new cfg.line_size) := hmem
      rw [List.eq_of_mem_replicate hmem2]
      rfl
  · rw [hset]
    rfl

theorem CacheLevel.new_NoDup {cfg : CacheLevelConfig} {lv : CacheLevel}
    (h : CacheLevel.new cfg = .ok lv) : lv.NoDup := by
  intro s w1 w2 h1 _ _
  rw [CacheLevel.new_invalid h] at h1
  cases h1

theorem L1NoDup.fresh_nd {opts : Options} {m : Memory} {rand : List Nat} {c : TieredCache}
    (h : TieredCache.new opts m rand = .ok c) : L1NoDup c := by
  unfold TieredCache.new at h
  split at h
  · cases h
  rename_i lvs hlvs
  cases h
  intro lv hlv
  exact mapM_new_forall CacheLevel.NoDup (fun _ _ => CacheLevel.new_NoDup) _ _ hlvs lv
    (List.getElem?_mem hlv)

theorem L1Shrinks.invalidate_l1 (c : TieredCache) (p : LinePtr) : L1Shrinks c (c.invalidate p) :=
  L1Shrinks.modifyLevel_l1 c p.level _ (fun lv => CacheLevel.Shrinks.invalidate_shr lv _ _)

/-- What `Demote` does to L1 when it finds the line: L1 shrinks, and the slot it found is
invalid afterwards. -/
theorem Demote_found {fuel : Nat} {c c1 : TieredCache} {a : Nat} {l1 : CacheLevel} {way : Nat}
    (hl1 : c.levels_[0]? = some l1) (hf : l1.Find a = some way)
    (h : c.Demote fuel a = .ok c1) :
    ∃ lv1, c1.levels_[0]? = some lv1 ∧ l1.Shrinks lv1 ∧
      (lv1.lineAt (l1.GetIndex a) way).valid = false := by
  unfold TieredCache.Demote at h
  simp only [hl1, hf] at h
  split at h
  · cases h
  rename_i c2 lat2 h2
  cases h
  have hs := (Evict_L1Shrinks h2).1
  obtain ⟨lv2, hlv2, s2⟩ := hs.1 l1 hl1
  refine ⟨lv2.modifyLine (l1.GetIndex a) way (fun l => { l with valid := false }), ?_,
    s2.trans_shr (CacheLevel.Shrinks.invalidate_shr lv2 _ _), ?_⟩
  · show (c2.modifyLevel 0 _).levels_[0]? = _
    rw [level0_modifyLevel_zero, hlv2]
    rfl
  · rw [CacheLevel.lineAt_modifyLine]
    split
    · rfl
    · rename_i hc
      simp only [true_and, not_lt] at hc
      unfold CacheLevel.lineAt
      rw [lineAt_of_le hc]
      rfl

theorem L1NoDup.Demote {fuel : Nat} {c c1 : TieredCache} {a : Nat} (hn : L1NoDup c)
    (h : c.Demote fuel a = .ok c1) : L1NoDup c1 := by
  cases hl1 : c.levels_[0]? with
  | none =>
    unfold TieredCache.Demote at h
    simp only [hl1] at h
    cases h
    exact hn
  | some l1 =>
    cases hf : l1.Find a with
    | none =>
      unfold TieredCache.Demote at h
      simp only [hl1, hf] at h
      cases h
      exact hn
    | some way =>
      obtain ⟨lv1, hlv1, hs, _⟩ := Demote_found hl1 hf h
      intro lv hlv
      rw [hlv1] at hlv
      cases hlv
      exact (hn l1 hl1).of_shrinks_lv hs

theorem L1NoDup.call_nd {fuel : Nat} {c c1 : TieredCache} {call : Call} (hn : L1NoDup c)
    (hc : c.call fuel call = .ok c1) : L1NoDup c1 := by
  cases call with
  | read addr len =>
    simp only [TieredCache.call] at hc
    split at hc
    · cases hc
    rename_i c2 out hr
    cases hc
    unfold TieredCache.ReadSpan at hr
    split at hr
    · split at hr
      · cases hr
      · cases hr; exact hn
    · split at hr
      · cases hr
      rename_i c3 out3 lat3 hread
      cases hr
      exact (L1NoDup.handle fuel).1 _ _ _ _ _ _ hread hn
  | write addr inp =>
    simp only [TieredCache.call] at hc
    unfold TieredCache.WriteSpan at hc
    split at hc
    · cases hc
    rename_i c2 lat2 hw
    cases hc
    split at hw
    · obtain ⟨m, _, hr1⟩ := WriteToMemory_ok hw
      have h2 : c2 = _ := hr1
      exact hn.of_level0_eq (by show c2.levels_[0]? = _; rw [h2])
    · exact (L1NoDup.handle fuel).2 _ _ _ _ _ hw hn
  | demote addr =>
    simp only [TieredCache.call] at hc
    exact hn.Demote hc

theorem L1NoDup.run_nd {fuel : Nat} (calls : List Call) :
    ∀ {c c1 : TieredCache}, L1NoDup c → c.run fuel calls = .ok c1 → L1NoDup c1 := by
  induction calls with
  | nil =>
    intro c c1 h hr
    simp only [TieredCache.run] at hr
    cases hr
    exact h
  | cons call calls ih =>
    intro c c1 h hr
    simp only [TieredCache.run] at hr
    split at hr
    · cases hr
    rename_i c2 hc2
    exact ih (h.call_nd hc2) hr

/-- Every state the interface can reach from a fresh cache has no duplicate tags in L1. -/
theorem L1NoDup.reachable {fuel : Nat} {opts : Options} {m : Memory} {rand : List Nat}
    {calls : List Call} {c : TieredCache}
    (h : TieredCache.runFresh fuel opts m rand calls = .ok c) : L1NoDup c := by
  unfold TieredCache.runFresh at h
  split at h
  · cases h
  rename_i c0 hc0
  exact L1NoDup.run_nd calls (L1NoDup.fresh_nd hc0) h

/-- After `Demote(a)` returned, L1 does not hold the line of `a`. -/
theorem Demote_then_absent {fuel : Nat} {c c1 : TieredCache} {a : Nat} (hn : L1NoDup c)
    (h : c.Demote fuel a = .ok c1) : ∀ lv1, c1.levels_[0]? = some lv1 → lv1.Find a = none := by
  intro lv1 hlv1
  cases hl1 : c.levels_[0]? with
  | none =>
    unfold TieredCache.Demote at h
    simp only [hl1] at h
    cases h
    rw [hl1] at hlv1
    cases hlv1
  | some l1 =>
    cases hf : l1.Find a with
    | none =>
      unfold TieredCache.Demote at h
      simp only [hl1, hf] at h
      cases h
      simp only [hl1, Option.some.injEq] at hlv1
      rw [← hlv1]
      exact hf
    | some way =>
      obtain ⟨lv, hlv, hs, hinv⟩ := Demote_found hl1 hf h
      have e : lv = lv1 := by rw [hlv] at hlv1; exact Option.some.inj hlv1
      rw [← e]
      obtain ⟨_, hv, ht⟩ := CacheLevel.Find_some hf
      have hidx : lv.GetIndex a = l1.GetIndex a := (CacheLevel.SameGeom.GetIndex hs.1 a)
      have htag : lv.GetTag a = l1.GetTag a := (CacheLevel.SameGeom.GetTag hs.1 a)
      apply CacheLevel.Find_eq_none_of
      intro w hw
      rw [hidx, htag] at hw
      have hw1 : (l1.lineAt (l1.GetIndex a) w).valid = true := (hs.2 _ w).2 hw.1
      have hw2 : (l1.lineAt (l1.GetIndex a) w).tag = l1.GetTag a := by
        rw [← (hs.2 _ w).1]; exact hw.2
      have : w = way := hn l1 hl1 _ w way hw1 hv (hw2.trans ht.symm)
      subst this
      rw [hinv] at hw
      cases hw.1

end MultilevelCache

namespace MultilevelCache

theorem u64_two_pow_of_lt {j : Nat} (hj : j < 64) : u64 (2 ^ j) = 2 ^ j := by
  unfold u64
  exact Nat.mod_eq_of_lt (Nat.pow_lt_pow_right (by norm_num) hj)

/-- The loop of `std_log2`, started at `power = 2^j`, `log = j` with `65 - j` tests left,
stops at the first power of two that is not below `val`. -/
theorem std_log2_loop_reach (val k : Nat) (hk : k < 64) (hle : val ≤ 2 ^ k)
    (hgt : ∀ j, j < k → 2 ^ j < val) :
    ∀ d j, j + d = k → std_log2_loop val (65 - j) (2 ^ j) j = some (2 ^ k, k) := by
  intro d
  induction d with
  | zero =>
    intro j hj
    have hjk : j = k := by omega
    subst hjk
    have h65 : 65 - j = (64 - j) + 1 := by omega
    rw [h65, std_log2_loop]
    simp [Nat.not_lt.mpr hle]
  | succ d ih =>
    intro j hj
    have hjk : j < k := by omega
    have h65 : 65 - j = (65 - (j + 1)) + 1 := by omega
    rw [h65, std_log2_loop]
    simp only [hgt j hjk, if_true]
    have h1 : u64 (2 ^ j * 2) = 2 ^ (j + 1) := by
      rw [← pow_succ]
      exact u64_two_pow_of_lt (by omega)
    have h2 : u32 (j + 1) = j + 1 := by
      unfold u32
      exact Nat.mod_eq_of_lt (by omega)
    rw [h1, h2]
    exact ih (j + 1) (by omega)

/-- Whatever the loop of `std_log2` returns from `power = 2^j mod 2^64`, `log = j` is a pair
`(2^l mod 2^64, l)` with `l ≤ 64`. -/
theorem std_log2_loop_shape (val : Nat) :
    ∀ n j p l, j + n = 65 → std_log2_loop val n (u64 (2 ^ j)) j = some (p, l) →
      p = u64 (2 ^ l) ∧ l ≤ 64 := by
  intro n
  induction n with
  | zero => intro j p l _ h; simp [std_log2_loop] at h
  | succ n ih =>
    intro j p l hj h
    rw [std_log2_loop] at h
    by_cases hlt : u64 (2 ^ j) < val
    · simp only [hlt, if_true] at h
      have h1 : u64 (u64 (2 ^ j) * 2) = u64 (2 ^ (j + 1)) := by
        show (2 ^ j % 2 ^ 64) * 2 % 2 ^ 64 = 2 ^ (j + 1) % 2 ^ 64
        rw [Nat.mod_mul_mod, show (2 : Nat) ^ (j + 1) = 2 ^ j * 2 from pow_succ 2 j]
      have h2 : u32 (j + 1) = j + 1 := by
        unfold u32
        exact Nat.mod_eq_of_lt (by omega)
      rw [h1, h2] at h
      exact ih (j + 1) p l (by omega) h
    · simp only [hlt, if_false, Option.some.injEq, Prod.mk.injEq] at h
      obtain ⟨rfl, rfl⟩ := h
      exact ⟨rfl, by omega⟩

/-- The least exponent `k` with `val ≤ 2^k`, for `2 ≤ val ≤ 2^63`. -/
theorem exists_least_pow (val : Nat) (hv : val ≤ 2 ^ 63) :
    ∃ k, k < 64 ∧ val ≤ 2 ^ k ∧ ∀ j, j < k → 2 ^ j < val := by
  have hex : ∃ k, val ≤ 2 ^ k := ⟨63, hv⟩
  refine ⟨Nat.find hex, ?_, Nat.find_spec hex, ?_⟩
  · have := Nat.find_min' hex hv
    omega
  · intro j hj
    exact Nat.not_le.mp (Nat.find_min hex hj)

/-- What `std_log2` does on a 64-bit value: it returns `k` exactly on `0` (with `k = 0`) and
on `2^k`. -/
theorem std_log2_eq_ok_iff (val k : Nat) (hv : val < 2 ^ 64) :
    std_log2 val = .ok k ↔ (val = 0 ∧ k = 0) ∨ val = 2 ^ k := by
  unfold std_log2
  by_cases h0 : val = 0
  · subst h0
    simp only [if_true, Except.ok.injEq, true_and]
    constructor
    · intro h; exact Or.inl h.symm
    · rintro (h | h)
      · exact h.symm
      · exact absurd h.symm (by positivity)
  by_cases h1 : val = 1
  · subst h1
    simp only [Nat.one_ne_zero, if_false, if_true, Except.ok.injEq, false_and, false_or]
    constructor
    · intro h; subst h; rfl
    · intro h
      rcases Nat.eq_zero_or_pos k with hk | hk
      · exact hk.symm
      · have : 2 ^ 1 ≤ 2 ^ k := Nat.pow_le_pow_right (by norm_num) hk
        omega
  simp only [h0, h1, if_false, false_and, false_or]
  by_cases hbig : val ≤ 2 ^ 63
  · obtain ⟨m, hm, hle, hgt⟩ := exists_least_pow val hbig
    have hrun := std_log2_loop_reach val m hm hle hgt m 0 (by omega)
    simp only [Nat.sub_zero, pow_zero] at hrun
    rw [hrun]
    by_cases hpv : 2 ^ m = val
    · simp only [ne_eq, hpv, not_true_eq_false, if_false, Except.ok.injEq]
      constructor
      · intro h; subst h; exact hpv.symm
      · intro h
        rw [h] at hpv
        exact Nat.pow_right_injective (le_refl 2) hpv
    · simp only [ne_eq, hpv, not_false_eq_true, if_true]
      constructor
      · intro h; cases h
      · intro h
        exfalso
        apply hpv
        rw [h]
        congr 1
        by_contra hne
        rcases Nat.lt_or_gt_of_ne hne with hlt | hlt
        · -- m < k, but val = 2^k ≤ 2^m
          have : 2 ^ m < 2 ^ k := Nat.pow_lt_pow_right (by norm_num) hlt
          omega
        · have := hgt k hlt
          omega
  · -- 2^63 < val < 2^64: no power of two, and the loop cannot return `val`
    have hnot : val ≠ 2 ^ k := by
      intro h
      have hk : k < 64 := by
        by_contra hk
        have : 2 ^ 64 ≤ 2 ^ k := Nat.pow_le_pow_right (by norm_num) (by omega)
        omega
      have : 2 ^ k ≤ 2 ^ 63 := Nat.pow_le_pow_right (by norm_num) (by omega)
      omega
    simp only [hnot, iff_false]
    cases hloop : std_log2_loop val 65 1 0 with
    | none => simp
    | some res =>
      obtain ⟨p, l⟩ := res
      have hsh := std_log2_loop_shape val 65 0 p l (by omega)
        (by simpa [u64] using hloop)
      simp only [ne_eq]
      by_cases hpv : p = val
      · exfalso
        obtain ⟨hp, hl⟩ := hsh
        rcases Nat.lt_or_ge l 64 with hl64 | hl64
        · rw [u64_two_pow_of_lt hl64] at hp
          have : 2 ^ l ≤ 2 ^ 63 := Nat.pow_le_pow_right (by norm_num) (by omega)
          omega
        · have hl' : l = 64 := by omega
          subst hl'
          have : u64 (2 ^ 64) = 0 := by simp [u64]
          omega
      · simp [hpv]

end MultilevelCache

namespace MultilevelCache

theorem std_log2_isOk_iff (val : Nat) (hv : val < 2 ^ 64) :
    (∃ k, std_log2 val = .ok k) ↔ val = 0 ∨ IsPowerOfTwo val := by
  constructor
  · rintro ⟨k, hk⟩
    rcases (std_log2_eq_ok_iff val k hv).mp hk with ⟨h, _⟩ | h
    · exact Or.inl h
    · exact Or.inr ⟨k, h⟩
  · rintro (h | ⟨k, h⟩)
    · exact ⟨0, (std_log2_eq_ok_iff val 0 hv).mpr (Or.inl ⟨h, rfl⟩)⟩
    · exact ⟨k, (std_log2_eq_ok_iff val k hv).mpr (Or.inr h)⟩

theorem not_isPowerOfTwo_three : ¬ IsPowerOfTwo 3 := by
  rintro ⟨k, hk⟩
  cases k with
  | zero => simp at hk
  | succ k =>
    rw [pow_succ] at hk
    omega

theorem not_isPowerOfTwo_192 : ¬ IsPowerOfTwo 192 := by
  rintro ⟨k, hk⟩
  have h7 : k < 8 := by
    by_contra h
    have : (2 : Nat) ^ 8 ≤ 2 ^ k := Nat.pow_le_pow_right (by norm_num) (by omega)
    omega
  interval_cases k <;> omega

/-- C8: the constructor `CacheLevel` accepts a size and an associativity that are not powers
of two.  Neither 3 nor 192 is a power of two, yet size 192, associativity 3, line size 64 (the
claim's own example) builds a level with a single set: `std_log2`, whose error text names
"Cache size/line size/associativity", is applied to `line_size` and to `num_sets_` only. -/
theorem CacheLevel_new_accepts_three_way :
    ¬ IsPowerOfTwo 3 ∧ ¬ IsPowerOfTwo 192 ∧
    ∃ lv, CacheLevel.new { size := 192, associativity := 3, line_size := 64 } = .ok lv ∧
      lv.num_sets_ = 1 :=
  ⟨not_isPowerOfTwo_three, not_isPowerOfTwo_192, _, rfl, rfl⟩

/-- What the constructor checks: for 64-bit `size` and `line_size`, the constructor `CacheLevel` returns a
level exactly when `line_size` is a power of two, `associativity` is not zero, the 64-bit
product `associativity * line_size` is not zero, and
`num_sets = size / (associativity * line_size)` is a power of two; in every other case it
fails. -/
theorem CacheLevel_new_ok_iff (cfg : CacheLevelConfig)
    (hs : cfg.size < 2 ^ 64) (hl : cfg.line_size < 2 ^ 64) :
    (∃ lv, CacheLevel.new cfg = .ok lv) ↔
      IsPowerOfTwo cfg.line_size ∧ cfg.associativity ≠ 0 ∧
      u64 (cfg.associativity * cfg.line_size) ≠ 0 ∧
      IsPowerOfTwo (cfg.size / u64 (cfg.associativity * cfg.line_size)) := by
  have hns : cfg.size / u64 (cfg.associativity * cfg.line_size) < 2 ^ 64 :=
    lt_of_le_of_lt (Nat.div_le_self _ _) hs
  constructor
  · rintro ⟨lv, hlv⟩
    unfold CacheLevel.new at hlv
    cases h1 : std_log2 cfg.line_size with
    | error e => simp [h1] at hlv
    | ok ob =>
      simp only [h1] at hlv
      by_cases hz : cfg.associativity = 0 ∨ cfg.line_size = 0
      · simp [hz] at hlv
      · simp only [hz, if_false] at hlv
        push_neg at hz
        by_cases hp : u64 (cfg.associativity * cfg.line_size) = 0
        · simp [hp] at hlv
        · simp only [hp, if_false] at hlv
          by_cases hn : cfg.size / u64 (cfg.associativity * cfg.line_size) = 0
          · simp [hn] at hlv
          · simp only [hn, if_false] at hlv
            cases h2 : std_log2 (cfg.size / u64 (cfg.associativity * cfg.line_size)) with
            | error e => simp [h2] at hlv
            | ok ib =>
              refine ⟨?_, hz.1, hp, ?_⟩
              · rcases (std_log2_isOk_iff _ hl).mp ⟨ob, h1⟩ with h | h
                · exact absurd h hz.2
                · exact h
              · rcases (std_log2_isOk_iff _ hns).mp ⟨ib, h2⟩ with h | h
                · exact absurd h hn
                · exact h
  · rintro ⟨hline, ha, hp, hsets⟩
    obtain ⟨ob, h1⟩ := (std_log2_isOk_iff _ hl).mpr (Or.inr hline)
    obtain ⟨ib, h2⟩ := (std_log2_isOk_iff _ hns).mpr (Or.inr hsets)
    have hl0 : cfg.line_size ≠ 0 := by
      obtain ⟨k, hk⟩ := hline
      rw [hk]; positivity
    have hn0 : cfg.size / u64 (cfg.associativity * cfg.line_size) ≠ 0 := by
      obtain ⟨k, hk⟩ := hsets
      rw [hk]; positivity
    unfold CacheLevel.new
    simp only [h1, h2, ha, hl0, hp, hn0, or_self, if_false]
    exact ⟨_, rfl⟩

/-- Example of `CacheLevel_new_ok_iff`: size 192, associativity 3, line size 64. -/
theorem CacheLevel_new_ok_iff_witness :
    ((192 : Nat) < 2 ^ 64 ∧ (64 : Nat) < 2 ^ 64) ∧
    ((∃ lv, CacheLevel.new { size := 192, associativity := 3, line_size := 64 } = .ok lv) ↔
      IsPowerOfTwo 64 ∧ (3 : Nat) ≠ 0 ∧ u64 (3 * 64) ≠ 0 ∧ IsPowerOfTwo (192 / u64 (3 * 64))) :=
  ⟨⟨by norm_num, by norm_num⟩,
   CacheLevel_new_ok_iff { size := 192, associativity := 3, line_size := 64 }
     (by norm_num) (by norm_num)⟩

end MultilevelCache

namespace MultilevelCache

theorem lineAt_cons_zero (l : CacheLine) (ls : List CacheLine) : lineAt (l :: ls) 0 = l := rfl

theorem lineAt_cons_succ (l : CacheLine) (ls : List CacheLine) (j : Nat) :
    lineAt (l :: ls) (j + 1) = lineAt ls j := rfl

theorem lineAt_mem {ls : List CacheLine} {i : Nat} (h : i < ls.length) : lineAt ls i ∈ ls := by
  induction ls generalizing i with
  | nil => simp at h
  | cons l ls ih =>
    cases i with
    | zero => simp [lineAt_cons_zero]
    | succ j =>
      rw [lineAt_cons_succ]
      exact List.mem_cons_of_mem _ (ih (by simpa using h))

theorem firstIdx_some {p : CacheLine → Bool} {ls : List CacheLine} {i : Nat}
    (h : firstIdx p ls = some i) :
    i < ls.length ∧ p (lineAt ls i) = true ∧ ∀ j, j < i → p (lineAt ls j) = false := by
  induction ls generalizing i with
  | nil => simp [firstIdx] at h
  | cons l ls ih =>
    unfold firstIdx at h
    by_cases hp : p l = true
    · simp only [hp, if_true, Option.some.injEq] at h
      subst h
      exact ⟨by simp, by simpa [lineAt_cons_zero] using hp, fun j hj => absurd hj (Nat.not_lt_zero j)⟩
    · simp only [hp, Bool.false_eq_true, if_false, Option.map_eq_some'] at h
      obtain ⟨k, hk, rfl⟩ := h
      obtain ⟨h1, h2, h3⟩ := ih hk
      refine ⟨by simpa using h1, by simpa [lineAt_cons_succ] using h2, ?_⟩
      intro j hj
      cases j with
      | zero => simpa [lineAt_cons_zero] using hp
      | succ j' =>
        rw [lineAt_cons_succ]
        exact h3 j' (by omega)

theorem firstIdx_none {p : CacheLine → Bool} {ls : List CacheLine}
    (h : firstIdx p ls = none) : ∀ l ∈ ls, p l = false := by
  induction ls with
  | nil => simp
  | cons l ls ih =>
    unfold firstIdx at h
    by_cases hp : p l = true
    · simp [hp] at h
    · simp only [hp, Bool.false_eq_true, if_false, Option.map_eq_none'] at h
      intro x hx
      rcases List.mem_cons.mp hx with rfl | hx
      · simpa using hp
      · exact ih h x hx

theorem firstIdx_isSome_of_mem {p : CacheLine → Bool} {ls : List CacheLine} {l : CacheLine}
    (hl : l ∈ ls) (hp : p l = true) : ∃ i, firstIdx p ls = some i := by
  cases h : firstIdx p ls with
  | some i => exact ⟨i, rfl⟩
  | none => exact absurd hp (by simp [firstIdx_none h l hl])

/-- The scan `for (i = s; i < s + n; ++i) if (ts i < ts victim) victim = i;` ends on the
first position with the least timestamp. -/
theorem lru_scan_min (ts : Nat → Nat) (n : Nat) : ∀ (s v : Nat), v < s →
    (∀ j, j < s → ts v ≤ ts j) → (∀ j, j < v → ts v < ts j) →
    (List.range' s n).foldl (fun victim i => if ts i < ts victim then i else victim) v < s + n ∧
    (∀ j, j < s + n →
      ts ((List.range' s n).foldl (fun victim i => if ts i < ts victim then i else victim) v)
        ≤ ts j) ∧
    (∀ j, j < (List.range' s n).foldl (fun victim i => if ts i < ts victim then i else victim) v →
      ts ((List.range' s n).foldl (fun victim i => if ts i < ts victim then i else victim) v)
        < ts j) := by
  induction n with
  | zero =>
    intro s v hv hmin hfirst
    simpa using ⟨hv, hmin, hfirst⟩
  | succ n ih =>
    intro s v hv hmin hfirst
    rw [List.range'_succ, List.foldl_cons]
    have hs : s + (n + 1) = (s + 1) + n := by omega
    rw [hs]
    by_cases hlt : ts s < ts v
    · simp only [hlt, if_true]
      apply ih (s + 1) s (by omega)
      · intro j hj
        rcases Nat.lt_succ_iff_lt_or_eq.mp hj with h | h
        · exact le_trans (le_of_lt hlt) (hmin j h)
        · subst h; exact le_refl _
      · intro j hj
        exact lt_of_lt_of_le hlt (hmin j hj)
    · simp only [hlt, if_false]
      apply ih (s + 1) v (by omega)
      · intro j hj
        rcases Nat.lt_succ_iff_lt_or_eq.mp hj with h | h
        · exact hmin j h
        · subst h; exact Nat.le_of_not_lt hlt
      · exact hfirst

/-- C9: `CacheSet::FindVictim` on a set with `assoc_ = lines_.size() > 0`.  If some line is
invalid the returned way holds an invalid line (the first one).  If every line is valid and
the policy is LRU, the returned way has the least `lru_timestamp` of the set and is the
first way with that timestamp. -/
theorem FindVictim_spec (s : CacheSet) (current_cycle rnd : Nat)
    (hlen : s.assoc_ = s.lines_.length) (hpos : 0 < s.assoc_) :
    ((∃ l ∈ s.lines_, l.valid = false) →
      s.FindVictim current_cycle rnd < s.lines_.length ∧
      (lineAt s.lines_ (s.FindVictim current_cycle rnd)).valid = false ∧
      ∀ j, j < s.FindVictim current_cycle rnd → (lineAt s.lines_ j).valid = true) ∧
    ((∀ l ∈ s.lines_, l.valid = true) → s.replacement_policy_ = ReplacementPolicy.LRU →
      s.FindVictim current_cycle rnd < s.lines_.length ∧
      (∀ j, j < s.lines_.length →
        (lineAt s.lines_ (s.FindVictim current_cycle rnd)).lru_timestamp
          ≤ (lineAt s.lines_ j).lru_timestamp) ∧
      (∀ j, j < s.FindVictim current_cycle rnd →
        (lineAt s.lines_ (s.FindVictim current_cycle rnd)).lru_timestamp
          < (lineAt s.lines_ j).lru_timestamp)) := by
  constructor
  · rintro ⟨l, hl, hv⟩
    obtain ⟨i, hi⟩ := firstIdx_isSome_of_mem (p := fun line => !line.valid) hl (by simp [hv])
    obtain ⟨h1, h2, h3⟩ := firstIdx_some hi
    simp only [CacheSet.FindVictim, hi]
    refine ⟨h1, by simpa using h2, fun j hj => by simpa using h3 j hj⟩
  · intro hall hpol
    have hnone : firstIdx (fun line => !line.valid) s.lines_ = none := by
      cases h : firstIdx (fun line => !line.valid) s.lines_ with
      | none => rfl
      | some i =>
        obtain ⟨h1, h2, _⟩ := firstIdx_some h
        have := hall _ (lineAt_mem h1)
        simp [this] at h2
    have hscan := lru_scan_min (fun i => (lineAt s.lines_ i).lru_timestamp) (s.assoc_ - 1) 1 0
      (by omega) (fun j hj => by have : j = 0 := by omega
                                 subst this; exact le_refl _)
      (fun j hj => absurd hj (Nat.not_lt_zero j))
    have hfv : s.FindVictim current_cycle rnd = s.lruVictim := by
      simp only [CacheSet.FindVictim, hnone, hpol]
    rw [hfv]
    have hn : 1 + (s.assoc_ - 1) = s.lines_.length := by omega
    rw [hn] at hscan
    exact hscan

/-- C9 witness: a three-way LRU set whose lines are all valid, with timestamps 7, 3, 3. -/
theorem FindVictim_spec_witness :
    (exampleSet.assoc_ = exampleSet.lines_.length ∧ 0 < exampleSet.assoc_) ∧
    (((∃ l ∈ exampleSet.lines_, l.valid = false) →
      exampleSet.FindVictim 9 0 < exampleSet.lines_.length ∧
      (lineAt exampleSet.lines_ (exampleSet.FindVictim 9 0)).valid = false ∧
      ∀ j, j < exampleSet.FindVictim 9 0 → (lineAt exampleSet.lines_ j).valid = true) ∧
    ((∀ l ∈ exampleSet.lines_, l.valid = true) →
      exampleSet.replacement_policy_ = ReplacementPolicy.LRU →
      exampleSet.FindVictim 9 0 < exampleSet.lines_.length ∧
      (∀ j, j < exampleSet.lines_.length →
        (lineAt exampleSet.lines_ (exampleSet.FindVictim 9 0)).lru_timestamp
          ≤ (lineAt exampleSet.lines_ j).lru_timestamp) ∧
      (∀ j, j < exampleSet.FindVictim 9 0 →
        (lineAt exampleSet.lines_ (exampleSet.FindVictim 9 0)).lru_timestamp
          < (lineAt exampleSet.lines_ j).lru_timestamp))) :=
  ⟨⟨by decide, by decide⟩, FindVictim_spec exampleSet 9 0 (by decide) (by decide)⟩

end MultilevelCache

namespace MultilevelCache

/-! ## Residency of a line in one level -/

theorem CacheLevel.Has_iff (lv : CacheLevel) (x : Nat) :
    lv.Has x ↔ ∃ w, (lv.lineAt (lv.GetIndex x) w).valid = true ∧
      (lv.lineAt (lv.GetIndex x) w).tag = lv.GetTag x := by
  unfold CacheLevel.Has
  constructor
  · intro h
    cases hf : lv.Find x with
    | none => rw [hf] at h; cases h
    | some w => exact ⟨w, (CacheLevel.Find_some hf).2⟩
  · rintro ⟨w, hv, ht⟩
    obtain ⟨w', hw'⟩ := CacheLevel.Find_isSome_of hv ht
    rw [hw']
    rfl

theorem CacheLevel.not_Has_iff (lv : CacheLevel) (x : Nat) :
    ¬ lv.Has x ↔ lv.Find x = none := by
  unfold CacheLevel.Has
  cases lv.Find x <;> simp

theorem CacheLevel.Has_of_Find {lv : CacheLevel} {x w : Nat} (h : lv.Find x = some w) :
    lv.Has x := by
  unfold CacheLevel.Has
  rw [h]
  rfl

/-- Residency depends on the valid bits and tags only. -/
theorem CacheLevel.Has_congr {lv lv' : CacheLevel} (hg : lv.SameGeom lv')
    (hv : ∀ s w, (lv'.lineAt s w).valid = (lv.lineAt s w).valid ∧
      (lv'.lineAt s w).tag = (lv.lineAt s w).tag) (x : Nat) :
    lv'.Has x ↔ lv.Has x := by
  rw [CacheLevel.Has_iff, CacheLevel.Has_iff, CacheLevel.SameGeom.GetIndex hg,
    CacheLevel.SameGeom.GetTag hg]
  constructor
  · rintro ⟨w, h1, h2⟩
    exact ⟨w, by rw [← (hv _ w).1]; exact h1, by rw [← (hv _ w).2]; exact h2⟩
  · rintro ⟨w, h1, h2⟩
    exact ⟨w, by rw [(hv _ w).1]; exact h1, by rw [(hv _ w).2]; exact h2⟩

/-- Addresses in the same line are resident together. -/
theorem CacheLevel.GeoOK.Has_sameLine {lv : CacheLevel} (g : lv.GeoOK) {x y : Nat}
    (h : lineNo lv.offset_bits_ x = lineNo lv.offset_bits_ y) : lv.Has x ↔ lv.Has y := by
  obtain ⟨ht, hi⟩ := (g.key_eq_iff x y).mpr h
  rw [CacheLevel.Has_iff, CacheLevel.Has_iff, ht, hi]

/-- A write through a line pointer changes the residency of the lines named by the old and
by the new tag of that slot only. -/
theorem CacheLevel.Has_modifyLine_other (lv : CacheLevel) (s w : Nat)
    (f : CacheLine → CacheLine) (x : Nat)
    (h : lv.GetIndex x ≠ s ∨ (lv.GetTag x ≠ (lv.lineAt s w).tag ∧
      lv.GetTag x ≠ (f (lv.lineAt s w)).tag)) :
    (lv.modifyLine s w f).Has x ↔ lv.Has x := by
  rw [CacheLevel.Has_iff, CacheLevel.Has_iff]
  show (∃ w', ((lv.modifyLine s w f).lineAt (lv.GetIndex x) w').valid = true ∧
      ((lv.modifyLine s w f).lineAt (lv.GetIndex x) w').tag = lv.GetTag x) ↔ _
  constructor
  · rintro ⟨w', h1, h2⟩
    rw [CacheLevel.lineAt_modifyLine] at h1 h2
    split at h1
    · rename_i hc
      rcases h with h | h
      · exact absurd hc.1 h
      · rw [if_pos hc] at h2
        exact absurd h2.symm h.2
    · rename_i hc
      rw [if_neg hc] at h2
      exact ⟨w', h1, h2⟩
  · rintro ⟨w', h1, h2⟩
    refine ⟨w', ?_⟩
    rw [CacheLevel.lineAt_modifyLine]
    split
    · rename_i hc
      rcases h with h | h
      · exact absurd hc.1 h
      · obtain ⟨hs, hw, _⟩ := hc
        rw [hs, hw] at h2
        exact absurd h2.symm h.1
    · exact ⟨h1, h2⟩

/-- After a slot has been given a tag and made valid, the line it names is resident. -/
theorem CacheLevel.Has_modifyLine_self (lv : CacheLevel) (w : Nat)
    (f : CacheLine → CacheLine) (x : Nat)
    (hw : w < (lv.setAt (lv.GetIndex x)).lines_.length)
    (hv : (f (lv.lineAt (lv.GetIndex x) w)).valid = true)
    (ht : (f (lv.lineAt (lv.GetIndex x) w)).tag = lv.GetTag x) :
    (lv.modifyLine (lv.GetIndex x) w f).Has x := by
  rw [CacheLevel.Has_iff]
  refine ⟨w, ?_⟩
  show ((lv.modifyLine (lv.GetIndex x) w f).lineAt (lv.GetIndex x) w).valid = true ∧
      ((lv.modifyLine (lv.GetIndex x) w f).lineAt (lv.GetIndex x) w).tag = lv.GetTag x
  rw [CacheLevel.lineAt_modifyLine, if_pos ⟨rfl, rfl, hw⟩]
  exact ⟨hv, ht⟩

/-- After the one slot that holds a line has been invalidated, the line is not resident. -/
theorem CacheLevel.not_Has_modifyLine (lv : CacheLevel) (hn : lv.NoDup) (w : Nat)
    (f : CacheLine → CacheLine) (x : Nat)
    (hv : (lv.lineAt (lv.GetIndex x) w).valid = true)
    (ht : (lv.lineAt (lv.GetIndex x) w).tag = lv.GetTag x)
    (hf : (f (lv.lineAt (lv.GetIndex x) w)).valid = false ∨
      (f (lv.lineAt (lv.GetIndex x) w)).tag ≠ lv.GetTag x) :
    ¬ (lv.modifyLine (lv.GetIndex x) w f).Has x := by
  rw [CacheLevel.Has_iff]
  rintro ⟨w', h1, h2⟩
  have h1' : ((lv.modifyLine (lv.GetIndex x) w f).lineAt (lv.GetIndex x) w').valid = true := h1
  have h2' : ((lv.modifyLine (lv.GetIndex x) w f).lineAt (lv.GetIndex x) w').tag =
      lv.GetTag x := h2
  rw [CacheLevel.lineAt_modifyLine] at h1' h2'
  split at h1'
  · rename_i hc
    rw [if_pos hc] at h2'
    rcases hf with hf | hf
    · rw [hf] at h1'
      cases h1'
    · exact hf h2'
  · rename_i hc
    rw [if_neg hc] at h2'
    have hww : w' = w := hn _ w' w h1' hv (h2'.trans ht.symm)
    subst hww
    apply hc
    refine ⟨rfl, rfl, ?_⟩
    by_contra hlt
    unfold CacheLevel.lineAt at hv
    rw [lineAt_of_le (Nat.le_of_not_lt hlt)] at hv
    cases hv

end MultilevelCache

namespace MultilevelCache

/-! ## Well-formedness of a level under the elementary updates -/

theorem memcpy_length (dst : List Nat) (off : Nat) (src : List Nat)
    (h : off + src.length ≤ dst.length) : (memcpy dst off src).length = dst.length := by
  unfold memcpy
  simp only [List.length_append, List.length_take, List.length_drop]
  omega

theorem CacheLevel.GeoOK.modifyLine_geo {lv : CacheLevel} (g : lv.GeoOK) (s w : Nat)
    (f : CacheLine → CacheLine) : (lv.modifyLine s w f).GeoOK where
  line_size_eq := g.line_size_eq
  num_sets_eq := g.num_sets_eq
  bits_le := g.bits_le
  sets_length := by
    show (lv.sets_.modify _ s).length = lv.num_sets_
    rw [List.length_modify]
    exact g.sets_length
  assoc_eq := by
    intro st hst
    exact @forall_mem_modify CacheSet (fun st => st.assoc_ = st.lines_.length)
      (fun st => { st with lines_ := st.lines_.modify f w })
      (by
        intro st h
        show st.assoc_ = (st.lines_.modify f w).length
        rw [List.length_modify]
        exact h) lv.sets_ s g.assoc_eq st hst
  assoc_pos := by
    intro st hst
    exact @forall_mem_modify CacheSet (fun st => 0 < st.assoc_)
      (fun st => { st with lines_ := st.lines_.modify f w })
      (fun st h => h) lv.sets_ s g.assoc_pos st hst

theorem CacheLevel.setAt_modifyLine_length (lv : CacheLevel) (s w : Nat)
    (f : CacheLine → CacheLine) (s' : Nat) :
    ((lv.modifyLine s w f).setAt s').lines_.length = (lv.setAt s').lines_.length := by
  rw [CacheLevel.setAt_modifyLine]
  split
  · rename_i h
    subst h
    simp only [List.length_modify]
  · rfl

theorem CacheLevel.GeoOK.GetTag_lt {lv : CacheLevel} (g : lv.GeoOK) {a : Nat}
    (ha : a < 2 ^ 64) : lv.GetTag a < 2 ^ (64 - (lv.index_bits_ + lv.offset_bits_)) := by
  unfold CacheLevel.GetTag
  rw [g.tag_shift, Nat.shiftRight_eq_div_pow]
  have hb := g.bits_le
  rw [Nat.div_lt_iff_lt_mul (by positivity), ← pow_add]
  have : 64 - (lv.index_bits_ + lv.offset_bits_) + (lv.index_bits_ + lv.offset_bits_) = 64 := by
    omega
  rw [this]
  exact ha

/-- A write through a line pointer keeps the level well formed when the new line has a tag
that fits, that no other valid line of the set carries, and as many data bytes as before. -/
theorem CacheLevel.WF.modifyLine_wf {ob : Nat} {lv : CacheLevel} (h : lv.WF ob) (s w : Nat)
    (f : CacheLine → CacheLine)
    (hlen : (lv.lineAt s w).data.length = lv.config_.line_size →
      (f (lv.lineAt s w)).data.length = lv.config_.line_size)
    (htag : (f (lv.lineAt s w)).tag < 2 ^ (64 - (lv.index_bits_ + lv.offset_bits_)))
    (hnd : (f (lv.lineAt s w)).valid = true → ∀ w2, w2 ≠ w →
      ¬ ((lv.lineAt s w2).valid = true ∧ (lv.lineAt s w2).tag = (f (lv.lineAt s w)).tag)) :
    (lv.modifyLine s w f).WF ob where
  geo := h.geo.modifyLine_geo s w f
  ob_eq := h.ob_eq
  nodup := by
    intro s' w1 w2 h1 h2 ht
    rw [CacheLevel.lineAt_modifyLine] at h1 h2 ht
    rw [CacheLevel.lineAt_modifyLine] at ht
    by_cases c1 : s' = s ∧ w1 = w ∧ w < (lv.setAt s).lines_.length
    · by_cases c2 : s' = s ∧ w2 = w ∧ w < (lv.setAt s).lines_.length
      · rw [c1.2.1, c2.2.1]
      · rw [if_pos c1] at h1 ht
        rw [if_neg c2] at h2 ht
        exfalso
        have hw2 : w2 ≠ w := fun e => c2 ⟨c1.1, e, c1.2.2⟩
        rw [c1.1] at h2 ht
        exact hnd h1 w2 hw2 ⟨h2, ht.symm⟩
    · by_cases c2 : s' = s ∧ w2 = w ∧ w < (lv.setAt s).lines_.length
      · rw [if_neg c1] at h1 ht
        rw [if_pos c2] at h2 ht
        exfalso
        have hw1 : w1 ≠ w := fun e => c1 ⟨c2.1, e, c2.2.2⟩
        rw [c2.1] at h1 ht
        exact hnd h2 w1 hw1 ⟨h1, ht⟩
      · rw [if_neg c1] at h1 ht
        rw [if_neg c2] at h2 ht
        exact h.nodup s' w1 w2 h1 h2 ht
  tag_lt := by
    intro s' w'
    show ((lv.modifyLine s w f).lineAt s' w').tag < 2 ^ (64 - (lv.index_bits_ + lv.offset_bits_))
    rw [CacheLevel.lineAt_modifyLine]
    split
    · exact htag
    · exact h.tag_lt s' w'
  data_len := by
    intro s' w' hw'
    rw [CacheLevel.setAt_modifyLine_length] at hw'
    show ((lv.modifyLine s w f).lineAt s' w').data.length = lv.config_.line_size
    rw [CacheLevel.lineAt_modifyLine]
    split
    · rename_i hc
      exact hlen (h.data_len s w hc.2.2)
    · exact h.data_len s' w' hw'

/-- A write through a line pointer that keeps the tag and the number of data bytes and does
not make the line valid. -/
theorem CacheLevel.WF.modifyLine_keep_wf {ob : Nat} {lv : CacheLevel} (h : lv.WF ob) (s w : Nat)
    (f : CacheLine → CacheLine)
    (hf : ∀ l, (f l).tag = l.tag ∧ ((f l).valid = true → l.valid = true))
    (hlen : (lv.lineAt s w).data.length = lv.config_.line_size →
      (f (lv.lineAt s w)).data.length = lv.config_.line_size) :
    (lv.modifyLine s w f).WF ob := by
  refine h.modifyLine_wf s w f hlen ?_ ?_
  · rw [(hf _).1]
    exact h.tag_lt s w
  · intro hv w2 hw2 hc
    rw [(hf _).1] at hc
    exact hw2 (h.nodup s w2 w hc.1 ((hf _).2 hv) hc.2)

theorem CacheLevel.WF.stats_wf {ob : Nat} {lv : CacheLevel} (h : lv.WF ob) (st : CacheStats) :
    ({ lv with stats_ := st } : CacheLevel).WF ob where
  geo := ⟨h.geo.line_size_eq, h.geo.num_sets_eq, h.geo.bits_le, h.geo.sets_length,
    h.geo.assoc_eq, h.geo.assoc_pos⟩
  ob_eq := h.ob_eq
  nodup := h.nodup
  tag_lt := h.tag_lt
  data_len := h.data_len

theorem CacheLevel.WF.UpdateLRU_wf {ob : Nat} {lv : CacheLevel} (h : lv.WF ob) (s w cyc : Nat) :
    (lv.UpdateLRU s w cyc).WF ob := by
  unfold CacheLevel.UpdateLRU
  split
  · exact h.modifyLine_keep_wf s w _ (fun l => ⟨rfl, fun hv => hv⟩) (fun hl => hl)
  · exact h

theorem CacheLevel.WF.Allocate_wf {ob : Nat} {lv : CacheLevel} (h : lv.WF ob) (a cyc rnd : Nat)
    (ha : a < 2 ^ 64) (hf : lv.Find a = none) : (lv.Allocate a cyc rnd).1.WF ob := by
  simp only [CacheLevel.Allocate]
  apply CacheLevel.WF.UpdateLRU_wf
  refine h.modifyLine_wf _ _ _ (fun hl => hl) (h.geo.GetTag_lt ha) ?_
  intro _ w2 _
  exact CacheLevel.Find_none hf w2

/-- The line fill at the end of a read miss. -/
theorem CacheLevel.WF.fill_wf {ob : Nat} {lv : CacheLevel} (h : lv.WF ob) (s w t : Nat)
    (buf : List Nat) (hbuf : buf.length ≤ lv.config_.line_size)
    (ht : t < 2 ^ (64 - (lv.index_bits_ + lv.offset_bits_)))
    (hfree : ∀ w2, w2 ≠ w → ¬ ((lv.lineAt s w2).valid = true ∧ (lv.lineAt s w2).tag = t)) :
    (lv.modifyLine s w (fun l =>
      { l with data := memcpy l.data 0 buf, valid := true, dirty := false, tag := t })).WF ob := by
  refine h.modifyLine_wf s w _ ?_ ht (fun _ => hfree)
  intro hl
  show (memcpy (lv.lineAt s w).data 0 buf).length = lv.config_.line_size
  rw [memcpy_length _ _ _ (by omega), hl]

/-- The store into a resident line. -/
theorem CacheLevel.WF.write_wf {ob : Nat} {lv : CacheLevel} (h : lv.WF ob) (s w off : Nat)
    (src : List Nat) (hsrc : off + src.length ≤ lv.config_.line_size) :
    (lv.modifyLine s w (fun l => { l with data := memcpy l.data off src, dirty := true })).WF ob := by
  refine h.modifyLine_keep_wf s w _ (fun l => ⟨rfl, fun hv => hv⟩) ?_
  intro hl
  show (memcpy (lv.lineAt s w).data off src).length = lv.config_.line_size
  rw [memcpy_length _ _ _ (by omega), hl]

end MultilevelCache

namespace MultilevelCache

/-! ## Residency across the hierarchy -/

theorem modifyLevel_getElem?_self (c : TieredCache) (i : Nat) (f : CacheLevel → CacheLevel) :
    (c.modifyLevel i f).levels_[i]? = (c.levels_[i]?).map f := by
  simp [TieredCache.modifyLevel, List.getElem?_modify]

theorem AllWF.modifyLevel_wf {ob : Nat} {c : TieredCache} (h : AllWF ob c) (i : Nat)
    (f : CacheLevel → CacheLevel)
    (hf : ∀ lv, c.levels_[i]? = some lv → lv.WF ob → (f lv).WF ob) :
    AllWF ob (c.modifyLevel i f) := by
  refine ⟨h.1, fun j lv hlv => ?_⟩
  by_cases hj : j = i
  · subst hj
    rw [modifyLevel_getElem?_self] at hlv
    cases h0 : c.levels_[j]? with
    | none => rw [h0] at hlv; cases hlv
    | some lv0 =>
      rw [h0] at hlv
      cases hlv
      exact hf lv0 h0 (h.2 j lv0 h0)
  · rw [modifyLevel_getElem?_ne c i j f (fun e => hj e.symm)] at hlv
    exact h.2 j lv hlv

theorem AllWF.of_levels_wf {ob : Nat} {c c' : TieredCache} (h : AllWF ob c)
    (ho : c'.opts_ = c.opts_) (hl : c'.levels_ = c.levels_) : AllWF ob c' :=
  ⟨by rw [ho]; exact h.1, fun j lv hlv => h.2 j lv (by rw [← hl]; exact hlv)⟩

theorem AllWF.modifyStats_wf {ob : Nat} {c : TieredCache} (h : AllWF ob c) (i : Nat)
    (f : CacheStats → CacheStats) : AllWF ob (c.modifyStats i f) :=
  h.modifyLevel_wf i _ (fun _ _ hw => hw.stats_wf _)

theorem AllWF.UpdateLRU_all {ob : Nat} {c : TieredCache} (h : AllWF ob c) (p : LinePtr) :
    AllWF ob (c.UpdateLRU p) :=
  h.modifyLevel_wf p.level _ (fun _ _ hw => hw.UpdateLRU_wf _ _ _)

theorem resident_of_levels_eq {c c' : TieredCache} {j : Nat}
    (h : c'.levels_[j]? = c.levels_[j]?) (x : Nat) : c'.resident j x ↔ c.resident j x := by
  unfold TieredCache.resident
  rw [h]

theorem resident_modifyLevel_ne (c : TieredCache) (i j : Nat) (f : CacheLevel → CacheLevel)
    (x : Nat) (h : j ≠ i) : (c.modifyLevel i f).resident j x ↔ c.resident j x :=
  resident_of_levels_eq (modifyLevel_getElem?_ne c i j f (fun e => h e.symm)) x

theorem resident_modifyLevel_self (c : TieredCache) (i : Nat) (f : CacheLevel → CacheLevel)
    (x : Nat) :
    (c.modifyLevel i f).resident i x ↔ ∃ lv, c.levels_[i]? = some lv ∧ (f lv).Has x := by
  unfold TieredCache.resident
  rw [modifyLevel_getElem?_self]
  cases h0 : c.levels_[i]? with
  | none => simp
  | some lv0 => simp

/-- An update of one level that does not change whether the line of `x` is valid there. -/
theorem resident_modifyLevel_iff (c : TieredCache) (i : Nat) (f : CacheLevel → CacheLevel)
    (x : Nat) (hf : ∀ lv, c.levels_[i]? = some lv → ((f lv).Has x ↔ lv.Has x)) (j : Nat) :
    (c.modifyLevel i f).resident j x ↔ c.resident j x := by
  by_cases hj : j = i
  · subst hj
    rw [resident_modifyLevel_self]
    unfold TieredCache.resident
    constructor
    · rintro ⟨lv, hlv, hx⟩
      exact ⟨lv, hlv, (hf lv hlv).mp hx⟩
    · rintro ⟨lv, hlv, hx⟩
      exact ⟨lv, hlv, (hf lv hlv).mpr hx⟩
  · exact resident_modifyLevel_ne c i j f x hj

theorem resident_modifyStats (c : TieredCache) (i : Nat) (f : CacheStats → CacheStats)
    (j x : Nat) : (c.modifyStats i f).resident j x ↔ c.resident j x :=
  resident_modifyLevel_iff c i (fun lv => { lv with stats_ := f lv.stats_ }) x
    (fun _ _ => Iff.rfl) j

theorem CacheLevel.Has_UpdateLRU (lv : CacheLevel) (s w cyc x : Nat) :
    (lv.UpdateLRU s w cyc).Has x ↔ lv.Has x :=
  CacheLevel.Has_congr (CacheLevel.SameGeom.UpdateLRU_geom lv s w cyc)
    (fun s' w' => CacheLevel.UpdateLRU_view lv s w cyc s' w') x

theorem resident_UpdateLRU (c : TieredCache) (p : LinePtr) (j x : Nat) :
    (c.UpdateLRU p).resident j x ↔ c.resident j x :=
  resident_modifyLevel_iff c p.level _ x (fun lv _ => CacheLevel.Has_UpdateLRU lv _ _ _ x) j

/-- A write through a line pointer that keeps valid bit and tag. -/
theorem CacheLevel.Has_modifyLine_keep (lv : CacheLevel) (s w : Nat) (f : CacheLine → CacheLine)
    (hf : (f (lv.lineAt s w)).valid = (lv.lineAt s w).valid ∧
      (f (lv.lineAt s w)).tag = (lv.lineAt s w).tag) (x : Nat) :
    (lv.modifyLine s w f).Has x ↔ lv.Has x := by
  apply CacheLevel.Has_congr (CacheLevel.SameGeom.modifyLine lv s w f)
  intro s' w'
  rw [CacheLevel.lineAt_modifyLine]
  split
  · rename_i hc
    obtain ⟨rfl, rfl, _⟩ := hc
    exact hf
  · exact ⟨rfl, rfl⟩

theorem resident_store (c : TieredCache) (p : LinePtr) (off : Nat) (inp : Span) (j x : Nat) :
    (c.store p off inp).resident j x ↔ c.resident j x := by
  unfold TieredCache.store
  simp only
  unfold TieredCache.modifyLine
  rw [resident_modifyLevel_iff _ p.level _ x
    (fun lv _ => CacheLevel.Has_modifyLine_keep lv _ _ _ ⟨rfl, rfl⟩ x) j]
  exact resident_UpdateLRU c p j x

/-! ## The relations `AbsentFrom`, `ExclFrom` and `Keeps` -/

theorem Keeps.refl_keeps (i : Nat) (c : TieredCache) (x : Nat) : Keeps i c c x :=
  ⟨fun h => h, fun h => h⟩

theorem Keeps.trans_keeps {i : Nat} {a b c : TieredCache} {x : Nat} (h1 : Keeps i a b x)
    (h2 : Keeps i b c x) : Keeps i a c x :=
  ⟨fun h => h2.1 (h1.1 h), fun h => h2.2 (h1.2 h)⟩

theorem Keeps.of_iff {i : Nat} {c c' : TieredCache} {x : Nat}
    (h : ∀ j, i ≤ j → (c'.resident j x ↔ c.resident j x)) : Keeps i c c' x :=
  ⟨fun ha j hj hr => ha j hj ((h j hj).mp hr),
   fun he j k hj hk hrj hrk => he j k hj hk ((h j hj).mp hrj) ((h k hk).mp hrk)⟩

theorem AbsentFrom.exclFrom {i : Nat} {c : TieredCache} {x : Nat} (h : AbsentFrom (i + 1) c x) :
    ExclFrom i c x := by
  intro j k hj hk hrj hrk
  have h1 : j = i := by
    by_contra hne
    exact h j (by omega) hrj
  have h2 : k = i := by
    by_contra hne
    exact h k (by omega) hrk
  rw [h1, h2]

theorem ExclFrom.absent_below {i : Nat} {c : TieredCache} {x : Nat} (h : ExclFrom i c x)
    (hr : c.resident i x) : AbsentFrom (i + 1) c x := by
  intro j hj hrj
  have := h i j (le_refl i) (by omega) hr hrj
  omega

theorem ExclFrom.mono {i : Nat} {c : TieredCache} {x : Nat} (h : ExclFrom i c x) :
    ExclFrom (i + 1) c x :=
  fun j k hj hk => h j k (by omega) (by omega)

/-- A step that leaves level `i` alone and keeps the line in the levels below keeps it from
level `i` on. -/
theorem Keeps.lift {i : Nat} {c c' : TieredCache} {x : Nat}
    (hi : c'.resident i x ↔ c.resident i x) (h : Keeps (i + 1) c c' x) : Keeps i c c' x := by
  constructor
  · intro ha j hj hr
    by_cases hji : j = i
    · subst hji
      exact ha j (le_refl j) (hi.mp hr)
    · exact h.1 (fun k hk => ha k (by omega)) j (by omega) hr
  · intro he
    have he1 : ExclFrom (i + 1) c' x := h.2 he.mono
    intro j k hj hk hrj hrk
    by_cases hji : j = i
    · by_cases hki : k = i
      · rw [hji, hki]
      · exfalso
        subst hji
        exact h.1 (he.absent_below (hi.mp hrj)) k (by omega) hrk
    · by_cases hki : k = i
      · exfalso
        subst hki
        exact h.1 (he.absent_below (hi.mp hrk)) j (by omega) hrj
      · exact he1 j k (by omega) (by omega) hrj hrk

theorem resident_sameLine {ob : Nat} {c : TieredCache} (h : AllWF ob c) {x y : Nat}
    (hxy : lineNo ob x = lineNo ob y) (j : Nat) : c.resident j x ↔ c.resident j y := by
  unfold TieredCache.resident
  constructor
  · rintro ⟨lv, hlv, hx⟩
    have hw := h.2 j lv hlv
    exact ⟨lv, hlv, (hw.geo.Has_sameLine (by rw [hw.ob_eq]; exact hxy)).mp hx⟩
  · rintro ⟨lv, hlv, hx⟩
    have hw := h.2 j lv hlv
    exact ⟨lv, hlv, (hw.geo.Has_sameLine (by rw [hw.ob_eq]; exact hxy)).mpr hx⟩

end MultilevelCache

namespace MultilevelCache

/-! ## `InvalidateInLowerLevels` -/

/-- Addresses in different lines differ in tag or index at every level. -/
theorem CacheLevel.WF.key_ne {ob : Nat} {lv : CacheLevel} (h : lv.WF ob) {x y : Nat}
    (hxy : lineNo ob x ≠ lineNo ob y) :
    lv.GetIndex x ≠ lv.GetIndex y ∨ lv.GetTag x ≠ lv.GetTag y := by
  by_contra hc
  push_neg at hc
  apply hxy
  have := (h.geo.key_eq_iff x y).mp ⟨hc.2, hc.1⟩
  rw [h.ob_eq] at this
  exact this

/-- The statement `line->valid = false` (with or without `line->dirty = false`) on the line
that `Find` returned. -/
theorem invalidate_found {ob : Nat} {c : TieredCache} (h : AllWF ob c) {k : Nat}
    {level : CacheLevel} (hk : c.levels_[k]? = some level) {y way : Nat}
    (hf : level.Find y = some way) (f : CacheLine → CacheLine)
    (hfv : ∀ l, (f l).valid = false) (hft : ∀ l, (f l).tag = l.tag)
    (hfd : ∀ l, (f l).data = l.data) :
    AllWF ob (c.modifyLine ⟨k, level.GetIndex y, way⟩ f) ∧
    (∀ x, lineNo ob x ≠ lineNo ob y → ∀ j,
      ((c.modifyLine ⟨k, level.GetIndex y, way⟩ f).resident j x ↔ c.resident j x)) ∧
    ¬ (c.modifyLine ⟨k, level.GetIndex y, way⟩ f).resident k y ∧
    (∀ j, j ≠ k → (c.modifyLine ⟨k, level.GetIndex y, way⟩ f).levels_[j]? = c.levels_[j]?) := by
  obtain ⟨_, hv, ht⟩ := CacheLevel.Find_some hf
  have hw := h.2 k level hk
  refine ⟨?_, ?_, ?_, ?_⟩
  · refine h.modifyLevel_wf k _ (fun lv _ hwf => ?_)
    refine hwf.modifyLine_keep_wf _ _ f (fun l => ⟨hft l, fun hv' => ?_⟩) (fun hl => ?_)
    · rw [hfv] at hv'
      cases hv'
    · rw [hfd]
      exact hl
  · intro x hx j
    refine resident_modifyLevel_iff c k _ x (fun lv hlv => ?_) j
    rw [hk] at hlv
    cases hlv
    apply CacheLevel.Has_modifyLine_other
    rcases hw.key_ne hx with hne | hne
    · exact Or.inl hne
    · right
      rw [hft, ht]
      exact ⟨hne, hne⟩
  · show ¬ (c.modifyLevel k _).resident k y
    rw [resident_modifyLevel_self]
    rintro ⟨lv, hlv, hhas⟩
    rw [hk] at hlv
    cases hlv
    exact CacheLevel.not_Has_modifyLine level hw.nodup way f y hv ht (Or.inl (hfv _)) hhas
  · intro j hj
    exact modifyLevel_getElem?_ne c k j _ (fun e => hj e.symm)

theorem InvalidateInLowerLevelsAux_spec (ob : Nat) (y : Nat) :
    ∀ (n : Nat) (c : TieredCache) (k : Nat), AllWF ob c →
      AllWF ob (InvalidateInLowerLevelsAux n c k y) ∧
      (∀ j, j < k → (InvalidateInLowerLevelsAux n c k y).levels_[j]? = c.levels_[j]?) ∧
      (∀ x, lineNo ob x ≠ lineNo ob y → ∀ j,
        ((InvalidateInLowerLevelsAux n c k y).resident j x ↔ c.resident j x)) ∧
      (∀ j, (InvalidateInLowerLevelsAux n c k y).resident j y → c.resident j y) ∧
      (∀ j, k ≤ j → j < k + n → ¬ (InvalidateInLowerLevelsAux n c k y).resident j y) := by
  intro n
  induction n with
  | zero =>
    intro c k h
    refine ⟨h, fun _ _ => rfl, fun _ _ _ => Iff.rfl, fun _ hr => hr, fun j h1 h2 => ?_⟩
    omega
  | succ n ih =>
    intro c k h
    rw [InvalidateInLowerLevelsAux]
    split
    · rename_i hnone
      refine ⟨h, fun _ _ => rfl, fun _ _ _ => Iff.rfl, fun _ hr => hr, fun j h1 _ hr => ?_⟩
      obtain ⟨lv, hlv, _⟩ := hr
      have hlen : c.levels_.length ≤ k := by
        by_contra hc
        rw [List.getElem?_eq_getElem (by omega)] at hnone
        cases hnone
      rw [List.getElem?_eq_none (by omega)] at hlv
      cases hlv
    · rename_i level hk
      -- what the rest of the recursion adds to one step
      have rest : ∀ c1, AllWF ob c1 →
          (∀ x, lineNo ob x ≠ lineNo ob y → ∀ j, (c1.resident j x ↔ c.resident j x)) →
          ¬ c1.resident k y → (∀ j, j ≠ k → c1.levels_[j]? = c.levels_[j]?) →
          AllWF ob (InvalidateInLowerLevelsAux n c1 (k + 1) y) ∧
          (∀ j, j < k → (InvalidateInLowerLevelsAux n c1 (k + 1) y).levels_[j]? =
            c.levels_[j]?) ∧
          (∀ x, lineNo ob x ≠ lineNo ob y → ∀ j,
            ((InvalidateInLowerLevelsAux n c1 (k + 1) y).resident j x ↔ c.resident j x)) ∧
          (∀ j, (InvalidateInLowerLevelsAux n c1 (k + 1) y).resident j y → c.resident j y) ∧
          (∀ j, k ≤ j → j < k + (n + 1) →
            ¬ (InvalidateInLowerLevelsAux n c1 (k + 1) y).resident j y) := by
        intro c1 hwf1 hx1 hy1 hl1
        obtain ⟨i1, i2, i3, i4, i5⟩ := ih c1 (k + 1) hwf1
        refine ⟨i1, ?_, ?_, ?_, ?_⟩
        · intro j hj
          rw [i2 j (by omega), hl1 j (by omega)]
        · intro x hx j
          rw [i3 x hx j, hx1 x hx j]
        · intro j hr
          have hr1 := i4 j hr
          by_cases hjk : j = k
          · subst hjk
            exact absurd hr1 hy1
          · exact (resident_of_levels_eq (hl1 j hjk) y).mp hr1
        · intro j h1 h2 hr
          by_cases hjk : j = k
          · subst hjk
            exact hy1 ((resident_of_levels_eq (i2 j (by omega)) y).mp hr)
          · exact i5 j (by omega) (by omega) hr
      cases hf : level.Find y with
      | none =>
        simp only []
        refine rest c h (fun _ _ _ => Iff.rfl) ?_ (fun _ _ => rfl)
        rintro ⟨lv, hlv, hhas⟩
        rw [hk] at hlv
        cases hlv
        exact (CacheLevel.not_Has_iff level y).mpr hf hhas
      | some way =>
        simp only []
        obtain ⟨j1, j2, j3, j4⟩ :=
          invalidate_found h hk hf (fun l => { l with valid := false, dirty := false })
            (fun _ => rfl) (fun _ => rfl) (fun _ => rfl)
        exact rest _ j1 j2 j3 j4

/-- After `InvalidateInLowerLevels(k, y)` the line of `y` is valid in no level from `k` on;
the levels above and all other lines are as before. -/
theorem InvalidateInLowerLevels_spec {ob : Nat} {c : TieredCache} (h : AllWF ob c)
    (k y : Nat) :
    AllWF ob (InvalidateInLowerLevels c k y) ∧
    (∀ j, j < k → (InvalidateInLowerLevels c k y).levels_[j]? = c.levels_[j]?) ∧
    (∀ x, lineNo ob x ≠ lineNo ob y → ∀ j,
      ((InvalidateInLowerLevels c k y).resident j x ↔ c.resident j x)) ∧
    AbsentFrom k (InvalidateInLowerLevels c k y) y := by
  obtain ⟨i1, i2, i3, i4, i5⟩ := InvalidateInLowerLevelsAux_spec ob y (c.levels_.length - k) c k h
  refine ⟨i1, i2, i3, ?_⟩
  intro j hj hr
  have hr0 := i4 j hr
  obtain ⟨lv, hlv, _⟩ := hr0
  have hlt : j < c.levels_.length := by
    by_contra hc
    rw [List.getElem?_eq_none (by omega)] at hlv
    cases hlv
  exact i5 j hj (by omega) hr

end MultilevelCache

namespace MultilevelCache

/-! ## Levels that differ in their counters only -/

theorem CacheLevel.SameLines.refl_sl (lv : CacheLevel) : lv.SameLines lv := ⟨lv.stats_, rfl⟩

theorem CacheLevel.SameLines.trans_sl {a b c : CacheLevel} (h1 : a.SameLines b)
    (h2 : b.SameLines c) : a.SameLines c := by
  obtain ⟨s1, rfl⟩ := h1
  obtain ⟨s2, rfl⟩ := h2
  exact ⟨s2, rfl⟩

theorem CacheLevel.SameLines.wf {ob : Nat} {lv lv' : CacheLevel} (h : lv.SameLines lv')
    (hw : lv.WF ob) : lv'.WF ob := by
  obtain ⟨st, rfl⟩ := h
  exact hw.stats_wf st

theorem CacheLevel.SameLines.wf_rev {ob : Nat} {lv lv' : CacheLevel} (h : lv.SameLines lv')
    (hw : lv'.WF ob) : lv.WF ob := by
  obtain ⟨st, rfl⟩ := h
  have := hw.stats_wf lv.stats_
  exact this

theorem CacheLevel.SameLines.modifyLine_sl {lv lv' : CacheLevel} (h : lv.SameLines lv')
    (s w : Nat) (f : CacheLine → CacheLine) :
    (lv.modifyLine s w f).SameLines (lv'.modifyLine s w f) := by
  obtain ⟨st, rfl⟩ := h
  exact ⟨st, rfl⟩

theorem CacheLevel.SameLines.UpdateLRU_sl {lv lv' : CacheLevel} (h : lv.SameLines lv')
    (s w cyc : Nat) : (lv.UpdateLRU s w cyc).SameLines (lv'.UpdateLRU s w cyc) := by
  obtain ⟨st, rfl⟩ := h
  unfold CacheLevel.UpdateLRU
  show CacheLevel.SameLines
    (if lv.config_.replacement_policy = ReplacementPolicy.LRU then _ else _)
    (if lv.config_.replacement_policy = ReplacementPolicy.LRU then _ else _)
  split
  · exact ⟨st, rfl⟩
  · exact ⟨st, rfl⟩

theorem CacheLevel.SameLines.Allocate_sl {lv lv' : CacheLevel} (h : lv.SameLines lv')
    (a cyc rnd : Nat) :
    (lv.Allocate a cyc rnd).1.SameLines (lv'.Allocate a cyc rnd).1 ∧
      (lv'.Allocate a cyc rnd).2 = (lv.Allocate a cyc rnd).2 := by
  obtain ⟨st, rfl⟩ := h
  refine ⟨?_, rfl⟩
  simp only [CacheLevel.Allocate]
  exact CacheLevel.SameLines.UpdateLRU_sl
    (CacheLevel.SameLines.modifyLine_sl ⟨st, rfl⟩ _ _ _) _ _ _

/-! ## The way `FindVictim` returns -/

theorem CacheSet.FindVictim_lt (s : CacheSet) (cyc rnd : Nat)
    (hlen : s.assoc_ = s.lines_.length) (hpos : 0 < s.assoc_) :
    s.FindVictim cyc rnd < s.lines_.length := by
  unfold CacheSet.FindVictim
  split
  · rename_i i hi
    exact (firstIdx_some hi).1
  · split
    · rw [← hlen]
      exact Nat.mod_lt _ hpos
    · unfold CacheSet.lruVictim
      have := (lru_scan_min (fun i => (lineAt s.lines_ i).lru_timestamp) (s.assoc_ - 1) 1 0
        (by omega) (fun j hj => by
          have : j = 0 := by omega
          subst this
          exact le_refl _) (fun j hj => absurd hj (Nat.not_lt_zero j))).1
      omega

/-- When the set has an invalid line, `FindVictim` returns an invalid line. -/
theorem CacheSet.FindVictim_invalid (s : CacheSet) (cyc rnd : Nat) {w : Nat}
    (hw : (lineAt s.lines_ w).valid = false) (hlt : w < s.lines_.length) :
    (lineAt s.lines_ (s.FindVictim cyc rnd)).valid = false := by
  unfold CacheSet.FindVictim
  obtain ⟨i, hi⟩ := firstIdx_isSome_of_mem (p := fun line => !line.valid) (lineAt_mem hlt)
    (by simp [hw])
  rw [hi]
  have := (firstIdx_some hi).2.1
  simpa using this

theorem CacheLevel.GeoOK.setAt_mem {lv : CacheLevel} (g : lv.GeoOK) (a : Nat) :
    lv.setAt (lv.GetIndex a) ∈ lv.sets_ := by
  unfold CacheLevel.setAt
  have h := g.GetIndex_lt a
  rw [List.getD_eq_getElem?_getD, List.getElem?_eq_getElem h]
  exact List.getElem_mem h

theorem CacheLevel.GeoOK.Allocate_way_lt {lv : CacheLevel} (g : lv.GeoOK) (a cyc rnd : Nat) :
    (lv.Allocate a cyc rnd).2.2 < (lv.setAt (lv.GetIndex a)).lines_.length :=
  CacheSet.FindVictim_lt _ cyc rnd (g.assoc_eq _ (g.setAt_mem a)) (g.assoc_pos _ (g.setAt_mem a))

theorem CacheLevel.lineAt_valid_lt {lv : CacheLevel} {s w : Nat}
    (h : (lv.lineAt s w).valid = true) : w < (lv.setAt s).lines_.length := by
  by_contra hlt
  unfold CacheLevel.lineAt at h
  rw [lineAt_of_le (Nat.le_of_not_lt hlt)] at h
  cases h

/-! ## Addresses built from a tag and an index -/

theorem CacheLevel.GeoOK.GetAddr_roundtrip {lv : CacheLevel} (g : lv.GeoOK) {t s : Nat}
    (ht : t < 2 ^ (64 - (lv.index_bits_ + lv.offset_bits_))) (hs : s < 2 ^ lv.index_bits_) :
    lv.GetAddr t s < 2 ^ 64 ∧ lv.GetTag (lv.GetAddr t s) = t ∧
      lv.GetIndex (lv.GetAddr t s) = s ∧
      lv.GetAddr t s = (t * 2 ^ lv.index_bits_ + s) * 2 ^ lv.offset_bits_ := by
  have hb := g.bits_le
  have hL : t * 2 ^ lv.index_bits_ + s < 2 ^ (64 - lv.offset_bits_) := by
    have e : 64 - lv.offset_bits_ = (64 - (lv.index_bits_ + lv.offset_bits_)) + lv.index_bits_ := by
      omega
    rw [e, pow_add]
    have : (t + 1) * 2 ^ lv.index_bits_ ≤
        2 ^ (64 - (lv.index_bits_ + lv.offset_bits_)) * 2 ^ lv.index_bits_ :=
      Nat.mul_le_mul_right _ ht
    rw [Nat.add_mul, Nat.one_mul] at this
    omega
  have ha : (t * 2 ^ lv.index_bits_ + s) * 2 ^ lv.offset_bits_ < 2 ^ 64 := by
    have e : 64 = (64 - lv.offset_bits_) + lv.offset_bits_ := by omega
    rw [e, pow_add]
    exact Nat.mul_lt_mul_of_pos_right hL (by positivity)
  have hline : lineNo lv.offset_bits_ ((t * 2 ^ lv.index_bits_ + s) * 2 ^ lv.offset_bits_) =
      t * 2 ^ lv.index_bits_ + s := by
    unfold lineNo
    rw [Nat.shiftRight_eq_div_pow, Nat.mul_div_cancel _ (by positivity)]
  have htag : lv.GetTag ((t * 2 ^ lv.index_bits_ + s) * 2 ^ lv.offset_bits_) = t := by
    rw [g.GetTag_eq, hline, Nat.add_comm, Nat.add_mul_div_right _ _ (by positivity),
      Nat.div_eq_of_lt hs, Nat.zero_add]
  have hidx : lv.GetIndex ((t * 2 ^ lv.index_bits_ + s) * 2 ^ lv.offset_bits_) = s := by
    rw [g.GetIndex_eq, hline, Nat.add_comm, Nat.add_mul_mod_self_right, Nat.mod_eq_of_lt hs]
  have hkey := g.GetAddr_key _ ha
  rw [htag, hidx, hline] at hkey
  rw [hkey]
  exact ⟨ha, htag, hidx, rfl⟩

theorem CacheLevel.GeoOK.GetIndex_lt_pow {lv : CacheLevel} (g : lv.GeoOK) (a : Nat) :
    lv.GetIndex a < 2 ^ lv.index_bits_ := by
  rw [g.GetIndex_eq]
  exact Nat.mod_lt _ (by positivity)

/-- A line address built by one level has offset zero in every level with the same line
size. -/
theorem CacheLevel.WF.GetOffset_GetAddr {ob : Nat} {lv lv' : CacheLevel} (h : lv.WF ob)
    (h' : lv'.WF ob) {t : Nat} (a : Nat)
    (ht : t < 2 ^ (64 - (lv.index_bits_ + lv.offset_bits_))) :
    lv'.GetOffset (lv.GetAddr t (lv.GetIndex a)) = 0 := by
  rw [h'.geo.GetOffset_eq, (h.geo.GetAddr_roundtrip ht (h.geo.GetIndex_lt_pow a)).2.2.2,
    h'.ob_eq, h.ob_eq]
  exact Nat.mul_mod_left _ _

theorem CacheLevel.WF.line_size_eq_pow {ob : Nat} {lv : CacheLevel} (h : lv.WF ob) :
    lv.config_.line_size = 2 ^ ob := by
  rw [h.geo.line_size_eq, h.ob_eq]

theorem CacheLevel.WF.GetOffset_lt {ob : Nat} {lv : CacheLevel} (h : lv.WF ob) (a : Nat) :
    lv.GetOffset a < lv.config_.line_size := by
  rw [h.geo.GetOffset_eq, h.geo.line_size_eq]
  exact Nat.mod_lt _ (by positivity)

end MultilevelCache

namespace MultilevelCache

/-! ## What `Allocate` does to a level -/

/-- Residency of a line that the slot `(s, w)` names neither before nor after an update of
that slot. -/
theorem CacheLevel.Has_of_view_except {lv lv' : CacheLevel} (hg : lv.SameGeom lv') (s w : Nat)
    (hv : ∀ s' w', ¬ (s' = s ∧ w' = w) →
      (lv'.lineAt s' w').valid = (lv.lineAt s' w').valid ∧
      (lv'.lineAt s' w').tag = (lv.lineAt s' w').tag)
    (x : Nat)
    (hold : ¬ (lv.GetIndex x = s ∧ (lv.lineAt s w).valid = true ∧
      (lv.lineAt s w).tag = lv.GetTag x))
    (hnew : ¬ (lv.GetIndex x = s ∧ (lv'.lineAt s w).valid = true ∧
      (lv'.lineAt s w).tag = lv.GetTag x)) :
    lv'.Has x ↔ lv.Has x := by
  rw [CacheLevel.Has_iff, CacheLevel.Has_iff, CacheLevel.SameGeom.GetIndex hg,
    CacheLevel.SameGeom.GetTag hg]
  constructor
  · rintro ⟨w', h1, h2⟩
    by_cases hc : lv.GetIndex x = s ∧ w' = w
    · exfalso
      apply hnew
      rw [← hc.1, ← hc.2]
      exact ⟨rfl, h1, h2⟩
    · rw [(hv _ w' hc).1] at h1
      rw [(hv _ w' hc).2] at h2
      exact ⟨w', h1, h2⟩
  · rintro ⟨w', h1, h2⟩
    by_cases hc : lv.GetIndex x = s ∧ w' = w
    · exfalso
      apply hold
      rw [← hc.1, ← hc.2]
      exact ⟨rfl, h1, h2⟩
    · refine ⟨w', ?_, ?_⟩
      · rw [(hv _ w' hc).1]
        exact h1
      · rw [(hv _ w' hc).2]
        exact h2

/-- The slot `Allocate` hands out is valid and carries the tag of the address. -/
theorem CacheLevel.GeoOK.Allocate_slot {lv : CacheLevel} (g : lv.GeoOK) (a cyc rnd : Nat) :
    ((lv.Allocate a cyc rnd).1.lineAt (lv.GetIndex a) (lv.Allocate a cyc rnd).2.2).valid = true ∧
    ((lv.Allocate a cyc rnd).1.lineAt (lv.GetIndex a) (lv.Allocate a cyc rnd).2.2).tag =
      lv.GetTag a := by
  have hlt := g.Allocate_way_lt a cyc rnd
  simp only [CacheLevel.Allocate] at hlt ⊢
  have h1 := CacheLevel.UpdateLRU_view
    (lv.modifyLine (lv.GetIndex a) ((lv.setAt (lv.GetIndex a)).FindVictim cyc rnd)
      (fun l => { l with valid := true, dirty := false, tag := lv.GetTag a }))
    (lv.GetIndex a) ((lv.setAt (lv.GetIndex a)).FindVictim cyc rnd) cyc (lv.GetIndex a)
    ((lv.setAt (lv.GetIndex a)).FindVictim cyc rnd)
  rw [h1.1, h1.2, CacheLevel.lineAt_modifyLine, if_pos ⟨rfl, rfl, hlt⟩]
  exact ⟨rfl, rfl⟩

theorem CacheLevel.Allocate_victim (lv : CacheLevel) (a cyc rnd : Nat) :
    (lv.Allocate a cyc rnd).2.1 =
      if (lv.lineAt (lv.GetIndex a) (lv.Allocate a cyc rnd).2.2).valid then
        some (lv.lineAt (lv.GetIndex a) (lv.Allocate a cyc rnd).2.2)
      else none := rfl

/-- No other way of the set carries the tag of the address after `Allocate` on a miss. -/
theorem CacheLevel.Allocate_free (lv : CacheLevel) (a cyc rnd : Nat) (hf : lv.Find a = none)
    (w2 : Nat) (hw2 : w2 ≠ (lv.Allocate a cyc rnd).2.2) :
    ¬ (((lv.Allocate a cyc rnd).1.lineAt (lv.GetIndex a) w2).valid = true ∧
      ((lv.Allocate a cyc rnd).1.lineAt (lv.GetIndex a) w2).tag = lv.GetTag a) := by
  have hv := (CacheLevel.Allocate_view lv a cyc rnd).1 (lv.GetIndex a) w2 (fun hc => hw2 hc.2)
  rw [hv.1, hv.2]
  exact CacheLevel.Find_none hf w2

/-- Lines other than the requested one and the victim are resident after `Allocate` exactly
when they were before. -/
theorem CacheLevel.WF.Allocate_Has {ob : Nat} {lv : CacheLevel} (h : lv.WF ob) (a cyc rnd : Nat)
    (x : Nat) (hxa : lineNo ob x ≠ lineNo ob a)
    (hxv : ¬ (lv.GetIndex x = lv.GetIndex a ∧
      (lv.lineAt (lv.GetIndex a) (lv.Allocate a cyc rnd).2.2).valid = true ∧
      (lv.lineAt (lv.GetIndex a) (lv.Allocate a cyc rnd).2.2).tag = lv.GetTag x)) :
    (lv.Allocate a cyc rnd).1.Has x ↔ lv.Has x := by
  refine CacheLevel.Has_of_view_except (CacheLevel.Allocate_SameGeom lv a cyc rnd)
    (lv.GetIndex a) (lv.Allocate a cyc rnd).2.2 (CacheLevel.Allocate_view lv a cyc rnd).1 x hxv ?_
  rintro ⟨hi, _, ht⟩
  rw [(h.geo.Allocate_slot a cyc rnd).2] at ht
  rcases h.key_ne hxa with hne | hne
  · exact hne hi
  · exact hne ht.symm

/-- The victim line is not resident after `Allocate` on a miss. -/
theorem CacheLevel.WF.Allocate_not_Has {ob : Nat} {lv : CacheLevel} (h : lv.WF ob)
    (a cyc rnd : Nat) (hf : lv.Find a = none) (x : Nat) (hi : lv.GetIndex x = lv.GetIndex a)
    (hv : (lv.lineAt (lv.GetIndex a) (lv.Allocate a cyc rnd).2.2).valid = true)
    (ht : (lv.lineAt (lv.GetIndex a) (lv.Allocate a cyc rnd).2.2).tag = lv.GetTag x) :
    ¬ (lv.Allocate a cyc rnd).1.Has x := by
  rw [CacheLevel.Has_iff, CacheLevel.SameGeom.GetIndex (CacheLevel.Allocate_SameGeom lv a cyc rnd),
    CacheLevel.SameGeom.GetTag (CacheLevel.Allocate_SameGeom lv a cyc rnd), hi]
  rintro ⟨w', h1, h2⟩
  by_cases hw : w' = (lv.Allocate a cyc rnd).2.2
  · rw [hw, (h.geo.Allocate_slot a cyc rnd).2] at h2
    exact CacheLevel.Find_none hf _ ⟨hv, ht.trans h2.symm⟩
  · have hview := (CacheLevel.Allocate_view lv a cyc rnd).1 (lv.GetIndex a) w'
      (fun hc => hw hc.2)
    rw [hview.1] at h1
    rw [hview.2] at h2
    exact hw (h.nodup _ w' _ h1 hv (h2.trans ht.symm))

/-- The victim line was resident before `Allocate`. -/
theorem CacheLevel.Has_of_slot {lv : CacheLevel} {x s w : Nat} (hi : lv.GetIndex x = s)
    (hv : (lv.lineAt s w).valid = true) (ht : (lv.lineAt s w).tag = lv.GetTag x) :
    lv.Has x := by
  rw [CacheLevel.Has_iff, hi]
  exact ⟨w, hv, ht⟩

end MultilevelCache

namespace MultilevelCache

/-! ## The steps of a read miss on the whole hierarchy -/

theorem modifyStats_level {c : TieredCache} {i : Nat} {lv : CacheLevel}
    (h : c.levels_[i]? = some lv) (f : CacheStats → CacheStats) :
    (c.modifyStats i f).levels_[i]? = some { lv with stats_ := f lv.stats_ } := by
  unfold TieredCache.modifyStats
  rw [modifyLevel_getElem?_self, h]
  rfl

theorem modifyStats_sameLines {c : TieredCache} {i : Nat} {level lv : CacheLevel}
    (h : c.levels_[i]? = some lv) (hs : level.SameLines lv) (f : CacheStats → CacheStats) :
    ∃ lv', (c.modifyStats i f).levels_[i]? = some lv' ∧ level.SameLines lv' :=
  ⟨_, modifyStats_level h f, hs.trans_sl ⟨_, rfl⟩⟩

theorem Span.read_length_le (c : TieredCache) (inp : Span) : (inp.read c).length ≤ inp.size := by
  cases inp with
  | buf bytes => exact le_refl _
  | line p off len =>
    show (((c.lineAt p).data.drop off).take len).length ≤ len
    rw [List.length_take]
    exact Nat.min_le_left _ _

/-- What `Allocate` on a miss at level `i` does to the hierarchy. -/
theorem TieredCache.Allocate_spec {ob : Nat} {c0 : TieredCache} (h : AllWF ob c0) {i : Nat}
    {level lv0 : CacheLevel} (hlv0 : c0.levels_[i]? = some lv0) (hsl : level.SameLines lv0)
    {a : Nat} (ha : a < 2 ^ 64) (hf : level.Find a = none) :
    AllWF ob (c0.Allocate level i a).1 ∧
    (∀ j, j ≠ i → (c0.Allocate level i a).1.levels_[j]? = c0.levels_[j]?) ∧
    (∃ lvA, (c0.Allocate level i a).1.levels_[i]? = some lvA ∧ level.SameGeom lvA ∧
      (lvA.lineAt (level.GetIndex a) (c0.Allocate level i a).2.2.way).valid = true ∧
      (lvA.lineAt (level.GetIndex a) (c0.Allocate level i a).2.2.way).tag = level.GetTag a) ∧
    (c0.Allocate level i a).2.2.level = i ∧
    (c0.Allocate level i a).2.2.index = level.GetIndex a ∧
    (∀ x, lineNo ob x ≠ lineNo ob a →
      (∀ v, (c0.Allocate level i a).2.1 = some v →
        lineNo ob x ≠ lineNo ob (level.GetAddr v.tag (level.GetIndex a))) →
      ∀ j, (c0.Allocate level i a).1.resident j x ↔ c0.resident j x) ∧
    (∀ v, (c0.Allocate level i a).2.1 = some v →
      level.GetAddr v.tag (level.GetIndex a) < 2 ^ 64 ∧
      v.data.length = 2 ^ ob ∧
      v.tag < 2 ^ (64 - (level.index_bits_ + level.offset_bits_)) ∧
      c0.resident i (level.GetAddr v.tag (level.GetIndex a)) ∧
      ¬ (c0.Allocate level i a).1.resident i (level.GetAddr v.tag (level.GetIndex a))) := by
  obtain ⟨st, rfl⟩ := hsl
  have hw0 := h.2 i _ hlv0
  have hw : level.WF ob := CacheLevel.SameLines.wf_rev ⟨st, rfl⟩ hw0
  have hf0 : ({ level with stats_ := st } : CacheLevel).Find a = none := hf
  have hl1 : (c0.Allocate level i a).1.levels_[i]? =
      some (({ level with stats_ := st } : CacheLevel).Allocate a c0.current_cycle_
        (c0.rand_.headD 0)).1 := by
    show (c0.modifyLevel i _).levels_[i]? = _
    rw [modifyLevel_getElem?_self, hlv0]
    rfl
  have hres : ∀ j x, (c0.Allocate level i a).1.resident j x ↔
      (c0.modifyLevel i (fun lv => (lv.Allocate a c0.current_cycle_ (c0.rand_.headD 0)).1)).resident
        j x := fun _ _ => Iff.rfl
  -- the victim
  have hvict : ∀ v, (c0.Allocate level i a).2.1 = some v →
      v = level.lineAt (level.GetIndex a)
        (level.Allocate a c0.current_cycle_ (c0.rand_.headD 0)).2.2 ∧ v.valid = true := by
    intro v hv
    have hv' : (level.Allocate a c0.current_cycle_ (c0.rand_.headD 0)).2.1 = some v := hv
    rw [CacheLevel.Allocate_victim] at hv'
    split at hv'
    · rename_i hval
      cases hv'
      exact ⟨rfl, hval⟩
    · cases hv'
  refine ⟨?_, ?_, ?_, rfl, rfl, ?_, ?_⟩
  · refine ⟨h.1, fun j lv hlv => ?_⟩
    by_cases hj : j = i
    · subst hj
      rw [hl1] at hlv
      cases hlv
      exact hw0.Allocate_wf a _ _ ha hf0
    · have : (c0.Allocate level i a).1.levels_[j]? = c0.levels_[j]? :=
        modifyLevel_getElem?_ne c0 i j _ (fun e => hj e.symm)
      rw [this] at hlv
      exact h.2 j lv hlv
  · intro j hj
    exact modifyLevel_getElem?_ne c0 i j _ (fun e => hj e.symm)
  · refine ⟨_, hl1, ?_, ?_⟩
    · exact CacheLevel.Allocate_SameGeom ({ level with stats_ := st } : CacheLevel) a _ _
    · exact hw0.geo.Allocate_slot a _ _
  · intro x hxa hxv j
    rw [hres]
    refine resident_modifyLevel_iff c0 i _ x (fun lv hlv => ?_) j
    rw [hlv0] at hlv
    cases hlv
    refine hw0.Allocate_Has a _ _ x hxa ?_
    rintro ⟨hi, hval, ht⟩
    have hv : (c0.Allocate level i a).2.1 = some (level.lineAt (level.GetIndex a)
        (level.Allocate a c0.current_cycle_ (c0.rand_.headD 0)).2.2) := by
      show (level.Allocate a c0.current_cycle_ (c0.rand_.headD 0)).2.1 = _
      rw [CacheLevel.Allocate_victim]
      have hval' : (level.lineAt (level.GetIndex a)
        (level.Allocate a c0.current_cycle_ (c0.rand_.headD 0)).2.2).valid = true := hval
      rw [if_pos hval']
    have hne := hxv _ hv
    apply hne
    have ht' : (level.lineAt (level.GetIndex a)
        (level.Allocate a c0.current_cycle_ (c0.rand_.headD 0)).2.2).tag = level.GetTag x := ht
    have hi' : level.GetIndex x = level.GetIndex a := hi
    have hrt := hw.geo.GetAddr_roundtrip (hw.tag_lt (level.GetIndex a)
      (level.Allocate a c0.current_cycle_ (c0.rand_.headD 0)).2.2) (hw.geo.GetIndex_lt_pow a)
    have hkey := (hw.geo.key_eq_iff x (level.GetAddr (level.lineAt (level.GetIndex a)
        (level.Allocate a c0.current_cycle_ (c0.rand_.headD 0)).2.2).tag (level.GetIndex a))).mp
      ⟨by rw [hrt.2.1, ht'], by rw [hrt.2.2.1, hi']⟩
    rw [hw.ob_eq] at hkey
    exact hkey
  · intro v hv
    obtain ⟨rfl, hval⟩ := hvict v hv
    have hrt := hw.geo.GetAddr_roundtrip (hw.tag_lt (level.GetIndex a)
      (level.Allocate a c0.current_cycle_ (c0.rand_.headD 0)).2.2) (hw.geo.GetIndex_lt_pow a)
    refine ⟨hrt.1, ?_, hw.tag_lt _ _, ?_, ?_⟩
    · rw [hw.data_len _ _ (CacheLevel.lineAt_valid_lt hval), hw.line_size_eq_pow]
    · exact ⟨_, hlv0, @CacheLevel.Has_of_slot ({ level with stats_ := st } : CacheLevel) _ _ _
        hrt.2.2.1 hval hrt.2.1.symm⟩
    · rw [hres, resident_modifyLevel_self]
      rintro ⟨lv, hlv, hhas⟩
      rw [hlv0] at hlv
      cases hlv
      exact hw0.Allocate_not_Has a _ _ hf0 _ hrt.2.2.1 hval hrt.2.1.symm hhas

theorem resident_of_sameLines {c c' : TieredCache} {i : Nat} {lv lv' : CacheLevel}
    (h : c.levels_[i]? = some lv) (h' : c'.levels_[i]? = some lv') (hs : lv.SameLines lv')
    (x : Nat) : c'.resident i x ↔ c.resident i x := by
  obtain ⟨st, rfl⟩ := hs
  unfold TieredCache.resident
  rw [h, h']
  constructor
  · rintro ⟨l, hl, hx⟩
    cases hl
    exact ⟨lv, rfl, hx⟩
  · rintro ⟨l, hl, hx⟩
    cases hl
    exact ⟨_, rfl, hx⟩

theorem ExclFrom.of_only {i : Nat} {c : TieredCache} {x : Nat} (h0 : ¬ c.resident i x)
    (h2 : AbsentFrom (i + 2) c x) : ExclFrom i c x := by
  intro j k hj hk hrj hrk
  have hj1 : j = i + 1 := by
    by_contra hne
    by_cases hji : j = i
    · subst hji
      exact h0 hrj
    · exact h2 j (by omega) hrj
  have hk1 : k = i + 1 := by
    by_contra hne
    by_cases hki : k = i
    · subst hki
      exact h0 hrk
    · exact h2 k (by omega) hrk
  rw [hj1, hk1]

theorem AbsentFrom.sameLine_abs {ob : Nat} {c : TieredCache} (h : AllWF ob c) {x y : Nat}
    (hxy : lineNo ob x = lineNo ob y) {k : Nat} (ha : AbsentFrom k c y) : AbsentFrom k c x :=
  fun j hj hr => ha j hj ((resident_sameLine h hxy j).mp hr)

/-- The line fill at the end of a read miss, into the slot that `Allocate` retagged. -/
theorem install_spec {ob : Nat} {c : TieredCache} (h : AllWF ob c) {lv : CacheLevel}
    (p : LinePtr) (hlv : c.levels_[p.level]? = some lv) (t : Nat) (buf : List Nat)
    (hbuf : buf.length ≤ 2 ^ ob)
    (hv : (lv.lineAt p.index p.way).valid = true) (ht : (lv.lineAt p.index p.way).tag = t) :
    AllWF ob (c.install p t buf) ∧
      ∀ j x, (c.install p t buf).resident j x ↔ c.resident j x := by
  unfold TieredCache.install
  constructor
  · apply AllWF.UpdateLRU_all
    refine h.modifyLevel_wf p.level _ (fun lv' hlv' hw => ?_)
    rw [hlv] at hlv'
    cases hlv'
    refine hw.fill_wf _ _ t buf (by rw [hw.line_size_eq_pow]; exact hbuf) ?_ ?_
    · rw [← ht]
      exact hw.tag_lt _ _
    · intro w2 hw2 hc
      exact hw2 (hw.nodup _ w2 _ hc.1 hv (hc.2.trans ht.symm))
  · intro j x
    rw [resident_UpdateLRU]
    refine resident_modifyLevel_iff c p.level _ x (fun lv' hlv' => ?_) j
    rw [hlv] at hlv'
    cases hlv'
    exact CacheLevel.Has_modifyLine_keep lv _ _ _ ⟨hv.symm, ht.symm⟩ x

/-- The store into a resident line. -/
theorem store_spec {ob : Nat} {c : TieredCache} (h : AllWF ob c) (p : LinePtr) (off : Nat)
    (inp : Span)
    (hsz : ∀ lv, c.levels_[p.level]? = some lv → off + inp.size ≤ lv.config_.line_size) :
    AllWF ob (c.store p off inp) := by
  unfold TieredCache.store
  simp only
  refine (h.UpdateLRU_all p).modifyLevel_wf p.level _ (fun lv' hlv' hw => ?_)
  refine hw.write_wf _ _ off _ ?_
  have hl := Span.read_length_le (c.UpdateLRU p) inp
  -- the level has the line size it had before `UpdateLRU`
  have hcfg : ∃ lv, c.levels_[p.level]? = some lv ∧ lv'.config_ = lv.config_ := by
    unfold TieredCache.UpdateLRU at hlv'
    rw [modifyLevel_getElem?_self] at hlv'
    cases h0 : c.levels_[p.level]? with
    | none => rw [h0] at hlv'; cases hlv'
    | some lv =>
      rw [h0] at hlv'
      cases hlv'
      exact ⟨lv, rfl, (CacheLevel.SameGeom.UpdateLRU_geom lv _ _ _).1⟩
  obtain ⟨lv, hlv, hc⟩ := hcfg
  have := hsz lv hlv
  rw [hc]
  omega

theorem exclusiveAfterRead_spec {ob : Nat} {c : TieredCache} (h : AllWF ob c) (i y : Nat)
    (wa : Bool) :
    AllWF ob (c.exclusiveAfterRead i y wa) ∧
    (∀ j, j < i + 1 → (c.exclusiveAfterRead i y wa).levels_[j]? = c.levels_[j]?) ∧
    (∀ x, lineNo ob x ≠ lineNo ob y → ∀ j,
      ((c.exclusiveAfterRead i y wa).resident j x ↔ c.resident j x)) ∧
    (wa = false → AbsentFrom (i + 1) (c.exclusiveAfterRead i y wa) y) := by
  unfold TieredCache.exclusiveAfterRead
  by_cases hwa : wa = false
  · rw [if_pos ⟨h.1, hwa⟩]
    obtain ⟨i1, i2, i3, i4⟩ := InvalidateInLowerLevels_spec h (i + 1) y
    exact ⟨i1, i2, i3, fun _ => i4⟩
  · rw [if_neg (fun hc => hwa hc.2)]
    exact ⟨h, fun _ _ => rfl, fun _ _ _ => Iff.rfl, fun hc => absurd hc hwa⟩

theorem exclusiveAfterWrite_spec {ob : Nat} {c : TieredCache} (h : AllWF ob c) (i y : Nat) :
    AllWF ob (c.exclusiveAfterWrite i y) ∧
    (∀ j, j < i + 1 → (c.exclusiveAfterWrite i y).levels_[j]? = c.levels_[j]?) ∧
    (∀ x, lineNo ob x ≠ lineNo ob y → ∀ j,
      ((c.exclusiveAfterWrite i y).resident j x ↔ c.resident j x)) ∧
    AbsentFrom (i + 1) (c.exclusiveAfterWrite i y) y := by
  unfold TieredCache.exclusiveAfterWrite
  rw [if_pos h.1]
  exact InvalidateInLowerLevels_spec h (i + 1) y

/-- The two counter updates at the start of a hit or a miss. -/
theorem count_spec {ob : Nat} {c : TieredCache} (h : AllWF ob c) (i : Nat)
    (f g : CacheStats → CacheStats) {level : CacheLevel} (hlevel : c.levels_[i]? = some level) :
    AllWF ob ((c.modifyStats i f).modifyStats i g) ∧
    (∀ j x, ((c.modifyStats i f).modifyStats i g).resident j x ↔ c.resident j x) ∧
    (∃ lv0, ((c.modifyStats i f).modifyStats i g).levels_[i]? = some lv0 ∧
      level.SameLines lv0) := by
  refine ⟨(h.modifyStats_wf i f).modifyStats_wf i g, fun j x => ?_, ?_⟩
  · rw [resident_modifyStats, resident_modifyStats]
  · exact modifyStats_sameLines (modifyStats_level hlevel f) ⟨_, rfl⟩ g

end MultilevelCache

namespace MultilevelCache

/-! ## The bytes a read returns -/

theorem ReadFromMemory_length {c : TieredCache} {addr len lat : Nat} {r : List Nat × Nat}
    (h : ReadFromMemory c addr len lat = .ok r) : r.1.length ≤ len := by
  unfold ReadFromMemory Memory.ReadSpan at h
  simp only at h
  split at h
  · cases h
  · rename_i out hout
    split at hout
    · cases hout
    · cases hout
      cases h
      simp only [List.length_take]
      exact Nat.min_le_left _ _

theorem TieredCache.load_length (c : TieredCache) (p : LinePtr) (off len : Nat) :
    (c.load p off len).length ≤ len := by
  unfold TieredCache.load
  rw [List.length_take]
  exact Nat.min_le_left _ _

/-- `HandleRead` stores at most `out.size()` bytes. -/
theorem HandleRead_length : ∀ (fuel : Nat) (c : TieredCache) (i addr len lat : Nat) (wa : Bool)
    (r : TieredCache × List Nat × Nat),
    HandleRead fuel c i addr len lat wa = .ok r → r.2.1.length ≤ len := by
  intro fuel
  induction fuel with
  | zero => intro c i addr len lat wa r h; simp [HandleRead] at h
  | succ fuel ih =>
    intro c i addr len lat wa r h
    rw [HandleRead] at h
    split at h
    · cases h
    rename_i level hlevel
    split at h
    · rename_i hsplit
      split at h
      · cases h
      rename_i c1 out1 lat1 h1
      split at h
      · cases h
      rename_i c2 out2 lat2 h2
      cases h
      have l1 := ih _ _ _ _ _ _ _ h1
      have l2 := ih _ _ _ _ _ _ _ h2
      simp only [List.length_append] at l1 l2 ⊢
      omega
    · split at h
      · cases h
        exact TieredCache.load_length _ _ _ _
      · split at h
        split at h
        · cases h
        split at h
        · cases h
        split at h
        · cases h
        cases h
        exact TieredCache.load_length _ _ _ _

end MultilevelCache

namespace MultilevelCache

/-! ## `Evict` under the exclusive policy, given what `HandleWrite` does one level down -/

/-- One counter update. -/
theorem stats1_spec {ob : Nat} {c : TieredCache} (h : AllWF ob c) (i : Nat)
    (f : CacheStats → CacheStats) {level : CacheLevel} (hlevel : c.levels_[i]? = some level) :
    AllWF ob (c.modifyStats i f) ∧
    (∀ j x, (c.modifyStats i f).resident j x ↔ c.resident j x) ∧
    (∃ lv0, (c.modifyStats i f).levels_[i]? = some lv0 ∧ level.SameLines lv0) :=
  ⟨h.modifyStats_wf i f, fun j x => resident_modifyStats c i f j x,
   ⟨_, modifyStats_level hlevel f, ⟨_, rfl⟩⟩⟩

theorem Evict_step (ob fuel : Nat) (ihW : ExclusiveWrite ob fuel) :
    ExclusiveEvict ob (fuel + 1) := by
  intro c i v a lat r hwf ha hsz hoff h
  rw [Evict] at h
  split at h
  · cases h
  rename_i lvi hlvi
  have viaWrite : ∀ cE, AllWF ob cE → (∀ j x, cE.resident j x ↔ c.resident j x) →
      (∃ lv', cE.levels_[i]? = some lv' ∧ lvi.SameLines lv') →
      HandleWrite fuel cE (i + 1) a (LineRef.dataSpan c v) lat = .ok r →
      AllWF ob r.1 ∧
      (∀ lv, c.levels_[i]? = some lv → ∃ lv', r.1.levels_[i]? = some lv' ∧ lv.SameLines lv') ∧
      (∀ x, lineNo ob x ≠ lineNo ob a → Keeps (i + 1) c r.1 x) ∧
      AbsentFrom (i + 2) r.1 a ∧
      (i + 1 < c.levels_.length → r.1.resident (i + 1) a) := by
    intro cE hwfE hresE hlvE hw
    obtain ⟨w1, w2, w3, w4⟩ := ihW cE (i + 1) a (LineRef.dataSpan c v) lat r hwfE ha
      (fun lv hlv => by
        have hwl := hwfE.2 _ lv hlv
        rw [hoff lv hwl, hwl.line_size_eq_pow]
        exact hsz) hw
    have hfr := ((frame_all (belowFrame (i + 1)) (Or.inr rfl) fuel).2.1 cE (i + 1) a
      (LineRef.dataSpan c v) lat r hwfE.1 (le_refl _) hw).1
    refine ⟨w1, ?_, ?_, w4, fun _ => w3⟩
    · intro lv hlv
      rw [hlvi] at hlv
      cases hlv
      obtain ⟨lv', hlv', hs⟩ := hlvE
      exact ⟨lv', by rw [hfr i (Nat.lt_succ_self i)]; exact hlv', hs⟩
    · intro x hx
      exact (Keeps.of_iff (fun j _ => hresE j x)).trans_keeps (w2 x hx)
  have viaStay : ∀ cE (r' : TieredCache), AllWF ob cE →
      (∀ j x, cE.resident j x ↔ c.resident j x) →
      (∃ lv', cE.levels_[i]? = some lv' ∧ lvi.SameLines lv') →
      r'.levels_ = cE.levels_ → r'.opts_ = cE.opts_ → cE.levels_.length = c.levels_.length →
      ¬ (i + 1 < c.levels_.length) →
      AllWF ob r' ∧
      (∀ lv, c.levels_[i]? = some lv → ∃ lv', r'.levels_[i]? = some lv' ∧ lv.SameLines lv') ∧
      (∀ x, lineNo ob x ≠ lineNo ob a → Keeps (i + 1) c r' x) ∧
      AbsentFrom (i + 2) r' a ∧
      (i + 1 < c.levels_.length → r'.resident (i + 1) a) := by
    intro cE r' hwfE hresE hlvE hl ho hlen hlast
    have hres' : ∀ j x, r'.resident j x ↔ c.resident j x := by
      intro j x
      rw [← hresE j x]
      unfold TieredCache.resident
      rw [hl]
    refine ⟨hwfE.of_levels_wf ho hl, ?_, ?_, ?_, fun hc => absurd hc hlast⟩
    · intro lv hlv
      rw [hlvi] at hlv
      cases hlv
      obtain ⟨lv', hlv', hs⟩ := hlvE
      exact ⟨lv', by rw [hl]; exact hlv', hs⟩
    · intro x _
      exact Keeps.of_iff (fun j _ => hres' j x)
    · intro j hj hr
      obtain ⟨lv, hlv, _⟩ := hr
      rw [hl, List.getElem?_eq_none (by omega)] at hlv
      cases hlv
  obtain ⟨e1, e2, e3⟩ := stats1_spec hwf i
    (fun s => { s with evictions := u64 (s.evictions + 1) }) hlvi
  obtain ⟨f1, f2, f3⟩ := count_spec hwf i
    (fun s => { s with evictions := u64 (s.evictions + 1) })
    (fun s => { s with writebacks := u64 (s.writebacks + 1) }) hlvi
  split at h
  · split at h
    · exact viaWrite _ f1 f2 f3 h
    · rename_i hlast
      obtain ⟨m, _, hr⟩ := WriteToMemory_ok h
      exact viaStay ((c.countEviction i).countWriteback i) r.1 f1 f2 f3 (by rw [hr]) (by rw [hr])
        (by simp) hlast
  · split at h
    · split at h
      · exact viaWrite _ e1 e2 e3 h
      · rename_i hlast
        cases h
        exact viaStay (c.countEviction i) _ e1 e2 e3 rfl rfl (by simp) hlast
    · rename_i hne
      exact absurd hwf.1 hne

end MultilevelCache

namespace MultilevelCache

/-! ## `HandleWrite` under the exclusive policy -/

theorem CacheLevel.WF.lineNo_line_addr {ob : Nat} {lv : CacheLevel} (h : lv.WF ob) {a : Nat}
    (ha : a < 2 ^ 64) :
    lineNo ob (lv.GetAddr (lv.GetTag a) (lv.GetIndex a)) = lineNo ob a := by
  have := h.geo.lineNo_GetAddr_key a ha
  rw [h.ob_eq] at this
  exact this

theorem HandleWrite_step (ob fuel : Nat) (ihR : ExclusiveRead ob fuel) :
    ExclusiveWrite ob (fuel + 1) := by
  intro c i a inp lat r hwf ha hns h
  rw [HandleWrite] at h
  split at h
  · cases h
  rename_i level hlevel
  have hwl := hwf.2 i level hlevel
  have hns' := hns level hlevel
  have hoff := hwl.GetOffset_lt a
  split at h
  · rename_i hsplit
    omega
  split at h
  · -- write hit
    rename_i way hway
    cases h
    obtain ⟨f1, f2, lv0, hlv0, hsl0⟩ := count_spec hwf i
      (fun s => { s with accesses := u64 (s.accesses + 1) })
      (fun s => { s with hits := u64 (s.hits + 1) }) hlevel
    have hst : AllWF ob (((c.countAccess i).countHit i).store
        ⟨i, level.GetIndex a, way⟩ (level.GetOffset a) inp) := by
      refine store_spec f1 _ _ _ (fun lv hlv => ?_)
      have hlv' : ((c.modifyStats i _).modifyStats i _).levels_[i]? = some lv := hlv
      rw [hlv0] at hlv'
      cases hlv'
      obtain ⟨st, rfl⟩ := hsl0
      show level.GetOffset a + inp.size ≤ level.config_.line_size
      omega
    obtain ⟨g1, g2, g3, g4⟩ := exclusiveAfterWrite_spec hst i
      (level.GetAddr (level.GetTag a) (level.GetIndex a))
    have hline := hwl.lineNo_line_addr ha
    refine ⟨g1, ?_, ?_, ?_⟩
    · intro x hx
      refine Keeps.of_iff (fun j _ => ?_)
      rw [g3 x (by rw [hline]; exact hx) j, resident_store]
      exact f2 j x
    · rw [resident_of_levels_eq (g2 i (by omega)) a, resident_store]
      exact (f2 i a).mpr ⟨level, hlevel, CacheLevel.Has_of_Find hway⟩
    · exact g4.sameLine_abs g1 hline.symm
  · -- write miss
    rename_i hfind
    split at h
    · cases h
    rename_i c1 out1 lat1 h1
    obtain ⟨f1, f2, lv0, hlv0, hsl0⟩ := count_spec hwf i
      (fun s => { s with accesses := u64 (s.accesses + 1) })
      (fun s => { s with misses := u64 (s.misses + 1) }) hlevel
    obtain ⟨r1, r2, _⟩ := ihR ((c.countAccess i).countMiss i) i a inp.size _ true _ f1 ha
      (fun lv hlv => by
        have hlv' : ((c.modifyStats i _).modifyStats i _).levels_[i]? = some lv := hlv
        rw [hlv0] at hlv'
        cases hlv'
        obtain ⟨st, rfl⟩ := hsl0
        exact hns') h1
    split at h
    · cases h
    rename_i level1 hlevel1
    split at h
    · cases h
    rename_i way hway
    cases h
    have hw1 := r1.2 i level1 hlevel1
    have hst : AllWF ob (c1.store ⟨i, level1.GetIndex a, way⟩ (level.GetOffset a) inp) := by
      refine store_spec r1 _ _ _ (fun lv hlv => ?_)
      have hlv' : c1.levels_[i]? = some lv := hlv
      rw [hlevel1] at hlv'
      cases hlv'
      rw [hw1.line_size_eq_pow, ← hwl.line_size_eq_pow]
      omega
    obtain ⟨g1, g2, g3, g4⟩ := exclusiveAfterWrite_spec hst i
      (level1.GetAddr (level1.GetTag a) (level1.GetIndex a))
    have hline := hw1.lineNo_line_addr ha
    refine ⟨g1, ?_, ?_, ?_⟩
    · intro x hx
      refine (Keeps.of_iff (fun j _ => f2 j x)).trans_keeps
        ((r2 x hx).trans_keeps (Keeps.of_iff (fun j _ => ?_)))
      rw [g3 x (by rw [hline]; exact hx) j, resident_store]
    · rw [resident_of_levels_eq (g2 i (by omega)) a, resident_store]
      exact ⟨level1, hlevel1, CacheLevel.Has_of_Find hway⟩
    · exact g4.sameLine_abs g1 hline.symm

end MultilevelCache

namespace MultilevelCache

/-! ## `HandleRead` under the exclusive policy -/

theorem HandleRead_step (ob fuel : Nat) (ihR : ExclusiveRead ob fuel)
    (ihE : ExclusiveEvict ob fuel) : ExclusiveRead ob (fuel + 1) := by
  intro c i a len lat wa r hwf ha hns h
  rw [HandleRead] at h
  split at h
  · cases h
  rename_i level hlevel
  have hwl := hwf.2 i level hlevel
  have hns' := hns level hlevel
  split at h
  · rename_i hsplit
    omega
  split at h
  · -- read hit
    rename_i way hway
    cases h
    obtain ⟨f1, f2, _⟩ := count_spec hwf i
      (fun s => { s with accesses := u64 (s.accesses + 1) })
      (fun s => { s with hits := u64 (s.hits + 1) }) hlevel
    have hres : ∀ j x, (((c.countAccess i).countHit i).UpdateLRU
        ⟨i, level.GetIndex a, way⟩).resident j x ↔ c.resident j x := by
      intro j x
      rw [resident_UpdateLRU]
      exact f2 j x
    exact ⟨f1.UpdateLRU_all _, fun x _ => Keeps.of_iff (fun j _ => hres j x),
      fun _ he => (Keeps.of_iff (fun j _ => hres j a)).2 he⟩
  · -- read miss
    rename_i hfind
    split at h
    rename_i c1 victim_line new_line halloc
    obtain ⟨f1, f2, lv0, hlv0, hsl0⟩ := count_spec hwf i
      (fun s => { s with accesses := u64 (s.accesses + 1) })
      (fun s => { s with misses := u64 (s.misses + 1) }) hlevel
    have hA := TieredCache.Allocate_spec f1 hlv0 hsl0 ha hfind
    have hc0 : ((c.modifyStats i
        (fun s => { s with accesses := u64 (s.accesses + 1) })).modifyStats i
        (fun s => { s with misses := u64 (s.misses + 1) })).Allocate level i a =
        (c1, victim_line, new_line) := halloc
    rw [hc0] at hA
    obtain ⟨hwf1, hoth1, ⟨lvA, hlvA, hgA, hvalA, htagA⟩, hnl_level, hnl_index, hres1, hvic⟩ := hA
    simp only at hwf1 hoth1 hlvA hvalA htagA hnl_level hnl_index hres1 hvic
    split at h
    · cases h
    rename_i c2 h2
    have hc2 : c2 = c1 := by
      split at h2
      · split at h2
        · rename_i hincl
          rw [hwf1.1] at hincl
          cases hincl
        · cases h2
          rfl
      · cases h2
        rfl
    subst hc2
    split at h
    · cases h
    rename_i c3 lat3 h3
    -- after `Evict`
    have hE : AllWF ob c3 ∧ (∃ lv3, c3.levels_[i]? = some lv3 ∧ lvA.SameLines lv3) ∧
        (∀ x, lineNo ob x ≠ lineNo ob a → Keeps i c c3 x) := by
      split at h3
      · rename_i v
        obtain ⟨va_lt, vlen, vtag, vres0, vres1⟩ := hvic v rfl
        obtain ⟨e1, e2, e3, e4, _⟩ := ihE c2 i (LineRef.copy v) _ _ _ hwf1 va_lt
          (by show v.data.length ≤ 2 ^ ob; omega)
          (fun lv hw => hwl.GetOffset_GetAddr hw a vtag) h3
        obtain ⟨lv3, hlv3, hs3⟩ := e2 lvA hlvA
        refine ⟨e1, ⟨lv3, hlv3, hs3⟩, fun x hx => ?_⟩
        have hi3 : ∀ y, c3.resident i y ↔ c2.resident i y :=
          fun y => resident_of_sameLines hlvA hlv3 hs3 y
        by_cases hxv : lineNo ob x = lineNo ob (level.GetAddr v.tag (level.GetIndex a))
        · constructor
          · intro habs
            exfalso
            exact habs i (le_refl i) ((f2 i x).mp ((resident_sameLine f1 hxv i).mpr vres0))
          · intro _
            apply ExclFrom.of_only
            · rw [hi3 x, resident_sameLine hwf1 hxv i]
              exact vres1
            · exact e4.sameLine_abs e1 hxv
        · have k01 : Keeps i c c2 x :=
            (Keeps.of_iff (fun j _ => f2 j x)).trans_keeps
              (Keeps.of_iff (fun j _ => hres1 x hx (fun v' hv' => by cases hv'; exact hxv) j))
          exact k01.trans_keeps (Keeps.lift (hi3 x) (e3 x hxv))
      · cases h3
        exact ⟨hwf1, ⟨lvA, hlvA, CacheLevel.SameLines.refl_sl lvA⟩, fun x hx =>
          (Keeps.of_iff (fun j _ => f2 j x)).trans_keeps
            (Keeps.of_iff (fun j _ => hres1 x hx (fun v' hv' => by cases hv') j))⟩
    obtain ⟨hwf3, ⟨lv3, hlv3, hs3⟩, hk3⟩ := hE
    split at h
    · cases h
    rename_i c4 line_buffer lat4 h4
    have hline := hwl.lineNo_line_addr ha
    have hF : AllWF ob c4 ∧ c4.levels_[i]? = c3.levels_[i]? ∧
        (∀ x, lineNo ob x ≠ lineNo ob a → Keeps i c3 c4 x) ∧ line_buffer.length ≤ 2 ^ ob := by
      split at h4
      · have hlen := HandleRead_length _ _ _ _ _ _ _ _ h4
        obtain ⟨r1, r2, _⟩ := ihR c3 (i + 1) _ _ _ wa _ hwf3 (hwl.geo.GetAddr_key_lt a ha)
          (fun lv hlv => by
            have hw' := hwf3.2 _ lv hlv
            rw [hwl.GetOffset_GetAddr hw' a (hwl.geo.GetTag_lt ha), hw'.line_size_eq_pow,
              hwl.line_size_eq_pow]
            omega) h4
        have hfr := ((frame_all (belowFrame (i + 1)) (Or.inr rfl) fuel).1 c3 (i + 1) _ _ _ wa _
          hwf3.1 (le_refl _) h4).1
        refine ⟨r1, hfr i (Nat.lt_succ_self i), fun x hx =>
          Keeps.lift (resident_of_levels_eq (hfr i (Nat.lt_succ_self i)) x)
            (r2 x (by rw [hline]; exact hx)), ?_⟩
        rw [← hwl.line_size_eq_pow]
        exact hlen
      · split at h4
        · cases h4
        · rename_i out lat' hmem
          cases h4
          have := ReadFromMemory_length hmem
          exact ⟨hwf3, rfl, fun x _ => Keeps.refl_keeps i c3 x,
            by rw [← hwl.line_size_eq_pow]; exact this⟩
    obtain ⟨hwf4, hl4, hk4, hbuf⟩ := hF
    cases h
    -- the line fill
    have hlv4 : c4.levels_[new_line.level]? = some lv3 := by
      rw [hnl_level, hl4]
      exact hlv3
    have hslot : (lv3.lineAt new_line.index new_line.way).valid = true ∧
        (lv3.lineAt new_line.index new_line.way).tag = level.GetTag a := by
      obtain ⟨st, rfl⟩ := hs3
      rw [hnl_index]
      exact ⟨hvalA, htagA⟩
    obtain ⟨i1, i2⟩ := install_spec hwf4 new_line hlv4 (level.GetTag a) line_buffer hbuf
      hslot.1 hslot.2
    obtain ⟨g1, g2, g3, g4⟩ := exclusiveAfterRead_spec i1 i
      (level.GetAddr (level.GetTag a) (level.GetIndex a)) wa
    refine ⟨g1, ?_, ?_⟩
    · intro x hx
      refine ((hk3 x hx).trans_keeps (hk4 x hx)).trans_keeps (Keeps.of_iff (fun j _ => ?_))
      rw [g3 x (by rw [hline]; exact hx) j, i2]
    · intro hwa _
      exact ((g4 hwa).sameLine_abs g1 hline.symm).exclFrom

end MultilevelCache

namespace MultilevelCache

/-! ## The exclusive policy over whole calls -/

theorem excl_all (ob : Nat) : ∀ fuel : Nat,
    ExclusiveRead ob fuel ∧ ExclusiveWrite ob fuel ∧ ExclusiveEvict ob fuel := by
  intro fuel
  induction fuel with
  | zero =>
    refine ⟨?_, ?_, ?_⟩
    · intro c i a len lat wa r _ _ _ h
      simp [HandleRead] at h
    · intro c i a inp lat r _ _ _ h
      simp [HandleWrite] at h
    · intro c i v a lat r _ _ _ _ h
      simp [Evict] at h
  | succ fuel ih =>
    exact ⟨HandleRead_step ob fuel ih.1 ih.2.2, HandleWrite_step ob fuel ih.1,
      Evict_step ob fuel ih.2.1⟩

theorem ExclFrom.sameLine_excl {ob : Nat} {c : TieredCache} (h : AllWF ob c) {x y : Nat}
    (hxy : lineNo ob x = lineNo ob y) {k : Nat} (he : ExclFrom k c y) : ExclFrom k c x :=
  fun j l hj hl hrj hrl =>
    he j l hj hl ((resident_sameLine h hxy j).mp hrj) ((resident_sameLine h hxy l).mp hrl)

/-- A `HandleRead` call made by `ReadSpan`, which may cross line ends. -/
theorem HandleRead_top (ob : Nat) : ∀ (fuel : Nat) (c : TieredCache) (a len lat : Nat)
    (r : TieredCache × List Nat × Nat), AllWF ob c → a < 2 ^ 64 → (∀ x, ExclFrom 0 c x) →
    HandleRead fuel c 0 a len lat false = .ok r →
    AllWF ob r.1 ∧ ∀ x, ExclFrom 0 r.1 x := by
  intro fuel
  induction fuel with
  | zero => intro c a len lat r _ _ _ h; simp [HandleRead] at h
  | succ fuel ih =>
    intro c a len lat r hwf ha hex h
    have h0 := h
    rw [HandleRead] at h
    split at h
    · cases h
    rename_i level hlevel
    split at h
    · split at h
      · cases h
      rename_i c1 out1 lat1 h1
      split at h
      · cases h
      rename_i c2 out2 lat2 h2
      cases h
      obtain ⟨w1, e1⟩ := ih _ _ _ _ _ hwf ha hex h1
      exact ih _ _ _ _ (c2, out2, lat2) w1
        (show u64 _ < 2 ^ 64 from Nat.mod_lt _ (by norm_num)) e1 h2
    · rename_i hns
      obtain ⟨w1, k1, t1⟩ := (excl_all ob (fuel + 1)).1 c 0 a len lat false r hwf ha
        (fun lv hlv => by
          rw [hlevel] at hlv
          cases hlv
          omega) h0
      refine ⟨w1, fun x => ?_⟩
      by_cases hx : lineNo ob x = lineNo ob a
      · exact (t1 rfl (hex a)).sameLine_excl w1 hx
      · exact (k1 x hx).2 (hex x)

/-- A `HandleWrite` call made by `WriteSpan`, which may cross line ends. -/
theorem HandleWrite_top (ob : Nat) : ∀ (fuel : Nat) (c : TieredCache) (a : Nat) (inp : Span)
    (lat : Nat) (r : TieredCache × Nat), AllWF ob c → a < 2 ^ 64 → (∀ x, ExclFrom 0 c x) →
    HandleWrite fuel c 0 a inp lat = .ok r →
    AllWF ob r.1 ∧ ∀ x, ExclFrom 0 r.1 x := by
  intro fuel
  induction fuel with
  | zero => intro c a inp lat r _ _ _ h; simp [HandleWrite] at h
  | succ fuel ih =>
    intro c a inp lat r hwf ha hex h
    have h0 := h
    rw [HandleWrite] at h
    split at h
    · cases h
    rename_i level hlevel
    split at h
    · split at h
      · cases h
      rename_i c1 lat1 h1
      obtain ⟨w1, e1⟩ := ih _ _ _ _ _ hwf ha hex h1
      exact ih _ _ _ _ _ w1 (show u64 _ < 2 ^ 64 from Nat.mod_lt _ (by norm_num)) e1 h
    · rename_i hns
      obtain ⟨w1, k1, t1, t2⟩ := (excl_all ob (fuel + 1)).2.1 c 0 a inp lat r hwf ha
        (fun lv hlv => by
          rw [hlevel] at hlv
          cases hlv
          omega) h0
      refine ⟨w1, fun x => ?_⟩
      by_cases hx : lineNo ob x = lineNo ob a
      · exact (t2.exclFrom).sameLine_excl w1 hx
      · exact (k1 x hx).2 (hex x)

theorem ExclFrom.of_levels_excl {c c' : TieredCache} (hl : c'.levels_ = c.levels_) {k x : Nat}
    (he : ExclFrom k c x) : ExclFrom k c' x := by
  intro j l hj hl' hrj hrl
  refine he j l hj hl' ?_ ?_
  · exact (resident_of_levels_eq (by rw [hl]) x).mp hrj
  · exact (resident_of_levels_eq (by rw [hl]) x).mp hrl

/-- `Demote` keeps the levels well formed and every line in at most one level. -/
theorem Demote_excl (ob : Nat) (fuel : Nat) (c c' : TieredCache) (a : Nat) (hwf : AllWF ob c)
    (ha : a < 2 ^ 64) (hex : ∀ x, ExclFrom 0 c x) (h : c.Demote fuel a = .ok c') :
    AllWF ob c' ∧ ∀ x, ExclFrom 0 c' x := by
  unfold TieredCache.Demote at h
  split at h
  · cases h
    exact ⟨hwf, hex⟩
  rename_i l1 hl1
  split at h
  · cases h
    exact ⟨hwf.of_levels_wf rfl rfl, fun x => (hex x).of_levels_excl rfl⟩
  rename_i way hway
  split at h
  · cases h
  rename_i c1 lat1 h1
  cases h
  have hw1 := hwf.2 0 l1 hl1
  obtain ⟨hlt, hv, ht⟩ := CacheLevel.Find_some hway
  have hwfc : AllWF ob { c with current_cycle_ := u64 (c.current_cycle_ + 1) } :=
    hwf.of_levels_wf rfl rfl
  have hline := hw1.lineNo_line_addr ha
  obtain ⟨e1, e2, e3, e4, _⟩ := (excl_all ob fuel).2.2
    { c with current_cycle_ := u64 (c.current_cycle_ + 1) } 0
    (LineRef.slot ⟨0, l1.GetIndex a, way⟩) _ 0 _ hwfc (hw1.geo.GetAddr_key_lt a ha)
    (by
      show (TieredCache.lineAt _ _).data.length ≤ 2 ^ ob
      unfold TieredCache.lineAt
      simp only [hl1]
      rw [hw1.data_len _ _ hlt, hw1.line_size_eq_pow])
    (fun lv hw => hw1.GetOffset_GetAddr hw a (hw1.geo.GetTag_lt ha)) h1
  obtain ⟨lv1, hlv1, hs1⟩ := e2 l1 hl1
  have hway1 : lv1.Find a = some way := by
    obtain ⟨st, rfl⟩ := hs1
    exact hway
  have hidx : lv1.GetIndex a = l1.GetIndex a := by
    obtain ⟨st, rfl⟩ := hs1
    rfl
  obtain ⟨j1, j2, j3, j4⟩ := invalidate_found e1 hlv1 hway1 (fun l => { l with valid := false })
    (fun _ => rfl) (fun _ => rfl) (fun _ => rfl)
  rw [hidx] at j1 j2 j3 j4
  have i1 : AllWF ob (c1.invalidate ⟨0, l1.GetIndex a, way⟩) := j1
  have i2 : ∀ x, lineNo ob x ≠ lineNo ob a → ∀ j,
      ((c1.invalidate ⟨0, l1.GetIndex a, way⟩).resident j x ↔ c1.resident j x) := j2
  have i3 : ¬ (c1.invalidate ⟨0, l1.GetIndex a, way⟩).resident 0 a := j3
  have i4 : ∀ j, j ≠ 0 →
      (c1.invalidate ⟨0, l1.GetIndex a, way⟩).levels_[j]? = c1.levels_[j]? := j4
  have e4' : AbsentFrom 2 c1 (l1.GetAddr (l1.GetTag a) (l1.GetIndex a)) := e4
  have e1' : AllWF ob c1 := e1
  refine ⟨i1, fun x => ?_⟩
  by_cases hx : lineNo ob x = lineNo ob a
  · apply ExclFrom.of_only
    · exact fun hr => i3 ((resident_sameLine i1 hx 0).mp hr)
    · intro j hj hr
      have hr1 := (resident_sameLine i1 hx j).mp hr
      have hr2 := (resident_of_levels_eq (i4 j (by omega)) a).mp hr1
      exact (e4'.sameLine_abs e1' hline.symm) j hj hr2
  · have k1 : Keeps 0 { c with current_cycle_ := u64 (c.current_cycle_ + 1) } c1 x :=
      Keeps.lift (resident_of_sameLines hl1 hlv1 hs1 x) (e3 x (by rw [hline]; exact hx))
    have k2 : Keeps 0 c1 (c1.invalidate ⟨0, l1.GetIndex a, way⟩) x :=
      Keeps.of_iff (fun j _ => i2 x hx j)
    exact (k1.trans_keeps k2).2 ((hex x).of_levels_excl rfl)

end MultilevelCache

namespace MultilevelCache

/-! ## The levels the constructor builds -/

theorem mapM_new_mem : ∀ (cfgs : List CacheLevelConfig) (lvs : List CacheLevel),
    cfgs.mapM CacheLevel.new = .ok lvs → ∀ lv ∈ lvs, ∃ cfg ∈ cfgs, CacheLevel.new cfg = .ok lv := by
  intro cfgs
  induction cfgs with
  | nil =>
    intro lvs h lv hlv
    simp only [List.mapM_nil, pure, Except.pure, Except.ok.injEq] at h
    subst h
    simp at hlv
  | cons cfg cfgs ih =>
    intro lvs h lv hlv
    rw [List.mapM_cons] at h
    simp only [bind_eq_ok, pure, Except.pure, Except.ok.injEq] at h
    obtain ⟨l0, hl0, ls, hls, rfl⟩ := h
    rcases List.mem_cons.mp hlv with rfl | hmem
    · exact ⟨cfg, List.mem_cons_self _ _, hl0⟩
    · obtain ⟨cfg', hc', hn'⟩ := ih ls hls lv hmem
      exact ⟨cfg', List.mem_cons_of_mem _ hc', hn'⟩

theorem CacheLevel.new_fields {cfg : CacheLevelConfig} {lv : CacheLevel}
    (h : CacheLevel.new cfg = .ok lv) :
    std_log2 cfg.line_size = .ok lv.offset_bits_ ∧ cfg.associativity ≠ 0 ∧
    cfg.line_size ≠ 0 ∧ u64 (cfg.associativity * cfg.line_size) ≠ 0 ∧
    lv.num_sets_ = cfg.size / u64 (cfg.associativity * cfg.line_size) ∧ lv.num_sets_ ≠ 0 ∧
    std_log2 lv.num_sets_ = .ok lv.index_bits_ ∧ lv.config_ = cfg ∧
    lv.sets_ = List.replicate lv.num_sets_
      (CacheSet.new cfg.associativity cfg.line_size cfg.replacement_policy) := by
  unfold CacheLevel.new at h
  split at h
  · cases h
  rename_i ob hob
  split at h
  · cases h
  rename_i hz
  split at h
  · cases h
  rename_i hd
  simp only at h
  split at h
  · cases h
  rename_i hn
  split at h
  · cases h
  rename_i ib hib
  cases h
  push_neg at hz
  exact ⟨hob, hz.1, hz.2, hd, rfl, hn, hib, rfl, rfl⟩

theorem CacheLevel.new_GeoOK {cfg : CacheLevelConfig} {lv : CacheLevel}
    (h : CacheLevel.new cfg = .ok lv) (hls : cfg.line_size < 2 ^ 64) (hsz : cfg.size < 2 ^ 64) :
    lv.GeoOK := by
  obtain ⟨hob, hassoc, hlz, hd, hns, hnz, hib, hcfg, hsets⟩ := CacheLevel.new_fields h
  have hl : cfg.line_size = 2 ^ lv.offset_bits_ := by
    rcases (std_log2_eq_ok_iff _ _ hls).mp hob with h0 | h1
    · exact absurd h0.1 hlz
    · exact h1
  have hle : lv.num_sets_ ≤ cfg.size := by
    rw [hns]
    exact Nat.div_le_self _ _
  have hn : lv.num_sets_ = 2 ^ lv.index_bits_ := by
    rcases (std_log2_eq_ok_iff _ _ (lt_of_le_of_lt hle hsz)).mp hib with h0 | h1
    · exact absurd h0.1 hnz
    · exact h1
  have hobl : lv.offset_bits_ < 64 := by
    rw [hl] at hls
    exact (Nat.pow_lt_pow_iff_right (by norm_num)).mp hls
  have hdvd : 2 ^ lv.offset_bits_ ∣ u64 (cfg.associativity * cfg.line_size) := by
    unfold u64
    rw [Nat.dvd_mod_iff (Nat.pow_dvd_pow 2 (by omega)), hl]
    exact Dvd.intro_left _ rfl
  have hge : 2 ^ lv.offset_bits_ ≤ u64 (cfg.associativity * cfg.line_size) :=
    Nat.le_of_dvd (Nat.pos_of_ne_zero hd) hdvd
  have hmul : lv.num_sets_ * 2 ^ lv.offset_bits_ ≤ cfg.size := by
    calc lv.num_sets_ * 2 ^ lv.offset_bits_
        ≤ lv.num_sets_ * u64 (cfg.associativity * cfg.line_size) := Nat.mul_le_mul_left _ hge
      _ ≤ cfg.size := by rw [hns]; exact Nat.div_mul_le_self _ _
  have hbits : lv.index_bits_ + lv.offset_bits_ < 64 := by
    have : 2 ^ (lv.index_bits_ + lv.offset_bits_) < 2 ^ 64 := by
      rw [pow_add, ← hn]
      exact lt_of_le_of_lt hmul hsz
    exact (Nat.pow_lt_pow_iff_right (by norm_num)).mp this
  refine ⟨by rw [hcfg]; exact hl, hn, by omega, ?_, ?_, ?_⟩
  · rw [hsets, List.length_replicate]
  · intro s hs
    rw [hsets] at hs
    rw [List.eq_of_mem_replicate hs]
    simp [CacheSet.new]
  · intro s hs
    rw [hsets] at hs
    rw [List.eq_of_mem_replicate hs]
    exact Nat.pos_of_ne_zero hassoc

/-- Every line of a freshly constructed level is the line the `CacheLine` constructor
builds. -/
theorem CacheLevel.new_lineAt {cfg : CacheLevelConfig} {lv : CacheLevel}
    (h : CacheLevel.new cfg = .ok lv) (s w : Nat) :
    (lv.lineAt s w = CacheLine.new 0 ∨ lv.lineAt s w = CacheLine.new cfg.line_size) ∧
    (w < (lv.setAt s).lines_.length → lv.lineAt s w = CacheLine.new cfg.line_size) := by
  obtain ⟨_, hs⟩ := CacheLevel.new_sets h
  have hset : lv.setAt s = CacheSet.new cfg.associativity cfg.line_size
      cfg.replacement_policy ∨ lv.setAt s = CacheSet.new 0 0 ReplacementPolicy.LRU := by
    unfold CacheLevel.setAt
    rw [hs, List.getD_eq_getElem?_getD]
    by_cases hlt : s < lv.num_sets_
    · left
      simp [List.getElem?_replicate, hlt]
    · right
      simp [List.getElem?_replicate, hlt]
  have hin : w < (lv.setAt s).lines_.length → lv.lineAt s w = CacheLine.new cfg.line_size := by
    intro hw
    unfold CacheLevel.lineAt
    rcases hset with hset | hset
    · rw [hset] at hw ⊢
      have hmem : MultilevelCache.lineAt (CacheSet.new cfg.associativity cfg.line_size
          cfg.replacement_policy).lines_ w ∈
          List.replicate cfg.associativity (CacheLine.new cfg.line_size) := lineAt_mem hw
      exact List.eq_of_mem_replicate hmem
    · rw [hset] at hw
      simp [CacheSet.new] at hw
  refine ⟨?_, hin⟩
  by_cases hw : w < (lv.setAt s).lines_.length
  · exact Or.inr (hin hw)
  · left
    unfold CacheLevel.lineAt
    exact lineAt_of_le (Nat.le_of_not_lt hw)

theorem CacheLevel.new_WF {cfg : CacheLevelConfig} {lv : CacheLevel}
    (h : CacheLevel.new cfg = .ok lv) (hls : cfg.line_size < 2 ^ 64) (hsz : cfg.size < 2 ^ 64) :
    lv.WF lv.offset_bits_ where
  geo := CacheLevel.new_GeoOK h hls hsz
  ob_eq := rfl
  nodup := CacheLevel.new_NoDup h
  tag_lt := by
    intro s w
    have : (lv.lineAt s w).tag = 0 := by
      rcases (CacheLevel.new_lineAt h s w).1 with e | e <;> rw [e] <;> rfl
    rw [this]
    positivity
  data_len := by
    intro s w hw
    rw [(CacheLevel.new_lineAt h s w).2 hw, (CacheLevel.new_fields h).2.2.2.2.2.2.2.1]
    simp [CacheLine.new]

/-- A freshly constructed exclusive hierarchy whose levels have one line size is well formed
and holds no line. -/
theorem AllWF.fresh_wf {opts : Options} {m : Memory} {rand : List Nat} {c : TieredCache}
    (h : TieredCache.new opts m rand = .ok c)
    (hpol : opts.inclusion_policy = InclusionPolicy.Exclusive) (ls : Nat) (hls : ls < 2 ^ 64)
    (hcfg : ∀ cfg ∈ opts.cache_levels, cfg.line_size = ls ∧ cfg.size < 2 ^ 64) :
    ∃ ob, AllWF ob c ∧ ∀ x, ExclFrom 0 c x := by
  unfold TieredCache.new at h
  split at h
  · cases h
  rename_i lvs hlvs
  cases h
  have hall : ∀ lv ∈ lvs, lv.WF lv.offset_bits_ ∧ std_log2 ls = .ok lv.offset_bits_ ∧
      ∀ s w, (lv.lineAt s w).valid = false := by
    intro lv hlv
    obtain ⟨cfg, hc, hn⟩ := mapM_new_mem _ _ hlvs lv hlv
    obtain ⟨hl, hs⟩ := hcfg cfg hc
    refine ⟨CacheLevel.new_WF hn (by rw [hl]; exact hls) hs, ?_, CacheLevel.new_invalid hn⟩
    rw [← hl]
    exact (CacheLevel.new_fields hn).1
  have hex : ∀ x, ExclFrom 0
      ({ opts_ := opts, levels_ := lvs, main_memory_ := m, current_cycle_ := 0,
         last_access_latency_ := 0, rand_ := rand } : TieredCache) x := by
    intro x j k _ _ hrj _
    exfalso
    obtain ⟨lv, hlv, hhas⟩ := hrj
    obtain ⟨w, hv, _⟩ := (CacheLevel.Has_iff lv x).mp hhas
    rw [(hall lv (List.getElem?_mem hlv)).2.2] at hv
    cases hv
  cases lvs with
  | nil =>
    refine ⟨0, ⟨hpol, fun i lv hlv => ?_⟩, hex⟩
    simp at hlv
  | cons lv0 rest =>
    refine ⟨lv0.offset_bits_, ⟨hpol, fun i lv hlv => ?_⟩, hex⟩
    have hmem := List.getElem?_mem hlv
    have h0 := (hall lv0 (List.mem_cons_self _ _)).2.1
    have h1 := hall lv hmem
    have : lv.offset_bits_ = lv0.offset_bits_ := by
      have := h1.2.1.symm.trans h0
      exact Except.ok.inj this
    rw [← this]
    exact h1.1

/-! ## Sequences of calls -/

theorem call_excl {ob fuel : Nat} {c c' : TieredCache} {call : Call}
    (hwf : AllWF ob c) (hex : ∀ x, ExclFrom 0 c x) (ha : call.addr < 2 ^ 32)
    (hc : c.call fuel call = .ok c') : AllWF ob c' ∧ ∀ x, ExclFrom 0 c' x := by
  have ha64 : call.addr < 2 ^ 64 := lt_trans ha (by norm_num)
  cases call with
  | read addr len =>
    simp only [TieredCache.call] at hc
    split at hc
    · cases hc
    rename_i c1 out hr
    cases hc
    unfold TieredCache.ReadSpan at hr
    split at hr
    · split at hr
      · cases hr
      · cases hr
        exact ⟨hwf.of_levels_wf rfl rfl, fun x => (hex x).of_levels_excl rfl⟩
    · split at hr
      · cases hr
      rename_i c2 out2 lat2 hread
      cases hr
      obtain ⟨w, e⟩ := HandleRead_top ob fuel
        { c with current_cycle_ := u64 (c.current_cycle_ + 1), last_access_latency_ := 0 }
        addr len 0 (c2, out, lat2)
        (hwf.of_levels_wf rfl rfl) ha64 (fun x => (hex x).of_levels_excl rfl) hread
      exact ⟨w.of_levels_wf rfl rfl, fun x => (e x).of_levels_excl rfl⟩
  | write addr inp =>
    simp only [TieredCache.call] at hc
    unfold TieredCache.WriteSpan at hc
    split at hc
    · cases hc
    rename_i c2 lat2 hw
    cases hc
    split at hw
    · obtain ⟨m, _, hr1⟩ := WriteToMemory_ok hw
      have h2 : c2 = _ := hr1
      rw [h2]
      exact ⟨hwf.of_levels_wf rfl rfl, fun x => (hex x).of_levels_excl rfl⟩
    · obtain ⟨w, e⟩ := HandleWrite_top ob fuel
        { c with current_cycle_ := u64 (c.current_cycle_ + 1), last_access_latency_ := 0 }
        addr (Span.buf inp) 0 (c2, lat2)
        (hwf.of_levels_wf rfl rfl) ha64 (fun x => (hex x).of_levels_excl rfl) hw
      exact ⟨w.of_levels_wf rfl rfl, fun x => (e x).of_levels_excl rfl⟩
  | demote addr =>
    simp only [TieredCache.call] at hc
    exact Demote_excl ob fuel c c' addr hwf ha64 hex hc

theorem run_excl {ob fuel : Nat} (calls : List Call) :
    ∀ {c c' : TieredCache}, AllWF ob c → (∀ x, ExclFrom 0 c x) →
      (∀ call ∈ calls, call.addr < 2 ^ 32) → c.run fuel calls = .ok c' →
      AllWF ob c' ∧ ∀ x, ExclFrom 0 c' x := by
  induction calls with
  | nil =>
    intro c c' hwf hex _ hr
    simp only [TieredCache.run] at hr
    cases hr
    exact ⟨hwf, hex⟩
  | cons call calls ih =>
    intro c c' hwf hex hcalls hr
    simp only [TieredCache.run] at hr
    split at hr
    · cases hr
    rename_i c2 hc2
    obtain ⟨w, e⟩ := call_excl hwf hex (hcalls call (List.mem_cons_self _ _)) hc2
    exact ih w e (fun cl hcl => hcalls cl (List.mem_cons_of_mem _ hcl)) hr

/-- Every state an exclusive hierarchy with one line size reaches is well formed and holds
every line in at most one level. -/
theorem reachable_excl {fuel : Nat} {opts : Options} {m : Memory} {rand : List Nat}
    {calls : List Call} {c : TieredCache}
    (hpol : opts.inclusion_policy = InclusionPolicy.Exclusive) (ls : Nat) (hls : ls < 2 ^ 64)
    (hcfg : ∀ cfg ∈ opts.cache_levels, cfg.line_size = ls ∧ cfg.size < 2 ^ 64)
    (hcalls : ∀ call ∈ calls, call.addr < 2 ^ 32)
    (h : TieredCache.runFresh fuel opts m rand calls = .ok c) :
    ∃ ob, AllWF ob c ∧ ∀ x, ExclFrom 0 c x := by
  unfold TieredCache.runFresh at h
  split at h
  · cases h
  rename_i c0 hc0
  obtain ⟨ob, hwf, hex⟩ := AllWF.fresh_wf hc0 hpol ls hls hcfg
  exact ⟨ob, run_excl calls hwf hex hcalls h⟩

end MultilevelCache

namespace MultilevelCache

/-! ## Counters and line contents under the elementary updates -/

theorem statsAt_modifyLevel_keep (c : TieredCache) (i : Nat) (f : CacheLevel → CacheLevel)
    (hf : ∀ lv, (f lv).stats_ = lv.stats_) (j : Nat) :
    (c.modifyLevel i f).statsAt j = c.statsAt j := by
  unfold TieredCache.statsAt
  by_cases hj : j = i
  · subst hj
    rw [modifyLevel_getElem?_self]
    cases c.levels_[j]? with
    | none => rfl
    | some lv => exact hf lv
  · rw [modifyLevel_getElem?_ne c i j f (fun e => hj e.symm)]

theorem statsAt_modifyStats_ne (c : TieredCache) (i j : Nat) (f : CacheStats → CacheStats)
    (h : j ≠ i) : (c.modifyStats i f).statsAt j = c.statsAt j :=
  statsAt_congr (modifyLevel_getElem?_ne c i j _ (fun e => h e.symm))

theorem statsAt_modifyLine (c : TieredCache) (p : LinePtr) (f : CacheLine → CacheLine)
    (j : Nat) : (c.modifyLine p f).statsAt j = c.statsAt j :=
  statsAt_modifyLevel_keep c p.level (fun lv => lv.modifyLine p.index p.way f) (fun _ => rfl) j

theorem statsAt_UpdateLRU (c : TieredCache) (p : LinePtr) (j : Nat) :
    (c.UpdateLRU p).statsAt j = c.statsAt j :=
  statsAt_modifyLevel_keep c p.level (fun lv => lv.UpdateLRU p.index p.way c.current_cycle_)
    (fun lv => CacheLevel.UpdateLRU_stats lv _ _ _) j

theorem statsAt_install (c : TieredCache) (p : LinePtr) (t : Nat) (buf : List Nat) (j : Nat) :
    (c.install p t buf).statsAt j = c.statsAt j := by
  unfold TieredCache.install
  rw [statsAt_UpdateLRU, statsAt_modifyLine]

theorem statsAt_Allocate (c : TieredCache) (level : CacheLevel) (i a j : Nat) :
    (c.Allocate level i a).1.statsAt j = c.statsAt j :=
  statsAt_modifyLevel_keep c i
    (fun lv => (lv.Allocate a c.current_cycle_ (c.rand_.headD 0)).1)
    (fun lv => CacheLevel.Allocate_stats lv _ _ _) j

theorem statsAt_InvalidateInLowerLevelsAux (y : Nat) : ∀ (n : Nat) (c : TieredCache) (k j : Nat),
    (InvalidateInLowerLevelsAux n c k y).statsAt j = c.statsAt j := by
  intro n
  induction n with
  | zero => intro c k j; rfl
  | succ n ih =>
    intro c k j
    rw [InvalidateInLowerLevelsAux]
    split
    · rfl
    · rename_i level hk
      cases hf : level.Find y with
      | none =>
        simp only []
        exact ih c (k + 1) j
      | some way =>
        simp only []
        rw [ih, statsAt_modifyLine]

theorem statsAt_exclusiveAfterRead (c : TieredCache) (i y : Nat) (wa : Bool) (j : Nat) :
    (c.exclusiveAfterRead i y wa).statsAt j = c.statsAt j := by
  unfold TieredCache.exclusiveAfterRead
  split
  · exact statsAt_InvalidateInLowerLevelsAux y _ c _ j
  · rfl

theorem lineAt_modifyLevel_ne (c : TieredCache) (i : Nat) (f : CacheLevel → CacheLevel)
    (p : LinePtr) (h : p.level ≠ i) : (c.modifyLevel i f).lineAt p = c.lineAt p := by
  unfold TieredCache.lineAt
  rw [modifyLevel_getElem?_ne c i p.level f (fun e => h e.symm)]

theorem lineAt_of_level_eq {c c' : TieredCache} (p : LinePtr)
    (h : c'.levels_[p.level]? = c.levels_[p.level]?) : c'.lineAt p = c.lineAt p := by
  unfold TieredCache.lineAt
  rw [h]

theorem lineAt_modifyStats (c : TieredCache) (i : Nat) (f : CacheStats → CacheStats)
    (p : LinePtr) : (c.modifyStats i f).lineAt p = c.lineAt p := by
  by_cases h : p.level = i
  · unfold TieredCache.lineAt TieredCache.modifyStats
    rw [h, modifyLevel_getElem?_self]
    cases c.levels_[i]? with
    | none => rfl
    | some lv => rfl
  · exact lineAt_modifyLevel_ne c i _ p h

theorem CacheLevel.UpdateLRU_line (lv : CacheLevel) (s w cyc s' w' : Nat) :
    ((lv.UpdateLRU s w cyc).lineAt s' w').data = (lv.lineAt s' w').data ∧
    ((lv.UpdateLRU s w cyc).setAt s').lines_.length = (lv.setAt s').lines_.length := by
  unfold CacheLevel.UpdateLRU
  split
  · rw [CacheLevel.lineAt_modifyLine, CacheLevel.setAt_modifyLine_length]
    refine ⟨?_, rfl⟩
    split
    · rename_i hc
      obtain ⟨rfl, rfl, _⟩ := hc
      rfl
    · rfl
  · exact ⟨rfl, rfl⟩

theorem memcpy_zero_full (dst src : List Nat) (h : dst.length = src.length) :
    memcpy dst 0 src = src := by
  unfold memcpy
  simp only [List.take_zero, List.nil_append, Nat.zero_add]
  rw [List.drop_of_length_le (by omega), List.append_nil]

end MultilevelCache

namespace MultilevelCache

/-! ## A read that misses one level and hits the next -/

/-- A read within one line that hits. -/
theorem HandleRead_hit_eq {fuel : Nat} {c : TieredCache} {i a len lat : Nat} {wa : Bool}
    {level : CacheLevel} {way : Nat} (hl : c.levels_[i]? = some level)
    (hns : len ≤ level.config_.line_size - level.GetOffset a) (hf : level.Find a = some way) :
    HandleRead (fuel + 1) c i a len lat wa =
      .ok (((c.countAccess i).countHit i).UpdateLRU ⟨i, level.GetIndex a, way⟩,
           (((c.countAccess i).countHit i).UpdateLRU ⟨i, level.GetIndex a, way⟩).load
             ⟨i, level.GetIndex a, way⟩ (level.GetOffset a) len,
           u32 (lat + level.config_.latency)) := by
  rw [HandleRead]
  simp only [hl, hf, if_neg (Nat.not_lt.mpr hns)]

/-- A read within one line that misses, finds an invalid line to fill (no victim) and gets
the line from the next level. -/
theorem HandleRead_miss_eq {fuel : Nat} {c : TieredCache} {i a len lat : Nat} {wa : Bool}
    {level : CacheLevel} (hl : c.levels_[i]? = some level)
    (hns : len ≤ level.config_.line_size - level.GetOffset a) (hf : level.Find a = none)
    (hv : (((c.countAccess i).countMiss i).Allocate level i a).2.1 = none)
    (hnext : i + 1 < (((c.countAccess i).countMiss i).Allocate level i a).1.levels_.length)
    {c4 : TieredCache} {buf : List Nat} {lat4 : Nat}
    (hfetch : HandleRead fuel (((c.countAccess i).countMiss i).Allocate level i a).1 (i + 1)
      (level.GetAddr (level.GetTag a) (level.GetIndex a)) level.config_.line_size
      (u32 (lat + level.config_.latency)) wa = .ok (c4, buf, lat4)) :
    HandleRead (fuel + 1) c i a len lat wa =
      .ok ((c4.install (((c.countAccess i).countMiss i).Allocate level i a).2.2
              (level.GetTag a) buf).exclusiveAfterRead i
              (level.GetAddr (level.GetTag a) (level.GetIndex a)) wa,
           ((c4.install (((c.countAccess i).countMiss i).Allocate level i a).2.2
              (level.GetTag a) buf).exclusiveAfterRead i
              (level.GetAddr (level.GetTag a) (level.GetIndex a)) wa).load
              (((c.countAccess i).countMiss i).Allocate level i a).2.2 (level.GetOffset a) len,
           lat4) := by
  rw [HandleRead]
  simp only [hl, hf, if_neg (Nat.not_lt.mpr hns)]
  rcases hA : ((c.countAccess i).countMiss i).Allocate level i a with ⟨c1, victim, nl⟩
  rw [hA] at hv hnext hfetch
  simp only at hv hnext hfetch
  subst hv
  simp only [if_pos hnext, hfetch]

end MultilevelCache

namespace MultilevelCache

theorem statsAt_count (c : TieredCache) (i : Nat) (f g : CacheStats → CacheStats)
    (hi : i < c.levels_.length) :
    ((c.modifyStats i f).modifyStats i g).statsAt i = g (f (c.statsAt i)) ∧
    ∀ j, j ≠ i → ((c.modifyStats i f).modifyStats i g).statsAt j = c.statsAt j := by
  constructor
  · rw [statsAt_modifyStats _ _ _ (by simpa using hi), statsAt_modifyStats _ _ _ hi]
  · intro j hj
    rw [statsAt_modifyStats_ne _ i j _ hj, statsAt_modifyStats_ne _ i j _ hj]

end MultilevelCache

namespace MultilevelCache

theorem statsAt_store (c : TieredCache) (p : LinePtr) (off : Nat) (inp : Span) (j : Nat) :
    (c.store p off inp).statsAt j = c.statsAt j := by
  unfold TieredCache.store
  simp only
  rw [statsAt_modifyLine, statsAt_UpdateLRU]

theorem statsAt_exclusiveAfterWrite (c : TieredCache) (i y j : Nat) :
    (c.exclusiveAfterWrite i y).statsAt j = c.statsAt j := by
  unfold TieredCache.exclusiveAfterWrite
  split
  · exact statsAt_InvalidateInLowerLevelsAux y _ c _ j
  · rfl

/-- A write within one line that misses: the line is fetched by `HandleRead` at the same
level and then written. -/
theorem HandleWrite_miss_eq {fuel : Nat} {c : TieredCache} {i a lat : Nat} {inp : Span}
    {level : CacheLevel} (hl : c.levels_[i]? = some level)
    (hns : inp.size ≤ level.config_.line_size - level.GetOffset a) (hf : level.Find a = none)
    {c1 : TieredCache} {out : List Nat} {lat1 : Nat} {level1 : CacheLevel} {way : Nat}
    (hr : HandleRead fuel ((c.countAccess i).countMiss i) i a inp.size
      (u32 (lat + level.config_.latency)) true = .ok (c1, out, lat1))
    (hl1 : c1.levels_[i]? = some level1) (hf1 : level1.Find a = some way) :
    HandleWrite (fuel + 1) c i a inp lat =
      .ok ((c1.store ⟨i, level1.GetIndex a, way⟩ (level.GetOffset a) inp).exclusiveAfterWrite i
              (level1.GetAddr (level1.GetTag a) (level1.GetIndex a)),
           lat1) := by
  rw [HandleWrite]
  simp only [hl, hf, if_neg (Nat.not_lt.mpr hns), hr, hl1, hf1]

end MultilevelCache

namespace MultilevelCache

/-- One more unit of fuel does not change the result of a call that returns. -/
theorem fuel_succ_all : ∀ fuel : Nat,
    (∀ c i addr len lat wa r, HandleRead fuel c i addr len lat wa = .ok r →
      HandleRead (fuel + 1) c i addr len lat wa = .ok r) ∧
    (∀ c i addr inp lat r, HandleWrite fuel c i addr inp lat = .ok r →
      HandleWrite (fuel + 1) c i addr inp lat = .ok r) ∧
    (∀ c i v addr lat r, Evict fuel c i v addr lat = .ok r →
      Evict (fuel + 1) c i v addr lat = .ok r) ∧
    (∀ c j addr r, BackInvalidate fuel c j addr = .ok r →
      BackInvalidate (fuel + 1) c j addr = .ok r) := by
  intro fuel
  induction fuel with
  | zero =>
    refine ⟨?_, ?_, ?_, ?_⟩
    · intro c i addr len lat wa r h; simp [HandleRead] at h
    · intro c i addr inp lat r h; simp [HandleWrite] at h
    · intro c i v addr lat r h; simp [Evict] at h
    · intro c j addr r h; simp [BackInvalidate] at h
  | succ fuel ih =>
    obtain ⟨ihR, ihW, ihE, ihB⟩ := ih
    refine ⟨?_, ?_, ?_, ?_⟩
    · -- HandleRead
      intro c i addr len lat wa r h
      rw [HandleRead] at h ⊢
      cases hlevel : c.levels_[i]? with
      | none => simp only [hlevel] at h; cases h
      | some level =>
        simp only [hlevel] at h ⊢
        by_cases hsp : len > level.config_.line_size - level.GetOffset addr
        · simp only [hsp, if_true] at h ⊢
          cases h1 : HandleRead fuel c i addr (level.config_.line_size - level.GetOffset addr)
              lat wa with
          | error e => simp only [h1] at h; cases h
          | ok r1 =>
            obtain ⟨c1, out1, lat1⟩ := r1
            simp only [h1] at h
            simp only [ihR _ _ _ _ _ _ _ h1]
            cases h2 : HandleRead fuel c1 i
                (u64 (addr + (level.config_.line_size - level.GetOffset addr)))
                (len - (level.config_.line_size - level.GetOffset addr)) lat1 wa with
            | error e => simp only [h2] at h; cases h
            | ok r2 =>
              obtain ⟨c2, out2, lat2⟩ := r2
              simp only [h2] at h
              simp only [ihR _ _ _ _ _ _ _ h2]
              exact h
        · simp only [hsp, if_false] at h ⊢
          cases hf : level.Find addr with
          | some way => simp only [hf] at h ⊢; exact h
          | none =>
            simp only [hf] at h ⊢
            rcases hA : ((c.countAccess i).countMiss i).Allocate level i addr with
              ⟨c1, victim, nl⟩
            simp only [hA] at h ⊢
            rcases victim with _ | v
            · simp only at h ⊢
              by_cases hn : i + 1 < c1.levels_.length
              · simp only [hn, if_true] at h ⊢
                cases hfe : HandleRead fuel c1 (i + 1)
                    (level.GetAddr (level.GetTag addr) (level.GetIndex addr))
                    level.config_.line_size (u32 (lat + level.config_.latency)) wa with
                | error e => simp only [hfe] at h; cases h
                | ok r4 =>
                  obtain ⟨c4, buf, lat4⟩ := r4
                  simp only [hfe] at h
                  simp only [ihR _ _ _ _ _ _ _ hfe]
                  exact h
              · simp only [hn, if_false] at h ⊢
                exact h
            · simp only at h ⊢
              have hb : ∀ c2, (if c1.opts_.inclusion_policy = InclusionPolicy.Inclusive then
                    BackInvalidate fuel c1 ((i : Int) - 1)
                      (level.GetAddr v.tag (level.GetIndex addr))
                  else .ok c1) = .ok c2 →
                  (if c1.opts_.inclusion_policy = InclusionPolicy.Inclusive then
                    BackInvalidate (fuel + 1) c1 ((i : Int) - 1)
                      (level.GetAddr v.tag (level.GetIndex addr))
                  else .ok c1) = .ok c2 := by
                intro c2 h2
                split_ifs at h2 ⊢
                · exact ihB _ _ _ _ h2
                · exact h2
              cases hbk : (if c1.opts_.inclusion_policy = InclusionPolicy.Inclusive then
                    BackInvalidate fuel c1 ((i : Int) - 1)
                      (level.GetAddr v.tag (level.GetIndex addr))
                  else .ok c1) with
              | error e => simp only [hbk] at h; cases h
              | ok c2 =>
                simp only [hbk] at h
                simp only [hb c2 hbk]
                cases hev : Evict fuel c2 i (LineRef.copy v)
                    (level.GetAddr v.tag (level.GetIndex addr))
                    (u32 (lat + level.config_.latency)) with
                | error e => simp only [hev] at h; cases h
                | ok r3 =>
                  obtain ⟨c3, lat3⟩ := r3
                  simp only [hev] at h
                  simp only [ihE _ _ _ _ _ _ hev]
                  by_cases hn : i + 1 < c3.levels_.length
                  · simp only [hn, if_true] at h ⊢
                    cases hfe : HandleRead fuel c3 (i + 1)
                        (level.GetAddr (level.GetTag addr) (level.GetIndex addr))
                        level.config_.line_size lat3 wa with
                    | error e => simp only [hfe] at h; cases h
                    | ok r4 =>
                      obtain ⟨c4, buf, lat4⟩ := r4
                      simp only [hfe] at h
                      simp only [ihR _ _ _ _ _ _ _ hfe]
                      exact h
                  · simp only [hn, if_false] at h ⊢
                    exact h
    · -- HandleWrite
      intro c i addr inp lat r h
      rw [HandleWrite] at h ⊢
      cases hlevel : c.levels_[i]? with
      | none => simp only [hlevel] at h; cases h
      | some level =>
        simp only [hlevel] at h ⊢
        by_cases hsp : inp.size > level.config_.line_size - level.GetOffset addr
        · simp only [hsp, if_true] at h ⊢
          cases h1 : HandleWrite fuel c i addr
              (inp.subspan 0 (level.config_.line_size - level.GetOffset addr)) lat with
          | error e => simp only [h1] at h; cases h
          | ok r1 =>
            obtain ⟨c1, lat1⟩ := r1
            simp only [h1] at h
            simp only [ihW _ _ _ _ _ _ h1]
            exact ihW _ _ _ _ _ _ h
        · simp only [hsp, if_false] at h ⊢
          cases hf : level.Find addr with
          | some way => simp only [hf] at h ⊢; exact h
          | none =>
            simp only [hf] at h ⊢
            cases h1 : HandleRead fuel ((c.countAccess i).countMiss i) i addr inp.size
                (u32 (lat + level.config_.latency)) true with
            | error e => simp only [h1] at h; cases h
            | ok r1 =>
              obtain ⟨c1, out1, lat1⟩ := r1
              simp only [h1] at h
              simp only [ihR _ _ _ _ _ _ _ h1]
              exact h
    · -- Evict
      intro c i v addr lat r h
      rw [Evict] at h ⊢
      cases hlevel : c.levels_[i]? with
      | none => simp only [hlevel] at h; cases h
      | some level =>
        simp only [hlevel] at h ⊢
        split_ifs at h ⊢
        · exact ihW _ _ _ _ _ _ h
        · exact h
        · exact ihW _ _ _ _ _ _ h
        · exact h
        · exact h
    · -- BackInvalidate
      intro c j addr r h
      rw [BackInvalidate] at h ⊢
      by_cases hj : j < 0
      · simp only [hj, if_true] at h ⊢
        exact h
      · simp only [hj, if_false] at h ⊢
        cases hlevel : c.levels_[j.toNat]? with
        | none => simp only [hlevel] at h; cases h
        | some level =>
          simp only [hlevel] at h ⊢
          cases hf : level.Find addr with
          | none =>
            simp only [hf] at h ⊢
            exact ihB _ _ _ _ h
          | some way =>
            simp only [hf] at h ⊢
            by_cases hd : (c.lineAt ⟨j.toNat, level.GetIndex addr, way⟩).dirty = true
            · simp only [hd, if_true] at h ⊢
              cases hev : Evict fuel c j.toNat
                  (LineRef.slot ⟨j.toNat, level.GetIndex addr, way⟩)
                  (level.GetAddr (level.GetTag addr) (level.GetIndex addr)) 0 with
              | error e => simp only [hev] at h; cases h
              | ok r1 =>
                obtain ⟨c1, lat1⟩ := r1
                simp only [hev] at h
                simp only [ihE _ _ _ _ _ _ hev]
                exact ihB _ _ _ _ h
            · simp only [hd, if_false] at h ⊢
              exact ihB _ _ _ _ h

end MultilevelCache

namespace MultilevelCache

/-! ## The steps of the four routines, one unfolding at a time -/

theorem HandleRead_fuel_le {f f2 : Nat} (hle : f ≤ f2) {c : TieredCache} {i addr len lat : Nat}
    {wa : Bool} {r : TieredCache × List Nat × Nat}
    (h : HandleRead f c i addr len lat wa = .ok r) : HandleRead f2 c i addr len lat wa = .ok r := by
  induction hle with
  | refl => exact h
  | step _ ih => exact (fuel_succ_all _).1 _ _ _ _ _ _ _ ih

theorem HandleWrite_fuel_le {f f2 : Nat} (hle : f ≤ f2) {c : TieredCache} {i addr : Nat}
    {inp : Span} {lat : Nat} {r : TieredCache × Nat}
    (h : HandleWrite f c i addr inp lat = .ok r) : HandleWrite f2 c i addr inp lat = .ok r := by
  induction hle with
  | refl => exact h
  | step _ ih => exact (fuel_succ_all _).2.1 _ _ _ _ _ _ ih

theorem Evict_fuel_le {f f2 : Nat} (hle : f ≤ f2) {c : TieredCache} {i : Nat} {v : LineRef}
    {addr lat : Nat} {r : TieredCache × Nat}
    (h : Evict f c i v addr lat = .ok r) : Evict f2 c i v addr lat = .ok r := by
  induction hle with
  | refl => exact h
  | step _ ih => exact (fuel_succ_all _).2.2.1 _ _ _ _ _ _ ih

/-- A read that crosses the end of a line returns iff both parts return. -/
theorem HandleRead_cross_iff {fuel : Nat} {c : TieredCache} {i a len lat : Nat} {wa : Bool}
    {level : CacheLevel} (hl : c.levels_[i]? = some level)
    (hx : level.config_.line_size - level.GetOffset a < len)
    (r : TieredCache × List Nat × Nat) :
    HandleRead (fuel + 1) c i a len lat wa = .ok r ↔
      ∃ c1 out1 lat1 c2 out2 lat2,
        HandleRead fuel c i a (level.config_.line_size - level.GetOffset a) lat wa =
          .ok (c1, out1, lat1) ∧
        HandleRead fuel c1 i (u64 (a + (level.config_.line_size - level.GetOffset a)))
          (len - (level.config_.line_size - level.GetOffset a)) lat1 wa = .ok (c2, out2, lat2) ∧
        r = (c2, out1 ++ out2, lat2) := by
  constructor
  · intro h
    rw [HandleRead] at h
    simp only [hl, gt_iff_lt, if_pos hx] at h
    cases h1 : HandleRead fuel c i a (level.config_.line_size - level.GetOffset a) lat wa with
    | error e => simp [h1] at h
    | ok r1 =>
      obtain ⟨c1, out1, lat1⟩ := r1
      simp only [h1] at h
      cases h2 : HandleRead fuel c1 i (u64 (a + (level.config_.line_size - level.GetOffset a)))
          (len - (level.config_.line_size - level.GetOffset a)) lat1 wa with
      | error e => simp [h2] at h
      | ok r2 =>
        obtain ⟨c2, out2, lat2⟩ := r2
        simp only [h2, Except.ok.injEq] at h
        exact ⟨_, _, _, _, _, _, rfl, h2, h.symm⟩
  · rintro ⟨c1, out1, lat1, c2, out2, lat2, h1, h2, rfl⟩
    rw [HandleRead]
    simp only [hl, gt_iff_lt, if_pos hx, h1, h2]

/-- A write that crosses the end of a line returns iff both parts return. -/
theorem HandleWrite_cross_iff {fuel : Nat} {c : TieredCache} {i a lat : Nat} {inp : Span}
    {level : CacheLevel} (hl : c.levels_[i]? = some level)
    (hx : level.config_.line_size - level.GetOffset a < inp.size)
    (r : TieredCache × Nat) :
    HandleWrite (fuel + 1) c i a inp lat = .ok r ↔
      ∃ c1 lat1,
        HandleWrite fuel c i a (inp.subspan 0 (level.config_.line_size - level.GetOffset a))
          lat = .ok (c1, lat1) ∧
        HandleWrite fuel c1 i (u64 (a + (level.config_.line_size - level.GetOffset a)))
          (inp.subspan (level.config_.line_size - level.GetOffset a)
            (inp.size - (level.config_.line_size - level.GetOffset a))) lat1 = .ok r := by
  constructor
  · intro h
    rw [HandleWrite] at h
    simp only [hl, gt_iff_lt, if_pos hx] at h
    cases h1 : HandleWrite fuel c i a
        (inp.subspan 0 (level.config_.line_size - level.GetOffset a)) lat with
    | error e => simp [h1] at h
    | ok r1 =>
      obtain ⟨c1, lat1⟩ := r1
      simp only [h1] at h
      exact ⟨_, _, rfl, h⟩
  · rintro ⟨c1, lat1, h1, h2⟩
    rw [HandleWrite]
    simp only [hl, gt_iff_lt, if_pos hx, h1, h2]

/-- A write within one line that hits. -/
theorem HandleWrite_hit_eq {fuel : Nat} {c : TieredCache} {i a lat : Nat} {inp : Span}
    {level : CacheLevel} {way : Nat} (hl : c.levels_[i]? = some level)
    (hns : inp.size ≤ level.config_.line_size - level.GetOffset a)
    (hf : level.Find a = some way) :
    HandleWrite (fuel + 1) c i a inp lat =
      .ok ((((c.countAccess i).countHit i).store ⟨i, level.GetIndex a, way⟩
              (level.GetOffset a) inp).exclusiveAfterWrite i
              (level.GetAddr (level.GetTag a) (level.GetIndex a)),
           u32 (lat + level.config_.latency)) := by
  rw [HandleWrite]
  simp only [hl, hf, gt_iff_lt, if_neg (Nat.not_lt.mpr hns)]

/-- A read within one line that hits (the returned state). -/
theorem HandleRead_hit_state {fuel : Nat} {c : TieredCache} {i a len lat : Nat} {wa : Bool}
    {level : CacheLevel} {way : Nat} (hl : c.levels_[i]? = some level)
    (hns : len ≤ level.config_.line_size - level.GetOffset a) (hf : level.Find a = some way)
    {r : TieredCache × List Nat × Nat} (h : HandleRead (fuel + 1) c i a len lat wa = .ok r) :
    r.1 = ((c.countAccess i).countHit i).UpdateLRU ⟨i, level.GetIndex a, way⟩ := by
  rw [HandleRead] at h
  simp only [hl, hf, gt_iff_lt, if_neg (Nat.not_lt.mpr hns), Except.ok.injEq] at h
  rw [← h]

/-- A write within one line that misses returns iff its write-allocate read returns (and
then finds the line). -/
theorem HandleWrite_miss_iff {fuel : Nat} {c : TieredCache} {i a lat : Nat} {inp : Span}
    {level : CacheLevel} (hl : c.levels_[i]? = some level)
    (hns : inp.size ≤ level.config_.line_size - level.GetOffset a) (hf : level.Find a = none)
    (r : TieredCache × Nat) :
    HandleWrite (fuel + 1) c i a inp lat = .ok r ↔
      ∃ c1 out lat1 level1 way,
        HandleRead fuel ((c.countAccess i).countMiss i) i a inp.size
          (u32 (lat + level.config_.latency)) true = .ok (c1, out, lat1) ∧
        c1.levels_[i]? = some level1 ∧ level1.Find a = some way ∧
        r = ((c1.store ⟨i, level1.GetIndex a, way⟩ (level.GetOffset a) inp).exclusiveAfterWrite
               i (level1.GetAddr (level1.GetTag a) (level1.GetIndex a)), lat1) := by
  constructor
  · intro h
    rw [HandleWrite] at h
    simp only [hl, hf, gt_iff_lt, if_neg (Nat.not_lt.mpr hns)] at h
    cases h1 : HandleRead fuel ((c.countAccess i).countMiss i) i a inp.size
        (u32 (lat + level.config_.latency)) true with
    | error e => simp [h1] at h
    | ok r1 =>
      obtain ⟨c1, out, lat1⟩ := r1
      simp only [h1] at h
      cases hl1 : c1.levels_[i]? with
      | none => simp [hl1] at h
      | some level1 =>
        simp only [hl1] at h
        cases hf1 : level1.Find a with
        | none => simp [hf1] at h
        | some way =>
          simp only [hf1, Except.ok.injEq] at h
          exact ⟨_, _, _, _, _, rfl, hl1, hf1, h.symm⟩
  · rintro ⟨c1, out, lat1, level1, way, h1, hl1, hf1, rfl⟩
    rw [HandleWrite]
    simp only [hl, hf, gt_iff_lt, if_neg (Nat.not_lt.mpr hns), h1, hl1, hf1]

/-- The state in which `Evict` at level `i` hands the victim on: the eviction is counted, and
the write-back too if the victim is dirty. -/
theorem Evict_iff {fuel : Nat} {c : TieredCache} {i : Nat} {v : LineRef} {a lat : Nat}
    (hpol : c.opts_.inclusion_policy = InclusionPolicy.Exclusive) (hi : i < c.levels_.length)
    (r : TieredCache × Nat) :
    Evict (fuel + 1) c i v a lat = .ok r ↔
      (i + 1 < c.levels_.length ∧ (v.get c).dirty = true ∧
        HandleWrite fuel ((c.countEviction i).countWriteback i) (i + 1) a (v.dataSpan c) lat =
          .ok r) ∨
      (i + 1 < c.levels_.length ∧ (v.get c).dirty = false ∧
        HandleWrite fuel (c.countEviction i) (i + 1) a (v.dataSpan c) lat = .ok r) ∨
      (¬ i + 1 < c.levels_.length ∧ (v.get c).dirty = true ∧
        WriteToMemory ((c.countEviction i).countWriteback i) a ((v.dataSpan c).read c) lat =
          .ok r) ∨
      (¬ i + 1 < c.levels_.length ∧ (v.get c).dirty = false ∧ r = (c.countEviction i, lat)) := by
  obtain ⟨lv, hlv⟩ : ∃ lv, c.levels_[i]? = some lv := ⟨c.levels_[i], by simp [hi]⟩
  rw [Evict]
  simp only [hlv, hpol, if_true]
  by_cases hn : i + 1 < c.levels_.length <;> cases hd : (v.get c).dirty <;>
    simp [hn, hd, eq_comm]

/-- A read within one line that misses, under the exclusive policy, returns iff the `Evict` of
the victim (if `Allocate` hands one out) and the fetch of the line return. -/
theorem HandleRead_miss_iff {fuel : Nat} {c : TieredCache} {i a len lat : Nat} {wa : Bool}
    {level : CacheLevel} (hpol : c.opts_.inclusion_policy = InclusionPolicy.Exclusive)
    (hl : c.levels_[i]? = some level)
    (hns : len ≤ level.config_.line_size - level.GetOffset a) (hf : level.Find a = none)
    (r : TieredCache × List Nat × Nat) :
    HandleRead (fuel + 1) c i a len lat wa = .ok r ↔
      ∃ c3 lat3 c4 buf lat4,
        (((((c.countAccess i).countMiss i).Allocate level i a).2.1 = none ∧
            c3 = (((c.countAccess i).countMiss i).Allocate level i a).1 ∧
            lat3 = u32 (lat + level.config_.latency)) ∨
          ∃ v, (((c.countAccess i).countMiss i).Allocate level i a).2.1 = some v ∧
            Evict fuel (((c.countAccess i).countMiss i).Allocate level i a).1 i (LineRef.copy v)
              (level.GetAddr v.tag (level.GetIndex a)) (u32 (lat + level.config_.latency)) =
              .ok (c3, lat3)) ∧
        ((i + 1 < c3.levels_.length ∧
            HandleRead fuel c3 (i + 1) (level.GetAddr (level.GetTag a) (level.GetIndex a))
              level.config_.line_size lat3 wa = .ok (c4, buf, lat4)) ∨
          (¬ i + 1 < c3.levels_.length ∧ c4 = c3 ∧
            ReadFromMemory c3 (level.GetAddr (level.GetTag a) (level.GetIndex a))
              level.config_.line_size lat3 = .ok (buf, lat4))) ∧
        r = ((c4.install (((c.countAccess i).countMiss i).Allocate level i a).2.2
                (level.GetTag a) buf).exclusiveAfterRead i
                (level.GetAddr (level.GetTag a) (level.GetIndex a)) wa,
             ((c4.install (((c.countAccess i).countMiss i).Allocate level i a).2.2
                (level.GetTag a) buf).exclusiveAfterRead i
                (level.GetAddr (level.GetTag a) (level.GetIndex a)) wa).load
                (((c.countAccess i).countMiss i).Allocate level i a).2.2 (level.GetOffset a) len,
             lat4) := by
  have hp1 : (((c.countAccess i).countMiss i).Allocate level i a).1.opts_.inclusion_policy ≠
      InclusionPolicy.Inclusive := by
    show c.opts_.inclusion_policy ≠ InclusionPolicy.Inclusive
    rw [hpol]
    decide
  rw [HandleRead]
  simp only [hl, hf, gt_iff_lt, if_neg (Nat.not_lt.mpr hns)]
  rcases hA : ((c.countAccess i).countMiss i).Allocate level i a with ⟨c1, victim, nl⟩
  rw [hA] at hp1
  simp only at hp1
  simp only
  have fetch_iff : ∀ (c3 : TieredCache) (lat3 : Nat),
      (match (if i + 1 < c3.levels_.length then
                HandleRead fuel c3 (i + 1) (level.GetAddr (level.GetTag a) (level.GetIndex a))
                  level.config_.line_size lat3 wa
              else
                match ReadFromMemory c3 (level.GetAddr (level.GetTag a) (level.GetIndex a))
                    level.config_.line_size lat3 with
                | .error e => .error e
                | .ok (out, latency4) => .ok (c3, out, latency4)) with
        | .error e => .error e
        | .ok (c4, line_buffer, latency4) =>
          .ok (((c4.install nl (level.GetTag a) line_buffer).exclusiveAfterRead i
                  (level.GetAddr (level.GetTag a) (level.GetIndex a)) wa),
               ((c4.install nl (level.GetTag a) line_buffer).exclusiveAfterRead i
                  (level.GetAddr (level.GetTag a) (level.GetIndex a)) wa).load nl
                  (level.GetOffset a) len,
               latency4)) = Except.ok r ↔
      ∃ c4 buf lat4,
        ((i + 1 < c3.levels_.length ∧
            HandleRead fuel c3 (i + 1) (level.GetAddr (level.GetTag a) (level.GetIndex a))
              level.config_.line_size lat3 wa = .ok (c4, buf, lat4)) ∨
          (¬ i + 1 < c3.levels_.length ∧ c4 = c3 ∧
            ReadFromMemory c3 (level.GetAddr (level.GetTag a) (level.GetIndex a))
              level.config_.line_size lat3 = .ok (buf, lat4))) ∧
        r = ((c4.install nl (level.GetTag a) buf).exclusiveAfterRead i
                (level.GetAddr (level.GetTag a) (level.GetIndex a)) wa,
             ((c4.install nl (level.GetTag a) buf).exclusiveAfterRead i
                (level.GetAddr (level.GetTag a) (level.GetIndex a)) wa).load nl
                (level.GetOffset a) len, lat4) := by
    intro c3 lat3
    by_cases hn : i + 1 < c3.levels_.length
    · simp only [hn, if_true, true_and, not_true_eq_false, false_and, or_false]
      cases h4 : HandleRead fuel c3 (i + 1) (level.GetAddr (level.GetTag a) (level.GetIndex a))
          level.config_.line_size lat3 wa with
      | error e => simp
      | ok r4 =>
        obtain ⟨c4, buf, lat4⟩ := r4
        simp only [Except.ok.injEq, Prod.mk.injEq]
        constructor
        · intro h
          exact ⟨_, _, _, ⟨rfl, rfl, rfl⟩, h.symm⟩
        · rintro ⟨x1, x2, x3, ⟨rfl, rfl, rfl⟩, h⟩
          exact h.symm
    · simp only [hn, if_false, false_and, not_false_eq_true, true_and, false_or]
      cases h4 : ReadFromMemory c3 (level.GetAddr (level.GetTag a) (level.GetIndex a))
          level.config_.line_size lat3 with
      | error e => simp
      | ok r4 =>
        obtain ⟨buf, lat4⟩ := r4
        simp only [Except.ok.injEq, Prod.mk.injEq]
        constructor
        · intro h
          exact ⟨_, _, _, ⟨rfl, rfl, rfl⟩, h.symm⟩
        · rintro ⟨x1, x2, x3, ⟨rfl, rfl, rfl⟩, h⟩
          exact h.symm
  rcases victim with _ | v
  · simp only [true_and, false_and, exists_false, or_false, reduceCtorEq]
    refine Iff.trans (fetch_iff c1 (u32 (lat + level.config_.latency))) ?_
    constructor
    · rintro ⟨c4, buf, lat4, h1, h2⟩
      exact ⟨_, _, c4, buf, lat4, ⟨rfl, rfl⟩, h1, h2⟩
    · rintro ⟨c3, lat3, c4, buf, lat4, ⟨rfl, rfl⟩, h1, h2⟩
      exact ⟨c4, buf, lat4, h1, h2⟩
  · simp only [if_neg hp1, Option.some.injEq, false_and, false_or, reduceCtorEq]
    cases hE : Evict fuel c1 i (LineRef.copy v) (level.GetAddr v.tag (level.GetIndex a))
        (u32 (lat + level.config_.latency)) with
    | error e =>
      simp only [false_iff, not_exists, not_and, reduceCtorEq]
      rintro c3 lat3 c4 buf lat4 ⟨v', rfl, h3⟩
      rw [hE] at h3
      cases h3
    | ok r3 =>
      obtain ⟨c3, lat3⟩ := r3
      refine Iff.trans (fetch_iff c3 lat3) ?_
      constructor
      · rintro ⟨c4, buf, lat4, h1, h2⟩
        exact ⟨c3, lat3, c4, buf, lat4, ⟨v, rfl, hE⟩, h1, h2⟩
      · rintro ⟨x3, y3, c4, buf, lat4, ⟨v', hv', h3⟩, h1, h2⟩
        subst hv'
        rw [hE] at h3
        simp only [Except.ok.injEq, Prod.mk.injEq] at h3
        obtain ⟨rfl, rfl⟩ := h3
        exact ⟨c4, buf, lat4, h1, h2⟩

end MultilevelCache

namespace MultilevelCache

/-! ## The level invariant under the elementary updates -/

theorem length_of_getElem?_some' {l : List CacheLevel} {i : Nat} {lv : CacheLevel}
    (h : l[i]? = some lv) : i < l.length := by
  by_contra hc
  rw [List.getElem?_eq_none (by omega)] at h
  cases h

theorem CacheLevel.Inv.stats_inv {T msize : Nat} {L : List CacheLevel} {lv : CacheLevel}
    (h : lv.Inv T msize L) (st : CacheStats) :
    ({ lv with stats_ := st } : CacheLevel).Inv T msize L :=
  ⟨h.wf.stats_wf st, h.skel, h.ts_le, h.fetch⟩

theorem CacheLevel.Inv.of_sameLines_inv {T msize : Nat} {L : List CacheLevel} {lv lv' : CacheLevel}
    (h : lv.Inv T msize L) (hs : lv.SameLines lv') : lv'.Inv T msize L := by
  obtain ⟨st, rfl⟩ := hs
  exact h.stats_inv st

theorem CacheLevel.Inv.mono_T {T T' msize : Nat} {L : List CacheLevel} {lv : CacheLevel}
    (h : lv.Inv T msize L) (hT : T ≤ T') : lv.Inv T' msize L :=
  ⟨h.wf, h.skel, fun s w => le_trans (h.ts_le s w) hT, h.fetch⟩

/-- A write through a line pointer keeps the invariant when the level stays well formed, the
new time stamp is not above `T` and the new line, if valid, can be fetched. -/
theorem CacheLevel.Inv.modifyLine_inv {T msize : Nat} {L : List CacheLevel} {lv : CacheLevel}
    (h : lv.Inv T msize L) (s w : Nat) (f : CacheLine → CacheLine)
    (hwf : (lv.modifyLine s w f).WF lv.offset_bits_)
    (hts : (f (lv.lineAt s w)).lru_timestamp ≤ T)
    (hfe : (f (lv.lineAt s w)).valid = true →
      LineF msize L (lv.GetAddr (f (lv.lineAt s w)).tag s)) :
    (lv.modifyLine s w f).Inv T msize L where
  wf := hwf
  skel := by
    intro st hst
    exact @forall_mem_modify CacheSet
      (fun st => st.lines_.length = lv.config_.associativity ∧
        st.replacement_policy_ = lv.config_.replacement_policy)
      (fun st => { st with lines_ := st.lines_.modify f w })
      (by
        intro st hx
        refine ⟨?_, hx.2⟩
        show (st.lines_.modify f w).length = lv.config_.associativity
        rw [List.length_modify]
        exact hx.1) lv.sets_ s h.skel st hst
  ts_le := by
    intro s' w'
    rw [CacheLevel.lineAt_modifyLine]
    split
    · exact hts
    · exact h.ts_le s' w'
  fetch := by
    intro s' w' hv
    show LineF msize L (lv.GetAddr ((lv.modifyLine s w f).lineAt s' w').tag s')
    rw [CacheLevel.lineAt_modifyLine] at hv ⊢
    by_cases hc : s' = s ∧ w' = w ∧ w < (lv.setAt s).lines_.length
    · rw [if_pos hc] at hv ⊢
      rw [hc.1]
      exact hfe hv
    · rw [if_neg hc] at hv ⊢
      exact h.fetch s' w' hv

theorem CacheLevel.Inv.UpdateLRU_inv {T msize : Nat} {L : List CacheLevel} {lv : CacheLevel}
    (h : lv.Inv T msize L) (s w cyc : Nat) (hc : cyc ≤ T) :
    (lv.UpdateLRU s w cyc).Inv T msize L := by
  unfold CacheLevel.UpdateLRU
  split
  · exact h.modifyLine_inv s w _
      (h.wf.modifyLine_keep_wf s w _ (fun l => ⟨rfl, fun hv => hv⟩) (fun hl => hl)) hc
      (fun hv => h.fetch s w hv)
  · exact h

/-- The store into a resident line. -/
theorem CacheLevel.Inv.write_inv {T msize : Nat} {L : List CacheLevel} {lv : CacheLevel}
    (h : lv.Inv T msize L) (s w off : Nat) (src : List Nat)
    (hsrc : off + src.length ≤ lv.config_.line_size) :
    (lv.modifyLine s w (fun l => { l with data := memcpy l.data off src, dirty := true })).Inv
      T msize L :=
  h.modifyLine_inv s w _ (h.wf.write_wf s w off src hsrc) (h.ts_le s w) (fun hv => h.fetch s w hv)

/-- A line is made invalid. -/
theorem CacheLevel.Inv.invalidate_inv {T msize : Nat} {L : List CacheLevel} {lv : CacheLevel}
    (h : lv.Inv T msize L) (s w : Nat) (f : CacheLine → CacheLine)
    (hf : ∀ l, (f l).tag = l.tag ∧ (f l).valid = false ∧ (f l).data = l.data ∧
      (f l).lru_timestamp = l.lru_timestamp) :
    (lv.modifyLine s w f).Inv T msize L :=
  h.modifyLine_inv s w f
    (h.wf.modifyLine_keep_wf s w f (fun l => ⟨(hf l).1, fun hv => by rw [(hf l).2.1] at hv; cases hv⟩)
      (fun hl => by rw [(hf _).2.2.1]; exact hl))
    (by rw [(hf _).2.2.2]; exact h.ts_le s w)
    (fun hv => by rw [(hf _).2.1] at hv; cases hv)

theorem CacheLevel.SameGeom.symm_geom {lv lv' : CacheLevel} (h : lv.SameGeom lv') :
    lv'.SameGeom lv := ⟨h.1.symm, h.2.1.symm, h.2.2.1.symm, h.2.2.2.symm⟩

/-! ## The invariant of the hierarchy under the elementary updates -/

theorem InvFrom.mono_k {T msize : Nat} {G : List CacheLevel} {k k' : Nat} {c : TieredCache}
    (h : InvFrom T msize G k c) (hk : k ≤ k') : InvFrom T msize G k' c :=
  ⟨h.1, h.2.1, h.2.2.1, h.2.2.2.1, fun i lv hi hlv => h.2.2.2.2 i lv (le_trans hk hi) hlv⟩

theorem InvFrom.modifyLevel_inv {T msize : Nat} {G : List CacheLevel} {k : Nat} {c : TieredCache}
    (h : InvFrom T msize G k c) (i : Nat) (f : CacheLevel → CacheLevel)
    (hf : ∀ lv, k ≤ i → c.levels_[i]? = some lv → lv.Inv T msize (G.drop i) →
      lv.SameGeom (f lv) ∧ (f lv).Inv T msize (G.drop i)) :
    InvFrom T msize G k (c.modifyLevel i f) := by
  refine ⟨h.1, h.2.1, h.2.2.1, by rw [modifyLevel_length]; exact h.2.2.2.1, ?_⟩
  intro j lv hj hlv
  by_cases hij : i = j
  · subst hij
    rw [modifyLevel_getElem?_self] at hlv
    cases hl0 : c.levels_[i]? with
    | none => rw [hl0] at hlv; cases hlv
    | some lv0 =>
      rw [hl0] at hlv
      simp only [Option.map_some', Option.some.injEq] at hlv
      subst hlv
      obtain ⟨g, hg, hsg, hinv⟩ := h.2.2.2.2 i lv0 hj hl0
      obtain ⟨h1, h2⟩ := hf lv0 hj hl0 hinv
      exact ⟨g, hg, hsg.trans_geom h1, h2⟩
  · rw [modifyLevel_getElem?_ne _ _ _ _ hij] at hlv
    exact h.2.2.2.2 j lv hj hlv

theorem InvFrom.modifyStats_inv {T msize : Nat} {G : List CacheLevel} {k : Nat} {c : TieredCache}
    (h : InvFrom T msize G k c) (i : Nat) (f : CacheStats → CacheStats) :
    InvFrom T msize G k (c.modifyStats i f) :=
  h.modifyLevel_inv i _ (fun lv _ _ hinv =>
    ⟨⟨rfl, rfl, rfl, rfl⟩, hinv.stats_inv _⟩)

theorem InvFrom.UpdateLRU_from {T msize : Nat} {G : List CacheLevel} {k : Nat} {c : TieredCache}
    (h : InvFrom T msize G k c) (p : LinePtr) : InvFrom T msize G k (c.UpdateLRU p) :=
  h.modifyLevel_inv p.level _ (fun lv _ _ hinv =>
    ⟨CacheLevel.SameGeom.UpdateLRU_geom lv _ _ _,
      hinv.UpdateLRU_inv _ _ _ (le_of_eq h.2.1)⟩)

theorem InvFrom.of_levels_same {T msize : Nat} {G : List CacheLevel} {k : Nat} {c c' : TieredCache}
    (h : InvFrom T msize G k c) (ho : c'.opts_ = c.opts_) (hc : c'.current_cycle_ = T)
    (hm : c'.main_memory_.arena_.length = msize) (hl : c'.levels_ = c.levels_) :
    InvFrom T msize G k c' :=
  ⟨by rw [ho]; exact h.1, hc, hm, by rw [hl]; exact h.2.2.2.1,
    fun i lv hi hlv => h.2.2.2.2 i lv hi (by rw [← hl]; exact hlv)⟩

theorem InvFrom.extend {T msize : Nat} {G : List CacheLevel} {i : Nat} {c : TieredCache}
    (h : InvFrom T msize G (i + 1) c)
    (hi : ∀ lv, c.levels_[i]? = some lv →
      ∃ g, G[i]? = some g ∧ g.SameGeom lv ∧ lv.Inv T msize (G.drop i)) :
    InvFrom T msize G i c := by
  refine ⟨h.1, h.2.1, h.2.2.1, h.2.2.2.1, fun j lv hj hlv => ?_⟩
  by_cases hij : j = i
  · subst hij
    exact hi lv hlv
  · exact h.2.2.2.2 j lv (by omega) hlv

theorem InvFrom.store_inv {T msize : Nat} {G : List CacheLevel} {k : Nat} {c : TieredCache}
    (h : InvFrom T msize G k c) (p : LinePtr) (off : Nat) (inp : Span)
    (hsz : ∀ lv, c.levels_[p.level]? = some lv → off + inp.size ≤ lv.config_.line_size) :
    InvFrom T msize G k (c.store p off inp) := by
  show InvFrom T msize G k ((c.UpdateLRU p).modifyLevel p.level _)
  refine (h.UpdateLRU_from p).modifyLevel_inv p.level _ (fun lv _ hlv hinv => ?_)
  refine ⟨CacheLevel.SameGeom.modifyLine lv _ _ _, hinv.write_inv _ _ _ _ ?_⟩
  have hl : (c.UpdateLRU p).levels_[p.level]? =
      (c.levels_[p.level]?).map (fun lv => lv.UpdateLRU p.index p.way c.current_cycle_) :=
    modifyLevel_getElem?_self c p.level _
  rw [hl] at hlv
  cases hl0 : c.levels_[p.level]? with
  | none => rw [hl0] at hlv; cases hlv
  | some lv0 =>
    rw [hl0] at hlv
    simp only [Option.map_some', Option.some.injEq] at hlv
    subst hlv
    have := hsz lv0 hl0
    have hr := Span.read_length_le (c.UpdateLRU p) inp
    rw [(CacheLevel.SameGeom.UpdateLRU_geom lv0 _ _ _).1]
    omega

theorem InvFrom.InvalidateAux_inv {T msize : Nat} {G : List CacheLevel} {k : Nat} (y : Nat) :
    ∀ (n : Nat) (c : TieredCache) (j : Nat), InvFrom T msize G k c →
      InvFrom T msize G k (InvalidateInLowerLevelsAux n c j y) := by
  intro n
  induction n with
  | zero => intro c j h; exact h
  | succ n ih =>
    intro c j h
    rw [InvalidateInLowerLevelsAux]
    split
    · exact h
    · rename_i level hlevel
      apply ih
      split
      · exact h.modifyLevel_inv j _ (fun lv _ _ hinv =>
          ⟨CacheLevel.SameGeom.modifyLine lv _ _ _,
            hinv.invalidate_inv _ _ _ (fun l => ⟨rfl, rfl, rfl, rfl⟩)⟩)
      · exact h

theorem InvFrom.afterRead_inv {T msize : Nat} {G : List CacheLevel} {k : Nat} {c : TieredCache}
    (h : InvFrom T msize G k c) (i y : Nat) (wa : Bool) :
    InvFrom T msize G k (c.exclusiveAfterRead i y wa) := by
  unfold TieredCache.exclusiveAfterRead
  split
  · exact InvFrom.InvalidateAux_inv y _ c _ h
  · exact h

theorem InvFrom.afterWrite_inv {T msize : Nat} {G : List CacheLevel} {k : Nat} {c : TieredCache}
    (h : InvFrom T msize G k c) (i y : Nat) :
    InvFrom T msize G k (c.exclusiveAfterWrite i y) := by
  unfold TieredCache.exclusiveAfterWrite
  split
  · exact InvFrom.InvalidateAux_inv y _ c _ h
  · exact h

/-- The call `InvalidateInLowerLevels` from level `k` on leaves the levels above `k` as they are. -/
theorem InvalidateAux_above (y : Nat) : ∀ (n : Nat) (c : TieredCache) (k j : Nat), j < k →
    (InvalidateInLowerLevelsAux n c k y).levels_[j]? = c.levels_[j]? := by
  intro n
  induction n with
  | zero => intro c k j _; rfl
  | succ n ih =>
    intro c k j hj
    rw [InvalidateInLowerLevelsAux]
    split
    · rfl
    · rw [ih _ (k + 1) j (by omega)]
      split
      · exact modifyLevel_getElem?_ne c k j _ (by omega)
      · rfl

theorem afterRead_above (c : TieredCache) (i y : Nat) (wa : Bool) (j : Nat) (hj : j ≤ i) :
    (c.exclusiveAfterRead i y wa).levels_[j]? = c.levels_[j]? := by
  unfold TieredCache.exclusiveAfterRead
  split
  · exact InvalidateAux_above y _ c (i + 1) j (by omega)
  · rfl

theorem afterWrite_above (c : TieredCache) (i y : Nat) (j : Nat) (hj : j ≤ i) :
    (c.exclusiveAfterWrite i y).levels_[j]? = c.levels_[j]? := by
  unfold TieredCache.exclusiveAfterWrite
  split
  · exact InvalidateAux_above y _ c (i + 1) j (by omega)
  · rfl

theorem Memory.WriteSpan_length {m m' : Memory} {addr : Nat} {inp : List Nat}
    (h : m.WriteSpan addr inp = .ok m') : m'.arena_.length = m.arena_.length := by
  unfold Memory.WriteSpan Memory.CheckAddr at h
  split at h
  · cases h
  · rename_i hc
    split at hc
    · cases hc
    · rename_i hlt
      cases h
      exact memcpy_length _ _ _ (by omega)

theorem Evict_ok_lt {fuel : Nat} {c : TieredCache} {i : Nat} {v : LineRef} {a lat : Nat}
    {r : TieredCache × Nat} (h : Evict fuel c i v a lat = .ok r) : i < c.levels_.length := by
  rcases fuel with _ | fuel
  · simp [Evict] at h
  · rw [Evict] at h
    split at h
    · cases h
    · rename_i hl
      exact length_of_getElem?_some' hl

end MultilevelCache

namespace MultilevelCache

/-! ## The invariant under `Evict` and `HandleWrite` -/

theorem Evict_inv_step (fuel : Nat) (ihW : InvWrite fuel) : InvEvict (fuel + 1) := by
  intro T msize G c i v a lat r h ha he
  have hi := Evict_ok_lt he
  obtain ⟨lvi, hlvi⟩ : ∃ lv, c.levels_[i]? = some lv := ⟨c.levels_[i], by simp [hi]⟩
  have viaWrite : ∀ cE, InvFrom T msize G (i + 1) cE →
      (∃ lv', cE.levels_[i]? = some lv' ∧ lvi.SameLines lv') →
      HandleWrite fuel cE (i + 1) a (v.dataSpan c) lat = .ok r →
      InvFrom T msize G (i + 1) r.1 ∧
      ∀ lv, c.levels_[i]? = some lv → ∃ lv', r.1.levels_[i]? = some lv' ∧ lv.SameLines lv' := by
    intro cE hE hlE hw
    refine ⟨ihW T msize G _ (i + 1) a _ lat r hE ha hw, ?_⟩
    intro lv hlv
    rw [hlvi] at hlv
    cases hlv
    have hfr := ((frame_all (belowFrame (i + 1)) (Or.inr rfl) fuel).2.1 cE
      (i + 1) a (v.dataSpan c) lat r hE.1 (le_refl _) hw).1
    rw [hfr i (Nat.lt_succ_self i)]
    exact hlE
  have viaStay : ∀ cE (r' : TieredCache), InvFrom T msize G (i + 1) cE →
      (∃ lv', cE.levels_[i]? = some lv' ∧ lvi.SameLines lv') →
      r'.levels_ = cE.levels_ → r'.opts_ = cE.opts_ → r'.current_cycle_ = cE.current_cycle_ →
      r'.main_memory_.arena_.length = cE.main_memory_.arena_.length →
      InvFrom T msize G (i + 1) r' ∧
      ∀ lv, c.levels_[i]? = some lv → ∃ lv', r'.levels_[i]? = some lv' ∧ lv.SameLines lv' := by
    intro cE r' hE hlE hl ho hc hm
    refine ⟨hE.of_levels_same ho (by rw [hc]; exact hE.2.1) (by rw [hm]; exact hE.2.2.1) hl, ?_⟩
    intro lv hlv
    rw [hlvi] at hlv
    cases hlv
    rw [hl]
    exact hlE
  have e1 : InvFrom T msize G (i + 1) (c.countEviction i) := h.modifyStats_inv i _
  have e2 : ∃ lv', (c.countEviction i).levels_[i]? = some lv' ∧ lvi.SameLines lv' :=
    modifyStats_sameLines hlvi (CacheLevel.SameLines.refl_sl lvi) _
  have f1 : InvFrom T msize G (i + 1) ((c.countEviction i).countWriteback i) :=
    e1.modifyStats_inv i _
  have f2 : ∃ lv', ((c.countEviction i).countWriteback i).levels_[i]? = some lv' ∧
      lvi.SameLines lv' := by
    obtain ⟨lv', h1, h2⟩ := e2
    exact modifyStats_sameLines h1 h2 _
  rcases (Evict_iff h.1 hi r).mp he with ⟨_, _, hw⟩ | ⟨_, _, hw⟩ | ⟨_, _, hw⟩ | ⟨_, _, rfl⟩
  · exact viaWrite _ f1 f2 hw
  · exact viaWrite _ e1 e2 hw
  · obtain ⟨m, hm, hr⟩ := WriteToMemory_ok hw
    exact viaStay _ r.1 f1 f2 (by rw [hr]) (by rw [hr]) (by rw [hr])
      (by rw [hr]; exact Memory.WriteSpan_length hm)
  · exact viaStay _ _ e1 e2 rfl rfl rfl rfl

theorem HandleWrite_ok_some {fuel : Nat} {c : TieredCache} {i a lat : Nat} {inp : Span}
    {r : TieredCache × Nat} (h : HandleWrite fuel c i a inp lat = .ok r) :
    ∃ lv, c.levels_[i]? = some lv := by
  rcases fuel with _ | fuel
  · simp [HandleWrite] at h
  · rw [HandleWrite] at h
    split at h
    · cases h
    · rename_i lv hl
      exact ⟨lv, hl⟩

theorem HandleRead_ok_some {fuel : Nat} {c : TieredCache} {i a len lat : Nat} {wa : Bool}
    {r : TieredCache × List Nat × Nat} (h : HandleRead fuel c i a len lat wa = .ok r) :
    ∃ lv, c.levels_[i]? = some lv := by
  rcases fuel with _ | fuel
  · simp [HandleRead] at h
  · rw [HandleRead] at h
    split at h
    · cases h
    · rename_i lv hl
      exact ⟨lv, hl⟩

theorem u64_lt (n : Nat) : u64 n < 2 ^ 64 := Nat.mod_lt _ (by norm_num)

theorem HandleWrite_inv_step (fuel : Nat) (ihR : InvRead fuel) (ihW : InvWrite fuel) :
    InvWrite (fuel + 1) := by
  intro T msize G c i a inp lat r h ha hw
  obtain ⟨level, hl⟩ := HandleWrite_ok_some hw
  obtain ⟨g, hg, hsg, hinv⟩ := h.2.2.2.2 i level (le_refl i) hl
  by_cases hx : level.config_.line_size - level.GetOffset a < inp.size
  · obtain ⟨c1, lat1, h1, h2⟩ := (HandleWrite_cross_iff hl hx r).mp hw
    exact ihW T msize G c1 i _ _ _ r (ihW T msize G c i a _ lat _ h ha h1) (u64_lt _) h2
  have hns : inp.size ≤ level.config_.line_size - level.GetOffset a := Nat.not_lt.mp hx
  have hoff := hinv.wf.GetOffset_lt a
  cases hf : level.Find a with
  | some way =>
    rw [HandleWrite_hit_eq hl hns hf] at hw
    cases hw
    refine InvFrom.afterWrite_inv (InvFrom.store_inv ((h.modifyStats_inv i _).modifyStats_inv i _)
      _ _ _ ?_) _ _
    intro lv hlv
    have h0 : ((c.countAccess i).countHit i).levels_[i]? = _ :=
      modifyStats_level (modifyStats_level hl _) _
    have hlv' : ((c.countAccess i).countHit i).levels_[i]? = some lv := hlv
    rw [h0] at hlv'
    cases hlv'
    show level.GetOffset a + inp.size ≤ level.config_.line_size
    omega
  | none =>
    obtain ⟨c1, out, lat1, level1, way, h1, hl1, hf1, rfl⟩ :=
      (HandleWrite_miss_iff hl hns hf r).mp hw
    have hi1 := (ihR T msize G _ i a _ _ true _ ((h.modifyStats_inv i _).modifyStats_inv i _) ha
      h1).1
    obtain ⟨g1, hg1, hsg1, _⟩ := hi1.2.2.2.2 i level1 (le_refl i) hl1
    refine InvFrom.afterWrite_inv (InvFrom.store_inv hi1 _ _ _ ?_) _ _
    intro lv hlv
    have hlv' : c1.levels_[i]? = some lv := hlv
    rw [hl1] at hlv'
    cases hlv'
    rw [hg] at hg1
    cases hg1
    rw [hsg1.1, ← hsg.1]
    omega

end MultilevelCache

namespace MultilevelCache

/-! ## The invariant under `HandleRead` -/

theorem div_add_lt_aux {P Q a j : Nat} (hP : 0 < P) (ha : a < P * Q) (hj : a % P + j < P) :
    a + j < P * Q ∧ (a + j) / P = a / P := by
  have h1 : a / P < Q := Nat.div_lt_of_lt_mul ha
  have h2 := Nat.div_add_mod a P
  have h3 : P * (a / P + 1) ≤ P * Q := Nat.mul_le_mul_left P h1
  have h4 : P * (a / P + 1) = P * (a / P) + P := by ring
  constructor
  · omega
  · apply Nat.div_eq_of_lt_le
    · rw [Nat.mul_comm]; omega
    · rw [Nat.mul_comm]; omega

/-- An address in the same line of the level as `a`. -/
theorem CacheLevel.GeoOK.key_add {lv : CacheLevel} (g : lv.GeoOK) {a j : Nat} (ha : a < 2 ^ 64)
    (hj : j < lv.config_.line_size - lv.GetOffset a ∨ j = 0) :
    u64 (a + j) = a + j ∧ lv.GetTag (a + j) = lv.GetTag a ∧
      lv.GetIndex (a + j) = lv.GetIndex a := by
  have hj' : a % 2 ^ lv.offset_bits_ + j < 2 ^ lv.offset_bits_ := by
    rcases hj with hj | rfl
    · rw [g.line_size_eq, g.GetOffset_eq] at hj
      omega
    · exact Nat.mod_lt _ (by positivity)
  have hb := g.bits_le
  have h64 : (2 : Nat) ^ 64 = 2 ^ lv.offset_bits_ * 2 ^ (64 - lv.offset_bits_) := by
    rw [← pow_add]
    congr 1
    omega
  rw [h64] at ha
  obtain ⟨h1, h2⟩ := div_add_lt_aux (by positivity) ha hj'
  rw [← h64] at h1
  refine ⟨u64_of_lt h1, ?_⟩
  refine (g.key_eq_iff (a + j) a).mpr ?_
  unfold lineNo
  rw [Nat.shiftRight_eq_div_pow, Nat.shiftRight_eq_div_pow]
  exact h2

theorem CacheLevel.GetAddr_lt (lv : CacheLevel) (t s : Nat) : lv.GetAddr t s < 2 ^ 64 := by
  unfold CacheLevel.GetAddr
  exact Nat.or_lt_two_pow (u64_lt _) (u64_lt _)

theorem ReadFromMemory_ok_check {c : TieredCache} {addr len lat : Nat} {r : List Nat × Nat}
    (h : ReadFromMemory c addr len lat = .ok r) :
    u32 addr + len < c.main_memory_.arena_.length := by
  by_contra hlt
  unfold ReadFromMemory Memory.ReadSpan Memory.CheckAddr at h
  simp only [ge_iff_le, if_pos (Nat.not_lt.mp hlt)] at h
  cases h

theorem drop_eq_cons_of {G : List CacheLevel} {i : Nat} {g : CacheLevel} (h : G[i]? = some g) :
    G.drop i = g :: G.drop (i + 1) := by
  have hlt := length_of_getElem?_some' h
  rw [List.drop_eq_getElem_cons hlt]
  congr 1
  rw [List.getElem?_eq_getElem hlt] at h
  exact Option.some.inj h

theorem TieredCache.Allocate_level {c0 : TieredCache} {i : Nat} {level lv0 : CacheLevel}
    (hlv0 : c0.levels_[i]? = some lv0) (hsl : level.SameLines lv0) (a : Nat) :
    (∃ lvA, (c0.Allocate level i a).1.levels_[i]? = some lvA ∧
      (level.Allocate a c0.current_cycle_ (c0.rand_.headD 0)).1.SameLines lvA) ∧
    (∀ j, j ≠ i → (c0.Allocate level i a).1.levels_[j]? = c0.levels_[j]?) := by
  refine ⟨⟨(lv0.Allocate a c0.current_cycle_ (c0.rand_.headD 0)).1, ?_,
    (hsl.Allocate_sl a _ _).1⟩, fun j hj => modifyLevel_getElem?_ne c0 i j _ (fun e => hj e.symm)⟩
  show (c0.modifyLevel i _).levels_[i]? = _
  rw [modifyLevel_getElem?_self, hlv0]
  rfl

theorem InvFrom.Allocate_from {T msize : Nat} {G : List CacheLevel} {i : Nat} {c0 : TieredCache}
    (h : InvFrom T msize G (i + 1) c0) (level : CacheLevel) (a : Nat) :
    InvFrom T msize G (i + 1) (c0.Allocate level i a).1 :=
  (h.modifyLevel_inv i (fun lv => (lv.Allocate a c0.current_cycle_ (c0.rand_.headD 0)).1)
    (fun _ hk => absurd hk (by omega))).of_levels_same rfl h.2.1 h.2.2.1 rfl

/-- The level after `Allocate` on a miss satisfies the invariant once the line of the missing
address is known to be fetchable. -/
theorem CacheLevel.Inv.Allocate_inv {T msize : Nat} {L : List CacheLevel} {lv : CacheLevel}
    (h : lv.Inv T msize L) (a cyc rnd : Nat) (ha : a < 2 ^ 64) (hf : lv.Find a = none)
    (hc : cyc ≤ T) (hLF : LineF msize L (lv.GetAddr (lv.GetTag a) (lv.GetIndex a))) :
    (lv.Allocate a cyc rnd).1.Inv T msize L := by
  simp only [CacheLevel.Allocate]
  apply CacheLevel.Inv.UpdateLRU_inv _ _ _ _ hc
  refine h.modifyLine_inv _ _ _ ?_ (h.ts_le _ _) (fun _ => hLF)
  refine h.wf.modifyLine_wf _ _ _ (fun hl => hl) (h.wf.geo.GetTag_lt ha) ?_
  intro _ w2 _
  exact CacheLevel.Find_none hf w2

/-- The line fill at the end of a read miss. -/
theorem CacheLevel.Inv.fill_inv {T msize : Nat} {L : List CacheLevel} {lv : CacheLevel}
    (h : lv.Inv T msize L) (s w t : Nat) (buf : List Nat)
    (hbuf : buf.length ≤ lv.config_.line_size)
    (ht : t < 2 ^ (64 - (lv.index_bits_ + lv.offset_bits_)))
    (hfree : ∀ w2, w2 ≠ w → ¬ ((lv.lineAt s w2).valid = true ∧ (lv.lineAt s w2).tag = t))
    (hLF : LineF msize L (lv.GetAddr t s)) :
    (lv.modifyLine s w (fun l =>
      { l with data := memcpy l.data 0 buf, valid := true, dirty := false, tag := t })).Inv
      T msize L :=
  h.modifyLine_inv s w _ (h.wf.fill_wf s w t buf hbuf ht hfree) (h.ts_le s w) (fun _ => hLF)

theorem InvFrom.install_inv {T msize : Nat} {G : List CacheLevel} {k : Nat} {c : TieredCache}
    (h : InvFrom T msize G k c) (p : LinePtr) (t : Nat) (buf : List Nat)
    (hc : ∀ lv, c.levels_[p.level]? = some lv → buf.length ≤ lv.config_.line_size ∧
      t < 2 ^ (64 - (lv.index_bits_ + lv.offset_bits_)) ∧
      (∀ w2, w2 ≠ p.way →
        ¬ ((lv.lineAt p.index w2).valid = true ∧ (lv.lineAt p.index w2).tag = t)) ∧
      LineF msize (G.drop p.level) (lv.GetAddr t p.index)) :
    InvFrom T msize G k (c.install p t buf) := by
  show InvFrom T msize G k ((c.modifyLevel p.level _).UpdateLRU p)
  refine InvFrom.UpdateLRU_from (h.modifyLevel_inv p.level _ (fun lv _ hlv hinv => ?_)) p
  obtain ⟨h1, h2, h3, h4⟩ := hc lv hlv
  exact ⟨CacheLevel.SameGeom.modifyLine lv _ _ _, hinv.fill_inv _ _ _ _ h1 h2 h3 h4⟩

theorem CacheLevel.SameLines.geom {lv lv' : CacheLevel} (h : lv.SameLines lv') :
    lv.SameGeom lv' := by
  obtain ⟨st, rfl⟩ := h
  exact ⟨rfl, rfl, rfl, rfl⟩

theorem install_level {c : TieredCache} {p : LinePtr} {lv : CacheLevel}
    (hl : c.levels_[p.level]? = some lv) (t : Nat) (buf : List Nat) :
    (c.install p t buf).levels_[p.level]? =
      some ((lv.modifyLine p.index p.way (fun l =>
        { l with data := memcpy l.data 0 buf, valid := true, dirty := false,
                 tag := t })).UpdateLRU p.index p.way c.current_cycle_) := by
  show ((c.modifyLevel p.level _).modifyLevel p.level _).levels_[p.level]? = _
  rw [modifyLevel_getElem?_self, modifyLevel_getElem?_self, hl]
  rfl

theorem CacheLevel.Allocate_setAt_length (lv : CacheLevel) (a cyc rnd s : Nat) :
    ((lv.Allocate a cyc rnd).1.setAt s).lines_.length = (lv.setAt s).lines_.length := by
  simp only [CacheLevel.Allocate]
  rw [(CacheLevel.UpdateLRU_line _ _ _ _ s 0).2, CacheLevel.setAt_modifyLine_length]

theorem fill_Has {lv : CacheLevel} {a s w t : Nat} (buf : List Nat) (cyc : Nat)
    (hs : lv.GetIndex a = s) (ht : lv.GetTag a = t) (hw : w < (lv.setAt s).lines_.length) :
    ((lv.modifyLine s w (fun l =>
      { l with data := memcpy l.data 0 buf, valid := true, dirty := false,
               tag := t })).UpdateLRU s w cyc).Has a := by
  subst hs ht
  rw [CacheLevel.Has_UpdateLRU]
  exact CacheLevel.Has_modifyLine_self lv w _ a hw rfl rfl

theorem HandleRead_inv_step (fuel : Nat) (ihR : InvRead fuel) (ihE : InvEvict fuel) :
    InvRead (fuel + 1) := by
  intro T msize G c i a len lat wa r h ha hr
  obtain ⟨level, hl⟩ := HandleRead_ok_some hr
  obtain ⟨g, hg, hsg, hinv⟩ := h.2.2.2.2 i level (le_refl i) hl
  have hgeo := hinv.wf.geo
  have hoff := hinv.wf.GetOffset_lt a
  by_cases hx : level.config_.line_size - level.GetOffset a < len
  · -- the read crosses the end of the line
    obtain ⟨c1, out1, lat1, c2, out2, lat2, h1, h2, rfl⟩ := (HandleRead_cross_iff hl hx r).mp hr
    obtain ⟨i1, p1, _⟩ := ihR T msize G c i a _ lat wa _ h ha h1
    obtain ⟨i2, p2, _⟩ := ihR T msize G c1 i _ _ lat1 wa _ i1 (u64_lt _) h2
    refine ⟨i2, ?_, fun lv hlv hns => ?_⟩
    · intro g' hg' j hj
      by_cases hj1 : j < level.config_.line_size - level.GetOffset a
      · exact p1 g' hg' j (Or.inl hj1)
      · have hp := p2 g' hg' (j - (level.config_.line_size - level.GetOffset a))
          (Or.inl (by omega))
        have e : u64 (u64 (a + (level.config_.line_size - level.GetOffset a)) +
            (j - (level.config_.line_size - level.GetOffset a))) = u64 (a + j) := by
          unfold u64
          rw [Nat.mod_add_mod]
          congr 1
          omega
        rw [e] at hp
        exact hp
    · rw [hl] at hlv
      cases hlv
      omega
  have hns : len ≤ level.config_.line_size - level.GetOffset a := Nat.not_lt.mp hx
  have postb : LineF msize (G.drop i) (level.GetAddr (level.GetTag a) (level.GetIndex a)) →
      ∀ g', G[i]? = some g' → ∀ j, (j < len ∨ j = 0) →
        LineF msize (G.drop i)
          (g'.GetAddr (g'.GetTag (u64 (a + j))) (g'.GetIndex (u64 (a + j)))) := by
    intro hLF g' hg' j hj
    rw [hg] at hg'
    cases hg'
    have hk := hgeo.key_add ha (j := j) (by
      rcases hj with hj | hj
      · left; omega
      · right; exact hj)
    rw [hk.1, ← hsg.GetTag, ← hsg.GetIndex, ← hsg.GetAddr, hk.2.1, hk.2.2]
    exact hLF
  cases hf : level.Find a with
  | some way =>
    have hs := HandleRead_hit_state hl hns hf hr
    obtain ⟨_, hv, ht⟩ := CacheLevel.Find_some hf
    refine ⟨?_, postb (by rw [← ht]; exact hinv.fetch _ _ hv), fun _ _ _ => ?_⟩
    · rw [hs]
      exact InvFrom.UpdateLRU_from ((h.modifyStats_inv i _).modifyStats_inv i _) _
    · rw [hs, resident_UpdateLRU]
      show ((c.modifyStats i _).modifyStats i _).resident i a
      rw [resident_modifyStats, resident_modifyStats]
      exact ⟨level, hl, CacheLevel.Has_of_Find hf⟩
  | none =>
    obtain ⟨c3, lat3, c4, buf, lat4, hvict, hfetch, rfl⟩ :=
      (HandleRead_miss_iff h.1 hl hns hf r).mp hr
    have h0 : InvFrom T msize G i ((c.countAccess i).countMiss i) :=
      (h.modifyStats_inv i _).modifyStats_inv i _
    obtain ⟨lv0, hlv0, hsl0⟩ : ∃ lv0, ((c.countAccess i).countMiss i).levels_[i]? = some lv0 ∧
        level.SameLines lv0 := by
      obtain ⟨lv', h1, h2⟩ := modifyStats_sameLines hl (CacheLevel.SameLines.refl_sl level)
        (fun s => { s with accesses := u64 (s.accesses + 1) })
      exact modifyStats_sameLines h1 h2 _
    obtain ⟨⟨lvA, hlvA, hslA⟩, _⟩ := TieredCache.Allocate_level hlv0 hsl0 a
    have h1 : InvFrom T msize G (i + 1)
        (((c.countAccess i).countMiss i).Allocate level i a).1 :=
      (h0.mono_k (Nat.le_succ i)).Allocate_from level a
    have hE : InvFrom T msize G (i + 1) c3 ∧
        ∃ lv3, c3.levels_[i]? = some lv3 ∧ lvA.SameLines lv3 := by
      rcases hvict with ⟨_, rfl, _⟩ | ⟨v, _, hev⟩
      · exact ⟨h1, lvA, hlvA, CacheLevel.SameLines.refl_sl lvA⟩
      · obtain ⟨e1, e2⟩ := ihE T msize G _ i _ _ _ _ h1 (CacheLevel.GetAddr_lt _ _ _) hev
        exact ⟨e1, e2 lvA hlvA⟩
    obtain ⟨hI3, lv3, hlv3, hs3⟩ := hE
    have hF : InvFrom T msize G (i + 1) c4 ∧ c4.levels_[i]? = c3.levels_[i]? ∧
        buf.length ≤ level.config_.line_size ∧
        LineF msize (G.drop i) (level.GetAddr (level.GetTag a) (level.GetIndex a)) := by
      rcases hfetch with ⟨hn, h4⟩ | ⟨hn, rfl, h4⟩
      · obtain ⟨r1, r2, _⟩ := ihR T msize G c3 (i + 1) _ _ _ wa _ hI3
          (CacheLevel.GetAddr_lt _ _ _) h4
        have hfr := ((frame_all (belowFrame (i + 1)) (Or.inr rfl) fuel).1 c3 (i + 1) _ _ _ wa _
          hI3.1 (le_refl _) h4).1
        refine ⟨r1, hfr i (Nat.lt_succ_self i), HandleRead_length _ _ _ _ _ _ _ _ h4, ?_⟩
        rw [hI3.2.2.2.1] at hn
        obtain ⟨g', hg'⟩ : ∃ g', G[i + 1]? = some g' := ⟨G[i + 1], by simp [hn]⟩
        have hr2 := r2 g' hg'
        rw [drop_eq_cons_of hg, drop_eq_cons_of hg']
        rw [drop_eq_cons_of hg'] at hr2
        intro j hj
        exact hr2 j (Or.inl (by rw [hsg.1]; exact hj))
      · have hck := ReadFromMemory_ok_check h4
        rw [hI3.2.2.1] at hck
        rw [hI3.2.2.2.1] at hn
        refine ⟨hI3, rfl, ReadFromMemory_length h4, ?_⟩
        rw [drop_eq_cons_of hg, List.drop_eq_nil_of_le (by omega)]
        show u32 _ + g.config_.line_size < msize
        rw [← hsg.1]
        exact hck
    obtain ⟨hI4, hl4, hbuf, hLF⟩ := hF
    have hlv4 : c4.levels_[i]? = some lv3 := by rw [hl4]; exact hlv3
    have hA := hinv.Allocate_inv a ((c.countAccess i).countMiss i).current_cycle_
      (((c.countAccess i).countMiss i).rand_.headD 0) ha hf (le_of_eq h0.2.1) hLF
    have hgA := CacheLevel.Allocate_SameGeom level a
      ((c.countAccess i).countMiss i).current_cycle_
      (((c.countAccess i).countMiss i).rand_.headD 0)
    have hfree := CacheLevel.Allocate_free level a
      ((c.countAccess i).countMiss i).current_cycle_
      (((c.countAccess i).countMiss i).rand_.headD 0) hf
    have hway := hgeo.Allocate_way_lt a ((c.countAccess i).countMiss i).current_cycle_
      (((c.countAccess i).countMiss i).rand_.headD 0)
    obtain ⟨stA, rfl⟩ := hslA
    obtain ⟨st3, rfl⟩ := hs3
    have hI4' : InvFrom T msize G i c4 := hI4.extend (fun lv hlv => by
      rw [hlv4] at hlv
      cases hlv
      exact ⟨g, hg, hsg.trans_geom (hgA.trans_geom ⟨rfl, rfl, rfl, rfl⟩),
        (hA.stats_inv stA).stats_inv st3⟩)
    have hI5 := hI4'.install_inv (((c.countAccess i).countMiss i).Allocate level i a).2.2
      (level.GetTag a) buf (fun lv hlv => by
        have hlv' : c4.levels_[i]? = some lv := hlv
        rw [hlv4] at hlv'
        cases hlv'
        refine ⟨?_, ?_, hfree, ?_⟩
        · show buf.length ≤ (level.Allocate a _ _).1.config_.line_size
          rw [hgA.1]
          exact hbuf
        · show level.GetTag a < 2 ^ (64 - ((level.Allocate a _ _).1.index_bits_ +
            (level.Allocate a _ _).1.offset_bits_))
          rw [hgA.2.2.1, hgA.2.2.2]
          exact hgeo.GetTag_lt ha
        · show LineF msize (G.drop i) ((level.Allocate a _ _).1.GetAddr (level.GetTag a)
            (level.GetIndex a))
          rw [hgA.GetAddr]
          exact hLF)
    refine ⟨InvFrom.afterRead_inv hI5 _ _ _, postb hLF, fun _ _ _ => ?_⟩
    exact ⟨_, (afterRead_above _ _ _ _ _ (le_refl i)).trans
        (install_level (p := (((c.countAccess i).countMiss i).Allocate level i a).2.2)
          hlv4 _ _),
      fill_Has buf _ (hgA.GetIndex a) (hgA.GetTag a) (by
        show _ < ((level.Allocate a _ _).1.setAt (level.GetIndex a)).lines_.length
        rw [CacheLevel.Allocate_setAt_length]
        exact hway)⟩

end MultilevelCache

namespace MultilevelCache

/-! ## The invariant in every reachable state -/

theorem inv_all : ∀ fuel : Nat, InvRead fuel ∧ InvWrite fuel ∧ InvEvict fuel := by
  intro fuel
  induction fuel with
  | zero =>
    refine ⟨?_, ?_, ?_⟩
    · intro T msize G c i a len lat wa r _ _ h; simp [HandleRead] at h
    · intro T msize G c i a inp lat r _ _ h; simp [HandleWrite] at h
    · intro T msize G c i v a lat r _ _ h; simp [Evict] at h
  | succ fuel ih =>
    obtain ⟨ihR, ihW, ihE⟩ := ih
    exact ⟨HandleRead_inv_step fuel ihR ihE, HandleWrite_inv_step fuel ihR ihW,
      Evict_inv_step fuel ihW⟩

theorem InvFrom.retime {T T' msize : Nat} {G : List CacheLevel} {k : Nat} {c c' : TieredCache}
    (h : InvFrom T msize G k c) (hT : T ≤ T') (ho : c'.opts_ = c.opts_)
    (hc : c'.current_cycle_ = T') (hm : c'.main_memory_.arena_.length = msize)
    (hl : c'.levels_ = c.levels_) : InvFrom T' msize G k c' := by
  refine ⟨by rw [ho]; exact h.1, hc, hm, by rw [hl]; exact h.2.2.2.1, fun i lv hi hlv => ?_⟩
  rw [hl] at hlv
  obtain ⟨g, hg, hsg, hinv⟩ := h.2.2.2.2 i lv hi hlv
  exact ⟨g, hg, hsg, hinv.mono_T hT⟩

theorem CacheLevel.new_LevelInv {cfg : CacheLevelConfig} {lv : CacheLevel}
    (h : CacheLevel.new cfg = .ok lv) (hls : cfg.line_size < 2 ^ 64) (hsz : cfg.size < 2 ^ 64)
    (T msize : Nat) (L : List CacheLevel) : lv.Inv T msize L where
  wf := CacheLevel.new_WF h hls hsz
  skel := by
    intro s hs
    obtain ⟨hcfg, hsets⟩ := CacheLevel.new_sets h
    rw [hsets] at hs
    rw [List.eq_of_mem_replicate hs, hcfg]
    simp [CacheSet.new]
  ts_le := by
    intro s w
    rcases (CacheLevel.new_lineAt h s w).1 with e | e <;> rw [e] <;> exact Nat.zero_le _
  fetch := by
    intro s w hv
    rw [CacheLevel.new_invalid h s w] at hv
    cases hv

theorem InvFrom.fresh_inv {opts : Options} {m : Memory} {rand : List Nat} {c : TieredCache}
    (h : TieredCache.new opts m rand = .ok c)
    (hpol : opts.inclusion_policy = InclusionPolicy.Exclusive)
    (hcfg : ∀ cfg ∈ opts.cache_levels, cfg.line_size < 2 ^ 64 ∧ cfg.size < 2 ^ 64) :
    InvFrom 0 m.arena_.length c.levels_ 0 c ∧ c.opts_ = opts := by
  unfold TieredCache.new at h
  split at h
  · cases h
  rename_i levels hlv
  cases h
  refine ⟨⟨hpol, rfl, rfl, rfl, fun i lv _ hi => ⟨lv, hi, CacheLevel.SameGeom.refl_geom lv, ?_⟩⟩,
    rfl⟩
  obtain ⟨cfg, hmem, hnew⟩ := mapM_new_mem _ _ hlv lv (List.getElem?_mem hi)
  exact CacheLevel.new_LevelInv hnew (hcfg cfg hmem).1 (hcfg cfg hmem).2 _ _ _

theorem InvFrom.Demote_inv {T msize : Nat} {G : List CacheLevel} {fuel : Nat}
    {c c' : TieredCache} {a : Nat} (h : InvFrom T msize G 0 c) (hG : 0 < G.length)
    (hT : T + 1 < 2 ^ 64) (hc : c.Demote fuel a = .ok c') : InvFrom (T + 1) msize G 0 c' := by
  have hu : u64 (c.current_cycle_ + 1) = T + 1 := by rw [h.2.1]; exact u64_of_lt hT
  unfold TieredCache.Demote at hc
  split at hc
  · rename_i hn
    rw [List.getElem?_eq_getElem (by rw [h.2.2.2.1]; exact hG)] at hn
    cases hn
  rename_i l1 hl1
  have hS : InvFrom (T + 1) msize G 0 { c with current_cycle_ := u64 (c.current_cycle_ + 1) } :=
    h.retime (Nat.le_succ T) rfl hu h.2.2.1 rfl
  split at hc
  · cases hc
    exact hS
  rename_i way hway
  split at hc
  · cases hc
  rename_i c1 lat1 hev
  cases hc
  obtain ⟨e1, e2⟩ := (inv_all fuel).2.2 (T + 1) msize G _ 0 _ _ _ _ (hS.mono_k (Nat.zero_le 1))
    (CacheLevel.GetAddr_lt _ _ _) hev
  obtain ⟨lv', hlv', hs'⟩ := e2 l1 hl1
  obtain ⟨g, hg, hsg, hinv⟩ := hS.2.2.2.2 0 l1 (le_refl 0) hl1
  have hI1 : InvFrom (T + 1) msize G 0 c1 := e1.extend (fun lv hlv => by
    rw [hlv'] at hlv
    cases hlv
    exact ⟨g, hg, hsg.trans_geom hs'.geom, hinv.of_sameLines_inv hs'⟩)
  exact hI1.modifyLevel_inv 0 _ (fun lv _ _ hi =>
    ⟨CacheLevel.SameGeom.modifyLine lv _ _ _,
      hi.invalidate_inv _ _ _ (fun l => ⟨rfl, rfl, rfl, rfl⟩)⟩)

theorem InvFrom.call_inv {T msize : Nat} {G : List CacheLevel} {fuel : Nat}
    {c c' : TieredCache} {call : Call} (h : InvFrom T msize G 0 c) (hG : 0 < G.length)
    (hT : T + 1 < 2 ^ 64) (ha : call.addr < 2 ^ 32) (hc : c.call fuel call = .ok c') :
    InvFrom (T + 1) msize G 0 c' := by
  have ha64 : call.addr < 2 ^ 64 := lt_trans ha (by norm_num)
  have hu : u64 (c.current_cycle_ + 1) = T + 1 := by rw [h.2.1]; exact u64_of_lt hT
  have hne : c.levels_.isEmpty = false := by
    cases hl : c.levels_ with
    | nil =>
      have := h.2.2.2.1
      rw [hl] at this
      simp at this
      omega
    | cons x xs => rfl
  have hS : InvFrom (T + 1) msize G 0
      { c with current_cycle_ := u64 (c.current_cycle_ + 1), last_access_latency_ := 0 } :=
    h.retime (Nat.le_succ T) rfl hu h.2.2.1 rfl
  cases call with
  | read addr len =>
    simp only [TieredCache.call] at hc
    split at hc
    · cases hc
    rename_i c1 out hr
    cases hc
    unfold TieredCache.ReadSpan at hr
    simp only [hne, Bool.false_eq_true, if_false] at hr
    split at hr
    · cases hr
    rename_i c2 out2 lat2 hread
    cases hr
    have := ((inv_all fuel).1 (T + 1) msize G _ 0 addr len 0 false _ hS ha64 hread).1
    exact this.of_levels_same rfl this.2.1 this.2.2.1 rfl
  | write addr inp =>
    simp only [TieredCache.call] at hc
    unfold TieredCache.WriteSpan at hc
    simp only [hne, Bool.false_eq_true, if_false] at hc
    split at hc
    · cases hc
    rename_i c2 lat2 hw
    cases hc
    have := (inv_all fuel).2.1 (T + 1) msize G _ 0 addr (Span.buf inp) 0 _ hS ha64 hw
    exact this.of_levels_same rfl this.2.1 this.2.2.1 rfl
  | demote addr =>
    simp only [TieredCache.call] at hc
    exact h.Demote_inv hG hT hc

theorem InvFrom.run_inv {msize : Nat} {G : List CacheLevel} {fuel : Nat} (hG : 0 < G.length)
    (calls : List Call) :
    ∀ {T : Nat} {c c' : TieredCache}, InvFrom T msize G 0 c → T + calls.length < 2 ^ 64 →
      (∀ call ∈ calls, call.addr < 2 ^ 32) → c.run fuel calls = .ok c' →
      InvFrom (T + calls.length) msize G 0 c' := by
  induction calls with
  | nil =>
    intro T c c' h _ _ hr
    simp only [TieredCache.run] at hr
    cases hr
    exact h
  | cons call calls ih =>
    intro T c c' h hT hcalls hr
    simp only [TieredCache.run] at hr
    split at hr
    · cases hr
    rename_i c1 hc1
    simp only [List.length_cons] at hT ⊢
    have h1 := h.call_inv hG (by omega) (hcalls call (List.mem_cons_self _ _)) hc1
    have := ih h1 (by omega) (fun cl hcl => hcalls cl (List.mem_cons_of_mem _ hcl)) hr
    rw [show T + (calls.length + 1) = T + 1 + calls.length from by omega]
    exact this

theorem call_levels_nil {fuel : Nat} {c c' : TieredCache} {call : Call} (h : c.levels_ = [])
    (hc : c.call fuel call = .ok c') : c'.levels_ = [] := by
  have hn : c.levels_[0]? = none := by rw [h]; rfl
  have he : c.levels_.isEmpty = true := by rw [h]; rfl
  cases call with
  | read addr len =>
    simp only [TieredCache.call] at hc
    split at hc
    · cases hc
    rename_i c1 out hr
    cases hc
    unfold TieredCache.ReadSpan at hr
    simp only [he, if_true] at hr
    split at hr
    · cases hr
    · cases hr
      exact h
  | write addr inp =>
    simp only [TieredCache.call] at hc
    unfold TieredCache.WriteSpan at hc
    simp only [he, if_true] at hc
    split at hc
    · cases hc
    rename_i c2 lat2 hw
    cases hc
    obtain ⟨m, _, hr1⟩ := WriteToMemory_ok hw
    have h2 : c2 = _ := hr1
    rw [h2]
    exact h
  | demote addr =>
    simp only [TieredCache.call] at hc
    unfold TieredCache.Demote at hc
    simp only [hn] at hc
    cases hc
    exact h

theorem run_levels_nil {fuel : Nat} (calls : List Call) :
    ∀ {c c' : TieredCache}, c.levels_ = [] → c.run fuel calls = .ok c' → c'.levels_ = [] := by
  induction calls with
  | nil =>
    intro c c' h hr
    simp only [TieredCache.run] at hr
    cases hr
    exact h
  | cons call calls ih =>
    intro c c' h hr
    simp only [TieredCache.run] at hr
    split at hr
    · cases hr
    rename_i c1 hc1
    exact ih (call_levels_nil h hc1) hr

/-- Every state reached from the freshly constructed cache of an exclusive hierarchy with at
least one level satisfies the invariant, with the number of calls as cycle counter. -/
theorem InvFrom.reachable_from_new {fuel : Nat} {opts : Options} {m : Memory} {rand : List Nat}
    {calls : List Call} {c : TieredCache}
    (hpol : opts.inclusion_policy = InclusionPolicy.Exclusive)
    (hcfg : ∀ cfg ∈ opts.cache_levels, cfg.line_size < 2 ^ 64 ∧ cfg.size < 2 ^ 64)
    (hcalls : ∀ call ∈ calls, call.addr < 2 ^ 32) (hlen : calls.length < 2 ^ 64)
    (h : TieredCache.runFresh fuel opts m rand calls = .ok c) (hne : 0 < c.levels_.length) :
    ∃ G, InvFrom calls.length m.arena_.length G 0 c := by
  unfold TieredCache.runFresh at h
  split at h
  · cases h
  rename_i c0 hc0
  obtain ⟨h0, _⟩ := InvFrom.fresh_inv hc0 hpol hcfg
  by_cases hG : 0 < c0.levels_.length
  · have := InvFrom.run_inv hG calls h0 (by omega) hcalls h
    rw [Nat.zero_add] at this
    exact ⟨_, this⟩
  · exfalso
    have h1 := run_levels_nil calls (List.length_eq_zero.mp (by omega)) h
    rw [h1] at hne
    exact Nat.lt_irrefl 0 hne

end MultilevelCache

namespace MultilevelCache

/-! ## Calls on fetchable lines return -/

theorem ReadFromMemory_returns (c : TieredCache) (addr len lat : Nat)
    (h : u32 addr + len < c.main_memory_.arena_.length) :
    ∃ r, ReadFromMemory c addr len lat = .ok r := by
  unfold ReadFromMemory Memory.ReadSpan Memory.CheckAddr
  simp only [ge_iff_le, if_neg (Nat.not_le.mpr h)]
  exact ⟨_, rfl⟩

theorem WriteToMemory_returns (c : TieredCache) (addr : Nat) (inp : List Nat) (lat : Nat)
    (h : u32 addr + inp.length < c.main_memory_.arena_.length) :
    ∃ r, WriteToMemory c addr inp lat = .ok r := by
  unfold WriteToMemory Memory.WriteSpan Memory.CheckAddr
  simp only [ge_iff_le, if_neg (Nat.not_le.mpr h)]
  exact ⟨_, rfl⟩

theorem Span.size_subspan (inp : Span) (off cnt : Nat) (h : off + cnt ≤ inp.size) :
    (inp.subspan off cnt).size = cnt := by
  cases inp with
  | buf bytes =>
    show ((bytes.drop off).take cnt).length = cnt
    have : off + cnt ≤ bytes.length := h
    rw [List.length_take, List.length_drop]
    omega
  | line p o len => rfl

theorem FetchRange.first {msize : Nat} {G : List CacheLevel} {i a len len1 : Nat}
    (h : FetchRange msize G i a len) (hl : len1 ≤ len) : FetchRange msize G i a len1 :=
  fun g hg j hj => h g hg j (by omega)

theorem FetchRange.rest {msize : Nat} {G : List CacheLevel} {i a len len1 : Nat}
    (h : FetchRange msize G i a len) (hl : len1 < len) :
    FetchRange msize G i (u64 (a + len1)) (len - len1) := by
  intro g hg j hj
  have e : u64 (u64 (a + len1) + j) = u64 (a + (len1 + j)) := by
    unfold u64
    rw [Nat.mod_add_mod, Nat.add_assoc]
  rw [e]
  exact h g hg (len1 + j) (by omega)

/-- The range a whole line of level `i` covers at level `i + 1`. -/
theorem FetchRange.of_LineF {msize : Nat} {G : List CacheLevel} {i la : Nat} {g : CacheLevel}
    (hg : G[i]? = some g) (hn : i + 1 < G.length) (hpos : 0 < g.config_.line_size)
    (h : LineF msize (G.drop i) la) {len : Nat} (hlen : len ≤ g.config_.line_size) :
    FetchRange msize G (i + 1) la len := by
  intro g' hg' j hj
  rw [drop_eq_cons_of hg, drop_eq_cons_of hg'] at h
  rw [drop_eq_cons_of hg']
  exact h j (by omega)

theorem LineF.last {msize : Nat} {G : List CacheLevel} {i la : Nat} {g : CacheLevel}
    (hg : G[i]? = some g) (hn : ¬ i + 1 < G.length) (h : LineF msize (G.drop i) la) :
    u32 la + g.config_.line_size < msize := by
  rw [drop_eq_cons_of hg, List.drop_eq_nil_of_le (by omega)] at h
  exact h

/-- An `Evict` of a line that can be fetched returns, if `HandleWrite` at the next level does. -/
theorem Evict_returns {msize : Nat} {G : List CacheLevel} {T : Nat} {c : TieredCache}
    {i : Nat} {v : LineRef} {a : Nat} {g : CacheLevel} (lat : Nat)
    (hW : i + 1 < G.length → ∀ (T : Nat) (c : TieredCache) (a : Nat) (inp : Span) (lat : Nat),
      InvFrom T msize G (i + 1) c → a < 2 ^ 64 → FetchRange msize G (i + 1) a inp.size →
      ∃ fuel r, HandleWrite fuel c (i + 1) a inp lat = .ok r)
    (h : InvFrom T msize G (i + 1) c) (hg : G[i]? = some g) (hpos : 0 < g.config_.line_size)
    (ha : a < 2 ^ 64) (hsz : (v.dataSpan c).size ≤ g.config_.line_size)
    (hLF : LineF msize (G.drop i) a) : ∃ fuel r, Evict fuel c i v a lat = .ok r := by
  have hi : i < c.levels_.length := by
    rw [h.2.2.2.1]
    exact length_of_getElem?_some' hg
  by_cases hn : i + 1 < c.levels_.length
  · have hn' : i + 1 < G.length := by rw [← h.2.2.2.1]; exact hn
    have hfr : FetchRange msize G (i + 1) a (v.dataSpan c).size :=
      FetchRange.of_LineF hg hn' hpos hLF hsz
    cases hd : (v.get c).dirty with
    | true =>
      obtain ⟨f, r, hw⟩ := hW hn' T ((c.countEviction i).countWriteback i) a (v.dataSpan c) lat
        ((h.modifyStats_inv i _).modifyStats_inv i _) ha hfr
      exact ⟨f + 1, r, (Evict_iff h.1 hi r).mpr (Or.inl ⟨hn, hd, hw⟩)⟩
    | false =>
      obtain ⟨f, r, hw⟩ := hW hn' T (c.countEviction i) a (v.dataSpan c) lat
        (h.modifyStats_inv i _) ha hfr
      exact ⟨f + 1, r, (Evict_iff h.1 hi r).mpr (Or.inr (Or.inl ⟨hn, hd, hw⟩))⟩
  · have hn' : ¬ i + 1 < G.length := by rw [← h.2.2.2.1]; exact hn
    cases hd : (v.get c).dirty with
    | true =>
      have hlast := LineF.last hg hn' hLF
      have hr := Span.read_length_le c (v.dataSpan c)
      obtain ⟨r, hw⟩ := WriteToMemory_returns ((c.countEviction i).countWriteback i)
        a ((v.dataSpan c).read c) lat (by
          show _ < c.main_memory_.arena_.length
          rw [h.2.2.1]
          omega)
      exact ⟨0 + 1, r, (Evict_iff h.1 hi r).mpr (Or.inr (Or.inr (Or.inl ⟨hn, hd, hw⟩)))⟩
    | false =>
      exact ⟨0 + 1, _, (Evict_iff h.1 hi _).mpr (Or.inr (Or.inr (Or.inr ⟨hn, hd, rfl⟩)))⟩

/-- Under the exclusive policy, a read and a write at level `i` of bytes whose lines can be
fetched return when the budget is large enough. -/
theorem returns_all (msize : Nat) (G : List CacheLevel) : ∀ n i, i < G.length →
    G.length - i ≤ n →
    (∀ (len T : Nat) (c : TieredCache) (a lat : Nat) (wa : Bool),
      InvFrom T msize G i c → a < 2 ^ 64 → FetchRange msize G i a len →
      ∃ fuel r, HandleRead fuel c i a len lat wa = .ok r) ∧
    (∀ (size T : Nat) (c : TieredCache) (a : Nat) (inp : Span) (lat : Nat), inp.size = size →
      InvFrom T msize G i c → a < 2 ^ 64 → FetchRange msize G i a inp.size →
      ∃ fuel r, HandleWrite fuel c i a inp lat = .ok r) := by
  intro n
  induction n with
  | zero => intro i hi hn; omega
  | succ n ih =>
    intro i hi hn
    have ihR : i + 1 < G.length → ∀ (len T : Nat) (c : TieredCache) (a lat : Nat) (wa : Bool),
        InvFrom T msize G (i + 1) c → a < 2 ^ 64 → FetchRange msize G (i + 1) a len →
        ∃ fuel r, HandleRead fuel c (i + 1) a len lat wa = .ok r :=
      fun h => (ih (i + 1) h (by omega)).1
    have ihW : i + 1 < G.length → ∀ (T : Nat) (c : TieredCache) (a : Nat) (inp : Span)
        (lat : Nat), InvFrom T msize G (i + 1) c → a < 2 ^ 64 →
        FetchRange msize G (i + 1) a inp.size →
        ∃ fuel r, HandleWrite fuel c (i + 1) a inp lat = .ok r :=
      fun h T c a inp lat hI ha hf => (ih (i + 1) h (by omega)).2 inp.size T c a inp lat rfl hI ha hf
    have hR : ∀ (len T : Nat) (c : TieredCache) (a lat : Nat) (wa : Bool),
        InvFrom T msize G i c → a < 2 ^ 64 → FetchRange msize G i a len →
        ∃ fuel r, HandleRead fuel c i a len lat wa = .ok r := by
      intro len
      induction len using Nat.strong_induction_on with
      | _ len ihl =>
        intro T c a lat wa h ha hfr
        have hlt : i < c.levels_.length := by rw [h.2.2.2.1]; exact hi
        obtain ⟨level, hl⟩ : ∃ level, c.levels_[i]? = some level :=
          ⟨c.levels_[i], by simp [hlt]⟩
        obtain ⟨g, hg, hsg, hinv⟩ := h.2.2.2.2 i level (le_refl i) hl
        have hoff := hinv.wf.GetOffset_lt a
        have hgeo := hinv.wf.geo
        by_cases hx : level.config_.line_size - level.GetOffset a < len
        · obtain ⟨f1, ⟨c1, out1, lat1⟩, h1⟩ := ihl _ hx T c a lat wa h ha
            (hfr.first (le_of_lt hx))
          have i1 := ((inv_all f1).1 T msize G c i a _ lat wa _ h ha h1).1
          obtain ⟨f2, ⟨c2, out2, lat2⟩, h2⟩ := ihl
            (len - (level.config_.line_size - level.GetOffset a)) (by omega) T c1
            (u64 (a + (level.config_.line_size - level.GetOffset a))) lat1 wa i1 (u64_lt _)
            (hfr.rest hx)
          exact ⟨max f1 f2 + 1, _, (HandleRead_cross_iff hl hx _).mpr
            ⟨c1, out1, lat1, c2, out2, lat2, HandleRead_fuel_le (le_max_left _ _) h1,
              HandleRead_fuel_le (le_max_right _ _) h2, rfl⟩⟩
        · have hns := Nat.not_lt.mp hx
          cases hf : level.Find a with
          | some way => exact ⟨0 + 1, _, HandleRead_hit_eq hl hns hf⟩
          | none =>
            have hLF : LineF msize (G.drop i)
                (level.GetAddr (level.GetTag a) (level.GetIndex a)) := by
              have := hfr g hg 0 (Or.inr rfl)
              rw [Nat.add_zero, u64_of_lt ha, ← hsg.GetTag, ← hsg.GetIndex, ← hsg.GetAddr] at this
              exact this
            have hpos : 0 < g.config_.line_size := by rw [← hsg.1]; omega
            have h0 : InvFrom T msize G i ((c.countAccess i).countMiss i) :=
              (h.modifyStats_inv i _).modifyStats_inv i _
            have h1 : InvFrom T msize G (i + 1)
                (((c.countAccess i).countMiss i).Allocate level i a).1 :=
              (h0.mono_k (Nat.le_succ i)).Allocate_from level a
            -- the victim
            obtain ⟨fE, c3, lat3, hvict, hI3⟩ : ∃ fE c3 lat3,
                (((((c.countAccess i).countMiss i).Allocate level i a).2.1 = none ∧
                    c3 = (((c.countAccess i).countMiss i).Allocate level i a).1 ∧
                    lat3 = u32 (lat + level.config_.latency)) ∨
                  ∃ v, (((c.countAccess i).countMiss i).Allocate level i a).2.1 = some v ∧
                    Evict fE (((c.countAccess i).countMiss i).Allocate level i a).1 i
                      (LineRef.copy v) (level.GetAddr v.tag (level.GetIndex a))
                      (u32 (lat + level.config_.latency)) = .ok (c3, lat3)) ∧
                InvFrom T msize G (i + 1) c3 := by
              cases hv : (((c.countAccess i).countMiss i).Allocate level i a).2.1 with
              | none => exact ⟨0, _, _, Or.inl ⟨rfl, rfl, rfl⟩, h1⟩
              | some v =>
                have hv' : (level.Allocate a ((c.countAccess i).countMiss i).current_cycle_
                    (((c.countAccess i).countMiss i).rand_.headD 0)).2.1 = some v := hv
                rw [CacheLevel.Allocate_victim] at hv'
                split at hv'
                · rename_i hval
                  cases hv'
                  have hway := hgeo.Allocate_way_lt a
                    ((c.countAccess i).countMiss i).current_cycle_
                    (((c.countAccess i).countMiss i).rand_.headD 0)
                  obtain ⟨fE, ⟨c3, lat3⟩, hE⟩ := Evict_returns
                    (v := LineRef.copy (level.lineAt (level.GetIndex a)
                      (level.Allocate a ((c.countAccess i).countMiss i).current_cycle_
                        (((c.countAccess i).countMiss i).rand_.headD 0)).2.2))
                    (u32 (lat + level.config_.latency)) ihW h1 hg hpos
                    (CacheLevel.GetAddr_lt level _ (level.GetIndex a))
                    (by
                      show (level.lineAt _ _).data.length ≤ _
                      rw [hinv.wf.data_len _ _ hway, hsg.1])
                    (hinv.fetch _ _ hval)
                  exact ⟨fE, c3, lat3, Or.inr ⟨_, rfl, hE⟩,
                    ((inv_all fE).2.2 T msize G _ i _ _ _ _ h1
                      (CacheLevel.GetAddr_lt _ _ _) hE).1⟩
                · cases hv'
            -- the fetch
            obtain ⟨fF, c4, buf, lat4, hfetch⟩ : ∃ fF c4 buf lat4,
                (i + 1 < c3.levels_.length ∧
                    HandleRead fF c3 (i + 1)
                      (level.GetAddr (level.GetTag a) (level.GetIndex a))
                      level.config_.line_size lat3 wa = .ok (c4, buf, lat4)) ∨
                  (¬ i + 1 < c3.levels_.length ∧ c4 = c3 ∧
                    ReadFromMemory c3 (level.GetAddr (level.GetTag a) (level.GetIndex a))
                      level.config_.line_size lat3 = .ok (buf, lat4)) := by
              by_cases hn : i + 1 < c3.levels_.length
              · have hn' : i + 1 < G.length := by rw [← hI3.2.2.2.1]; exact hn
                obtain ⟨fF, ⟨c4, buf, lat4⟩, h4⟩ := ihR hn' level.config_.line_size T c3
                  (level.GetAddr (level.GetTag a) (level.GetIndex a)) lat3 wa hI3
                  (CacheLevel.GetAddr_lt _ _ _)
                  (FetchRange.of_LineF hg hn' hpos hLF (le_of_eq (by rw [hsg.1])))
                exact ⟨fF, c4, buf, lat4, Or.inl ⟨hn, h4⟩⟩
              · have hn' : ¬ i + 1 < G.length := by rw [← hI3.2.2.2.1]; exact hn
                have hlast := LineF.last hg hn' hLF
                obtain ⟨⟨buf, lat4⟩, h4⟩ := ReadFromMemory_returns c3
                  (level.GetAddr (level.GetTag a) (level.GetIndex a))
                  level.config_.line_size lat3 (by rw [hI3.2.2.1, hsg.1]; exact hlast)
                exact ⟨0, c3, buf, lat4, Or.inr ⟨hn, rfl, h4⟩⟩
            refine ⟨max fE fF + 1, _, (HandleRead_miss_iff h.1 hl hns hf _).mpr
              ⟨c3, lat3, c4, buf, lat4, ?_, ?_, rfl⟩⟩
            · rcases hvict with hv | ⟨v, hv, hE⟩
              · exact Or.inl hv
              · exact Or.inr ⟨v, hv, Evict_fuel_le (le_max_left _ _) hE⟩
            · rcases hfetch with ⟨hn, h4⟩ | hm
              · exact Or.inl ⟨hn, HandleRead_fuel_le (le_max_right _ _) h4⟩
              · exact Or.inr hm
    refine ⟨hR, ?_⟩
    intro size
    induction size using Nat.strong_induction_on with
    | _ size ihs =>
      intro T c a inp lat hsize h ha hfr
      have hlt : i < c.levels_.length := by rw [h.2.2.2.1]; exact hi
      obtain ⟨level, hl⟩ : ∃ level, c.levels_[i]? = some level :=
        ⟨c.levels_[i], by simp [hlt]⟩
      obtain ⟨g, hg, hsg, hinv⟩ := h.2.2.2.2 i level (le_refl i) hl
      have hoff := hinv.wf.GetOffset_lt a
      by_cases hx : level.config_.line_size - level.GetOffset a < inp.size
      · have hs1 := Span.size_subspan inp 0 (level.config_.line_size - level.GetOffset a)
          (by omega)
        have hs2 := Span.size_subspan inp (level.config_.line_size - level.GetOffset a)
          (inp.size - (level.config_.line_size - level.GetOffset a)) (by omega)
        obtain ⟨f1, ⟨c1, lat1⟩, h1⟩ := ihs _ (by rw [← hsize]; exact hx) T c a
          (inp.subspan 0 (level.config_.line_size - level.GetOffset a)) lat hs1 h ha
          (by rw [hs1]; exact hfr.first (le_of_lt hx))
        have i1 := (inv_all f1).2.1 T msize G c i a _ lat _ h ha h1
        obtain ⟨f2, r2, h2⟩ := ihs (inp.size - (level.config_.line_size - level.GetOffset a))
          (by omega) T c1 (u64 (a + (level.config_.line_size - level.GetOffset a)))
          (inp.subspan (level.config_.line_size - level.GetOffset a)
            (inp.size - (level.config_.line_size - level.GetOffset a))) lat1 hs2 i1 (u64_lt _)
          (by rw [hs2]; exact hfr.rest hx)
        exact ⟨max f1 f2 + 1, r2, (HandleWrite_cross_iff hl hx r2).mpr
          ⟨c1, lat1, HandleWrite_fuel_le (le_max_left _ _) h1,
            HandleWrite_fuel_le (le_max_right _ _) h2⟩⟩
      · have hns := Nat.not_lt.mp hx
        cases hf : level.Find a with
        | some way => exact ⟨0 + 1, _, HandleWrite_hit_eq hl hns hf⟩
        | none =>
          have h0 : InvFrom T msize G i ((c.countAccess i).countMiss i) :=
            (h.modifyStats_inv i _).modifyStats_inv i _
          obtain ⟨f1, ⟨c1, out, lat1⟩, h1⟩ := hR inp.size T ((c.countAccess i).countMiss i) a
            (u32 (lat + level.config_.latency)) true h0 ha hfr
          obtain ⟨lv0, hlv0, hsl0⟩ : ∃ lv0,
              ((c.countAccess i).countMiss i).levels_[i]? = some lv0 ∧ level.SameLines lv0 := by
            obtain ⟨lv', e1, e2⟩ := modifyStats_sameLines hl (CacheLevel.SameLines.refl_sl level)
              (fun s => { s with accesses := u64 (s.accesses + 1) })
            exact modifyStats_sameLines e1 e2 _
          obtain ⟨st, rfl⟩ := hsl0
          obtain ⟨level1, hl1, hhas⟩ := ((inv_all f1).1 T msize G _ i a _ _ true _ h0 ha h1).2.2
            _ hlv0 hns
          obtain ⟨way, hway⟩ := Option.isSome_iff_exists.mp hhas
          exact ⟨f1 + 1, _, (HandleWrite_miss_iff hl hns hf _).mpr
            ⟨c1, out, lat1, level1, way, h1, hl1, hway, rfl⟩⟩

end MultilevelCache

namespace MultilevelCache

/-! ## Updates of one line of a level -/

theorem CacheLevel.UpdateLRU_lineAt (lv : CacheLevel) (s w cyc s' w' : Nat) :
    (lv.UpdateLRU s w cyc).lineAt s' w' =
      if lv.config_.replacement_policy = ReplacementPolicy.LRU ∧ s' = s ∧ w' = w ∧
          w < (lv.setAt s).lines_.length then
        { lv.lineAt s w with lru_timestamp := cyc }
      else lv.lineAt s' w' := by
  unfold CacheLevel.UpdateLRU
  by_cases hp : lv.config_.replacement_policy = ReplacementPolicy.LRU
  · rw [if_pos hp, CacheLevel.lineAt_modifyLine]
    simp only [hp, true_and]
  · rw [if_neg hp]
    simp only [hp, false_and, if_false]

theorem CacheLevel.UpdateLRU_setAt_length (lv : CacheLevel) (s w cyc s' : Nat) :
    ((lv.UpdateLRU s w cyc).setAt s').lines_.length = (lv.setAt s').lines_.length :=
  (CacheLevel.UpdateLRU_line lv s w cyc s' 0).2

theorem CacheLevel.SlotUpd.refl_slot (lv : CacheLevel) (s w : Nat) : lv.SlotUpd lv s w :=
  ⟨CacheLevel.SameGeom.refl_geom lv, fun _ => rfl, fun _ _ _ => rfl⟩

theorem CacheLevel.SlotUpd.trans_slot {a b c : CacheLevel} {s w : Nat} (h1 : a.SlotUpd b s w)
    (h2 : b.SlotUpd c s w) : a.SlotUpd c s w :=
  ⟨h1.1.trans_geom h2.1, fun s' => (h2.2.1 s').trans (h1.2.1 s'),
    fun s' w' hne => (h2.2.2 s' w' hne).trans (h1.2.2 s' w' hne)⟩

theorem CacheLevel.SlotUpd.of_sameLines {lv lv' : CacheLevel} (h : lv.SameLines lv')
    (s w : Nat) : lv.SlotUpd lv' s w := by
  obtain ⟨st, rfl⟩ := h
  exact ⟨⟨rfl, rfl, rfl, rfl⟩, fun _ => rfl, fun _ _ _ => rfl⟩

theorem CacheLevel.SlotUpd.of_modifyLine (lv : CacheLevel) (s w : Nat)
    (f : CacheLine → CacheLine) : lv.SlotUpd (lv.modifyLine s w f) s w := by
  refine ⟨CacheLevel.SameGeom.modifyLine lv s w f,
    fun s' => CacheLevel.setAt_modifyLine_length lv s w f s', fun s' w' hne => ?_⟩
  rw [CacheLevel.lineAt_modifyLine, if_neg (fun hc => hne ⟨hc.1, hc.2.1⟩)]

theorem CacheLevel.SlotUpd.of_UpdateLRU (lv : CacheLevel) (s w cyc : Nat) :
    lv.SlotUpd (lv.UpdateLRU s w cyc) s w := by
  refine ⟨CacheLevel.SameGeom.UpdateLRU_geom lv s w cyc,
    fun s' => CacheLevel.UpdateLRU_setAt_length lv s w cyc s', fun s' w' hne => ?_⟩
  rw [CacheLevel.UpdateLRU_lineAt, if_neg (fun hc => hne ⟨hc.2.1, hc.2.2.1⟩)]

theorem CacheLevel.SlotUpd.of_Allocate (lv : CacheLevel) (a cyc rnd : Nat) :
    lv.SlotUpd (lv.Allocate a cyc rnd).1 (lv.GetIndex a)
      ((lv.setAt (lv.GetIndex a)).FindVictim cyc rnd) := by
  simp only [CacheLevel.Allocate]
  exact (CacheLevel.SlotUpd.of_modifyLine lv _ _ _).trans_slot
    (CacheLevel.SlotUpd.of_UpdateLRU _ _ _ _)

/-- The line that `Allocate` hands out. -/
theorem CacheLevel.Allocate_slot_line (lv : CacheLevel) (a cyc rnd : Nat)
    (hw : (lv.setAt (lv.GetIndex a)).FindVictim cyc rnd <
      (lv.setAt (lv.GetIndex a)).lines_.length) :
    ((lv.Allocate a cyc rnd).1.lineAt (lv.GetIndex a)
      ((lv.setAt (lv.GetIndex a)).FindVictim cyc rnd)).valid = true ∧
    ((lv.Allocate a cyc rnd).1.lineAt (lv.GetIndex a)
      ((lv.setAt (lv.GetIndex a)).FindVictim cyc rnd)).tag = lv.GetTag a := by
  simp only [CacheLevel.Allocate]
  rw [CacheLevel.UpdateLRU_lineAt]
  split
  · rw [CacheLevel.lineAt_modifyLine, if_pos ⟨rfl, rfl, hw⟩]
    exact ⟨rfl, rfl⟩
  · rw [CacheLevel.lineAt_modifyLine, if_pos ⟨rfl, rfl, hw⟩]
    exact ⟨rfl, rfl⟩

/-- The line after the fill at the end of a read miss. -/
theorem fill_slot_line (lv : CacheLevel) (s w t cyc : Nat) (buf : List Nat)
    (hw : w < (lv.setAt s).lines_.length) :
    (((lv.modifyLine s w (fun l =>
        { l with data := memcpy l.data 0 buf, valid := true, dirty := false,
                 tag := t })).UpdateLRU s w cyc).lineAt s w).valid = true ∧
    (((lv.modifyLine s w (fun l =>
        { l with data := memcpy l.data 0 buf, valid := true, dirty := false,
                 tag := t })).UpdateLRU s w cyc).lineAt s w).tag = t ∧
    (((lv.modifyLine s w (fun l =>
        { l with data := memcpy l.data 0 buf, valid := true, dirty := false,
                 tag := t })).UpdateLRU s w cyc).lineAt s w).data =
      memcpy (lv.lineAt s w).data 0 buf := by
  rw [CacheLevel.UpdateLRU_lineAt]
  split
  · rw [CacheLevel.lineAt_modifyLine, if_pos ⟨rfl, rfl, hw⟩]
    exact ⟨rfl, rfl, rfl⟩
  · rw [CacheLevel.lineAt_modifyLine, if_pos ⟨rfl, rfl, hw⟩]
    exact ⟨rfl, rfl, rfl⟩

/-- The line after the store into a resident line. -/
theorem write_slot_line (lv : CacheLevel) (s w off cyc : Nat) (src : List Nat)
    (hw : w < (lv.setAt s).lines_.length) :
    (((lv.UpdateLRU s w cyc).modifyLine s w (fun l =>
        { l with data := memcpy l.data off src, dirty := true })).lineAt s w).valid =
      (lv.lineAt s w).valid ∧
    (((lv.UpdateLRU s w cyc).modifyLine s w (fun l =>
        { l with data := memcpy l.data off src, dirty := true })).lineAt s w).tag =
      (lv.lineAt s w).tag ∧
    (((lv.UpdateLRU s w cyc).modifyLine s w (fun l =>
        { l with data := memcpy l.data off src, dirty := true })).lineAt s w).data =
      memcpy (lv.lineAt s w).data off src ∧
    (lv.config_.replacement_policy = ReplacementPolicy.LRU →
      (((lv.UpdateLRU s w cyc).modifyLine s w (fun l =>
        { l with data := memcpy l.data off src, dirty := true })).lineAt s w).lru_timestamp =
        cyc) := by
  rw [CacheLevel.lineAt_modifyLine,
    if_pos ⟨rfl, rfl, by rw [CacheLevel.UpdateLRU_setAt_length]; exact hw⟩,
    CacheLevel.UpdateLRU_lineAt]
  by_cases hp : lv.config_.replacement_policy = ReplacementPolicy.LRU
  · rw [if_pos ⟨hp, rfl, rfl, hw⟩]
    exact ⟨rfl, rfl, rfl, fun _ => rfl⟩
  · rw [if_neg (fun hc => hp hc.1)]
    exact ⟨rfl, rfl, rfl, fun h => absurd h hp⟩

theorem store_level {c : TieredCache} {p : LinePtr} {lv : CacheLevel}
    (hl : c.levels_[p.level]? = some lv) (off : Nat) (inp : Span) :
    (c.store p off inp).levels_[p.level]? =
      some ((lv.UpdateLRU p.index p.way c.current_cycle_).modifyLine p.index p.way (fun l =>
        { l with data := memcpy l.data off (inp.read (c.UpdateLRU p)), dirty := true })) := by
  show ((c.modifyLevel p.level _).modifyLevel p.level _).levels_[p.level]? = _
  rw [modifyLevel_getElem?_self, modifyLevel_getElem?_self, hl]
  rfl

theorem store_other (c : TieredCache) (p : LinePtr) (off : Nat) (inp : Span) (j : Nat)
    (hj : p.level ≠ j) : (c.store p off inp).levels_[j]? = c.levels_[j]? := by
  show ((c.modifyLevel p.level _).modifyLevel p.level _).levels_[j]? = _
  rw [modifyLevel_getElem?_ne _ _ _ _ hj, modifyLevel_getElem?_ne _ _ _ _ hj]

theorem install_other (c : TieredCache) (p : LinePtr) (t : Nat) (buf : List Nat) (j : Nat)
    (hj : p.level ≠ j) : (c.install p t buf).levels_[j]? = c.levels_[j]? := by
  show ((c.modifyLevel p.level _).modifyLevel p.level _).levels_[j]? = _
  rw [modifyLevel_getElem?_ne _ _ _ _ hj, modifyLevel_getElem?_ne _ _ _ _ hj]

theorem modifyStats_other (c : TieredCache) (i : Nat) (f : CacheStats → CacheStats) (j : Nat)
    (hj : i ≠ j) : (c.modifyStats i f).levels_[j]? = c.levels_[j]? :=
  modifyLevel_getElem?_ne _ _ _ _ hj

theorem memcpy_getElem?_mid (dst src : List Nat) (off j : Nat) (ho : off ≤ dst.length)
    (hj : j < src.length) : (memcpy dst off src)[off + j]? = src[j]? := by
  unfold memcpy
  rw [List.append_assoc, List.getElem?_append_right (by rw [List.length_take]; omega)]
  rw [List.length_take, Nat.min_eq_left ho, Nat.add_sub_cancel_left,
    List.getElem?_append_left hj]

end MultilevelCache

namespace MultilevelCache

/-! ## One part of a line written to the next level -/

theorem Span.line_read_getElem? (Y : TieredCache) (p : LinePtr) (off q : Nat) {D : List Nat}
    (hY : (Y.lineAt p).data = D) (hoq : off + q ≤ D.length) :
    ((Span.line p off q).read Y).length = q ∧
    ∀ j, j < q → ((Span.line p off q).read Y)[j]? = D[off + j]? := by
  show (((Y.lineAt p).data.drop off).take q).length = q ∧
    ∀ j, j < q → (((Y.lineAt p).data.drop off).take q)[j]? = D[off + j]?
  rw [hY]
  constructor
  · rw [List.length_take, List.length_drop]
    omega
  · intro j hj
    rw [List.getElem?_take_of_lt hj, List.getElem?_drop]

/-- The bytes of the written part in the line. -/
theorem part_data {base D : List Nat} {src : List Nat} {off2 off q : Nat}
    (hb : off2 ≤ base.length) (hlen : src.length = q)
    (hsrc : ∀ j, j < q → src[j]? = D[off + j]?) :
    ∀ j, j < q → (memcpy base off2 src)[off2 + j]? = D[off + j]? := by
  intro j hj
  rw [memcpy_getElem?_mid base src off2 j hb (by omega)]
  exact hsrc j hj

theorem HandleWrite_part_hit {fuel : Nat} {X : TieredCache} {a off q lat : Nat} {p : LinePtr}
    {r : TieredCache × Nat} {lX : CacheLevel} {T msize : Nat} {G : List CacheLevel} {w : Nat}
    (hI : InvFrom T msize G 1 X) (hp : p.level = 0) (hl : X.levels_[1]? = some lX)
    (hns : q ≤ lX.config_.line_size - lX.GetOffset a)
    (hoq : off + q ≤ (X.lineAt p).data.length) (hf : lX.Find a = some w)
    (h : HandleWrite (fuel + 1) X 1 a (Span.line p off q) lat = .ok r) :
    r.1.levels_[0]? = X.levels_[0]? ∧
    ∃ lX', r.1.levels_[1]? = some lX' ∧ lX.SlotUpd lX' (lX.GetIndex a) w ∧
      w < (lX.setAt (lX.GetIndex a)).lines_.length ∧
      (lX'.lineAt (lX.GetIndex a) w).valid = true ∧
      (lX'.lineAt (lX.GetIndex a) w).tag = lX.GetTag a ∧
      (∀ j, j < q → (lX'.lineAt (lX.GetIndex a) w).data[lX.GetOffset a + j]? =
        (X.lineAt p).data[off + j]?) ∧
      (lX.config_.replacement_policy = ReplacementPolicy.LRU →
        (lX'.lineAt (lX.GetIndex a) w).lru_timestamp = X.current_cycle_) := by
  obtain ⟨g, hg, hsg, hinv⟩ := hI.2.2.2.2 1 lX (le_refl 1) hl
  have hoff := hinv.wf.GetOffset_lt a
  obtain ⟨hw, hv, ht⟩ := CacheLevel.Find_some hf
  have hns' : (Span.line p off q).size ≤ lX.config_.line_size - lX.GetOffset a := hns
  rw [HandleWrite_hit_eq hl hns' hf] at h
  cases h
  obtain ⟨lv0, hl0, hs0⟩ : ∃ lv0, ((X.countAccess 1).countHit 1).levels_[1]? = some lv0 ∧
      lX.SameLines lv0 := by
    obtain ⟨lv', e1, e2⟩ := modifyStats_sameLines hl (CacheLevel.SameLines.refl_sl lX)
      (fun s => { s with accesses := u64 (s.accesses + 1) })
    exact modifyStats_sameLines e1 e2 _
  obtain ⟨st, rfl⟩ := hs0
  have hlev := store_level (p := ⟨1, lX.GetIndex a, w⟩) hl0 (lX.GetOffset a) (Span.line p off q)
  have hpl : p.level ≠ 1 := by rw [hp]; decide
  have hsrc := Span.line_read_getElem?
    (((X.countAccess 1).countHit 1).UpdateLRU ⟨1, lX.GetIndex a, w⟩) p off q
    (D := (X.lineAt p).data) (by
      rw [show (((X.countAccess 1).countHit 1).UpdateLRU ⟨1, lX.GetIndex a, w⟩).lineAt p =
        X.lineAt p from by
          rw [show ((X.countAccess 1).countHit 1).UpdateLRU ⟨1, lX.GetIndex a, w⟩ =
            TieredCache.modifyLevel _ 1 _ from rfl, lineAt_modifyLevel_ne _ _ _ _ hpl,
            show (X.countAccess 1).countHit 1 = TieredCache.modifyStats _ 1 _ from rfl,
            lineAt_modifyStats,
            show X.countAccess 1 = TieredCache.modifyStats _ 1 _ from rfl,
            lineAt_modifyStats]]) hoq
  have hws := write_slot_line ({ lX with stats_ := st } : CacheLevel) (lX.GetIndex a) w
    (lX.GetOffset a) ((X.countAccess 1).countHit 1).current_cycle_
    ((Span.line p off q).read (((X.countAccess 1).countHit 1).UpdateLRU
      ⟨1, lX.GetIndex a, w⟩)) hw
  refine ⟨?_, _, (afterWrite_above _ _ _ 1 (le_refl 1)).trans hlev, ?_, hw, ?_, ?_, ?_, ?_⟩
  · rw [afterWrite_above _ _ _ 0 (by decide),
      store_other _ ⟨1, lX.GetIndex a, w⟩ _ _ 0 (show (1 : Nat) ≠ 0 from by decide)]
    show ((X.modifyStats 1 _).modifyStats 1 _).levels_[0]? = _
    rw [modifyStats_other _ _ _ 0 (by decide), modifyStats_other _ _ _ 0 (by decide)]
  · exact (CacheLevel.SlotUpd.of_sameLines ⟨st, rfl⟩ _ _).trans_slot
      ((CacheLevel.SlotUpd.of_UpdateLRU _ _ _ _).trans_slot
        (CacheLevel.SlotUpd.of_modifyLine _ _ _ _))
  · exact hws.1.trans hv
  · exact hws.2.1.trans ht
  · intro j hj
    refine (congrArg (fun d : List Nat => d[lX.GetOffset a + j]?) hws.2.2.1).trans ?_
    refine part_data ?_ hsrc.1 hsrc.2 j hj
    show lX.GetOffset a ≤ (lX.lineAt (lX.GetIndex a) w).data.length
    rw [hinv.wf.data_len _ _ hw]
    omega
  · intro hlru
    exact hws.2.2.2 hlru

theorem countMiss_level1 {X : TieredCache} {i : Nat} {lX : CacheLevel}
    (hl : X.levels_[i]? = some lX) :
    ∃ st, ((X.countAccess i).countMiss i).levels_[i]? =
      some ({ lX with stats_ := st } : CacheLevel) := by
  obtain ⟨lv', e1, ⟨st1, rfl⟩⟩ := modifyStats_sameLines hl (CacheLevel.SameLines.refl_sl lX)
    (fun s => { s with accesses := u64 (s.accesses + 1) })
  obtain ⟨lv'', e2, ⟨st2, rfl⟩⟩ := modifyStats_sameLines e1
    (CacheLevel.SameLines.refl_sl ({ lX with stats_ := st1 } : CacheLevel))
    (fun s => { s with misses := u64 (s.misses + 1) })
  exact ⟨st2, e2⟩

theorem countMiss_other (X : TieredCache) (i j : Nat) (hj : i ≠ j) :
    ((X.countAccess i).countMiss i).levels_[j]? = X.levels_[j]? := by
  show ((X.modifyStats i _).modifyStats i _).levels_[j]? = _
  rw [modifyStats_other _ _ _ j hj, modifyStats_other _ _ _ j hj]

/-- The state in which a read miss at level 1 fills the line: level 0 as on entry, level 1
as `Allocate` left it (up to the counters), and the invariant of the levels after it. -/
theorem miss_fill_state {fuel : Nat} {X0 : TieredCache} {lv0 : CacheLevel} {a lat : Nat}
    {wa : Bool} {T msize : Nat} {G : List CacheLevel} {c3 c4 : TieredCache} {lat3 lat4 : Nat}
    {buf : List Nat}
    (hI0 : InvFrom T msize G 1 X0) (hl0 : X0.levels_[1]? = some lv0)
    (hvict : ((((X0.countAccess 1).countMiss 1).Allocate lv0 1 a).2.1 = none ∧
          c3 = (((X0.countAccess 1).countMiss 1).Allocate lv0 1 a).1 ∧
          lat3 = u32 (lat + lv0.config_.latency)) ∨
        ∃ v, (((X0.countAccess 1).countMiss 1).Allocate lv0 1 a).2.1 = some v ∧
          Evict fuel (((X0.countAccess 1).countMiss 1).Allocate lv0 1 a).1 1 (LineRef.copy v)
            (lv0.GetAddr v.tag (lv0.GetIndex a)) (u32 (lat + lv0.config_.latency)) =
            .ok (c3, lat3))
    (hfetch : (1 + 1 < c3.levels_.length ∧
          HandleRead fuel c3 (1 + 1) (lv0.GetAddr (lv0.GetTag a) (lv0.GetIndex a))
            lv0.config_.line_size lat3 wa = .ok (c4, buf, lat4)) ∨
        (¬ 1 + 1 < c3.levels_.length ∧ c4 = c3 ∧
          ReadFromMemory c3 (lv0.GetAddr (lv0.GetTag a) (lv0.GetIndex a))
            lv0.config_.line_size lat3 = .ok (buf, lat4))) :
    c4.levels_[0]? = X0.levels_[0]? ∧ c4.current_cycle_ = X0.current_cycle_ ∧
    ∃ cyc rnd st,
      c4.levels_[1]? = some ({ (lv0.Allocate a cyc rnd).1 with stats_ := st } : CacheLevel) ∧
      (((X0.countAccess 1).countMiss 1).Allocate lv0 1 a).2.2 =
        ⟨1, lv0.GetIndex a, (lv0.setAt (lv0.GetIndex a)).FindVictim cyc rnd⟩ := by
  have hI00 : InvFrom T msize G 1 ((X0.countAccess 1).countMiss 1) :=
    (hI0.modifyStats_inv 1 _).modifyStats_inv 1 _
  obtain ⟨st00, hl00⟩ := countMiss_level1 hl0
  obtain ⟨⟨lvA, hlvA, ⟨stA, rfl⟩⟩, hoth⟩ :=
    TieredCache.Allocate_level hl00 (⟨st00, rfl⟩ : lv0.SameLines _) a
  have hIA : InvFrom T msize G 2 (((X0.countAccess 1).countMiss 1).Allocate lv0 1 a).1 :=
    (hI00.mono_k (Nat.le_succ 1)).Allocate_from lv0 a
  have hA0 : (((X0.countAccess 1).countMiss 1).Allocate lv0 1 a).1.levels_[0]? =
      X0.levels_[0]? := by
    rw [hoth 0 (by decide)]
    exact countMiss_other X0 1 0 (by decide)
  have h3 : InvFrom T msize G 2 c3 ∧ c3.levels_[0]? = X0.levels_[0]? ∧
      ∃ st, c3.levels_[1]? = some ({ (lv0.Allocate a
        ((X0.countAccess 1).countMiss 1).current_cycle_
        (((X0.countAccess 1).countMiss 1).rand_.headD 0)).1 with stats_ := st } : CacheLevel) := by
    rcases hvict with ⟨_, rfl, _⟩ | ⟨v, _, hev⟩
    · exact ⟨hIA, hA0, stA, hlvA⟩
    · obtain ⟨e1, e2⟩ := (inv_all fuel).2.2 T msize G _ 1 _ _ _ _ hIA
        (CacheLevel.GetAddr_lt _ _ _) hev
      obtain ⟨lv3, hlv3, ⟨st3, rfl⟩⟩ := e2 _ hlvA
      have hfr := ((frame_all (belowFrame 1) (Or.inr rfl) fuel).2.2.1 _ 1 _ _ _ _ hIA.1
        (Or.inl (le_refl 1)) hev).1
      exact ⟨e1, (hfr 0 (by decide)).trans hA0, st3, hlv3⟩
  obtain ⟨hI3, h30, st3, h31⟩ := h3
  rcases hfetch with ⟨_, h4⟩ | ⟨_, rfl, _⟩
  · have hfr := ((frame_all (belowFrame 2) (Or.inr rfl) fuel).1 c3 2 _ _ _ wa _ hI3.1
      (le_refl 2) h4).1
    have hI4 := ((inv_all fuel).1 T msize G c3 2 _ _ _ wa _ hI3 (CacheLevel.GetAddr_lt _ _ _)
      h4).1
    exact ⟨(hfr 0 (by decide)).trans h30, hI4.2.1.trans hI0.2.1.symm, _, _, st3,
      (hfr 1 (by decide)).trans h31, rfl⟩
  · exact ⟨h30, hI3.2.1.trans hI0.2.1.symm, _, _, st3, h31, rfl⟩

theorem HandleWrite_part_miss {fuel : Nat} {X : TieredCache} {a off q lat : Nat} {p : LinePtr}
    {r : TieredCache × Nat} {lX : CacheLevel} {T msize : Nat} {G : List CacheLevel}
    (hI : InvFrom T msize G 1 X) (hp : p.level = 0) (hl : X.levels_[1]? = some lX)
    (ha : a < 2 ^ 64) (hns : q ≤ lX.config_.line_size - lX.GetOffset a)
    (hoq : off + q ≤ (X.lineAt p).data.length) (hf : lX.Find a = none)
    (h : HandleWrite (fuel + 1) X 1 a (Span.line p off q) lat = .ok r) :
    r.1.levels_[0]? = X.levels_[0]? ∧
    ∃ lX' cyc rnd, r.1.levels_[1]? = some lX' ∧
      lX.SlotUpd lX' (lX.GetIndex a) ((lX.setAt (lX.GetIndex a)).FindVictim cyc rnd) ∧
      (lX.setAt (lX.GetIndex a)).FindVictim cyc rnd < (lX.setAt (lX.GetIndex a)).lines_.length ∧
      (lX'.lineAt (lX.GetIndex a) ((lX.setAt (lX.GetIndex a)).FindVictim cyc rnd)).valid = true ∧
      (lX'.lineAt (lX.GetIndex a) ((lX.setAt (lX.GetIndex a)).FindVictim cyc rnd)).tag =
        lX.GetTag a ∧
      (∀ j, j < q →
        (lX'.lineAt (lX.GetIndex a)
          ((lX.setAt (lX.GetIndex a)).FindVictim cyc rnd)).data[lX.GetOffset a + j]? =
        (X.lineAt p).data[off + j]?) ∧
      (lX.config_.replacement_policy = ReplacementPolicy.LRU →
        (lX'.lineAt (lX.GetIndex a)
          ((lX.setAt (lX.GetIndex a)).FindVictim cyc rnd)).lru_timestamp = X.current_cycle_) := by
  obtain ⟨g, hg, hsg, hinv⟩ := hI.2.2.2.2 1 lX (le_refl 1) hl
  have hoff := hinv.wf.GetOffset_lt a
  have hns' : (Span.line p off q).size ≤ lX.config_.line_size - lX.GetOffset a := hns
  obtain ⟨c1, out, lat1, level1, way, h1, hl1, hf1, rfl⟩ :=
    (HandleWrite_miss_iff hl hns' hf r).mp h
  have hI0 : InvFrom T msize G 1 ((X.countAccess 1).countMiss 1) :=
    (hI.modifyStats_inv 1 _).modifyStats_inv 1 _
  obtain ⟨st0, hl0⟩ := countMiss_level1 hl
  have hX0 : ((X.countAccess 1).countMiss 1).levels_[0]? = X.levels_[0]? :=
    countMiss_other X 1 0 (by decide)
  rcases fuel with _ | fuel
  · simp [HandleRead] at h1
  have hI1 := ((inv_all (fuel + 1)).1 T msize G _ 1 a _ _ true _ hI0 ha h1).1
  obtain ⟨c3, lat3, c4, buf, lat4, hvict, hfetch, hr⟩ :=
    (HandleRead_miss_iff hI0.1 hl0 (show (Span.line p off q).size ≤
      ({ lX with stats_ := st0 } : CacheLevel).config_.line_size -
        ({ lX with stats_ := st0 } : CacheLevel).GetOffset a from hns)
      (show ({ lX with stats_ := st0 } : CacheLevel).Find a = none from hf) _).mp h1
  obtain ⟨h40, h4c, cyc, rnd, st4, h41, hnl⟩ := miss_fill_state hI0 hl0 hvict hfetch
  have hc1 := (Prod.mk.inj hr).1
  simp only at hc1
  rw [hnl] at hc1
  subst hc1
  have hwA : (lX.setAt (lX.GetIndex a)).FindVictim cyc rnd <
      (lX.setAt (lX.GetIndex a)).lines_.length := hinv.wf.geo.Allocate_way_lt a cyc rnd
  have hgA := CacheLevel.Allocate_SameGeom ({ lX with stats_ := st0 } : CacheLevel) a cyc rnd
  have hsuA := CacheLevel.SlotUpd.of_Allocate ({ lX with stats_ := st0 } : CacheLevel) a cyc rnd
  have hwA4 : (lX.setAt (lX.GetIndex a)).FindVictim cyc rnd <
      (({ (({ lX with stats_ := st0 } : CacheLevel).Allocate a cyc rnd).1 with
        stats_ := st4 } : CacheLevel).setAt (lX.GetIndex a)).lines_.length := by
    show _ < ((({ lX with stats_ := st0 } : CacheLevel).Allocate a cyc rnd).1.setAt
      (lX.GetIndex a)).lines_.length
    rw [CacheLevel.Allocate_setAt_length]
    exact hwA
  -- level 1 after the fill
  have hlI := install_level (c := c4)
    (p := ⟨1, lX.GetIndex a, (lX.setAt (lX.GetIndex a)).FindVictim cyc rnd⟩) h41
    (({ lX with stats_ := st0 } : CacheLevel).GetTag a) buf
  have hl1' := hl1
  rw [afterRead_above _ _ _ _ 1 (le_refl 1)] at hl1'
  have hl1'' := hl1'.symm.trans hlI
  have hlevel1 := Option.some.inj hl1''
  have hfill := fill_slot_line
    ({ (({ lX with stats_ := st0 } : CacheLevel).Allocate a cyc rnd).1 with
        stats_ := st4 } : CacheLevel) (lX.GetIndex a)
    ((lX.setAt (lX.GetIndex a)).FindVictim cyc rnd)
    (({ lX with stats_ := st0 } : CacheLevel).GetTag a) c4.current_cycle_ buf hwA4
  have hsu1 : lX.SlotUpd level1 (lX.GetIndex a)
      ((lX.setAt (lX.GetIndex a)).FindVictim cyc rnd) := by
    rw [hlevel1]
    exact ((CacheLevel.SlotUpd.of_sameLines ⟨st0, rfl⟩ _ _).trans_slot hsuA).trans_slot
      ((CacheLevel.SlotUpd.of_sameLines ⟨st4, rfl⟩ _ _).trans_slot
        ((CacheLevel.SlotUpd.of_modifyLine _ _ _ _).trans_slot
          (CacheLevel.SlotUpd.of_UpdateLRU _ _ _ _)))
  -- the way that the write finds is the way that was filled
  have hway : way = (lX.setAt (lX.GetIndex a)).FindVictim cyc rnd := by
    by_contra hne
    obtain ⟨_, hv1, ht1⟩ := CacheLevel.Find_some hf1
    rw [hsu1.1.GetIndex, hsu1.2.2 _ _ (fun hc => hne hc.2)] at hv1
    rw [hsu1.1.GetIndex, hsu1.1.GetTag, hsu1.2.2 _ _ (fun hc => hne hc.2)] at ht1
    exact CacheLevel.Find_none hf way ⟨hv1, ht1⟩
  subst hway
  obtain ⟨g1, hg1, hsg1, hinv1⟩ := hI1.2.2.2.2 1 level1 (le_refl 1) hl1
  have hidx : level1.GetIndex a = lX.GetIndex a := hsu1.1.GetIndex a
  have hw1 : (lX.setAt (lX.GetIndex a)).FindVictim cyc rnd <
      (level1.setAt (lX.GetIndex a)).lines_.length := by
    rw [hsu1.2.1]
    exact hwA
  have hlev := store_level (c := (c4.install
      ⟨1, lX.GetIndex a, (lX.setAt (lX.GetIndex a)).FindVictim cyc rnd⟩
      (({ lX with stats_ := st0 } : CacheLevel).GetTag a) buf).exclusiveAfterRead 1
      (({ lX with stats_ := st0 } : CacheLevel).GetAddr
        (({ lX with stats_ := st0 } : CacheLevel).GetTag a)
        (({ lX with stats_ := st0 } : CacheLevel).GetIndex a)) true)
    (p := ⟨1, level1.GetIndex a, (lX.setAt (lX.GetIndex a)).FindVictim cyc rnd⟩) hl1
    (lX.GetOffset a) (Span.line p off q)
  rw [hidx] at hlev
  have hpl : p.level ≠ 1 := by rw [hp]; decide
  have hc10 : ((c4.install
      ⟨1, lX.GetIndex a, (lX.setAt (lX.GetIndex a)).FindVictim cyc rnd⟩
      (({ lX with stats_ := st0 } : CacheLevel).GetTag a) buf).exclusiveAfterRead 1
      (({ lX with stats_ := st0 } : CacheLevel).GetAddr
        (({ lX with stats_ := st0 } : CacheLevel).GetTag a)
        (({ lX with stats_ := st0 } : CacheLevel).GetIndex a)) true).levels_[0]? =
      X.levels_[0]? := by
    rw [afterRead_above _ _ _ _ 0 (by decide),
      install_other _ ⟨1, lX.GetIndex a, (lX.setAt (lX.GetIndex a)).FindVictim cyc rnd⟩ _ _ 0
        (show (1 : Nat) ≠ 0 from by decide), h40]
    exact hX0
  have hc1p : ((c4.install
      ⟨1, lX.GetIndex a, (lX.setAt (lX.GetIndex a)).FindVictim cyc rnd⟩
      (({ lX with stats_ := st0 } : CacheLevel).GetTag a) buf).exclusiveAfterRead 1
      (({ lX with stats_ := st0 } : CacheLevel).GetAddr
        (({ lX with stats_ := st0 } : CacheLevel).GetTag a)
        (({ lX with stats_ := st0 } : CacheLevel).GetIndex a)) true).levels_[p.level]? =
      X.levels_[p.level]? := by
    rw [hp]
    exact hc10
  have hws := write_slot_line level1 (lX.GetIndex a)
    ((lX.setAt (lX.GetIndex a)).FindVictim cyc rnd) (lX.GetOffset a)
    ((c4.install
      ⟨1, lX.GetIndex a, (lX.setAt (lX.GetIndex a)).FindVictim cyc rnd⟩
      (({ lX with stats_ := st0 } : CacheLevel).GetTag a) buf).exclusiveAfterRead 1
      (({ lX with stats_ := st0 } : CacheLevel).GetAddr
        (({ lX with stats_ := st0 } : CacheLevel).GetTag a)
        (({ lX with stats_ := st0 } : CacheLevel).GetIndex a)) true).current_cycle_
    ((Span.line p off q).read (((c4.install
      ⟨1, lX.GetIndex a, (lX.setAt (lX.GetIndex a)).FindVictim cyc rnd⟩
      (({ lX with stats_ := st0 } : CacheLevel).GetTag a) buf).exclusiveAfterRead 1
      (({ lX with stats_ := st0 } : CacheLevel).GetAddr
        (({ lX with stats_ := st0 } : CacheLevel).GetTag a)
        (({ lX with stats_ := st0 } : CacheLevel).GetIndex a)) true).UpdateLRU
      ⟨1, lX.GetIndex a, (lX.setAt (lX.GetIndex a)).FindVictim cyc rnd⟩)) hw1
  have hsrc := Span.line_read_getElem? (((c4.install
      ⟨1, lX.GetIndex a, (lX.setAt (lX.GetIndex a)).FindVictim cyc rnd⟩
      (({ lX with stats_ := st0 } : CacheLevel).GetTag a) buf).exclusiveAfterRead 1
      (({ lX with stats_ := st0 } : CacheLevel).GetAddr
        (({ lX with stats_ := st0 } : CacheLevel).GetTag a)
        (({ lX with stats_ := st0 } : CacheLevel).GetIndex a)) true).UpdateLRU
      ⟨1, lX.GetIndex a, (lX.setAt (lX.GetIndex a)).FindVictim cyc rnd⟩) p off q
    (D := (X.lineAt p).data) (by
      rw [show TieredCache.UpdateLRU _
          ⟨1, lX.GetIndex a, (lX.setAt (lX.GetIndex a)).FindVictim cyc rnd⟩ =
            TieredCache.modifyLevel _ 1 _ from rfl, lineAt_modifyLevel_ne _ _ _ _ hpl,
        lineAt_of_level_eq p hc1p]) hoq
  have hv1 : (level1.lineAt (lX.GetIndex a)
      ((lX.setAt (lX.GetIndex a)).FindVictim cyc rnd)).valid = true := by
    rw [hlevel1]
    exact hfill.1
  have ht1 : (level1.lineAt (lX.GetIndex a)
      ((lX.setAt (lX.GetIndex a)).FindVictim cyc rnd)).tag = lX.GetTag a := by
    rw [hlevel1]
    exact hfill.2.1
  simp only [hidx]
  refine ⟨?_, _, cyc, rnd, (afterWrite_above _ _ _ 1 (le_refl 1)).trans hlev, ?_, hwA, ?_, ?_,
    ?_, ?_⟩
  · rw [afterWrite_above _ _ _ 0 (by decide),
      store_other _ ⟨1, lX.GetIndex a, (lX.setAt (lX.GetIndex a)).FindVictim cyc rnd⟩ _ _ 0
        (show (1 : Nat) ≠ 0 from by decide)]
    exact hc10
  · exact hsu1.trans_slot ((CacheLevel.SlotUpd.of_UpdateLRU _ _ _ _).trans_slot
      (CacheLevel.SlotUpd.of_modifyLine _ _ _ _))
  · exact hws.1.trans hv1
  · exact hws.2.1.trans ht1
  · intro j hj
    refine (congrArg (fun d : List Nat => d[lX.GetOffset a + j]?) hws.2.2.1).trans ?_
    refine part_data ?_ hsrc.1 hsrc.2 j hj
    rw [hinv1.wf.data_len _ _ hw1, hsu1.1.1]
    omega
  · intro hlru
    exact (hws.2.2.2 (by rw [hsu1.1.1]; exact hlru)).trans (hI1.2.1.trans hI.2.1.symm)

end MultilevelCache

namespace MultilevelCache

/-! ## The victim of a part is never an earlier part -/

theorem lineAt_of_lt {l : List CacheLine} {i : Nat} (h : i < l.length) : lineAt l i = l[i] := by
  unfold lineAt
  rw [List.getD_eq_getElem?_getD, List.getElem?_eq_getElem h]
  rfl

theorem lines_eq_of_lineAt {l l' : List CacheLine} (hlen : l'.length = l.length)
    (h : ∀ i, lineAt l' i = lineAt l i) : l' = l := by
  apply List.ext_getElem hlen
  intro i h1 h2
  rw [← lineAt_of_lt h1, ← lineAt_of_lt h2]
  exact h i

theorem countP_slot_le (p : CacheLine → Bool) : ∀ (l l' : List CacheLine) (w : Nat),
    l'.length = l.length → (∀ i, i ≠ w → lineAt l' i = lineAt l i) →
    l'.countP p ≤ l.countP p + 1 := by
  intro l
  induction l with
  | nil =>
    intro l' w hlen _
    rw [List.length_eq_zero.mp hlen]
    simp
  | cons x xs ih =>
    intro l' w hlen h
    cases l' with
    | nil => simp at hlen
    | cons y ys =>
      have hlen' : ys.length = xs.length := by simpa using hlen
      cases w with
      | zero =>
        have : ys = xs := lines_eq_of_lineAt hlen' (fun i => h (i + 1) (by omega))
        subst this
        rw [List.countP_cons, List.countP_cons]
        split <;> split <;> omega
      | succ w =>
        have hxy : y = x := h 0 (by omega)
        subst hxy
        have := ih ys w hlen' (fun i hi => h (i + 1) (by omega))
        rw [List.countP_cons, List.countP_cons]
        omega

theorem exists_lineAt_of_countP_lt {p : CacheLine → Bool} {l : List CacheLine}
    (h : l.countP p < l.length) : ∃ i, i < l.length ∧ p (lineAt l i) = false := by
  by_contra hc
  push_neg at hc
  have : l.countP p = l.length := by
    rw [List.countP_eq_length]
    intro a ha
    obtain ⟨i, hi, rfl⟩ := List.getElem_of_mem ha
    have := hc i hi
    rw [lineAt_of_lt hi] at this
    simpa using this
  omega

/-- In a set under LRU replacement in which not every line has the time stamp `T1`, the
largest one, the line that `FindVictim` chooses is not a valid line with the time stamp
`T1`. -/
theorem CacheSet.FindVictim_old (s : CacheSet) (cyc rnd T1 : Nat)
    (hlen : s.assoc_ = s.lines_.length) (hpos : 0 < s.assoc_)
    (hpol : s.replacement_policy_ = ReplacementPolicy.LRU)
    (hts : ∀ i, (lineAt s.lines_ i).lru_timestamp ≤ T1)
    (hcnt : s.lines_.countP (fun l => l.lru_timestamp == T1) < s.lines_.length) :
    ¬ ((lineAt s.lines_ (s.FindVictim cyc rnd)).valid = true ∧
      (lineAt s.lines_ (s.FindVictim cyc rnd)).lru_timestamp = T1) := by
  rintro ⟨hv, ht⟩
  cases hfi : firstIdx (fun line => !line.valid) s.lines_ with
  | some i =>
    have h2 := (firstIdx_some hfi).2.1
    have hfv : s.FindVictim cyc rnd = i := by simp only [CacheSet.FindVictim, hfi]
    rw [hfv] at hv
    simp [hv] at h2
  | none =>
    have hfv : s.FindVictim cyc rnd = s.lruVictim := by
      simp only [CacheSet.FindVictim, hfi, hpol]
    have hscan := lru_scan_min (fun i => (lineAt s.lines_ i).lru_timestamp) (s.assoc_ - 1) 1 0
      (by omega) (fun j hj => by have : j = 0 := by omega
                                 subst this; exact le_refl _)
      (fun j hj => absurd hj (Nat.not_lt_zero j))
    have hn : 1 + (s.assoc_ - 1) = s.lines_.length := by omega
    rw [hn] at hscan
    obtain ⟨i, hi, hp⟩ := exists_lineAt_of_countP_lt hcnt
    have hne : (lineAt s.lines_ i).lru_timestamp ≠ T1 := by simpa using hp
    have hle := hscan.2.1 i hi
    have hlt := hts i
    rw [hfv] at ht
    have : (lineAt s.lines_ s.lruVictim).lru_timestamp = T1 := ht
    unfold CacheSet.lruVictim at this
    simp only at hle
    omega

end MultilevelCache

namespace MultilevelCache

/-! ## The parts of a line in the next level -/

theorem part_geom {l2 : CacheLevel} (g : l2.GeoOK) {la : Nat} (hal : l2.GetOffset la = 0)
    (k : Nat) :
    l2.GetOffset (la + k * l2.config_.line_size) = 0 ∧
    lineNo l2.offset_bits_ (la + k * l2.config_.line_size) = lineNo l2.offset_bits_ la + k ∧
    l2.GetIndex (la + k * l2.config_.line_size) =
      (lineNo l2.offset_bits_ la + k) % l2.num_sets_ := by
  have hpos : 0 < 2 ^ l2.offset_bits_ := by positivity
  have h2 : lineNo l2.offset_bits_ (la + k * l2.config_.line_size) =
      lineNo l2.offset_bits_ la + k := by
    unfold lineNo
    rw [Nat.shiftRight_eq_div_pow, Nat.shiftRight_eq_div_pow, g.line_size_eq,
      Nat.add_mul_div_right _ _ hpos]
  refine ⟨?_, h2, ?_⟩
  · rw [g.GetOffset_eq] at hal ⊢
    rw [g.line_size_eq, Nat.add_mul_mod_self_right]
    exact hal
  · rw [g.GetIndex_eq, h2, g.num_sets_eq]

theorem part_lt {l2 : CacheLevel} (g : l2.GeoOK) {la k m : Nat} (hk : k < m)
    (hend : la + m * l2.config_.line_size ≤ 2 ^ 64) :
    la + k * l2.config_.line_size < 2 ^ 64 ∧
    la + (k + 1) * l2.config_.line_size ≤ 2 ^ 64 := by
  have hpos : 0 < l2.config_.line_size := by rw [g.line_size_eq]; positivity
  have h1 : (k + 1) * l2.config_.line_size ≤ m * l2.config_.line_size :=
    Nat.mul_le_mul_right _ hk
  have h2 : (k + 1) * l2.config_.line_size = k * l2.config_.line_size + l2.config_.line_size := by
    ring
  omega

/-- Different parts lie in different lines of the level. -/
theorem part_key_ne {l2 : CacheLevel} (g : l2.GeoOK) {la : Nat} (hal : l2.GetOffset la = 0)
    {j k : Nat} (hjk : j ≠ k) :
    ¬ (l2.GetTag (la + j * l2.config_.line_size) = l2.GetTag (la + k * l2.config_.line_size) ∧
      l2.GetIndex (la + j * l2.config_.line_size) =
        l2.GetIndex (la + k * l2.config_.line_size)) := by
  intro h
  have := (g.key_eq_iff _ _).mp h
  rw [(part_geom g hal j).2.1, (part_geom g hal k).2.1] at this
  omega

/-- Fewer parts than sets: different parts fall into different sets. -/
theorem part_index_ne {l2 : CacheLevel} (g : l2.GeoOK) {la : Nat} (hal : l2.GetOffset la = 0)
    {j k m : Nat} (hjk : j ≠ k) (hj : j < m) (hk : k < m) (hm : m ≤ l2.num_sets_) :
    l2.GetIndex (la + j * l2.config_.line_size) ≠
      l2.GetIndex (la + k * l2.config_.line_size) := by
  rw [(part_geom g hal j).2.2, (part_geom g hal k).2.2]
  intro h
  have h1 : j ≡ k [MOD l2.num_sets_] := Nat.ModEq.add_left_cancel' _ h
  exact hjk (h1.eq_of_lt_of_lt (by omega) (by omega))

/-- No more parts than lines: fewer earlier parts fall into the set of a part than the set
has lines. -/
theorem part_count_lt {l2 : CacheLevel} (g : l2.GeoOK) {la : Nat} (hal : l2.GetOffset la = 0)
    {k m : Nat} (hk : k < m) (hm : m ≤ l2.num_sets_ * l2.config_.associativity) :
    Nat.count (fun j => l2.GetIndex (la + j * l2.config_.line_size) =
      l2.GetIndex (la + k * l2.config_.line_size)) k < l2.config_.associativity := by
  have hS : 0 < l2.num_sets_ := by rw [g.num_sets_eq]; positivity
  have h1 : Nat.count (fun j => l2.GetIndex (la + j * l2.config_.line_size) =
      l2.GetIndex (la + k * l2.config_.line_size)) k ≤
      Nat.count (fun x => x ≡ k [MOD l2.num_sets_]) k := by
    apply Nat.count_mono_left
    intro j hj
    rw [(part_geom g hal j).2.2, (part_geom g hal k).2.2] at hj
    exact Nat.ModEq.add_left_cancel' _ hj
  rw [Nat.count_modEq_card k hS k, if_neg (lt_irrefl _), Nat.add_zero] at h1
  have h2 : k / l2.num_sets_ < l2.config_.associativity := by
    rw [Nat.div_lt_iff_lt_mul hS]
    calc k < m := hk
      _ ≤ l2.num_sets_ * l2.config_.associativity := hm
      _ = l2.config_.associativity * l2.num_sets_ := Nat.mul_comm _ _
  omega

/-- One more part is done when its line is written into a slot that holds none of the
earlier parts. -/
theorem PartsDone.step {l2 lX lX' : CacheLevel} {la : Nat} {D : List Nat} {T1 k w : Nat}
    (hJ : PartsDone l2 lX la D T1 k)
    (hsu : lX.SlotUpd lX' (l2.GetIndex (la + k * l2.config_.line_size)) w)
    (hv : (lX'.lineAt (l2.GetIndex (la + k * l2.config_.line_size)) w).valid = true)
    (ht : (lX'.lineAt (l2.GetIndex (la + k * l2.config_.line_size)) w).tag =
      l2.GetTag (la + k * l2.config_.line_size))
    (hd : ∀ t, t < l2.config_.line_size →
      (lX'.lineAt (l2.GetIndex (la + k * l2.config_.line_size)) w).data[t]? =
        D[k * l2.config_.line_size + t]?)
    (hts : l2.config_.replacement_policy = ReplacementPolicy.LRU →
      (lX'.lineAt (l2.GetIndex (la + k * l2.config_.line_size)) w).lru_timestamp = T1)
    (hfresh : ∀ j, j < k → ∀ wj,
      (lX.lineAt (l2.GetIndex (la + j * l2.config_.line_size)) wj).valid = true →
      (lX.lineAt (l2.GetIndex (la + j * l2.config_.line_size)) wj).tag =
        l2.GetTag (la + j * l2.config_.line_size) →
      (l2.config_.replacement_policy = ReplacementPolicy.LRU →
        (lX.lineAt (l2.GetIndex (la + j * l2.config_.line_size)) wj).lru_timestamp = T1) →
      ¬ (l2.GetIndex (la + j * l2.config_.line_size) =
          l2.GetIndex (la + k * l2.config_.line_size) ∧ wj = w)) :
    PartsDone l2 lX' la D T1 (k + 1) := by
  obtain ⟨hg, hparts, hcnt⟩ := hJ
  refine ⟨hg.trans_geom hsu.1, ?_, ?_⟩
  · intro j hj
    by_cases hjk : j = k
    · subst hjk
      exact ⟨w, hv, ht, hd, hts⟩
    · obtain ⟨wj, h1, h2, h3, h4⟩ := hparts j (by omega)
      have hne := hfresh j (by omega) wj h1 h2 h4
      refine ⟨wj, ?_, ?_, ?_, ?_⟩ <;> rw [hsu.2.2 _ _ hne]
      · exact h1
      · exact h2
      · exact h3
      · exact h4
  · intro hlru s
    rw [Nat.count_succ]
    by_cases hs : l2.GetIndex (la + k * l2.config_.line_size) = s
    · rw [if_pos hs]
      have h1 := countP_slot_le (fun l => l.lru_timestamp == T1) (lX.setAt s).lines_
        (lX'.setAt s).lines_ w (hsu.2.1 s) (fun i hi =>
          hsu.2.2 s i (fun hc => hi hc.2))
      have h2 := hcnt hlru s
      omega
    · rw [if_neg hs, Nat.add_zero]
      have : (lX'.setAt s).lines_ = (lX.setAt s).lines_ :=
        lines_eq_of_lineAt (hsu.2.1 s) (fun i => hsu.2.2 s i (fun hc => hs hc.1.symm))
      rw [this]
      exact hcnt hlru s

/-- Writing part k of a demoted line into the next level, parts 0..k-1 being there. -/
theorem part_step {fuel : Nat} {X : TieredCache} {lat : Nat} {p : LinePtr}
    {res : TieredCache × Nat} {l2 lX : CacheLevel} {la : Nat} {D : List Nat} {T1 msize : Nat}
    {G : List CacheLevel} {k m : Nat}
    (hI : InvFrom T1 msize G 1 X) (hp : p.level = 0) (hl : X.levels_[1]? = some lX)
    (g2 : l2.GeoOK) (hD : (X.lineAt p).data = D) (hDlen : m * l2.config_.line_size ≤ D.length)
    (hJ : PartsDone l2 lX la D T1 k) (hk : k < m) (hal : l2.GetOffset la = 0)
    (hend : la + m * l2.config_.line_size ≤ 2 ^ 64)
    (hroom : m ≤ l2.num_sets_ ∨ (l2.config_.replacement_policy = ReplacementPolicy.LRU ∧
      m ≤ l2.num_sets_ * l2.config_.associativity))
    (h : HandleWrite fuel X 1 (la + k * l2.config_.line_size)
      (Span.line p (k * l2.config_.line_size) l2.config_.line_size) lat = .ok res) :
    res.1.levels_[0]? = X.levels_[0]? ∧
    ∃ lX', res.1.levels_[1]? = some lX' ∧ PartsDone l2 lX' la D T1 (k + 1) := by
  rcases fuel with _ | fuel
  · simp [HandleWrite] at h
  obtain ⟨g, hg, hsg, hinv⟩ := hI.2.2.2.2 1 lX (le_refl 1) hl
  have hgeo := hJ.1
  have hidx := hgeo.GetIndex (la + k * l2.config_.line_size)
  have htag := hgeo.GetTag (la + k * l2.config_.line_size)
  have hoff := hgeo.GetOffset (la + k * l2.config_.line_size)
  have hpg := part_geom g2 hal k
  have hlt := part_lt g2 hk hend
  have hcfg : lX.config_ = l2.config_ := hgeo.1
  have hns : l2.config_.line_size ≤ lX.config_.line_size -
      lX.GetOffset (la + k * l2.config_.line_size) := by
    rw [hoff, hpg.1, hcfg]; exact le_refl _
  have hoq : k * l2.config_.line_size + l2.config_.line_size ≤ (X.lineAt p).data.length := by
    rw [hD]
    have : (k + 1) * l2.config_.line_size ≤ m * l2.config_.line_size :=
      Nat.mul_le_mul_right _ hk
    have h2 : (k + 1) * l2.config_.line_size =
      k * l2.config_.line_size + l2.config_.line_size := by ring
    omega
  cases hf : lX.Find (la + k * l2.config_.line_size) with
  | some w =>
    obtain ⟨h0, lX', h1, hsu, hw, hv, ht, hd, hts⟩ := HandleWrite_part_hit hI hp hl hns hoq hf h
    rw [hidx] at hsu hv ht hd hts
    rw [htag] at ht
    rw [hoff, hpg.1, hD] at hd
    rw [hcfg, hI.2.1] at hts
    refine ⟨h0, lX', h1, hJ.step hsu hv ht ?_ hts ?_⟩
    · intro t ht'
      have := hd t ht'
      rwa [Nat.zero_add] at this
    · intro j hj wj hvj htj _ hc
      obtain ⟨hw0, hv0, ht0⟩ := CacheLevel.Find_some hf
      rw [hidx] at ht0
      rw [htag] at ht0
      rw [hc.1, hc.2, ht0] at htj
      exact part_key_ne g2 hal (Nat.ne_of_lt hj) ⟨htj.symm, hc.1⟩
  | none =>
    obtain ⟨h0, lX', cyc, rnd, h1, hsu, hw, hv, ht, hd, hts⟩ :=
      HandleWrite_part_miss hI hp hl hlt.1 hns hoq hf h
    rw [hidx] at hsu hv ht hd hts hw
    rw [htag] at ht
    rw [hoff, hpg.1, hD] at hd
    rw [hcfg, hI.2.1] at hts
    refine ⟨h0, lX', h1, hJ.step hsu hv ht ?_ hts ?_⟩
    · intro t ht'
      have := hd t ht'
      rwa [Nat.zero_add] at this
    · intro j hj wj hvj htj htsj hc
      rcases hroom with hm | ⟨hlru, hm⟩
      · exact part_index_ne g2 hal (Nat.ne_of_lt hj) (by omega) hk hm hc.1
      · have hmem : lX.setAt (l2.GetIndex (la + k * l2.config_.line_size)) ∈ lX.sets_ := by
          rw [← hidx]; exact hinv.wf.geo.setAt_mem _
        have hsk := hinv.skel _ hmem
        have hcnt := hJ.2.2 hlru (l2.GetIndex (la + k * l2.config_.line_size))
        have hpc := part_count_lt g2 hal hk hm
        refine CacheSet.FindVictim_old (lX.setAt (l2.GetIndex (la + k * l2.config_.line_size)))
          cyc rnd T1 (hinv.wf.geo.assoc_eq _ hmem) (hinv.wf.geo.assoc_pos _ hmem)
          (by rw [hsk.2, hcfg]; exact hlru) (fun i => hinv.ts_le _ i) ?_ ?_
        · rw [hsk.1, hcfg]
          omega
        · rw [hc.1, hc.2] at hvj htsj
          exact ⟨hvj, htsj hlru⟩

/-- Writing the parts k, k+1, .. of a demoted line into the next level in one call: all the
parts are there afterwards. -/
theorem parts_all {l2 : CacheLevel} {la : Nat} {D : List Nat} {T1 msize : Nat}
    {G : List CacheLevel} {m : Nat} {p : LinePtr}
    (g2 : l2.GeoOK) (hp : p.level = 0) (hDlen : m * l2.config_.line_size ≤ D.length)
    (hal : l2.GetOffset la = 0) (hend : la + m * l2.config_.line_size ≤ 2 ^ 64)
    (hroom : m ≤ l2.num_sets_ ∨ (l2.config_.replacement_policy = ReplacementPolicy.LRU ∧
      m ≤ l2.num_sets_ * l2.config_.associativity)) :
    ∀ (r fuel : Nat) (X : TieredCache) (lat : Nat) (res : TieredCache × Nat) (lX : CacheLevel)
      (k : Nat), InvFrom T1 msize G 1 X → X.levels_[1]? = some lX → (X.lineAt p).data = D →
      PartsDone l2 lX la D T1 k → k + (r + 1) = m →
      HandleWrite fuel X 1 (la + k * l2.config_.line_size)
        (Span.line p (k * l2.config_.line_size) ((r + 1) * l2.config_.line_size)) lat =
          .ok res →
      res.1.levels_[0]? = X.levels_[0]? ∧
      ∃ lX', res.1.levels_[1]? = some lX' ∧ PartsDone l2 lX' la D T1 m := by
  intro r
  induction r with
  | zero =>
    intro fuel X lat res lX k hI hl hD hJ hkm h
    simp only [Nat.zero_add, Nat.one_mul] at h hkm
    subst hkm
    exact part_step hI hp hl g2 hD hDlen hJ (Nat.lt_succ_self k) hal hend hroom h
  | succ r ih =>
    intro fuel X lat res lX k hI hl hD hJ hkm h
    rcases fuel with _ | fuel
    · simp [HandleWrite] at h
    have hgeo := hJ.1
    have hk : k < m := by omega
    have hk1 : k + 1 < m := by omega
    have hpg := part_geom g2 hal k
    have hlt := part_lt g2 hk hend
    have hlt1 := part_lt g2 hk1 hend
    have hpos : 0 < l2.config_.line_size := by rw [g2.line_size_eq]; positivity
    have hsz : lX.config_.line_size - lX.GetOffset (la + k * l2.config_.line_size) =
        l2.config_.line_size := by
      rw [hgeo.GetOffset, hpg.1, hgeo.1]; rfl
    have hmul : (r + 1 + 1) * l2.config_.line_size =
        (r + 1) * l2.config_.line_size + l2.config_.line_size := by ring
    have hmulk : (k + 1) * l2.config_.line_size =
        k * l2.config_.line_size + l2.config_.line_size := by ring
    have hx : lX.config_.line_size - lX.GetOffset (la + k * l2.config_.line_size) <
        (Span.line p (k * l2.config_.line_size) ((r + 1 + 1) * l2.config_.line_size)).size := by
      rw [hsz]
      show l2.config_.line_size < (r + 1 + 1) * l2.config_.line_size
      have : 0 < (r + 1) * l2.config_.line_size := Nat.mul_pos (Nat.succ_pos r) hpos
      omega
    obtain ⟨c1, lat1, h1, h2⟩ := (HandleWrite_cross_iff hl hx res).mp h
    rw [hsz] at h1 h2
    have h1' : HandleWrite fuel X 1 (la + k * l2.config_.line_size)
        (Span.line p (k * l2.config_.line_size) l2.config_.line_size) lat = .ok (c1, lat1) := h1
    have h2' : HandleWrite fuel c1 1 (la + (k + 1) * l2.config_.line_size)
        (Span.line p ((k + 1) * l2.config_.line_size) ((r + 1) * l2.config_.line_size)) lat1 =
          .ok res := by
      have e1 : u64 (la + k * l2.config_.line_size + l2.config_.line_size) =
          la + (k + 1) * l2.config_.line_size := by
        rw [hmulk, ← Nat.add_assoc]
        apply u64_of_lt
        have := hlt1.1
        rw [hmulk, ← Nat.add_assoc] at this
        exact this
      have e2 : (Span.line p (k * l2.config_.line_size)
          ((r + 1 + 1) * l2.config_.line_size)).subspan l2.config_.line_size
          ((Span.line p (k * l2.config_.line_size)
            ((r + 1 + 1) * l2.config_.line_size)).size - l2.config_.line_size) =
          Span.line p ((k + 1) * l2.config_.line_size) ((r + 1) * l2.config_.line_size) := by
        show Span.line p (k * l2.config_.line_size + l2.config_.line_size)
          ((r + 1 + 1) * l2.config_.line_size - l2.config_.line_size) = _
        rw [hmulk, hmul, Nat.add_sub_cancel]
      rw [e1, e2] at h2
      exact h2
    have hI1 : InvFrom T1 msize G 1 c1 :=
      (inv_all fuel).2.1 T1 msize G X 1 _ _ lat (c1, lat1) hI hlt.1 h1'
    obtain ⟨h0, lX1, hl1, hJ1⟩ :=
      part_step hI hp hl g2 hD hDlen hJ hk hal hend hroom h1'
    have hD1 : (c1.lineAt p).data = D := by
      have e : c1.levels_[p.level]? = X.levels_[p.level]? := by rw [hp]; exact h0
      rw [lineAt_of_level_eq p e]
      exact hD
    obtain ⟨h0', lX', hl', hJ'⟩ := ih fuel c1 lat1 res lX1 (k + 1) hI1 hl1 hD1 hJ1
      (by omega) h2'
    exact ⟨h0'.trans h0, lX', hl', hJ'⟩

end MultilevelCache

namespace MultilevelCache

/-! ## What `Demote` writes into the next level -/

theorem align_small (L ob1 ob2 : Nat) (h : ob1 ≤ ob2) :
    (L * 2 ^ ob1) % 2 ^ ob2 + 2 ^ ob1 ≤ 2 ^ ob2 := by
  obtain ⟨d, rfl⟩ := Nat.exists_eq_add_of_le h
  rw [pow_add, Nat.mul_comm (2 ^ ob1) (2 ^ d), Nat.mul_mod_mul_right]
  have h1 : L % 2 ^ d < 2 ^ d := Nat.mod_lt _ (by positivity)
  calc L % 2 ^ d * 2 ^ ob1 + 2 ^ ob1 = (L % 2 ^ d + 1) * 2 ^ ob1 := by ring
    _ ≤ 2 ^ d * 2 ^ ob1 := Nat.mul_le_mul_right _ h1

theorem align_big (L ob1 ob2 : Nat) (h : ob2 ≤ ob1) :
    (L * 2 ^ ob1) % 2 ^ ob2 = 0 ∧ 2 ^ ob1 / 2 ^ ob2 = 2 ^ (ob1 - ob2) ∧
    2 ^ ob1 = 2 ^ (ob1 - ob2) * 2 ^ ob2 := by
  have e : 2 ^ ob1 = 2 ^ (ob1 - ob2) * 2 ^ ob2 := by
    rw [← pow_add, Nat.sub_add_cancel h]
  refine ⟨?_, ?_, e⟩
  · rw [e, ← Nat.mul_assoc]
    exact Nat.mul_mod_left _ _
  · rw [e, Nat.mul_div_cancel _ (by positivity)]

theorem mod_add_small {a j n : Nat} (h : a % n + j < n) : (a + j) % n = a % n + j := by
  have hj : j < n := by omega
  rw [Nat.add_mod, Nat.mod_eq_of_lt hj, Nat.mod_eq_of_lt h]

theorem countP_zero_of_lineAt (lines : List CacheLine) (P : CacheLine → Bool)
    (h : ∀ i, P (lineAt lines i) = false) : lines.countP P = 0 := by
  rw [List.countP_eq_zero]
  intro a ha
  obtain ⟨i, hi, rfl⟩ := List.mem_iff_getElem.mp ha
  have := h i
  rw [lineAt_of_lt hi] at this
  rw [this]
  simp

/-- The bytes of a demoted line are in the next level after the write of `Evict`: byte j of
the line is in the valid line of its address, at its offset. -/
theorem demote_write {f : Nat} {X : TieredCache} {T1 msize : Nat} {G : List CacheLevel}
    {l2 : CacheLevel} {la ob1 L : Nat} {D : List Nat} {p : LinePtr} {lat : Nat}
    {res : TieredCache × Nat}
    (hI : InvFrom T1 msize G 1 X) (hp : p.level = 0) (hl2 : X.levels_[1]? = some l2)
    (hD : (X.lineAt p).data = D) (hlen : D.length = 2 ^ ob1) (hla : la = L * 2 ^ ob1)
    (hend : la + 2 ^ ob1 ≤ 2 ^ 64)
    (hold : ∀ s w, (l2.lineAt s w).lru_timestamp < T1)
    (hroom : (if 2 ^ ob1 ≤ l2.config_.line_size then 1 else 2 ^ ob1 / l2.config_.line_size) ≤
        l2.num_sets_ ∨
      (l2.config_.replacement_policy = ReplacementPolicy.LRU ∧
        (if 2 ^ ob1 ≤ l2.config_.line_size then 1 else 2 ^ ob1 / l2.config_.line_size) ≤
          l2.num_sets_ * l2.config_.associativity))
    (h : HandleWrite f X 1 la (Span.line p 0 (2 ^ ob1)) lat = .ok res) :
    res.1.levels_[0]? = X.levels_[0]? ∧
    ∃ lX', res.1.levels_[1]? = some lX' ∧ l2.SameGeom lX' ∧
      ∀ j, j < 2 ^ ob1 → ∃ w,
        (lX'.lineAt (l2.GetIndex (la + j)) w).valid = true ∧
        (lX'.lineAt (l2.GetIndex (la + j)) w).tag = l2.GetTag (la + j) ∧
        (lX'.lineAt (l2.GetIndex (la + j)) w).data[l2.GetOffset (la + j)]? = D[j]? := by
  obtain ⟨g, hg, hsg, hinv⟩ := hI.2.2.2.2 1 l2 (le_refl 1) hl2
  have g2 := hinv.wf.geo
  have hpos1 : 0 < 2 ^ ob1 := by positivity
  have hla64 : la < 2 ^ 64 := by omega
  by_cases hc : ob1 ≤ l2.offset_bits_
  · -- one part
    have hal : l2.GetOffset la + 2 ^ ob1 ≤ l2.config_.line_size := by
      rw [g2.GetOffset_eq, g2.line_size_eq, hla]
      exact align_small L ob1 l2.offset_bits_ hc
    have hns : 2 ^ ob1 ≤ l2.config_.line_size - l2.GetOffset la := by omega
    have hoq : 0 + 2 ^ ob1 ≤ (X.lineAt p).data.length := by rw [hD, hlen]; omega
    rcases f with _ | f
    · simp [HandleWrite] at h
    have key : ∀ (lX' : CacheLevel) (w : Nat), l2.SameGeom lX' →
        (lX'.lineAt (l2.GetIndex la) w).valid = true →
        (lX'.lineAt (l2.GetIndex la) w).tag = l2.GetTag la →
        (∀ j, j < 2 ^ ob1 → (lX'.lineAt (l2.GetIndex la) w).data[l2.GetOffset la + j]? =
          (X.lineAt p).data[0 + j]?) →
        ∀ j, j < 2 ^ ob1 → ∃ w,
          (lX'.lineAt (l2.GetIndex (la + j)) w).valid = true ∧
          (lX'.lineAt (l2.GetIndex (la + j)) w).tag = l2.GetTag (la + j) ∧
          (lX'.lineAt (l2.GetIndex (la + j)) w).data[l2.GetOffset (la + j)]? = D[j]? := by
      intro lX' w _ hv ht hd j hj
      obtain ⟨_, k2, k3⟩ := g2.key_add hla64 (Or.inl (show j < _ from by omega))
      have ko : l2.GetOffset (la + j) = l2.GetOffset la + j := by
        rw [g2.GetOffset_eq, g2.GetOffset_eq]
        apply mod_add_small
        rw [g2.GetOffset_eq, g2.line_size_eq] at hal
        omega
      rw [k2, k3, ko]
      refine ⟨w, hv, ht, ?_⟩
      rw [hd j hj, Nat.zero_add, hD]
    cases hf : l2.Find la with
    | some w =>
      obtain ⟨h0, lX', h1, hsu, _, hv, ht, hd, _⟩ :=
        HandleWrite_part_hit hI hp hl2 hns hoq hf h
      exact ⟨h0, lX', h1, hsu.1, key lX' w hsu.1 hv ht hd⟩
    | none =>
      obtain ⟨h0, lX', cyc, rnd, h1, hsu, _, hv, ht, hd, _⟩ :=
        HandleWrite_part_miss hI hp hl2 hla64 hns hoq hf h
      exact ⟨h0, lX', h1, hsu.1, key lX' _ hsu.1 hv ht hd⟩
  · -- several parts
    have hc' : l2.offset_bits_ ≤ ob1 := by omega
    obtain ⟨a1, a2, a3⟩ := align_big L ob1 l2.offset_bits_ hc'
    have hlt : l2.config_.line_size < 2 ^ ob1 := by
      rw [g2.line_size_eq]
      exact Nat.pow_lt_pow_right (by norm_num) (by omega)
    rw [if_neg (Nat.not_le.mpr hlt), g2.line_size_eq, a2] at hroom
    rw [← g2.line_size_eq] at a3
    have hal : l2.GetOffset la = 0 := by rw [g2.GetOffset_eq, hla]; exact a1
    have hmpos : 0 < 2 ^ (ob1 - l2.offset_bits_) := by positivity
    have hJ0 : PartsDone l2 l2 la D T1 0 := by
      refine ⟨CacheLevel.SameGeom.refl_geom l2, fun j hj => absurd hj (Nat.not_lt_zero j), ?_⟩
      intro _ s
      rw [countP_zero_of_lineAt]
      · exact Nat.zero_le _
      · intro i
        have := hold s i
        have hne : (l2.lineAt s i).lru_timestamp ≠ T1 := Nat.ne_of_lt this
        simpa [CacheLevel.lineAt] using hne
    have h' : HandleWrite f X 1 (la + 0 * l2.config_.line_size)
        (Span.line p (0 * l2.config_.line_size)
          ((2 ^ (ob1 - l2.offset_bits_) - 1 + 1) * l2.config_.line_size)) lat = .ok res := by
      rw [Nat.zero_mul, Nat.add_zero, Nat.sub_add_cancel hmpos, ← a3]
      exact h
    obtain ⟨h0, lX', h1, hJ⟩ := parts_all g2 hp (by rw [← a3, hlen]) hal
      (by rw [← a3]; exact hend) hroom (2 ^ (ob1 - l2.offset_bits_) - 1) f X lat res l2 0 hI
      hl2 hD hJ0 (by omega) h'
    refine ⟨h0, lX', h1, hJ.1, ?_⟩
    intro j hj
    have hls : 0 < l2.config_.line_size := by rw [g2.line_size_eq]; positivity
    have hq : j / l2.config_.line_size < 2 ^ (ob1 - l2.offset_bits_) := by
      rw [Nat.div_lt_iff_lt_mul hls, ← a3]
      exact hj
    obtain ⟨w, hv, ht, hd, _⟩ := hJ.2.1 _ hq
    have hpg := part_geom g2 hal (j / l2.config_.line_size)
    have hplt := part_lt g2 hq (by rw [← a3]; exact hend)
    have hr : j % l2.config_.line_size < l2.config_.line_size := Nat.mod_lt _ hls
    obtain ⟨_, k2, k3⟩ := g2.key_add hplt.1
      (Or.inl (show j % l2.config_.line_size < _ from by rw [hpg.1]; omega))
    have ej : la + j = la + j / l2.config_.line_size * l2.config_.line_size +
        j % l2.config_.line_size := by
      have := Nat.div_add_mod j l2.config_.line_size
      rw [Nat.mul_comm] at this
      omega
    have ko : l2.GetOffset (la + j) = j % l2.config_.line_size := by
      rw [ej, g2.GetOffset_eq]
      have h0' := hpg.1
      rw [g2.GetOffset_eq] at h0'
      rw [mod_add_small (by rw [h0', ← g2.line_size_eq]; omega), h0', Nat.zero_add]
    have ed : j / l2.config_.line_size * l2.config_.line_size + j % l2.config_.line_size = j := by
      have := Nat.div_add_mod j l2.config_.line_size
      rw [Nat.mul_comm] at this
      exact this
    refine ⟨w, ?_, ?_, ?_⟩
    · rw [ej, k3]; exact hv
    · rw [ej, k3, k2]; exact ht
    · rw [ko]
      have := hd _ hr
      rw [ed] at this
      rw [ej, k3]
      exact this

theorem line_end_le {ob a : Nat} (hob : ob ≤ 63) (ha : a < 2 ^ 64) :
    lineNo ob a * 2 ^ ob + 2 ^ ob ≤ 2 ^ 64 := by
  have e : (2 : Nat) ^ 64 = 2 ^ (64 - ob) * 2 ^ ob := by
    rw [← pow_add]
    congr 1
    omega
  have hL : lineNo ob a < 2 ^ (64 - ob) := by
    unfold lineNo
    rw [Nat.shiftRight_eq_div_pow, Nat.div_lt_iff_lt_mul (by positivity), ← e]
    exact ha
  calc lineNo ob a * 2 ^ ob + 2 ^ ob = (lineNo ob a + 1) * 2 ^ ob := by ring
    _ ≤ 2 ^ (64 - ob) * 2 ^ ob := Nat.mul_le_mul_right _ hL
    _ = 2 ^ 64 := e.symm

/-- A `Demote` of a line that L1 holds, with room for its parts in L2: the L1 slot is invalid
afterwards, L1 does not find the address, and every byte of the line is in the valid L2 line
of its address. -/
theorem Demote_effect {fuel1 T msize : Nat} {G : List CacheLevel} {c c1 : TieredCache}
    {A : Nat} {l1 l2 : CacheLevel} {way : Nat}
    (hI : InvFrom T msize G 0 c) (hT : T + 1 < 2 ^ 64) (hA : A < 2 ^ 64)
    (hl1 : c.levels_[0]? = some l1) (hl2 : c.levels_[1]? = some l2)
    (hres : l1.Find A = some way) (hroom : l1.Room l2)
    (hd : c.Demote fuel1 A = .ok c1) :
    (∃ lv1, c1.levels_[0]? = some lv1 ∧ l1.SameGeom lv1 ∧ lv1.Find A = none ∧
      (lv1.lineAt (l1.GetIndex A) way).valid = false) ∧
    ∃ lv2, c1.levels_[1]? = some lv2 ∧ l2.SameGeom lv2 ∧
      ∀ j, j < l1.config_.line_size → ∃ w,
        (lv2.lineAt (l2.GetIndex (l1.GetAddr (l1.GetTag A) (l1.GetIndex A) + j)) w).valid =
          true ∧
        (lv2.lineAt (l2.GetIndex (l1.GetAddr (l1.GetTag A) (l1.GetIndex A) + j)) w).tag =
          l2.GetTag (l1.GetAddr (l1.GetTag A) (l1.GetIndex A) + j) ∧
        (lv2.lineAt (l2.GetIndex (l1.GetAddr (l1.GetTag A) (l1.GetIndex A) + j)) w).data[
            l2.GetOffset (l1.GetAddr (l1.GetTag A) (l1.GetIndex A) + j)]? =
          (l1.lineAt (l1.GetIndex A) way).data[j]? := by
  obtain ⟨g1', hg1, hsg1, hinv1⟩ := hI.2.2.2.2 0 l1 (le_refl 0) hl1
  obtain ⟨g2', hg2, hsg2, hinv2⟩ := hI.2.2.2.2 1 l2 (Nat.zero_le 1) hl2
  have g1 := hinv1.wf.geo
  obtain ⟨hway, hv, htag⟩ := CacheLevel.Find_some hres
  constructor
  · obtain ⟨lv1, h0, hs, hval⟩ := Demote_found hl1 hres hd
    have hnd : L1NoDup c := fun lv hlv => by
      rw [hl1] at hlv
      cases hlv
      exact hinv1.wf.nodup
    exact ⟨lv1, h0, hs.1, Demote_then_absent hnd hd lv1 h0, hval⟩
  · have hu : u64 (c.current_cycle_ + 1) = T + 1 := by rw [hI.2.1]; exact u64_of_lt hT
    have hS : InvFrom (T + 1) msize G 0
        { c with current_cycle_ := u64 (c.current_cycle_ + 1) } :=
      hI.retime (Nat.le_succ T) rfl hu hI.2.2.1 rfl
    unfold TieredCache.Demote at hd
    simp only [hl1, hres] at hd
    split at hd
    · cases hd
    rename_i cE latE hE
    cases hd
    rcases fuel1 with _ | f
    · simp [Evict] at hE
    have hlen0 : 0 < ({ c with current_cycle_ := u64 (c.current_cycle_ + 1) } :
        TieredCache).levels_.length := length_of_getElem?_some' hl1
    have hlen1 : 0 + 1 < ({ c with current_cycle_ := u64 (c.current_cycle_ + 1) } :
        TieredCache).levels_.length := length_of_getElem?_some' hl2
    have hline : ({ c with current_cycle_ := u64 (c.current_cycle_ + 1) } :
        TieredCache).lineAt ⟨0, l1.GetIndex A, way⟩ = l1.lineAt (l1.GetIndex A) way := by
      unfold TieredCache.lineAt
      simp only [hl1]
    have hdl : (l1.lineAt (l1.GetIndex A) way).data.length = 2 ^ l1.offset_bits_ := by
      rw [hinv1.wf.data_len _ _ hway, g1.line_size_eq]
    have hold : ∀ s w, (l2.lineAt s w).lru_timestamp < T + 1 :=
      fun s w => Nat.lt_succ_of_le (hinv2.ts_le s w)
    have hroom' : (if 2 ^ l1.offset_bits_ ≤ l2.config_.line_size then 1
          else 2 ^ l1.offset_bits_ / l2.config_.line_size) ≤ l2.num_sets_ ∨
        (l2.config_.replacement_policy = ReplacementPolicy.LRU ∧
          (if 2 ^ l1.offset_bits_ ≤ l2.config_.line_size then 1
            else 2 ^ l1.offset_bits_ / l2.config_.line_size) ≤
            l2.num_sets_ * l2.config_.associativity) := by
      unfold CacheLevel.Room CacheLevel.partsIn at hroom
      rw [g1.line_size_eq] at hroom
      exact hroom
    have hend := line_end_le (by have := g1.bits_le; omega : l1.offset_bits_ ≤ 63) hA
    rw [← g1.GetAddr_key A hA] at hend
    have key : ∀ X : TieredCache, InvFrom (T + 1) msize G 1 X → X.levels_[1]? = some l2 →
        X.lineAt ⟨0, l1.GetIndex A, way⟩ = l1.lineAt (l1.GetIndex A) way →
        HandleWrite f X 1 (l1.GetAddr (l1.GetTag A) (l1.GetIndex A))
          (Span.line ⟨0, l1.GetIndex A, way⟩ 0 (2 ^ l1.offset_bits_)) 0 = .ok (cE, latE) →
        ∃ lv2, (cE.invalidate ⟨0, l1.GetIndex A, way⟩).levels_[1]? = some lv2 ∧
          l2.SameGeom lv2 ∧ ∀ j, j < l1.config_.line_size → ∃ w,
            (lv2.lineAt (l2.GetIndex (l1.GetAddr (l1.GetTag A) (l1.GetIndex A) + j)) w).valid =
              true ∧
            (lv2.lineAt (l2.GetIndex (l1.GetAddr (l1.GetTag A) (l1.GetIndex A) + j)) w).tag =
              l2.GetTag (l1.GetAddr (l1.GetTag A) (l1.GetIndex A) + j) ∧
            (lv2.lineAt (l2.GetIndex (l1.GetAddr (l1.GetTag A) (l1.GetIndex A) + j)) w).data[
                l2.GetOffset (l1.GetAddr (l1.GetTag A) (l1.GetIndex A) + j)]? =
              (l1.lineAt (l1.GetIndex A) way).data[j]? := by
      intro X hX hX2 hXl hW
      obtain ⟨_, lX', h1, hsg, hb⟩ := demote_write hX rfl hX2 (congrArg CacheLine.data hXl)
        hdl (g1.GetAddr_key A hA) hend hold hroom' hW
      refine ⟨lX', ?_, hsg, ?_⟩
      · show (TieredCache.modifyLevel _ 0 _).levels_[1]? = _
        rw [modifyLevel_getElem?_ne _ 0 1 _ (by decide)]
        exact h1
      · intro j hj
        exact hb j (by rw [← g1.line_size_eq]; exact hj)
    have hspan : ∀ Y : TieredCache,
        Y.lineAt ⟨0, l1.GetIndex A, way⟩ = l1.lineAt (l1.GetIndex A) way →
        (LineRef.slot ⟨0, l1.GetIndex A, way⟩).dataSpan Y =
          Span.line ⟨0, l1.GetIndex A, way⟩ 0 (2 ^ l1.offset_bits_) := by
      intro Y hY
      show Span.line _ 0 (Y.lineAt _).data.length = _
      rw [hY, hdl]
    rcases (Evict_iff hS.1 hlen0 (cE, latE)).mp hE with ⟨_, _, hW⟩ | ⟨_, _, hW⟩ |
      ⟨hn, _⟩ | ⟨hn, _⟩
    · rw [hspan _ hline] at hW
      refine key _ (((hS.mono_k (Nat.zero_le 1)).modifyStats_inv 0 _).modifyStats_inv 0 _)
        ?_ ?_ hW
      · exact (modifyStats_other _ 0 _ 1 (by decide)).trans
          ((modifyStats_other _ 0 _ 1 (by decide)).trans hl2)
      · exact (lineAt_modifyStats _ 0 _ _).trans ((lineAt_modifyStats _ 0 _ _).trans hline)
    · rw [hspan _ hline] at hW
      refine key _ ((hS.mono_k (Nat.zero_le 1)).modifyStats_inv 0 _) ?_ ?_ hW
      · exact (modifyStats_other _ 0 _ 1 (by decide)).trans hl2
      · exact (lineAt_modifyStats _ 0 _ _).trans hline
    · exact absurd hlen1 hn
    · exact absurd hlen1 hn

/-- A `Demote` of a line that L1 holds returns, given enough fuel. -/
theorem Demote_returns {T msize : Nat} {G : List CacheLevel} {c : TieredCache}
    {A : Nat} {l1 : CacheLevel} {way : Nat}
    (hI : InvFrom T msize G 0 c) (hT : T + 1 < 2 ^ 64) (hA : A < 2 ^ 64)
    (hl1 : c.levels_[0]? = some l1) (hres : l1.Find A = some way) :
    ∃ F, ∀ fuel1, F ≤ fuel1 → ∃ c1, c.Demote fuel1 A = .ok c1 := by
  obtain ⟨g, hg, hsg, hinv⟩ := hI.2.2.2.2 0 l1 (le_refl 0) hl1
  have g1 := hinv.wf.geo
  obtain ⟨hway, hv, htag⟩ := CacheLevel.Find_some hres
  have hu : u64 (c.current_cycle_ + 1) = T + 1 := by rw [hI.2.1]; exact u64_of_lt hT
  have hS : InvFrom (T + 1) msize G 0
      { c with current_cycle_ := u64 (c.current_cycle_ + 1) } :=
    hI.retime (Nat.le_succ T) rfl hu hI.2.2.1 rfl
  have hline : ({ c with current_cycle_ := u64 (c.current_cycle_ + 1) } :
      TieredCache).lineAt ⟨0, l1.GetIndex A, way⟩ = l1.lineAt (l1.GetIndex A) way := by
    unfold TieredCache.lineAt
    simp only [hl1]
  have hpos : 0 < g.config_.line_size := by
    rw [← hsg.1, g1.line_size_eq]; positivity
  have hLF : LineF msize (G.drop 0) (l1.GetAddr (l1.GetTag A) (l1.GetIndex A)) := by
    have := hinv.fetch _ _ hv
    rw [htag] at this
    exact this
  obtain ⟨F, r, hE⟩ := Evict_returns (v := LineRef.slot ⟨0, l1.GetIndex A, way⟩) 0
    (fun hn T' c' a inp lat hI' ha hF =>
      (returns_all msize G (G.length - 1) 1 hn (le_refl _)).2 inp.size T' c' a inp lat rfl hI'
        ha hF)
    (hS.mono_k (Nat.zero_le 1)) hg hpos (g1.GetAddr_key_lt A hA)
    (by
      show (TieredCache.lineAt _ _).data.length ≤ _
      rw [hline, hinv.wf.data_len _ _ hway, hsg.1])
    hLF
  refine ⟨F, fun fuel1 hle => ?_⟩
  have hE' := Evict_fuel_le hle hE
  unfold TieredCache.Demote
  simp only [hl1, hres, hE']
  exact ⟨_, rfl⟩

end MultilevelCache

namespace MultilevelCache

/-! ## The access after `Demote`: the parts of the line hit in the next level -/

theorem u64_add_u64 (a b : Nat) : u64 (u64 a + b) = u64 (a + b) := by
  unfold u64
  exact Nat.mod_add_mod a _ b

/-- A read within one line of level 1 that holds the line: it returns with one hit more. -/
theorem read_part_hit (f : Nat) {X : TieredCache} {lX : CacheLevel} {a len : Nat} (lat : Nat)
    (wa : Bool) (hl : X.levels_[1]? = some lX)
    (hns : len ≤ lX.config_.line_size - lX.GetOffset a) (hr : X.resident 1 a) :
    ∃ X' out lat', HandleRead (f + 1) X 1 a len lat wa = .ok (X', out, lat') ∧
      X'.levels_[0]? = X.levels_[0]? ∧ X'.levels_.length = X.levels_.length ∧
      (∃ lX', X'.levels_[1]? = some lX' ∧ lX.SameGeom lX') ∧
      (∀ x, X'.resident 1 x ↔ X.resident 1 x) ∧
      (X'.statsAt 1).hits = u64 ((X.statsAt 1).hits + 1) ∧
      (X'.statsAt 1).misses = (X.statsAt 1).misses := by
  obtain ⟨lv, hlv, hhas⟩ := hr
  rw [hl] at hlv
  cases hlv
  obtain ⟨w, hf⟩ : ∃ w, lX.Find a = some w := by
    unfold CacheLevel.Has at hhas
    cases hF : lX.Find a with
    | none => rw [hF] at hhas; cases hhas
    | some w => exact ⟨w, rfl⟩
  have hlen := length_of_getElem?_some' hl
  refine ⟨_, _, _, HandleRead_hit_eq hl hns hf, ?_, ?_, ?_, ?_, ?_, ?_⟩
  · show (TieredCache.modifyLevel _ 1 _).levels_[0]? = _
    rw [modifyLevel_getElem?_ne _ 1 0 _ (by decide)]
    show (TieredCache.modifyLevel _ 1 _).levels_[0]? = _
    rw [modifyLevel_getElem?_ne _ 1 0 _ (by decide)]
    show (TieredCache.modifyLevel _ 1 _).levels_[0]? = _
    rw [modifyLevel_getElem?_ne _ 1 0 _ (by decide)]
  · show (TieredCache.modifyLevel _ 1 _).levels_.length = _
    rw [modifyLevel_length]
    show (TieredCache.modifyLevel _ 1 _).levels_.length = _
    rw [modifyLevel_length]
    show (TieredCache.modifyLevel _ 1 _).levels_.length = _
    rw [modifyLevel_length]
  · obtain ⟨st, hst⟩ : ∃ st, ((X.countAccess 1).countHit 1).levels_[1]? =
        some ({ lX with stats_ := st } : CacheLevel) := by
      obtain ⟨lv', e1, ⟨st1, rfl⟩⟩ := modifyStats_sameLines hl (CacheLevel.SameLines.refl_sl lX)
        (fun s => { s with accesses := u64 (s.accesses + 1) })
      obtain ⟨lv'', e2, ⟨st2, rfl⟩⟩ := modifyStats_sameLines e1
        (CacheLevel.SameLines.refl_sl ({ lX with stats_ := st1 } : CacheLevel))
        (fun s => { s with hits := u64 (s.hits + 1) })
      exact ⟨st2, e2⟩
    refine ⟨({ lX with stats_ := st } : CacheLevel).UpdateLRU (lX.GetIndex a) w
      X.current_cycle_, ?_, ?_⟩
    · show (TieredCache.modifyLevel _ 1 _).levels_[1]? = _
      rw [modifyLevel_getElem?_self, hst]
      rfl
    · exact CacheLevel.SameGeom.trans_geom (⟨rfl, rfl, rfl, rfl⟩ :
        lX.SameGeom ({ lX with stats_ := st } : CacheLevel))
        (CacheLevel.SameGeom.UpdateLRU_geom _ _ _ _)
  · intro x
    rw [resident_UpdateLRU]
    show ((X.modifyStats 1 _).modifyStats 1 _).resident 1 x ↔ _
    rw [resident_modifyStats, resident_modifyStats]
  · rw [statsAt_UpdateLRU]
    have e := (statsAt_count X 1 (fun s => { s with accesses := u64 (s.accesses + 1) })
      (fun s => { s with hits := u64 (s.hits + 1) }) hlen).1
    have e' : ((X.countAccess 1).countHit 1).statsAt 1 = _ := e
    rw [e']
  · rw [statsAt_UpdateLRU]
    have e := (statsAt_count X 1 (fun s => { s with accesses := u64 (s.accesses + 1) })
      (fun s => { s with hits := u64 (s.hits + 1) }) hlen).1
    have e' : ((X.countAccess 1).countHit 1).statsAt 1 = _ := e
    rw [e']

/-- A read of the parts k, k+1, .. of a line, all held by level 1: it returns with one hit
for each part. -/
theorem read_parts_hit {l2 : CacheLevel} (g2 : l2.GeoOK) {la m : Nat}
    (hal : l2.GetOffset la = 0) (hend : la + m * l2.config_.line_size ≤ 2 ^ 64) (wa : Bool) :
    ∀ (r : Nat) (X : TieredCache) (lX : CacheLevel) (k lat : Nat),
      X.levels_[1]? = some lX → l2.SameGeom lX →
      (∀ j, j < m → X.resident 1 (la + j * l2.config_.line_size)) → k + (r + 1) = m →
      ∃ X' out lat',
        HandleRead (r + 1) X 1 (la + k * l2.config_.line_size)
          ((r + 1) * l2.config_.line_size) lat wa = .ok (X', out, lat') ∧
        X'.levels_[0]? = X.levels_[0]? ∧ X'.levels_.length = X.levels_.length ∧
        (X'.statsAt 1).hits = u64 ((X.statsAt 1).hits + (r + 1)) ∧
        (X'.statsAt 1).misses = (X.statsAt 1).misses := by
  intro r
  induction r with
  | zero =>
    intro X lX k lat hl hgeo hres hkm
    have hk : k < m := by omega
    have hpg := part_geom g2 hal k
    have hns : (0 + 1) * l2.config_.line_size ≤
        lX.config_.line_size - lX.GetOffset (la + k * l2.config_.line_size) := by
      rw [hgeo.GetOffset, hpg.1, hgeo.1, Nat.zero_add, Nat.one_mul]
      exact le_refl _
    obtain ⟨X', out, lat', h, h0, hlen, _, _, hh, hm⟩ :=
      read_part_hit 0 lat wa hl hns (hres k hk)
    exact ⟨X', out, lat', h, h0, hlen, hh, hm⟩
  | succ r ih =>
    intro X lX k lat hl hgeo hres hkm
    have hk : k < m := by omega
    have hk1 : k + 1 < m := by omega
    have hpg := part_geom g2 hal k
    have hlt1 := part_lt g2 hk1 hend
    have hpos : 0 < l2.config_.line_size := by rw [g2.line_size_eq]; positivity
    have hsz : lX.config_.line_size - lX.GetOffset (la + k * l2.config_.line_size) =
        l2.config_.line_size := by
      rw [hgeo.GetOffset, hpg.1, hgeo.1]; rfl
    have hmul : (r + 1 + 1) * l2.config_.line_size =
        (r + 1) * l2.config_.line_size + l2.config_.line_size := by ring
    have hmulk : (k + 1) * l2.config_.line_size =
        k * l2.config_.line_size + l2.config_.line_size := by ring
    have hx : lX.config_.line_size - lX.GetOffset (la + k * l2.config_.line_size) <
        (r + 1 + 1) * l2.config_.line_size := by
      rw [hsz]
      have : 0 < (r + 1) * l2.config_.line_size := Nat.mul_pos (Nat.succ_pos r) hpos
      omega
    obtain ⟨X1, out1, lat1, h1, h10, h1len, ⟨lX1, hl1, hgeo1⟩, hres1, hh1, hm1⟩ :=
      read_part_hit r lat wa hl (le_of_eq hsz.symm) (hres k hk)
    obtain ⟨X2, out2, lat2, h2, h20, h2len, hh2, hm2⟩ := ih X1 lX1 (k + 1) lat1 hl1
      (hgeo.trans_geom hgeo1) (fun j hj => (hres1 _).mpr (hres j hj)) (by omega)
    refine ⟨X2, out1 ++ out2, lat2, ?_, h20.trans h10, h2len.trans h1len, ?_, hm2.trans hm1⟩
    · rw [HandleRead_cross_iff hl hx]
      refine ⟨X1, out1, lat1, X2, out2, lat2, ?_, ?_, rfl⟩
      · rw [hsz]
        exact h1
      · rw [hsz]
        have e1 : u64 (la + k * l2.config_.line_size + l2.config_.line_size) =
            la + (k + 1) * l2.config_.line_size := by
          rw [hmulk, ← Nat.add_assoc]
          apply u64_of_lt
          have := hlt1.1
          rw [hmulk, ← Nat.add_assoc] at this
          exact this
        rw [e1, hmul, Nat.add_sub_cancel]
        exact h2
    · rw [hh2, hh1, u64_add_u64]
      congr 1
      omega

/-- A read of a whole line of the level above from level 1, which holds every byte of it: it
returns with one hit for each part of the line. -/
theorem L2_read_line {X : TieredCache} {lX : CacheLevel} {la ob1 L : Nat} (lat : Nat)
    (wa : Bool) (fuel2 : Nat) (gX : lX.GeoOK) (hl : X.levels_[1]? = some lX)
    (hla : la = L * 2 ^ ob1) (hend : la + 2 ^ ob1 ≤ 2 ^ 64)
    (hres : ∀ j, j < 2 ^ ob1 → X.resident 1 (la + j)) :
    ∃ X' out lat',
      HandleRead (fuel2 + (if 2 ^ ob1 ≤ lX.config_.line_size then 1
        else 2 ^ ob1 / lX.config_.line_size)) X 1 la (2 ^ ob1) lat wa = .ok (X', out, lat') ∧
      X'.levels_[0]? = X.levels_[0]? ∧ X'.levels_.length = X.levels_.length ∧
      (X'.statsAt 1).hits = u64 ((X.statsAt 1).hits + (if 2 ^ ob1 ≤ lX.config_.line_size then 1
        else 2 ^ ob1 / lX.config_.line_size)) ∧
      (X'.statsAt 1).misses = (X.statsAt 1).misses := by
  have hpos1 : 0 < 2 ^ ob1 := by positivity
  by_cases hc : ob1 ≤ lX.offset_bits_
  · have hle : 2 ^ ob1 ≤ lX.config_.line_size := by
      rw [gX.line_size_eq]
      exact Nat.pow_le_pow_right (by norm_num) hc
    have hal : lX.GetOffset la + 2 ^ ob1 ≤ lX.config_.line_size := by
      rw [gX.GetOffset_eq, gX.line_size_eq, hla]
      exact align_small L ob1 lX.offset_bits_ hc
    rw [if_pos hle]
    obtain ⟨X', out, lat', h, h0, hlen, _, _, hh, hm⟩ :=
      read_part_hit fuel2 lat wa hl
        (show 2 ^ ob1 ≤ lX.config_.line_size - lX.GetOffset la from by omega)
        (by have := hres 0 hpos1; rwa [Nat.add_zero] at this)
    exact ⟨X', out, lat', h, h0, hlen, hh, hm⟩
  · have hc' : lX.offset_bits_ ≤ ob1 := by omega
    obtain ⟨a1, a2, a3⟩ := align_big L ob1 lX.offset_bits_ hc'
    have hlt : lX.config_.line_size < 2 ^ ob1 := by
      rw [gX.line_size_eq]
      exact Nat.pow_lt_pow_right (by norm_num) (by omega)
    have hm : 2 ^ ob1 / lX.config_.line_size = 2 ^ (ob1 - lX.offset_bits_) := by
      rw [gX.line_size_eq]; exact a2
    rw [if_neg (Nat.not_le.mpr hlt), hm]
    rw [← gX.line_size_eq] at a3
    have hal : lX.GetOffset la = 0 := by rw [gX.GetOffset_eq, hla]; exact a1
    have hmpos : 0 < 2 ^ (ob1 - lX.offset_bits_) := by positivity
    obtain ⟨X', out, lat', h, h0, hlen, hh, hmi⟩ := read_parts_hit gX hal
      (by rw [← a3]; exact hend) wa (2 ^ (ob1 - lX.offset_bits_) - 1) X lX 0 lat hl
      (CacheLevel.SameGeom.refl_geom lX)
      (fun j hj => hres _ (by
        rw [a3]
        exact Nat.mul_lt_mul_of_pos_right hj (by rw [gX.line_size_eq]; positivity)))
      (by omega)
    rw [Nat.zero_mul, Nat.add_zero, Nat.sub_add_cancel hmpos, ← a3] at h
    rw [Nat.sub_add_cancel hmpos] at hh
    exact ⟨X', out, lat', HandleRead_fuel_le (Nat.le_add_left _ _) h, h0, hlen, hh, hmi⟩

/-- A `HandleRead` at L1 within the line of an address that L1 does not hold, while the set
has an invalid line and L2 holds every byte of the line: it returns, L1 has counted a miss and
L2 a hit for each part of the line, and L1 holds the line afterwards. -/
theorem HandleRead_L1_miss_L2_parts {c : TieredCache} {A len lat : Nat} (fuel2 : Nat)
    (wa : Bool) {lv1 lv2 : CacheLevel} {way : Nat} (g1 : lv1.GeoOK) (g2 : lv2.GeoOK)
    (hA : A < 2 ^ 64) (h0 : c.levels_[0]? = some lv1) (hf0 : lv1.Find A = none)
    (hlt : way < (lv1.setAt (lv1.GetIndex A)).lines_.length)
    (hinv : (lv1.lineAt (lv1.GetIndex A) way).valid = false)
    (h1 : c.levels_[1]? = some lv2)
    (hhas : ∀ j, j < lv1.config_.line_size →
      lv2.Has (lv1.GetAddr (lv1.GetTag A) (lv1.GetIndex A) + j))
    (hlen : len ≤ lv1.config_.line_size - lv1.GetOffset A) :
    ∃ X out lat2,
      HandleRead (fuel2 + lv1.partsIn lv2 + 1) c 0 A len lat wa = .ok (X, out, lat2) ∧
      X.resident 0 A ∧
      (X.statsAt 0).misses = u64 ((c.statsAt 0).misses + 1) ∧
      (X.statsAt 0).hits = (c.statsAt 0).hits ∧
      (X.statsAt 1).hits = u64 ((c.statsAt 1).hits + lv1.partsIn lv2) ∧
      (X.statsAt 1).misses = (c.statsAt 1).misses := by
  have hl0 := length_of_getElem?_some' h0
  obtain ⟨lv0, hlv0, hsl0⟩ : ∃ lv0, ((c.countAccess 0).countMiss 0).levels_[0]? = some lv0 ∧
      lv1.SameLines lv0 := by
    obtain ⟨st, e⟩ := countMiss_level1 h0
    exact ⟨_, e, ⟨st, rfl⟩⟩
  obtain ⟨⟨lvA, hlvA, hslA⟩, hoth⟩ := TieredCache.Allocate_level hlv0 hsl0 A
  have hv : (((c.countAccess 0).countMiss 0).Allocate lv1 0 A).2.1 = none := by
    have := CacheSet.FindVictim_invalid (lv1.setAt (lv1.GetIndex A))
      c.current_cycle_ (c.rand_.headD 0) hinv hlt
    have hval : (lv1.lineAt (lv1.GetIndex A)
        (lv1.Allocate A c.current_cycle_ (c.rand_.headD 0)).2.2).valid = false := this
    show (lv1.Allocate A c.current_cycle_ (c.rand_.headD 0)).2.1 = none
    rw [CacheLevel.Allocate_victim, hval]
    rfl
  have hAl1 : (((c.countAccess 0).countMiss 0).Allocate lv1 0 A).1.levels_[1]? = some lv2 :=
    (hoth 1 (by decide)).trans ((countMiss_other c 0 1 (by decide)).trans h1)
  have hnext : 0 + 1 < (((c.countAccess 0).countMiss 0).Allocate lv1 0 A).1.levels_.length :=
    length_of_getElem?_some' hAl1
  have hend := line_end_le (by have := g1.bits_le; omega : lv1.offset_bits_ ≤ 63) hA
  rw [← g1.GetAddr_key A hA] at hend
  have hparts : lv1.partsIn lv2 = (if 2 ^ lv1.offset_bits_ ≤ lv2.config_.line_size then 1
      else 2 ^ lv1.offset_bits_ / lv2.config_.line_size) := by
    unfold CacheLevel.partsIn
    rw [g1.line_size_eq]
  obtain ⟨c4, buf, lat4, hfetch, hc40, hc4len, hh4, hm4⟩ :=
    L2_read_line (u32 (lat + lv1.config_.latency)) wa fuel2 g2 hAl1 (g1.GetAddr_key A hA) hend
      (fun j hj => ⟨lv2, hAl1, hhas j (by rw [g1.line_size_eq]; exact hj)⟩)
  rw [← hparts, ← g1.line_size_eq] at hfetch
  rw [← hparts] at hh4
  have heq := @HandleRead_miss_eq (fuel2 + lv1.partsIn lv2) c 0 A len lat wa lv1 h0 hlen hf0 hv
    hnext _ _ _ hfetch
  have hlv4 : c4.levels_[0]? = some lvA := hc40.trans hlvA
  have hgA := CacheLevel.Allocate_SameGeom lv1 A
    ((c.countAccess 0).countMiss 0).current_cycle_
    (((c.countAccess 0).countMiss 0).rand_.headD 0)
  have hway := g1.Allocate_way_lt A ((c.countAccess 0).countMiss 0).current_cycle_
    (((c.countAccess 0).countMiss 0).rand_.headD 0)
  obtain ⟨stA, rfl⟩ := hslA
  have e0 : ((c.countAccess 0).countMiss 0).statsAt 0 =
      { c.statsAt 0 with accesses := u64 ((c.statsAt 0).accesses + 1),
                         misses := u64 ((c.statsAt 0).misses + 1) } :=
    (statsAt_count c 0 _ _ hl0).1
  have e1 : ((c.countAccess 0).countMiss 0).statsAt 1 = c.statsAt 1 :=
    (statsAt_count c 0 _ _ hl0).2 1 (by decide)
  have s40 : c4.statsAt 0 =
      (((c.countAccess 0).countMiss 0).Allocate lv1 0 A).1.statsAt 0 := statsAt_congr hc40
  refine ⟨_, _, _, heq, ?_, ?_, ?_, ?_, ?_⟩
  · exact ⟨_, (afterRead_above _ _ _ _ _ (le_refl 0)).trans
        (install_level (p := (((c.countAccess 0).countMiss 0).Allocate lv1 0 A).2.2)
          hlv4 _ _),
      fill_Has buf _ (hgA.GetIndex A) (hgA.GetTag A) (by
        show _ < ((lv1.Allocate A _ _).1.setAt (lv1.GetIndex A)).lines_.length
        rw [CacheLevel.Allocate_setAt_length]
        exact hway)⟩
  · rw [statsAt_exclusiveAfterRead, statsAt_install, s40, statsAt_Allocate, e0]
  · rw [statsAt_exclusiveAfterRead, statsAt_install, s40, statsAt_Allocate, e0]
  · rw [statsAt_exclusiveAfterRead, statsAt_install, hh4, statsAt_Allocate, e1]
  · rw [statsAt_exclusiveAfterRead, statsAt_install, hm4, statsAt_Allocate, e1]

theorem levels_isEmpty_false {c : TieredCache} {lv : CacheLevel} (h : c.levels_[0]? = some lv) :
    c.levels_.isEmpty = false := by
  have hl0 := length_of_getElem?_some' h
  cases hc : c.levels_ with
  | nil => rw [hc] at hl0; simp at hl0
  | cons _ _ => rfl

/-- A `ReadSpan` within the line of an address that L1 does not hold while its set has an
invalid line and L2 holds every byte of the line: L1 counts a miss, L2 a hit for each part. -/
theorem read_L1_miss_L2_parts {c1 : TieredCache} {A len : Nat} (fuel2 : Nat)
    {lv1 lv2 : CacheLevel} {way : Nat} (g1 : lv1.GeoOK) (g2 : lv2.GeoOK) (hA : A < 2 ^ 64)
    (h0 : c1.levels_[0]? = some lv1) (hf0 : lv1.Find A = none)
    (hlt : way < (lv1.setAt (lv1.GetIndex A)).lines_.length)
    (hinv : (lv1.lineAt (lv1.GetIndex A) way).valid = false)
    (h1 : c1.levels_[1]? = some lv2)
    (hhas : ∀ j, j < lv1.config_.line_size →
      lv2.Has (lv1.GetAddr (lv1.GetTag A) (lv1.GetIndex A) + j))
    (hlen : len ≤ lv1.config_.line_size - lv1.GetOffset A) :
    ∃ c2 out, c1.ReadSpan (fuel2 + lv1.partsIn lv2 + 1) A len = .ok (c2, out) ∧
      (c2.statsAt 0).misses = u64 ((c1.statsAt 0).misses + 1) ∧
      (c2.statsAt 0).hits = (c1.statsAt 0).hits ∧
      (c2.statsAt 1).hits = u64 ((c1.statsAt 1).hits + lv1.partsIn lv2) ∧
      (c2.statsAt 1).misses = (c1.statsAt 1).misses := by
  have hne := levels_isEmpty_false h0
  obtain ⟨X, out, lat2, heq, _, s0, s1, s2, s3⟩ :=
    @HandleRead_L1_miss_L2_parts
      ({ c1 with current_cycle_ := u64 (c1.current_cycle_ + 1),
                 last_access_latency_ := 0 } : TieredCache) A len 0 fuel2 false lv1 lv2 way
      g1 g2 hA h0 hf0 hlt hinv h1 hhas hlen
  refine ⟨{ X with last_access_latency_ := lat2 }, out, ?_, s0, s1, s2, s3⟩
  unfold TieredCache.ReadSpan
  rw [hne]
  simp only [Bool.false_eq_true, if_false, heq]

/-- A `WriteSpan` within the line of an address that L1 does not hold while its set has an
invalid line and L2 holds every byte of the line: L1 counts two misses (the write and its
write-allocate read), L2 a hit for each part. -/
theorem write_L1_miss_L2_parts {c1 : TieredCache} {A : Nat} {inp : List Nat} (fuel2 : Nat)
    {lv1 lv2 : CacheLevel} {way : Nat} (g1 : lv1.GeoOK) (g2 : lv2.GeoOK) (hA : A < 2 ^ 64)
    (h0 : c1.levels_[0]? = some lv1) (hf0 : lv1.Find A = none)
    (hlt : way < (lv1.setAt (lv1.GetIndex A)).lines_.length)
    (hinv : (lv1.lineAt (lv1.GetIndex A) way).valid = false)
    (h1 : c1.levels_[1]? = some lv2)
    (hhas : ∀ j, j < lv1.config_.line_size →
      lv2.Has (lv1.GetAddr (lv1.GetTag A) (lv1.GetIndex A) + j))
    (hlen : inp.length ≤ lv1.config_.line_size - lv1.GetOffset A) :
    ∃ c2, c1.WriteSpan (fuel2 + lv1.partsIn lv2 + 2) A inp = .ok c2 ∧
      (c2.statsAt 0).misses = u64 (u64 ((c1.statsAt 0).misses + 1) + 1) ∧
      (c2.statsAt 0).hits = (c1.statsAt 0).hits ∧
      (c2.statsAt 1).hits = u64 ((c1.statsAt 1).hits + lv1.partsIn lv2) ∧
      (c2.statsAt 1).misses = (c1.statsAt 1).misses := by
  have hne := levels_isEmpty_false h0
  have hl0 : 0 < ({ c1 with current_cycle_ := u64 (c1.current_cycle_ + 1), last_access_latency_ := 0 } : TieredCache).levels_.length := length_of_getElem?_some' h0
  obtain ⟨st, hst⟩ := countMiss_level1 (X := ({ c1 with current_cycle_ := u64 (c1.current_cycle_ + 1), last_access_latency_ := 0 } : TieredCache))
    (i := 0) h0
  have g1' : ({ lv1 with stats_ := st } : CacheLevel).GeoOK :=
    ⟨g1.line_size_eq, g1.num_sets_eq, g1.bits_le, g1.sets_length, g1.assoc_eq, g1.assoc_pos⟩
  obtain ⟨X, out, lat2, heq, ⟨lvX, hlvX, hhasX⟩, s0, s1, s2, s3⟩ :=
    @HandleRead_L1_miss_L2_parts
      ((({ c1 with current_cycle_ := u64 (c1.current_cycle_ + 1), last_access_latency_ := 0 } : TieredCache).countAccess 0).countMiss 0)
      A inp.length (u32 (0 + lv1.config_.latency)) fuel2 true
      ({ lv1 with stats_ := st } : CacheLevel) lv2 way g1' g2 hA hst hf0 hlt hinv
      ((countMiss_other _ 0 1 (by decide)).trans h1) hhas hlen
  obtain ⟨wX, hfX⟩ : ∃ w, lvX.Find A = some w := by
    unfold CacheLevel.Has at hhasX
    cases hF : lvX.Find A with
    | none => rw [hF] at hhasX; cases hhasX
    | some w => exact ⟨w, rfl⟩
  have h0' : ({ c1 with current_cycle_ := u64 (c1.current_cycle_ + 1), last_access_latency_ := 0 } : TieredCache).levels_[0]? = some lv1 := h0
  have hlen' : (Span.buf inp).size ≤ lv1.config_.line_size - lv1.GetOffset A := hlen
  have heq' : HandleRead (fuel2 + lv1.partsIn lv2 + 1) ((({ c1 with current_cycle_ := u64 (c1.current_cycle_ + 1), last_access_latency_ := 0 } : TieredCache).countAccess 0).countMiss 0) 0 A (Span.buf inp).size (u32 (0 + lv1.config_.latency)) true = .ok (X, out, lat2) := heq
  have hW := HandleWrite_miss_eq h0' hlen' hf0 heq' hlvX hfX
  have e0 : ((({ c1 with current_cycle_ := u64 (c1.current_cycle_ + 1), last_access_latency_ := 0 } : TieredCache).countAccess 0).countMiss 0).statsAt 0 =
      { c1.statsAt 0 with accesses := u64 ((c1.statsAt 0).accesses + 1),
                          misses := u64 ((c1.statsAt 0).misses + 1) } :=
    (statsAt_count _ 0 _ _ hl0).1
  have e1 : ((({ c1 with current_cycle_ := u64 (c1.current_cycle_ + 1), last_access_latency_ := 0 } : TieredCache).countAccess 0).countMiss 0).statsAt 1 =
      c1.statsAt 1 :=
    (statsAt_count _ 0 _ _ hl0).2 1 (by decide)
  refine ⟨{ (X.store ⟨0, lvX.GetIndex A, wX⟩ (lv1.GetOffset A)
      (Span.buf inp)).exclusiveAfterWrite 0 (lvX.GetAddr (lvX.GetTag A) (lvX.GetIndex A)) with
      last_access_latency_ := lat2 }, ?_, ?_, ?_, ?_, ?_⟩
  · unfold TieredCache.WriteSpan
    rw [hne]
    simp only [Bool.false_eq_true, if_false, hW]
  · show (((X.store _ _ _).exclusiveAfterWrite _ _).statsAt 0).misses = _
    rw [statsAt_exclusiveAfterWrite, statsAt_store, s0, e0]
  · show (((X.store _ _ _).exclusiveAfterWrite _ _).statsAt 0).hits = _
    rw [statsAt_exclusiveAfterWrite, statsAt_store, s1, e0]
  · show (((X.store _ _ _).exclusiveAfterWrite _ _).statsAt 1).hits = _
    rw [statsAt_exclusiveAfterWrite, statsAt_store, s2, e1]
    rfl
  · show (((X.store _ _ _).exclusiveAfterWrite _ _).statsAt 1).misses = _
    rw [statsAt_exclusiveAfterWrite, statsAt_store, s3, e1]

end MultilevelCache

namespace MultilevelCache

/-- C1 (failing input): inclusive policy, L1 and L2 both 8 bytes, 2-way, 4-byte lines, over
128 zero bytes of memory.  After a 1-byte load at 8 and a 1-byte store at 12, the 8-byte
store of 11..18 at address 0 immediately followed by the 8-byte load at 0 returns
0,0,0,0,15,16,17,18: the first four stored bytes are lost. -/
theorem store_load_loses_bytes :
    (match TieredCache.runFresh 32
        { enable_cache := true, inclusion_policy := InclusionPolicy.Inclusive,
          cache_levels := [{ size := 8, associativity := 2, line_size := 4 },
                           { size := 8, associativity := 2, line_size := 4 }] }
        (Memory.new 128) []
        [Call.read 8 1, Call.write 12 [1], Call.write 0 [11, 12, 13, 14, 15, 16, 17, 18]] with
     | .error e => .error e
     | .ok c =>
       match c.ReadSpan 32 0 8 with
       | .error e => .error e
       | .ok (_, out) => .ok out) = Except.ok [0, 0, 0, 0, 15, 16, 17, 18] := by
  decide!

/-- C3 (failing input): inclusive policy, three levels of 8 bytes, 2-way, 4-byte lines.
After 1-byte stores at 0, 4 and 8 and a 1-byte load at 0, the line of address 8 is valid in
L2 (level 1) and in neither L1 nor L3 (level 2). -/
theorem inclusion_broken_after_four_calls :
    (match TieredCache.runFresh 32
        { enable_cache := true, inclusion_policy := InclusionPolicy.Inclusive,
          cache_levels := [{ size := 8, associativity := 2, line_size := 4 },
                           { size := 8, associativity := 2, line_size := 4 },
                           { size := 8, associativity := 2, line_size := 4 }] }
        (Memory.new 128) []
        [Call.write 0 [1], Call.write 4 [2], Call.write 8 [3], Call.read 0 1] with
     | .error e => .error e
     | .ok c => .ok (c.levels_.map (fun lv => (lv.Find 8).isSome))) =
      Except.ok [false, true, false] := by
  decide!

end MultilevelCache

namespace MultilevelCache

/-- C4: under the exclusive policy, in a hierarchy whose levels all have the same line size
(64-bit configuration values), after every sequence of `ReadSpan`, `WriteSpan` and `Demote`
calls (32-bit addresses) made on the freshly constructed cache, no address has its line
valid in two different levels. -/
theorem exclusive_single_copy (fuel : Nat) (opts : Options) (m : Memory) (rand : List Nat)
    (calls : List Call) (c : TieredCache) (ls : Nat)
    (hpol : opts.inclusion_policy = InclusionPolicy.Exclusive) (hls : ls < 2 ^ 64)
    (hcfg : ∀ cfg ∈ opts.cache_levels, cfg.line_size = ls ∧ cfg.size < 2 ^ 64)
    (hcalls : ∀ call ∈ calls, call.addr < 2 ^ 32)
    (h : TieredCache.runFresh fuel opts m rand calls = .ok c) :
    ∀ (a i j : Nat) (lvi lvj : CacheLevel), c.levels_[i]? = some lvi →
      c.levels_[j]? = some lvj → (lvi.Find a).isSome = true → (lvj.Find a).isSome = true →
      i = j := by
  obtain ⟨ob, _, hex⟩ := reachable_excl hpol ls hls hcfg hcalls h
  intro a i j lvi lvj hi hj hfi hfj
  exact hex a i j (Nat.zero_le i) (Nat.zero_le j) ⟨lvi, hi, hfi⟩ ⟨lvj, hj, hfj⟩

/-- C4 witness: the two-level exclusive hierarchy `exampleExclOpts` after a store at 0 and
`Demote(0)`. -/
theorem exclusive_single_copy_witness :
    (exampleExclOpts.inclusion_policy = InclusionPolicy.Exclusive ∧ (4 : Nat) < 2 ^ 64 ∧
      (∀ cfg ∈ exampleExclOpts.cache_levels, cfg.line_size = 4 ∧ cfg.size < 2 ^ 64) ∧
      (∀ call ∈ [Call.write 0 [1], Call.demote 0], call.addr < 2 ^ 32) ∧
      TieredCache.runFresh 8 exampleExclOpts (Memory.new 16) []
        [Call.write 0 [1], Call.demote 0] = .ok exampleExclAfterDemote) ∧
    ∀ (a i j : Nat) (lvi lvj : CacheLevel), exampleExclAfterDemote.levels_[i]? = some lvi →
      exampleExclAfterDemote.levels_[j]? = some lvj → (lvi.Find a).isSome = true →
      (lvj.Find a).isSome = true → i = j :=
  ⟨⟨rfl, by norm_num, by decide, by decide, by decide!⟩,
   exclusive_single_copy 8 exampleExclOpts (Memory.new 16) []
     [Call.write 0 [1], Call.demote 0] exampleExclAfterDemote 4 rfl (by norm_num) (by decide)
     (by decide) (by decide!)⟩

end MultilevelCache

namespace MultilevelCache

/-- C5 (counterexamples): two exclusive hierarchies whose L1 has one 8-byte line and whose L2
has 4-byte lines, over 128 bytes of memory, so that `Demote` writes a line to L2 in two parts
that fall into the same set.
(1) L2 is one line.  After a 1-byte store at 0 the line of address 0 is valid in L1.  In
`Demote(0)` the second part evicts the first: afterwards L2 does not hold address 0, and the
next 1-byte load at 0 counts no hit in L2 (two more misses).
(2) L2 is one 2-way set with random replacement, and `std::rand()` returns 1804289383,
846930886, 1681692777, 1714636915, 1957747793, 424238335 (the first values of glibc without
`srand`).  After 1-byte stores at 0, 8 and 16 the line of address 16 is valid in L1, L2 is
full of other lines and four values are used up.  In `Demote(16)` both parts draw way 1, so
the second part evicts the first: afterwards L2 does not hold address 16, and the next 1-byte
load at 16 counts a miss in L2. -/
theorem Demote_unequal_lines_leaves_L2 :
    (match TieredCache.runFresh 32
        { enable_cache := true, inclusion_policy := InclusionPolicy.Exclusive,
          cache_levels := [{ size := 8, associativity := 1, line_size := 8 },
                           { size := 4, associativity := 1, line_size := 4 }] }
        (Memory.new 128) [] [Call.write 0 [1]] with
     | .error e => .error e
     | .ok c =>
       match c.Demote 32 0 with
       | .error e => .error e
       | .ok c1 =>
         match c1.ReadSpan 32 0 1 with
         | .error e => .error e
         | .ok (c2, _) =>
           .ok (c.levels_.map (fun lv => (lv.Find 0).isSome),
                c1.levels_.map (fun lv => (lv.Find 0).isSome),
                (c1.statsAt 1).hits, (c2.statsAt 1).hits,
                (c2.statsAt 1).misses - (c1.statsAt 1).misses)) =
      Except.ok ([true, false], [false, false], 0, 0, 2) ∧
    (match TieredCache.runFresh 32
        { enable_cache := true, inclusion_policy := InclusionPolicy.Exclusive,
          cache_levels := [{ size := 8, associativity := 1, line_size := 8 },
                           { size := 8, associativity := 2, line_size := 4,
                             replacement_policy := ReplacementPolicy.Random }] }
        (Memory.new 128)
        [1804289383, 846930886, 1681692777, 1714636915, 1957747793, 424238335]
        [Call.write 0 [1], Call.write 8 [1], Call.write 16 [1]] with
     | .error e => .error e
     | .ok c =>
       match c.Demote 32 16 with
       | .error e => .error e
       | .ok c1 =>
         match c1.ReadSpan 32 16 1 with
         | .error e => .error e
         | .ok (c2, _) =>
           .ok (c.levels_.map (fun lv => (lv.Find 16).isSome), c.rand_,
                c1.levels_.map (fun lv => (lv.Find 16).isSome), c1.rand_,
                (c2.statsAt 1).misses - (c1.statsAt 1).misses)) =
      Except.ok ([true, false], [1957747793, 424238335], [false, false], [], 1) := by
  decide!

/-- C5 (amended): under the exclusive policy, in a hierarchy of at least two levels in which
L2 has room for the parts of a line of L1 (`CacheLevel.Room`: the parts fall into different
sets of L2, or L2 replaces the least recently used line and has at least as many lines as the
line has parts), reached from the constructor by calls on 32-bit addresses, if L1 holds the
line of the address A then `Demote(A)` returns, given enough fuel, and after it (1) L1 does
not hold the line, (2) L2 holds the line of A and of every other byte of the L1 line, with the
byte L1 had, (3) every following `ReadSpan` at A within the L1 line returns having counted one
miss in L1 and only hits in L2, one for each part of the line, and (4) every such `WriteSpan`
returns having counted two misses in L1 (the write and its write-allocate read) and only hits
in L2, one for each part. -/
theorem Demote_moves_line_to_L2 (fuel : Nat) (opts : Options) (m : Memory)
    (rand : List Nat) (calls : List Call) (c : TieredCache) (A : Nat) (l1 l2 : CacheLevel)
    (way : Nat)
    (hpol : opts.inclusion_policy = InclusionPolicy.Exclusive)
    (hcfg : ∀ cfg ∈ opts.cache_levels, cfg.line_size < 2 ^ 64 ∧ cfg.size < 2 ^ 64)
    (hcalls : ∀ call ∈ calls, call.addr < 2 ^ 32) (hlen : calls.length + 1 < 2 ^ 64)
    (hA : A < 2 ^ 32)
    (hrun : TieredCache.runFresh fuel opts m rand calls = .ok c)
    (hl1 : c.levels_[0]? = some l1) (hl2 : c.levels_[1]? = some l2)
    (hres : l1.Find A = some way) (hroom : l1.Room l2) :
    (∃ F, ∀ fuel1, F ≤ fuel1 → ∃ c1, c.Demote fuel1 A = .ok c1) ∧
    ∀ fuel1 c1, c.Demote fuel1 A = .ok c1 →
      (∃ lv1, c1.levels_[0]? = some lv1 ∧ lv1.Find A = none) ∧
      (∃ lv2, c1.levels_[1]? = some lv2 ∧ (∃ way2, lv2.Find A = some way2) ∧
        ∀ j, j < l1.config_.line_size → ∃ way2,
          lv2.Find (l1.GetAddr (l1.GetTag A) (l1.GetIndex A) + j) = some way2 ∧
          (lv2.lineAt (lv2.GetIndex (l1.GetAddr (l1.GetTag A) (l1.GetIndex A) + j))
              way2).data[lv2.GetOffset (l1.GetAddr (l1.GetTag A) (l1.GetIndex A) + j)]? =
            (l1.lineAt (l1.GetIndex A) way).data[j]?) ∧
      (∀ fuel2 len, len ≤ l1.config_.line_size - l1.GetOffset A →
        ∃ c2 out, c1.ReadSpan (fuel2 + l1.partsIn l2 + 1) A len = .ok (c2, out) ∧
          (c2.statsAt 0).misses = u64 ((c1.statsAt 0).misses + 1) ∧
          (c2.statsAt 0).hits = (c1.statsAt 0).hits ∧
          (c2.statsAt 1).hits = u64 ((c1.statsAt 1).hits + l1.partsIn l2) ∧
          (c2.statsAt 1).misses = (c1.statsAt 1).misses) ∧
      (∀ fuel2 (inp : List Nat), inp.length ≤ l1.config_.line_size - l1.GetOffset A →
        ∃ c2, c1.WriteSpan (fuel2 + l1.partsIn l2 + 2) A inp = .ok c2 ∧
          (c2.statsAt 0).misses = u64 (u64 ((c1.statsAt 0).misses + 1) + 1) ∧
          (c2.statsAt 0).hits = (c1.statsAt 0).hits ∧
          (c2.statsAt 1).hits = u64 ((c1.statsAt 1).hits + l1.partsIn l2) ∧
          (c2.statsAt 1).misses = (c1.statsAt 1).misses) := by
  obtain ⟨G, hI⟩ := InvFrom.reachable_from_new hpol hcfg hcalls (by omega) hrun
    (length_of_getElem?_some' hl1)
  have hG : 0 < G.length := by
    rw [← hI.2.2.2.1]
    exact length_of_getElem?_some' hl1
  have hA64 : A < 2 ^ 64 := lt_trans hA (by norm_num)
  refine ⟨Demote_returns hI hlen hA64 hl1 hres, fun fuel1 c1 hd => ?_⟩
  obtain ⟨⟨lv1, h0, hsg1, hf0, hval⟩, lv2, h1, hsg2, hb⟩ :=
    Demote_effect hI hlen hA64 hl1 hl2 hres hroom hd
  have hI1 := hI.Demote_inv hG hlen hd
  obtain ⟨_, _, _, hinvl1⟩ := hI.2.2.2.2 0 l1 (le_refl 0) hl1
  obtain ⟨_, _, _, hinv1⟩ := hI1.2.2.2.2 0 lv1 (le_refl 0) h0
  obtain ⟨_, _, _, hinv2⟩ := hI1.2.2.2.2 1 lv2 (Nat.zero_le 1) h1
  have g1 := hinvl1.wf.geo
  obtain ⟨hway, _, _⟩ := CacheLevel.Find_some hres
  have hhas : ∀ j, j < l1.config_.line_size →
      lv2.Has (l1.GetAddr (l1.GetTag A) (l1.GetIndex A) + j) := by
    intro j hj
    obtain ⟨w, hv, ht, _⟩ := hb j hj
    exact CacheLevel.Has_of_slot (hsg2.GetIndex _) hv (ht.trans (hsg2.GetTag _).symm)
  have hfind : ∀ j, j < l1.config_.line_size → ∃ way2,
      lv2.Find (l1.GetAddr (l1.GetTag A) (l1.GetIndex A) + j) = some way2 ∧
      (lv2.lineAt (lv2.GetIndex (l1.GetAddr (l1.GetTag A) (l1.GetIndex A) + j))
          way2).data[lv2.GetOffset (l1.GetAddr (l1.GetTag A) (l1.GetIndex A) + j)]? =
        (l1.lineAt (l1.GetIndex A) way).data[j]? := by
    intro j hj
    obtain ⟨w, hv, ht, hdat⟩ := hb j hj
    have hH := hhas j hj
    unfold CacheLevel.Has at hH
    cases hF : lv2.Find (l1.GetAddr (l1.GetTag A) (l1.GetIndex A) + j) with
    | none => rw [hF] at hH; cases hH
    | some w2 =>
      obtain ⟨_, hv2, ht2⟩ := CacheLevel.Find_some hF
      rw [hsg2.GetIndex] at hv2 ht2
      rw [hsg2.GetTag] at ht2
      have hw : w2 = w := hinv2.wf.nodup _ w2 w hv2 hv (ht2.trans ht.symm)
      subst hw
      refine ⟨w2, rfl, ?_⟩
      rw [hsg2.GetIndex, hsg2.GetOffset]
      exact hdat
  have hAeq : l1.GetAddr (l1.GetTag A) (l1.GetIndex A) + l1.GetOffset A = A := by
    rw [g1.GetAddr_key A hA64, g1.GetOffset_eq]
    unfold lineNo
    rw [Nat.shiftRight_eq_div_pow, Nat.mul_comm]
    exact Nat.div_add_mod A _
  have hpi : lv1.partsIn lv2 = l1.partsIn l2 := by
    unfold CacheLevel.partsIn
    rw [hsg1.1, hsg2.1]
  have hlt' : way < (lv1.setAt (lv1.GetIndex A)).lines_.length := by
    rw [(hinv1.skel _ (hinv1.wf.geo.setAt_mem A)).1, hsg1.1,
      ← (hinvl1.skel _ (g1.setAt_mem A)).1]
    exact hway
  have hval' : (lv1.lineAt (lv1.GetIndex A) way).valid = false := by
    rw [hsg1.GetIndex]; exact hval
  have hhas' : ∀ j, j < lv1.config_.line_size →
      lv2.Has (lv1.GetAddr (lv1.GetTag A) (lv1.GetIndex A) + j) := by
    intro j hj
    rw [hsg1.GetAddr, hsg1.GetTag, hsg1.GetIndex]
    exact hhas j (by rw [← hsg1.1]; exact hj)
  refine ⟨⟨lv1, h0, hf0⟩, ⟨lv2, h1, ?_, hfind⟩, fun fuel2 len hl => ?_, fun fuel2 inp hl => ?_⟩
  · obtain ⟨w2, hw2, _⟩ := hfind (l1.GetOffset A) (hinvl1.wf.GetOffset_lt A)
    rw [hAeq] at hw2
    exact ⟨w2, hw2⟩
  · have := @read_L1_miss_L2_parts c1 A len fuel2 lv1 lv2 way hinv1.wf.geo hinv2.wf.geo hA64
      h0 hf0 hlt' hval' h1 hhas' (by rw [hsg1.1, hsg1.GetOffset]; exact hl)
    rw [hpi] at this
    exact this
  · have := @write_L1_miss_L2_parts c1 A inp fuel2 lv1 lv2 way hinv1.wf.geo hinv2.wf.geo hA64
      h0 hf0 hlt' hval' h1 hhas' (by rw [hsg1.1, hsg1.GetOffset]; exact hl)
    rw [hpi] at this
    exact this

/-- C5 witness: the hierarchy `exampleRoomOpts` (L1 one 8-byte line, L2 one 2-way LRU set of
4-byte lines) after stores at 0, 8 and 16 holds the line of address 16 in L1 while both lines
of L2 hold other bytes (`exampleRoomState`); the two parts of the line fall into the one set
of L2, which has room for them. -/
theorem Demote_moves_line_to_L2_witness :
    (exampleRoomOpts.inclusion_policy = InclusionPolicy.Exclusive ∧
      TieredCache.runFresh 8 exampleRoomOpts (Memory.new 32) []
        [Call.write 0 [1], Call.write 8 [2], Call.write 16 [3]] = .ok exampleRoomState ∧
      exampleRoomState.levels_[0]? = some exampleRoomL1 ∧
      exampleRoomState.levels_[1]? = some exampleRoomL2 ∧
      exampleRoomL1.Find 16 = some 0 ∧ exampleRoomL1.partsIn exampleRoomL2 = 2 ∧
      exampleRoomL1.Room exampleRoomL2) ∧
    (∃ F, ∀ fuel1, F ≤ fuel1 → ∃ c1, exampleRoomState.Demote fuel1 16 = .ok c1) ∧
    ∀ fuel1 c1, exampleRoomState.Demote fuel1 16 = .ok c1 →
      (∃ lv1, c1.levels_[0]? = some lv1 ∧ lv1.Find 16 = none) ∧
      (∃ lv2, c1.levels_[1]? = some lv2 ∧ (∃ way2, lv2.Find 16 = some way2) ∧
        ∀ j, j < exampleRoomL1.config_.line_size → ∃ way2,
          lv2.Find (exampleRoomL1.GetAddr (exampleRoomL1.GetTag 16)
            (exampleRoomL1.GetIndex 16) + j) = some way2 ∧
          (lv2.lineAt (lv2.GetIndex (exampleRoomL1.GetAddr (exampleRoomL1.GetTag 16)
              (exampleRoomL1.GetIndex 16) + j))
              way2).data[lv2.GetOffset (exampleRoomL1.GetAddr (exampleRoomL1.GetTag 16)
                (exampleRoomL1.GetIndex 16) + j)]? =
            (exampleRoomL1.lineAt (exampleRoomL1.GetIndex 16) 0).data[j]?) ∧
      (∀ fuel2 len, len ≤ exampleRoomL1.config_.line_size - exampleRoomL1.GetOffset 16 →
        ∃ c2 out, c1.ReadSpan (fuel2 + exampleRoomL1.partsIn exampleRoomL2 + 1) 16 len =
            .ok (c2, out) ∧
          (c2.statsAt 0).misses = u64 ((c1.statsAt 0).misses + 1) ∧
          (c2.statsAt 0).hits = (c1.statsAt 0).hits ∧
          (c2.statsAt 1).hits =
            u64 ((c1.statsAt 1).hits + exampleRoomL1.partsIn exampleRoomL2) ∧
          (c2.statsAt 1).misses = (c1.statsAt 1).misses) ∧
      (∀ fuel2 (inp : List Nat),
        inp.length ≤ exampleRoomL1.config_.line_size - exampleRoomL1.GetOffset 16 →
        ∃ c2, c1.WriteSpan (fuel2 + exampleRoomL1.partsIn exampleRoomL2 + 2) 16 inp = .ok c2 ∧
          (c2.statsAt 0).misses = u64 (u64 ((c1.statsAt 0).misses + 1) + 1) ∧
          (c2.statsAt 0).hits = (c1.statsAt 0).hits ∧
          (c2.statsAt 1).hits =
            u64 ((c1.statsAt 1).hits + exampleRoomL1.partsIn exampleRoomL2) ∧
          (c2.statsAt 1).misses = (c1.statsAt 1).misses) :=
  ⟨⟨rfl, by decide!, rfl, rfl, by decide!, by decide, Or.inr ⟨rfl, by decide⟩⟩,
   Demote_moves_line_to_L2 8 exampleRoomOpts (Memory.new 32) []
     [Call.write 0 [1], Call.write 8 [2], Call.write 16 [3]] exampleRoomState 16
     exampleRoomL1 exampleRoomL2 0 rfl (by decide) (by decide) (by norm_num) (by norm_num)
     (by decide!) rfl rfl (by decide!) (Or.inr ⟨rfl, by decide⟩)⟩

end MultilevelCache

namespace MultilevelCache

/-- C6: in every state that a freshly constructed cache reaches through `ReadSpan`,
`WriteSpan` and `Demote` calls, once `Demote(A)` has returned, a second `Demote(A)` returns
(whatever its recursion budget) and leaves the cache levels (lines and per-level counters)
and the backing store exactly as the first call left them. -/
theorem Demote_twice_eq_once (fuel fuel1 fuel2 : Nat) (opts : Options) (m : Memory)
    (rand : List Nat) (calls : List Call) (c c1 : TieredCache) (A : Nat)
    (hc : TieredCache.runFresh fuel opts m rand calls = .ok c)
    (h1 : c.Demote fuel1 A = .ok c1) :
    ∃ c2, c1.Demote fuel2 A = .ok c2 ∧ c2.levels_ = c1.levels_ ∧
      c2.main_memory_ = c1.main_memory_ := by
  have habs := Demote_then_absent (L1NoDup.reachable hc) h1
  unfold TieredCache.Demote
  cases hl : c1.levels_[0]? with
  | none => exact ⟨c1, rfl, rfl, rfl⟩
  | some lv1 =>
    simp only [habs lv1 hl]
    exact ⟨_, rfl, rfl, rfl⟩

/-- C6 witness: the one-level cache reached by a store, two loads and a demote; `Demote(2)`
evicts the line of address 2, and a second `Demote(2)` changes neither levels nor memory. -/
theorem Demote_twice_eq_once_witness :
    TieredCache.runFresh 8
        { enable_cache := true,
          cache_levels := [{ size := 2, associativity := 1, line_size := 2 }] }
        (Memory.new 8) []
        [Call.write 0 [7], Call.read 1 1, Call.read 2 1, Call.demote 0] =
      .ok exampleAfterFourCalls ∧
    exampleAfterFourCalls.Demote 1 2 = .ok exampleAfterDemote ∧
    ∃ c2, exampleAfterDemote.Demote 0 2 = .ok c2 ∧ c2.levels_ = exampleAfterDemote.levels_ ∧
      c2.main_memory_ = exampleAfterDemote.main_memory_ :=
  ⟨by decide!, by decide!,
   Demote_twice_eq_once 8 1 0
     { enable_cache := true,
       cache_levels := [{ size := 2, associativity := 1, line_size := 2 }] }
     (Memory.new 8) [] [Call.write 0 [7], Call.read 1 1, Call.read 2 1, Call.demote 0]
     exampleAfterFourCalls exampleAfterDemote 2 (by decide!) (by decide!)⟩

end MultilevelCache

namespace TrapHandling

/-- C10 (words DecodeInst accepts although their funct3/funct7 is no listed encoding): the
word `0x40001013` (OP_IMM, funct3 = 1, funct7 = 0x20) is decoded as SLLI, the word
`0x4000101B` (OP_IMM32, funct3 = 1, funct7 = 0x20) as SLLIW, and the word `0x00001067`
(OP_JALR, funct3 = 1) as JALR, for every register file. -/
theorem decode_accepts_unlisted_combinations (regs : Regs) :
    DecodeInst { inst := 0x40001013 } regs =
      .ok { inst := 0x40001013, inst_type := InstType.SLLI, op1 := toInt64 (regs 0),
            rs1 := 0, op2 := 0, dest_reg := 0 } ∧
    DecodeInst { inst := 0x4000101B } regs =
      .ok { inst := 0x4000101B, inst_type := InstType.SLLIW, op1 := toInt64 (regs 0),
            rs1 := 0, op2 := 1024, dest_reg := 0 } ∧
    DecodeInst { inst := 0x00001067 } regs =
      .ok { inst := 0x00001067, inst_type := InstType.JALR, op1 := toInt64 (regs 0),
            rs1 := 0, op2 := 0, dest_reg := 0 } := by
  refine ⟨?_, ?_, ?_⟩ <;> rfl

end TrapHandling

namespace TrapHandling

theorem toUInt64_cast (i : Int) : ((toUInt64 i : Nat) : Int) = i % 2 ^ 64 := by
  unfold toUInt64
  omega

theorem toUInt32_cast (i : Int) : ((toUInt32 i : Nat) : Int) = i % 2 ^ 32 := by
  unfold toUInt32
  omega

theorem toUInt64_lt (i : Int) : toUInt64 i < 2 ^ 64 := by
  have := toUInt64_cast i
  omega

theorem toUInt32_lt (i : Int) : toUInt32 i < 2 ^ 32 := by
  have := toUInt32_cast i
  omega

theorem toInt64_range (n : Nat) : -2 ^ 63 ≤ toInt64 n ∧ toInt64 n < 2 ^ 63 := by
  unfold toInt64
  split <;> omega

theorem toInt32_range (n : Nat) : -2 ^ 31 ≤ toInt32 n ∧ toInt32 n < 2 ^ 31 := by
  unfold toInt32
  split <;> omega

theorem toInt64_emod (n : Nat) : toInt64 n % 2 ^ 64 = (n : Int) % 2 ^ 64 := by
  unfold toInt64
  split <;> omega

theorem toInt32_emod (n : Nat) : toInt32 n % 2 ^ 32 = (n : Int) % 2 ^ 32 := by
  unfold toInt32
  split <;> omega

theorem toUInt64_toInt64 (n : Nat) : toUInt64 (toInt64 n) = n % 2 ^ 64 := by
  have h1 := toUInt64_cast (toInt64 n)
  have h2 := toInt64_emod n
  omega

theorem toUInt32_toInt32 (n : Nat) : toUInt32 (toInt32 n) = n % 2 ^ 32 := by
  have h1 := toUInt32_cast (toInt32 n)
  have h2 := toInt32_emod n
  omega

theorem toInt64_of_lt {n : Nat} (h : n < 2 ^ 63) : toInt64 n = n := by
  unfold toInt64
  split <;> omega

theorem toInt32_of_lt {n : Nat} (h : n < 2 ^ 31) : toInt32 n = n := by
  unfold toInt32
  split <;> omega

theorem wrap64_range (i : Int) : -2 ^ 63 ≤ wrap64 i ∧ wrap64 i < 2 ^ 63 :=
  toInt64_range _

theorem wrap64_emod (i : Int) : wrap64 i % 2 ^ 64 = i % 2 ^ 64 := by
  unfold wrap64
  have h1 := toInt64_emod (toUInt64 i)
  have h2 := toUInt64_cast i
  omega

theorem wrap64_of_range {i : Int} (h1 : -2 ^ 63 ≤ i) (h2 : i < 2 ^ 63) : wrap64 i = i := by
  have := wrap64_range i
  have := wrap64_emod i
  omega

theorem toUInt64_wrap64 (i : Int) : toUInt64 (wrap64 i) = toUInt64 i := by
  have h1 := toUInt64_cast (wrap64 i)
  have h2 := toUInt64_cast i
  have h3 := wrap64_emod i
  omega

theorem toUInt32_wrap64 (i : Int) : toUInt32 (wrap64 i) = toUInt32 i := by
  have h1 := toUInt32_cast (wrap64 i)
  have h2 := toUInt32_cast i
  have h3 := wrap64_emod i
  omega

theorem int32_of_range (i : Int) : -2 ^ 31 ≤ int32_of i ∧ int32_of i < 2 ^ 31 :=
  toInt32_range _

theorem int32_of_emod (i : Int) : int32_of i % 2 ^ 32 = i % 2 ^ 32 := by
  unfold int32_of
  have h1 := toInt32_emod (toUInt32 i)
  have h2 := toUInt32_cast i
  omega

theorem int32_of_of_range {i : Int} (h1 : -2 ^ 31 ≤ i) (h2 : i < 2 ^ 31) : int32_of i = i := by
  have := int32_of_range i
  have := int32_of_emod i
  omega

/-- The `uint32_t` a 64-bit sum of the program counter and a displacement is stored as. -/
theorem toUInt32_pc_add (pc : Nat) (k : Int) :
    toUInt32 (wrap64 (toInt64 pc + k)) = (((pc : Int) + k) % 2 ^ 32).toNat := by
  rw [toUInt32_wrap64]
  have h1 := toUInt32_cast (toInt64 pc + k)
  have h2 := toInt64_emod pc
  omega

/-- The low 32 bits of `pc + 4`. -/
theorem toUInt32_pc_add_four (pc : Nat) :
    toUInt32 (wrap64 (toInt64 pc + 4)) = (pc + 4) % 2 ^ 32 := by
  rw [toUInt32_pc_add]
  omega

end TrapHandling

namespace TrapHandling

/-- Masking with `n` ones shifted up by `k` keeps the bit field `[k, k + n)` in place. -/
theorem and_mask (x n k : Nat) : x &&& ((2 ^ n - 1) * 2 ^ k) = (x / 2 ^ k % 2 ^ n) * 2 ^ k := by
  apply Nat.eq_of_testBit_eq
  intro i
  rw [Nat.testBit_and, Nat.mul_comm (2 ^ n - 1), Nat.mul_comm (x / 2 ^ k % 2 ^ n),
    Nat.testBit_mul_pow_two, Nat.testBit_mul_pow_two, Nat.testBit_two_pow_sub_one,
    Nat.testBit_mod_two_pow, ← Nat.shiftRight_eq_div_pow, Nat.testBit_shiftRight]
  by_cases h : k ≤ i
  · have e : k + (i - k) = i := by omega
    rw [e]
    cases x.testBit i <;> simp [h]
  · simp [h]

/-- Bit patterns that do not overlap are joined by addition. -/
theorem or_disjoint {a : Nat} (b k : Nat) (ha : a < 2 ^ k) : a ||| (b * 2 ^ k) = a + b * 2 ^ k := by
  rw [Nat.lor_comm, Nat.mul_comm b, ← Nat.mul_add_lt_is_or ha b, Nat.add_comm]

/-- The arithmetic right shift of an integer by a count written as an integer. -/
theorem sar_div (m : Int) (n : Nat) : m >>> (n : Int) = m / ((2 ^ n : Nat) : Int) := by
  rw [← Int.shiftRight_eq_div_pow]
  cases m with
  | ofNat k => exact Int.shiftRight_coe_nat k n
  | negSucc k => exact Int.shiftRight_negSucc k n

theorem shl_sar32_20 (x : Nat) : shl_sar32 x 20 20 = signExtend 12 x := by
  unfold shl_sar32 signExtend toInt32
  rw [Nat.shiftLeft_eq, Int.shiftRight_eq_div_pow]
  norm_num
  split <;> split <;> omega

theorem shl_sar32_19 (x : Nat) : shl_sar32 x 19 19 = signExtend 13 x := by
  unfold shl_sar32 signExtend toInt32
  rw [Nat.shiftLeft_eq, Int.shiftRight_eq_div_pow]
  norm_num
  split <;> split <;> omega

theorem shl_sar32_12_11 (x : Nat) : shl_sar32 x 12 11 = signExtend 21 (x * 2) := by
  unfold shl_sar32 signExtend toInt32
  rw [Nat.shiftLeft_eq, Int.shiftRight_eq_div_pow]
  norm_num
  split <;> split <;> omega

theorem imm_i_eq (inst : Nat) (h : inst < 2 ^ 32) : imm_i inst = encoded_imm_I inst := by
  unfold imm_i encoded_imm_I signExtend bitField toInt32
  have e := sar_div (if inst % 2 ^ 32 < 2 ^ 31 then ((inst % 2 ^ 32 : Nat) : Int)
    else ((inst % 2 ^ 32 : Nat) : Int) - 2 ^ 32) 20
  rw [show ((20 : Nat) : Int) = 20 from rfl] at e
  rw [e]
  norm_num
  split <;> split <;> omega

theorem imm_s_eq (inst : Nat) : imm_s inst = encoded_imm_S inst := by
  unfold imm_s encoded_imm_S
  rw [shl_sar32_20]
  congr 1
  have a1 : (inst >>> 7) &&& 0x1F = inst >>> 7 / 2 ^ 0 % 2 ^ 5 * 2 ^ 0 := and_mask _ 5 0
  have a2 : (inst >>> 20) &&& 0xFE0 = inst >>> 20 / 2 ^ 5 % 2 ^ 7 * 2 ^ 5 := and_mask _ 7 5
  rw [a1, a2, or_disjoint _ 5 (by norm_num; omega)]
  simp only [Nat.shiftRight_eq_div_pow, bitField]
  norm_num
  omega

theorem imm_sb_eq (inst : Nat) : imm_sb inst = encoded_imm_B inst := by
  unfold imm_sb encoded_imm_B
  rw [shl_sar32_19]
  congr 1
  have a1 : (inst >>> 7) &&& 0x1E = inst >>> 7 / 2 ^ 1 % 2 ^ 4 * 2 ^ 1 := and_mask _ 4 1
  have a2 : (inst >>> 20) &&& 0x7E0 = inst >>> 20 / 2 ^ 5 % 2 ^ 6 * 2 ^ 5 := and_mask _ 6 5
  have a3 : (inst <<< 4) &&& 0x800 = inst <<< 4 / 2 ^ 11 % 2 ^ 1 * 2 ^ 11 := and_mask _ 1 11
  have a4 : (inst >>> 19) &&& 0x1000 = inst >>> 19 / 2 ^ 12 % 2 ^ 1 * 2 ^ 12 := and_mask _ 1 12
  rw [a1, a2, a3, a4, or_disjoint _ 5 (by norm_num; omega),
    or_disjoint _ 11 (by norm_num; omega), or_disjoint _ 12 (by norm_num; omega)]
  simp only [Nat.shiftRight_eq_div_pow, Nat.shiftLeft_eq, bitField]
  norm_num
  omega

theorem imm_uj_eq (inst : Nat) : imm_uj inst = encoded_imm_J inst := by
  unfold imm_uj encoded_imm_J
  rw [shl_sar32_12_11]
  congr 1
  have a1 : (inst >>> 21) &&& 0x3FF = inst >>> 21 / 2 ^ 0 % 2 ^ 10 * 2 ^ 0 := and_mask _ 10 0
  have a2 : (inst >>> 10) &&& 0x400 = inst >>> 10 / 2 ^ 10 % 2 ^ 1 * 2 ^ 10 := and_mask _ 1 10
  have a3 : (inst >>> 1) &&& 0x7F800 = inst >>> 1 / 2 ^ 11 % 2 ^ 8 * 2 ^ 11 := and_mask _ 8 11
  have a4 : (inst >>> 12) &&& 0x80000 = inst >>> 12 / 2 ^ 19 % 2 ^ 1 * 2 ^ 19 :=
    and_mask _ 1 19
  rw [a1, a2, a3, a4, or_disjoint _ 10 (by norm_num; omega),
    or_disjoint _ 11 (by norm_num; omega), or_disjoint _ 19 (by norm_num; omega)]
  simp only [Nat.shiftRight_eq_div_pow, bitField, Nat.div_div_eq_div_mul]
  norm_num
  omega

end TrapHandling

namespace TrapHandling

/-- The opcode of a word is one of the twelve `DecodeInst` knows, or none of them. -/
theorem opcode_cases (x : Nat) :
    x = OP_REG ∨ x = OP_IMM ∨ x = OP_LUI ∨ x = OP_AUIPC ∨ x = OP_JAL ∨ x = OP_JALR ∨
    x = OP_BRANCH ∨ x = OP_STORE ∨ x = OP_LOAD ∨ x = OP_SYSTEM ∨ x = OP_IMM32 ∨ x = OP_32 ∨
    (x ≠ OP_REG ∧ x ≠ OP_IMM ∧ x ≠ OP_LUI ∧ x ≠ OP_AUIPC ∧ x ≠ OP_JAL ∧ x ≠ OP_JALR ∧
      x ≠ OP_BRANCH ∧ x ≠ OP_STORE ∧ x ≠ OP_LOAD ∧ x ≠ OP_SYSTEM ∧ x ≠ OP_IMM32 ∧ x ≠ OP_32) := by
  simp only [OP_REG, OP_IMM, OP_LUI, OP_AUIPC, OP_JAL, OP_JALR, OP_BRANCH, OP_STORE, OP_LOAD,
    OP_SYSTEM, OP_IMM32, OP_32]
  omega

set_option maxHeartbeats 4000000 in
/-- What a successful decode tells about an ECALL and about a JAL: an ECALL carries the
operands and registers of the ECALL branch, a JAL has `op1 = offset`. -/
theorem DecodeInst_ECALL_JAL {op d : PipeOp} {regs : Regs} (h : DecodeInst op regs = .ok d) :
    (d.inst_type = InstType.ECALL →
      d = { op with op1 := toInt64 (regs REG_A0), op2 := toInt64 (regs REG_A7),
                    rs1 := REG_A0, rs2 := REG_A7, dest_reg := REG_A0,
                    inst_type := InstType.ECALL }) ∧
    (d.inst_type = InstType.JAL → d.op1 = d.offset ∧ d.op2 = 0) := by
  rcases opcode_cases (op.inst &&& 0x7F) with
    ho | ho | ho | ho | ho | ho | ho | ho | ho | ho | ho | ho |
    ⟨n1, n2, n3, n4, n5, n6, n7, n8, n9, n10, n11, n12⟩
  pick_goal 13
  · unfold DecodeInst at h
    simp only [n1, n2, n3, n4, n5, n6, n7, n8, n9, n10, n11, n12, if_false] at h
    cases h
  all_goals
    unfold DecodeInst at h
    simp only [ho, OP_REG, OP_IMM, OP_LUI, OP_AUIPC, OP_JAL, OP_JALR, OP_BRANCH, OP_STORE,
      OP_LOAD, OP_SYSTEM, OP_IMM32, OP_32] at h
    norm_num at h
  all_goals
    (try split at h) <;> (try split_ifs at h) <;> cases h <;>
      exact ⟨fun hty => by first | (cases hty; done) | rfl,
             fun hty => by first | (cases hty; done) | exact ⟨rfl, rfl⟩⟩

end TrapHandling

namespace TrapHandling

/-- C11 (OP_SYSTEM words DecodeInst accepts that are neither ECALL nor SRET): for every
register file the EBREAK word `0x00100073` and the word `0x00200073` (funct7 = 0, rs2 = 1
and 2) are decoded as ECALL, and the word `0x102F8F73` (the SRET word with rs1 = 31 and
rd = 30) is decoded as SRET: the ECALL branch tests funct3 and funct7 only, the SRET branch
funct3, funct7 and the rs2 field. -/
theorem decode_accepts_EBREAK_as_ECALL (regs : Regs) :
    DecodeInst { inst := 0x00100073 } regs =
      .ok { inst := 0x00100073, inst_type := InstType.ECALL, op1 := toInt64 (regs 10),
            op2 := toInt64 (regs 17), rs1 := 10, rs2 := 17, dest_reg := 10 } ∧
    DecodeInst { inst := 0x00200073 } regs =
      .ok { inst := 0x00200073, inst_type := InstType.ECALL, op1 := toInt64 (regs 10),
            op2 := toInt64 (regs 17), rs1 := 10, rs2 := 17, dest_reg := 10 } ∧
    DecodeInst { inst := 0x102F8F73 } regs =
      .ok { inst := 0x102F8F73, inst_type := InstType.SRET } := by
  refine ⟨?_, ?_, ?_⟩ <;> rfl

end TrapHandling

namespace TrapHandling

theorem DecodeInst_ADD (op : PipeOp) (regs : Regs) (h1 : op.inst &&& 0x7F = 0x33)
    (h2 : (op.inst >>> 12) &&& 0x7 = 0) (h3 : (op.inst >>> 25) &&& 0x7F = 0) :
    DecodeInst op regs =
      .ok { op with op1 := toInt64 (regs ((op.inst >>> 15) &&& 0x1F)),
                    op2 := toInt64 (regs ((op.inst >>> 20) &&& 0x1F)),
                    rs1 := (((op.inst >>> 15) &&& 0x1F : Nat) : Int),
                    rs2 := (((op.inst >>> 20) &&& 0x1F : Nat) : Int),
                    dest_reg := (((op.inst >>> 7) &&& 0x1F : Nat) : Int),
                    inst_type := InstType.ADD } := by
  unfold DecodeInst
  simp only [h1, h2, h3, OP_REG]
  rfl

/-- C12: for every register file and every OP_REG word with funct3 = 0 and funct7 = 0 (ADD),
`DecodeInst` followed by `ExecuteInst` returns, `dest_reg` is the rd field and `out` is the
64-bit pattern of `(regs[rs1] + regs[rs2]) mod 2^64`; the exit flag is not touched. -/
theorem ADD_decode_execute (fuel : Nat) (op : PipeOp) (regs : Regs) (exit_ctrl : Bool)
    (mem : Memory) (inp : Stdin) (h1 : op.inst &&& 0x7F = 0x33)
    (h2 : (op.inst >>> 12) &&& 0x7 = 0) (h3 : (op.inst >>> 25) &&& 0x7F = 0) :
    ∃ d e, DecodeInst op regs = .ok d ∧
      ExecuteInst fuel d exit_ctrl mem inp = .ok (e, exit_ctrl) ∧
      e.dest_reg = (((op.inst >>> 7) &&& 0x1F : Nat) : Int) ∧
      toUInt64 e.out =
        (regs ((op.inst >>> 15) &&& 0x1F) + regs ((op.inst >>> 20) &&& 0x1F)) % 2 ^ 64 ∧
      -2 ^ 63 ≤ e.out ∧ e.out < 2 ^ 63 := by
  refine ⟨_, _, DecodeInst_ADD op regs h1 h2 h3, rfl, rfl, ?_, ?_⟩
  · show toUInt64 (wrap64 (toInt64 _ + toInt64 _)) = _
    rw [toUInt64_wrap64]
    have e1 := toUInt64_cast (toInt64 (regs ((op.inst >>> 15) &&& 0x1F)) +
      toInt64 (regs ((op.inst >>> 20) &&& 0x1F)))
    have e2 := toInt64_emod (regs ((op.inst >>> 15) &&& 0x1F))
    have e3 := toInt64_emod (regs ((op.inst >>> 20) &&& 0x1F))
    omega
  · exact wrap64_range _

/-- C12 witness: `add x5, x6, x7` (the word `0x007302B3`) with `regs[6] = 3` and
`regs[7] = 4` gives `out = 7` and `dest_reg = 5`. -/
theorem ADD_decode_execute_witness :
    ((0x007302B3 : Nat) &&& 0x7F = 0x33 ∧ ((0x007302B3 : Nat) >>> 12) &&& 0x7 = 0 ∧
      ((0x007302B3 : Nat) >>> 25) &&& 0x7F = 0) ∧
    (∃ d e, DecodeInst { inst := 0x007302B3 } exampleAddRegs = .ok d ∧
      ExecuteInst 0 d false exampleZeroMem {} = .ok (e, false) ∧
      e.dest_reg = 5 ∧ toUInt64 e.out = 7 ∧ -2 ^ 63 ≤ e.out ∧ e.out < 2 ^ 63) :=
  ⟨⟨by decide, by decide, by decide⟩,
   ADD_decode_execute 0 { inst := 0x007302B3 } exampleAddRegs false exampleZeroMem {}
     (by decide) (by decide) (by decide)⟩

end TrapHandling

namespace TrapHandling

theorem funct3_lt (inst : Nat) : (inst >>> 12) &&& 0x7 < 8 := by
  exact Nat.and_lt_two_pow _ (by norm_num : 7 < 2 ^ 3)

/-- The shift amount that `DecodeInst` keeps of an I-type immediate: its low six bits are the
field `inst[25:20]`. -/
theorem shamt_eq (inst : Nat) :
    toInt64 (toUInt64 (encoded_imm_I inst) &&& 0x3F) = (bitField inst 25 20 : Nat) := by
  have hx : bitField inst 31 20 < 2 ^ 12 := by
    unfold bitField
    exact Nat.mod_lt _ (by norm_num)
  have hand : ∀ n : Nat, n &&& 0x3F = n % 64 := fun n =>
    Nat.and_pow_two_sub_one_eq_mod n 6
  have hu : toUInt64 (encoded_imm_I inst) % 64 = bitField inst 31 20 % 64 := by
    have hc := toUInt64_cast (encoded_imm_I inst)
    generalize toUInt64 (encoded_imm_I inst) = u at hc ⊢
    unfold encoded_imm_I signExtend at hc
    rw [Nat.mod_eq_of_lt hx] at hc
    split_ifs at hc <;> omega
  have hb : bitField inst 31 20 % 64 = bitField inst 25 20 := by
    unfold bitField
    norm_num
  rw [hand, hu, hb]
  have hlt : bitField inst 25 20 < 2 ^ 63 := by
    unfold bitField
    have := Nat.mod_lt (inst / 2 ^ 20) (show 0 < 2 ^ (25 + 1 - 20) by norm_num)
    norm_num at this ⊢
    omega
  exact toInt64_of_lt hlt

/-- The words of the formats with an immediate that `DecodeInst` accepts, and what it stores
for them. -/
theorem DecodeInst_returns_immediates (op : PipeOp) (regs : Regs) :
    (op.inst &&& 0x7F = OP_BRANCH → (op.inst >>> 12) &&& 0x7 ≠ 2 →
      (op.inst >>> 12) &&& 0x7 ≠ 3 →
      ∃ d, DecodeInst op regs = .ok d ∧ d.offset = imm_sb op.inst) ∧
    (op.inst &&& 0x7F = OP_JAL → ∃ d, DecodeInst op regs = .ok d ∧ d.offset = imm_uj op.inst) ∧
    (op.inst &&& 0x7F = OP_STORE → (op.inst >>> 12) &&& 0x7 < 4 →
      ∃ d, DecodeInst op regs = .ok d ∧ d.offset = imm_s op.inst) ∧
    (op.inst &&& 0x7F = OP_LOAD → (op.inst >>> 12) &&& 0x7 ≠ 7 →
      ∃ d, DecodeInst op regs = .ok d ∧ d.offset = imm_i op.inst ∧ d.op2 = imm_i op.inst) ∧
    (op.inst &&& 0x7F = OP_IMM → (op.inst >>> 12) &&& 0x7 ≠ 1 → (op.inst >>> 12) &&& 0x7 ≠ 5 →
      ∃ d, DecodeInst op regs = .ok d ∧ d.op2 = imm_i op.inst) ∧
    (op.inst &&& 0x7F = OP_IMM →
      ((op.inst >>> 12) &&& 0x7 = 1 ∨
        ((op.inst >>> 12) &&& 0x7 = 5 ∧
          ((op.inst >>> 26) &&& 0x3F = 0x0 ∨ (op.inst >>> 26) &&& 0x3F = 0x10))) →
      ∃ d, DecodeInst op regs = .ok d ∧
        d.op2 = toInt64 (toUInt64 (imm_i op.inst) &&& 0x3F)) := by
  have hlt := funct3_lt op.inst
  refine ⟨fun ho h2 h3 => ?_, fun ho => ?_, fun ho h4 => ?_, fun ho h7 => ?_,
    fun ho h1 h5 => ?_, fun ho hs => ?_⟩
  all_goals
    unfold DecodeInst
    simp only [ho, OP_REG, OP_IMM, OP_LUI, OP_AUIPC, OP_JAL, OP_JALR, OP_BRANCH, OP_STORE,
      OP_LOAD]
    norm_num
  · generalize (op.inst >>> 12) &&& 0x7 = f at hlt h2 h3 ⊢
    interval_cases f <;> first | contradiction | exact ⟨_, rfl, rfl⟩
  · rfl
  · generalize (op.inst >>> 12) &&& 0x7 = f at hlt h4 ⊢
    interval_cases f <;> exact ⟨_, rfl, rfl⟩
  · generalize (op.inst >>> 12) &&& 0x7 = f at hlt h7 ⊢
    interval_cases f <;> first | contradiction | exact ⟨_, rfl, rfl, rfl⟩
  · generalize (op.inst >>> 12) &&& 0x7 = f at hlt h1 h5 ⊢
    interval_cases f <;> first | contradiction | exact ⟨_, rfl, rfl⟩
  · rcases hs with h1 | ⟨h5, h0 | h16⟩
    · rw [h1]
      exact ⟨_, rfl, rfl⟩
    · rw [h5]
      simp only [h0, if_true]
      exact ⟨_, rfl, rfl⟩
    · rw [h5]
      simp only [h16]
      norm_num
      rfl

/-- The words of the branch, store, load and OP_IMM opcodes that `DecodeInst` rejects. -/
theorem DecodeInst_throws_immediates (op : PipeOp) (regs : Regs)
    (h : (op.inst &&& 0x7F = OP_BRANCH ∧
            ((op.inst >>> 12) &&& 0x7 = 2 ∨ (op.inst >>> 12) &&& 0x7 = 3)) ∨
         (op.inst &&& 0x7F = OP_STORE ∧ 4 ≤ (op.inst >>> 12) &&& 0x7) ∨
         (op.inst &&& 0x7F = OP_LOAD ∧ (op.inst >>> 12) &&& 0x7 = 7) ∨
         (op.inst &&& 0x7F = OP_IMM ∧ (op.inst >>> 12) &&& 0x7 = 5 ∧
            (op.inst >>> 26) &&& 0x3F ≠ 0x0 ∧ (op.inst >>> 26) &&& 0x3F ≠ 0x10)) :
    ∃ e, DecodeInst op regs = .error e := by
  have hlt := funct3_lt op.inst
  rcases h with ⟨ho, h⟩ | ⟨ho, h⟩ | ⟨ho, h⟩ | ⟨ho, h5, h0, h16⟩
  all_goals
    unfold DecodeInst
    simp only [ho, OP_REG, OP_IMM, OP_LUI, OP_AUIPC, OP_JAL, OP_JALR, OP_BRANCH, OP_STORE,
      OP_LOAD]
    norm_num
  · rcases h with h | h <;> rw [h] <;> exact ⟨_, rfl⟩
  · generalize (op.inst >>> 12) &&& 0x7 = f at hlt h ⊢
    interval_cases f <;> exact ⟨_, rfl⟩
  · rw [h]
    exact ⟨_, rfl⟩
  · rw [h5]
    simp only [h0, h16, if_false]
    exact ⟨_, rfl⟩

/-- What `DecodeInst` stores for the words of the formats with an immediate: the branch
offset is `imm_sb`, the JAL offset `imm_uj`, the store offset `imm_s`, the load offset and
the second operand of an OP_IMM word (other than the shifts, which keep its low six bits)
`imm_i`. -/
theorem DecodeInst_immediates {op d : PipeOp} {regs : Regs} (h : DecodeInst op regs = .ok d) :
    (op.inst &&& 0x7F = OP_BRANCH → d.offset = imm_sb op.inst) ∧
    (op.inst &&& 0x7F = OP_JAL → d.offset = imm_uj op.inst) ∧
    (op.inst &&& 0x7F = OP_STORE → d.offset = imm_s op.inst) ∧
    (op.inst &&& 0x7F = OP_LOAD → d.offset = imm_i op.inst ∧ d.op2 = imm_i op.inst) ∧
    (op.inst &&& 0x7F = OP_IMM → (op.inst >>> 12) &&& 0x7 ≠ 1 → (op.inst >>> 12) &&& 0x7 ≠ 5 →
      d.op2 = imm_i op.inst) := by
  refine ⟨fun ho => ?_, fun ho => ?_, fun ho => ?_, fun ho => ?_, fun ho h1 h5 => ?_⟩
  all_goals
    unfold DecodeInst at h
    simp only [ho, OP_REG, OP_IMM, OP_LUI, OP_AUIPC, OP_JAL, OP_JALR, OP_BRANCH, OP_STORE,
      OP_LOAD] at h
    norm_num at h
  · split at h <;> first | (cases h; rfl) | cases h
  · cases h
    rfl
  · split at h <;> first | (cases h; rfl) | cases h
  · split at h <;> first | (cases h; exact ⟨rfl, rfl⟩) | cases h
  · split at h <;> first | contradiction | (cases h; rfl)

/-- C13: for every 32-bit instruction word the immediates `DecodeInst` assembles are the
immediates of the RISC-V formats, `imm_i` the sign-extended `inst[31:20]`, `imm_s` the
sign-extended 12-bit S-type immediate, `imm_sb` the sign-extended 13-bit B-type immediate
(`inst[31|7|30:25|11:8]`, bit 0 zero) and `imm_uj` the sign-extended 21-bit J-type immediate
(`inst[31|19:12|20|30:21]`, bit 0 zero).  `DecodeInst` returns for every branch word with
`funct3` other than 2 and 3, every JAL word, every store word with `funct3 < 4`, every load
word with `funct3` other than 7 and every OP_IMM word other than a right shift with an unknown
`inst[31:26]`, and the decoded op then carries these values: they are the branch offset, the
JAL offset, the store offset, the load offset and the OP_IMM operand.  For the OP_IMM shifts
the operand is the low six bits of the I-type immediate, the field `inst[25:20]`.  In the
remaining words of these opcodes `DecodeInst` throws. -/
theorem immediates_match_encoding (inst : Nat) (hinst : inst < 2 ^ 32) :
    (imm_i inst = encoded_imm_I inst ∧ imm_s inst = encoded_imm_S inst ∧
      imm_sb inst = encoded_imm_B inst ∧ imm_uj inst = encoded_imm_J inst) ∧
    ∀ (op : PipeOp) (regs : Regs), op.inst = inst →
      (inst &&& 0x7F = OP_BRANCH → (inst >>> 12) &&& 0x7 ≠ 2 → (inst >>> 12) &&& 0x7 ≠ 3 →
        ∃ d, DecodeInst op regs = .ok d ∧ d.offset = encoded_imm_B inst) ∧
      (inst &&& 0x7F = OP_JAL →
        ∃ d, DecodeInst op regs = .ok d ∧ d.offset = encoded_imm_J inst) ∧
      (inst &&& 0x7F = OP_STORE → (inst >>> 12) &&& 0x7 < 4 →
        ∃ d, DecodeInst op regs = .ok d ∧ d.offset = encoded_imm_S inst) ∧
      (inst &&& 0x7F = OP_LOAD → (inst >>> 12) &&& 0x7 ≠ 7 →
        ∃ d, DecodeInst op regs = .ok d ∧ d.offset = encoded_imm_I inst ∧
          d.op2 = encoded_imm_I inst) ∧
      (inst &&& 0x7F = OP_IMM → (inst >>> 12) &&& 0x7 ≠ 1 → (inst >>> 12) &&& 0x7 ≠ 5 →
        ∃ d, DecodeInst op regs = .ok d ∧ d.op2 = encoded_imm_I inst) ∧
      (inst &&& 0x7F = OP_IMM →
        ((inst >>> 12) &&& 0x7 = 1 ∨
          ((inst >>> 12) &&& 0x7 = 5 ∧
            ((inst >>> 26) &&& 0x3F = 0x0 ∨ (inst >>> 26) &&& 0x3F = 0x10))) →
        ∃ d, DecodeInst op regs = .ok d ∧
          d.op2 = toInt64 (toUInt64 (encoded_imm_I inst) &&& 0x3F) ∧
          d.op2 = (bitField inst 25 20 : Nat)) ∧
      (((inst &&& 0x7F = OP_BRANCH ∧ ((inst >>> 12) &&& 0x7 = 2 ∨ (inst >>> 12) &&& 0x7 = 3)) ∨
        (inst &&& 0x7F = OP_STORE ∧ 4 ≤ (inst >>> 12) &&& 0x7) ∨
        (inst &&& 0x7F = OP_LOAD ∧ (inst >>> 12) &&& 0x7 = 7) ∨
        (inst &&& 0x7F = OP_IMM ∧ (inst >>> 12) &&& 0x7 = 5 ∧
          (inst >>> 26) &&& 0x3F ≠ 0x0 ∧ (inst >>> 26) &&& 0x3F ≠ 0x10)) →
        ∃ e, DecodeInst op regs = .error e) ∧
      ∀ d : PipeOp, DecodeInst op regs = .ok d →
        (inst &&& 0x7F = OP_BRANCH → d.offset = encoded_imm_B inst) ∧
        (inst &&& 0x7F = OP_JAL → d.offset = encoded_imm_J inst) ∧
        (inst &&& 0x7F = OP_STORE → d.offset = encoded_imm_S inst) ∧
        (inst &&& 0x7F = OP_LOAD →
          d.offset = encoded_imm_I inst ∧ d.op2 = encoded_imm_I inst) ∧
        (inst &&& 0x7F = OP_IMM → (inst >>> 12) &&& 0x7 ≠ 1 → (inst >>> 12) &&& 0x7 ≠ 5 →
          d.op2 = encoded_imm_I inst) := by
  refine ⟨⟨imm_i_eq inst hinst, imm_s_eq inst, imm_sb_eq inst, imm_uj_eq inst⟩, ?_⟩
  intro op regs hop
  subst hop
  obtain ⟨rb, rj, rs, rl, ri, rsh⟩ := DecodeInst_returns_immediates op regs
  rw [← imm_i_eq _ hinst, ← imm_s_eq, ← imm_sb_eq, ← imm_uj_eq]
  refine ⟨rb, rj, rs, rl, ri, fun ho hs => ?_, DecodeInst_throws_immediates op regs,
    fun d h => ?_⟩
  · obtain ⟨d, hd, h2⟩ := rsh ho hs
    refine ⟨d, hd, h2, ?_⟩
    rw [h2, imm_i_eq _ hinst]
    exact shamt_eq op.inst
  · obtain ⟨hb, hj, hs, hl, hi⟩ := DecodeInst_immediates h
    exact ⟨hb, hj, hs, hl, hi⟩

/-- C13 witness: the word `0xFE000EE3` (`beq x0, x0, -4`) is a branch word with `funct3 = 0`;
`DecodeInst` returns for it, and the offset of the decoded op is its B-type immediate `-4`. -/
theorem immediates_match_encoding_witness :
    ((0xFE000EE3 : Nat) < 2 ^ 32 ∧ 0xFE000EE3 &&& 0x7F = OP_BRANCH ∧
      (0xFE000EE3 >>> 12) &&& 0x7 ≠ 2 ∧ (0xFE000EE3 >>> 12) &&& 0x7 ≠ 3 ∧
      encoded_imm_B 0xFE000EE3 = -4 ∧
      (DecodeInst { inst := 0xFE000EE3 } (fun _ => 0)).toOption.map (fun d => d.offset) =
        some (-4)) ∧
    ∃ d, DecodeInst { inst := 0xFE000EE3 } (fun _ => 0) = .ok d ∧
      d.offset = encoded_imm_B 0xFE000EE3 :=
  ⟨⟨by norm_num, by decide, by decide, by decide, by decide, by decide⟩,
   ((immediates_match_encoding 0xFE000EE3 (by norm_num)).2 { inst := 0xFE000EE3 }
      (fun _ => 0) rfl).1 (by decide) (by decide) (by decide)⟩

end TrapHandling

namespace TrapHandling

/-- C14 (counterexample): a BEQ with equal operands at `pc = 2^32` and offset 8 is taken and
gets `jump_pc = 8`, which is not `pc + offset = 2^32 + 8`; a BNE with equal operands at the
same `pc` is not taken and gets `jump_pc = 4`, which is not `pc + 4`. -/
theorem branch_target_is_truncated :
    (ExecuteInst 0 { pc := 4294967296, inst_type := InstType.BEQ, offset := 8 } false
        exampleZeroMem {} =
      .ok ({ pc := 4294967296, inst_type := InstType.BEQ, offset := 8, branch := true,
             jump_pc := 8 }, false) ∧
      (8 : Int) ≠ 4294967296 + 8) ∧
    (ExecuteInst 0 { pc := 4294967296, inst_type := InstType.BNE, offset := 8 } false
        exampleZeroMem {} =
      .ok ({ pc := 4294967296, inst_type := InstType.BNE, offset := 8, branch := false,
             jump_pc := 4 }, false) ∧
      (4 : Int) ≠ 4294967296 + 4) := by
  refine ⟨⟨?_, by decide⟩, ?_, by decide⟩ <;> rfl

/-- C14 (amended): for every conditional-branch PipeOp (BEQ, BNE, BLT, BGE, BLTU, BGEU)
`ExecuteInst` returns and changes `branch` and `jump_pc` only: when the condition on `op1`,
`op2` holds (signed comparison for BLT/BGE, unsigned for BLTU/BGEU) `branch` is true and
`jump_pc` is the low 32 bits of `pc + offset`; otherwise `branch` keeps its value and
`jump_pc` is the low 32 bits of `pc + 4`. -/
theorem branch_resolution (fuel : Nat) (op : PipeOp) (exit_ctrl : Bool) (mem : Memory)
    (inp : Stdin) (hb : IsBranch op.inst_type = true) :
    ExecuteInst fuel op exit_ctrl mem inp =
      .ok (if branchCondition op.inst_type op.op1 op.op2 = true then
             { op with branch := true,
                       jump_pc := (((op.pc : Int) + op.offset) % 2 ^ 32).toNat }
           else { op with jump_pc := (op.pc + 4) % 2 ^ 32 }, exit_ctrl) := by
  have e4 : toUInt32 (wrap64 (toInt64 op.pc + 4)) = (op.pc + 4) % 2 ^ 32 := by
    rw [toUInt32_pc_add]
    omega
  have eo := toUInt32_pc_add op.pc op.offset
  cases ht : op.inst_type <;> simp [IsBranch, ht] at hb <;>
    simp only [ExecuteInst, ht, branchCondition, e4, eo, decide_eq_true_eq] <;>
    split <;> rename_i hc <;> simp only [hc, if_true, if_false]

/-- C14 witness: a BLT at `pc = 100` with `op1 = -1 < op2 = 1` and offset `-8` is taken to
`jump_pc = 92`. -/
theorem branch_resolution_witness :
    IsBranch InstType.BLT = true ∧
    ExecuteInst 0 { pc := 100, inst_type := InstType.BLT, op1 := -1, op2 := 1, offset := -8 }
        false exampleZeroMem {} =
      .ok ({ pc := 100, inst_type := InstType.BLT, op1 := -1, op2 := 1, offset := -8,
             branch := true, jump_pc := 92 }, false) :=
  ⟨rfl, branch_resolution 0
    { pc := 100, inst_type := InstType.BLT, op1 := -1, op2 := 1, offset := -8 } false
    exampleZeroMem {} rfl⟩

end TrapHandling

namespace TrapHandling

/-- The `int64_t` sum of the program counter and a constant. -/
theorem wrap64_pc_add (pc k : Nat) : wrap64 (toInt64 pc + (k : Int)) = toInt64 (pc + k) := by
  have h1 := wrap64_range (toInt64 pc + (k : Int))
  have h2 := wrap64_emod (toInt64 pc + (k : Int))
  have h3 := toInt64_range (pc + k)
  have h4 := toInt64_emod (pc + k)
  have h5 := toInt64_emod pc
  omega

/-- Clearing bit 0 of a 64-bit pattern. -/
theorem and_not_one {x : Nat} (h : x < 2 ^ 64) : x &&& (2 ^ 64 - 2) = x / 2 * 2 := by
  have e : x &&& (2 ^ 64 - 2) = x / 2 ^ 1 % 2 ^ 63 * 2 ^ 1 := and_mask x 63 1
  rw [e]
  omega

/-- C15 (counterexample): a JAL at `pc = 2^32` with `op1 = offset = 8` gets `jump_pc = 8`,
which is not `pc + offset = 2^32 + 8`; a JALR with `op1 = 2^32 + 5` and `op2 = 0` gets
`jump_pc = 4`, which is not `op1 + op2` with bit 0 cleared, `2^32 + 4`. -/
theorem jump_target_is_truncated :
    (ExecuteInst 0 { pc := 4294967296, inst_type := InstType.JAL, op1 := 8, offset := 8 } false
        exampleZeroMem {} =
      .ok ({ pc := 4294967296, inst_type := InstType.JAL, op1 := 8, offset := 8,
             out := 4294967300, branch := true, jump_pc := 8 }, false) ∧
      (8 : Int) ≠ 4294967296 + 8) ∧
    (ExecuteInst 0 { pc := 0, inst_type := InstType.JALR, op1 := 4294967301, op2 := 0 } false
        exampleZeroMem {} =
      .ok ({ pc := 0, inst_type := InstType.JALR, op1 := 4294967301, op2 := 0,
             out := 4, branch := true, jump_pc := 4 }, false) ∧
      (4 : Nat) ≠ (4294967301 + 0) / 2 * 2) := by
  refine ⟨⟨?_, by decide⟩, ?_, by decide⟩ <;> rfl

/-- C15 (amended): for every JAL and JALR PipeOp `ExecuteInst` returns, sets `branch = true`
and `out` to the 64-bit value `pc + 4`, and changes nothing else but `jump_pc`, a
`uint32_t`: for JAL it is the low 32 bits of `pc + op1`, for JALR the low 32 bits of
`op1 + op2` with bit 0 cleared.  In every JAL that `DecodeInst` returns `op1` is the offset,
so there `jump_pc` is the low 32 bits of `pc + offset`. -/
theorem jump_resolution (fuel : Nat) (op : PipeOp) (exit_ctrl : Bool) (mem : Memory)
    (inp : Stdin) (hj : IsJump op.inst_type = true) :
    ExecuteInst fuel op exit_ctrl mem inp =
      .ok ({ op with out := toInt64 (op.pc + 4), branch := true,
                     jump_pc :=
                       if op.inst_type = InstType.JAL then
                         (((op.pc : Int) + op.op1) % 2 ^ 32).toNat
                       else toUInt64 (op.op1 + op.op2) / 2 * 2 % 2 ^ 32 }, exit_ctrl) ∧
    ∀ (op0 : PipeOp) (regs : Regs), DecodeInst op0 regs = .ok op →
      op.inst_type = InstType.JAL → op.op1 = op.offset := by
  refine ⟨?_, fun op0 regs hd hty => ((DecodeInst_ECALL_JAL hd).2 hty).1⟩
  have e4 : wrap64 (toInt64 op.pc + 4) = toInt64 (op.pc + 4) := wrap64_pc_add op.pc 4
  have eo : toUInt32 (wrap64 (toInt64 op.pc + op.op1)) =
      (((op.pc : Int) + op.op1) % 2 ^ 32).toNat := by
    rw [toUInt32_wrap64]
    have h1 := toUInt32_cast (toInt64 op.pc + op.op1)
    have h2 := toInt64_emod op.pc
    omega
  have er : toUInt64 (wrap64 (op.op1 + op.op2)) &&& (2 ^ 64 - 2) =
      toUInt64 (op.op1 + op.op2) / 2 * 2 := by
    rw [toUInt64_wrap64, and_not_one (toUInt64_lt _)]
  cases ht : op.inst_type <;> simp [IsJump, ht] at hj
  · simp only [ExecuteInst, ht, e4, eo, if_true]
  · simp only [ExecuteInst, ht, e4, er]
    rfl

/-- C15 witness: `jal x1, 8` (the word `0x008000EF`) at `pc = 100` jumps to 108 and links
104. -/
theorem jump_resolution_witness :
    (IsJump exampleJalOp.inst_type = true ∧
      DecodeInst { pc := 100, inst := 0x008000EF } exampleAddRegs = .ok exampleJalOp) ∧
    (ExecuteInst 0 exampleJalOp false exampleZeroMem {} =
      .ok ({ exampleJalOp with out := 104, branch := true, jump_pc := 108 }, false) ∧
     ∀ (op0 : PipeOp) (regs : Regs), DecodeInst op0 regs = .ok exampleJalOp →
       exampleJalOp.inst_type = InstType.JAL → exampleJalOp.op1 = exampleJalOp.offset) :=
  ⟨⟨rfl, rfl⟩, jump_resolution 0 exampleJalOp false exampleZeroMem {} rfl⟩

end TrapHandling

namespace TrapHandling

/-- C16 (SRLW and SRLIW zero-extend): with `regs[6] = 0x80000000` and `regs[7] = 0` the word
`0x007352BB` (`srlw x5, x6, x7`) and the word `0x0003529B` (`srliw x5, x6, 0`) are decoded
as SRLW and SRLIW and executed to `out = 0x0000000080000000`: bits 63..32 of `out` are zero
although bit 31 is one.  The sign extension of the 32-bit result `0x80000000` is
`-2147483648`. -/
theorem SRLW_result_is_zero_extended :
    (DecodeInst { inst := 0x007352BB } exampleSrlwRegs =
        .ok { inst := 0x007352BB, inst_type := InstType.SRLW, op1 := 2147483648, op2 := 0,
              rs1 := 6, rs2 := 7, dest_reg := 5 } ∧
      ExecuteInst 0 { inst := 0x007352BB, inst_type := InstType.SRLW, op1 := 2147483648,
                      op2 := 0, rs1 := 6, rs2 := 7, dest_reg := 5 } false exampleZeroMem {} =
        .ok ({ inst := 0x007352BB, inst_type := InstType.SRLW, op1 := 2147483648, op2 := 0,
               rs1 := 6, rs2 := 7, dest_reg := 5, out := 2147483648, jump_pc := 4 }, false)) ∧
    (DecodeInst { inst := 0x0003529B } exampleSrlwRegs =
        .ok { inst := 0x0003529B, inst_type := InstType.SRLIW, op1 := 2147483648, op2 := 0,
              rs1 := 6, dest_reg := 5 } ∧
      ExecuteInst 0 { inst := 0x0003529B, inst_type := InstType.SRLIW, op1 := 2147483648,
                      op2 := 0, rs1 := 6, dest_reg := 5 } false exampleZeroMem {} =
        .ok ({ inst := 0x0003529B, inst_type := InstType.SRLIW, op1 := 2147483648, op2 := 0,
               rs1 := 6, dest_reg := 5, out := 2147483648, jump_pc := 4 }, false)) ∧
    toUInt64 2147483648 / 2 ^ 32 = 0 ∧ toUInt64 2147483648 / 2 ^ 31 % 2 = 1 ∧
    toInt32 0x80000000 = -2147483648 := by
  refine ⟨⟨?_, ?_⟩, ⟨?_, ?_⟩, ?_, ?_, ?_⟩ <;> rfl

end TrapHandling

namespace TrapHandling

/-- C17 (shift distances that are not reduced): with `regs[6] = 1` and `regs[7] = 32` the
word `0x007312BB` (`sllw x5, x6, x7`) is decoded as SLLW with `op2 = 32` and executed to
`out = 0`: the 64-bit value is shifted by 32 before it is cut to 32 bits, where the distance
`32 mod 32 = 0` gives `out = 1`.  The word `0x4013529B` (`sraiw x5, x6, 1`) is decoded as
SRAIW with `op2 = 1025` (bit 10 of the immediate field is kept), and `ExecuteInst` shifts a
32-bit value by 1025, which has no defined result. -/
theorem SLLW_distance_not_reduced :
    (DecodeInst { inst := 0x007312BB } exampleSllwRegs =
        .ok { inst := 0x007312BB, inst_type := InstType.SLLW, op1 := 1, op2 := 32,
              rs1 := 6, rs2 := 7, dest_reg := 5 } ∧
      ExecuteInst 0 { inst := 0x007312BB, inst_type := InstType.SLLW, op1 := 1, op2 := 32,
                      rs1 := 6, rs2 := 7, dest_reg := 5 } false exampleZeroMem {} =
        .ok ({ inst := 0x007312BB, inst_type := InstType.SLLW, op1 := 1, op2 := 32,
               rs1 := 6, rs2 := 7, dest_reg := 5, out := 0, jump_pc := 4 }, false) ∧
      int32_of (wrap64 (1 * 2 ^ (32 % 32))) = 1) ∧
    (DecodeInst { inst := 0x4013529B } exampleSllwRegs =
        .ok { inst := 0x4013529B, inst_type := InstType.SRAIW, op1 := 1, op2 := 1025,
              rs1 := 6, dest_reg := 5 } ∧
      ExecuteInst 0 { inst := 0x4013529B, inst_type := InstType.SRAIW, op1 := 1, op2 := 1025,
                      rs1 := 6, dest_reg := 5 } false exampleZeroMem {} =
        .error (ExecError.undefined_shift 1025)) := by
  refine ⟨⟨?_, ?_, ?_⟩, ?_, ?_⟩ <;> rfl

end TrapHandling

namespace TrapHandling

theorem toInt64_toUInt64_of_range {i : Int} (h1 : -2 ^ 63 ≤ i) (h2 : i < 2 ^ 63) :
    toInt64 (toUInt64 i % 2 ^ 64) = i := by
  have e : toUInt64 i % 2 ^ 64 = toUInt64 i := Nat.mod_eq_of_lt (toUInt64_lt i)
  rw [e]
  exact wrap64_of_range h1 h2

/-- C18: for every store PipeOp (SB, SH, SW, SD) whose `op2` is an `int64_t`, `ExecuteInst`
returns with `write_mem = true`, `mem_len` = 1, 2, 4, 8, `out = op1 + offset` (in 64-bit
arithmetic) and `op2` reduced to its low 8, 16, 32, 64 bits; `read_mem` and every other field
but `jump_pc` (the low 32 bits of `pc + 4`) stay as they are, and the exit flag is not
touched. -/
theorem store_execute (fuel : Nat) (op : PipeOp) (exit_ctrl : Bool) (mem : Memory)
    (inp : Stdin) (hs : IsStore op.inst_type = true) (h1 : -2 ^ 63 ≤ op.op2)
    (h2 : op.op2 < 2 ^ 63) :
    ExecuteInst fuel op exit_ctrl mem inp =
      .ok ({ op with write_mem := true, mem_len := storeWidth op.inst_type,
                     out := wrap64 (op.op1 + op.offset),
                     op2 := toInt64 (toUInt64 op.op2 % 2 ^ (8 * storeWidth op.inst_type)),
                     jump_pc := (op.pc + 4) % 2 ^ 32 }, exit_ctrl) := by
  have e4 : toUInt32 (wrap64 (toInt64 op.pc + 4)) = (op.pc + 4) % 2 ^ 32 := by
    rw [toUInt32_pc_add]
    omega
  have m8 : toUInt64 op.op2 &&& 0xFF = toUInt64 op.op2 % 2 ^ 8 :=
    Nat.and_pow_two_sub_one_eq_mod _ 8
  have m16 : toUInt64 op.op2 &&& 0xFFFF = toUInt64 op.op2 % 2 ^ 16 :=
    Nat.and_pow_two_sub_one_eq_mod _ 16
  have m32 : toUInt64 op.op2 &&& 0xFFFFFFFF = toUInt64 op.op2 % 2 ^ 32 :=
    Nat.and_pow_two_sub_one_eq_mod _ 32
  have m64 := toInt64_toUInt64_of_range h1 h2
  cases ht : op.inst_type <;> simp [IsStore, ht] at hs
  · simp only [ExecuteInst, ht, e4, m8, storeWidth]
  · simp only [ExecuteInst, ht, e4, m16, storeWidth]
  · simp only [ExecuteInst, ht, e4, m32, storeWidth]
  · simp only [ExecuteInst, ht, e4, storeWidth]
    rw [m64]

/-- C18 witness: an SH of `op2 = -2` (`0xFFFF...FE`) at `op1 = 1000` with offset `-4` writes
the two bytes `0xFFFE` to address 996. -/
theorem store_execute_witness :
    (IsStore InstType.SH = true ∧ (-2 ^ 63 : Int) ≤ -2 ∧ (-2 : Int) < 2 ^ 63) ∧
    ExecuteInst 0 { inst_type := InstType.SH, op1 := 1000, op2 := -2, offset := -4 } false
        exampleZeroMem {} =
      .ok ({ inst_type := InstType.SH, op1 := 1000, op2 := 65534, offset := -4,
             write_mem := true, mem_len := 2, out := 996, jump_pc := 4 }, false) :=
  ⟨⟨rfl, by decide, by decide⟩,
   store_execute 0 { inst_type := InstType.SH, op1 := 1000, op2 := -2, offset := -4 } false
     exampleZeroMem {} rfl (by decide) (by decide)⟩

end TrapHandling

namespace TrapHandling

/-- The print loop returns once the budget exceeds the distance to a NUL byte. -/
theorem printString_ok (mem : Memory) : ∀ (k fuel addr : Nat),
    mem.GetByte ((addr + k) % 2 ^ 32) % 256 = 0 → addr < 2 ^ 32 → k < fuel →
    printString mem fuel addr = .ok () := by
  intro k
  induction k with
  | zero =>
    intro fuel addr h0 ha hf
    obtain ⟨f, rfl⟩ : ∃ f, fuel = f + 1 := ⟨fuel - 1, by omega⟩
    rw [Nat.add_zero, Nat.mod_eq_of_lt ha] at h0
    rw [printString, if_pos h0]
  | succ k ih =>
    intro fuel addr h0 ha hf
    obtain ⟨f, rfl⟩ : ∃ f, fuel = f + 1 := ⟨fuel - 1, by omega⟩
    rw [printString]
    split
    · rfl
    · refine ih f ((addr + 1) % 2 ^ 32) ?_ (Nat.mod_lt _ (by norm_num)) (by omega)
      have e : ((addr + 1) % 2 ^ 32 + k) % 2 ^ 32 = (addr + (k + 1)) % 2 ^ 32 := by omega
      rw [e]
      exact h0

/-- `ExecuteInst` on an ECALL other than number 10 is `HandleSystemCall` on `op2`, `op1`. -/
theorem ExecuteInst_ECALL (fuel : Nat) (op : PipeOp) (exit_ctrl : Bool) (mem : Memory)
    (inp : Stdin) (hty : op.inst_type = InstType.ECALL) (h10 : op.op2 ≠ 10) :
    ExecuteInst fuel op exit_ctrl mem inp =
      match HandleSystemCall fuel op.op2 op.op1 mem inp with
      | .error e => .error e
      | .ok (r, ex) => .ok ({ op with out := r, jump_pc := (op.pc + 4) % 2 ^ 32 }, ex) := by
  simp only [ExecuteInst, hty, if_neg h10, toUInt32_pc_add_four]
  all_goals cases HandleSystemCall fuel op.op2 op.op1 mem inp <;> rfl

/-- The exit flag `HandleSystemCall` leaves is true exactly for the numbers 3 and 93. -/
theorem HandleSystemCall_exit {fuel : Nat} {type arg1 r : Int} {mem : Memory} {inp : Stdin}
    {ex : Bool} (h : HandleSystemCall fuel type arg1 mem inp = .ok (r, ex)) :
    ex = true ↔ (type = 3 ∨ type = 93) := by
  unfold HandleSystemCall at h
  split_ifs at h with h0 h1 h2 h3 h4 h5 h6
  · cases hp : printString mem fuel (toUInt32 arg1) with
    | error e => rw [hp] at h; cases h
    | ok u =>
      rw [hp] at h
      cases h
      constructor
      · intro hc; cases hc
      · intro hc; omega
  · cases h
    constructor
    · intro hc; cases hc
    · intro hc; omega
  · cases h
    constructor
    · intro hc; cases hc
    · intro hc; omega
  · cases h
    exact ⟨fun _ => h3, fun _ => rfl⟩
  · have hex : ex = false := by
      cases hs : inp.scan_char with
      | none => rw [hs] at h; cases h; rfl
      | some ch => rw [hs] at h; cases h; rfl
    rw [hex]
    constructor
    · intro hc; cases hc
    · intro hc; omega
  · have hex : ex = false := by
      cases hs : inp.scan_long with
      | none => rw [hs] at h; cases h; rfl
      | some v => rw [hs] at h; cases h; rfl
    rw [hex]
    constructor
    · intro hc; cases hc
    · intro hc; omega
  · cases h
    constructor
    · intro hc; cases hc
    · intro hc; omega

/-- C19: for every ECALL PipeOp whose syscall number `op2` (A7) is not 10: whenever
`ExecuteInst` returns, the exit flag it leaves is true exactly when the number is 3 or 93,
and for 3 and 93 it returns; for the numbers 1, 2 and 6 it returns `out = op1` (A0) with the
exit flag false; for the number 0 it returns `out = op1` with the exit flag false once the
memory holds a NUL byte at or after the address A0 (the end of the string; the recursion
budget exceeds its distance); for 4 and 5 it returns with the exit flag false; and for every
number outside 0, 1, 2, 3, 4, 5, 6, 93 it fails with the unknown-syscall error. -/
theorem syscall_dispatch (fuel : Nat) (op : PipeOp) (exit_ctrl : Bool) (mem : Memory)
    (inp : Stdin) (hty : op.inst_type = InstType.ECALL) (h10 : op.op2 ≠ 10) :
    (∀ e ex, ExecuteInst fuel op exit_ctrl mem inp = .ok (e, ex) →
      (ex = true ↔ (op.op2 = 3 ∨ op.op2 = 93))) ∧
    ((op.op2 = 3 ∨ op.op2 = 93) →
      ExecuteInst fuel op exit_ctrl mem inp =
        .ok ({ op with out := op.op1, jump_pc := (op.pc + 4) % 2 ^ 32 }, true)) ∧
    ((op.op2 = 1 ∨ op.op2 = 2 ∨ op.op2 = 6) →
      ExecuteInst fuel op exit_ctrl mem inp =
        .ok ({ op with out := op.op1, jump_pc := (op.pc + 4) % 2 ^ 32 }, false)) ∧
    (op.op2 = 0 → ∀ k, k < fuel → mem.GetByte ((toUInt32 op.op1 + k) % 2 ^ 32) % 256 = 0 →
      ExecuteInst fuel op exit_ctrl mem inp =
        .ok ({ op with out := op.op1, jump_pc := (op.pc + 4) % 2 ^ 32 }, false)) ∧
    ((op.op2 = 4 ∨ op.op2 = 5) → ∃ e, ExecuteInst fuel op exit_ctrl mem inp = .ok (e, false)) ∧
    (op.op2 ≠ 0 → op.op2 ≠ 1 → op.op2 ≠ 2 → op.op2 ≠ 3 → op.op2 ≠ 4 → op.op2 ≠ 5 →
      op.op2 ≠ 6 → op.op2 ≠ 93 →
      ExecuteInst fuel op exit_ctrl mem inp = .error (ExecError.unknown_syscall op.op2)) := by
  have hE := ExecuteInst_ECALL fuel op exit_ctrl mem inp hty h10
  refine ⟨fun e ex h => ?_, fun h => ?_, fun h => ?_, fun h k hk hz => ?_, fun h => ?_,
    fun n0 n1 n2 n3 n4 n5 n6 n93 => ?_⟩
  · rw [hE] at h
    cases hs : HandleSystemCall fuel op.op2 op.op1 mem inp with
    | error err => rw [hs] at h; cases h
    | ok r =>
      obtain ⟨r1, ex1⟩ := r
      rw [hs] at h
      cases h
      exact HandleSystemCall_exit hs
  · have hs : HandleSystemCall fuel op.op2 op.op1 mem inp = .ok (op.op1, true) := by
      unfold HandleSystemCall
      rcases h with h | h <;> rw [h] <;> rfl
    rw [hE, hs]
  · have hs : HandleSystemCall fuel op.op2 op.op1 mem inp = .ok (op.op1, false) := by
      unfold HandleSystemCall
      rcases h with h | h | h <;> rw [h] <;> rfl
    rw [hE, hs]
  · have hs : HandleSystemCall fuel op.op2 op.op1 mem inp = .ok (op.op1, false) := by
      unfold HandleSystemCall
      rw [if_pos h, printString_ok mem k fuel (toUInt32 op.op1) hz (toUInt32_lt _) hk]
    rw [hE, hs]
  · rw [hE]
    unfold HandleSystemCall
    rcases h with h | h <;> rw [h]
    · cases inp.scan_char <;> exact ⟨_, rfl⟩
    · cases inp.scan_long <;> exact ⟨_, rfl⟩
  · have hs : HandleSystemCall fuel op.op2 op.op1 mem inp =
        .error (ExecError.unknown_syscall op.op2) := by
      unfold HandleSystemCall
      rw [if_neg n0, if_neg n1, if_neg n2, if_neg (by omega), if_neg n4, if_neg n5, if_neg n6]
    rw [hE, hs]

/-- C19 witness: the ECALL `exampleEcallOp` has number 93 and requests the exit. -/
theorem syscall_dispatch_witness :
    (exampleEcallOp.inst_type = InstType.ECALL ∧ exampleEcallOp.op2 ≠ 10 ∧
      ExecuteInst 0 exampleEcallOp false exampleZeroMem {} =
        .ok ({ exampleEcallOp with out := 42, jump_pc := 4 }, true)) ∧
    ((∀ e ex, ExecuteInst 0 exampleEcallOp false exampleZeroMem {} = .ok (e, ex) →
      (ex = true ↔ (exampleEcallOp.op2 = 3 ∨ exampleEcallOp.op2 = 93))) ∧
    ((exampleEcallOp.op2 = 3 ∨ exampleEcallOp.op2 = 93) →
      ExecuteInst 0 exampleEcallOp false exampleZeroMem {} =
        .ok ({ exampleEcallOp with out := exampleEcallOp.op1,
                                   jump_pc := (exampleEcallOp.pc + 4) % 2 ^ 32 }, true)) ∧
    ((exampleEcallOp.op2 = 1 ∨ exampleEcallOp.op2 = 2 ∨ exampleEcallOp.op2 = 6) →
      ExecuteInst 0 exampleEcallOp false exampleZeroMem {} =
        .ok ({ exampleEcallOp with out := exampleEcallOp.op1,
                                   jump_pc := (exampleEcallOp.pc + 4) % 2 ^ 32 }, false)) ∧
    (exampleEcallOp.op2 = 0 → ∀ k, k < 0 →
      exampleZeroMem.GetByte ((toUInt32 exampleEcallOp.op1 + k) % 2 ^ 32) % 256 = 0 →
      ExecuteInst 0 exampleEcallOp false exampleZeroMem {} =
        .ok ({ exampleEcallOp with out := exampleEcallOp.op1,
                                   jump_pc := (exampleEcallOp.pc + 4) % 2 ^ 32 }, false)) ∧
    ((exampleEcallOp.op2 = 4 ∨ exampleEcallOp.op2 = 5) →
      ∃ e, ExecuteInst 0 exampleEcallOp false exampleZeroMem {} = .ok (e, false)) ∧
    (exampleEcallOp.op2 ≠ 0 → exampleEcallOp.op2 ≠ 1 → exampleEcallOp.op2 ≠ 2 →
      exampleEcallOp.op2 ≠ 3 → exampleEcallOp.op2 ≠ 4 → exampleEcallOp.op2 ≠ 5 →
      exampleEcallOp.op2 ≠ 6 → exampleEcallOp.op2 ≠ 93 →
      ExecuteInst 0 exampleEcallOp false exampleZeroMem {} =
        .error (ExecError.unknown_syscall exampleEcallOp.op2))) :=
  ⟨⟨rfl, by decide, rfl⟩, syscall_dispatch 0 exampleEcallOp false exampleZeroMem {} rfl (by decide)⟩

end TrapHandling

namespace TrapHandling

/-- C20: for every PipeOp and register file, when `DecodeInst` returns an ECALL then `op1`
is `regs[A0]` and `op2` is `regs[A7]` (read as `int64_t`), `rs1 = 10` (A0), `rs2 = 17` (A7)
and `dest_reg = 10` (A0). -/
theorem ECALL_decode_conventions (op d : PipeOp) (regs : Regs)
    (h : DecodeInst op regs = .ok d) (hty : d.inst_type = InstType.ECALL) :
    d.op1 = toInt64 (regs REG_A0) ∧ d.op2 = toInt64 (regs REG_A7) ∧ d.rs1 = 10 ∧ d.rs2 = 17 ∧
      d.dest_reg = 10 := by
  rw [(DecodeInst_ECALL_JAL h).1 hty]
  exact ⟨rfl, rfl, rfl, rfl, rfl⟩

/-- C20 witness: the ECALL word `0x00000073` with `regs[A0] = 42` and `regs[A7] = 93`. -/
theorem ECALL_decode_conventions_witness :
    (DecodeInst { inst := 0x00000073 } exampleEcallRegs = .ok exampleEcallOp ∧
      exampleEcallOp.inst_type = InstType.ECALL) ∧
    (exampleEcallOp.op1 = toInt64 (exampleEcallRegs REG_A0) ∧
      exampleEcallOp.op2 = toInt64 (exampleEcallRegs REG_A7) ∧ exampleEcallOp.rs1 = 10 ∧
      exampleEcallOp.rs2 = 17 ∧ exampleEcallOp.dest_reg = 10) :=
  ⟨⟨rfl, rfl⟩,
   ECALL_decode_conventions { inst := 0x00000073 } exampleEcallOp exampleEcallRegs rfl rfl⟩

end TrapHandling

namespace TrapHandling

/-- C21 (DIV and REM by zero): for every `op1`, every PipeOp context and every state of the
exit flag, `ExecuteInst` on a DIV or a REM with `op2 = 0` evaluates `op1 / 0` or `op1 % 0`
on `int64_t`, which has no defined result (the model's `undefined_division`); it yields
neither `out = -1` nor `out = op1`.  The same holds for `INT64_MIN / -1`. -/
theorem DIV_REM_by_zero_undefined (fuel : Nat) (op : PipeOp) (exit_ctrl : Bool) (mem : Memory)
    (inp : Stdin) :
    ExecuteInst fuel { op with inst_type := InstType.DIV, op2 := 0 } exit_ctrl mem inp =
      .error (ExecError.undefined_division op.op1 0) ∧
    ExecuteInst fuel { op with inst_type := InstType.REM, op2 := 0 } exit_ctrl mem inp =
      .error (ExecError.undefined_division op.op1 0) ∧
    ExecuteInst fuel { op with inst_type := InstType.DIV, op1 := -2 ^ 63, op2 := -1 } exit_ctrl
        mem inp =
      .error (ExecError.undefined_division (-2 ^ 63) (-1)) := by
  refine ⟨?_, ?_, ?_⟩ <;> simp [ExecuteInst]

end TrapHandling

namespace BranchPrediction

/-- The table index of a predictor with at most `2^32` counters is `pc mod k_`. -/
theorem TwoBitPredictor.idx_eq {k : Nat} (hk : k ≤ 2 ^ 32) (hk0 : 0 < k) (pc : Nat) :
    pc % k % 2 ^ 32 = pc % k := by
  have := Nat.mod_lt pc hk0
  omega

theorem TwoBitPredictor.new_Inv (K : Nat) : (TwoBitPredictor.new K).Inv := by
  unfold TwoBitPredictor.new TwoBitPredictor.Inv
  refine ⟨?_, ?_, ?_⟩
  · simp only
    split <;> omega
  · simp
  · intro s hs
    simp only [List.mem_replicate] at hs
    omega

theorem TwoBitPredictor.new_k (K : Nat) : (TwoBitPredictor.new K).k_ = if K = 0 then 16 else K :=
  rfl

theorem TwoBitPredictor.Update_k (p : TwoBitPredictor) (pc : Nat) (taken : Bool) (t : Nat) :
    (p.Update pc taken t).k_ = p.k_ := rfl

theorem TwoBitPredictor.getD_le {p : TwoBitPredictor} (h : p.Inv) (j : Nat) :
    p.bht_.getD j 0 ≤ 3 := by
  rw [List.getD_eq_getElem?_getD]
  cases hj : p.bht_[j]? with
  | none => simp
  | some s => exact h.2.2 s (List.getElem?_mem hj)

theorem TwoBitPredictor.Update_Inv {p : TwoBitPredictor} (h : p.Inv) (pc : Nat) (taken : Bool)
    (t : Nat) : (p.Update pc taken t).Inv := by
  refine ⟨h.1, ?_, ?_⟩
  · show (p.bht_.set _ _).length = p.k_
    rw [List.length_set]
    exact h.2.1
  · intro s hs
    have hs' : s ∈ p.bht_.set (pc % p.k_ % 2 ^ 32)
        (if taken then
          (if p.bht_.getD (pc % p.k_ % 2 ^ 32) 0 < 3 then
            (p.bht_.getD (pc % p.k_ % 2 ^ 32) 0 + 1) % 256
           else p.bht_.getD (pc % p.k_ % 2 ^ 32) 0)
         else (if p.bht_.getD (pc % p.k_ % 2 ^ 32) 0 > 0 then
            p.bht_.getD (pc % p.k_ % 2 ^ 32) 0 - 1
           else p.bht_.getD (pc % p.k_ % 2 ^ 32) 0)) := hs
    have hle := TwoBitPredictor.getD_le h (pc % p.k_ % 2 ^ 32)
    rcases List.mem_or_eq_of_mem_set hs' with hm | he
    · exact h.2.2 s hm
    · rw [he]
      split
      · split <;> omega
      · split <;> omega

theorem TwoBitPredictor.updates_Inv (calls : List (Nat × Bool × Nat)) :
    ∀ p : TwoBitPredictor, p.Inv → (p.updates calls).Inv ∧ (p.updates calls).k_ = p.k_ := by
  induction calls with
  | nil => intro p h; exact ⟨h, rfl⟩
  | cons c cs ih =>
    intro p h
    have := ih (p.Update c.1 c.2.1 c.2.2) (TwoBitPredictor.Update_Inv h _ _ _)
    exact this

/-- C22: for every table size `K` of at most `2^32` counters (`K = 0` is treated as 16) and
every sequence of `Update` calls on the fresh predictor, the table has `K` counters and each
is in {0, 1, 2, 3}; a further `Update(pc, taken)` changes only counter `pc mod K`, adding 1
when taken (staying at 3) and subtracting 1 when not taken (staying at 0); `Predict(pc)` is
true exactly when counter `pc mod K` is at least 2; and the fresh predictor predicts taken
for every `pc`. -/
theorem TwoBitPredictor_saturating_counters (K : Nat) (hK : K ≤ 2 ^ 32)
    (calls : List (Nat × Bool × Nat)) :
    ((TwoBitPredictor.new K).updates calls).k_ = (if K = 0 then 16 else K) ∧
    ((TwoBitPredictor.new K).updates calls).bht_.length = (if K = 0 then 16 else K) ∧
    (∀ j, ((TwoBitPredictor.new K).updates calls).bht_.getD j 0 ≤ 3) ∧
    (∀ (pc : Nat) (taken : Bool) (target j : Nat), j < (if K = 0 then 16 else K) →
      ((((TwoBitPredictor.new K).updates calls).Update pc taken target).bht_.getD j 0 =
        if j = pc % (if K = 0 then 16 else K) then
          (if taken then min (((TwoBitPredictor.new K).updates calls).bht_.getD j 0 + 1) 3
           else ((TwoBitPredictor.new K).updates calls).bht_.getD j 0 - 1)
        else ((TwoBitPredictor.new K).updates calls).bht_.getD j 0)) ∧
    (∀ pc, ((TwoBitPredictor.new K).updates calls).Predict pc =
      decide (2 ≤ ((TwoBitPredictor.new K).updates calls).bht_.getD
        (pc % (if K = 0 then 16 else K)) 0)) ∧
    (∀ pc, (TwoBitPredictor.new K).Predict pc = true) := by
  obtain ⟨hinv, hk⟩ := TwoBitPredictor.updates_Inv calls _ (TwoBitPredictor.new_Inv K)
  rw [TwoBitPredictor.new_k] at hk
  have hk32 : (if K = 0 then 16 else K) ≤ 2 ^ 32 := by split <;> omega
  have hk0 : 0 < (if K = 0 then 16 else K) := by split <;> omega
  generalize (TwoBitPredictor.new K).updates calls = p at hinv hk
  generalize (if K = 0 then 16 else K) = k at hk hk32 hk0
  refine ⟨hk, ?_, fun j => TwoBitPredictor.getD_le hinv j, ?_, ?_, ?_⟩
  · rw [← hk]
    exact hinv.2.1
  · intro pc taken target j hj
    have hidx : pc % p.k_ % 2 ^ 32 = pc % k := by
      rw [hk]
      exact TwoBitPredictor.idx_eq hk32 hk0 pc
    have hle := TwoBitPredictor.getD_le hinv (pc % k)
    have hlen : p.bht_.length = k := by rw [← hk]; exact hinv.2.1
    show (p.bht_.set _ _).getD j 0 = _
    rw [hidx, List.getD_eq_getElem?_getD, List.getElem?_set]
    by_cases hjk : pc % k = j
    · rw [if_pos hjk, if_pos (by omega), if_pos hjk.symm, hjk]
      rw [hjk] at hle
      simp only [Option.getD_some]
      cases taken
      · simp only [Bool.false_eq_true, if_false]
        split <;> omega
      · simp only [if_true]
        split <;> omega
    · rw [if_neg hjk, if_neg (fun e => hjk e.symm), List.getD_eq_getElem?_getD]
  · intro pc
    have hidx : pc % p.k_ % 2 ^ 32 = pc % k := by
      rw [hk]
      exact TwoBitPredictor.idx_eq hk32 hk0 pc
    show decide (p.bht_.getD (pc % p.k_ % 2 ^ 32) 0 ≥ 2) = _
    rw [hidx]
  · intro pc
    have h16 : pc % 16 % 2 ^ 32 < 16 := by omega
    unfold TwoBitPredictor.new TwoBitPredictor.Predict
    simp only
    by_cases h0 : K = 0
    · simp only [h0, if_true]
      rw [List.getD_eq_getElem?_getD, List.getElem?_replicate, if_pos h16]
      rfl
    · have hlt : pc % K % 2 ^ 32 < K := by
        have := Nat.mod_lt pc (Nat.pos_of_ne_zero h0)
        omega
      simp only [h0, if_false]
      rw [List.getD_eq_getElem?_getD, List.getElem?_replicate, if_pos hlt]
      rfl

/-- C22 witness: a table of 4 counters after two not-taken updates at `pc = 5`. -/
theorem TwoBitPredictor_saturating_counters_witness :
    ((4 : Nat) ≤ 2 ^ 32 ∧
      ((TwoBitPredictor.new 4).updates [(5, false, 0), (5, false, 0)]).bht_ = [2, 0, 2, 2]) ∧
    (((TwoBitPredictor.new 4).updates [(5, false, 0), (5, false, 0)]).k_ =
        (if 4 = 0 then 16 else 4) ∧
    ((TwoBitPredictor.new 4).updates [(5, false, 0), (5, false, 0)]).bht_.length =
        (if 4 = 0 then 16 else 4) ∧
    (∀ j, ((TwoBitPredictor.new 4).updates [(5, false, 0), (5, false, 0)]).bht_.getD j 0 ≤ 3) ∧
    (∀ (pc : Nat) (taken : Bool) (target j : Nat), j < (if 4 = 0 then 16 else 4) →
      ((((TwoBitPredictor.new 4).updates [(5, false, 0), (5, false, 0)]).Update pc taken
          target).bht_.getD j 0 =
        if j = pc % (if 4 = 0 then 16 else 4) then
          (if taken then
            min (((TwoBitPredictor.new 4).updates [(5, false, 0), (5, false, 0)]).bht_.getD
              j 0 + 1) 3
           else ((TwoBitPredictor.new 4).updates [(5, false, 0), (5, false, 0)]).bht_.getD
              j 0 - 1)
        else ((TwoBitPredictor.new 4).updates [(5, false, 0), (5, false, 0)]).bht_.getD j 0)) ∧
    (∀ pc, ((TwoBitPredictor.new 4).updates [(5, false, 0), (5, false, 0)]).Predict pc =
      decide (2 ≤ ((TwoBitPredictor.new 4).updates [(5, false, 0), (5, false, 0)]).bht_.getD
        (pc % (if 4 = 0 then 16 else 4)) 0)) ∧
    (∀ pc, (TwoBitPredictor.new 4).Predict pc = true)) :=
  ⟨⟨by norm_num, by decide⟩,
   TwoBitPredictor_saturating_counters 4 (by norm_num) [(5, false, 0), (5, false, 0)]⟩

end BranchPrediction

namespace BranchPrediction

/-- C23: for every one-bit predictor and every `pc`, `pc'`, `taken` and `target`, after
`Update(pc, taken, target)` the call `Predict(pc')` returns `taken`. -/
theorem OneBitPredictor_predicts_last_outcome (p : OneBitPredictor) (pc pc' : Nat)
    (taken : Bool) (target : Nat) :
    (p.Update pc taken target).Predict pc' = taken ∧
    ((BranchPredictor.OneBit p).Update pc taken target).Predict pc' = taken :=
  ⟨rfl, rfl⟩

end BranchPrediction

namespace BranchPrediction

open TrapHandling (Regs toInt64 toUInt32 toUInt64 InstType IsBranch IsJump)

/-- What `WriteBack` leaves in register `i`. -/
theorem WriteBack_regs {s s' : FiveStageSimulator} (h : s.WriteBack = .ok s') (i : Nat) :
    s'.regs_ i =
      match s.wb_op_ with
      | some op => if 0 < op.dest_reg ∧ (i : Int) = op.dest_reg then toUInt64 op.out else s.regs_ i
      | none => s.regs_ i := by
  unfold FiveStageSimulator.WriteBack at h
  cases hw : s.wb_op_ with
  | none =>
    rw [hw] at h
    simp only [Except.ok.injEq] at h
    rw [← h]
  | some op =>
    rw [hw] at h
    simp only at h
    show s'.regs_ i = if 0 < op.dest_reg ∧ (i : Int) = op.dest_reg then toUInt64 op.out
      else s.regs_ i
    by_cases hd : op.dest_reg > 0
    · by_cases hd2 : op.dest_reg < 32
      · rw [if_pos hd, if_pos hd2] at h
        simp only [Except.ok.injEq] at h
        rw [← h]
        show (if i = op.dest_reg.toNat then toUInt64 op.out else s.regs_ i) = _
        have e : (i = op.dest_reg.toNat) ↔ ((i : Int) = op.dest_reg) := by omega
        by_cases hi : (i : Int) = op.dest_reg
        · rw [if_pos (e.mpr hi), if_pos ⟨hd, hi⟩]
        · rw [if_neg (fun c => hi (e.mp c)), if_neg (fun c => hi c.2)]
      · rw [if_pos hd, if_neg hd2] at h
        cases h
    · rw [if_neg hd] at h
      simp only [Except.ok.injEq] at h
      rw [← h]
      show s.regs_ i = _
      rw [if_neg (fun c => hd c.1)]

/-- The stage `MemoryAccess` writes no register and keeps the write-back of the cycle. -/
theorem MemoryAccess_regs {s s' : FiveStageSimulator} (h : s.MemoryAccess = .ok s') :
    s'.regs_ = s.regs_ := by
  unfold FiveStageSimulator.MemoryAccess at h
  cases hm : s.mem_op_ with
  | none =>
    rw [hm] at h
    simp only [Except.ok.injEq] at h
    rw [← h]
  | some op =>
    rw [hm] at h
    simp only at h
    cases h1 : storeStep s.memory_ op with
    | error e => rw [h1] at h; cases h
    | ok memory =>
      rw [h1] at h
      simp only at h
      cases h2 : loadStep memory op with
      | error e => rw [h2] at h; cases h
      | ok out =>
        rw [h2] at h
        simp only [Except.ok.injEq] at h
        rw [← h]

/-- The stage `Execute` writes no register. -/
theorem Execute_regs (isa : Isa) {s s' : FiveStageSimulator} (h : s.Execute isa = .ok s') :
    s'.regs_ = s.regs_ := by
  unfold FiveStageSimulator.Execute at h
  cases he : s.execute_op_ with
  | none =>
    rw [he] at h
    simp only [Except.ok.injEq] at h
    rw [← h]
  | some op =>
    rw [he] at h
    simp only at h
    by_cases hm : s.mem_op_.isSome = true
    · simp only [hm, if_true, Except.ok.injEq] at h
      rw [← h]
    · simp only [hm, if_false] at h
      cases hx : isa.ExecuteInst op s.memory_ with
      | none => rw [hx] at h; cases h
      | some r =>
        obtain ⟨o, exit_ctrl, memory⟩ := r
        rw [hx] at h
        simp only at h
        cases exit_ctrl with
        | true => simp only [if_true] at h; cases h
        | false =>
          simp only [Bool.false_eq_true, if_false, Except.ok.injEq] at h
          rw [← h]
          simp only [FiveStageSimulator.PipeRecover]
          split_ifs <;> rfl

/-- The stage `Decode` writes no register. -/
theorem Decode_regs (isa : Isa) {s s' : FiveStageSimulator} (h : s.Decode isa = .ok s') :
    s'.regs_ = s.regs_ := by
  unfold FiveStageSimulator.Decode at h
  cases hd : s.decode_op_ with
  | none =>
    rw [hd] at h
    simp only [Except.ok.injEq] at h
    rw [← h]
  | some op =>
    rw [hd] at h
    simp only at h
    by_cases hl : op.pc_len ≠ 4
    · rw [if_pos hl] at h; cases h
    · rw [if_neg hl] at h
      cases hx : isa.DecodeInst op s.regs_ with
      | none => rw [hx] at h; cases h
      | some o =>
        rw [hx] at h
        simp only [FiveStageSimulator.PipeRecover] at h
        split_ifs at h <;> simp only [Except.ok.injEq] at h <;> rw [← h]

/-- The stage `Fetch` writes no register. -/
theorem Fetch_regs {s s' : FiveStageSimulator} (h : s.Fetch = .ok s') : s'.regs_ = s.regs_ := by
  unfold FiveStageSimulator.Fetch at h
  split_ifs at h
  · simp only [Except.ok.injEq] at h; rw [← h]
  · simp only [Except.ok.injEq] at h; rw [← h]
  · cases hg : s.memory_.GetInt (s.pc_ % 2 ^ 32) with
    | error f => rw [hg] at h; cases h
    | ok inst =>
      rw [hg] at h
      simp only [Except.ok.injEq] at h
      rw [← h]

/-- The start of a pass writes no register and keeps the write-back slot. -/
theorem Prologue_regs (s : FiveStageSimulator) :
    s.Prologue.regs_ = s.regs_ ∧ s.Prologue.wb_op_ = s.wb_op_ := by
  unfold FiveStageSimulator.Prologue
  split_ifs <;> exact ⟨rfl, rfl⟩

/-- The registers after the five stages: only the write-back of the operation in the
write-back slot changes a register. -/
theorem Stages_regs (isa : Isa) {s s' : FiveStageSimulator} (h : s.Stages isa = .ok s')
    (i : Nat) :
    s'.regs_ i =
      match s.wb_op_ with
      | some op => if 0 < op.dest_reg ∧ (i : Int) = op.dest_reg then toUInt64 op.out else s.regs_ i
      | none => s.regs_ i := by
  unfold FiveStageSimulator.Stages at h
  split at h
  · cases h
  rename_i s1 h1
  split at h
  · cases h
  rename_i s2 h2
  split at h
  · cases h
  rename_i s3 h3
  split at h
  · cases h
  rename_i s4 h4
  rw [Fetch_regs h, Decode_regs isa h4, Execute_regs isa h3, MemoryAccess_regs h2,
    WriteBack_regs h1 i]

/-- The registers after one pass of the loop of `Run`: the pass starts with `regs_[0] = 0`,
and only the write-back of the operation in the write-back slot changes a register. -/
theorem Cycle_regs (isa : Isa) {s s' : FiveStageSimulator} (h : s.Cycle isa = .ok s')
    (i : Nat) :
    s.regs_ 0 = 0 ∧
    s'.regs_ i =
      match s.wb_op_ with
      | some op => if 0 < op.dest_reg ∧ (i : Int) = op.dest_reg then toUInt64 op.out else s.regs_ i
      | none => s.regs_ i := by
  unfold FiveStageSimulator.Cycle at h
  by_cases h0 : s.regs_ 0 ≠ 0
  · rw [if_pos h0] at h; cases h
  rw [if_neg h0] at h
  split_ifs at h with hsp
  refine ⟨not_not.mp h0, ?_⟩
  split at h
  · cases h
  rename_i s1 h1
  simp only [Except.ok.injEq] at h
  rw [← h]
  show s1.regs_ i = _
  rw [Stages_regs isa h1 i, (Prologue_regs s).1, (Prologue_regs s).2]

/-- C24 (register x0 is never written): when a pass of the loop of `Run` (the recovery and
the five stages `WriteBack`, `MemoryAccess`, `Execute`, `Decode`, `Fetch`) that starts with
`regs_[0] = 0` returns, `regs_[0]` is still 0; register `i` has the value `out` of the
operation in the write-back slot when that operation has `dest_reg > 0` and `i = dest_reg`,
and its old value otherwise; and the registers after the pass are the registers `WriteBack`
leaves, the other four stages write none. -/
theorem register_zero_never_written (isa : Isa) (s s' : FiveStageSimulator)
    (h0 : s.regs_ 0 = 0) (h : s.Cycle isa = .ok s') :
    s'.regs_ 0 = 0 ∧
    (∀ i : Nat, s'.regs_ i =
      match s.wb_op_ with
      | some op => if 0 < op.dest_reg ∧ (i : Int) = op.dest_reg then toUInt64 op.out else s.regs_ i
      | none => s.regs_ i) ∧
    ∃ w, s.Prologue.WriteBack = .ok w ∧ w.regs_ = s'.regs_ := by
  refine ⟨?_, fun i => (Cycle_regs isa h i).2, ?_⟩
  · rw [(Cycle_regs isa h 0).2]
    cases hw : s.wb_op_ with
    | none => exact h0
    | some op =>
      show (if 0 < op.dest_reg ∧ ((0 : Nat) : Int) = op.dest_reg then _ else _) = 0
      rw [if_neg (by omega)]
      exact h0
  · unfold FiveStageSimulator.Cycle at h
    split_ifs at h
    split at h
    · cases h
    rename_i s1 h1
    simp only [Except.ok.injEq] at h
    unfold FiveStageSimulator.Stages at h1
    split at h1
    · cases h1
    rename_i w hw
    split at h1
    · cases h1
    rename_i s2 h2
    split at h1
    · cases h1
    rename_i s3 h3
    split at h1
    · cases h1
    rename_i s4 h4
    refine ⟨w, hw, ?_⟩
    rw [← h]
    show w.regs_ = s1.regs_
    rw [Fetch_regs h1, Decode_regs isa h4, Execute_regs isa h3, MemoryAccess_regs h2]

/-- C24 witness: the pass on `exampleWriteBack` (the operation in the write-back slot writes
42 to `x5`) returns `exampleWriteBackAfter`, where `x0 = 0`, `x5 = 42` and `x6 = 32` as
before. -/
theorem register_zero_never_written_witness :
    exampleWriteBack.regs_ 0 = 0 ∧
    exampleWriteBack.Cycle exampleIsa = .ok exampleWriteBackAfter ∧
    exampleWriteBackAfter.regs_ 0 = 0 ∧ exampleWriteBackAfter.regs_ 5 = 42 ∧
    exampleWriteBackAfter.regs_ 6 = 32 ∧
    (exampleWriteBackAfter.regs_ 0 = 0 ∧
      (∀ i : Nat, exampleWriteBackAfter.regs_ i =
        match exampleWriteBack.wb_op_ with
        | some op =>
          if 0 < op.dest_reg ∧ (i : Int) = op.dest_reg then toUInt64 op.out
          else exampleWriteBack.regs_ i
        | none => exampleWriteBack.regs_ i) ∧
      ∃ w, exampleWriteBack.Prologue.WriteBack = .ok w ∧ w.regs_ = exampleWriteBackAfter.regs_) :=
  have h : exampleWriteBack.Cycle exampleIsa = .ok exampleWriteBackAfter := by
    simp [FiveStageSimulator.Cycle, FiveStageSimulator.Prologue, FiveStageSimulator.Stages,
      FiveStageSimulator.WriteBack, FiveStageSimulator.MemoryAccess, FiveStageSimulator.Execute,
      FiveStageSimulator.Decode, FiveStageSimulator.Fetch, exampleWriteBack, exampleLwAdd,
      exampleWriteBackAfter, toUInt64]
    all_goals
      funext i
      by_cases h5 : i = 5
      · simp [h5]
      · by_cases h6 : i = 6 <;> simp [h5, h6]
  ⟨rfl, h, rfl, rfl, rfl, register_zero_never_written exampleIsa exampleWriteBack
    exampleWriteBackAfter rfl h⟩

end BranchPrediction

namespace TrapHandling

theorem DecodeInst_LW (op : PipeOp) (regs : Regs) (h1 : op.inst &&& 0x7F = 0x03)
    (h2 : (op.inst >>> 12) &&& 0x7 = 2) :
    DecodeInst op regs =
      .ok { op with op1 := toInt64 (regs ((op.inst >>> 15) &&& 0x1F)),
                    rs1 := (((op.inst >>> 15) &&& 0x1F : Nat) : Int),
                    op2 := toInt32 op.inst >>> 20, offset := toInt32 op.inst >>> 20,
                    dest_reg := (((op.inst >>> 7) &&& 0x1F : Nat) : Int),
                    inst_type := InstType.LW } := by
  unfold DecodeInst
  simp only [h1, h2, OP_REG, OP_IMM, OP_LUI, OP_BRANCH, OP_STORE, OP_LOAD, OP_AUIPC, OP_JAL,
    OP_JALR, Nat.reduceEqDiff, if_false, if_true]
  first | done | rfl

end TrapHandling

namespace BranchPrediction

open TrapHandling (Regs toInt64 toUInt32 toUInt64 InstType IsBranch IsJump)

theorem toUInt32_load_address (x : Nat) :
    toUInt32 (TrapHandling.wrap64 (toInt64 x + 0)) = x % 2 ^ 32 := by
  rw [TrapHandling.toUInt32_wrap64, add_zero]
  have h := TrapHandling.toUInt32_cast (toInt64 x)
  have h2 := TrapHandling.toInt64_emod x
  have h3 := TrapHandling.toUInt32_lt (toInt64 x)
  omega

/-- The decoder on the word of `lw x5, 0(x6)`. -/
theorem DecodeInst_LW_X5_0_X6 (pc pl : Nat) (ty : InstType) (rs1 rs2 op1 op2 dr off out : Int)
    (wm rm rse : Bool) (ml : Nat) (br : Bool) (jp : Nat) (regs : Regs) :
    TrapHandling.DecodeInst ⟨pc, pl, 205443, ty, rs1, rs2, op1, op2, dr, off, out, wm, rm, rse, ml,
      br, jp⟩ regs =
    .ok ⟨pc, pl, 205443, InstType.LW, 6, rs2, toInt64 (regs 6), 0, 5, 0, out, wm, rm, rse, ml, br,
      jp⟩ := by
  rw [TrapHandling.DecodeInst_LW ⟨pc, pl, 205443, ty, rs1, rs2, op1, op2, dr, off, out, wm, rm,
    rse, ml, br, jp⟩ regs (show (205443 : Nat) &&& 0x7F = 0x03 from by decide)
    (show ((205443 : Nat) >>> 12) &&& 0x7 = 2 from by decide)]
  simp only [show ((205443 : Nat) >>> 7) &&& 0x1F = 5 from by decide,
    show ((205443 : Nat) >>> 15) &&& 0x1F = 6 from by decide,
    show TrapHandling.toInt32 205443 >>> 20 = 0 from by decide]
  first | done | rfl

/-- The decoder on the word of `add x7, x5, x0`. -/
theorem DecodeInst_ADD_X7_X5_X0 (pc pl : Nat) (ty : InstType)
    (rs1 rs2 op1 op2 dr off out : Int) (wm rm rse : Bool) (ml : Nat) (br : Bool) (jp : Nat)
    (regs : Regs) :
    TrapHandling.DecodeInst ⟨pc, pl, 164787, ty, rs1, rs2, op1, op2, dr, off, out, wm, rm, rse, ml,
      br, jp⟩ regs =
    .ok ⟨pc, pl, 164787, InstType.ADD, 5, 0, toInt64 (regs 5), toInt64 (regs 0), 7, off, out, wm,
      rm, rse, ml, br, jp⟩ := by
  rw [TrapHandling.DecodeInst_ADD ⟨pc, pl, 164787, ty, rs1, rs2, op1, op2, dr, off, out, wm, rm,
    rse, ml, br, jp⟩ regs (show (164787 : Nat) &&& 0x7F = 0x33 from by decide)
    (show ((164787 : Nat) >>> 12) &&& 0x7 = 0 from by decide)
    (show ((164787 : Nat) >>> 25) &&& 0x7F = 0 from by decide)]
  simp only [show ((164787 : Nat) >>> 7) &&& 0x1F = 7 from by decide,
    show ((164787 : Nat) >>> 15) &&& 0x1F = 5 from by decide,
    show ((164787 : Nat) >>> 20) &&& 0x1F = 0 from by decide]
  first | done | rfl

/-- The executor on a decoded LW. -/
theorem ExecuteInst_LW (fuel pc pl inst : Nat) (rs1 rs2 op1 op2 dr off out : Int)
    (wm rm rse : Bool) (ml : Nat) (br : Bool) (jp : Nat) (mem : TrapHandling.Memory)
    (inp : TrapHandling.Stdin) :
    TrapHandling.ExecuteInst fuel ⟨pc, pl, inst, InstType.LW, rs1, rs2, op1, op2, dr, off, out, wm,
      rm, rse, ml, br, jp⟩ false mem inp =
    .ok (⟨pc, pl, inst, InstType.LW, rs1, rs2, op1, op2, dr, off, TrapHandling.wrap64 (op1 + off),
      wm, true, true, 4, br, toUInt32 (TrapHandling.wrap64 (toInt64 pc + 4))⟩, false) := by
  simp [TrapHandling.ExecuteInst]

theorem trapIsa_DecodeInst (fuel : Nat) (inp : TrapHandling.Stdin) (op : PipeOp) (regs : Regs) :
    (trapIsa fuel inp).DecodeInst op regs =
      match TrapHandling.DecodeInst op.toPipeOp regs with
      | .ok o => some { op with toPipeOp := o }
      | .error _ => none := rfl

theorem trapIsa_ExecuteInst (fuel : Nat) (inp : TrapHandling.Stdin) (op : PipeOp)
    (mm : MemoryManager) :
    (trapIsa fuel inp).ExecuteInst op mm =
      match TrapHandling.ExecuteInst fuel op.toPipeOp false
          { GetByte := fun a => match mm.GetByte a with
                                | .ok v => v
                                | .error _ => 0 } inp with
      | .ok (o, exit_ctrl) => some ({ op with toPipeOp := o }, exit_ctrl, mm)
      | .error _ => none := rfl

theorem DecodeInst_LW_X5_0_X6_base (pc pl : Nat) (ty : InstType)
    (rs1 rs2 op1 op2 dr off out : Int) (wm rm rse : Bool) (ml : Nat) (br : Bool) (jp : Nat)
    (pt : Bool) (regs : Regs) :
    TrapHandling.DecodeInst (PipeOp.mk ⟨pc, pl, 205443, ty, rs1, rs2, op1, op2, dr, off, out, wm,
      rm, rse, ml, br, jp⟩ pt).toPipeOp regs =
    .ok ⟨pc, pl, 205443, InstType.LW, 6, rs2, toInt64 (regs 6), 0, 5, 0, out, wm, rm, rse, ml, br,
      jp⟩ := DecodeInst_LW_X5_0_X6 ..

theorem DecodeInst_ADD_X7_X5_X0_base (pc pl : Nat) (ty : InstType)
    (rs1 rs2 op1 op2 dr off out : Int) (wm rm rse : Bool) (ml : Nat) (br : Bool) (jp : Nat)
    (pt : Bool) (regs : Regs) :
    TrapHandling.DecodeInst (PipeOp.mk ⟨pc, pl, 164787, ty, rs1, rs2, op1, op2, dr, off, out, wm,
      rm, rse, ml, br, jp⟩ pt).toPipeOp regs =
    .ok ⟨pc, pl, 164787, InstType.ADD, 5, 0, toInt64 (regs 5), toInt64 (regs 0), 7, off, out, wm,
      rm, rse, ml, br, jp⟩ := DecodeInst_ADD_X7_X5_X0 ..

theorem ExecuteInst_LW_base (fuel pc pl inst : Nat) (rs1 rs2 op1 op2 dr off out : Int)
    (wm rm rse : Bool) (ml : Nat) (br : Bool) (jp : Nat) (pt : Bool) (mem : TrapHandling.Memory)
    (inp : TrapHandling.Stdin) :
    TrapHandling.ExecuteInst fuel (PipeOp.mk ⟨pc, pl, inst, InstType.LW, rs1, rs2, op1, op2, dr,
      off, out, wm, rm, rse, ml, br, jp⟩ pt).toPipeOp false mem inp =
    .ok (⟨pc, pl, inst, InstType.LW, rs1, rs2, op1, op2, dr, off, TrapHandling.wrap64 (op1 + off),
      wm, true, true, 4, br, toUInt32 (TrapHandling.wrap64 (toInt64 pc + 4))⟩, false) :=
  ExecuteInst_LW ..

/-- The stand-in decoder on the word of `lw x5, 0(x6)`. -/
theorem trapIsa_DecodeInst_LW (fuel : Nat) (inp : TrapHandling.Stdin) (pc pl : Nat)
    (ty : InstType) (rs1 rs2 op1 op2 dr off out : Int) (wm rm rse : Bool) (ml : Nat) (br : Bool)
    (jp : Nat) (pt : Bool) (regs : Regs) :
    (trapIsa fuel inp).DecodeInst ⟨⟨pc, pl, 205443, ty, rs1, rs2, op1, op2, dr, off, out, wm, rm,
      rse, ml, br, jp⟩, pt⟩ regs =
    some ⟨⟨pc, pl, 205443, InstType.LW, 6, rs2, toInt64 (regs 6), 0, 5, 0, out, wm, rm, rse, ml,
      br, jp⟩, pt⟩ := by
  rw [trapIsa_DecodeInst, DecodeInst_LW_X5_0_X6_base]

/-- The stand-in decoder on the word of `add x7, x5, x0`. -/
theorem trapIsa_DecodeInst_ADD (fuel : Nat) (inp : TrapHandling.Stdin) (pc pl : Nat)
    (ty : InstType) (rs1 rs2 op1 op2 dr off out : Int) (wm rm rse : Bool) (ml : Nat) (br : Bool)
    (jp : Nat) (pt : Bool) (regs : Regs) :
    (trapIsa fuel inp).DecodeInst ⟨⟨pc, pl, 164787, ty, rs1, rs2, op1, op2, dr, off, out, wm, rm,
      rse, ml, br, jp⟩, pt⟩ regs =
    some ⟨⟨pc, pl, 164787, InstType.ADD, 5, 0, toInt64 (regs 5), toInt64 (regs 0), 7, off, out,
      wm, rm, rse, ml, br, jp⟩, pt⟩ := by
  rw [trapIsa_DecodeInst, DecodeInst_ADD_X7_X5_X0_base]

/-- The stand-in executor on a decoded LW. -/
theorem trapIsa_ExecuteInst_LW (fuel : Nat) (inp : TrapHandling.Stdin) (pc pl inst : Nat)
    (rs1 rs2 op1 op2 dr off out : Int) (wm rm rse : Bool) (ml : Nat) (br : Bool) (jp : Nat)
    (pt : Bool) (mm : MemoryManager) :
    (trapIsa fuel inp).ExecuteInst ⟨⟨pc, pl, inst, InstType.LW, rs1, rs2, op1, op2, dr, off, out,
      wm, rm, rse, ml, br, jp⟩, pt⟩ mm =
    some (⟨⟨pc, pl, inst, InstType.LW, rs1, rs2, op1, op2, dr, off,
      TrapHandling.wrap64 (op1 + off), wm, true, true, 4, br,
      toUInt32 (TrapHandling.wrap64 (toInt64 pc + 4))⟩, pt⟩, false, mm) := by
  rw [trapIsa_ExecuteInst, ExecuteInst_LW_base]

end BranchPrediction

namespace BranchPrediction

open TrapHandling (Regs toInt64 toUInt32 toUInt64 InstType IsBranch IsJump)

/-- A read of the memory that succeeds lies inside the arena. -/
theorem MemoryManager.Read_ok_bound {mm : MemoryManager} {addr n v : Nat}
    (h : mm.Read addr n = .ok v) : addr + n < mm.backend_.arena_.length := by
  unfold MemoryManager.Read MultilevelCache.Memory.ReadSpan MultilevelCache.Memory.CheckAddr at h
  by_contra hc
  rw [if_pos (by omega)] at h
  cases h

/-- The stand-in executor on the branch of the example: the condition `x0 = x5` is false. -/
theorem exampleIsa_ExecuteInst_exampleBranchOp :
    exampleIsa.ExecuteInst exampleBranchOp exampleBranchMemory =
      some ({ exampleBranchOp with jump_pc := 4 }, false, exampleBranchMemory) := by
  rw [exampleIsa, trapIsa_ExecuteInst]
  rfl

/-- C25 (always-taken predictor, branch not taken): let a conditional branch at
`branch_pc < 2^32` of a memory of at most `2^32` bytes be in the execute slot with the
prediction of the always-taken predictor of the pipeline, the memory slot be free, and the
executor return with `branch = false` (it keeps `pc`, `inst_type` and `predicted_taken`).
Then `Execute` returns; `mispredict_count_` is one more; `control_hazard_count` is two more
(a `uint32_t`); the decode slot is empty; `Decode` and `Fetch` of the same cycle change
nothing; and the start of the next pass of `Run` sets `pc_ = branch_pc + 4` and lets the
fetch go on. -/
theorem always_taken_mispredict (isa : Isa) (s : FiveStageSimulator) (op e : PipeOp)
    (memory : MemoryManager)
    (hx : s.execute_op_ = some op) (hm : s.mem_op_ = none)
    (hp : s.predictor_ = BranchPredictor.AlwaysTaken)
    (hop : IsBranch op.inst_type = true)
    (hpt : op.predicted_taken = s.predictor_.Predict op.pc)
    (hlt : op.pc < 2 ^ 32) (hat : s.memory_.GetInt (op.pc % 2 ^ 32) = .ok op.inst)
    (hsize : s.memory_.backend_.arena_.length ≤ 2 ^ 32)
    (hexe : isa.ExecuteInst op s.memory_ = some (e, false, memory))
    (hkeep : e.pc = op.pc ∧ e.inst_type = op.inst_type ∧ e.predicted_taken = op.predicted_taken)
    (hnt : e.branch = false) :
    ∃ s1, s.Execute isa = .ok s1 ∧ s1.Decode isa = .ok s1 ∧ s1.Fetch = .ok s1 ∧
      s1.mispredict_count_ = s.mispredict_count_ + 1 ∧
      s1.history_.control_hazard_count = (s.history_.control_hazard_count + 2) % 2 ^ 32 ∧
      s1.decode_op_ = none ∧ s1.mem_op_ = some e ∧ s1.execute_op_ = none ∧
      s1.Prologue.pc_ = op.pc + 4 ∧ s1.Prologue.wait_for_branch_ = false := by
  obtain ⟨k1, k2, k3⟩ := hkeep
  have hb := MemoryManager.Read_ok_bound hat
  have hpt2 : e.predicted_taken = true := by rw [k3, hpt, hp]; rfl
  have hop2 : IsBranch e.inst_type = true := by rw [k2]; exact hop
  refine ⟨{ s with
      history_ := { s.history_ with
                    inst_count := (s.history_.inst_count + 1) % 2 ^ 32,
                    control_hazard_count := (s.history_.control_hazard_count + 2) % 2 ^ 32 },
      memory_ := memory, branch_count_ := s.branch_count_ + 1,
      predictor_ := s.predictor_.Update e.pc false e.jump_pc,
      mispredict_count_ := s.mispredict_count_ + 1, should_recover_branch_ := true,
      branch_next_pc_ := (e.pc + 4) % 2 ^ 64 % 2 ^ 32, decode_op_ := none,
      wait_for_branch_ := true, data_hazard_execute_op_dest_ := e.dest_reg,
      mem_op_ := some e, execute_op_ := none }, ?_, ?_, ?_, ?_⟩
  · unfold FiveStageSimulator.Execute
    rw [hx]
    simp only [hm, Option.isSome_none, Bool.false_eq_true, if_false, hexe, hop2, if_true,
      hpt2, hnt, ne_eq, not_false_eq_true, Bool.true_eq_false, FiveStageSimulator.PipeRecover]
  · simp [FiveStageSimulator.Decode]
  · simp [FiveStageSimulator.Fetch]
  · simp only [FiveStageSimulator.Prologue, if_true, k1]
    refine ⟨trivial, trivial, trivial, trivial, trivial, ?_, trivial⟩
    show (op.pc + 4) % 2 ^ 64 % 2 ^ 32 = op.pc + 4
    omega

/-- C25 witness: `beq x0, x5, 16` at `pc = 0` with `x5 = 7`, predicted taken: the executor
leaves `branch = false`, one misprediction and two control hazards are counted, and the next
pass starts at `pc_ = 4`. -/
theorem always_taken_mispredict_witness :
    exampleBranch.execute_op_ = some exampleBranchOp ∧ exampleBranch.mem_op_ = none ∧
    exampleBranch.predictor_ = BranchPredictor.AlwaysTaken ∧
    IsBranch exampleBranchOp.inst_type = true ∧
    exampleBranchOp.predicted_taken = exampleBranch.predictor_.Predict exampleBranchOp.pc ∧
    exampleBranchOp.pc < 2 ^ 32 ∧
    exampleBranch.memory_.GetInt (exampleBranchOp.pc % 2 ^ 32) = .ok exampleBranchOp.inst ∧
    exampleBranch.memory_.backend_.arena_.length ≤ 2 ^ 32 ∧
    exampleIsa.ExecuteInst exampleBranchOp exampleBranch.memory_ =
      some ({ exampleBranchOp with jump_pc := 4 }, false, exampleBranchMemory) ∧
    ∃ s1, exampleBranch.Execute exampleIsa = .ok s1 ∧ s1.Decode exampleIsa = .ok s1 ∧
      s1.Fetch = .ok s1 ∧
      s1.mispredict_count_ = exampleBranch.mispredict_count_ + 1 ∧
      s1.history_.control_hazard_count =
        (exampleBranch.history_.control_hazard_count + 2) % 2 ^ 32 ∧
      s1.decode_op_ = none ∧ s1.mem_op_ = some { exampleBranchOp with jump_pc := 4 } ∧
      s1.execute_op_ = none ∧
      s1.Prologue.pc_ = exampleBranchOp.pc + 4 ∧ s1.Prologue.wait_for_branch_ = false :=
  ⟨rfl, rfl, rfl, rfl, rfl, by decide, by decide, by decide,
    exampleIsa_ExecuteInst_exampleBranchOp,
    always_taken_mispredict exampleIsa exampleBranch exampleBranchOp
      { exampleBranchOp with jump_pc := 4 } exampleBranchMemory rfl rfl rfl rfl rfl (by decide)
      (by decide) (by decide) exampleIsa_ExecuteInst_exampleBranchOp ⟨rfl, rfl, rfl⟩ rfl⟩

end BranchPrediction

namespace BranchPrediction

open TrapHandling (Regs toInt64 toUInt32 toUInt64 InstType IsBranch IsJump)

/-- The run of `lw x5, 0(x6); add x7, x5, x0` from an empty pipeline, for a decoder and an
executor that treat the two words as `hdl`, `hda` and `hel` say. -/
theorem lw_add_run_of (isa : Isa) (s : FiveStageSimulator) (v w : Nat)
    (hdl : ∀ (pc pl : Nat) (ty : InstType) (rs1 rs2 op1 op2 dr off out : Int) (wm rm rse : Bool)
      (ml : Nat) (br : Bool) (jp : Nat) (pt : Bool) (regs : Regs),
      isa.DecodeInst ⟨⟨pc, pl, 205443, ty, rs1, rs2, op1, op2, dr, off, out, wm, rm,
        rse, ml, br, jp⟩, pt⟩ regs =
      some ⟨⟨pc, pl, 205443, InstType.LW, 6, rs2, toInt64 (regs 6), 0, 5, 0, out, wm, rm, rse, ml,
        br, jp⟩, pt⟩)
    (hda : ∀ (pc pl : Nat) (ty : InstType) (rs1 rs2 op1 op2 dr off out : Int) (wm rm rse : Bool)
      (ml : Nat) (br : Bool) (jp : Nat) (pt : Bool) (regs : Regs),
      isa.DecodeInst ⟨⟨pc, pl, 164787, ty, rs1, rs2, op1, op2, dr, off, out, wm, rm,
        rse, ml, br, jp⟩, pt⟩ regs =
      some ⟨⟨pc, pl, 164787, InstType.ADD, 5, 0, toInt64 (regs 5), toInt64 (regs 0), 7, off, out,
        wm, rm, rse, ml, br, jp⟩, pt⟩)
    (hel : ∀ (pc pl inst : Nat) (rs1 rs2 op1 op2 dr off out : Int) (wm rm rse : Bool) (ml : Nat)
      (br : Bool) (jp : Nat) (pt : Bool) (mm : MemoryManager),
      isa.ExecuteInst ⟨⟨pc, pl, inst, InstType.LW, rs1, rs2, op1, op2, dr, off, out,
        wm, rm, rse, ml, br, jp⟩, pt⟩ mm =
      some (⟨⟨pc, pl, inst, InstType.LW, rs1, rs2, op1, op2, dr, off,
        TrapHandling.wrap64 (op1 + off), wm, true, true, 4, br,
        toUInt32 (TrapHandling.wrap64 (toInt64 pc + 4))⟩, pt⟩, false, mm))
    (hd : s.decode_op_ = none) (he : s.execute_op_ = none) (hm : s.mem_op_ = none)
    (hw : s.wb_op_ = none) (hb : s.wait_for_branch_ = false)
    (hr : s.should_recover_branch_ = false) (hr0 : s.regs_ 0 = 0)
    (hsp : ¬ s.regs_ 2 < (s.stack_base_ + 2 ^ 32 - s.stack_size_) % 2 ^ 32)
    (hpc : s.pc_ % 2 = 0)
    (hlw : s.memory_.GetInt (s.pc_ % 2 ^ 32) = .ok LW_X5_0_X6)
    (hadd : s.memory_.GetInt ((s.pc_ + 4) % 2 ^ 32) = .ok ADD_X7_X5_X0)
    (hnext : s.memory_.GetInt ((s.pc_ + 8) % 2 ^ 32) = .ok w)
    (hload : s.memory_.GetInt (s.regs_ 6 % 2 ^ 32) = .ok v) :
    slotsAfter isa 2 s =
      .ok (some ADD_X7_X5_X0, some LW_X5_0_X6, none, none, s.history_.data_hazard_count) ∧
    slotsAfter isa 3 s =
      .ok (some ADD_X7_X5_X0, none, some LW_X5_0_X6, none,
        (s.history_.data_hazard_count + 1) % 2 ^ 32) ∧
    slotsAfter isa 4 s =
      .ok (some ADD_X7_X5_X0, none, none, some LW_X5_0_X6,
        (s.history_.data_hazard_count + 2) % 2 ^ 32) ∧
    slotsAfter isa 5 s =
      .ok (some ADD_X7_X5_X0, none, none, none, (s.history_.data_hazard_count + 3) % 2 ^ 32) ∧
    slotsAfter isa 6 s =
      .ok (some w, some ADD_X7_X5_X0, none, none,
        (s.history_.data_hazard_count + 3) % 2 ^ 32) := by
  obtain ⟨pc, regs, sb, ss, mem, pred, wfb, srb, bnp, wfd, de, dm, dw, dop, eop, mop, wop, hist,
    bc, mc⟩ := s
  simp only at hd he hm hw hb hr hr0 hsp hpc hlw hadd hnext hload
  subst hd he hm hw hb hr
  have hsp2 : (regs 2 < (sb + 2 ^ 32 - ss) % 2 ^ 32) = False := eq_false hsp
  have hpc1 : (pc % 2 = 1) = False := eq_false (by omega)
  have hpc2 : ((pc + 4) % 2 ^ 64 % 2 = 1) = False := eq_false (by omega)
  have hpc3 : ((pc + 4 + 4) % 2 ^ 64 % 2 = 1) = False := eq_false (by omega)
  have hadd2 : mem.GetInt ((pc + 4) % 2 ^ 64 % 2 ^ 32) = .ok ADD_X7_X5_X0 := by
    rw [← hadd]; congr 1; omega
  have hnext2 : mem.GetInt ((pc + 4 + 4) % 2 ^ 64 % 2 ^ 32) = .ok w := by
    rw [← hnext]; congr 1; omega
  have hload2 : mem.GetInt (toUInt32 (TrapHandling.wrap64 (toInt64 (regs 6)))) = .ok v := by
    rw [← hload]; congr 1
    have h := toUInt32_load_address (regs 6)
    rwa [add_zero] at h
  simp only [Nat.reducePow, LW_X5_0_X6, ADD_X7_X5_X0] at hsp2 hpc2 hpc3 hlw hadd2 hnext2 hload
  refine ⟨?_, ?_, ?_, ?_, ?_⟩ <;>
  simp [slotsAfter, FiveStageSimulator.Cycles, FiveStageSimulator.slots,
    FiveStageSimulator.Cycle, FiveStageSimulator.Prologue, FiveStageSimulator.Stages,
    FiveStageSimulator.WriteBack, FiveStageSimulator.MemoryAccess,
    FiveStageSimulator.Execute, FiveStageSimulator.Decode, FiveStageSimulator.Fetch,
    FiveStageSimulator.wait_for_data, FiveStageSimulator.PipeRecover, storeStep, loadStep,
    IsBranch, IsJump, hdl, hda, hel,
    LW_X5_0_X6, ADD_X7_X5_X0,
    hr0, hsp2, hpc1, hpc2, hpc3, hlw, hadd2, hnext2, hload2]

/-- C26 (amended): with the decoder and the executor of the trap-handling variant, let the
pipeline be empty with no branch pending, `regs_[0] = 0` and the stack check passing, let
`lw x5, 0(x6)` be at the even `pc_` and `add x7, x5, x0` behind it, and let the words at
`pc_ + 8` and at the address in `x6` be readable.  Then six cycles return: after cycle 2 the
lw is in the execute slot and the add in the decode slot; in the cycles 3, 4 and 5, with
the lw in `Execute`, `MemoryAccess` and `WriteBack`, the add stays in the decode slot and
`data_hazard_count` (a `uint32_t`) goes up by one each time, by three in all; in cycle 6 the
add is moved to the execute slot and the count stays. -/
theorem lw_add_stalls_three_cycles (fuel : Nat) (inp : TrapHandling.Stdin)
    (s : FiveStageSimulator) (v w : Nat)
    (hd : s.decode_op_ = none) (he : s.execute_op_ = none) (hm : s.mem_op_ = none)
    (hw : s.wb_op_ = none) (hb : s.wait_for_branch_ = false)
    (hr : s.should_recover_branch_ = false) (hr0 : s.regs_ 0 = 0)
    (hsp : ¬ s.regs_ 2 < (s.stack_base_ + 2 ^ 32 - s.stack_size_) % 2 ^ 32)
    (hpc : s.pc_ % 2 = 0)
    (hlw : s.memory_.GetInt (s.pc_ % 2 ^ 32) = .ok LW_X5_0_X6)
    (hadd : s.memory_.GetInt ((s.pc_ + 4) % 2 ^ 32) = .ok ADD_X7_X5_X0)
    (hnext : s.memory_.GetInt ((s.pc_ + 8) % 2 ^ 32) = .ok w)
    (hload : s.memory_.GetInt (s.regs_ 6 % 2 ^ 32) = .ok v) :
    slotsAfter (trapIsa fuel inp) 2 s =
      .ok (some ADD_X7_X5_X0, some LW_X5_0_X6, none, none, s.history_.data_hazard_count) ∧
    slotsAfter (trapIsa fuel inp) 3 s =
      .ok (some ADD_X7_X5_X0, none, some LW_X5_0_X6, none,
        (s.history_.data_hazard_count + 1) % 2 ^ 32) ∧
    slotsAfter (trapIsa fuel inp) 4 s =
      .ok (some ADD_X7_X5_X0, none, none, some LW_X5_0_X6,
        (s.history_.data_hazard_count + 2) % 2 ^ 32) ∧
    slotsAfter (trapIsa fuel inp) 5 s =
      .ok (some ADD_X7_X5_X0, none, none, none, (s.history_.data_hazard_count + 3) % 2 ^ 32) ∧
    slotsAfter (trapIsa fuel inp) 6 s =
      .ok (some w, some ADD_X7_X5_X0, none, none,
        (s.history_.data_hazard_count + 3) % 2 ^ 32) :=
  lw_add_run_of (trapIsa fuel inp) s v w (trapIsa_DecodeInst_LW fuel inp)
    (trapIsa_DecodeInst_ADD fuel inp) (trapIsa_ExecuteInst_LW fuel inp) hd he hm hw hb hr hr0 hsp
    hpc hlw hadd hnext hload

/-- C26 witness: on `exampleLwAddLater` (`x6 = 36`, ten data hazards counted before) the
count is 10 after cycle 2, then 11, 12 and 13, and 13 when the add is in the execute slot. -/
theorem lw_add_stalls_three_cycles_witness :
    (exampleLwAddLater.decode_op_ = none ∧ exampleLwAddLater.execute_op_ = none ∧
      exampleLwAddLater.mem_op_ = none ∧ exampleLwAddLater.wb_op_ = none) ∧
    slotsAfter exampleIsa 2 exampleLwAddLater =
      .ok (some ADD_X7_X5_X0, some LW_X5_0_X6, none, none, 10) ∧
    slotsAfter exampleIsa 3 exampleLwAddLater =
      .ok (some ADD_X7_X5_X0, none, some LW_X5_0_X6, none, 11) ∧
    slotsAfter exampleIsa 4 exampleLwAddLater =
      .ok (some ADD_X7_X5_X0, none, none, some LW_X5_0_X6, 12) ∧
    slotsAfter exampleIsa 5 exampleLwAddLater =
      .ok (some ADD_X7_X5_X0, none, none, none, 13) ∧
    slotsAfter exampleIsa 6 exampleLwAddLater =
      .ok (some 0, some ADD_X7_X5_X0, none, none, 13) :=
  ⟨⟨rfl, rfl, rfl, rfl⟩,
   lw_add_stalls_three_cycles 0 {} exampleLwAddLater 0 0 rfl rfl rfl rfl rfl rfl rfl (by decide)
     (by decide) (by decide) (by decide) (by decide) (by decide)⟩

/-- C26 (counterexample): on `exampleLwAdd` (`lw x5, 0(x6); add x7, x5, x0` at `pc_ = 0`
in an empty pipeline, no data hazard counted before) the add has been stalled twice after
cycle 4 and is still in the decode slot; cycle 5, with the lw in the write-back slot, stalls
it a third time; it is in the execute slot after cycle 6, and `data_hazard_count` is 3,
not 2. -/
theorem lw_add_third_stall :
    slotsAfter exampleIsa 4 exampleLwAdd =
      .ok (some ADD_X7_X5_X0, none, none, some LW_X5_0_X6, 2) ∧
    slotsAfter exampleIsa 5 exampleLwAdd = .ok (some ADD_X7_X5_X0, none, none, none, 3) ∧
    slotsAfter exampleIsa 6 exampleLwAdd = .ok (some 0, some ADD_X7_X5_X0, none, none, 3) :=
  have h := lw_add_run_of exampleIsa exampleLwAdd 0x2A 0 (trapIsa_DecodeInst_LW 0 {})
    (trapIsa_DecodeInst_ADD 0 {}) (trapIsa_ExecuteInst_LW 0 {}) rfl rfl rfl rfl rfl rfl rfl
    (by decide) (by decide) (by decide) (by decide) (by decide) (by decide)
  ⟨h.2.2.1, h.2.2.2.1, h.2.2.2.2⟩

end BranchPrediction

namespace Forwarding

/-- C27 (signed loads of the forwarding variant are zero-extended): `MemoryAccess` on an LB
(`read_sign_ext = true`, `mem_len = 1`) of the byte `0x80` leaves `out = 128` in the
write-back slot, where the sign extension is `-128`; on an LW of the word `0x80000000` it
leaves `out = 2147483648`, where the sign extension is `-2147483648`. -/
theorem signed_load_is_zero_extended :
    (match exampleLoadByte.MemoryAccess with
      | .ok s => .ok (s.wb_op_.map (fun op => op.out), s.mem_op_.isNone)
      | .error e => .error e) = Except.ok (some 128, true) ∧
    TrapHandling.signExtend 8 0x80 = -128 ∧
    (match exampleLoadWord.MemoryAccess with
      | .ok s => .ok (s.wb_op_.map (fun op => op.out), s.mem_op_.isNone)
      | .error e => .error e) = Except.ok (some 2147483648, true) ∧
    TrapHandling.signExtend 32 0x80000000 = -2147483648 := by
  refine ⟨?_, ?_, ?_, ?_⟩ <;> decide

end Forwarding

namespace MultilevelCache

/-- C28: a backing-store `ReadSpan` of `len` bytes or `WriteSpan` of the bytes `inp` at `addr`
whose end `addr + len` lies beyond the arena fails with the access error; the failing call
returns no new arena (`CheckAddr` throws before the copy), so the arena stays as it is. -/
theorem Memory_access_beyond_arena_fails (m : Memory) (addr len : Nat) (inp : List Nat)
    (hlen : inp.length = len) (h : addr + len > m.arena_.length) :
    m.ReadSpan addr len = .error Fault.invalid_memory_access ∧
    m.WriteSpan addr inp = .error Fault.invalid_memory_access := by
  have hc : m.CheckAddr addr len = .error Fault.invalid_memory_access := by
    unfold Memory.CheckAddr
    rw [if_pos (by omega)]
  constructor
  · unfold Memory.ReadSpan
    rw [hc]
  · unfold Memory.WriteSpan
    rw [hlen, hc]

/-- C28 witness: a 16-byte arena and an access of 4 bytes at address 13. -/
theorem Memory_access_beyond_arena_fails_witness :
    (([1, 2, 3, 4] : List Nat).length = 4 ∧ 13 + 4 > (Memory.new 16).arena_.length) ∧
    ((Memory.new 16).ReadSpan 13 4 = .error Fault.invalid_memory_access ∧
      (Memory.new 16).WriteSpan 13 [1, 2, 3, 4] = .error Fault.invalid_memory_access) :=
  ⟨⟨rfl, by decide⟩,
   Memory_access_beyond_arena_fails (Memory.new 16) 13 4 [1, 2, 3, 4] rfl (by decide)⟩

end MultilevelCache

namespace Forwarding

/-- C29 (accesses that leave the arena and are not reported): on an arena of four bytes,
`SetShort(3, 0xBBAA)`, `SetInt(3, 0xDDCCBBAA)` and `SetLong(3, 0xDDCCBBAA)` return true
although only the byte at address 3 is inside the arena (it is set to `0xAA`, the other
bytes of the value are dropped); and `GetByte(4)`, `GetShort(4)`, `GetInt(4)`, `GetLong(4)`
return 0 for the address 4 outside the arena, `GetShort(3)` returns the byte at 3 extended
with a zero byte. -/
theorem Memory_out_of_range_not_reported :
    (Memory.mk [0, 0, 0, 0]).SetShort 3 0xBBAA = (Memory.mk [0, 0, 0, 0xAA], true) ∧
    (Memory.mk [0, 0, 0, 0]).SetInt 3 0xDDCCBBAA = (Memory.mk [0, 0, 0, 0xAA], true) ∧
    (Memory.mk [0, 0, 0, 0]).SetLong 3 0xDDCCBBAA = (Memory.mk [0, 0, 0, 0xAA], true) ∧
    (Memory.mk [1, 2, 3, 4]).GetByte 4 = 0 ∧
    (Memory.mk [1, 2, 3, 4]).GetShort 4 = 0 ∧
    (Memory.mk [1, 2, 3, 4]).GetInt 4 = 0 ∧
    (Memory.mk [1, 2, 3, 4]).GetLong 4 = 0 ∧
    (Memory.mk [1, 2, 3, 4]).GetShort 3 = 4 := by
  decide

end Forwarding

namespace Forwarding

theorem Memory.AddrExist_in {m : Memory} {addr : Nat} (h : addr < m.arena_.length) :
    m.AddrExist addr = true := by
  unfold Memory.AddrExist
  rw [if_neg (Nat.not_le.mpr h)]

theorem Memory.SetByte_in {m : Memory} {addr : Nat} (val : Nat) (h : addr < m.arena_.length) :
    m.SetByte addr val = ({ arena_ := m.arena_.set addr (val % 256) }, true) := by
  unfold Memory.SetByte
  rw [Memory.AddrExist_in h]
  rfl

theorem Memory.GetByte_in {m : Memory} {addr : Nat} (h : addr < m.arena_.length) :
    m.GetByte addr = m.arena_.getD addr 0 := by
  unfold Memory.GetByte
  rw [Memory.AddrExist_in h]
  rfl

/-- A byte store never changes the size of the arena. -/
theorem Memory.SetByte_length (m : Memory) (addr val : Nat) :
    (m.SetByte addr val).1.arena_.length = m.arena_.length := by
  unfold Memory.SetByte
  split
  · rfl
  · exact List.length_set _ _ _

/-- A byte store inside the arena, in terms of the arena. -/
theorem Memory.SetByte_fst {m : Memory} {addr : Nat} (val : Nat) (h : addr < m.arena_.length) :
    (m.SetByte addr val).1 = Memory.mk (m.arena_.set addr (val % 256)) := by
  rw [Memory.SetByte_in val h]

/-- The arena after `SetShort` inside the arena. -/
theorem Memory.SetShort_in {m : Memory} {addr : Nat} (val : Nat)
    (h : addr + 2 ≤ m.arena_.length) (h32 : m.arena_.length ≤ 2 ^ 32) :
    m.SetShort addr val =
      ({ arena_ := (m.arena_.set addr ((val &&& 0xFF) % 256)).set (addr + 1)
          (((val >>> 8) &&& 0xFF) % 256) }, true) := by
  have e1 : (addr + 1) % 2 ^ 32 = addr + 1 := Nat.mod_eq_of_lt (by omega)
  unfold Memory.SetShort
  rw [Memory.AddrExist_in (by omega)]
  simp only [e1, Bool.not_true, Bool.false_eq_true, if_false]
  rw [Memory.SetByte_fst _ (by simp only [Memory.SetByte_length]; omega),
    Memory.SetByte_fst _ (by omega)]

/-- The arena after `SetInt` inside the arena. -/
theorem Memory.SetInt_in {m : Memory} {addr : Nat} (val : Nat)
    (h : addr + 4 ≤ m.arena_.length) (h32 : m.arena_.length ≤ 2 ^ 32) :
    m.SetInt addr val =
      ({ arena_ := (((m.arena_.set addr ((val &&& 0xFF) % 256)).set (addr + 1)
          (((val >>> 8) &&& 0xFF) % 256)).set (addr + 2)
          (((val >>> 16) &&& 0xFF) % 256)).set (addr + 3)
          (((val >>> 24) &&& 0xFF) % 256) }, true) := by
  have e1 : (addr + 1) % 2 ^ 32 = addr + 1 := Nat.mod_eq_of_lt (by omega)
  have e2 : (addr + 2) % 2 ^ 32 = addr + 2 := Nat.mod_eq_of_lt (by omega)
  have e3 : (addr + 3) % 2 ^ 32 = addr + 3 := Nat.mod_eq_of_lt (by omega)
  unfold Memory.SetInt
  rw [Memory.AddrExist_in (by omega)]
  simp only [e1, e2, e3, Bool.not_true, Bool.false_eq_true, if_false]
  rw [Memory.SetByte_fst _ (by simp only [Memory.SetByte_length]; omega),
    Memory.SetByte_fst _ (by simp only [Memory.SetByte_length]; omega),
    Memory.SetByte_fst _ (by simp only [Memory.SetByte_length]; omega),
    Memory.SetByte_fst _ (by omega)]

/-- The arena after `SetLong` inside the arena. -/
theorem Memory.SetLong_in {m : Memory} {addr : Nat} (val : Nat)
    (h : addr + 8 ≤ m.arena_.length) (h32 : m.arena_.length ≤ 2 ^ 32) :
    m.SetLong addr val =
      ({ arena_ := (((((((m.arena_.set addr ((val &&& 0xFF) % 256)).set (addr + 1)
          (((val >>> 8) &&& 0xFF) % 256)).set (addr + 2)
          (((val >>> 16) &&& 0xFF) % 256)).set (addr + 3)
          (((val >>> 24) &&& 0xFF) % 256)).set (addr + 4)
          (((val >>> 32) &&& 0xFF) % 256)).set (addr + 5)
          (((val >>> 40) &&& 0xFF) % 256)).set (addr + 6)
          (((val >>> 48) &&& 0xFF) % 256)).set (addr + 7)
          (((val >>> 56) &&& 0xFF) % 256) }, true) := by
  have e1 : (addr + 1) % 2 ^ 32 = addr + 1 := Nat.mod_eq_of_lt (by omega)
  have e2 : (addr + 2) % 2 ^ 32 = addr + 2 := Nat.mod_eq_of_lt (by omega)
  have e3 : (addr + 3) % 2 ^ 32 = addr + 3 := Nat.mod_eq_of_lt (by omega)
  have e4 : (addr + 4) % 2 ^ 32 = addr + 4 := Nat.mod_eq_of_lt (by omega)
  have e5 : (addr + 5) % 2 ^ 32 = addr + 5 := Nat.mod_eq_of_lt (by omega)
  have e6 : (addr + 6) % 2 ^ 32 = addr + 6 := Nat.mod_eq_of_lt (by omega)
  have e7 : (addr + 7) % 2 ^ 32 = addr + 7 := Nat.mod_eq_of_lt (by omega)
  unfold Memory.SetLong
  rw [Memory.AddrExist_in (by omega)]
  simp only [e1, e2, e3, e4, e5, e6, e7, Bool.not_true, Bool.false_eq_true, if_false]
  rw [Memory.SetByte_fst _ (by simp only [Memory.SetByte_length]; omega),
    Memory.SetByte_fst _ (by simp only [Memory.SetByte_length]; omega),
    Memory.SetByte_fst _ (by simp only [Memory.SetByte_length]; omega),
    Memory.SetByte_fst _ (by simp only [Memory.SetByte_length]; omega),
    Memory.SetByte_fst _ (by simp only [Memory.SetByte_length]; omega),
    Memory.SetByte_fst _ (by simp only [Memory.SetByte_length]; omega),
    Memory.SetByte_fst _ (by simp only [Memory.SetByte_length]; omega),
    Memory.SetByte_fst _ (by omega)]

theorem getD_set_self {l : List Nat} {i : Nat} (v : Nat) (h : i < l.length) :
    (l.set i v).getD i 0 = v := by
  rw [List.getD_eq_getElem?_getD, List.getElem?_set, if_pos rfl, if_pos h]
  rfl

theorem getD_set_other {l : List Nat} {i j : Nat} (v : Nat) (h : i ≠ j) :
    (l.set i v).getD j 0 = l.getD j 0 := by
  rw [List.getD_eq_getElem?_getD, List.getElem?_set, if_neg h, List.getD_eq_getElem?_getD]

/-- A byte of a value, as the decoder of the value sees it. -/
theorem byte_of (v k : Nat) : ((v >>> k) &&& 0xFF) % 256 = v / 2 ^ k % 256 := by
  have e : (v >>> k) &&& 0xFF = (v >>> k) % 2 ^ 8 := Nat.and_pow_two_sub_one_eq_mod _ 8
  rw [e, Nat.shiftRight_eq_div_pow]
  omega

theorem byte_of_zero (v : Nat) : (v &&& 0xFF) % 256 = v % 256 := by
  have e : v &&& 0xFF = v % 2 ^ 8 := Nat.and_pow_two_sub_one_eq_mod _ 8
  rw [e]
  omega

/-- What `SetShort` stores and `GetShort` reads back. -/
theorem Memory.Short_roundtrip (m : Memory) (addr v : Nat) (h32 : m.arena_.length ≤ 2 ^ 32)
    (h : addr + 2 ≤ m.arena_.length) (hv : v < 2 ^ 16) :
    (m.SetShort addr v).2 = true ∧
    (∀ i, i < 2 → (m.SetShort addr v).1.arena_.getD (addr + i) 0 = (v >>> (8 * i)) &&& 0xFF) ∧
    (m.SetShort addr v).1.GetShort addr = v := by
  have e1 : (addr + 1) % 2 ^ 32 = addr + 1 := Nat.mod_eq_of_lt (by omega)
  rw [Memory.SetShort_in v h h32]
  have b0 : ((m.arena_.set addr ((v &&& 0xFF) % 256)).set (addr + 1)
      (((v >>> 8) &&& 0xFF) % 256)).getD addr 0 = v % 256 := by
    rw [getD_set_other _ (by omega), getD_set_self _ (by omega), byte_of_zero]
  have b1 : ((m.arena_.set addr ((v &&& 0xFF) % 256)).set (addr + 1)
      (((v >>> 8) &&& 0xFF) % 256)).getD (addr + 1) 0 = v / 2 ^ 8 % 256 := by
    rw [getD_set_self _ (by simp; omega), byte_of]
  refine ⟨rfl, ?_, ?_⟩
  · intro i hi
    have hm : ∀ k, (v >>> k) &&& 0xFF = v / 2 ^ k % 256 := by
      intro k
      rw [← byte_of]
      exact (Nat.mod_eq_of_lt (Nat.lt_succ_of_le Nat.and_le_right)).symm
    interval_cases i
    · exact b0.trans (by rw [hm]; norm_num)
    · exact b1.trans (by rw [hm])
  · unfold Memory.GetShort
    simp only [e1]
    rw [Memory.GetByte_in (by simp; omega), Memory.GetByte_in (by simp; omega)]
    simp only [b0, b1, Nat.shiftLeft_eq]
    omega

/-- `GetInt` inside the arena, in terms of the arena. -/
theorem Memory.GetInt_in (m : Memory) (addr : Nat) (h32 : m.arena_.length ≤ 2 ^ 32)
    (h : addr + 4 ≤ m.arena_.length) :
    m.GetInt addr =
      (m.arena_.getD addr 0 +
        (m.arena_.getD (addr + 1) 0 <<< 8) % 2 ^ 32 +
        (m.arena_.getD (addr + 2) 0 <<< 16) % 2 ^ 32 +
        (m.arena_.getD (addr + 3) 0 <<< 24) % 2 ^ 32) % 2 ^ 32 := by
  have e1 : (addr + 1) % 2 ^ 32 = addr + 1 := Nat.mod_eq_of_lt (by omega)
  have e2 : (addr + 2) % 2 ^ 32 = addr + 2 := Nat.mod_eq_of_lt (by omega)
  have e3 : (addr + 3) % 2 ^ 32 = addr + 3 := Nat.mod_eq_of_lt (by omega)
  unfold Memory.GetInt
  simp only [e1, e2, e3]
  rw [Memory.GetByte_in (by omega), Memory.GetByte_in (by omega), Memory.GetByte_in (by omega), Memory.GetByte_in (by omega)]

/-- `GetLong` inside the arena, in terms of the arena. -/
theorem Memory.GetLong_in (m : Memory) (addr : Nat) (h32 : m.arena_.length ≤ 2 ^ 32)
    (h : addr + 8 ≤ m.arena_.length) :
    m.GetLong addr =
      (m.arena_.getD addr 0 +
        (m.arena_.getD (addr + 1) 0 <<< 8) +
        (m.arena_.getD (addr + 2) 0 <<< 16) +
        (m.arena_.getD (addr + 3) 0 <<< 24) +
        (m.arena_.getD (addr + 4) 0 <<< 32) +
        (m.arena_.getD (addr + 5) 0 <<< 40) +
        (m.arena_.getD (addr + 6) 0 <<< 48) +
        (m.arena_.getD (addr + 7) 0 <<< 56)) % 2 ^ 64 := by
  have e1 : (addr + 1) % 2 ^ 32 = addr + 1 := Nat.mod_eq_of_lt (by omega)
  have e2 : (addr + 2) % 2 ^ 32 = addr + 2 := Nat.mod_eq_of_lt (by omega)
  have e3 : (addr + 3) % 2 ^ 32 = addr + 3 := Nat.mod_eq_of_lt (by omega)
  have e4 : (addr + 4) % 2 ^ 32 = addr + 4 := Nat.mod_eq_of_lt (by omega)
  have e5 : (addr + 5) % 2 ^ 32 = addr + 5 := Nat.mod_eq_of_lt (by omega)
  have e6 : (addr + 6) % 2 ^ 32 = addr + 6 := Nat.mod_eq_of_lt (by omega)
  have e7 : (addr + 7) % 2 ^ 32 = addr + 7 := Nat.mod_eq_of_lt (by omega)
  unfold Memory.GetLong
  simp only [e1, e2, e3, e4, e5, e6, e7]
  rw [Memory.GetByte_in (by omega), Memory.GetByte_in (by omega), Memory.GetByte_in (by omega), Memory.GetByte_in (by omega), Memory.GetByte_in (by omega), Memory.GetByte_in (by omega), Memory.GetByte_in (by omega), Memory.GetByte_in (by omega)]

/-- What `SetInt` stores and `GetInt` reads back. -/
theorem Memory.Int_roundtrip (m : Memory) (addr v : Nat) (h32 : m.arena_.length ≤ 2 ^ 32)
    (h : addr + 4 ≤ m.arena_.length) (hv : v < 2 ^ 32) :
    (m.SetInt addr v).2 = true ∧
    (∀ i, i < 4 → (m.SetInt addr v).1.arena_.getD (addr + i) 0 = (v >>> (8 * i)) &&& 0xFF) ∧
    (m.SetInt addr v).1.GetInt addr = v := by
  rw [Memory.SetInt_in v h h32]
  have hlen : ((((m.arena_.set addr ((v &&& 0xFF) % 256)).set (addr + 1) (((v >>> 8) &&& 0xFF) % 256)).set (addr + 2) (((v >>> 16) &&& 0xFF) % 256)).set (addr + 3) (((v >>> 24) &&& 0xFF) % 256)).length = m.arena_.length := by
    simp only [List.length_set]
  have b0 : ((((m.arena_.set addr ((v &&& 0xFF) % 256)).set (addr + 1) (((v >>> 8) &&& 0xFF) % 256)).set (addr + 2) (((v >>> 16) &&& 0xFF) % 256)).set (addr + 3) (((v >>> 24) &&& 0xFF) % 256)).getD addr 0 = v % 256 := by
    rw [getD_set_other _ (by omega), getD_set_other _ (by omega), getD_set_other _ (by omega), getD_set_self _ (by first | omega | (simp only [List.length_set]; omega)), byte_of_zero]
  have b1 : ((((m.arena_.set addr ((v &&& 0xFF) % 256)).set (addr + 1) (((v >>> 8) &&& 0xFF) % 256)).set (addr + 2) (((v >>> 16) &&& 0xFF) % 256)).set (addr + 3) (((v >>> 24) &&& 0xFF) % 256)).getD (addr + 1) 0 = v / 2 ^ 8 % 256 := by
    rw [getD_set_other _ (by omega), getD_set_other _ (by omega), getD_set_self _ (by first | omega | (simp only [List.length_set]; omega)), byte_of]
  have b2 : ((((m.arena_.set addr ((v &&& 0xFF) % 256)).set (addr + 1) (((v >>> 8) &&& 0xFF) % 256)).set (addr + 2) (((v >>> 16) &&& 0xFF) % 256)).set (addr + 3) (((v >>> 24) &&& 0xFF) % 256)).getD (addr + 2) 0 = v / 2 ^ 16 % 256 := by
    rw [getD_set_other _ (by omega), getD_set_self _ (by first | omega | (simp only [List.length_set]; omega)), byte_of]
  have b3 : ((((m.arena_.set addr ((v &&& 0xFF) % 256)).set (addr + 1) (((v >>> 8) &&& 0xFF) % 256)).set (addr + 2) (((v >>> 16) &&& 0xFF) % 256)).set (addr + 3) (((v >>> 24) &&& 0xFF) % 256)).getD (addr + 3) 0 = v / 2 ^ 24 % 256 := by
    rw [getD_set_self _ (by first | omega | (simp only [List.length_set]; omega)), byte_of]
  refine ⟨rfl, ?_, ?_⟩
  · intro i hi
    have hm : ∀ k, (v >>> k) &&& 0xFF = v / 2 ^ k % 256 := by
      intro k
      rw [← byte_of]
      exact (Nat.mod_eq_of_lt (Nat.lt_succ_of_le Nat.and_le_right)).symm
    interval_cases i
    · exact b0.trans (by rw [hm]; norm_num)
    · exact b1.trans (by rw [hm])
    · exact b2.trans (by rw [hm])
    · exact b3.trans (by rw [hm])
  · generalize (((m.arena_.set addr ((v &&& 0xFF) % 256)).set (addr + 1) (((v >>> 8) &&& 0xFF) % 256)).set (addr + 2) (((v >>> 16) &&& 0xFF) % 256)).set (addr + 3) (((v >>> 24) &&& 0xFF) % 256) = L at hlen b0 b1 b2 b3
    show (Memory.mk L).GetInt addr = v
    rw [Memory.GetInt_in _ addr (by show L.length ≤ _; omega) (by show _ ≤ L.length; omega)]
    show (L.getD addr 0 + (L.getD (addr + 1) 0 <<< 8) % 2 ^ 32 + (L.getD (addr + 2) 0 <<< 16) % 2 ^ 32 + (L.getD (addr + 3) 0 <<< 24) % 2 ^ 32) % 2 ^ 32 = v
    rw [b0, b1, b2, b3]
    simp only [Nat.shiftLeft_eq]
    norm_num
    omega

/-- What `SetLong` stores and `GetLong` reads back. -/
theorem Memory.Long_roundtrip (m : Memory) (addr v : Nat) (h32 : m.arena_.length ≤ 2 ^ 32)
    (h : addr + 8 ≤ m.arena_.length) (hv : v < 2 ^ 64) :
    (m.SetLong addr v).2 = true ∧
    (∀ i, i < 8 → (m.SetLong addr v).1.arena_.getD (addr + i) 0 = (v >>> (8 * i)) &&& 0xFF) ∧
    (m.SetLong addr v).1.GetLong addr = v := by
  rw [Memory.SetLong_in v h h32]
  have hlen : ((((((((m.arena_.set addr ((v &&& 0xFF) % 256)).set (addr + 1) (((v >>> 8) &&& 0xFF) % 256)).set (addr + 2) (((v >>> 16) &&& 0xFF) % 256)).set (addr + 3) (((v >>> 24) &&& 0xFF) % 256)).set (addr + 4) (((v >>> 32) &&& 0xFF) % 256)).set (addr + 5) (((v >>> 40) &&& 0xFF) % 256)).set (addr + 6) (((v >>> 48) &&& 0xFF) % 256)).set (addr + 7) (((v >>> 56) &&& 0xFF) % 256)).length = m.arena_.length := by
    simp only [List.length_set]
  have b0 : ((((((((m.arena_.set addr ((v &&& 0xFF) % 256)).set (addr + 1) (((v >>> 8) &&& 0xFF) % 256)).set (addr + 2) (((v >>> 16) &&& 0xFF) % 256)).set (addr + 3) (((v >>> 24) &&& 0xFF) % 256)).set (addr + 4) (((v >>> 32) &&& 0xFF) % 256)).set (addr + 5) (((v >>> 40) &&& 0xFF) % 256)).set (addr + 6) (((v >>> 48) &&& 0xFF) % 256)).set (addr + 7) (((v >>> 56) &&& 0xFF) % 256)).getD addr 0 = v % 256 := by
    rw [getD_set_other _ (by omega), getD_set_other _ (by omega), getD_set_other _ (by omega), getD_set_other _ (by omega), getD_set_other _ (by omega), getD_set_other _ (by omega), getD_set_other _ (by omega), getD_set_self _ (by first | omega | (simp only [List.length_set]; omega)), byte_of_zero]
  have b1 : ((((((((m.arena_.set addr ((v &&& 0xFF) % 256)).set (addr + 1) (((v >>> 8) &&& 0xFF) % 256)).set (addr + 2) (((v >>> 16) &&& 0xFF) % 256)).set (addr + 3) (((v >>> 24) &&& 0xFF) % 256)).set (addr + 4) (((v >>> 32) &&& 0xFF) % 256)).set (addr + 5) (((v >>> 40) &&& 0xFF) % 256)).set (addr + 6) (((v >>> 48) &&& 0xFF) % 256)).set (addr + 7) (((v >>> 56) &&& 0xFF) % 256)).getD (addr + 1) 0 = v / 2 ^ 8 % 256 := by
    rw [getD_set_other _ (by omega), getD_set_other _ (by omega), getD_set_other _ (by omega), getD_set_other _ (by omega), getD_set_other _ (by omega), getD_set_other _ (by omega), getD_set_self _ (by first | omega | (simp only [List.length_set]; omega)), byte_of]
  have b2 : ((((((((m.arena_.set addr ((v &&& 0xFF) % 256)).set (addr + 1) (((v >>> 8) &&& 0xFF) % 256)).set (addr + 2) (((v >>> 16) &&& 0xFF) % 256)).set (addr + 3) (((v >>> 24) &&& 0xFF) % 256)).set (addr + 4) (((v >>> 32) &&& 0xFF) % 256)).set (addr + 5) (((v >>> 40) &&& 0xFF) % 256)).set (addr + 6) (((v >>> 48) &&& 0xFF) % 256)).set (addr + 7) (((v >>> 56) &&& 0xFF) % 256)).getD (addr + 2) 0 = v / 2 ^ 16 % 256 := by
    rw [getD_set_other _ (by omega), getD_set_other _ (by omega), getD_set_other _ (by omega), getD_set_other _ (by omega), getD_set_other _ (by omega), getD_set_self _ (by first | omega | (simp only [List.length_set]; omega)), byte_of]
  have b3 : ((((((((m.arena_.set addr ((v &&& 0xFF) % 256)).set (addr + 1) (((v >>> 8) &&& 0xFF) % 256)).set (addr + 2) (((v >>> 16) &&& 0xFF) % 256)).set (addr + 3) (((v >>> 24) &&& 0xFF) % 256)).set (addr + 4) (((v >>> 32) &&& 0xFF) % 256)).set (addr + 5) (((v >>> 40) &&& 0xFF) % 256)).set (addr + 6) (((v >>> 48) &&& 0xFF) % 256)).set (addr + 7) (((v >>> 56) &&& 0xFF) % 256)).getD (addr + 3) 0 = v / 2 ^ 24 % 256 := by
    rw [getD_set_other _ (by omega), getD_set_other _ (by omega), getD_set_other _ (by omega), getD_set_other _ (by omega), getD_set_self _ (by first | omega | (simp only [List.length_set]; omega)), byte_of]
  have b4 : ((((((((m.arena_.set addr ((v &&& 0xFF) % 256)).set (addr + 1) (((v >>> 8) &&& 0xFF) % 256)).set (addr + 2) (((v >>> 16) &&& 0xFF) % 256)).set (addr + 3) (((v >>> 24) &&& 0xFF) % 256)).set (addr + 4) (((v >>> 32) &&& 0xFF) % 256)).set (addr + 5) (((v >>> 40) &&& 0xFF) % 256)).set (addr + 6) (((v >>> 48) &&& 0xFF) % 256)).set (addr + 7) (((v >>> 56) &&& 0xFF) % 256)).getD (addr + 4) 0 = v / 2 ^ 32 % 256 := by
    rw [getD_set_other _ (by omega), getD_set_other _ (by omega), getD_set_other _ (by omega), getD_set_self _ (by first | omega | (simp only [List.length_set]; omega)), byte_of]
  have b5 : ((((((((m.arena_.set addr ((v &&& 0xFF) % 256)).set (addr + 1) (((v >>> 8) &&& 0xFF) % 256)).set (addr + 2) (((v >>> 16) &&& 0xFF) % 256)).set (addr + 3) (((v >>> 24) &&& 0xFF) % 256)).set (addr + 4) (((v >>> 32) &&& 0xFF) % 256)).set (addr + 5) (((v >>> 40) &&& 0xFF) % 256)).set (addr + 6) (((v >>> 48) &&& 0xFF) % 256)).set (addr + 7) (((v >>> 56) &&& 0xFF) % 256)).getD (addr + 5) 0 = v / 2 ^ 40 % 256 := by
    rw [getD_set_other _ (by omega), getD_set_other _ (by omega), getD_set_self _ (by first | omega | (simp only [List.length_set]; omega)), byte_of]
  have b6 : ((((((((m.arena_.set addr ((v &&& 0xFF) % 256)).set (addr + 1) (((v >>> 8) &&& 0xFF) % 256)).set (addr + 2) (((v >>> 16) &&& 0xFF) % 256)).set (addr + 3) (((v >>> 24) &&& 0xFF) % 256)).set (addr + 4) (((v >>> 32) &&& 0xFF) % 256)).set (addr + 5) (((v >>> 40) &&& 0xFF) % 256)).set (addr + 6) (((v >>> 48) &&& 0xFF) % 256)).set (addr + 7) (((v >>> 56) &&& 0xFF) % 256)).getD (addr + 6) 0 = v / 2 ^ 48 % 256 := by
    rw [getD_set_other _ (by omega), getD_set_self _ (by first | omega | (simp only [List.length_set]; omega)), byte_of]
  have b7 : ((((((((m.arena_.set addr ((v &&& 0xFF) % 256)).set (addr + 1) (((v >>> 8) &&& 0xFF) % 256)).set (addr + 2) (((v >>> 16) &&& 0xFF) % 256)).set (addr + 3) (((v >>> 24) &&& 0xFF) % 256)).set (addr + 4) (((v >>> 32) &&& 0xFF) % 256)).set (addr + 5) (((v >>> 40) &&& 0xFF) % 256)).set (addr + 6) (((v >>> 48) &&& 0xFF) % 256)).set (addr + 7) (((v >>> 56) &&& 0xFF) % 256)).getD (addr + 7) 0 = v / 2 ^ 56 % 256 := by
    rw [getD_set_self _ (by first | omega | (simp only [List.length_set]; omega)), byte_of]
  refine ⟨rfl, ?_, ?_⟩
  · intro i hi
    have hm : ∀ k, (v >>> k) &&& 0xFF = v / 2 ^ k % 256 := by
      intro k
      rw [← byte_of]
      exact (Nat.mod_eq_of_lt (Nat.lt_succ_of_le Nat.and_le_right)).symm
    interval_cases i
    · exact b0.trans (by rw [hm]; norm_num)
    · exact b1.trans (by rw [hm])
    · exact b2.trans (by rw [hm])
    · exact b3.trans (by rw [hm])
    · exact b4.trans (by rw [hm])
    · exact b5.trans (by rw [hm])
    · exact b6.trans (by rw [hm])
    · exact b7.trans (by rw [hm])
  · generalize (((((((m.arena_.set addr ((v &&& 0xFF) % 256)).set (addr + 1) (((v >>> 8) &&& 0xFF) % 256)).set (addr + 2) (((v >>> 16) &&& 0xFF) % 256)).set (addr + 3) (((v >>> 24) &&& 0xFF) % 256)).set (addr + 4) (((v >>> 32) &&& 0xFF) % 256)).set (addr + 5) (((v >>> 40) &&& 0xFF) % 256)).set (addr + 6) (((v >>> 48) &&& 0xFF) % 256)).set (addr + 7) (((v >>> 56) &&& 0xFF) % 256) = L at hlen b0 b1 b2 b3 b4 b5 b6 b7
    show (Memory.mk L).GetLong addr = v
    rw [Memory.GetLong_in _ addr (by show L.length ≤ _; omega) (by show _ ≤ L.length; omega)]
    show (L.getD addr 0 + (L.getD (addr + 1) 0 <<< 8) + (L.getD (addr + 2) 0 <<< 16) + (L.getD (addr + 3) 0 <<< 24) + (L.getD (addr + 4) 0 <<< 32) + (L.getD (addr + 5) 0 <<< 40) + (L.getD (addr + 6) 0 <<< 48) + (L.getD (addr + 7) 0 <<< 56)) % 2 ^ 64 = v
    rw [b0, b1, b2, b3, b4, b5, b6, b7]
    simp only [Nat.shiftLeft_eq]
    norm_num
    omega

/-- C30: in an arena of at most `2^32` bytes (addresses are `uint32_t`), for every width
`w` in {2, 4, 8}, every `addr` with `addr + w <= arena size` and every value `v` of `8 w`
bits: `SetShort` / `SetInt` / `SetLong` returns true and stores byte `i` of `v`,
`(v >> 8 i) & 0xFF`, at `addr + i`, and the matching `GetShort` / `GetInt` / `GetLong` at
`addr` returns `v`. -/
theorem Memory_little_endian_roundtrip (m : Memory) (addr v : Nat)
    (h32 : m.arena_.length ≤ 2 ^ 32) :
    (addr + 2 ≤ m.arena_.length → v < 2 ^ 16 →
      (m.SetShort addr v).2 = true ∧
      (∀ i, i < 2 →
        (m.SetShort addr v).1.arena_.getD (addr + i) 0 = (v >>> (8 * i)) &&& 0xFF) ∧
      (m.SetShort addr v).1.GetShort addr = v) ∧
    (addr + 4 ≤ m.arena_.length → v < 2 ^ 32 →
      (m.SetInt addr v).2 = true ∧
      (∀ i, i < 4 → (m.SetInt addr v).1.arena_.getD (addr + i) 0 = (v >>> (8 * i)) &&& 0xFF) ∧
      (m.SetInt addr v).1.GetInt addr = v) ∧
    (addr + 8 ≤ m.arena_.length → v < 2 ^ 64 →
      (m.SetLong addr v).2 = true ∧
      (∀ i, i < 8 → (m.SetLong addr v).1.arena_.getD (addr + i) 0 = (v >>> (8 * i)) &&& 0xFF) ∧
      (m.SetLong addr v).1.GetLong addr = v) :=
  ⟨fun h hv => Memory.Short_roundtrip m addr v h32 h hv,
   fun h hv => Memory.Int_roundtrip m addr v h32 h hv,
   fun h hv => Memory.Long_roundtrip m addr v h32 h hv⟩

/-- C30 witness: the value `0xBBAA` at address 1 of an arena of ten zero bytes;
`SetInt(1, 0xDDCCBBAA)` stores `AA BB CC DD` at the addresses 1 to 4. -/
theorem Memory_little_endian_roundtrip_witness :
    (exampleArena.arena_.length ≤ 2 ^ 32 ∧
      exampleArena.SetInt 1 0xDDCCBBAA =
        (Memory.mk [0, 0xAA, 0xBB, 0xCC, 0xDD, 0, 0, 0, 0, 0], true)) ∧
    ((1 + 2 ≤ exampleArena.arena_.length → 0xBBAA < 2 ^ 16 →
      (exampleArena.SetShort 1 0xBBAA).2 = true ∧
      (∀ i, i < 2 →
        (exampleArena.SetShort 1 0xBBAA).1.arena_.getD (1 + i) 0 =
          (0xBBAA >>> (8 * i)) &&& 0xFF) ∧
      (exampleArena.SetShort 1 0xBBAA).1.GetShort 1 = 0xBBAA) ∧
    (1 + 4 ≤ exampleArena.arena_.length → 0xBBAA < 2 ^ 32 →
      (exampleArena.SetInt 1 0xBBAA).2 = true ∧
      (∀ i, i < 4 →
        (exampleArena.SetInt 1 0xBBAA).1.arena_.getD (1 + i) 0 =
          (0xBBAA >>> (8 * i)) &&& 0xFF) ∧
      (exampleArena.SetInt 1 0xBBAA).1.GetInt 1 = 0xBBAA) ∧
    (1 + 8 ≤ exampleArena.arena_.length → 0xBBAA < 2 ^ 64 →
      (exampleArena.SetLong 1 0xBBAA).2 = true ∧
      (∀ i, i < 8 →
        (exampleArena.SetLong 1 0xBBAA).1.arena_.getD (1 + i) 0 =
          (0xBBAA >>> (8 * i)) &&& 0xFF) ∧
      (exampleArena.SetLong 1 0xBBAA).1.GetLong 1 = 0xBBAA)) :=
  ⟨⟨by decide, by decide⟩, Memory_little_endian_roundtrip exampleArena 1 0xBBAA (by decide)⟩

end Forwarding

namespace BranchPrediction

open TrapHandling (Regs toInt64 toUInt32 toUInt64 InstType IsBranch IsJump)

/-- The test `wait_for_data` of `Decode`, as a proposition. -/
theorem wait_for_data_iff (s : FiveStageSimulator) (rs : Int) :
    s.wait_for_data rs = true ↔
      0 < rs ∧ (rs = s.data_hazard_execute_op_dest_ ∨ rs = s.data_hazard_mem_op_dest_ ∨
        rs = s.data_hazard_wb_op_dest_) := by
  simp [FiveStageSimulator.wait_for_data, or_assoc]

/-- The operation `Decode` puts into the execute slot: the decoded operation, with the
prediction of the predictor when it is a conditional branch. -/
theorem Decode_moves (isa : Isa) (s : FiveStageSimulator) (op d : PipeOp)
    (hd : s.decode_op_ = some op) (hlen : op.pc_len = 4)
    (hdec : isa.DecodeInst op s.regs_ = some d) (he : s.execute_op_ = none)
    (hw : (s.wait_for_data d.rs1 || s.wait_for_data d.rs2) = false) :
    ∃ s', s.Decode isa = .ok s' ∧ s'.decode_op_ = none ∧
      s'.execute_op_ = some { d with
        predicted_taken := (if IsBranch d.inst_type then s.predictor_.Predict d.pc
                            else d.predicted_taken) } ∧
      s'.history_ = s.history_ ∧ s'.regs_ = s.regs_ ∧ s'.mem_op_ = s.mem_op_ ∧
      s'.wb_op_ = s.wb_op_ ∧ s'.memory_ = s.memory_ ∧ s'.predictor_ = s.predictor_ := by
  unfold FiveStageSimulator.Decode
  rw [hd]
  simp only [FiveStageSimulator.wait_for_data] at hw
  cases hb : IsBranch d.inst_type <;> cases hj : IsJump d.inst_type <;>
    cases hp : s.predictor_.Predict d.pc <;>
    simp only [hlen, ne_eq, not_true_eq_false, if_false, hdec, he, Option.isSome_none,
      Bool.false_eq_true, FiveStageSimulator.wait_for_data, hw, hb, hj, hp, if_true,
      FiveStageSimulator.PipeRecover] <;>
    exact ⟨_, rfl, rfl, rfl, rfl, rfl, rfl, rfl, rfl, rfl⟩

/-- The decode slot keeps the decoded operation when a source register is being written. -/
theorem Decode_holds (isa : Isa) (s : FiveStageSimulator) (op d : PipeOp)
    (hd : s.decode_op_ = some op) (hlen : op.pc_len = 4)
    (hdec : isa.DecodeInst op s.regs_ = some d) (he : s.execute_op_ = none)
    (hw : (s.wait_for_data d.rs1 || s.wait_for_data d.rs2) = true) :
    s.Decode isa =
      .ok { s with decode_op_ := some d,
                   history_ := { s.history_ with
                     data_hazard_count := (s.history_.data_hazard_count + 1) % 2 ^ 32 } } := by
  unfold FiveStageSimulator.Decode
  rw [hd]
  simp only [FiveStageSimulator.wait_for_data] at hw
  simp only [hlen, ne_eq, not_true_eq_false, if_false, hdec, he, Option.isSome_none,
    Bool.false_eq_true, FiveStageSimulator.wait_for_data, hw, if_true]

/-- The slots after `WriteBack`: the write-back slot is empty, the others are untouched. -/
theorem WriteBack_slots {s s' : FiveStageSimulator} (h : s.WriteBack = .ok s') :
    s'.wb_op_ = none ∧ s'.mem_op_ = s.mem_op_ ∧ s'.execute_op_ = s.execute_op_ ∧
    s'.decode_op_ = s.decode_op_ := by
  unfold FiveStageSimulator.WriteBack at h
  cases hw : s.wb_op_ with
  | none =>
    rw [hw] at h
    simp only [Except.ok.injEq] at h
    rw [← h]
    exact ⟨hw, rfl, rfl, rfl⟩
  | some op =>
    rw [hw] at h
    simp only at h
    split_ifs at h <;> simp only [Except.ok.injEq] at h <;> rw [← h] <;>
      exact ⟨rfl, rfl, rfl, rfl⟩

/-- The slots after `MemoryAccess`: the memory slot is empty, and an operation that has
arrived in the write-back slot has its `dest_reg` in `data_hazard_mem_op_dest_`. -/
theorem MemoryAccess_slots {s s' : FiveStageSimulator} (h : s.MemoryAccess = .ok s')
    (hwb : s.wb_op_ = none) :
    s'.mem_op_ = none ∧ s'.execute_op_ = s.execute_op_ ∧ s'.decode_op_ = s.decode_op_ ∧
    ∀ w, s'.wb_op_ = some w → w.dest_reg = s'.data_hazard_mem_op_dest_ := by
  unfold FiveStageSimulator.MemoryAccess at h
  cases hm : s.mem_op_ with
  | none =>
    rw [hm] at h
    simp only [Except.ok.injEq] at h
    rw [← h]
    refine ⟨hm, rfl, rfl, fun w hw => ?_⟩
    rw [hwb] at hw
    cases hw
  | some op =>
    rw [hm] at h
    simp only at h
    cases h1 : storeStep s.memory_ op with
    | error e => rw [h1] at h; cases h
    | ok memory =>
      rw [h1] at h
      simp only at h
      cases h2 : loadStep memory op with
      | error e => rw [h2] at h; cases h
      | ok out =>
        rw [h2] at h
        simp only [Except.ok.injEq] at h
        rw [← h]
        refine ⟨rfl, rfl, rfl, fun w hw => ?_⟩
        simp only [Option.some.injEq] at hw
        rw [← hw]

/-- The slots after `Execute` when the memory slot was free: the execute slot is empty, and
an operation that has arrived in the memory slot has its `dest_reg` in
`data_hazard_execute_op_dest_`. -/
theorem Execute_slots (isa : Isa) {s s' : FiveStageSimulator} (h : s.Execute isa = .ok s')
    (hm : s.mem_op_ = none) :
    s'.execute_op_ = none ∧ s'.wb_op_ = s.wb_op_ ∧
    s'.data_hazard_mem_op_dest_ = s.data_hazard_mem_op_dest_ ∧
    ∀ m, s'.mem_op_ = some m → m.dest_reg = s'.data_hazard_execute_op_dest_ := by
  unfold FiveStageSimulator.Execute at h
  cases he : s.execute_op_ with
  | none =>
    rw [he] at h
    simp only [Except.ok.injEq] at h
    rw [← h]
    refine ⟨he, rfl, rfl, fun m hm' => ?_⟩
    rw [hm] at hm'
    cases hm'
  | some op =>
    rw [he] at h
    simp only [hm, Option.isSome_none, Bool.false_eq_true, if_false] at h
    cases hx : isa.ExecuteInst op s.memory_ with
    | none => rw [hx] at h; cases h
    | some r =>
      obtain ⟨o, exit_ctrl, memory⟩ := r
      rw [hx] at h
      simp only at h
      cases exit_ctrl with
      | true => simp only [if_true] at h; cases h
      | false =>
        simp only [Bool.false_eq_true, if_false, Except.ok.injEq] at h
        rw [← h]
        refine ⟨rfl, ?_, ?_, fun m hm' => ?_⟩
        · simp only [FiveStageSimulator.PipeRecover]
          split_ifs <;> rfl
        · simp only [FiveStageSimulator.PipeRecover]
          split_ifs <;> rfl
        · simp only [Option.some.injEq] at hm'
          rw [← hm']

/-- An operation that `Decode` has put into the free execute slot is the decoding, against
the registers of that moment, of the operation in the decode slot, and none of its source
registers is in a hazard register. -/
theorem Decode_slots (isa : Isa) {s s' : FiveStageSimulator} (h : s.Decode isa = .ok s')
    (he : s.execute_op_ = none) (op : PipeOp) (hx : s'.execute_op_ = some op) :
    (∃ raw d, s.decode_op_ = some raw ∧ isa.DecodeInst raw s.regs_ = some d ∧
      op.toPipeOp = d.toPipeOp ∧ s.wait_for_data d.rs1 = false ∧
      s.wait_for_data d.rs2 = false) ∧
    s'.mem_op_ = s.mem_op_ ∧ s'.wb_op_ = s.wb_op_ ∧
    s'.data_hazard_execute_op_dest_ = s.data_hazard_execute_op_dest_ ∧
    s'.data_hazard_mem_op_dest_ = s.data_hazard_mem_op_dest_ ∧
    s'.data_hazard_wb_op_dest_ = s.data_hazard_wb_op_dest_ := by
  cases hd : s.decode_op_ with
  | none =>
    unfold FiveStageSimulator.Decode at h
    rw [hd] at h
    simp only [Except.ok.injEq] at h
    rw [← h, he] at hx
    cases hx
  | some raw =>
    by_cases hlen : raw.pc_len = 4
    · cases hdec : isa.DecodeInst raw s.regs_ with
      | none =>
        unfold FiveStageSimulator.Decode at h
        rw [hd] at h
        simp only [hlen, ne_eq, not_true_eq_false, if_false, hdec] at h
        cases h
      | some d =>
        cases hw : (s.wait_for_data d.rs1 || s.wait_for_data d.rs2) with
        | true =>
          rw [Decode_holds isa s raw d hd hlen hdec he hw] at h
          simp only [Except.ok.injEq] at h
          rw [← h] at hx
          simp only [he] at hx
          cases hx
        | false =>
          obtain ⟨t, ht, _, ht2, _, _, ht5, ht6, _, _⟩ := Decode_moves isa s raw d hd hlen hdec he hw
          rw [ht] at h
          simp only [Except.ok.injEq] at h
          subst h
          rw [ht2] at hx
          simp only [Option.some.injEq] at hx
          simp only [Bool.or_eq_false_iff] at hw
          refine ⟨⟨raw, d, rfl, hdec, ?_, hw.1, hw.2⟩, ht5, ht6, ?_⟩
          · rw [← hx]
          · unfold FiveStageSimulator.Decode at ht
            rw [hd] at ht
            simp only [FiveStageSimulator.wait_for_data] at hw
            cases hb : IsBranch d.inst_type <;> cases hj : IsJump d.inst_type <;>
              cases hp : s.predictor_.Predict d.pc <;>
              simp only [hlen, ne_eq, not_true_eq_false, if_false, hdec, he, Option.isSome_none,
                Bool.false_eq_true, FiveStageSimulator.wait_for_data, hw, hb, hj, hp, if_true,
                FiveStageSimulator.PipeRecover, Except.ok.injEq, Bool.and_false, Bool.or_self,
                Bool.and_self] at ht <;>
              rw [← ht] <;> exact ⟨rfl, rfl, rfl⟩
    · unfold FiveStageSimulator.Decode at h
      rw [hd] at h
      simp only [hlen, ne_eq, not_false_eq_true, if_true] at h
      cases h

/-- The stage `Fetch` touches the decode slot and `pc_` only. -/
theorem Fetch_slots {s s' : FiveStageSimulator} (h : s.Fetch = .ok s') :
    s'.execute_op_ = s.execute_op_ ∧ s'.mem_op_ = s.mem_op_ ∧ s'.wb_op_ = s.wb_op_ ∧
    s'.should_recover_branch_ = s.should_recover_branch_ ∧
    s'.branch_next_pc_ = s.branch_next_pc_ ∧ s'.regs_ = s.regs_ := by
  unfold FiveStageSimulator.Fetch at h
  split_ifs at h
  · simp only [Except.ok.injEq] at h; rw [← h]; exact ⟨rfl, rfl, rfl, rfl, rfl, rfl⟩
  · simp only [Except.ok.injEq] at h; rw [← h]; exact ⟨rfl, rfl, rfl, rfl, rfl, rfl⟩
  · cases hg : s.memory_.GetInt (s.pc_ % 2 ^ 32) with
    | error f => rw [hg] at h; cases h
    | ok inst =>
      rw [hg] at h
      simp only [Except.ok.injEq] at h
      rw [← h]
      exact ⟨rfl, rfl, rfl, rfl, rfl, rfl⟩

/-- One pass of the loop of `Run` that returns is the five stages after the prologue, each
returning, and the cycle counter. -/
theorem Cycle_stages (isa : Isa) {s s' : FiveStageSimulator} (h : s.Cycle isa = .ok s') :
    ∃ w m x y f, s.Prologue.WriteBack = .ok w ∧ w.MemoryAccess = .ok m ∧
      m.Execute isa = .ok x ∧ x.Decode isa = .ok y ∧ y.Fetch = .ok f ∧
      s' = { f with history_ :=
               { f.history_ with cycle_count := (f.history_.cycle_count + 1) % 2 ^ 32 } } := by
  unfold FiveStageSimulator.Cycle at h
  split_ifs at h
  split at h
  · cases h
  rename_i s1 h1
  simp only [Except.ok.injEq] at h
  unfold FiveStageSimulator.Stages at h1
  split at h1
  · cases h1
  rename_i w hw
  split at h1
  · cases h1
  rename_i s2 h2
  split at h1
  · cases h1
  rename_i s3 h3
  split at h1
  · cases h1
  rename_i s4 h4
  exact ⟨w, s2, s3, s4, s1, hw, h2, h3, h4, h1, h.symm⟩

/-- The decode slot after `Execute`: as it was, or emptied by a recovery. -/
theorem Execute_decode_op (isa : Isa) {s s' : FiveStageSimulator}
    (h : s.Execute isa = .ok s') :
    s'.decode_op_ = s.decode_op_ ∨ s'.decode_op_ = none := by
  unfold FiveStageSimulator.Execute at h
  cases he : s.execute_op_ with
  | none =>
    rw [he] at h
    simp only [Except.ok.injEq] at h
    rw [← h]
    exact Or.inl rfl
  | some op =>
    rw [he] at h
    simp only at h
    split_ifs at h
    · simp only [Except.ok.injEq] at h
      rw [← h]
      exact Or.inl rfl
    · split at h
      · cases h
      · rename_i e ex mem hex
        split_ifs at h <;> simp only [Except.ok.injEq] at h <;> rw [← h] <;>
          first
            | exact Or.inl rfl
            | exact Or.inr rfl

end BranchPrediction

namespace Forwarding

theorem Memory.GetByte_eq_getD (m : Memory) (a : Nat) : m.GetByte a = m.arena_.getD a 0 := by
  unfold Memory.GetByte Memory.AddrExist
  by_cases h : a ≥ m.arena_.length
  · simp only [h, if_true, Bool.not_false]
    rw [List.getD_eq_default _ _ h]
  · simp [h]

theorem Memory.SetByte_zero_getD (m : Memory) (addr a : Nat) :
    (m.SetByte addr 0).1.arena_.getD a 0 = if a = addr then 0 else m.arena_.getD a 0 := by
  unfold Memory.SetByte Memory.AddrExist
  by_cases h : addr ≥ m.arena_.length
  · simp only [h, if_true, Bool.not_false]
    split_ifs with ha
    · rw [ha, List.getD_eq_default _ _ h]
    · rfl
  · simp only [h, if_false, Bool.not_true, Bool.false_eq_true]
    simp only [List.getD_eq_getElem?_getD, List.getElem?_set]
    by_cases ha : a = addr
    · subst ha
      simp [Nat.lt_of_not_ge h]
    · simp [ha, Ne.symm ha]

theorem InitStackLoop_length (bound : Nat) :
    ∀ (addr : Nat) (m : Memory), (InitStackLoop bound addr m).arena_.length = m.arena_.length
  | 0, m => rfl
  | addr + 1, m => by
    unfold InitStackLoop
    split_ifs
    · rw [InitStackLoop_length bound addr, Memory.SetByte_length]
    · rfl

/-- The loop of `InitStack` zeroes the bytes at the addresses above `bound` up to `addr`. -/
theorem InitStackLoop_getD (bound : Nat) :
    ∀ (addr : Nat) (m : Memory) (a : Nat),
      (InitStackLoop bound addr m).arena_.getD a 0 =
        if bound < a ∧ a ≤ addr then 0 else m.arena_.getD a 0
  | 0, m, a => by
    unfold InitStackLoop
    rw [if_neg (by omega)]
  | addr + 1, m, a => by
    unfold InitStackLoop
    by_cases hb : addr + 1 > bound
    · rw [if_pos hb, InitStackLoop_getD bound addr, Memory.SetByte_zero_getD]
      by_cases h1 : bound < a ∧ a ≤ addr
      · rw [if_pos h1, if_pos (by omega)]
      · rw [if_neg h1]
        by_cases h2 : a = addr + 1
        · rw [if_pos h2, if_pos (by omega)]
        · rw [if_neg h2, if_neg (by omega)]
    · rw [if_neg hb, if_neg (by omega)]

theorem loadLoop_length (seg : Segment) (addr file_end bound : Nat) :
    ∀ (fuel p : Nat) (m : Memory),
      (loadLoop seg addr file_end bound fuel p m).arena_.length = m.arena_.length
  | 0, _, _ => rfl
  | fuel + 1, p, m => by
    unfold loadLoop
    by_cases hp : p < bound
    · rw [if_pos hp, loadLoop_length seg addr file_end bound fuel, Memory.SetByte_length]
    · rw [if_neg hp]

theorem loadSegments_length :
    ∀ (segs : List Segment) (m m' : Memory), loadSegments segs m = some m' →
      m'.arena_.length = m.arena_.length
  | [], m, m', h => by
    unfold loadSegments at h
    cases h
    rfl
  | seg :: segs, m, m', h => by
    unfold loadSegments at h
    cases hs : loadSegment seg m with
    | none => rw [hs] at h; cases h
    | some m1 =>
      rw [hs] at h
      simp only at h
      rw [loadSegments_length segs m1 m' h]
      unfold loadSegment at hs
      simp only at hs
      split_ifs at hs
      simp only [Option.some.injEq] at hs
      rw [← hs, loadLoop_length]

/-- C31 (counterexample): with `memory_size = 200` and a loaded file that fills the
addresses 190..199 with `0xFF`, the constructor returns with SP (`x2`) = 198, which is the
bottom and not the top of [198, 200); the bytes it zeroes for the stack are those at 197 and
198 (the byte at 199, in the top 1%, keeps `0xFF`); and the stack-overflow test of `Run`
accepts SP = 196, two bytes below [198, 200), and rejects 195. -/
theorem stack_is_not_top_of_memory :
    (FiveStageSimulator.new exampleOptions exampleElf).map
      (fun s => (s.regs_ 2, s.stack_base_, s.stack_size_, s.memory_.arena_.drop 190,
        ({ s with regs_ := fun i => if i = 2 then 196 else s.regs_ i }).stackOverflow,
        ({ s with regs_ := fun i => if i = 2 then 195 else s.regs_ i }).stackOverflow)) =
    some (198, 198, 2, [255, 255, 255, 255, 255, 255, 255, 0, 0, 255], false, true) := by
  decide!

/-- C31 (amended): when the constructor returns for `memory_size = M` (a `uint32_t`), the
memory has `M` bytes, `pc_` is the entry point, `stack_size_ = M / 100`,
`stack_base_ = M - M / 100`, SP (`x2`) is `stack_base_` and every other register is 0; the
bytes at the addresses `a` with `M - 2 * (M / 100) < a ≤ M - M / 100` are zero and every
other byte is as `LoadElfToMemory` left it; and the stack-overflow test of `Run` rejects
exactly the values of SP below `M - 2 * (M / 100)`. The stack is the `M / 100` bytes that end
at `M - M / 100`, below the top 1% of the memory, and SP starts at its upper end. -/
theorem stack_is_below_top_of_memory (opts : Options) (elf_reader : ElfReader)
    (s : FiveStageSimulator) (hM : opts.memory_size < 2 ^ 32)
    (h : FiveStageSimulator.new opts elf_reader = some s) :
    ∃ loaded, elf_reader.LoadElfToMemory (Memory.new opts.memory_size) = some loaded ∧
      s.memory_.arena_.length = opts.memory_size ∧
      s.pc_ = elf_reader.entry ∧
      s.stack_size_ = opts.memory_size / 100 ∧
      s.stack_base_ = opts.memory_size - opts.memory_size / 100 ∧
      s.regs_ 2 = opts.memory_size - opts.memory_size / 100 ∧
      (∀ i, i ≠ 2 → s.regs_ i = 0) ∧
      (∀ a, s.memory_.GetByte a =
        if opts.memory_size - 2 * (opts.memory_size / 100) < a ∧
            a ≤ opts.memory_size - opts.memory_size / 100 then 0
        else loaded.GetByte a) ∧
      (∀ sp, ({ s with regs_ := fun i => if i = 2 then sp else s.regs_ i }).stackOverflow = true ↔
        sp < opts.memory_size - 2 * (opts.memory_size / 100)) := by
  unfold FiveStageSimulator.new at h
  cases hl : elf_reader.LoadElfToMemory (Memory.new opts.memory_size) with
  | none => rw [hl] at h; cases h
  | some loaded =>
    rw [hl] at h
    simp only [Option.some.injEq] at h
    have hlen : loaded.arena_.length = opts.memory_size := by
      unfold ElfReader.LoadElfToMemory at hl
      rw [loadSegments_length _ _ _ hl]
      exact List.length_replicate _ _
    have hbound : (opts.memory_size - opts.memory_size / 100 + 2 ^ 32 -
        opts.memory_size / 100) % 2 ^ 32 = opts.memory_size - 2 * (opts.memory_size / 100) := by
      omega
    refine ⟨loaded, rfl, ?_, ?_, ?_, ?_, ?_, ?_, ?_, ?_⟩
    · rw [← h]
      show (InitStackLoop _ _ loaded).arena_.length = _
      rw [InitStackLoop_length, hlen]
    · rw [← h]; rfl
    · rw [← h]; rfl
    · rw [← h]; rfl
    · rw [← h]; rfl
    · intro i hi
      rw [← h]
      show (if i = 2 then _ else 0) = 0
      rw [if_neg hi]
    · intro a
      rw [← h]
      show (InitStackLoop _ _ loaded).GetByte a = _
      rw [Memory.GetByte_eq_getD, Memory.GetByte_eq_getD, InitStackLoop_getD, hbound]
    · intro sp
      rw [← h]
      unfold FiveStageSimulator.stackOverflow
      show decide (sp < (opts.memory_size - opts.memory_size / 100 + 2 ^ 32 -
        opts.memory_size / 100) % 2 ^ 32) = true ↔ _
      rw [hbound, decide_eq_true_iff]

set_option maxRecDepth 100000 in
/-- The constructor on `exampleOptions` and `exampleElf`. -/
theorem FiveStageSimulator.new_example :
    FiveStageSimulator.new exampleOptions exampleElf = some exampleConstructed := by
  rfl

/-- C31 witness: the constructor on `exampleOptions` (200 bytes) and `exampleElf` builds
`exampleConstructed`: SP = 198, the bytes at 197 and 198 are zeroed, the byte at 199 is
not. -/
theorem stack_is_below_top_of_memory_witness :
    exampleOptions.memory_size < 2 ^ 32 ∧
    FiveStageSimulator.new exampleOptions exampleElf = some exampleConstructed ∧
    ∃ loaded, exampleElf.LoadElfToMemory (Memory.new exampleOptions.memory_size) = some loaded ∧
      exampleConstructed.memory_.arena_.length = exampleOptions.memory_size ∧
      exampleConstructed.pc_ = exampleElf.entry ∧
      exampleConstructed.stack_size_ = exampleOptions.memory_size / 100 ∧
      exampleConstructed.stack_base_ =
        exampleOptions.memory_size - exampleOptions.memory_size / 100 ∧
      exampleConstructed.regs_ 2 =
        exampleOptions.memory_size - exampleOptions.memory_size / 100 ∧
      (∀ i, i ≠ 2 → exampleConstructed.regs_ i = 0) ∧
      (∀ a, exampleConstructed.memory_.GetByte a =
        if exampleOptions.memory_size - 2 * (exampleOptions.memory_size / 100) < a ∧
            a ≤ exampleOptions.memory_size - exampleOptions.memory_size / 100 then 0
        else loaded.GetByte a) ∧
      (∀ sp, ({ exampleConstructed with
                regs_ := fun i => if i = 2 then sp else exampleConstructed.regs_ i
              }).stackOverflow = true ↔
        sp < exampleOptions.memory_size - 2 * (exampleOptions.memory_size / 100)) :=
  ⟨by decide, FiveStageSimulator.new_example,
   stack_is_below_top_of_memory exampleOptions exampleElf exampleConstructed (by decide)
     FiveStageSimulator.new_example⟩

end Forwarding

namespace BranchPrediction

open TrapHandling (Regs toInt64 toUInt32 toUInt64 InstType IsBranch IsJump)

/-- C32: let a pass of the loop of `Run` return, let `op` be in the execute slot when it
begins, let `w` and `m` be the states after its `WriteBack` and `MemoryAccess`, and let the
executor return `e` on `op` without asking for the exit. If `e` is a conditional branch whose
prediction differs from the outcome, or is a jump, then `Execute` calls `PipeRecover` and
empties the decode slot, `Decode` of the same pass returns at once without a change, and at
the end of the pass `should_recover_branch_` is set and `branch_next_pc_` is the target
that `Execute` passed (a `uint32_t`): for a branch `jump_pc` if taken and `pc + 4` if not,
for a jump `jump_pc`. -/
theorem Execute_recovery_stands (isa : Isa) (s s' w m : FiveStageSimulator) (op e : PipeOp)
    (memory : MemoryManager) (hc : s.Cycle isa = .ok s')
    (hw : s.Prologue.WriteBack = .ok w) (hm : w.MemoryAccess = .ok m)
    (hx : s.execute_op_ = some op)
    (he : isa.ExecuteInst op m.memory_ = some (e, false, memory))
    (hr : (IsBranch e.inst_type = true ∧ e.predicted_taken ≠ e.branch) ∨
          (IsBranch e.inst_type = false ∧ IsJump e.inst_type = true)) :
    (∃ x, m.Execute isa = .ok x ∧ x.decode_op_ = none ∧ x.Decode isa = .ok x ∧
      x.should_recover_branch_ = true ∧ x.branch_next_pc_ = s'.branch_next_pc_) ∧
    s'.should_recover_branch_ = true ∧
    s'.branch_next_pc_ =
      (if IsBranch e.inst_type then (if e.branch then e.jump_pc else (e.pc + 4) % 2 ^ 64)
       else e.jump_pc) % 2 ^ 32 := by
  obtain ⟨w', m', x, y, f, hw', hm', hex, hy, hf, rfl⟩ := Cycle_stages isa hc
  rw [hw] at hw'
  cases hw'
  rw [hm] at hm'
  cases hm'
  obtain ⟨-, -, -, f4, f5, -⟩ := Fetch_slots hf
  obtain ⟨w1, -, w3, -⟩ := WriteBack_slots hw
  obtain ⟨m1, m2, -, -⟩ := MemoryAccess_slots hm w1
  have hp : s.Prologue.execute_op_ = s.execute_op_ := by
    unfold FiveStageSimulator.Prologue
    split_ifs <;> rfl
  have hxm : m.execute_op_ = some op := by rw [m2, w3, hp, hx]
  have hx2 : x.decode_op_ = none ∧ x.should_recover_branch_ = true ∧
      x.branch_next_pc_ =
        (if IsBranch e.inst_type then (if e.branch then e.jump_pc else (e.pc + 4) % 2 ^ 64)
         else e.jump_pc) % 2 ^ 32 := by
    unfold FiveStageSimulator.Execute at hex
    rw [hxm] at hex
    simp only [m1, Option.isSome_none, Bool.false_eq_true, if_false, he] at hex
    rcases hr with ⟨hb, hne⟩ | ⟨hb, hj⟩
    · simp only [hb, if_true, hne, ne_eq, not_false_eq_true, Except.ok.injEq,
        FiveStageSimulator.PipeRecover] at hex
      rw [← hex]
      simp only [hb, if_true]
      exact ⟨trivial, trivial, trivial⟩
    · simp only [hb, Bool.false_eq_true, if_false, hj, if_true, Except.ok.injEq,
        FiveStageSimulator.PipeRecover] at hex
      rw [← hex]
      simp only [hb, Bool.false_eq_true, if_false]
      exact ⟨trivial, trivial, trivial⟩
  obtain ⟨x1, x2, x3⟩ := hx2
  have hyx : x.Decode isa = .ok x := by
    unfold FiveStageSimulator.Decode
    rw [x1]
  have hxy : y = x := by
    rw [hyx] at hy
    injection hy with hy
    exact hy.symm
  rw [hxy] at f4 f5
  change _ ∧ f.should_recover_branch_ = true ∧ f.branch_next_pc_ = _
  rw [f4, f5]
  exact ⟨⟨x, hex, x1, hyx, x2, rfl⟩, x2, x3⟩

/-- The pass of the loop of `Run` on `exampleBranch`, for an executor that finds the branch
not taken. -/
theorem exampleBranch_Cycle_of (isa : Isa)
    (hexe : isa.ExecuteInst exampleBranchOp exampleBranchMemory =
      some ({ exampleBranchOp with jump_pc := 4 }, false, exampleBranchMemory)) :
    exampleBranch.Cycle isa = .ok exampleBranchAfter := by
  have hx : exampleBranch.Prologue.Execute isa =
      .ok { exampleBranchAfter with
              history_ := { inst_count := 1, control_hazard_count := 2 } } := by
    unfold FiveStageSimulator.Execute
    have hp : exampleBranch.Prologue.execute_op_ = some exampleBranchOp := rfl
    have hm : exampleBranch.Prologue.memory_ = exampleBranchMemory := rfl
    have hmo : exampleBranch.Prologue.mem_op_ = none := rfl
    rw [hp]
    simp only [hmo, Option.isSome_none, Bool.false_eq_true, if_false, hm, hexe]
    rfl
  unfold FiveStageSimulator.Cycle
  rw [if_neg (by decide), if_neg (by decide)]
  have hst : exampleBranch.Prologue.Stages isa =
      .ok { exampleBranchAfter with
              history_ := { inst_count := 1, control_hazard_count := 2 } } := by
    unfold FiveStageSimulator.Stages
    have h1 : exampleBranch.Prologue.WriteBack = .ok exampleBranch.Prologue := rfl
    have h2 : exampleBranch.Prologue.MemoryAccess = .ok exampleBranch.Prologue := rfl
    simp only [h1, h2, hx]
    rfl
  rw [hst]
  rfl

/-- C32 witness: the pass on `exampleBranch` (`beq x0, x5, 16` at `pc = 0` with `x5 = 7`,
predicted taken) returns `exampleBranchAfter`: the recovery is scheduled to `pc + 4 = 4`. -/
theorem Execute_recovery_stands_witness :
    exampleBranch.Cycle exampleIsa = .ok exampleBranchAfter ∧
    exampleBranchAfter.should_recover_branch_ = true ∧
    exampleBranchAfter.branch_next_pc_ = 4 :=
  have h : exampleBranch.Cycle exampleIsa = .ok exampleBranchAfter :=
    exampleBranch_Cycle_of exampleIsa exampleIsa_ExecuteInst_exampleBranchOp
  ⟨h, (Execute_recovery_stands exampleIsa exampleBranch exampleBranchAfter
    exampleBranch.Prologue exampleBranch.Prologue exampleBranchOp
    { exampleBranchOp with jump_pc := 4 } exampleBranchMemory h rfl rfl rfl
    exampleIsa_ExecuteInst_exampleBranchOp (Or.inl ⟨rfl, by decide⟩)).2⟩

end BranchPrediction

namespace BranchPrediction

open TrapHandling (Regs toInt64 toUInt32 toUInt64 InstType IsBranch IsJump)

/-- C33: let `Decode` be called with an operation in the decode slot (a 4-byte instruction
that `DecodeInst` decodes to `d`) and an empty execute slot, and call "hazard" that `rs1 > 0`
equals one of the three shadow registers `data_hazard_execute_op_dest_`,
`data_hazard_mem_op_dest_`, `data_hazard_wb_op_dest_`, or `rs2 > 0` does. `Decode` returns.
With a hazard the decoded operation is held in the decode slot, the execute slot stays empty
and `data_hazard_count` is one more (a `uint32_t`); without a hazard the decode slot is
emptied, the operation is in the execute slot (with its prediction bit, if it is a branch)
and the counter keeps its value. -/
theorem Decode_stalls_iff_data_hazard (isa : Isa) (s : FiveStageSimulator) (op d : PipeOp)
    (hd : s.decode_op_ = some op) (hlen : op.pc_len = 4)
    (hdec : isa.DecodeInst op s.regs_ = some d) (he : s.execute_op_ = none) :
    ∃ s', s.Decode isa = .ok s' ∧
      (((0 < d.rs1 ∧ (d.rs1 = s.data_hazard_execute_op_dest_ ∨
            d.rs1 = s.data_hazard_mem_op_dest_ ∨ d.rs1 = s.data_hazard_wb_op_dest_)) ∨
        (0 < d.rs2 ∧ (d.rs2 = s.data_hazard_execute_op_dest_ ∨
            d.rs2 = s.data_hazard_mem_op_dest_ ∨ d.rs2 = s.data_hazard_wb_op_dest_))) →
        s'.decode_op_ = some d ∧ s'.execute_op_ = none ∧
        s'.history_.data_hazard_count = (s.history_.data_hazard_count + 1) % 2 ^ 32) ∧
      (¬ ((0 < d.rs1 ∧ (d.rs1 = s.data_hazard_execute_op_dest_ ∨
            d.rs1 = s.data_hazard_mem_op_dest_ ∨ d.rs1 = s.data_hazard_wb_op_dest_)) ∨
        (0 < d.rs2 ∧ (d.rs2 = s.data_hazard_execute_op_dest_ ∨
            d.rs2 = s.data_hazard_mem_op_dest_ ∨ d.rs2 = s.data_hazard_wb_op_dest_))) →
        s'.decode_op_ = none ∧
        s'.execute_op_ = some { d with
          predicted_taken := (if IsBranch d.inst_type then s.predictor_.Predict d.pc
                              else d.predicted_taken) } ∧
        s'.history_.data_hazard_count = s.history_.data_hazard_count) := by
  cases hw : (s.wait_for_data d.rs1 || s.wait_for_data d.rs2)
  · obtain ⟨s', h1, h2, h3, h4, -⟩ := Decode_moves isa s op d hd hlen hdec he hw
    have hn : ¬ ((0 < d.rs1 ∧ (d.rs1 = s.data_hazard_execute_op_dest_ ∨
            d.rs1 = s.data_hazard_mem_op_dest_ ∨ d.rs1 = s.data_hazard_wb_op_dest_)) ∨
        (0 < d.rs2 ∧ (d.rs2 = s.data_hazard_execute_op_dest_ ∨
            d.rs2 = s.data_hazard_mem_op_dest_ ∨ d.rs2 = s.data_hazard_wb_op_dest_))) := by
      rw [← wait_for_data_iff, ← wait_for_data_iff, ← Bool.or_eq_true, hw]
      exact Bool.false_ne_true
    exact ⟨s', h1, fun hh => absurd hh hn, fun _ => ⟨h2, h3, by rw [h4]⟩⟩
  · have hh : (0 < d.rs1 ∧ (d.rs1 = s.data_hazard_execute_op_dest_ ∨
            d.rs1 = s.data_hazard_mem_op_dest_ ∨ d.rs1 = s.data_hazard_wb_op_dest_)) ∨
        (0 < d.rs2 ∧ (d.rs2 = s.data_hazard_execute_op_dest_ ∨
            d.rs2 = s.data_hazard_mem_op_dest_ ∨ d.rs2 = s.data_hazard_wb_op_dest_)) := by
      rw [← wait_for_data_iff, ← wait_for_data_iff, ← Bool.or_eq_true, hw]
    exact ⟨_, Decode_holds isa s op d hd hlen hdec he hw,
      fun _ => ⟨rfl, he, rfl⟩, fun hn => absurd hh hn⟩

/-- The stand-in decoder on the fetched `add x7, x5, x0` of the examples. -/
theorem exampleIsa_DecodeInst_exampleFetchedAdd :
    exampleIsa.DecodeInst exampleFetchedAdd exampleLwAdd.regs_ = some exampleDecodedAdd :=
  trapIsa_DecodeInst_ADD 0 {} 4 4 InstType.UNKNOWN (-1) (-1) 0 0 (-1) 0 0 false false false 0
    false 0 false exampleLwAdd.regs_

/-- C33 witness: `add x7, x5, x0` in the decode slot. On `exampleHazard` the execute shadow
register is 5 = `rs1`: the add is held and the count goes from 0 to 1. On `exampleNoHazard`
the shadow register is 6: the add moves to the execute slot and the count stays 0. -/
theorem Decode_stalls_iff_data_hazard_witness :
    (∃ s', exampleHazard.Decode exampleIsa = .ok s' ∧ s'.decode_op_ = some exampleDecodedAdd ∧
      s'.execute_op_ = none ∧ s'.history_.data_hazard_count = 1) ∧
    (∃ s', exampleNoHazard.Decode exampleIsa = .ok s' ∧ s'.decode_op_ = none ∧
      s'.execute_op_ = some exampleDecodedAdd ∧ s'.history_.data_hazard_count = 0) :=
  ⟨(Decode_stalls_iff_data_hazard exampleIsa exampleHazard exampleFetchedAdd exampleDecodedAdd
      rfl rfl exampleIsa_DecodeInst_exampleFetchedAdd rfl).imp
      (fun _ h => ⟨h.1, h.2.1 (by decide)⟩),
   (Decode_stalls_iff_data_hazard exampleIsa exampleNoHazard exampleFetchedAdd
      exampleDecodedAdd rfl rfl exampleIsa_DecodeInst_exampleFetchedAdd rfl).imp
      (fun _ h => ⟨h.1, h.2.2 (by decide)⟩)⟩

end BranchPrediction

namespace MultilevelCache

theorem u32_lt (n : Nat) : u32 n < 2 ^ 32 := Nat.mod_lt _ (by norm_num)

theorem u32_add_u32 (a b c : Nat) : u32 (u32 (a + b) + c) = u32 (a + u32 (b + c)) := by
  unfold u32
  omega

theorem shiftRead_ok_lt {r : Except Fault (TieredCache × List Nat × Nat)}
    {c : TieredCache} {out : List Nat} {d : Nat}
    (h0 : r = shiftRead 0 r) (h : r = .ok (c, out, d)) : d < 2 ^ 32 := by
  rw [h] at h0
  simp only [shiftRead, Except.ok.injEq, Prod.mk.injEq, true_and, zero_add] at h0
  rw [h0]
  exact u32_lt d

theorem shiftWrite_ok_lt {r : Except Fault (TieredCache × Nat)}
    {c : TieredCache} {d : Nat}
    (h0 : r = shiftWrite 0 r) (h : r = .ok (c, d)) : d < 2 ^ 32 := by
  rw [h] at h0
  simp only [shiftWrite, Except.ok.injEq, Prod.mk.injEq, true_and, zero_add] at h0
  rw [h0]
  exact u32_lt d

/-- `ReadFromMemory` entered with latency `lat` adds what it adds when entered with 0. -/
theorem ReadFromMemory_shift (c : TieredCache) (a len lat : Nat) (hlat : lat < 2 ^ 32) :
    (match ReadFromMemory c a len lat with
     | .error e => .error e
     | .ok (out, latency4) => .ok (c, out, latency4)) =
    shiftRead lat (match ReadFromMemory c a len 0 with
                   | .error e => .error e
                   | .ok (out, latency4) => .ok (c, out, latency4)) := by
  unfold ReadFromMemory
  cases c.main_memory_.ReadSpan (u32 a) len with
  | error e => rfl
  | ok out =>
    simp only [shiftRead]
    split_ifs
    · simp only [zero_add, Except.ok.injEq, Prod.mk.injEq, true_and]
      unfold u32
      omega
    · simp only [add_zero, Except.ok.injEq, Prod.mk.injEq, true_and]
      unfold u32
      omega

theorem ReadFromMemory_ok_shift {c : TieredCache} {a len : Nat} {out : List Nat} {d : Nat}
    (lat : Nat) (hlat : lat < 2 ^ 32) (h : ReadFromMemory c a len 0 = .ok (out, d)) :
    ReadFromMemory c a len lat = .ok (out, u32 (lat + d)) := by
  unfold ReadFromMemory at h ⊢
  cases hm : c.main_memory_.ReadSpan (u32 a) len with
  | error e => rw [hm] at h; cases h
  | ok o =>
    rw [hm] at h
    simp only [Except.ok.injEq, Prod.mk.injEq] at h ⊢
    obtain ⟨rfl, hd⟩ := h
    refine ⟨rfl, ?_⟩
    rw [← hd]
    split_ifs
    · unfold u32
      omega
    · unfold u32
      omega

theorem ReadFromMemory_error_shift {c : TieredCache} {a len : Nat} {e : Fault}
    (lat : Nat) (h : ReadFromMemory c a len 0 = .error e) :
    ReadFromMemory c a len lat = .error e := by
  unfold ReadFromMemory at h ⊢
  cases hm : c.main_memory_.ReadSpan (u32 a) len with
  | error e' => rw [hm] at h; exact h
  | ok o => rw [hm] at h; cases h

/-- `WriteToMemory` entered with latency `lat` adds what it adds when entered with 0. -/
theorem WriteToMemory_shift (c : TieredCache) (a : Nat) (inp : List Nat) (lat : Nat)
    (hlat : lat < 2 ^ 32) :
    WriteToMemory c a inp lat = shiftWrite lat (WriteToMemory c a inp 0) := by
  unfold WriteToMemory
  cases c.main_memory_.WriteSpan (u32 a) inp with
  | error e => rfl
  | ok m =>
    simp only [shiftWrite]
    split_ifs
    · simp only [zero_add, Except.ok.injEq, Prod.mk.injEq, true_and]
      unfold u32
      omega
    · simp only [add_zero, Except.ok.injEq, Prod.mk.injEq, true_and]
      unfold u32
      omega

theorem shiftRead_shiftRead (x y : Nat) (r : Except Fault (TieredCache × List Nat × Nat)) :
    shiftRead x (shiftRead y r) = shiftRead (u32 (x + y)) r := by
  cases r with
  | error e => rfl
  | ok r =>
    obtain ⟨c, out, d⟩ := r
    simp only [shiftRead, Except.ok.injEq, Prod.mk.injEq, true_and]
    unfold u32
    omega

theorem shiftWrite_shiftWrite (x y : Nat) (r : Except Fault (TieredCache × Nat)) :
    shiftWrite x (shiftWrite y r) = shiftWrite (u32 (x + y)) r := by
  cases r with
  | error e => rfl
  | ok r =>
    obtain ⟨c, d⟩ := r
    simp only [shiftWrite, Except.ok.injEq, Prod.mk.injEq, true_and]
    unfold u32
    omega

theorem shiftRead_congr {x y : Nat} (h : u32 x = u32 y)
    (r : Except Fault (TieredCache × List Nat × Nat)) : shiftRead x r = shiftRead y r := by
  cases r with
  | error e => rfl
  | ok r =>
    obtain ⟨c, out, d⟩ := r
    simp only [shiftRead, Except.ok.injEq, Prod.mk.injEq, true_and]
    unfold u32 at h ⊢
    omega

theorem shiftWrite_congr {x y : Nat} (h : u32 x = u32 y)
    (r : Except Fault (TieredCache × Nat)) : shiftWrite x r = shiftWrite y r := by
  cases r with
  | error e => rfl
  | ok r =>
    obtain ⟨c, d⟩ := r
    simp only [shiftWrite, Except.ok.injEq, Prod.mk.injEq, true_and]
    unfold u32 at h ⊢
    omega

/-- The latency is threaded through the calls: a call entered with latency `lat` returns the
state and bytes of the call entered with 0, and `lat` more latency (a `uint32_t`). -/
theorem latency_shift : ∀ fuel : Nat,
    (∀ c i a len lat wa, lat < 2 ^ 32 →
      HandleRead fuel c i a len lat wa = shiftRead lat (HandleRead fuel c i a len 0 wa)) ∧
    (∀ c i a inp lat, lat < 2 ^ 32 →
      HandleWrite fuel c i a inp lat = shiftWrite lat (HandleWrite fuel c i a inp 0)) ∧
    (∀ c i v a lat, lat < 2 ^ 32 →
      Evict fuel c i v a lat = shiftWrite lat (Evict fuel c i v a 0)) := by
  intro fuel
  induction fuel with
  | zero =>
    refine ⟨?_, ?_, ?_⟩ <;> intros <;>
      simp [HandleRead, HandleWrite, Evict, shiftRead, shiftWrite]
  | succ fuel ih =>
    obtain ⟨ihR, ihW, ihE⟩ := ih
    refine ⟨?_, ?_, ?_⟩
    · intro c i a len lat wa hlat
      rw [HandleRead, HandleRead]
      cases hl : c.levels_[i]? with
      | none => rfl
      | some level =>
        simp only
        by_cases hs : len > level.config_.line_size - level.GetOffset a
        · rw [if_pos hs, if_pos hs]
          rw [ihR c i a _ lat wa hlat]
          have h0 := ihR c i a (level.config_.line_size - level.GetOffset a) 0 wa (by norm_num)
          cases hX : HandleRead fuel c i a (level.config_.line_size - level.GetOffset a) 0 wa with
          | error e => rfl
          | ok r =>
            obtain ⟨c1, out1, d1⟩ := r
            have hd1 : d1 < 2 ^ 32 := shiftRead_ok_lt h0 hX
            simp only [shiftRead]
            rw [ihR c1 i _ _ (u32 (lat + d1)) wa (u32_lt _), ihR c1 i _ _ d1 wa hd1]
            cases HandleRead fuel c1 i
                (u64 (a + (level.config_.line_size - level.GetOffset a)))
                (len - (level.config_.line_size - level.GetOffset a)) 0 wa with
            | error e => rfl
            | ok r2 =>
              obtain ⟨c2, out2, d2⟩ := r2
              simp only [shiftRead, Except.ok.injEq, Prod.mk.injEq, true_and]
              unfold u32
              omega
        · rw [if_neg hs, if_neg hs]
          cases hf : level.Find a with
          | some way =>
            simp only [shiftRead, Except.ok.injEq, Prod.mk.injEq, true_and, zero_add]
            unfold u32
            omega
          | none =>
            simp only
            generalize ((c.countAccess i).countMiss i).Allocate level i a = A
            obtain ⟨c1, victim, new_line⟩ := A
            simp only
            split
            · rfl
            · rename_i c2 hB
              have tail : ∀ (c3 : TieredCache) (xL xR : Nat), xL < 2 ^ 32 → xR < 2 ^ 32 →
                  xL = u32 (lat + xR) →
                  (match
                      (if i + 1 < c3.levels_.length then
                        HandleRead fuel c3 (i + 1)
                          (level.GetAddr (level.GetTag a) (level.GetIndex a))
                          level.config_.line_size xL wa
                      else
                        match
                          ReadFromMemory c3 (level.GetAddr (level.GetTag a) (level.GetIndex a))
                            level.config_.line_size xL with
                        | Except.error e => Except.error e
                        | Except.ok (out, latency4) => Except.ok (c3, out, latency4)) with
                    | Except.error e => Except.error e
                    | Except.ok (c4, line_buffer, latency4) =>
                      Except.ok
                        ((c4.install new_line (level.GetTag a) line_buffer).exclusiveAfterRead i
                            (level.GetAddr (level.GetTag a) (level.GetIndex a)) wa,
                          ((c4.install new_line (level.GetTag a) line_buffer).exclusiveAfterRead i
                                (level.GetAddr (level.GetTag a) (level.GetIndex a)) wa).load
                            new_line (level.GetOffset a) len,
                          latency4)) =
                  shiftRead lat
                    (match
                      (if i + 1 < c3.levels_.length then
                        HandleRead fuel c3 (i + 1)
                          (level.GetAddr (level.GetTag a) (level.GetIndex a))
                          level.config_.line_size xR wa
                      else
                        match
                          ReadFromMemory c3 (level.GetAddr (level.GetTag a) (level.GetIndex a))
                            level.config_.line_size xR with
                        | Except.error e => Except.error e
                        | Except.ok (out, latency4) => Except.ok (c3, out, latency4)) with
                    | Except.error e => Except.error e
                    | Except.ok (c4, line_buffer, latency4) =>
                      Except.ok
                        ((c4.install new_line (level.GetTag a) line_buffer).exclusiveAfterRead i
                            (level.GetAddr (level.GetTag a) (level.GetIndex a)) wa,
                          ((c4.install new_line (level.GetTag a) line_buffer).exclusiveAfterRead i
                                (level.GetAddr (level.GetTag a) (level.GetIndex a)) wa).load
                            new_line (level.GetOffset a) len,
                          latency4)) := by
                intro c3 xL xR hxL hxR hx
                have hfetch : ∀ x, x < 2 ^ 32 →
                    (if i + 1 < c3.levels_.length then
                        HandleRead fuel c3 (i + 1)
                          (level.GetAddr (level.GetTag a) (level.GetIndex a))
                          level.config_.line_size x wa
                      else
                        match
                          ReadFromMemory c3 (level.GetAddr (level.GetTag a) (level.GetIndex a))
                            level.config_.line_size x with
                        | Except.error e => Except.error e
                        | Except.ok (out, latency4) => Except.ok (c3, out, latency4)) =
                    shiftRead x
                      (if i + 1 < c3.levels_.length then
                        HandleRead fuel c3 (i + 1)
                          (level.GetAddr (level.GetTag a) (level.GetIndex a))
                          level.config_.line_size 0 wa
                      else
                        match
                          ReadFromMemory c3 (level.GetAddr (level.GetTag a) (level.GetIndex a))
                            level.config_.line_size 0 with
                        | Except.error e => Except.error e
                        | Except.ok (out, latency4) => Except.ok (c3, out, latency4)) := by
                  intro x hx
                  by_cases hn : i + 1 < c3.levels_.length
                  · rw [if_pos hn, if_pos hn]
                    exact ihR _ _ _ _ _ _ hx
                  · rw [if_neg hn, if_neg hn]
                    exact ReadFromMemory_shift _ _ _ _ hx
                rw [hfetch xL hxL, hfetch xR hxR]
                generalize (if i + 1 < c3.levels_.length then
                        HandleRead fuel c3 (i + 1)
                          (level.GetAddr (level.GetTag a) (level.GetIndex a))
                          level.config_.line_size 0 wa
                      else
                        match
                          ReadFromMemory c3 (level.GetAddr (level.GetTag a) (level.GetIndex a))
                            level.config_.line_size 0 with
                        | Except.error e => Except.error e
                        | Except.ok (out, latency4) => Except.ok (c3, out, latency4)) = r
                cases r with
                | error e => rfl
                | ok r =>
                  obtain ⟨c4, buf, d⟩ := r
                  simp only [shiftRead, Except.ok.injEq, Prod.mk.injEq, true_and]
                  rw [hx]
                  unfold u32
                  omega
              cases victim with
              | none =>
                simp only
                exact tail c2 _ _ (u32_lt _) (u32_lt _) (by unfold u32; omega)
              | some v =>
                simp only
                rw [ihE c2 i _ _ (u32 (lat + level.config_.latency)) (u32_lt _),
                  ihE c2 i _ _ (u32 (0 + level.config_.latency)) (u32_lt _)]
                cases Evict fuel c2 i (LineRef.copy v)
                    (level.GetAddr v.tag (level.GetIndex a)) 0 with
                | error e => rfl
                | ok r =>
                  obtain ⟨c3, dE⟩ := r
                  simp only [shiftWrite]
                  exact tail c3 _ _ (u32_lt _) (u32_lt _) (by unfold u32; omega)
    · intro c i a inp lat hlat
      rw [HandleWrite, HandleWrite]
      cases hl : c.levels_[i]? with
      | none => rfl
      | some level =>
        simp only
        by_cases hs : inp.size > level.config_.line_size - level.GetOffset a
        · rw [if_pos hs, if_pos hs]
          rw [ihW c i a _ lat hlat]
          have h0 := ihW c i a (inp.subspan 0 (level.config_.line_size - level.GetOffset a)) 0
            (by norm_num)
          cases hX : HandleWrite fuel c i a
              (inp.subspan 0 (level.config_.line_size - level.GetOffset a)) 0 with
          | error e => rfl
          | ok r =>
            obtain ⟨c1, d1⟩ := r
            have hd1 : d1 < 2 ^ 32 := shiftWrite_ok_lt h0 hX
            simp only [shiftWrite]
            rw [ihW c1 i _ _ (u32 (lat + d1)) (u32_lt _), ihW c1 i _ _ d1 hd1]
            exact (shiftWrite_shiftWrite lat d1 _).symm
        · rw [if_neg hs, if_neg hs]
          cases hf : level.Find a with
          | some way =>
            simp only [shiftWrite, Except.ok.injEq, Prod.mk.injEq, true_and, zero_add]
            unfold u32
            omega
          | none =>
            simp only
            rw [ihR _ i a inp.size (u32 (lat + level.config_.latency)) true (u32_lt _),
              ihR _ i a inp.size (u32 (0 + level.config_.latency)) true (u32_lt _)]
            cases HandleRead fuel ((c.countAccess i).countMiss i) i a inp.size 0 true with
            | error e => rfl
            | ok r =>
              obtain ⟨c1, out, d⟩ := r
              simp only [shiftRead]
              cases c1.levels_[i]? with
              | none => rfl
              | some level1 =>
                simp only
                cases level1.Find a with
                | none => rfl
                | some way =>
                  simp only [shiftWrite, Except.ok.injEq, Prod.mk.injEq, true_and]
                  unfold u32
                  omega
    · intro c i v a lat hlat
      rw [Evict, Evict]
      cases hl : c.levels_[i]? with
      | none => rfl
      | some level =>
        simp only
        have hok : ∀ c' : TieredCache,
            (Except.ok (c', lat) : Except Fault (TieredCache × Nat)) =
              shiftWrite lat (.ok (c', 0)) := by
          intro c'
          simp only [shiftWrite, Except.ok.injEq, Prod.mk.injEq, true_and, add_zero]
          unfold u32
          omega
        split_ifs
        · exact ihW _ _ _ _ _ hlat
        · exact WriteToMemory_shift _ _ _ _ hlat
        · exact ihW _ _ _ _ _ hlat
        · exact hok _
        · exact hok _

end MultilevelCache

namespace MultilevelCache

theorem SameL1Counts.refl_counts (c : TieredCache) : SameL1Counts c c := ⟨rfl, rfl, rfl⟩

theorem SameL1Counts.trans_counts {a b c : TieredCache} (h1 : SameL1Counts a b)
    (h2 : SameL1Counts b c) : SameL1Counts a c :=
  ⟨h2.1.trans h1.1, h2.2.1.trans h1.2.1, h2.2.2.trans h1.2.2⟩

theorem SameL1Counts.of_statsAt_eq {c c' : TieredCache} (h : c'.statsAt 0 = c.statsAt 0) :
    SameL1Counts c c' := by
  unfold SameL1Counts
  rw [h]
  exact ⟨rfl, rfl, rfl⟩

/-- An update of a level that keeps the three counters. -/
theorem SameL1Counts.modifyLevel_counts (c : TieredCache) (i : Nat) (f : CacheLevel → CacheLevel)
    (hf : ∀ lv : CacheLevel, (f lv).stats_.accesses = lv.stats_.accesses ∧
      (f lv).stats_.hits = lv.stats_.hits ∧ (f lv).stats_.misses = lv.stats_.misses) :
    SameL1Counts c (c.modifyLevel i f) := by
  by_cases hi : i = 0
  · subst hi
    unfold SameL1Counts TieredCache.statsAt
    rw [modifyLevel_getElem?_self]
    cases c.levels_[0]? with
    | none => exact ⟨rfl, rfl, rfl⟩
    | some lv => exact hf lv
  · exact SameL1Counts.of_statsAt_eq (statsAt_congr (modifyLevel_getElem?_ne c i 0 f hi))

/-- Calls at levels `≥ 1`, `BackInvalidate` and the `Evict` it runs keep the counters
`accesses`, `hits` and `misses` of L1. -/
theorem countsFrame (pol : InclusionPolicy) : Frame pol 1 SameL1Counts where
  refl := SameL1Counts.refl_counts
  trans := SameL1Counts.trans_counts
  hit := fun c i hi => SameL1Counts.of_statsAt_eq (by
    unfold TieredCache.countHit TieredCache.countAccess
    rw [statsAt_modifyStats_ne _ i 0 _ (by omega), statsAt_modifyStats_ne _ i 0 _ (by omega)])
  miss := fun c i hi => SameL1Counts.of_statsAt_eq (by
    unfold TieredCache.countMiss TieredCache.countAccess
    rw [statsAt_modifyStats_ne _ i 0 _ (by omega), statsAt_modifyStats_ne _ i 0 _ (by omega)])
  lru := fun c p _ => SameL1Counts.of_statsAt_eq (statsAt_UpdateLRU c p 0)
  alloc := fun c level i addr _ => SameL1Counts.of_statsAt_eq (statsAt_Allocate c level i addr 0)
  line := fun c p f _ => SameL1Counts.of_statsAt_eq (statsAt_modifyLine c p f 0)
  inval := fun c p _ => SameL1Counts.of_statsAt_eq (statsAt_modifyLine c p _ 0)
  evict := fun c i _ => SameL1Counts.modifyLevel_counts c i _ (fun _ => ⟨rfl, rfl, rfl⟩)
  wb := fun c i _ => SameL1Counts.modifyLevel_counts c i _ (fun _ => ⟨rfl, rfl, rfl⟩)
  mem := fun c m => SameL1Counts.of_statsAt_eq rfl

theorem SameL1Geom.refl_g (c : TieredCache) : SameL1Geom c c :=
  fun lv h => ⟨lv, h, CacheLevel.SameGeom.refl_geom lv⟩

theorem SameL1Geom.trans_g {a b c : TieredCache} (h1 : SameL1Geom a b) (h2 : SameL1Geom b c) :
    SameL1Geom a c := by
  intro lv hlv
  obtain ⟨lv1, hlv1, s1⟩ := h1 lv hlv
  obtain ⟨lv2, hlv2, s2⟩ := h2 lv1 hlv1
  exact ⟨lv2, hlv2, s1.trans_geom s2⟩

theorem SameL1Geom.of_first_level_eq {c c' : TieredCache} (h : c'.levels_[0]? = c.levels_[0]?) :
    SameL1Geom c c' :=
  fun lv hlv => ⟨lv, by rw [h, hlv], CacheLevel.SameGeom.refl_geom lv⟩

theorem SameL1Geom.modifyLevel_g (c : TieredCache) (i : Nat) (f : CacheLevel → CacheLevel)
    (hf : ∀ lv : CacheLevel, lv.SameGeom (f lv)) : SameL1Geom c (c.modifyLevel i f) := by
  by_cases hi : i = 0
  · subst hi
    intro lv hlv
    refine ⟨f lv, ?_, hf lv⟩
    rw [modifyLevel_getElem?_self, hlv]
    rfl
  · exact SameL1Geom.of_first_level_eq (modifyLevel_getElem?_ne c i 0 f hi)

theorem CacheLevel.SameGeom.stats_geom (lv : CacheLevel) (st : CacheStats) :
    lv.SameGeom { lv with stats_ := st } := ⟨rfl, rfl, rfl, rfl⟩

/-- Every call keeps the geometry of L1. -/
theorem geomFrame (pol : InclusionPolicy) : Frame pol 0 SameL1Geom where
  refl := SameL1Geom.refl_g
  trans := SameL1Geom.trans_g
  hit := fun c i _ =>
    SameL1Geom.trans_g
      (SameL1Geom.modifyLevel_g c i _ (fun lv => CacheLevel.SameGeom.stats_geom lv _))
      (SameL1Geom.modifyLevel_g _ i _ (fun lv => CacheLevel.SameGeom.stats_geom lv _))
  miss := fun c i _ =>
    SameL1Geom.trans_g
      (SameL1Geom.modifyLevel_g c i _ (fun lv => CacheLevel.SameGeom.stats_geom lv _))
      (SameL1Geom.modifyLevel_g _ i _ (fun lv => CacheLevel.SameGeom.stats_geom lv _))
  lru := fun c p _ =>
    SameL1Geom.modifyLevel_g c p.level _ (fun lv => CacheLevel.SameGeom.UpdateLRU_geom lv _ _ _)
  alloc := fun c level i addr _ => by
    have h := SameL1Geom.modifyLevel_g c i
      (fun lv => (lv.Allocate addr c.current_cycle_ (c.rand_.headD 0)).1)
      (fun lv => CacheLevel.Allocate_SameGeom lv _ _ _)
    exact h
  line := fun c p f _ =>
    SameL1Geom.modifyLevel_g c p.level _ (fun lv => CacheLevel.SameGeom.modifyLine lv _ _ _)
  inval := fun c p _ =>
    SameL1Geom.modifyLevel_g c p.level _ (fun lv => CacheLevel.SameGeom.modifyLine lv _ _ _)
  evict := fun c i _ =>
    SameL1Geom.modifyLevel_g c i _ (fun lv => CacheLevel.SameGeom.stats_geom lv _)
  wb := fun c i _ =>
    SameL1Geom.modifyLevel_g c i _ (fun lv => CacheLevel.SameGeom.stats_geom lv _)
  mem := fun c m => SameL1Geom.of_first_level_eq rfl

end MultilevelCache

namespace MultilevelCache

theorem HandleRead_pos_SameL1Counts {fuel : Nat} {c : TieredCache} {i a len lat : Nat} {wa : Bool}
    {r : TieredCache × List Nat × Nat} (hi : 1 ≤ i)
    (h : HandleRead fuel c i a len lat wa = .ok r) : SameL1Counts c r.1 :=
  ((frame_all (countsFrame c.opts_.inclusion_policy) (Or.inl (le_refl 1)) fuel).1
    c i a len lat wa r rfl hi h).1

theorem HandleWrite_pos_SameL1Counts {fuel : Nat} {c : TieredCache} {i a lat : Nat} {inp : Span}
    {r : TieredCache × Nat} (hi : 1 ≤ i)
    (h : HandleWrite fuel c i a inp lat = .ok r) : SameL1Counts c r.1 :=
  ((frame_all (countsFrame c.opts_.inclusion_policy) (Or.inl (le_refl 1)) fuel).2.1
    c i a inp lat r rfl hi h).1

theorem HandleRead_SameL1Geom {fuel : Nat} {c : TieredCache} {i a len lat : Nat} {wa : Bool}
    {r : TieredCache × List Nat × Nat}
    (h : HandleRead fuel c i a len lat wa = .ok r) : SameL1Geom c r.1 :=
  ((frame_all (geomFrame c.opts_.inclusion_policy) (Or.inl (Nat.zero_le 1)) fuel).1
    c i a len lat wa r rfl (Nat.zero_le i) h).1

theorem HandleWrite_SameL1Geom {fuel : Nat} {c : TieredCache} {i a lat : Nat} {inp : Span}
    {r : TieredCache × Nat}
    (h : HandleWrite fuel c i a inp lat = .ok r) : SameL1Geom c r.1 :=
  ((frame_all (geomFrame c.opts_.inclusion_policy) (Or.inl (Nat.zero_le 1)) fuel).2.1
    c i a inp lat r rfl (Nat.zero_le i) h).1

/-- `Evict` at any level, under either policy, keeps the counters `accesses`, `hits` and
`misses` of L1. -/
theorem Evict_SameL1Counts {fuel : Nat} {c : TieredCache} {i : Nat} {v : LineRef} {addr lat : Nat}
    {r : TieredCache × Nat} (h : Evict fuel c i v addr lat = .ok r) : SameL1Counts c r.1 := by
  cases fuel with
  | zero => simp [Evict] at h
  | succ fuel =>
    have hstat : ∀ (c : TieredCache) (j : Nat), SameL1Counts c (c.countEviction j) :=
      fun c j => SameL1Counts.modifyLevel_counts c j _ (fun _ => ⟨rfl, rfl, rfl⟩)
    have hstat2 : ∀ (c : TieredCache) (j : Nat), SameL1Counts c (c.countWriteback j) :=
      fun c j => SameL1Counts.modifyLevel_counts c j _ (fun _ => ⟨rfl, rfl, rfl⟩)
    rw [Evict] at h
    split at h
    · cases h
    split at h
    · have f0 : SameL1Counts c ((c.countEviction i).countWriteback i) :=
        (hstat c i).trans_counts (hstat2 _ i)
      split at h
      · exact f0.trans_counts (HandleWrite_pos_SameL1Counts (by omega) h)
      · obtain ⟨m, _, hr⟩ := WriteToMemory_ok h
        rw [hr]
        exact f0.trans_counts (SameL1Counts.of_statsAt_eq rfl)
    · have f0 : SameL1Counts c (c.countEviction i) := hstat c i
      split at h
      · split at h
        · exact f0.trans_counts (HandleWrite_pos_SameL1Counts (by omega) h)
        · cases h; exact f0
      · cases h; exact f0

theorem BackInvalidate_neg {fuel : Nat} {c c' : TieredCache} {j : Int} {a : Nat} (hj : j < 0)
    (h : BackInvalidate fuel c j a = .ok c') : c' = c := by
  cases fuel with
  | zero => simp [BackInvalidate] at h
  | succ fuel =>
    rw [BackInvalidate, if_pos hj] at h
    cases h
    rfl

theorem resident_zero_iff {c : TieredCache} {l1 : CacheLevel} (hl : c.levels_[0]? = some l1)
    (a : Nat) : c.resident 0 a ↔ (l1.Find a).isSome = true := by
  unfold TieredCache.resident CacheLevel.Has
  constructor
  · rintro ⟨lv, hlv, h⟩
    rw [hl] at hlv
    cases hlv
    exact h
  · intro h
    exact ⟨l1, hl, h⟩

theorem SameL1Counts.of_count {c : TieredCache} (hlen : 0 < c.levels_.length)
    (f g : CacheStats → CacheStats) {c' : TieredCache}
    (h : SameL1Counts ((c.modifyStats 0 f).modifyStats 0 g) c') :
    (c'.statsAt 0).accesses = (g (f (c.statsAt 0))).accesses ∧
    (c'.statsAt 0).hits = (g (f (c.statsAt 0))).hits ∧
    (c'.statsAt 0).misses = (g (f (c.statsAt 0))).misses := by
  unfold SameL1Counts at h
  rw [(statsAt_count c 0 f g hlen).1] at h
  exact h

/-- One read within a line of L1: the counters of L1 and the latency it adds. -/
theorem HandleRead_L1_accounted {fuel : Nat} {c : TieredCache} {l1 : CacheLevel}
    {a len lat : Nat} {wa : Bool} {c' : TieredCache} {out : List Nat} {lat' : Nat}
    (hl : c.levels_[0]? = some l1) (hns : len ≤ l1.config_.line_size - l1.GetOffset a)
    (h : HandleRead (fuel + 1) c 0 a len lat wa = .ok (c', out, lat')) :
    ∃ charge, lat' = u32 (lat + charge) ∧ ReadAccounted fuel c c' l1.config_.latency a wa charge := by
  have hlen : 0 < c.levels_.length := by
    by_contra hc
    rw [List.getElem?_eq_none (by omega)] at hl
    cases hl
  have hres := resident_zero_iff hl a
  rw [HandleRead] at h
  simp only [hl, if_neg (Nat.not_lt.mpr hns)] at h
  cases hf : l1.Find a with
  | some way =>
    rw [hf] at h
    simp only [Except.ok.injEq, Prod.mk.injEq] at h
    obtain ⟨rfl, -, rfl⟩ := h
    have hc := SameL1Counts.of_count hlen
      (fun s => { s with accesses := u64 (s.accesses + 1) })
      (fun s => { s with hits := u64 (s.hits + 1) })
      (SameL1Counts.of_statsAt_eq (statsAt_UpdateLRU _ ⟨0, l1.GetIndex a, way⟩ 0))
    refine ⟨u32 l1.config_.latency, by unfold u32; omega, hc.1, fun _ => ⟨hc.2.1, hc.2.2, rfl⟩,
      fun hn => absurd (hres.mpr (by rw [hf]; rfl)) hn⟩
  | none =>
    rw [hf] at h
    simp only at h
    rcases hA : ((c.countAccess 0).countMiss 0).Allocate l1 0 a with ⟨c1, victim, new_line⟩
    rw [hA] at h
    simp only at h
    split at h
    · cases h
    rename_i c2 hB
    have hc2 : c2 = c1 := by
      cases victim with
      | none =>
        simp only at hB
        cases hB
        rfl
      | some v =>
        simp only at hB
        split_ifs at hB
        · exact BackInvalidate_neg (by norm_num) hB
        · cases hB
          rfl
    subst hc2
    have hcm : SameL1Counts ((c.countAccess 0).countMiss 0) c2 := by
      have := statsAt_Allocate ((c.countAccess 0).countMiss 0) l1 0 a 0
      rw [hA] at this
      exact SameL1Counts.of_statsAt_eq this
    have hnres : ¬ c.resident 0 a := by
      rw [hres, hf]
      exact Bool.false_ne_true
    have tail : ∀ (c3 : TieredCache) (x dE : Nat), x < 2 ^ 32 →
        fillEvict fuel c2 l1 a victim = .ok (c3, dE) →
        SameL1Counts c2 c3 → u32 x = u32 (lat + l1.config_.latency + dE) →
        (match
            (if 0 + 1 < c3.levels_.length then
              HandleRead fuel c3 (0 + 1) (l1.GetAddr (l1.GetTag a) (l1.GetIndex a))
                l1.config_.line_size x wa
            else
              match
                ReadFromMemory c3 (l1.GetAddr (l1.GetTag a) (l1.GetIndex a))
                  l1.config_.line_size x with
              | Except.error e => Except.error e
              | Except.ok (out, latency4) => Except.ok (c3, out, latency4)) with
          | Except.error e => Except.error e
          | Except.ok (c4, line_buffer, latency4) =>
            Except.ok
              ((c4.install new_line (l1.GetTag a) line_buffer).exclusiveAfterRead 0
                  (l1.GetAddr (l1.GetTag a) (l1.GetIndex a)) wa,
                ((c4.install new_line (l1.GetTag a) line_buffer).exclusiveAfterRead 0
                      (l1.GetAddr (l1.GetTag a) (l1.GetIndex a)) wa).load
                  new_line (l1.GetOffset a) len,
                latency4)) = Except.ok (c', out, lat') →
        ∃ charge, lat' = u32 (lat + charge) ∧
          ReadAccounted fuel c c' l1.config_.latency a wa charge := by
      intro c3 x dE hx hE h3 hxe h'
      have key : ∀ (c4 : TieredCache) (buf : List Nat) (dF : Nat), SameL1Counts c3 c4 →
          fillFetch fuel c3 l1 a wa = .ok (c4, buf, dF) →
          c' = (c4.install new_line (l1.GetTag a) buf).exclusiveAfterRead 0
                  (l1.GetAddr (l1.GetTag a) (l1.GetIndex a)) wa →
          lat' = u32 (x + dF) →
          ∃ charge, lat' = u32 (lat + charge) ∧
            ReadAccounted fuel c c' l1.config_.latency a wa charge := by
        intro c4 buf dF h4 hF0 hc' hl'
        have hall : SameL1Counts ((c.countAccess 0).countMiss 0) c' := by
          refine hcm.trans_counts (h3.trans_counts (h4.trans_counts ?_))
          rw [hc']
          exact SameL1Counts.of_statsAt_eq
            (by rw [statsAt_exclusiveAfterRead, statsAt_install])
        have hc := SameL1Counts.of_count hlen
          (fun s => { s with accesses := u64 (s.accesses + 1) })
          (fun s => { s with misses := u64 (s.misses + 1) }) hall
        refine ⟨u32 (l1.config_.latency + u32 (dE + dF)), ?_, hc.1,
          fun hr => absurd hr hnres, fun _ => ⟨hc.2.1, hc.2.2, u32 (dE + dF), ?_, rfl⟩⟩
        · rw [hl']
          unfold u32 at hxe ⊢
          omega
        · unfold fillLatency
          simp only [hl, hA, hE, hF0]
      by_cases hn : 0 + 1 < c3.levels_.length
      · rw [if_pos hn, (latency_shift fuel).1 c3 (0 + 1) _ _ x wa hx] at h'
        cases hF0 : HandleRead fuel c3 (0 + 1) (l1.GetAddr (l1.GetTag a) (l1.GetIndex a))
            l1.config_.line_size 0 wa with
        | error e =>
          rw [hF0] at h'
          simp [shiftRead] at h'
        | ok r =>
          obtain ⟨c4, buf, dF⟩ := r
          rw [hF0] at h'
          simp only [shiftRead, Except.ok.injEq, Prod.mk.injEq] at h'
          exact key c4 buf dF (HandleRead_pos_SameL1Counts (le_refl 1) hF0)
            (by unfold fillFetch; rw [if_pos hn, hF0]) h'.1.symm h'.2.2.symm
      · rw [if_neg hn] at h'
        cases hM0 : ReadFromMemory c3 (l1.GetAddr (l1.GetTag a) (l1.GetIndex a))
            l1.config_.line_size 0 with
        | error e =>
          rw [ReadFromMemory_error_shift x hM0] at h'
          cases h'
        | ok r =>
          obtain ⟨buf, dF⟩ := r
          rw [ReadFromMemory_ok_shift x hx hM0] at h'
          simp only [Except.ok.injEq, Prod.mk.injEq] at h'
          exact key c3 buf dF (SameL1Counts.refl_counts c3)
            (by unfold fillFetch; rw [if_neg hn, hM0]) h'.1.symm h'.2.2.symm
    cases victim with
    | none =>
      simp only at h
      exact tail c2 _ 0 (u32_lt _) rfl (SameL1Counts.refl_counts c2)
        (by unfold u32; omega) h
    | some v =>
      simp only at h
      rw [(latency_shift fuel).2.2 c2 0 _ _ (u32 (lat + l1.config_.latency)) (u32_lt _)] at h
      cases hE0 : Evict fuel c2 0 (LineRef.copy v) (l1.GetAddr v.tag (l1.GetIndex a)) 0 with
      | error e =>
        rw [hE0] at h
        simp [shiftWrite] at h
      | ok r =>
        obtain ⟨c3, dE⟩ := r
        rw [hE0] at h
        simp only [shiftWrite] at h
        exact tail c3 _ dE (u32_lt _) hE0 (Evict_SameL1Counts hE0) (by unfold u32; omega) h

/-- One read within a line of L1, with the fuel of the call. -/
theorem HandleRead_L1_line {fuel : Nat} {c : TieredCache} {l1 : CacheLevel}
    {a len lat : Nat} {wa : Bool} {c' : TieredCache} {out : List Nat} {lat' : Nat}
    (hl : c.levels_[0]? = some l1) (hns : len ≤ l1.config_.line_size - l1.GetOffset a)
    (h : HandleRead fuel c 0 a len lat wa = .ok (c', out, lat')) :
    ∃ charge, lat' = u32 (lat + charge) ∧
      ReadAccounted (fuel - 1) c c' l1.config_.latency a wa charge := by
  cases fuel with
  | zero => simp [HandleRead] at h
  | succ fuel => exact HandleRead_L1_accounted hl hns h

theorem countMiss_level {c : TieredCache} {l1 : CacheLevel} (hl : c.levels_[0]? = some l1) :
    ((c.countAccess 0).countMiss 0).levels_[0]? =
      some { l1 with stats_ :=
        { ({ l1.stats_ with accesses := u64 (l1.stats_.accesses + 1) } : CacheStats) with
          misses := u64 (l1.stats_.misses + 1) } } := by
  unfold TieredCache.countMiss TieredCache.countAccess TieredCache.modifyStats
  rw [modifyLevel_getElem?_self, modifyLevel_getElem?_self, hl]
  rfl

/-- One write within a line of L1: the counters of L1 and the latency it adds. -/
theorem HandleWrite_L1_line {fuel : Nat} {c : TieredCache} {l1 : CacheLevel}
    {a lat : Nat} {inp : Span} {c' : TieredCache} {lat' : Nat}
    (hl : c.levels_[0]? = some l1) (hns : inp.size ≤ l1.config_.line_size - l1.GetOffset a)
    (h : HandleWrite fuel c 0 a inp lat = .ok (c', lat')) :
    ∃ charge, lat' = u32 (lat + charge) ∧
      WriteAccounted (fuel - 2) c c' l1.config_.latency a charge := by
  have hlen : 0 < c.levels_.length := by
    by_contra hc
    rw [List.getElem?_eq_none (by omega)] at hl
    cases hl
  have hres := resident_zero_iff hl a
  cases fuel with
  | zero => simp [HandleWrite] at h
  | succ fuel =>
    rw [HandleWrite] at h
    simp only [hl, if_neg (Nat.not_lt.mpr hns)] at h
    cases hf : l1.Find a with
    | some way =>
      rw [hf] at h
      simp only [Except.ok.injEq, Prod.mk.injEq] at h
      obtain ⟨rfl, rfl⟩ := h
      have hc := SameL1Counts.of_count hlen
        (fun s => { s with accesses := u64 (s.accesses + 1) })
        (fun s => { s with hits := u64 (s.hits + 1) })
        (SameL1Counts.of_statsAt_eq
          (by rw [statsAt_exclusiveAfterWrite, statsAt_store] :
            ((((c.countAccess 0).countHit 0).store ⟨0, l1.GetIndex a, way⟩ (l1.GetOffset a)
              inp).exclusiveAfterWrite 0
              (l1.GetAddr (l1.GetTag a) (l1.GetIndex a))).statsAt 0 =
            ((c.countAccess 0).countHit 0).statsAt 0))
      refine ⟨u32 l1.config_.latency, by unfold u32; omega,
        fun _ => ⟨hc.1, hc.2.1, hc.2.2, rfl⟩,
        fun hn => absurd (hres.mpr (by rw [hf]; rfl)) hn⟩
    | none =>
      rw [hf] at h
      simp only at h
      have hnres : ¬ c.resident 0 a := by
        rw [hres, hf]
        exact Bool.false_ne_true
      cases hR : HandleRead fuel ((c.countAccess 0).countMiss 0) 0 a inp.size
          (u32 (lat + l1.config_.latency)) true with
      | error e =>
        rw [hR] at h
        cases h
      | ok r =>
        obtain ⟨c1, o, lat1⟩ := r
        rw [hR] at h
        simp only at h
        split at h
        · cases h
        rename_i level1 hl1
        split at h
        · cases h
        rename_i way hway
        simp only [Except.ok.injEq, Prod.mk.injEq] at h
        obtain ⟨rfl, rfl⟩ := h
        have hlm := countMiss_level hl
        obtain ⟨charge1, hlat1, hacc, -, hmiss⟩ := HandleRead_L1_line hlm hns hR
        have hnm : ¬ ((c.countAccess 0).countMiss 0).resident 0 a := by
          rw [resident_zero_iff hlm a]
          show ¬ ((l1.Find a).isSome = true)
          rw [hf]
          exact Bool.false_ne_true
        obtain ⟨hh, hm, fill, hfill, hcharge⟩ := hmiss hnm
        have hcm := statsAt_count c 0
          (fun s => { s with accesses := u64 (s.accesses + 1) })
          (fun s => { s with misses := u64 (s.misses + 1) }) hlen
        have hcm0 : ((c.countAccess 0).countMiss 0).statsAt 0 =
            { ({ c.statsAt 0 with accesses := u64 ((c.statsAt 0).accesses + 1) } : CacheStats)
              with misses := u64 ((c.statsAt 0).misses + 1) } := hcm.1
        have hst : ((lat1, lat1).1, ((c1.store ⟨0, level1.GetIndex a, way⟩ (l1.GetOffset a)
            inp).exclusiveAfterWrite 0
            (level1.GetAddr (level1.GetTag a) (level1.GetIndex a))).statsAt 0) =
            (lat1, c1.statsAt 0) := by
          rw [statsAt_exclusiveAfterWrite, statsAt_store]
        have hst2 := congrArg Prod.snd hst
        simp only at hst2
        refine ⟨u32 (l1.config_.latency + l1.config_.latency + fill), ?_,
          fun hr => absurd hr hnres, fun _ => ⟨?_, ?_, ?_, fill, ?_, rfl⟩⟩
        · rw [hlat1, hcharge]
          show u32 (u32 (lat + l1.config_.latency) + u32 (l1.config_.latency + fill)) = _
          unfold u32
          omega
        · rw [hst2, hacc, hcm0]
          show u64 (u64 ((c.statsAt 0).accesses + 1) + 1) = _
          unfold u64
          omega
        · rw [hst2, hh, hcm0]
        · rw [hst2, hm, hcm0]
          show u64 (u64 ((c.statsAt 0).misses + 1) + 1) = _
          unfold u64
          omega
        · have : fuel + 1 - 2 = fuel - 1 := by omega
          rw [this]
          exact hfill

end MultilevelCache

namespace MultilevelCache

/-- A read at L1 that crosses the end of the line is the read of the bytes up to the end of
the line and then the read of the rest, and the latency is what the two add. -/
theorem HandleRead_crossing {fuel : Nat} {c : TieredCache} {l1 : CacheLevel} {addr len : Nat}
    {wa : Bool} {c' : TieredCache} {out : List Nat} {lat' : Nat}
    (hl : c.levels_[0]? = some l1)
    (hcross : l1.config_.line_size - l1.GetOffset addr < len)
    (h : HandleRead fuel c 0 addr len 0 wa = .ok (c', out, lat')) :
    ∃ c1 out1 d1 out2 d2,
      HandleRead (fuel - 1) c 0 addr (l1.config_.line_size - l1.GetOffset addr) 0 wa =
        .ok (c1, out1, d1) ∧
      HandleRead (fuel - 1) c1 0 (u64 (addr + (l1.config_.line_size - l1.GetOffset addr)))
        (len - (l1.config_.line_size - l1.GetOffset addr)) 0 wa = .ok (c', out2, d2) ∧
      out = out1 ++ out2 ∧ lat' = u32 (d1 + d2) := by
  cases fuel with
  | zero => simp [HandleRead] at h
  | succ fuel =>
    rw [HandleRead] at h
    simp only [hl, if_pos hcross] at h
    have h0 := (latency_shift fuel).1 c 0 addr (l1.config_.line_size - l1.GetOffset addr) 0 wa
      (by norm_num)
    cases h1 : HandleRead fuel c 0 addr (l1.config_.line_size - l1.GetOffset addr) 0 wa with
    | error e =>
      rw [h1] at h
      cases h
    | ok r =>
      obtain ⟨c1, out1, d1⟩ := r
      have hd1 : d1 < 2 ^ 32 := shiftRead_ok_lt h0 h1
      rw [h1] at h
      simp only at h
      rw [(latency_shift fuel).1 c1 0 _ _ d1 wa hd1] at h
      cases h2 : HandleRead fuel c1 0
          (u64 (addr + (l1.config_.line_size - l1.GetOffset addr)))
          (len - (l1.config_.line_size - l1.GetOffset addr)) 0 wa with
      | error e =>
        rw [h2] at h
        simp [shiftRead] at h
      | ok r2 =>
        obtain ⟨c2, out2, d2⟩ := r2
        rw [h2] at h
        simp only [shiftRead, Except.ok.injEq, Prod.mk.injEq] at h
        obtain ⟨rfl, rfl, rfl⟩ := h
        exact ⟨c1, out1, d1, out2, d2, h1, h2, rfl, rfl⟩

/-- A write at L1 that crosses the end of the line is the write of the bytes up to the end
of the line and then the write of the rest, and the latency is what the two add. -/
theorem HandleWrite_crossing {fuel : Nat} {c : TieredCache} {l1 : CacheLevel} {addr : Nat}
    {inp : Span} {c' : TieredCache} {lat' : Nat}
    (hl : c.levels_[0]? = some l1)
    (hcross : l1.config_.line_size - l1.GetOffset addr < inp.size)
    (h : HandleWrite fuel c 0 addr inp 0 = .ok (c', lat')) :
    ∃ c1 d1 d2,
      HandleWrite (fuel - 1) c 0 addr
        (inp.subspan 0 (l1.config_.line_size - l1.GetOffset addr)) 0 = .ok (c1, d1) ∧
      HandleWrite (fuel - 1) c1 0 (u64 (addr + (l1.config_.line_size - l1.GetOffset addr)))
        (inp.subspan (l1.config_.line_size - l1.GetOffset addr)
          (inp.size - (l1.config_.line_size - l1.GetOffset addr))) 0 = .ok (c', d2) ∧
      lat' = u32 (d1 + d2) := by
  cases fuel with
  | zero => simp [HandleWrite] at h
  | succ fuel =>
    rw [HandleWrite] at h
    simp only [hl, if_pos hcross] at h
    have h0 := (latency_shift fuel).2.1 c 0 addr
      (inp.subspan 0 (l1.config_.line_size - l1.GetOffset addr)) 0 (by norm_num)
    cases h1 : HandleWrite fuel c 0 addr
        (inp.subspan 0 (l1.config_.line_size - l1.GetOffset addr)) 0 with
    | error e =>
      rw [h1] at h
      cases h
    | ok r =>
      obtain ⟨c1, d1⟩ := r
      have hd1 : d1 < 2 ^ 32 := shiftWrite_ok_lt h0 h1
      rw [h1] at h
      simp only at h
      rw [(latency_shift fuel).2.1 c1 0 _ _ d1 hd1] at h
      cases h2 : HandleWrite fuel c1 0
          (u64 (addr + (l1.config_.line_size - l1.GetOffset addr)))
          (inp.subspan (l1.config_.line_size - l1.GetOffset addr)
            (inp.size - (l1.config_.line_size - l1.GetOffset addr))) 0 with
      | error e =>
        rw [h2] at h
        simp [shiftWrite] at h
      | ok r2 =>
        obtain ⟨c2, d2⟩ := r2
        rw [h2] at h
        simp only [shiftWrite, Except.ok.injEq, Prod.mk.injEq] at h
        obtain ⟨rfl, rfl⟩ := h
        exact ⟨c1, d1, d2, h1, h2, rfl⟩

/-- The address after the end of the line of a 32-bit address starts the next line. -/
theorem CacheLevel.GeoOK.next_line {lv : CacheLevel} (g : lv.GeoOK) {addr : Nat}
    (ha : addr < 2 ^ 32) :
    u64 (addr + (lv.config_.line_size - lv.GetOffset addr)) =
      addr + (lv.config_.line_size - lv.GetOffset addr) ∧
    lv.GetOffset (addr + (lv.config_.line_size - lv.GetOffset addr)) = 0 := by
  have hob : lv.offset_bits_ ≤ 63 := by have := g.bits_le; omega
  have h1 : (2 : Nat) ^ lv.offset_bits_ ≤ 2 ^ 63 := two_pow_le_of_le_63 hob
  have hpos : 0 < (2 : Nat) ^ lv.offset_bits_ := by positivity
  have hmod : addr % 2 ^ lv.offset_bits_ < 2 ^ lv.offset_bits_ := Nat.mod_lt _ hpos
  rw [g.GetOffset_eq, g.GetOffset_eq, g.line_size_eq]
  constructor
  · apply u64_of_lt
    omega
  · have hdm := Nat.div_add_mod addr (2 ^ lv.offset_bits_)
    have : addr + (2 ^ lv.offset_bits_ - addr % 2 ^ lv.offset_bits_) =
        2 ^ lv.offset_bits_ * (addr / 2 ^ lv.offset_bits_ + 1) := by
      rw [Nat.mul_add, Nat.mul_one]
      omega
    rw [this]
    exact Nat.mul_mod_right _ _

theorem ReadAccounted.read_charge_lt {fuel : Nat} {c c' : TieredCache} {latency addr : Nat}
    {wa : Bool} {charge : Nat} (h : ReadAccounted fuel c c' latency addr wa charge) :
    charge < 2 ^ 32 := by
  by_cases hr : c.resident 0 addr
  · rw [(h.2.1 hr).2.2]
    exact u32_lt _
  · obtain ⟨_, _, fill, _, hc⟩ := h.2.2 hr
    rw [hc]
    exact u32_lt _

theorem WriteAccounted.write_charge_lt {fuel : Nat} {c c' : TieredCache} {latency addr : Nat}
    {charge : Nat} (h : WriteAccounted fuel c c' latency addr charge) :
    charge < 2 ^ 32 := by
  by_cases hr : c.resident 0 addr
  · rw [(h.1 hr).2.2.2]
    exact u32_lt _
  · obtain ⟨_, _, _, fill, _, hc⟩ := h.2 hr
    rw [hc]
    exact u32_lt _

end MultilevelCache

namespace MultilevelCache

theorem BackInvalidate_error_of_Evict {fuel : Nat} {c : TieredCache} {i : Nat} {addr : Nat}
    {lv : CacheLevel} {way : Nat} {e : Fault}
    (hlv : c.levels_[i]? = some lv) (hf : lv.Find addr = some way)
    (hd : (c.lineAt ⟨i, lv.GetIndex addr, way⟩).dirty = true)
    (h : Evict fuel c i (LineRef.slot ⟨i, lv.GetIndex addr, way⟩)
      (lv.GetAddr (lv.GetTag addr) (lv.GetIndex addr)) 0 = .error e) :
    BackInvalidate (fuel + 1) c (i : Int) addr = .error e := by
  rw [BackInvalidate]
  have hn : ¬ ((i : Int) < 0) := by omega
  simp only [hn, if_false, Int.toNat_ofNat, hlv, hf, hd, if_true, h]

theorem Evict_dirty_eq {fuel : Nat} {c : TieredCache} {i : Nat} {v : LineRef} {addr lat : Nat}
    {lv : CacheLevel}
    (hlv : c.levels_[i]? = some lv) (hd : (v.get c).dirty = true)
    (hn : i + 1 < c.levels_.length) :
    Evict (fuel + 1) c i v addr lat =
      HandleWrite fuel ((c.countEviction i).countWriteback i) (i + 1) addr (v.dataSpan c) lat := by
  rw [Evict]
  simp only [hlv, hd, if_true, hn]

theorem HandleWrite_error_of_HandleRead (lv : CacheLevel) {fuel : Nat} {c : TieredCache}
    {i addr : Nat} {inp : Span} {lat : Nat} {e : Fault}
    (hlv : c.levels_[i]? = some lv)
    (hs : ¬ inp.size > lv.config_.line_size - lv.GetOffset addr)
    (hf : lv.Find addr = none)
    (h : HandleRead fuel ((c.countAccess i).countMiss i) i addr inp.size
      (u32 (lat + lv.config_.latency)) true = .error e) :
    HandleWrite (fuel + 1) c i addr inp lat = .error e := by
  rw [HandleWrite]
  simp only [hlv, hs, if_false, hf, h]

theorem HandleRead_error_of_BackInvalidate (lv : CacheLevel) (c1 : TieredCache)
    (v : CacheLine) (nl : LinePtr) {fuel : Nat} {c : TieredCache} {i addr len lat : Nat}
    {wa : Bool} {e : Fault}
    (hlv : c.levels_[i]? = some lv)
    (hs : ¬ len > lv.config_.line_size - lv.GetOffset addr)
    (hf : lv.Find addr = none)
    (ha : ((c.countAccess i).countMiss i).Allocate lv i addr = (c1, some v, nl))
    (hp : c1.opts_.inclusion_policy = InclusionPolicy.Inclusive)
    (h : BackInvalidate fuel c1 ((i : Int) - 1) (lv.GetAddr v.tag (lv.GetIndex addr)) = .error e) :
    HandleRead (fuel + 1) c i addr len lat wa = .error e := by
  rw [HandleRead]
  simp only [hlv, hs, if_false, hf, ha, hp, if_true, h]

theorem HandleRead_error_of_fetch (lv : CacheLevel) (c1 : TieredCache) (nl : LinePtr)
    {fuel : Nat} {c : TieredCache} {i addr len lat : Nat} {wa : Bool} {e : Fault}
    (hlv : c.levels_[i]? = some lv)
    (hs : ¬ len > lv.config_.line_size - lv.GetOffset addr)
    (hf : lv.Find addr = none)
    (ha : ((c.countAccess i).countMiss i).Allocate lv i addr = (c1, none, nl))
    (hn : i + 1 < c1.levels_.length)
    (h : HandleRead fuel c1 (i + 1) (lv.GetAddr (lv.GetTag addr) (lv.GetIndex addr))
      lv.config_.line_size (u32 (lat + lv.config_.latency)) wa = .error e) :
    HandleRead (fuel + 1) c i addr len lat wa = .error e := by
  rw [HandleRead]
  simp only [hlv, hs, if_false, hf, ha, hn, if_true, h]

theorem HandleWrite_error_of_second (lv : CacheLevel) {fuel : Nat} {c : TieredCache}
    {i addr : Nat} {inp : Span} {lat : Nat} {c1 : TieredCache} {lat1 : Nat} {e : Fault}
    (hlv : c.levels_[i]? = some lv)
    (hs : inp.size > lv.config_.line_size - lv.GetOffset addr)
    (h1 : HandleWrite fuel c i addr
      (inp.subspan 0 (lv.config_.line_size - lv.GetOffset addr)) lat = .ok (c1, lat1))
    (h : HandleWrite fuel c1 i (u64 (addr + (lv.config_.line_size - lv.GetOffset addr)))
      (inp.subspan (lv.config_.line_size - lv.GetOffset addr)
        (inp.size - (lv.config_.line_size - lv.GetOffset addr))) lat1 = .error e) :
    HandleWrite (fuel + 1) c i addr inp lat = .error e := by
  rw [HandleWrite]
  simp only [hlv, hs, if_true, h1, h]

/-- The counters of a two-level cache change no level apart from its counters. -/
theorem modifyStats_levels_erase {c : TieredCache} {l1 l2 : CacheLevel}
    (h : c.levels_ = [l1, l2]) (i : Nat) (f : CacheStats → CacheStats) :
    ∃ l1b l2b, (c.modifyStats i f).levels_ = [l1b, l2b] ∧
      l1b.eraseStats = l1.eraseStats ∧ l2b.eraseStats = l2.eraseStats := by
  unfold TieredCache.modifyStats TieredCache.modifyLevel
  rw [h]
  rcases i with _ | _ | i
  · exact ⟨_, _, rfl, rfl, rfl⟩
  · exact ⟨_, _, rfl, rfl, rfl⟩
  · refine ⟨l1, l2, ?_, rfl, rfl⟩
    simp only [List.modify, List.modifyTailIdx]
    cases i <;> rfl

theorem CacheLevel.Allocate_eraseStats (lv : CacheLevel) (a cyc rnd : Nat) :
    (lv.Allocate a cyc rnd).1.eraseStats = (lv.eraseStats.Allocate a cyc rnd).1 ∧
    (lv.Allocate a cyc rnd).2 = (lv.eraseStats.Allocate a cyc rnd).2 := by
  unfold CacheLevel.Allocate CacheLevel.UpdateLRU
  constructor
  · show CacheLevel.eraseStats (if lv.config_.replacement_policy = ReplacementPolicy.LRU then _
      else _) = (if lv.config_.replacement_policy = ReplacementPolicy.LRU then _ else _)
    split_ifs <;> rfl
  · rfl

theorem CacheLevel.Find_eraseStats (lv : CacheLevel) (a : Nat) :
    lv.eraseStats.Find a = lv.Find a := rfl

theorem CacheLevel.GetIndex_eraseStats (lv : CacheLevel) (a : Nat) :
    lv.eraseStats.GetIndex a = lv.GetIndex a := rfl

theorem CacheLevel.GetTag_eraseStats (lv : CacheLevel) (a : Nat) :
    lv.eraseStats.GetTag a = lv.GetTag a := rfl

theorem CacheLevel.GetOffset_eraseStats (lv : CacheLevel) (a : Nat) :
    lv.eraseStats.GetOffset a = lv.GetOffset a := rfl

theorem CacheLevel.GetAddr_eraseStats (lv : CacheLevel) (t i : Nat) :
    lv.eraseStats.GetAddr t i = lv.GetAddr t i := rfl

theorem CacheLevel.lineAt_eraseStats (lv : CacheLevel) (i w : Nat) :
    lv.eraseStats.lineAt i w = lv.lineAt i w := rfl

theorem CacheLevel.config_eraseStats (lv : CacheLevel) :
    lv.eraseStats.config_ = lv.config_ := rfl

theorem CacheLevel.eraseStats_stats (lv : CacheLevel) (s : CacheStats) :
    CacheLevel.eraseStats { lv with stats_ := s } = lv.eraseStats := rfl

/-- Half a turn of the recursion that does not end: in a state `StuckAt t`, where L1 holds the
line of `a` dirty in way `w` and L2 does not hold it, `BackInvalidate(0, a)` writes the line
back, the write misses L2, L2 allocates way 0 (tag `t`, the line of `a2`) for it and calls
`BackInvalidate(0, a2)` in a state `StuckAt t2`. -/
theorem StuckAt_half (t t2 a a2 w : Nat) (v : CacheLine)
    (e1 : exampleStuckL1.Find a = some w)
    (e2 : exampleStuckL1.GetIndex a = 0)
    (e3 : (exampleStuckL1.lineAt 0 w).dirty = true)
    (e4 : exampleStuckL1.GetAddr (exampleStuckL1.GetTag a) 0 = a)
    (e5 : (exampleStuckL1.lineAt 0 w).data.length = 4)
    (e6 : (exampleStuckL2 t).Find a = none)
    (e7 : (exampleStuckL2 t).GetOffset a = 0)
    (e8 : ((exampleStuckL2 t).Allocate a 3 0).1 = exampleStuckL2 t2)
    (e9 : ((exampleStuckL2 t).Allocate a 3 0).2.1 = some v)
    (e10 : (exampleStuckL2 t).GetAddr v.tag ((exampleStuckL2 t).GetIndex a) = a2)
    (n : Nat)
    (ih : ∀ m, m < n → ∀ c2, StuckAt t2 c2 →
      BackInvalidate m c2 0 a2 = .error Fault.out_of_fuel)
    (c : TieredCache) (hc : StuckAt t c) :
    BackInvalidate n c 0 a = .error Fault.out_of_fuel := by
  obtain ⟨hp, hcyc, hr, l1, l2, hL, h1, h2⟩ := hc
  have hlv0 : c.levels_[0]? = some l1 := by rw [hL]; rfl
  have f1 : l1.Find a = some w := by
    rw [← CacheLevel.Find_eraseStats, h1]; exact e1
  have f2 : l1.GetIndex a = 0 := by
    rw [← CacheLevel.GetIndex_eraseStats, h1]; exact e2
  have f3 : (c.lineAt ⟨0, 0, w⟩) = exampleStuckL1.lineAt 0 w := by
    unfold TieredCache.lineAt
    simp only [hlv0]
    rw [← CacheLevel.lineAt_eraseStats, h1]
  have f4 : l1.GetAddr (l1.GetTag a) 0 = a := by
    rw [← CacheLevel.GetAddr_eraseStats, ← CacheLevel.GetTag_eraseStats, h1]; exact e4
  rcases n with _ | n
  · rw [BackInvalidate]
  refine BackInvalidate_error_of_Evict (i := 0) hlv0 f1 (by rw [f2, f3]; exact e3) ?_
  rw [f2, f4]
  rcases n with _ | n
  · rw [Evict]
  rw [Evict_dirty_eq hlv0 (by show (c.lineAt ⟨0, 0, w⟩).dirty = true; rw [f3]; exact e3)
    (by rw [hL]; exact (by omega : 0 + 1 < 2))]
  rcases n with _ | n
  · rw [HandleWrite]
  obtain ⟨l1a, l2a, hLa, ha1, ha2⟩ := modifyStats_levels_erase hL 0
    (fun s => { s with evictions := u64 (s.evictions + 1) })
  obtain ⟨l1b, l2b, hLb, hb1, hb2⟩ := modifyStats_levels_erase hLa 0
    (fun s => { s with writebacks := u64 (s.writebacks + 1) })
  have hXb : (c.countEviction 0).countWriteback 0 =
      (c.modifyStats 0 (fun s => { s with evictions := u64 (s.evictions + 1) })).modifyStats 0
        (fun s => { s with writebacks := u64 (s.writebacks + 1) }) := rfl
  have hXbc : ((c.countEviction 0).countWriteback 0).current_cycle_ = 3 := hcyc
  have hXbr : ((c.countEviction 0).countWriteback 0).rand_ = [] := hr
  have hXbp : ((c.countEviction 0).countWriteback 0).opts_.inclusion_policy =
      InclusionPolicy.Inclusive := hp
  rw [hXb] at hXbc hXbr hXbp ⊢
  generalize (c.modifyStats 0 (fun s => { s with evictions := u64 (s.evictions + 1) })).modifyStats
    0 (fun s => { s with writebacks := u64 (s.writebacks + 1) }) = Xb at hLb hXbc hXbr hXbp
  have hlv1 : Xb.levels_[1]? = some l2b := by rw [hLb]; rfl
  have hl2b : l2b.eraseStats = exampleStuckL2 t := by rw [hb2, ha2]; exact h2
  have hl1b : l1b.eraseStats = exampleStuckL1 := by rw [hb1, ha1]; exact h1
  have g1 : l2b.Find a = none := by
    rw [← CacheLevel.Find_eraseStats, hl2b]; exact e6
  have g2 : l2b.GetOffset a = 0 := by
    rw [← CacheLevel.GetOffset_eraseStats, hl2b]; exact e7
  have g3 : l2b.config_.line_size = 4 := by
    rw [← CacheLevel.config_eraseStats, hl2b]; rfl
  have hsz : (LineRef.dataSpan c (LineRef.slot ⟨0, 0, w⟩)).size = 4 := by
    show (c.lineAt ⟨0, 0, w⟩).data.length = 4
    rw [f3]; exact e5
  refine HandleWrite_error_of_HandleRead l2b hlv1 (by rw [hsz, g2, g3]; decide) g1 ?_
  rcases n with _ | n
  · rw [HandleRead]
  obtain ⟨l1c, l2c, hLc, hc1, hc2⟩ := modifyStats_levels_erase hLb 1
    (fun s => { s with accesses := u64 (s.accesses + 1) })
  obtain ⟨l1d, l2d, hLd, hd1, hd2⟩ := modifyStats_levels_erase hLc 1
    (fun s => { s with misses := u64 (s.misses + 1) })
  have hXd : (Xb.countAccess 1).countMiss 1 =
      (Xb.modifyStats 1 (fun s => { s with accesses := u64 (s.accesses + 1) })).modifyStats 1
        (fun s => { s with misses := u64 (s.misses + 1) }) := rfl
  have hXdc : ((Xb.countAccess 1).countMiss 1).current_cycle_ = 3 := hXbc
  have hXdr : ((Xb.countAccess 1).countMiss 1).rand_ = [] := hXbr
  have hXdp : ((Xb.countAccess 1).countMiss 1).opts_.inclusion_policy =
      InclusionPolicy.Inclusive := hXbp
  rw [hXd] at hXdc hXdr hXdp ⊢
  generalize (Xb.modifyStats 1 (fun s => { s with accesses := u64 (s.accesses + 1) })).modifyStats
    1 (fun s => { s with misses := u64 (s.misses + 1) }) = Xd at hLd hXdc hXdr hXdp
  have hlv2 : Xd.levels_[1]? = some l2d := by rw [hLd]; rfl
  have hl2d : l2d.eraseStats = exampleStuckL2 t := by rw [hd2, hc2]; exact hl2b
  have hl1d : l1d.eraseStats = exampleStuckL1 := by rw [hd1, hc1]; exact hl1b
  obtain ⟨l1e, l2e, hLe, he1, he2⟩ := modifyStats_levels_erase hLd 1
    (fun s => { s with accesses := u64 (s.accesses + 1) })
  obtain ⟨l1f, l2f, hLf, hf1, hf2⟩ := modifyStats_levels_erase hLe 1
    (fun s => { s with misses := u64 (s.misses + 1) })
  have hXf : (Xd.countAccess 1).countMiss 1 =
      (Xd.modifyStats 1 (fun s => { s with accesses := u64 (s.accesses + 1) })).modifyStats 1
        (fun s => { s with misses := u64 (s.misses + 1) }) := rfl
  have hXfc : ((Xd.countAccess 1).countMiss 1).current_cycle_ = 3 := hXdc
  have hXfr : ((Xd.countAccess 1).countMiss 1).rand_ = [] := hXdr
  have hXfp : ((Xd.countAccess 1).countMiss 1).opts_.inclusion_policy =
      InclusionPolicy.Inclusive := hXdp
  have k1 : l2d.Find a = none := by
    rw [← CacheLevel.Find_eraseStats, hl2d]; exact e6
  have k2 : l2d.GetOffset a = 0 := by
    rw [← CacheLevel.GetOffset_eraseStats, hl2d]; exact e7
  have k3 : l2d.config_.line_size = 4 := by
    rw [← CacheLevel.config_eraseStats, hl2d]; rfl
  have k4 : l2d.GetAddr v.tag (l2d.GetIndex a) = a2 := by
    rw [← CacheLevel.GetAddr_eraseStats, ← CacheLevel.GetIndex_eraseStats, hl2d]; exact e10
  have hv : (((Xd.countAccess 1).countMiss 1).Allocate l2d 1 a).2.1 = some v := by
    show (l2d.Allocate a ((Xd.countAccess 1).countMiss 1).current_cycle_
      (((Xd.countAccess 1).countMiss 1).rand_.headD 0)).2.1 = some v
    rw [(CacheLevel.Allocate_eraseStats l2d a _ _).2, hl2d, hXfc, hXfr]
    exact e9
  refine HandleRead_error_of_BackInvalidate l2d
    (((Xd.countAccess 1).countMiss 1).Allocate l2d 1 a).1 v
    (((Xd.countAccess 1).countMiss 1).Allocate l2d 1 a).2.2
    hlv2 (by rw [hsz, k2, k3]; decide) k1 (Prod.ext rfl (Prod.ext hv rfl)) hXfp ?_
  rw [k4, show ((1 : Nat) : Int) - 1 = 0 from rfl]
  apply ih n (by omega)
  refine ⟨hXfp, hXfc, ?_, l1f, (l2f.Allocate a 3 0).1, ?_, ?_, ?_⟩
  · show (if _ then ((Xd.countAccess 1).countMiss 1).rand_.tail
      else ((Xd.countAccess 1).countMiss 1).rand_) = []
    rw [hXfr]
    split_ifs <;> rfl
  · show List.modify _ 1 ((Xd.countAccess 1).countMiss 1).levels_ = _
    rw [hXf, hLf, ← hXf, hXfc, hXfr]
    rfl
  · rw [hf1, he1]; exact hl1d
  · rw [(CacheLevel.Allocate_eraseStats _ a _ _).1, hf2, he2, hl2d]
    exact e8

/-- In the states `StuckAt 3` and `StuckAt 1` the calls `BackInvalidate(0, 4)` and
`BackInvalidate(0, 12)` call each other without end: no amount of fuel lets them return. -/
theorem StuckAt_never_returns (n : Nat) :
    ∀ c, (StuckAt 3 c → BackInvalidate n c 0 4 = .error Fault.out_of_fuel) ∧
      (StuckAt 1 c → BackInvalidate n c 0 12 = .error Fault.out_of_fuel) := by
  induction n using Nat.strong_induction_on with
  | _ n ih =>
    intro c
    constructor
    · exact StuckAt_half 3 1 4 12 1
        { valid := true, tag := 3, data := [0, 0, 0, 0], lru_timestamp := 3 }
        (by decide!) (by decide!) (by decide!) (by decide!) (by decide!) (by decide!)
        (by decide!) (by decide!) (by decide!) (by decide!) n
        (fun m hm c2 h2 => (ih m hm c2).2 h2) c
    · exact StuckAt_half 1 3 12 4 2
        { valid := true, tag := 1, data := [0, 0, 0, 0], lru_timestamp := 3 }
        (by decide!) (by decide!) (by decide!) (by decide!) (by decide!) (by decide!)
        (by decide!) (by decide!) (by decide!) (by decide!) n
        (fun m hm c2 h2 => (ih m hm c2).1 h2) c

theorem HandleWrite_fuel_mono {f f2 : Nat} (hle : f ≤ f2) {c : TieredCache} {i addr : Nat}
    {inp : Span} {lat : Nat} {r : TieredCache × Nat}
    (h : HandleWrite f c i addr inp lat = .ok r) : HandleWrite f2 c i addr inp lat = .ok r := by
  induction hle with
  | refl => exact h
  | step _ ih => exact (fuel_succ_all _).2.1 _ _ _ _ _ _ ih

/-- The second part of `WriteSpan(15, 4 bytes)` on `exampleStuckStart`, the write of three
bytes at address 16 in the state `exampleStuckMid`, does not return: its L1 miss fetches the
line from L2, the L2 miss takes the slot of the line of address 4 and calls
`BackInvalidate(0, 4)` in a state `StuckAt 3`. -/
theorem exampleStuckMid_second_part (n : Nat) :
    HandleWrite n exampleStuckMid 0 16 ((Span.buf [1, 2, 3, 4]).subspan 1 3) 12 =
      .error Fault.out_of_fuel := by
  rcases n with _ | n
  · rw [HandleWrite]
  refine HandleWrite_error_of_HandleRead
    ((exampleStuckMid.levels_.getD 0 exampleStuckL1)) (by decide!) (by decide!) (by
      decide!) ?_
  rcases n with _ | n
  · rw [HandleRead]
  refine HandleRead_error_of_fetch
    ((((exampleStuckMid.countAccess 0).countMiss 0).levels_.getD 0 exampleStuckL1))
    ((((((exampleStuckMid.countAccess 0).countMiss 0).countAccess 0).countMiss
      0).Allocate (((exampleStuckMid.countAccess 0).countMiss 0).levels_.getD 0 exampleStuckL1)
      0 16).1)
    (⟨0, 0, 0⟩ : LinePtr) (by decide!) (by decide!) (by decide!) (by decide!) (by decide!) ?_
  rcases n with _ | n
  · rw [HandleRead]
  refine HandleRead_error_of_BackInvalidate
    (((((((exampleStuckMid.countAccess 0).countMiss 0).countAccess 0).countMiss
      0).Allocate (((exampleStuckMid.countAccess 0).countMiss 0).levels_.getD 0 exampleStuckL1)
      0 16).1.levels_.getD 1 exampleStuckL1))
    (((((((((exampleStuckMid.countAccess 0).countMiss 0).countAccess 0).countMiss
      0).Allocate (((exampleStuckMid.countAccess 0).countMiss 0).levels_.getD 0 exampleStuckL1)
      0 16).1.countAccess 1).countMiss 1).Allocate ((((((exampleStuckMid.countAccess
      0).countMiss 0).countAccess 0).countMiss 0).Allocate (((exampleStuckMid.countAccess
      0).countMiss 0).levels_.getD 0 exampleStuckL1) 0 16).1.levels_.getD 1 exampleStuckL1) 1
      ((((exampleStuckMid.countAccess 0).countMiss 0).levels_.getD 0 exampleStuckL1).GetAddr
      ((((exampleStuckMid.countAccess 0).countMiss 0).levels_.getD 0 exampleStuckL1).GetTag 16)
      ((((exampleStuckMid.countAccess 0).countMiss 0).levels_.getD 0 exampleStuckL1).GetIndex
      16))).1)
    ((CacheLine.mk true false 1 [0, 0, 0, 0] 2))
    (⟨1, 0, 1⟩ : LinePtr) (by decide!) (by decide!) (by decide!) (by decide!) (by decide!) ?_
  have ha :
      ((((((exampleStuckMid.countAccess 0).countMiss 0).countAccess 0).countMiss 0).Allocate
        (((exampleStuckMid.countAccess 0).countMiss 0).levels_.getD 0 exampleStuckL1) 0
        16).1.levels_.getD 1 exampleStuckL1).GetAddr (CacheLine.mk true false 1 [0, 0, 0, 0] 2).tag (((((((exampleStuckMid.countAccess
        0).countMiss 0).countAccess 0).countMiss 0).Allocate (((exampleStuckMid.countAccess
        0).countMiss 0).levels_.getD 0 exampleStuckL1) 0 16).1.levels_.getD 1
        exampleStuckL1).GetIndex ((((exampleStuckMid.countAccess 0).countMiss 0).levels_.getD 0
        exampleStuckL1).GetAddr ((((exampleStuckMid.countAccess 0).countMiss 0).levels_.getD 0
        exampleStuckL1).GetTag 16) ((((exampleStuckMid.countAccess 0).countMiss 0).levels_.getD
        0 exampleStuckL1).GetIndex 16))) = 4 := by decide!
  rw [ha, show ((1 : Nat) : Int) - 1 = 0 from rfl]
  refine (StuckAt_never_returns n _).1
    ⟨by decide!, by decide!, by decide!,
      (((((((((exampleStuckMid.countAccess 0).countMiss 0).countAccess 0).countMiss 0).Allocate
        (((exampleStuckMid.countAccess 0).countMiss 0).levels_.getD 0 exampleStuckL1) 0
        16).1.countAccess 1).countMiss 1).Allocate ((((((exampleStuckMid.countAccess
        0).countMiss 0).countAccess 0).countMiss 0).Allocate (((exampleStuckMid.countAccess
        0).countMiss 0).levels_.getD 0 exampleStuckL1) 0 16).1.levels_.getD 1 exampleStuckL1) 1
        ((((exampleStuckMid.countAccess 0).countMiss 0).levels_.getD 0 exampleStuckL1).GetAddr
        ((((exampleStuckMid.countAccess 0).countMiss 0).levels_.getD 0 exampleStuckL1).GetTag
        16) ((((exampleStuckMid.countAccess 0).countMiss 0).levels_.getD 0
        exampleStuckL1).GetIndex 16))).1).levels_.getD 0 exampleStuckL1,
      (((((((((exampleStuckMid.countAccess 0).countMiss 0).countAccess 0).countMiss 0).Allocate
        (((exampleStuckMid.countAccess 0).countMiss 0).levels_.getD 0 exampleStuckL1) 0
        16).1.countAccess 1).countMiss 1).Allocate ((((((exampleStuckMid.countAccess
        0).countMiss 0).countAccess 0).countMiss 0).Allocate (((exampleStuckMid.countAccess
        0).countMiss 0).levels_.getD 0 exampleStuckL1) 0 16).1.levels_.getD 1 exampleStuckL1) 1
        ((((exampleStuckMid.countAccess 0).countMiss 0).levels_.getD 0 exampleStuckL1).GetAddr
        ((((exampleStuckMid.countAccess 0).countMiss 0).levels_.getD 0 exampleStuckL1).GetTag
        16) ((((exampleStuckMid.countAccess 0).countMiss 0).levels_.getD 0
        exampleStuckL1).GetIndex 16))).1).levels_.getD 1 exampleStuckL1,
      by decide!, by decide!, by decide!⟩

/-- The first part of `WriteSpan(15, 4 bytes)` on `exampleStuckStart`, the write of one byte
at address 15, returns in the state `exampleStuckMid` when it has at least 5 units of fuel. -/
theorem exampleStuckEntered_first_part (n : Nat) :
    HandleWrite (n + 5) exampleStuckEntered 0 15 ((Span.buf [1, 2, 3, 4]).subspan 0 1) 0 =
      .ok (exampleStuckMid, 12) :=
  HandleWrite_fuel_mono (Nat.le_add_left 5 n) (by decide!)

/-- The call `WriteSpan(15, 4 bytes)` on `exampleStuckStart` does not return. -/
theorem exampleStuckStart_WriteSpan (fuel : Nat) :
    exampleStuckStart.WriteSpan fuel 15 [1, 2, 3, 4] = .error Fault.out_of_fuel := by
  by_cases hf : fuel < 6
  · interval_cases fuel <;> decide!
  · obtain ⟨n, rfl⟩ : ∃ n, fuel = n + 5 + 1 := ⟨fuel - 6, by omega⟩
    have h : HandleWrite (n + 5 + 1) exampleStuckEntered 0 15 (Span.buf [1, 2, 3, 4]) 0 =
        .error Fault.out_of_fuel :=
      HandleWrite_error_of_second (exampleStuckEntered.levels_.getD 0 exampleStuckL1)
        (by decide!) (by decide!) (exampleStuckEntered_first_part n)
        (exampleStuckMid_second_part (n + 5))
    unfold TieredCache.WriteSpan
    rw [if_neg (by decide!)]
    show (match HandleWrite (n + 5 + 1) exampleStuckEntered 0 15 (Span.buf [1, 2, 3, 4]) 0 with
      | Except.error e => Except.error e
      | Except.ok (c1, latency) => Except.ok { c1 with last_access_latency_ := latency }) = _
    rw [h]

end MultilevelCache

namespace MultilevelCache

/-- Line-crossing accesses that return.  Let L1 (`l1`, with the geometry its constructor
gives) have `rem` bytes from the 32-bit address `addr` to the end of its line, let the `len` bytes at `addr` cross that
boundary and no second one, and let `c0` be the cache with the cycle counted, as `ReadSpan`
and `WriteSpan` hand it to `HandleRead` / `HandleWrite`. A `ReadSpan` that returns is the
`HandleRead` of the first `rem` bytes followed by the `HandleRead` of the other `len - rem`
bytes at `addr + rem`, each one within a line: each is accounted as one access of L1 that is
a hit or a miss of its own and adds L1's latency (`ReadAccounted`), the `accesses` counter of
L1 is 2 more (a `uint64_t`), and the reported latency is the sum of what the two add (a
`uint32_t`). A `WriteSpan` that returns is two such `HandleWrite` calls: each is one access
and one hit, or two accesses and two misses with L1's latency added twice (the write and the
read that allocates the line, `WriteAccounted`), so `accesses` is between 2 and 4 more, and
the reported latency is the sum of what the two add. -/
theorem line_crossing_access_is_two_accesses (fuel : Nat) (c c0 : TieredCache) (l1 : CacheLevel)
    (addr len rem : Nat) (hl : c.levels_[0]? = some l1) (g : l1.GeoOK) (ha : addr < 2 ^ 32)
    (hc0 : c0 = { c with current_cycle_ := u64 (c.current_cycle_ + 1),
                         last_access_latency_ := 0 })
    (hrem : rem = l1.config_.line_size - l1.GetOffset addr)
    (hcross : rem < len) (hone : len - rem ≤ l1.config_.line_size) :
    (∀ c' out, c.ReadSpan fuel addr len = .ok (c', out) →
      ∃ c1 out1 d1 c2 out2 d2,
        HandleRead (fuel - 1) c0 0 addr rem 0 false = .ok (c1, out1, d1) ∧
        HandleRead (fuel - 1) c1 0 (addr + rem) (len - rem) 0 false = .ok (c2, out2, d2) ∧
        ReadAccounted (fuel - 2) c0 c1 l1.config_.latency addr false d1 ∧
        ReadAccounted (fuel - 2) c1 c2 l1.config_.latency (addr + rem) false d2 ∧
        out = out1 ++ out2 ∧
        c' = { c2 with last_access_latency_ := u32 (d1 + d2) } ∧
        (c'.statsAt 0).accesses = u64 ((c.statsAt 0).accesses + 2)) ∧
    (∀ inp c', inp.length = len → c.WriteSpan fuel addr inp = .ok c' →
      ∃ c1 d1 c2 d2,
        HandleWrite (fuel - 1) c0 0 addr ((Span.buf inp).subspan 0 rem) 0 = .ok (c1, d1) ∧
        HandleWrite (fuel - 1) c1 0 (addr + rem) ((Span.buf inp).subspan rem (len - rem)) 0 =
          .ok (c2, d2) ∧
        WriteAccounted (fuel - 3) c0 c1 l1.config_.latency addr d1 ∧
        WriteAccounted (fuel - 3) c1 c2 l1.config_.latency (addr + rem) d2 ∧
        c' = { c2 with last_access_latency_ := u32 (d1 + d2) } ∧
        ∃ n, 2 ≤ n ∧ n ≤ 4 ∧ (c'.statsAt 0).accesses = u64 ((c.statsAt 0).accesses + n)) := by
  subst hc0 hrem
  have hlen : 0 < c.levels_.length := by
    by_contra hc
    rw [List.getElem?_eq_none (by omega)] at hl
    cases hl
  have hne : c.levels_.isEmpty = false := by
    cases hc : c.levels_ with
    | nil => rw [hc] at hlen; simp at hlen
    | cons _ _ => rfl
  have hl0 : ({ c with current_cycle_ := u64 (c.current_cycle_ + 1),
                       last_access_latency_ := 0 } : TieredCache).levels_[0]? = some l1 := hl
  obtain ⟨hu, hoff⟩ := g.next_line ha
  have hls : 0 < l1.config_.line_size := by
    rw [g.line_size_eq]
    positivity
  constructor
  · intro c' out h
    unfold TieredCache.ReadSpan at h
    rw [hne] at h
    simp only [Bool.false_eq_true, if_false] at h
    cases hH : HandleRead fuel
        { c with current_cycle_ := u64 (c.current_cycle_ + 1), last_access_latency_ := 0 }
        0 addr len 0 false with
    | error e =>
      rw [hH] at h
      cases h
    | ok r =>
      obtain ⟨cc, oo, ll⟩ := r
      rw [hH] at h
      simp only [Except.ok.injEq, Prod.mk.injEq] at h
      obtain ⟨rfl, rfl⟩ := h
      obtain ⟨c1, out1, d1, out2, d2, h1, h2, rfl, rfl⟩ := HandleRead_crossing hl0 hcross hH
      rw [hu] at h2
      obtain ⟨ch1, hd1, ra1⟩ := HandleRead_L1_line hl0 (le_refl _) h1
      have e1 : d1 = ch1 := by
        rw [hd1, Nat.zero_add]
        exact u32_of_lt ra1.read_charge_lt
      obtain ⟨l1', hl1', sg⟩ := HandleRead_SameL1Geom h1 l1 hl0
      have hns2 : len - (l1.config_.line_size - l1.GetOffset addr) ≤
          l1'.config_.line_size -
            l1'.GetOffset (addr + (l1.config_.line_size - l1.GetOffset addr)) := by
        rw [sg.1, CacheLevel.SameGeom.GetOffset sg, hoff]
        exact hone
      obtain ⟨ch2, hd2, ra2⟩ := HandleRead_L1_line hl1' hns2 h2
      have e2 : d2 = ch2 := by
        rw [hd2, Nat.zero_add]
        exact u32_of_lt ra2.read_charge_lt
      rw [sg.1] at ra2
      have hf : fuel - 1 - 1 = fuel - 2 := by omega
      rw [hf, ← e1] at ra1
      rw [hf, ← e2] at ra2
      refine ⟨c1, out1, d1, cc, out2, d2, h1, h2, ra1, ra2, rfl, rfl, ?_⟩
      show (cc.statsAt 0).accesses = _
      rw [ra2.1, ra1.1]
      show u64 (u64 ((c.statsAt 0).accesses + 1) + 1) = _
      unfold u64
      omega
  · intro inp c' hinp h
    subst hinp
    unfold TieredCache.WriteSpan at h
    rw [hne] at h
    simp only [Bool.false_eq_true, if_false] at h
    cases hH : HandleWrite fuel
        { c with current_cycle_ := u64 (c.current_cycle_ + 1), last_access_latency_ := 0 }
        0 addr (Span.buf inp) 0 with
    | error e =>
      rw [hH] at h
      cases h
    | ok r =>
      obtain ⟨cc, ll⟩ := r
      rw [hH] at h
      simp only [Except.ok.injEq] at h
      subst h
      have hcross' : l1.config_.line_size - l1.GetOffset addr < (Span.buf inp).size := hcross
      obtain ⟨c1, d1, d2, h1, h2, rfl⟩ := HandleWrite_crossing hl0 hcross' hH
      rw [hu] at h2
      have hs1 : ((Span.buf inp).subspan 0 (l1.config_.line_size - l1.GetOffset addr)).size ≤
          l1.config_.line_size - l1.GetOffset addr := by
        show ((inp.drop 0).take _).length ≤ _
        rw [List.length_take]
        exact Nat.min_le_left _ _
      obtain ⟨ch1, hd1, wa1⟩ := HandleWrite_L1_line hl0 hs1 h1
      have e1 : d1 = ch1 := by
        rw [hd1, Nat.zero_add]
        exact u32_of_lt wa1.write_charge_lt
      obtain ⟨l1', hl1', sg⟩ := HandleWrite_SameL1Geom h1 l1 hl0
      have hs2 : ((Span.buf inp).subspan (l1.config_.line_size - l1.GetOffset addr)
          ((Span.buf inp).size - (l1.config_.line_size - l1.GetOffset addr))).size ≤
          l1'.config_.line_size -
            l1'.GetOffset (addr + (l1.config_.line_size - l1.GetOffset addr)) := by
        rw [sg.1, CacheLevel.SameGeom.GetOffset sg, hoff]
        show ((inp.drop _).take _).length ≤ _
        rw [List.length_take]
        exact le_trans (Nat.min_le_left _ _) hone
      obtain ⟨ch2, hd2, wa2⟩ := HandleWrite_L1_line hl1' hs2 h2
      have e2 : d2 = ch2 := by
        rw [hd2, Nat.zero_add]
        exact u32_of_lt wa2.write_charge_lt
      rw [sg.1] at wa2
      have hf : fuel - 1 - 2 = fuel - 3 := by omega
      rw [hf, ← e1] at wa1
      rw [hf, ← e2] at wa2
      refine ⟨c1, d1, cc, d2, h1, h2, wa1, wa2, rfl, ?_⟩
      have hcc : ∀ n m, (c1.statsAt 0).accesses = u64 ((c.statsAt 0).accesses + n) →
          (cc.statsAt 0).accesses = u64 ((c1.statsAt 0).accesses + m) →
          (cc.statsAt 0).accesses = u64 ((c.statsAt 0).accesses + (n + m)) := by
        intro n m hn hm
        rw [hm, hn]
        unfold u64
        omega
      by_cases r1 : TieredCache.resident
          { c with current_cycle_ := u64 (c.current_cycle_ + 1), last_access_latency_ := 0 }
          0 addr
      · by_cases r2 : c1.resident 0 (addr + (l1.config_.line_size - l1.GetOffset addr))
        · exact ⟨1 + 1, by norm_num, by norm_num, hcc 1 1 (wa1.1 r1).1 (wa2.1 r2).1⟩
        · exact ⟨1 + 2, by norm_num, by norm_num, hcc 1 2 (wa1.1 r1).1 (wa2.2 r2).1⟩
      · by_cases r2 : c1.resident 0 (addr + (l1.config_.line_size - l1.GetOffset addr))
        · exact ⟨2 + 1, by norm_num, by norm_num, hcc 2 1 (wa1.2 r1).1 (wa2.1 r2).1⟩
        · exact ⟨2 + 2, by norm_num, by norm_num, hcc 2 2 (wa1.2 r1).1 (wa2.2 r2).1⟩

/-- The level of the examples has the geometry its constructor gives. -/
theorem exampleSmallLevel_GeoOK : exampleSmallLevel.GeoOK :=
  CacheLevel.new_GeoOK
    (show CacheLevel.new { size := 8, associativity := 2, line_size := 4 } =
      .ok exampleSmallLevel from by decide) (by norm_num) (by norm_num)

/-- Example of `line_crossing_access_is_two_accesses`: on the fresh cache `exampleTwoLevelCache` (4-byte lines, latency 4 at both
levels, no memory latency) the 4 bytes at address 2 cross the line boundary at 4 with
`rem = 2`. `ReadSpan(2, 4 bytes)` returns with 2 accesses and 2 misses at L1 and the latency
16 = (4 + 4) + (4 + 4); `WriteSpan(2, [1, 2, 3, 4])` returns with 4 accesses and 4 misses and
the latency 24. -/
theorem line_crossing_access_is_two_accesses_witness :
    (exampleTwoLevelCache.ReadSpan 8 2 4).map (fun r => (r.1.l1Summary, r.2)) =
      .ok ((2, 0, 2, 16), [0, 0, 0, 0]) ∧
    (exampleTwoLevelCache.WriteSpan 8 2 [1, 2, 3, 4]).map (fun r => r.l1Summary) =
      .ok (4, 0, 4, 24) ∧
    (∀ c' out, exampleTwoLevelCache.ReadSpan 8 2 4 = .ok (c', out) →
      ∃ c1 out1 d1 c2 out2 d2,
        HandleRead (8 - 1) exampleTwoLevelCounted 0 2 2 0 false = .ok (c1, out1, d1) ∧
        HandleRead (8 - 1) c1 0 (2 + 2) (4 - 2) 0 false = .ok (c2, out2, d2) ∧
        ReadAccounted (8 - 2) exampleTwoLevelCounted c1 exampleSmallLevel.config_.latency 2
          false d1 ∧
        ReadAccounted (8 - 2) c1 c2 exampleSmallLevel.config_.latency (2 + 2) false d2 ∧
        out = out1 ++ out2 ∧
        c' = { c2 with last_access_latency_ := u32 (d1 + d2) } ∧
        (c'.statsAt 0).accesses = u64 ((exampleTwoLevelCache.statsAt 0).accesses + 2)) ∧
    (∀ inp c', inp.length = 4 → exampleTwoLevelCache.WriteSpan 8 2 inp = .ok c' →
      ∃ c1 d1 c2 d2,
        HandleWrite (8 - 1) exampleTwoLevelCounted 0 2 ((Span.buf inp).subspan 0 2) 0 =
          .ok (c1, d1) ∧
        HandleWrite (8 - 1) c1 0 (2 + 2) ((Span.buf inp).subspan 2 (4 - 2)) 0 = .ok (c2, d2) ∧
        WriteAccounted (8 - 3) exampleTwoLevelCounted c1 exampleSmallLevel.config_.latency 2
          d1 ∧
        WriteAccounted (8 - 3) c1 c2 exampleSmallLevel.config_.latency (2 + 2) d2 ∧
        c' = { c2 with last_access_latency_ := u32 (d1 + d2) } ∧
        ∃ n, 2 ≤ n ∧ n ≤ 4 ∧
          (c'.statsAt 0).accesses = u64 ((exampleTwoLevelCache.statsAt 0).accesses + n)) :=
  ⟨by decide!, by decide!,
   line_crossing_access_is_two_accesses 8 exampleTwoLevelCache exampleTwoLevelCounted
     exampleSmallLevel 2 4 2 rfl exampleSmallLevel_GeoOK (by norm_num) rfl (by decide)
     (by norm_num) (by decide)⟩

/-- C34: a line-crossing `WriteSpan` that the code never finishes.  The inclusive hierarchy
`exampleStuckOpts` (L1 16 bytes 4-way, L2 8 bytes 2-way, 4-byte lines) over 128 zero bytes
is in the state `exampleStuckStart` after a 1-byte load at 0 and a 1-byte store at 4.  The
range of `WriteSpan(15, 4 bytes)` crosses exactly one L1 line boundary (one byte is left in
the line of 15, the other three fit in the next line).  Its first part returns (with 5 units
of fuel or more), its second part does not: with whatever fuel the call runs out of it,
because `BackInvalidate(0, 4)` and `BackInvalidate(0, 12)` call each other without end (in
C++ the recursion overflows the stack), so no counter and no latency is ever reported. -/
theorem line_crossing_write_never_returns :
    TieredCache.runFresh 32 exampleStuckOpts (Memory.new 128) [] exampleStuckCalls =
      .ok exampleStuckStart ∧
    (exampleStuckStart.levels_[0]?.map
        (fun l1 => (l1.config_.line_size - l1.GetOffset 15, l1.config_.line_size))) =
      some (1, 4) ∧
    (∀ n, HandleWrite (n + 5) exampleStuckEntered 0 15 ((Span.buf [1, 2, 3, 4]).subspan 0 1) 0 =
      .ok (exampleStuckMid, 12)) ∧
    (∀ fuel, HandleWrite fuel exampleStuckMid 0 16 ((Span.buf [1, 2, 3, 4]).subspan 1 3) 12 =
      .error Fault.out_of_fuel) ∧
    ∀ fuel, exampleStuckStart.WriteSpan fuel 15 [1, 2, 3, 4] = .error Fault.out_of_fuel :=
  ⟨by decide!, by decide!, exampleStuckEntered_first_part, exampleStuckMid_second_part,
    exampleStuckStart_WriteSpan⟩

end MultilevelCache

namespace TrapHandling

/-- C35: for an ECALL whose system-call number `op2` (the value of A7) is 10, `ExecuteInst`
returns: it does not throw, `*exit_ctrl` keeps its value, `out` keeps its value and `dest_reg`
is 0 (of the other fields only `jump_pc`, set to `pc + 4` for every instruction, changes).
`WriteBack` (of the pipeline in `five_stage_simulator.cc`) then returns on the executed
operation, in every pipeline state, with the register file as it was. -/
theorem ECALL_syscall_10_writes_no_register (fuel : Nat) (op : PipeOp) (exit_ctrl : Bool)
    (mem : Memory) (inp : Stdin) (ht : op.inst_type = InstType.ECALL) (h10 : op.op2 = 10) :
    ∃ e : PipeOp,
      ExecuteInst fuel op exit_ctrl mem inp = .ok (e, exit_ctrl) ∧
      e = { op with jump_pc := toUInt32 (wrap64 (toInt64 op.pc + 4)), dest_reg := 0 } ∧
      e.dest_reg = 0 ∧ e.out = op.out ∧
      ∀ (s : BranchPrediction.FiveStageSimulator) (predicted_taken : Bool),
        ∃ s', ({ s with wb_op_ := some ⟨e, predicted_taken⟩ }).WriteBack = .ok s' ∧
          s'.regs_ = s.regs_ := by
  refine ⟨{ op with jump_pc := toUInt32 (wrap64 (toInt64 op.pc + 4)), dest_reg := 0 },
    ?_, rfl, rfl, rfl, fun s pt => ⟨_, rfl, rfl⟩⟩
  unfold ExecuteInst
  simp only [ht, h10, if_true]

/-- C35 witness: the ECALL of `exampleEcallOp` with 10 in A7. -/
theorem ECALL_syscall_10_writes_no_register_witness :
    ∃ e : PipeOp,
      ExecuteInst 0 { exampleEcallOp with op2 := 10 } false exampleZeroMem {} = .ok (e, false) ∧
      e = { ({ exampleEcallOp with op2 := 10 } : PipeOp) with
            jump_pc := toUInt32 (wrap64 (toInt64 0 + 4)), dest_reg := 0 } ∧
      e.dest_reg = 0 ∧ e.out = 0 ∧
      ∀ (s : BranchPrediction.FiveStageSimulator) (predicted_taken : Bool),
        ∃ s', ({ s with wb_op_ := some ⟨e, predicted_taken⟩ }).WriteBack = .ok s' ∧
          s'.regs_ = s.regs_ :=
  ECALL_syscall_10_writes_no_register 0 { exampleEcallOp with op2 := 10 } false exampleZeroMem {}
    rfl rfl

end TrapHandling

namespace MultilevelCache

/-- C36: the cache is not transparent. In the inclusive hierarchy `exampleTwoLevelOpts` (two
levels of 8 bytes, 2-way, 4-byte lines, LRU) over 64 zero bytes, the calls
`WriteSpan(4, [1])`, `WriteSpan(8, [2])`, `WriteSpan(4, [3])`, `ReadSpan(0, 1 byte)`,
`ReadSpan(4, 1 byte)` all return, and the last read returns 0, whereas the byte most recently
written to address 4 is 3, which is what the flat memory returns. -/
theorem transparency_lost_after_five_calls :
    TieredCache.readsFresh 40 exampleTwoLevelOpts (Memory.new 64) exampleLostStoreCalls =
      .ok [[0], [0]] ∧
    flatReads (List.replicate 64 0) exampleLostStoreCalls = [[0], [3]] := by
  constructor
  · decide!
  · decide

end MultilevelCache

namespace MultilevelCache

/-- C37: `BackInvalidate(1, 0)` can return with the line of address 0 valid at level 1. In
the state `exampleBeforeBackInvalidate` (the call made by `HandleRead` at L3 during
`ReadSpan(8, 1)`) the line of address 0 is dirty in L1 and clean in L2; the call returns, and
afterwards the line is not in L1 but is valid, and dirty, in L2: the write-back of the L1
copy was issued to L2 after L2 had been invalidated, and allocated the line there again.
The same happens when `BackInvalidate(1, 0)` runs in the state that the single call
`WriteSpan(0, [1])` leaves. -/
theorem BackInvalidate_leaves_line_valid :
    exampleBeforeBackInvalidate.map (fun c => c.linesOf 0) =
      .ok [some true, some false, none] ∧
    (match exampleBeforeBackInvalidate with
     | .error e => .error e
     | .ok c => (BackInvalidate 50 c 1 0).map (fun c => c.linesOf 0)) =
      Except.ok [none, some true, some false] ∧
    (match TieredCache.runFresh 32 exampleThreeLevelOpts (Memory.new 128) []
        [Call.write 0 [1]] with
     | .error e => .error e
     | .ok c => (BackInvalidate 50 c 1 0).map (fun c => c.linesOf 0)) =
      Except.ok [none, some true, some false] := by
  refine ⟨?_, ?_, ?_⟩ <;> decide!

end MultilevelCache

namespace MultilevelCache

/-- C38: the claim fails for the accesses that end at the last byte of the arena. For every
arena `m` and every address `addr`, the `ReadSpan` and the `WriteSpan` of the
`m.arena_.length - addr` bytes from `addr` up to the end of the arena fail with the access
error (`CheckAddr` throws on `addr + len >= arena_.size()`); on a 16-byte arena the 4 bytes at
12 and the single byte at 15 are refused, the 4 bytes at 11 are read. -/
theorem Memory_access_ending_at_last_byte_fails :
    (∀ (m : Memory) (addr : Nat),
      m.ReadSpan addr (m.arena_.length - addr) = .error Fault.invalid_memory_access ∧
      m.WriteSpan addr (List.replicate (m.arena_.length - addr) 0) =
        .error Fault.invalid_memory_access) ∧
    (Memory.new 16).ReadSpan 12 4 = .error Fault.invalid_memory_access ∧
    (Memory.new 16).WriteSpan 12 [1, 2, 3, 4] = .error Fault.invalid_memory_access ∧
    (Memory.new 16).ReadSpan 15 1 = .error Fault.invalid_memory_access ∧
    (Memory.new 16).ReadSpan 11 4 = .ok [0, 0, 0, 0] := by
  refine ⟨fun m addr => ?_, by decide, by decide, by decide, by decide⟩
  have hc : m.CheckAddr addr (m.arena_.length - addr) = .error Fault.invalid_memory_access := by
    unfold Memory.CheckAddr
    rw [if_pos (by omega)]
  constructor
  · unfold Memory.ReadSpan
    rw [hc]
  · unfold Memory.WriteSpan
    rw [List.length_replicate, hc]

end MultilevelCache

namespace TrapHandling

set_option maxHeartbeats 4000000 in
/-- The decoder reads of the register file only the registers `rs1` and `rs2` of the operation
it returns. -/
theorem DecodeInst_reads_sources (op d : PipeOp) (regs regs' : Regs)
    (h : DecodeInst op regs = .ok d)
    (hr : ∀ r : Nat, ((r : Int) = d.rs1 ∨ (r : Int) = d.rs2) → regs' r = regs r) :
    DecodeInst op regs' = .ok d := by
  have hlt := funct3_lt op.inst
  rcases opcode_cases (op.inst &&& 0x7F) with
    ho | ho | ho | ho | ho | ho | ho | ho | ho | ho | ho | ho |
    ⟨n1, n2, n3, n4, n5, n6, n7, n8, n9, n10, n11, n12⟩
  pick_goal 13
  · unfold DecodeInst at h
    simp only [n1, n2, n3, n4, n5, n6, n7, n8, n9, n10, n11, n12, if_false] at h
    cases h
  all_goals
    unfold DecodeInst at h ⊢
    simp only [ho, OP_REG, OP_IMM, OP_LUI, OP_AUIPC, OP_JAL, OP_JALR, OP_BRANCH, OP_STORE,
      OP_LOAD, OP_SYSTEM, OP_IMM32, OP_32] at h ⊢
    norm_num at h ⊢
  all_goals
    generalize hf : (op.inst >>> 12) &&& 0x7 = f at h hlt ⊢
    try (interval_cases f <;> simp only at h ⊢)
  all_goals
    try split_ifs at h ⊢
  all_goals first
    | (cases h; done)
    | (cases h
       first
         | rfl
         | rw [hr _ (Or.inl rfl), hr _ (Or.inr rfl)]
         | rw [hr _ (Or.inl rfl)])

end TrapHandling

namespace BranchPrediction

open TrapHandling (Regs toInt64 toUInt32 toUInt64 InstType IsBranch IsJump)

/-- The stand-in decoder reads only the source registers of the operation it returns. -/
theorem trapIsa_ReadsSources (fuel : Nat) (inp : TrapHandling.Stdin) :
    (trapIsa fuel inp).ReadsSources := by
  intro raw d regs regs' h hr
  rw [trapIsa_DecodeInst] at h ⊢
  cases hd : TrapHandling.DecodeInst raw.toPipeOp regs with
  | error e =>
    rw [hd] at h
    cases h
  | ok o =>
    rw [hd] at h
    cases h
    rw [TrapHandling.DecodeInst_reads_sources raw.toPipeOp o regs regs' hd hr]

/-- The pass of the loop of `Run` on `exampleBusy`. -/
theorem exampleBusy_Cycle : exampleBusy.Cycle exampleIsa = .ok exampleBusyAfter := by
  set_option maxRecDepth 100000 in
  rfl

end BranchPrediction

namespace BranchPrediction

open TrapHandling (Regs toInt64 toUInt32 toUInt64 InstType IsBranch IsJump)

/-- C39: let a pass of the loop of `Run` return with an operation `op` in the execute slot.
Then `Decode` has moved it there in this pass: it is the decoding `d` (up to the prediction
bit) of the operation `raw` that was in the decode slot when the pass began, and `DecodeInst`
was given the register file that the pass ends with.  No operation in the memory slot or in
the write-back slot at the end of the pass has a `dest_reg > 0` equal to `rs1` or `rs2` of
`op`.  So the operands are current: for a decoder that reads only the source registers it
names, decoding `raw` against any register file that differs from the one at the end of the
pass only in registers that the operations in the memory and write-back slots will write
gives the same operation, with the same `op1` and `op2`. -/
theorem execute_slot_sources_not_pending (isa : Isa) (s s' : FiveStageSimulator) (op : PipeOp)
    (hc : s.Cycle isa = .ok s') (hx : s'.execute_op_ = some op) :
    (∃ raw d, s.decode_op_ = some raw ∧ isa.DecodeInst raw s'.regs_ = some d ∧
      op.toPipeOp = d.toPipeOp ∧
      (isa.ReadsSources → ∀ regs' : Regs, s'.PendingWrites regs' →
        isa.DecodeInst raw regs' = some d ∧ op.op1 = d.op1 ∧ op.op2 = d.op2)) ∧
    (∀ m, s'.mem_op_ = some m → 0 < m.dest_reg → m.dest_reg ≠ op.rs1 ∧ m.dest_reg ≠ op.rs2) ∧
    (∀ w, s'.wb_op_ = some w → 0 < w.dest_reg → w.dest_reg ≠ op.rs1 ∧ w.dest_reg ≠ op.rs2) := by
  obtain ⟨w, m, x, y, f, hw, hm, hex, hy, hf, rfl⟩ := Cycle_stages isa hc
  change f.execute_op_ = some op at hx
  obtain ⟨f1, f2, f3, -, -, f6⟩ := Fetch_slots hf
  obtain ⟨w1, w2, w3, w4⟩ := WriteBack_slots hw
  obtain ⟨m1, m2, m3, m4⟩ := MemoryAccess_slots hm w1
  obtain ⟨x1, x2, x3, x4⟩ := Execute_slots isa hex m1
  obtain ⟨⟨raw, d, d1, d2, d3, d4, d5⟩, y1, y2, y3, y4, y5⟩ :=
    Decode_slots isa hy x1 op (f1 ▸ hx)
  have hp : s.Prologue.decode_op_ = s.decode_op_ := by
    unfold FiveStageSimulator.Prologue
    split_ifs <;> rfl
  have hr1 : op.rs1 = d.rs1 := congrArg TrapHandling.PipeOp.rs1 d3
  have hr2 : op.rs2 = d.rs2 := congrArg TrapHandling.PipeOp.rs2 d3
  have n1 : ¬ (0 < d.rs1 ∧ (d.rs1 = x.data_hazard_execute_op_dest_ ∨
      d.rs1 = x.data_hazard_mem_op_dest_ ∨ d.rs1 = x.data_hazard_wb_op_dest_)) := by
    rw [← wait_for_data_iff, d4]
    exact Bool.false_ne_true
  have n2 : ¬ (0 < d.rs2 ∧ (d.rs2 = x.data_hazard_execute_op_dest_ ∨
      d.rs2 = x.data_hazard_mem_op_dest_ ∨ d.rs2 = x.data_hazard_wb_op_dest_)) := by
    rw [← wait_for_data_iff, d5]
    exact Bool.false_ne_true
  have hmem : ∀ mo, f.mem_op_ = some mo → 0 < mo.dest_reg →
      mo.dest_reg ≠ op.rs1 ∧ mo.dest_reg ≠ op.rs2 := by
    intro mo hmo hpos
    rw [f2, y1] at hmo
    have hdest := x4 mo hmo
    rw [hr1, hr2]
    constructor
    · intro he
      exact n1 ⟨by omega, Or.inl (by omega)⟩
    · intro he
      exact n2 ⟨by omega, Or.inl (by omega)⟩
  have hwb : ∀ wo, f.wb_op_ = some wo → 0 < wo.dest_reg →
      wo.dest_reg ≠ op.rs1 ∧ wo.dest_reg ≠ op.rs2 := by
    intro wo hwo hpos
    rw [f3, y2, x2] at hwo
    have hdest := m4 wo hwo
    rw [hr1, hr2]
    constructor
    · intro he
      exact n1 ⟨by omega, Or.inr (Or.inl (by omega))⟩
    · intro he
      exact n2 ⟨by omega, Or.inr (Or.inl (by omega))⟩
  have hdec : isa.DecodeInst raw f.regs_ = some d := by
    rw [f6, Decode_regs isa hy]
    exact d2
  refine ⟨⟨raw, d, ?_, hdec, d3, ?_⟩, hmem, hwb⟩
  · rcases Execute_decode_op isa hex with h | h
    · rw [← hp, ← w4, ← m3, ← h]
      exact d1
    · rw [h] at d1
      cases d1
  · intro hloc regs' hpend
    refine ⟨hloc raw d f.regs_ regs' hdec ?_, congrArg TrapHandling.PipeOp.op1 d3,
      congrArg TrapHandling.PipeOp.op2 d3⟩
    intro r hr
    by_contra hne
    rcases hpend r hne with ⟨mo, hmo, hpos, he⟩ | ⟨wo, hwo, hpos, he⟩
    · obtain ⟨a1, a2⟩ := hmem mo hmo hpos
      rw [hr1] at a1
      rw [hr2] at a2
      rcases hr with hr | hr
      · exact a1 (he.trans hr)
      · exact a2 (he.trans hr)
    · obtain ⟨a1, a2⟩ := hwb wo hwo hpos
      rw [hr1] at a1
      rw [hr2] at a2
      rcases hr with hr | hr
      · exact a1 (he.trans hr)
      · exact a2 (he.trans hr)

/-- The pass of the loop of `Run` on `exampleLwFetched`, for a decoder that decodes the
fetched word to `exampleDecodedLw`. -/
theorem exampleLwFetched_Cycle_of (isa : Isa)
    (hdec : isa.DecodeInst { inst := LW_X5_0_X6, pc := 0 } exampleLwAdd.regs_ =
      some exampleDecodedLw) :
    exampleLwFetched.Cycle isa = .ok exampleLwInExecute := by
  have hd : exampleLwFetched.Prologue.Decode isa =
      .ok { exampleLwFetched with decode_op_ := none,
                                  execute_op_ := some exampleDecodedLw } := by
    unfold FiveStageSimulator.Decode
    have hp : exampleLwFetched.Prologue.decode_op_ = some { inst := LW_X5_0_X6, pc := 0 } := rfl
    have hr : exampleLwFetched.Prologue.regs_ = exampleLwAdd.regs_ := rfl
    rw [hp]
    simp only [ne_eq, not_true_eq_false, if_false, hr, hdec]
    rfl
  unfold FiveStageSimulator.Cycle
  rw [if_neg (by decide), if_neg (by decide)]
  have hst : exampleLwFetched.Prologue.Stages isa =
      .ok { exampleLwFetched with decode_op_ := none,
                                  execute_op_ := some exampleDecodedLw } := by
    unfold FiveStageSimulator.Stages
    have h1 : exampleLwFetched.Prologue.WriteBack = .ok exampleLwFetched.Prologue := rfl
    have h2 : exampleLwFetched.Prologue.MemoryAccess = .ok exampleLwFetched.Prologue := rfl
    have h3 : exampleLwFetched.Prologue.Execute isa = .ok exampleLwFetched.Prologue := rfl
    simp only [h1, h2, h3, hd]
    rfl
  rw [hst]
  rfl

/-- The register file `exampleRegsAfterWrites` differs from the one of `exampleBusyAfter`
only in `x7` and `x8`, which the operations in its memory and write-back slots write. -/
theorem exampleBusyAfter_PendingWrites :
    exampleBusyAfter.PendingWrites exampleRegsAfterWrites := by
  intro r hne
  by_cases h8 : r = 8
  · exact Or.inr ⟨exampleExecutedAddi, rfl, by decide, by rw [h8]; rfl⟩
  · by_cases h7 : r = 7
    · exact Or.inl ⟨exampleExecutedLw7, rfl, by decide, by rw [h7]; rfl⟩
    · exfalso
      apply hne
      show (if r = 8 then 5 else if r = 7 then 42 else if r = 6 then 32 else 0) =
        (if r = 6 then 32 else 0)
      rw [if_neg h8, if_neg h7]

/-- C39 witness: the pass on `exampleBusy` returns `exampleBusyAfter` with the decoded
`lw x5, 0(x6)` in the execute slot, the executed `lw x7, 0(x6)` in the memory slot and
`addi x8, x0, 5` in the write-back slot: neither `x7` nor `x8` is the source `x6`, and the
operand 32 is also what the decoder reads from the register file after both writes. -/
theorem execute_slot_sources_not_pending_witness :
    exampleBusy.Cycle exampleIsa = .ok exampleBusyAfter ∧
    exampleBusyAfter.execute_op_ = some exampleDecodedLw5 ∧
    exampleBusyAfter.mem_op_ = some exampleExecutedLw7 ∧
    exampleBusyAfter.wb_op_ = some exampleExecutedAddi ∧
    exampleExecutedLw7.dest_reg = 7 ∧ exampleExecutedAddi.dest_reg = 8 ∧
    exampleDecodedLw5.rs1 = 6 ∧ exampleDecodedLw5.op1 = 32 ∧
    exampleIsa.ReadsSources ∧ exampleBusyAfter.PendingWrites exampleRegsAfterWrites ∧
    exampleIsa.DecodeInst exampleFetchedLw5 exampleRegsAfterWrites = some exampleDecodedLw5 ∧
    ((∃ raw d, exampleBusy.decode_op_ = some raw ∧
        exampleIsa.DecodeInst raw exampleBusyAfter.regs_ = some d ∧
        exampleDecodedLw5.toPipeOp = d.toPipeOp ∧
        (exampleIsa.ReadsSources → ∀ regs' : Regs, exampleBusyAfter.PendingWrites regs' →
          exampleIsa.DecodeInst raw regs' = some d ∧ exampleDecodedLw5.op1 = d.op1 ∧
            exampleDecodedLw5.op2 = d.op2)) ∧
      (∀ m, exampleBusyAfter.mem_op_ = some m → 0 < m.dest_reg →
        m.dest_reg ≠ exampleDecodedLw5.rs1 ∧ m.dest_reg ≠ exampleDecodedLw5.rs2) ∧
      (∀ w, exampleBusyAfter.wb_op_ = some w → 0 < w.dest_reg →
        w.dest_reg ≠ exampleDecodedLw5.rs1 ∧ w.dest_reg ≠ exampleDecodedLw5.rs2)) :=
  ⟨exampleBusy_Cycle, rfl, rfl, rfl, rfl, rfl, rfl, rfl, trapIsa_ReadsSources 0 {},
   exampleBusyAfter_PendingWrites,
   trapIsa_DecodeInst_LW 0 {} 8 4 InstType.UNKNOWN (-1) (-1) 0 0 (-1) 0 0 false false
     false 0 false 0 false exampleRegsAfterWrites,
   execute_slot_sources_not_pending exampleIsa exampleBusy exampleBusyAfter
     exampleDecodedLw5 exampleBusy_Cycle rfl⟩

end BranchPrediction

namespace MultilevelCache

/-- C40: for a level that `CacheLevel::CacheLevel` constructed from a configuration `cfg`
(whose `size` and `line_size` are 64-bit values) and for all addresses `a`, `b` below `2^64`
(so for every 32-bit address): `GetAddr(GetTag(a), GetIndex(a)) + GetOffset(a) = a`,
`GetOffset(a) < line_size`, `GetIndex(a) < num_sets_`, and `a` and `b` have the same tag and
index exactly when they lie in the same `line_size`-aligned line. -/
theorem CacheLevel_address_decomposition (cfg : CacheLevelConfig) (lv : CacheLevel)
    (hls : cfg.line_size < 2 ^ 64) (hsz : cfg.size < 2 ^ 64)
    (h : CacheLevel.new cfg = .ok lv) (a b : Nat) (ha : a < 2 ^ 64) :
    lv.GetAddr (lv.GetTag a) (lv.GetIndex a) + lv.GetOffset a = a ∧
    lv.GetOffset a < cfg.line_size ∧
    lv.GetIndex a < lv.num_sets_ ∧
    ((lv.GetTag a = lv.GetTag b ∧ lv.GetIndex a = lv.GetIndex b) ↔
      a / cfg.line_size = b / cfg.line_size) := by
  have g := CacheLevel.new_GeoOK h hls hsz
  have hcfg : lv.config_ = cfg := (CacheLevel.new_fields h).2.2.2.2.2.2.2.1
  have hl : cfg.line_size = 2 ^ lv.offset_bits_ := by rw [← hcfg]; exact g.line_size_eq
  refine ⟨?_, ?_, ?_, ?_⟩
  · rw [g.GetAddr_key a ha, g.GetOffset_eq, lineNo, Nat.shiftRight_eq_div_pow,
      Nat.mul_comm]
    exact Nat.div_add_mod a _
  · rw [g.GetOffset_eq, hl]
    exact Nat.mod_lt _ (by positivity)
  · rw [← g.sets_length]
    exact g.GetIndex_lt a
  · rw [g.key_eq_iff, lineNo, lineNo, Nat.shiftRight_eq_div_pow, Nat.shiftRight_eq_div_pow, hl]

/-- C40 witness: the level of 32 bytes, 2 ways and 4-byte lines, and the addresses 13 and
14 of the line that starts at 12. -/
theorem CacheLevel_address_decomposition_witness :
    (exampleLevelConfig.line_size < 2 ^ 64 ∧ exampleLevelConfig.size < 2 ^ 64 ∧
      CacheLevel.new exampleLevelConfig = .ok exampleLevel ∧ 13 < 2 ^ 64) ∧
    (exampleLevel.GetAddr (exampleLevel.GetTag 13) (exampleLevel.GetIndex 13) +
        exampleLevel.GetOffset 13 = 13 ∧
      exampleLevel.GetOffset 13 < exampleLevelConfig.line_size ∧
      exampleLevel.GetIndex 13 < exampleLevel.num_sets_ ∧
      ((exampleLevel.GetTag 13 = exampleLevel.GetTag 14 ∧
          exampleLevel.GetIndex 13 = exampleLevel.GetIndex 14) ↔
        13 / exampleLevelConfig.line_size = 14 / exampleLevelConfig.line_size)) :=
  ⟨⟨by decide, by decide, by decide, by decide⟩,
   CacheLevel_address_decomposition exampleLevelConfig exampleLevel (by decide) (by decide)
     (by decide) 13 14 (by decide)⟩

end MultilevelCache
